import Mathlib

/-!
IPAM allocation engine: a shallow embedding and its verified properties

The Go sources embedded here are `pkg/allocator/bitmap.go`, `pkg/ipam/pool.go`,
`pkg/allocator/ipv6.go`, `pkg/topology/types.go`, `pkg/topology/subnet_pool.go`,
`pkg/ipam/topology_pool.go`, `pkg/raft/fsm.go`, `pkg/raft/topology_fsm.go` and
`pkg/server/grpc.go`.

Conventions of the embedding.

* Go `int` is the 64-bit signed integer; it is modelled by `Int`.  No computation on an
  `int` that the theorems below reason about leaves the 64-bit range (positions and counts
  are bounded by the bitmap size), the one exception being the shift in `NewIPBlock`, which
  is modelled with its wrap-around.
* Go `uint64` and `uint32` are modelled by `Nat` with an explicit reduction modulo
  `2 ^ 64` resp. `2 ^ 32` wherever the Go operation can wrap.
* A mutating method `func (x *T) M(args) error` becomes a function
  `T.M : T → args → T × Option Err`: the state after the call and the error, `none`
  standing for `nil`.  A method with a result becomes `T → args → T × Except Err result`.
* An error wrapped with `fmt.Errorf("...: %w", err)` is represented by the error it wraps.
* JSON text is represented by what `json.Unmarshal` makes of it: a log entry by the
  command it decodes to, the `data` field of a command by its decoding into each of the
  data structs, a snapshot by the snapshot data it decodes to; `none` stands for a
  decoding error.
* Floating-point fields of the statistics (`UsageRate`) are left out.  The one
  floating-point computation that decides a branch, `int(float64(Total)*0.2)` in the server,
  is computed exactly, with the rounding of IEEE 754 binary64.
* Mutexes, time stamps (`CreatedAt`, `AllocatedAt`) are left out: every method holds its
  lock for the whole call, so the calls are sequentially consistent.
-/

namespace Ipam

/-- The distinct errors the embedded code returns; the Go code builds most of them with
`fmt.Errorf`, the named ones are its package-level `Err...` values. -/
inductive Err where
  /-- Bitmap: `position %d out of range [0, %d)`. -/
  | positionOutOfRange
  /-- Bitmap: `bit %d already set`. -/
  | bitAlreadySet
  /-- Bitmap: `bit %d already clear`. -/
  | bitAlreadyClear
  /-- Allocator: `ErrNoAvailableIP`. -/
  | ErrNoAvailableIP
  /-- Allocator: `ErrInvalidIP`. -/
  | ErrInvalidIP
  /-- Allocator: `ErrIPNotInBlock`. -/
  | ErrIPNotInBlock
  /-- Wrapped error of `net.ParseCIDR`: `invalid CIDR %s`. -/
  | invalidCIDR
  /-- The message `CIDR %s has no usable IPs`. -/
  | noUsableIPs
  /-- Pool: `ErrNodeNotFound`. -/
  | ErrNodeNotFound
  /-- Pool: `ErrBlockNotFound`. -/
  | ErrBlockNotFound
  /-- Pool: `ErrCIDRExhausted`. -/
  | ErrCIDRExhausted
  /-- Pool: `ErrBlockInUse`. -/
  | ErrBlockInUse
  /-- Pool: `invalid block size %d for CIDR /%d`. -/
  | invalidBlockSize
  /-- Pool: `IPv6 not supported yet`. -/
  | ipv6NotSupported
  /-- Topology: `zone %s already exists`. -/
  | zoneExists
  /-- Topology: `zone %s not found`. -/
  | zoneNotFound
  /-- Topology: `pod %s already exists`. -/
  | podExists
  /-- Topology: `pod %s not found`. -/
  | podNotFound
  /-- Topology: `TOR %s already exists`. -/
  | torExists
  /-- Topology: `TOR %s not found`. -/
  | torNotFound
  /-- Topology: `node %s already registered`. -/
  | nodeRegistered
  /-- Topology: `node %s not found`. -/
  | nodeNotFound
  /-- Topology: `subnet %s already exists in TOR %s`. -/
  | subnetExistsInTOR
  /-- Subnet pool: `subnet %s already exists in pool`. -/
  | subnetExistsInPool
  /-- Subnet pool: `no available subnet in pool for purpose %s`. -/
  | noAvailableSubnet
  /-- Subnet pool: `no available IP in subnet %s`. -/
  | noAvailableIPInSubnet
  /-- Subnet pool: `IP %s not found in any subnet`. -/
  | ipNotInAnySubnet
  /-- Subnet pool: `IP %s not allocated`. -/
  | ipNotAllocated
  /-- Topology pool: `subnet pool not found for TOR %s`. -/
  | subnetPoolNotFound
  /-- IPv6 block: `not an IPv6 CIDR: %s`. -/
  | notIPv6CIDR
  /-- IPv6 block: `invalid IPv6 CIDR mask: %s`. -/
  | invalidIPv6Mask
  /-- Subnet pool: `IP %s not found in pool`. -/
  | ipNotInPool
  /-- Raft FSM: `failed to unmarshal command: %v`. -/
  | failedUnmarshalCommand
  /-- Raft FSM: `failed to unmarshal data: %v`. -/
  | failedUnmarshalData
  /-- Raft FSM: `unknown command type: %s`. -/
  | unknownCommandType
  /-- Raft FSM: `invalid IP address: %s`. -/
  | invalidIPAddress
  /-- Raft FSM: `failed to decode snapshot: %w`. -/
  | failedDecodeSnapshot
  deriving DecidableEq, Repr

/-- Results can be compared, so that the outcome of a call on a concrete input is decided
by evaluation. -/
instance instDecidableEqExcept {ε α : Type} [DecidableEq ε] [DecidableEq α] :
    DecidableEq (Except ε α)
  | Except.ok a, Except.ok b =>
    if h : a = b then isTrue (by rw [h]) else isFalse (fun hc => h (Except.ok.inj hc))
  | Except.error a, Except.error b =>
    if h : a = b then isTrue (by rw [h]) else isFalse (fun hc => h (Except.error.inj hc))
  | Except.ok _, Except.error _ => isFalse (fun hc => Except.noConfusion hc)
  | Except.error _, Except.ok _ => isFalse (fun hc => Except.noConfusion hc)

/-! ## `pkg/allocator/bitmap.go`: Bitmap -/

/-- The Go struct `Bitmap`: `bits []uint64`, `size int`, `allocated int`. -/
structure Bitmap where
  bits : List Nat
  size : Int
  allocated : Int
  deriving DecidableEq, Repr

/-- The `uint64` value `1 << bit`. -/
def bit64 (bit : Nat) : Nat := (1 <<< bit) % 2 ^ 64

/-- The `uint64` value `^uint64(0)`. -/
def allOnes64 : Nat := 2 ^ 64 - 1

/-- `NewBitmap(size)`: `n := (size + 63) / 64` words, all zero.  The model computes the
length without wrap-around and always returns a bitmap.  In Go `size + 63` is an `int` sum,
which wraps around for `size > 2 ^ 63 - 64`, and `make` panics on a negative length and on
one that exceeds the addressable memory; the model is the code for the sizes below that,
which are the sizes of all blocks and of all subnets of at most 32 host bits.  No theorem
below concludes that a call returns for a larger size. -/
def NewBitmap (size : Int) : Bitmap :=
  { bits := List.replicate ((size + 63).tdiv 64).toNat 0, size := size, allocated := 0 }

namespace Bitmap

/-- The word `b.bits[idx]`; the Go index expression panics out of range, which the
well-formed bitmaps below never reach. -/
def word (b : Bitmap) (idx : Nat) : Nat := b.bits.getD idx 0

/-- `Bitmap.Set(pos)`. -/
def Set (b : Bitmap) (pos : Int) : Bitmap × Option Err :=
  if pos < 0 ∨ pos ≥ b.size then (b, some Err.positionOutOfRange)
  else
    let idx := (pos.tdiv 64).toNat
    let bit := (pos.tmod 64).toNat
    if b.word idx &&& bit64 bit ≠ 0 then (b, some Err.bitAlreadySet)
    else
      ({ b with bits := b.bits.set idx (b.word idx ||| bit64 bit),
                allocated := b.allocated + 1 }, none)

/-- `Bitmap.Clear(pos)`; `x &^ m` is `x & (^m)`. -/
def Clear (b : Bitmap) (pos : Int) : Bitmap × Option Err :=
  if pos < 0 ∨ pos ≥ b.size then (b, some Err.positionOutOfRange)
  else
    let idx := (pos.tdiv 64).toNat
    let bit := (pos.tmod 64).toNat
    if b.word idx &&& bit64 bit = 0 then (b, some Err.bitAlreadyClear)
    else
      ({ b with bits := b.bits.set idx (b.word idx &&& (allOnes64 ^^^ bit64 bit)),
                allocated := b.allocated - 1 }, none)

/-- `Bitmap.IsSet(pos)`. -/
def IsSet (b : Bitmap) (pos : Int) : Bool :=
  if pos < 0 ∨ pos ≥ b.size then false
  else
    let idx := (pos.tdiv 64).toNat
    let bit := (pos.tmod 64).toNat
    decide (b.word idx &&& bit64 bit ≠ 0)

/-- The inner loop of `FindFirstZero` over `j`, started at `j` with `fuel` iterations
left: `some r` when the loop body returns `r`, `none` when the loop runs out. -/
def findInWord (b : Bitmap) (i : Nat) : Nat → Nat → Option Int
  | 0, _ => none
  | fuel + 1, j =>
    let pos : Int := (i : Int) * 64 + (j : Int)
    if pos ≥ b.size then some (-1)
    else if !b.IsSet pos then some pos
    else findInWord b i fuel (j + 1)

/-- The outer loop of `FindFirstZero` over the words, started at word `i` with `fuel`
words left. -/
def findFrom (b : Bitmap) : Nat → Nat → Int
  | 0, _ => -1
  | fuel + 1, i =>
    if b.word i ≠ allOnes64 then
      match findInWord b i 64 0 with
      | some r => r
      | none => findFrom b fuel (i + 1)
    else findFrom b fuel (i + 1)

/-- `Bitmap.FindFirstZero()`: `-1` when no free bit is found. -/
def FindFirstZero (b : Bitmap) : Int := findFrom b b.bits.length 0

/-- `Bitmap.Count()`. -/
def Count (b : Bitmap) : Int := b.allocated

/-- `Bitmap.Available()`. -/
def Available (b : Bitmap) : Int := b.size - b.allocated

/-- The bitmaps a client can hold: `NewBitmap N` followed by any `Set` and `Clear` calls,
whether they succeed or fail. -/
inductive Reachable (N : Int) : Bitmap → Prop
  | init : Reachable N (NewBitmap N)
  | set (b : Bitmap) (pos : Int) : Reachable N b → Reachable N (b.Set pos).1
  | clear (b : Bitmap) (pos : Int) : Reachable N b → Reachable N (b.Clear pos).1

/-- The number of positions of `[0, size)` that `IsSet` reports. -/
def popcount (b : Bitmap) : Nat :=
  ((List.range b.size.toNat).filter (fun (p : Nat) => b.IsSet (p : Int))).length

end Bitmap


namespace Bitmap

/-- The bit of position `p` in the underlying words. -/
def bitAt (b : Bitmap) (p : Nat) : Bool := (b.word (p / 64)).testBit (p % 64)

/-- Well-formedness of a bitmap: what `NewBitmap` establishes and `Set`/`Clear` keep. -/
structure WF (b : Bitmap) : Prop where
  nonneg : 0 ≤ b.size
  len : b.bits.length = (b.size.toNat + 63) / 64
  words : ∀ i, b.word i < 2 ^ 64
  tail : ∀ p : Nat, b.size ≤ (p : Int) → bitAt b p = false
  count : b.allocated = (popcount b : Int)

/-- Every in-range position below `n` is set. -/
def AllSetBelow (b : Bitmap) (n : Nat) : Prop :=
  ∀ q : Nat, q < n → (q : Int) < b.size → b.IsSet (q : Int) = true

/-- What `FindFirstZero` has to return: `-1` with every position set, or the least
unset position. -/
def FirstZeroSpec (b : Bitmap) (r : Int) : Prop :=
  (r = -1 ∧ ∀ q : Nat, (q : Int) < b.size → b.IsSet (q : Int) = true) ∨
  (∃ p : Nat, r = (p : Int) ∧ (p : Int) < b.size ∧ b.IsSet (p : Int) = false ∧
    ∀ q : Nat, q < p → b.IsSet (q : Int) = true)

end Bitmap

/-! ## Addresses, networks and CIDR strings (Go package `net`) -/

/-- A `net.IP` value: `nil`, an IPv4 address (the 4-byte form and the 16-byte
IPv4-in-IPv6 form `::ffff:a.b.c.d` are the same address to `To4`, `Contains` and `String`,
the only operations the code applies) given by its 32-bit value, or an IPv6 address that
is not of the IPv4-in-IPv6 form, given by its 128-bit value.  A `v6` value of `2 ^ 128` or
more stands for a byte string longer than 16 bytes, which is no address. -/
inductive IP where
  | nil
  | v4 (addr : Nat)
  | v6 (addr : Nat)
  deriving DecidableEq, Repr

/-- A `*net.IPNet` as `net.ParseCIDR` returns it: the network address (host bits zero),
the prefix length `ones` and the address width `bits` (32 or 128), the two results of
`Mask.Size()`.  The network of an IPv4 text has width 32; the network of an IPv6 text has
width 128, also when its address is of the IPv4-in-IPv6 form. -/
structure IPNet where
  addr : Nat
  ones : Nat
  bits : Nat
  deriving DecidableEq, Repr

/-- A CIDR string.  `v4 a n` is the text `a₁.a₂.a₃.a₄/n` of the 32-bit value `a`,
`v6 a n` the text of an IPv6 prefix, `invalid s` any text `net.ParseCIDR` rejects.
Two different texts are two different values, so comparing values is comparing strings. -/
inductive CIDRString where
  | v4 (addr : Nat) (ones : Nat)
  | v6 (addr : Nat) (ones : Nat)
  | invalid (text : String)
  deriving DecidableEq, Repr

/-- The network of an address: the host bits (the low `bits - ones` ones) cleared, which
is what `ip.Mask(m)` computes for a prefix mask. -/
def maskAddr (addr ones bits : Nat) : Nat :=
  addr / 2 ^ (bits - ones) * 2 ^ (bits - ones)

/-- `net.ParseCIDR`, its second result (`none` for an error): the network of the address
with the given prefix length. -/
def ParseCIDR : CIDRString → Option IPNet
  | CIDRString.v4 a n =>
    if a < 2 ^ 32 ∧ n ≤ 32 then some ⟨maskAddr a n 32, n, 32⟩ else none
  | CIDRString.v6 a n =>
    if a < 2 ^ 128 ∧ n ≤ 128 then some ⟨maskAddr a n 128, n, 128⟩ else none
  | CIDRString.invalid _ => none

/-- The test `To4` makes on a 16-byte address: the first ten bytes are zero and the next
two are `0xff`, the IPv4-in-IPv6 form `::ffff:a.b.c.d`. -/
def isV4Mapped (addr : Nat) : Bool := decide (addr / 2 ^ 32 = 0xffff)

/-- The `net.IP` of a 16-byte value: an address of the IPv4-in-IPv6 form is the IPv4
address of its last four bytes. -/
def IP.ofBytes16 (a : Nat) : IP :=
  if isV4Mapped a then IP.v4 (a % 2 ^ 32) else IP.v6 a

namespace IPNet

/-- `IPNet.String()`: the canonical text of the network; a network whose address `To4`
accepts is printed as IPv4, with the last four bytes of its mask. -/
def String (n : IPNet) : CIDRString :=
  if n.bits = 32 then CIDRString.v4 n.addr n.ones
  else if isV4Mapped n.addr then CIDRString.v4 (n.addr % 2 ^ 32) (n.ones - 96)
  else CIDRString.v6 n.addr n.ones

/-- `IPNet.Contains(ip)`: the address has the width of the network and its masked value
is the network address.  A network whose address `To4` accepts is compared as IPv4, with
the last four bytes of its mask. -/
def Contains (n : IPNet) : IP → Bool
  | IP.nil => false
  | IP.v4 a =>
    if n.bits = 32 then decide (a < 2 ^ 32 ∧ maskAddr a n.ones 32 = n.addr)
    else decide (n.bits = 128 ∧ isV4Mapped n.addr = true ∧ a < 2 ^ 32 ∧
      maskAddr a (n.ones - 96) 32 = n.addr % 2 ^ 32)
  | IP.v6 a =>
    decide (n.bits = 128 ∧ isV4Mapped n.addr = false ∧ a < 2 ^ 128 ∧
      maskAddr a n.ones 128 = n.addr)

/-- `n.IP.To4()` followed by the big-endian `uint32` assembly; `none` when `To4` is nil. -/
def To4 (n : IPNet) : Option Nat :=
  if n.bits = 32 then some (n.addr % 2 ^ 32)
  else if isV4Mapped n.addr then some (n.addr % 2 ^ 32) else none

end IPNet

/-- `ip.To4()` followed by the big-endian `uint32` assembly; `none` when `To4` is nil. -/
def IP.To4 : IP → Option Nat
  | IP.v4 a => some (a % 2 ^ 32)
  | _ => none

/-- The value of a Go `int` (64-bit two's complement) holding the mathematical integer
`x` after wrap-around. -/
def toInt64 (x : Int) : Int := (x + 2 ^ 63) % 2 ^ 64 - 2 ^ 63

/-- The conversion `uint32(x)` of an `int`. -/
def toUint32 (x : Int) : Nat := (x % 2 ^ 32).toNat

/-- The shared body of `IPBlock.positionToIP` and of `positionToIP` in
`subnet_pool.go`: `nil` for a network that is not IPv4, else network address plus
`pos + 1` in `uint32` arithmetic. -/
def positionToIP (cidr : IPNet) (pos : Int) : IP :=
  match cidr.To4 with
  | none => IP.nil
  | some addr => IP.v4 ((addr + toUint32 (pos + 1)) % 2 ^ 32)

/-- The shared body of `IPBlock.ipToPosition` and of `ipToPosition` in
`subnet_pool.go`: `-1` when either address is not IPv4, else the `uint32` difference
minus one. -/
def ipToPosition (cidr : IPNet) (ip : IP) : Int :=
  match cidr.To4, ip.To4 with
  | some networkAddr, some targetAddr =>
    (((targetAddr + 2 ^ 32 - networkAddr) % 2 ^ 32 : Nat) : Int) - 1
  | _, _ => -1

/-! ## `pkg/allocator/bitmap.go`: IPBlock -/

/-- The Go struct `IPBlock` (without `CreatedAt` and the mutex). -/
structure IPBlock where
  CIDR : IPNet
  NodeID : String
  Total : Int
  Used : Int
  bitmap : Bitmap
  deriving DecidableEq, Repr

/-- `NewIPBlock(cidr, nodeID)`: `total := 1 << (bits - ones)` and `usable := total - 2`
are computed in `int`. -/
def NewIPBlock (cidr : CIDRString) (nodeID : String) : Except Err IPBlock :=
  match ParseCIDR cidr with
  | none => Except.error Err.invalidCIDR
  | some ipNet =>
    let total := toInt64 (2 ^ (ipNet.bits - ipNet.ones))
    let usable := toInt64 (total - 2)
    if usable ≤ 0 then Except.error Err.noUsableIPs
    else Except.ok
      { CIDR := ipNet, NodeID := nodeID, Total := usable, Used := 0,
        bitmap := NewBitmap usable }

namespace IPBlock

/-- `IPBlock.positionToIP(pos)`. -/
def positionToIP (block : IPBlock) (pos : Int) : IP := Ipam.positionToIP block.CIDR pos

/-- `IPBlock.ipToPosition(ip)`. -/
def ipToPosition (block : IPBlock) (ip : IP) : Int := Ipam.ipToPosition block.CIDR ip

/-- `IPBlock.Allocate()`. -/
def Allocate (block : IPBlock) : IPBlock × Except Err IP :=
  let pos := block.bitmap.FindFirstZero
  if pos = -1 then (block, Except.error Err.ErrNoAvailableIP)
  else
    match block.bitmap.Set pos with
    | (bm, some err) => ({ block with bitmap := bm }, Except.error err)
    | (bm, none) =>
      let ip := block.positionToIP pos
      ({ block with bitmap := bm, Used := block.Used + 1 }, Except.ok ip)

/-- `IPBlock.Release(ip)`. -/
def Release (block : IPBlock) (ip : IP) : IPBlock × Option Err :=
  if !block.CIDR.Contains ip then (block, some Err.ErrIPNotInBlock)
  else
    let pos := block.ipToPosition ip
    if pos < 0 ∨ pos ≥ block.Total then (block, some Err.ErrInvalidIP)
    else
      match block.bitmap.Clear pos with
      | (bm, some err) => ({ block with bitmap := bm }, some err)
      | (bm, none) => ({ block with bitmap := bm, Used := block.Used - 1 }, none)

/-- `IPBlock.Contains(ip)`. -/
def Contains (block : IPBlock) (ip : IP) : Bool :=
  if !block.CIDR.Contains ip then false
  else block.bitmap.IsSet (block.ipToPosition ip)

/-- `IPBlock.Available()`. -/
def Available (block : IPBlock) : Int := block.bitmap.Available

/-- The block after `k` consecutive `Allocate` calls. -/
def allocN (block : IPBlock) : Nat → IPBlock
  | 0 => block
  | k + 1 => (allocN block k).Allocate.1

/-- The states of a block: what `NewIPBlock(cidr, nodeID)` returned, followed by any
`Allocate` and `Release` calls. -/
inductive Reachable (cidr : CIDRString) (nodeID : String) : IPBlock → Prop
  | init (b : IPBlock) : NewIPBlock cidr nodeID = Except.ok b → Reachable cidr nodeID b
  | allocate (b : IPBlock) : Reachable cidr nodeID b → Reachable cidr nodeID b.Allocate.1
  | release (b : IPBlock) (ip : IP) :
      Reachable cidr nodeID b → Reachable cidr nodeID (b.Release ip).1

end IPBlock

/-- Well-formedness of an IPv4 block: what `NewIPBlock` establishes for an IPv4 CIDR and
`Allocate`/`Release` keep. -/
structure IPBlock.WF (b : IPBlock) : Prop where
  bits : b.CIDR.bits = 32
  ones : b.CIDR.ones ≤ 30
  addr_lt : b.CIDR.addr < 2 ^ 32
  aligned : maskAddr b.CIDR.addr b.CIDR.ones 32 = b.CIDR.addr
  total : b.Total = 2 ^ (32 - b.CIDR.ones) - 2
  bm : b.bitmap.WF
  size : b.bitmap.size = b.Total
  used : b.Used = b.bitmap.allocated

/-! ## Go maps

A Go `map[K]V` is modelled by an association list with at most one entry per key; the
operations below are the index expression with its `ok` result, assignment and `delete`.
The position of an entry in the list has no meaning in Go: a `range` over a map visits
the entries in an order chosen by the runtime, which is modelled where it occurs by an
explicit order argument. -/

/-- `v, ok := m[k]`. -/
def mapGet {κ ν : Type} [DecidableEq κ] : List (κ × ν) → κ → Option ν
  | [], _ => none
  | (k', v) :: m, k => if k' = k then some v else mapGet m k

/-- `m[k] = v`. -/
def mapPut {κ ν : Type} [DecidableEq κ] : List (κ × ν) → κ → ν → List (κ × ν)
  | [], k, v => [(k, v)]
  | (k', v') :: m, k, v => if k' = k then (k, v) :: m else (k', v') :: mapPut m k v

/-- `delete(m, k)`. -/
def mapDel {κ ν : Type} [DecidableEq κ] (m : List (κ × ν)) (k : κ) : List (κ × ν) :=
  m.filter (fun e => decide (e.1 ≠ k))

/-! ## `pkg/ipam/pool.go`: the flat pool -/

/-- The Go struct `PoolConfig`. -/
structure PoolConfig where
  ClusterCIDR : CIDRString
  BlockSize : Int
  deriving DecidableEq, Repr

/-- The Go struct `Pool` (without the mutex).  `nodeBlocks` holds the blocks themselves
where the Go map holds pointers to them; no block is shared between two entries. -/
structure Pool where
  clusterCIDR : IPNet
  blockSize : Int
  nodeBlocks : List (String × List IPBlock)
  allocatedBlocks : List (CIDRString × Bool)
  deriving DecidableEq, Repr

/-- `NewPool(config)`. -/
def NewPool (config : PoolConfig) : Except Err Pool :=
  match ParseCIDR config.ClusterCIDR with
  | none => Except.error Err.invalidCIDR
  | some cidr =>
    if config.BlockSize ≤ (cidr.ones : Int) ∨ config.BlockSize > (cidr.bits : Int) then
      Except.error Err.invalidBlockSize
    else
      Except.ok { clusterCIDR := cidr, blockSize := config.BlockSize,
                  nodeBlocks := [], allocatedBlocks := [] }

namespace Pool

/-- The text `fmt.Sprintf("%s/%d", ip.String(), p.blockSize)` for the IPv4 address
`addr`. -/
def blockCIDRString (p : Pool) (addr : Nat) : CIDRString :=
  CIDRString.v4 addr p.blockSize.toNat

/-- The loop of `findAvailableBlock` over `i`, started at `i` with `fuel` iterations
left. -/
def findLoop (p : Pool) (baseAddr blockSize : Nat) : Nat → Nat → Except Err CIDRString
  | 0, _ => Except.error Err.ErrCIDRExhausted
  | fuel + 1, i =>
    let addr := (baseAddr + (i % 2 ^ 32) * blockSize) % 2 ^ 32
    let cidr := p.blockCIDRString addr
    if !(mapGet p.allocatedBlocks cidr).getD false then Except.ok cidr
    else findLoop p baseAddr blockSize fuel (i + 1)

/-- `Pool.findAvailableBlock()`: `blocksCount` is an `int`, the block size a `uint32`. -/
def findAvailableBlock (p : Pool) : Except Err CIDRString :=
  let blocksCount := toInt64 (2 ^ (p.blockSize - (p.clusterCIDR.ones : Int)).toNat)
  match p.clusterCIDR.To4 with
  | none => Except.error Err.ipv6NotSupported
  | some baseAddr =>
    let blockSize := 2 ^ ((p.clusterCIDR.bits : Int) - p.blockSize).toNat % 2 ^ 32
    findLoop p baseAddr blockSize blocksCount.toNat 0

/-- `Pool.AllocateBlockForNode(nodeID)`. -/
def AllocateBlockForNode (p : Pool) (nodeID : String) : Pool × Except Err IPBlock :=
  match p.findAvailableBlock with
  | Except.error e => (p, Except.error e)
  | Except.ok blockCIDR =>
    match NewIPBlock blockCIDR nodeID with
    | Except.error e => (p, Except.error e)
    | Except.ok block =>
      ({ p with
          nodeBlocks := mapPut p.nodeBlocks nodeID
            (((mapGet p.nodeBlocks nodeID).getD []) ++ [block]),
          allocatedBlocks := mapPut p.allocatedBlocks blockCIDR true },
        Except.ok block)

/-- The search loop of `ReleaseBlockForNode`: index of the first block whose
`CIDR.String()` is `blockCIDR`. -/
def findBlockIdx (blockCIDR : CIDRString) : List IPBlock → Option Nat
  | [] => none
  | block :: rest =>
    if block.CIDR.String = blockCIDR then some 0
    else (findBlockIdx blockCIDR rest).map (fun i => i + 1)

/-- `Pool.ReleaseBlockForNode(nodeID, blockCIDR)`. -/
def ReleaseBlockForNode (p : Pool) (nodeID : String) (blockCIDR : CIDRString) :
    Pool × Option Err :=
  match mapGet p.nodeBlocks nodeID with
  | none => (p, some Err.ErrNodeNotFound)
  | some blocks =>
    match findBlockIdx blockCIDR blocks with
    | none => (p, some Err.ErrBlockNotFound)
    | some foundIdx =>
      match blocks.get? foundIdx with
      | none => (p, some Err.ErrBlockNotFound)
      | some foundBlock =>
        if foundBlock.Used > 0 then (p, some Err.ErrBlockInUse)
        else
          ({ p with
              nodeBlocks := mapPut p.nodeBlocks nodeID (blocks.eraseIdx foundIdx),
              allocatedBlocks := mapDel p.allocatedBlocks blockCIDR }, none)

/-- The loop `for _, block := range blocks` of `AllocateIPForNode`: the blocks after the
loop and, when an `Allocate` succeeded, the address and the block it returned. -/
def allocFromBlocks : List IPBlock → List IPBlock × Option (IP × IPBlock)
  | [] => ([], none)
  | block :: rest =>
    match block.Allocate with
    | (block', Except.ok ip) => (block' :: rest, some (ip, block'))
    | (block', Except.error _) =>
      ((block' :: (allocFromBlocks rest).1), (allocFromBlocks rest).2)

/-- The tail of `AllocateIPForNode`, from the loop over `blocks` on; `p` already holds
`blocks` as the entry of `nodeID`. -/
def allocateIPFrom (p : Pool) (nodeID : String) (blocks : List IPBlock) :
    Pool × Except Err (IP × IPBlock) :=
  match allocFromBlocks blocks with
  | (blocks', some r) => ({ p with nodeBlocks := mapPut p.nodeBlocks nodeID blocks' }, Except.ok r)
  | (blocks', none) =>
    let p1 := { p with nodeBlocks := mapPut p.nodeBlocks nodeID blocks' }
    match p1.findAvailableBlock with
    | Except.error e => (p1, Except.error e)
    | Except.ok blockCIDR =>
      match NewIPBlock blockCIDR nodeID with
      | Except.error e => (p1, Except.error e)
      | Except.ok block =>
        match block.Allocate with
        | (block', Except.error e) =>
          ({ p1 with
              nodeBlocks := mapPut p1.nodeBlocks nodeID (blocks' ++ [block']),
              allocatedBlocks := mapPut p1.allocatedBlocks blockCIDR true }, Except.error e)
        | (block', Except.ok ip) =>
          ({ p1 with
              nodeBlocks := mapPut p1.nodeBlocks nodeID (blocks' ++ [block']),
              allocatedBlocks := mapPut p1.allocatedBlocks blockCIDR true },
            Except.ok (ip, block'))

/-- `Pool.AllocateIPForNode(nodeID)`. -/
def AllocateIPForNode (p : Pool) (nodeID : String) : Pool × Except Err (IP × IPBlock) :=
  match mapGet p.nodeBlocks nodeID with
  | some (b :: bs) => p.allocateIPFrom nodeID (b :: bs)
  | _ =>
    match p.findAvailableBlock with
    | Except.error e => (p, Except.error e)
    | Except.ok blockCIDR =>
      match NewIPBlock blockCIDR nodeID with
      | Except.error e => (p, Except.error e)
      | Except.ok block =>
        allocateIPFrom
          { p with
              nodeBlocks := mapPut p.nodeBlocks nodeID [block],
              allocatedBlocks := mapPut p.allocatedBlocks blockCIDR true }
          nodeID [block]

/-- The loop of `ReleaseIP`: release from the first block whose CIDR contains `ip`;
`none` when no block does. -/
def releaseFromBlocks (ip : IP) : List IPBlock → Option (List IPBlock × Option Err)
  | [] => none
  | block :: rest =>
    if block.CIDR.Contains ip then some ((block.Release ip).1 :: rest, (block.Release ip).2)
    else (releaseFromBlocks ip rest).map (fun r => (block :: r.1, r.2))

/-- `Pool.ReleaseIP(ip, nodeID)`. -/
def ReleaseIP (p : Pool) (ip : IP) (nodeID : String) : Pool × Option Err :=
  match mapGet p.nodeBlocks nodeID with
  | none => (p, some Err.ErrNodeNotFound)
  | some blocks =>
    match releaseFromBlocks ip blocks with
    | none => (p, some Err.ErrBlockNotFound)
    | some (blocks', err) => ({ p with nodeBlocks := mapPut p.nodeBlocks nodeID blocks' }, err)

end Pool

/-- A call of one of the four mutating operations of the flat pool. -/
inductive PoolOp where
  | allocateBlock (nodeID : String)
  | releaseBlock (nodeID : String) (blockCIDR : CIDRString)
  | allocateIP (nodeID : String)
  | releaseIP (ip : IP) (nodeID : String)
  deriving DecidableEq, Repr

/-- A pool together with the addresses currently held: those a successful
`AllocateIPForNode` returned and no successful `ReleaseIP` has released since. -/
structure TrackedPool where
  pool : Pool
  held : List IP
  deriving DecidableEq, Repr

namespace TrackedPool

/-- One call: the pool after it and the held addresses after it. -/
def step (t : TrackedPool) : PoolOp → TrackedPool
  | PoolOp.allocateBlock nodeID => { t with pool := (t.pool.AllocateBlockForNode nodeID).1 }
  | PoolOp.releaseBlock nodeID blockCIDR =>
    { t with pool := (t.pool.ReleaseBlockForNode nodeID blockCIDR).1 }
  | PoolOp.allocateIP nodeID =>
    match t.pool.AllocateIPForNode nodeID with
    | (p, Except.ok (ip, _)) => { pool := p, held := ip :: t.held }
    | (p, Except.error _) => { pool := p, held := t.held }
  | PoolOp.releaseIP ip nodeID =>
    match t.pool.ReleaseIP ip nodeID with
    | (p, none) => { pool := p, held := t.held.filter (fun x => decide (x ≠ ip)) }
    | (p, some _) => { pool := p, held := t.held }

/-- The calls applied in order. -/
def run (t : TrackedPool) : List PoolOp → TrackedPool
  | [] => t
  | op :: ops => run (t.step op) ops

end TrackedPool

/-- The pools reachable from `NewPool(config)` by the four operations, with their held
addresses. -/
def Pool.ReachableFrom (config : PoolConfig) (t : TrackedPool) : Prop :=
  ∃ p0 ops, NewPool config = Except.ok p0 ∧ t = TrackedPool.run ⟨p0, []⟩ ops

/-- What the maps of a pool say: the block list of every node (empty for a node without
entry) and the allocated flag of every CIDR string. -/
structure PoolView where
  blocks : String → List IPBlock
  alloc : CIDRString → Bool

/-- The view of a pool. -/
def Pool.view (p : Pool) : PoolView :=
  { blocks := fun n => (mapGet p.nodeBlocks n).getD [],
    alloc := fun c => (mapGet p.allocatedBlocks c).getD false }

/-- The invariant of the flat pool over IPv4 with block prefix length `bs`: every block
is a well-formed `/bs` block, no CIDR occurs twice in a node's list or in the lists of two
nodes, and the allocated CIDR strings are exactly those of the blocks present. -/
structure PoolView.Inv (bs : Nat) (v : PoolView) : Prop where
  wf : ∀ n, ∀ b ∈ v.blocks n, b.WF ∧ b.CIDR.ones = bs
  nodup : ∀ n, ((v.blocks n).map (fun b => b.CIDR)).Nodup
  cross : ∀ n1 n2, n1 ≠ n2 → ∀ b1 ∈ v.blocks n1, ∀ b2 ∈ v.blocks n2, b1.CIDR ≠ b2.CIDR
  alloc_iff : ∀ c, v.alloc c = true ↔ ∃ n, ∃ b ∈ v.blocks n, b.CIDR.String = c

/-- Every held address is allocated in some block of the pool. -/
def PoolView.HeldInv (v : PoolView) (held : List IP) : Prop :=
  ∀ ip ∈ held, ∃ n, ∃ b ∈ v.blocks n, b.Contains ip = true

/-- The facts about the configuration of an IPv4 pool that `NewPool` establishes. -/
structure Pool.Cfg (p : Pool) : Prop where
  bits : p.clusterCIDR.bits = 32
  ones : p.clusterCIDR.ones ≤ 32
  addr_lt : p.clusterCIDR.addr < 2 ^ 32
  aligned : maskAddr p.clusterCIDR.addr p.clusterCIDR.ones 32 = p.clusterCIDR.addr
  size_gt : (p.clusterCIDR.ones : Int) < p.blockSize
  size_le : p.blockSize ≤ 32

/-- The invariant of an IPv4 pool with the held addresses `held`. -/
def Pool.PInv (p : Pool) (held : List IP) : Prop :=
  p.Cfg ∧ p.view.Inv p.blockSize.toNat ∧ p.view.HeldInv held

/-- The invariant of a tracked pool: over IPv4 the view invariant and the held
addresses; over IPv6 nothing is ever stored (the search for a block fails, or, for a
cluster network of the IPv4-in-IPv6 form, proposes a block with a prefix above 32, which
`NewIPBlock` rejects). -/
def TrackedPool.OK (t : TrackedPool) : Prop :=
  t.pool.PInv t.held ∨
  (t.pool.clusterCIDR.bits ≠ 32 ∧
    (isV4Mapped t.pool.clusterCIDR.addr = true → 32 < t.pool.blockSize) ∧
    t.pool.nodeBlocks = [] ∧ t.pool.allocatedBlocks = [] ∧ t.held = [])

/-! ## `pkg/topology/subnet_pool.go` -/

/-- The Go struct `IPAllocation` (without `AllocatedAt`); the field `IP` holds
`ip.String()`, which determines the address and is represented by it. -/
structure IPAllocation where
  IP : IP
  NodeID : String
  ContainerID : String
  PodName : String
  Namespace : String
  deriving DecidableEq, Repr

/-- The Go struct `Subnet` (without the mutex).  `Allocations` is keyed by
`ip.String()`, represented by the address. -/
structure Subnet where
  CIDR : IPNet
  Purpose : String
  Capacity : Int
  Used : Int
  Allocations : List (IP × IPAllocation)
  bitmap : Bitmap
  deriving DecidableEq, Repr

/-- The Go struct `SubnetPool` (without the mutex); `Subnets` is keyed by the CIDR
string that was passed to `AddSubnet`. -/
structure SubnetPool where
  TORID : String
  Subnets : List (CIDRString × Subnet)
  deriving DecidableEq, Repr

/-- `NewSubnetPool(torID)`. -/
def NewSubnetPool (torID : String) : SubnetPool := { TORID := torID, Subnets := [] }

/-- The order in which one `range` statement visits a map: a function from the keys of
the map to the sequence in which they are visited. -/
abbrev MapOrder := List CIDRString → List CIDRString

/-- An order visits every key exactly once. -/
def IsMapOrder (ord : MapOrder) : Prop := ∀ l, (ord l).Perm l

/-- The entries of a map in the order `ord` visits them. -/
def rangeMap {ν : Type} (m : List (CIDRString × ν)) (ord : MapOrder) : List (CIDRString × ν) :=
  (ord (m.map Prod.fst)).filterMap (fun k => (mapGet m k).map (fun v => (k, v)))

namespace SubnetPool

/-- `SubnetPool.AddSubnet(cidr, purpose)`. -/
def AddSubnet (sp : SubnetPool) (cidr : CIDRString) (purpose : String) :
    SubnetPool × Option Err :=
  if (mapGet sp.Subnets cidr).isSome then (sp, some Err.subnetExistsInPool)
  else
    match ParseCIDR cidr with
    | none => (sp, some Err.invalidCIDR)
    | some ipNet =>
      let total := toInt64 (2 ^ (ipNet.bits - ipNet.ones))
      let usable := toInt64 (total - 2)
      if usable ≤ 0 then (sp, some Err.noUsableIPs)
      else
        let subnet : Subnet :=
          { CIDR := ipNet, Purpose := purpose, Capacity := usable, Used := 0,
            Allocations := [], bitmap := NewBitmap usable }
        ({ sp with Subnets := mapPut sp.Subnets cidr subnet }, none)

/-- The first loop of `AllocateIP`: the first visited subnet of the requested purpose
(any purpose when it is empty) with `Capacity - Used > 0`. -/
def pickByPurpose (sp : SubnetPool) (purpose : String) (ord : MapOrder) :
    Option (CIDRString × Subnet) :=
  (rangeMap sp.Subnets ord).find? (fun e =>
    !(decide (purpose ≠ "") && decide (e.2.Purpose ≠ purpose)) &&
      decide (e.2.Capacity - e.2.Used > 0))

/-- The second loop of `AllocateIP`: the first visited subnet of purpose `default` with
`Capacity - Used > 0`. -/
def pickDefault (sp : SubnetPool) (ord : MapOrder) : Option (CIDRString × Subnet) :=
  (rangeMap sp.Subnets ord).find? (fun e =>
    decide (e.2.Purpose = "default") && decide (e.2.Capacity - e.2.Used > 0))

/-- The choice of the target subnet in `AllocateIP`. -/
def pickTarget (sp : SubnetPool) (purpose : String) (ord₁ ord₂ : MapOrder) :
    Option (CIDRString × Subnet) :=
  match sp.pickByPurpose purpose ord₁ with
  | some e => some e
  | none => if purpose ≠ "default" then sp.pickDefault ord₂ else none

/-- `SubnetPool.AllocateIP(nodeID, purpose)`; `ord₁` and `ord₂` are the orders of its two
`range` loops. -/
def AllocateIP (sp : SubnetPool) (nodeID purpose : String) (ord₁ ord₂ : MapOrder) :
    SubnetPool × Except Err (IP × CIDRString) :=
  match sp.pickTarget purpose ord₁ ord₂ with
  | none => (sp, Except.error Err.noAvailableSubnet)
  | some (targetCIDR, targetSubnet) =>
    let pos := targetSubnet.bitmap.FindFirstZero
    if pos = -1 then (sp, Except.error Err.noAvailableIPInSubnet)
    else
      match targetSubnet.bitmap.Set pos with
      | (bm, some err) =>
        ({ sp with Subnets := mapPut sp.Subnets targetCIDR { targetSubnet with bitmap := bm } },
          Except.error err)
      | (bm, none) =>
        let ip := positionToIP targetSubnet.CIDR pos
        let allocation : IPAllocation :=
          { IP := ip, NodeID := nodeID, ContainerID := "", PodName := "", Namespace := "" }
        let subnet : Subnet :=
          { targetSubnet with
              bitmap := bm, Used := targetSubnet.Used + 1,
              Allocations := mapPut targetSubnet.Allocations ip allocation }
        ({ sp with Subnets := mapPut sp.Subnets targetCIDR subnet }, Except.ok (ip, targetCIDR))

/-- `SubnetPool.ReleaseIP(ip)`; `ord` is the order of its `range` loop. -/
def ReleaseIP (sp : SubnetPool) (ip : IP) (ord : MapOrder) : SubnetPool × Option Err :=
  match (rangeMap sp.Subnets ord).find? (fun e => e.2.CIDR.Contains ip) with
  | none => (sp, some Err.ipNotInAnySubnet)
  | some (key, targetSubnet) =>
    if (mapGet targetSubnet.Allocations ip).isNone then (sp, some Err.ipNotAllocated)
    else
      let pos := ipToPosition targetSubnet.CIDR ip
      match targetSubnet.bitmap.Clear pos with
      | (bm, some err) =>
        ({ sp with Subnets := mapPut sp.Subnets key { targetSubnet with bitmap := bm } },
          some err)
      | (bm, none) =>
        let subnet : Subnet :=
          { targetSubnet with
              bitmap := bm, Used := targetSubnet.Used - 1,
              Allocations := mapDel targetSubnet.Allocations ip }
        ({ sp with Subnets := mapPut sp.Subnets key subnet }, none)

end SubnetPool

/-! ## `pkg/topology/types.go` -/

/-- The Go struct `Zone`.  `Pods` lists the keys of the Go map `Pods`, whose values are
the very `*Pod` pointers stored in `Topology.Pods`. -/
structure Zone where
  ID : String
  Name : String
  SubnetRanges : List String
  Pods : List String
  deriving DecidableEq, Repr

/-- The Go struct `Pod`.  `TORs` lists the keys of the Go map `TORs`, whose values are
the very `*TOR` pointers stored in `Topology.TORs`. -/
structure Pod where
  ID : String
  Name : String
  ZoneID : String
  SubnetRanges : List String
  TORs : List String
  deriving DecidableEq, Repr

/-- The Go struct `TOR`. -/
structure TOR where
  ID : String
  Name : String
  PodID : String
  Location : String
  Subnets : List CIDRString
  Nodes : List String
  deriving DecidableEq, Repr

/-- The Go struct `Node`; its `Subnets` slice is never filled and is left out. -/
structure Node where
  ID : String
  Name : String
  TORID : String
  Labels : List (String × String)
  deriving DecidableEq, Repr

/-- The Go struct `Topology`. -/
structure Topology where
  Zones : List (String × Zone)
  Pods : List (String × Pod)
  TORs : List (String × TOR)
  Nodes : List (String × Node)
  deriving DecidableEq, Repr

/-- `NewTopology()`. -/
def NewTopology : Topology := { Zones := [], Pods := [], TORs := [], Nodes := [] }

/-- Adding a key to the key list of a map of pointers (`m[k] = ptr`). -/
def keyInsert (ks : List String) (k : String) : List String :=
  if k ∈ ks then ks else ks ++ [k]

namespace Topology

/-- `Topology.AddZone(zone)`. -/
def AddZone (t : Topology) (zone : Zone) : Topology × Option Err :=
  if (mapGet t.Zones zone.ID).isSome then (t, some Err.zoneExists)
  else ({ t with Zones := mapPut t.Zones zone.ID zone }, none)

/-- `Topology.AddPod(pod)`. -/
def AddPod (t : Topology) (pod : Pod) : Topology × Option Err :=
  match mapGet t.Zones pod.ZoneID with
  | none => (t, some Err.zoneNotFound)
  | some zone =>
    if (mapGet t.Pods pod.ID).isSome then (t, some Err.podExists)
    else
      ({ t with
          Pods := mapPut t.Pods pod.ID pod,
          Zones := mapPut t.Zones pod.ZoneID { zone with Pods := keyInsert zone.Pods pod.ID } },
        none)

/-- `Topology.AddTOR(tor)`. -/
def AddTOR (t : Topology) (tor : TOR) : Topology × Option Err :=
  match mapGet t.Pods tor.PodID with
  | none => (t, some Err.podNotFound)
  | some pod =>
    if (mapGet t.TORs tor.ID).isSome then (t, some Err.torExists)
    else
      ({ t with
          TORs := mapPut t.TORs tor.ID tor,
          Pods := mapPut t.Pods tor.PodID { pod with TORs := keyInsert pod.TORs tor.ID } },
        none)

/-- `Topology.RegisterNode(node)`. -/
def RegisterNode (t : Topology) (node : Node) : Topology × Option Err :=
  match mapGet t.TORs node.TORID with
  | none => (t, some Err.torNotFound)
  | some tor =>
    if (mapGet t.Nodes node.ID).isSome then (t, some Err.nodeRegistered)
    else
      ({ t with
          Nodes := mapPut t.Nodes node.ID node,
          TORs := mapPut t.TORs node.TORID { tor with Nodes := tor.Nodes ++ [node.ID] } },
        none)

/-- `Topology.GetNodeTOR(nodeID)`. -/
def GetNodeTOR (t : Topology) (nodeID : String) : Except Err TOR :=
  match mapGet t.Nodes nodeID with
  | none => Except.error Err.nodeNotFound
  | some node =>
    match mapGet t.TORs node.TORID with
    | none => Except.error Err.torNotFound
    | some tor => Except.ok tor

/-- `Topology.AddSubnetToTOR(torID, subnet)`. -/
def AddSubnetToTOR (t : Topology) (torID : String) (subnet : CIDRString) :
    Topology × Option Err :=
  match mapGet t.TORs torID with
  | none => (t, some Err.torNotFound)
  | some tor =>
    if subnet ∈ tor.Subnets then (t, some Err.subnetExistsInTOR)
    else
      ({ t with TORs := mapPut t.TORs torID { tor with Subnets := tor.Subnets ++ [subnet] } },
        none)

end Topology

/-! ## `pkg/ipam/topology_pool.go` -/

/-- The Go struct `SubnetConfig`. -/
structure SubnetConfig where
  CIDR : CIDRString
  Purpose : String
  deriving DecidableEq, Repr

/-- The Go struct `TORConfig`. -/
structure TORConfig where
  ID : String
  Name : String
  Location : String
  Subnets : List SubnetConfig
  deriving DecidableEq, Repr

/-- The Go struct `PodConfig`. -/
structure PodConfig where
  ID : String
  Name : String
  SubnetRanges : List String
  TORs : List TORConfig
  deriving DecidableEq, Repr

/-- The Go struct `ZoneConfig`. -/
structure ZoneConfig where
  ID : String
  Name : String
  SubnetRanges : List String
  Pods : List PodConfig
  deriving DecidableEq, Repr

/-- The Go struct `TopologyConfig`. -/
structure TopologyConfig where
  Zones : List ZoneConfig
  deriving DecidableEq, Repr

/-- The Go struct `TopologyAwarePool` (without the mutex); `clusterCIDR` is stored as
given and never parsed. -/
structure TopologyAwarePool where
  clusterCIDR : CIDRString
  topology : Topology
  subnetPools : List (String × SubnetPool)
  deriving DecidableEq, Repr

/-- `NewTopologyAwarePool(clusterCIDR)`. -/
def NewTopologyAwarePool (clusterCIDR : CIDRString) : TopologyAwarePool :=
  { clusterCIDR := clusterCIDR, topology := NewTopology, subnetPools := [] }

namespace TopologyAwarePool

/-- The innermost loop of `InitializeTopology`, over the subnets of one TOR: the local
`subnetPool` is filled and each CIDR appended to the TOR (the result of
`AddSubnetToTOR` is discarded by the code). -/
def initSubnets (topo : Topology) (subnetPool : SubnetPool) (torID : String) :
    List SubnetConfig → Topology × SubnetPool × Option Err
  | [] => (topo, subnetPool, none)
  | subnetConfig :: rest =>
    match subnetPool.AddSubnet subnetConfig.CIDR subnetConfig.Purpose with
    | (sp, some err) => (topo, sp, some err)
    | (sp, none) =>
      initSubnets (topo.AddSubnetToTOR torID subnetConfig.CIDR).1 sp torID rest

/-- The loop of `InitializeTopology` over the TORs of one pod. -/
def initTORs (p : TopologyAwarePool) (podID : String) :
    List TORConfig → TopologyAwarePool × Option Err
  | [] => (p, none)
  | torConfig :: rest =>
    match p.topology.AddTOR
        { ID := torConfig.ID, Name := torConfig.Name, PodID := podID,
          Location := torConfig.Location, Subnets := [], Nodes := [] } with
    | (topo, some err) => ({ p with topology := topo }, some err)
    | (topo, none) =>
      match initSubnets topo (NewSubnetPool torConfig.ID) torConfig.ID torConfig.Subnets with
      | (topo', _, some err) => ({ p with topology := topo' }, some err)
      | (topo', subnetPool, none) =>
        initTORs
          { p with topology := topo',
                   subnetPools := mapPut p.subnetPools torConfig.ID subnetPool }
          podID rest

/-- The loop of `InitializeTopology` over the pods of one zone. -/
def initPods (p : TopologyAwarePool) (zoneID : String) :
    List PodConfig → TopologyAwarePool × Option Err
  | [] => (p, none)
  | podConfig :: rest =>
    match p.topology.AddPod
        { ID := podConfig.ID, Name := podConfig.Name, ZoneID := zoneID,
          SubnetRanges := podConfig.SubnetRanges, TORs := [] } with
    | (topo, some err) => ({ p with topology := topo }, some err)
    | (topo, none) =>
      match initTORs { p with topology := topo } podConfig.ID podConfig.TORs with
      | (p', some err) => (p', some err)
      | (p', none) => initPods p' zoneID rest

/-- The outer loop of `InitializeTopology`, over the zones. -/
def initZones (p : TopologyAwarePool) : List ZoneConfig → TopologyAwarePool × Option Err
  | [] => (p, none)
  | zoneConfig :: rest =>
    match p.topology.AddZone
        { ID := zoneConfig.ID, Name := zoneConfig.Name,
          SubnetRanges := zoneConfig.SubnetRanges, Pods := [] } with
    | (topo, some err) => ({ p with topology := topo }, some err)
    | (topo, none) =>
      match initPods { p with topology := topo } zoneConfig.ID zoneConfig.Pods with
      | (p', some err) => (p', some err)
      | (p', none) => initZones p' rest

/-- `TopologyAwarePool.InitializeTopology(topoConfig)`.  The code wraps an inner error
with `%w`; the model returns the inner error. -/
def InitializeTopology (p : TopologyAwarePool) (topoConfig : TopologyConfig) :
    TopologyAwarePool × Option Err :=
  initZones p topoConfig.Zones

/-- `TopologyAwarePool.RegisterNode(nodeID, nodeName, torID, labels)`. -/
def RegisterNode (p : TopologyAwarePool) (nodeID nodeName torID : String)
    (labels : List (String × String)) : TopologyAwarePool × Option Err :=
  match p.topology.RegisterNode
      { ID := nodeID, Name := nodeName, TORID := torID, Labels := labels } with
  | (topo, err) => ({ p with topology := topo }, err)

/-- `TopologyAwarePool.AllocateIPForNodeWithPurpose(nodeID, purpose)`; `ord₁`, `ord₂` are
the orders of the two `range` loops of `SubnetPool.AllocateIP`. -/
def AllocateIPForNodeWithPurpose (p : TopologyAwarePool) (nodeID purpose : String)
    (ord₁ ord₂ : MapOrder) : TopologyAwarePool × Except Err (IP × CIDRString) :=
  match p.topology.GetNodeTOR nodeID with
  | Except.error err => (p, Except.error err)
  | Except.ok tor =>
    match mapGet p.subnetPools tor.ID with
    | none => (p, Except.error Err.subnetPoolNotFound)
    | some subnetPool =>
      match subnetPool.AllocateIP nodeID purpose ord₁ ord₂ with
      | (sp, r) => ({ p with subnetPools := mapPut p.subnetPools tor.ID sp }, r)

/-- `TopologyAwarePool.AllocateIPForNode(nodeID)`. -/
def AllocateIPForNode (p : TopologyAwarePool) (nodeID : String) (ord₁ ord₂ : MapOrder) :
    TopologyAwarePool × Except Err (IP × CIDRString) :=
  p.AllocateIPForNodeWithPurpose nodeID "default" ord₁ ord₂

/-- `TopologyAwarePool.ReleaseIPForNode(nodeID, ip)`; `ord` is the order of the `range`
loop of `SubnetPool.ReleaseIP`. -/
def ReleaseIPForNode (p : TopologyAwarePool) (nodeID : String) (ip : IP) (ord : MapOrder) :
    TopologyAwarePool × Option Err :=
  match p.topology.GetNodeTOR nodeID with
  | Except.error err => (p, some err)
  | Except.ok tor =>
    match mapGet p.subnetPools tor.ID with
    | none => (p, some Err.subnetPoolNotFound)
    | some subnetPool =>
      match subnetPool.ReleaseIP ip ord with
      | (sp, err) => ({ p with subnetPools := mapPut p.subnetPools tor.ID sp }, err)

/-- `TopologyAwarePool.AddSubnetToTOR(torID, cidr, purpose)`. -/
def AddSubnetToTOR (p : TopologyAwarePool) (torID : String) (cidr : CIDRString)
    (purpose : String) : TopologyAwarePool × Option Err :=
  match mapGet p.subnetPools torID with
  | none => (p, some Err.torNotFound)
  | some subnetPool =>
    match subnetPool.AddSubnet cidr purpose with
    | (sp, some err) => ({ p with subnetPools := mapPut p.subnetPools torID sp }, some err)
    | (sp, none) =>
      match p.topology.AddSubnetToTOR torID cidr with
      | (topo, err) =>
        ({ p with subnetPools := mapPut p.subnetPools torID sp, topology := topo }, err)

end TopologyAwarePool

/-- A call of one of the five mutating operations of the topology pool; the allocation
and release calls carry the orders in which their `range` loops visit the subnets. -/
inductive TopoOp where
  | initializeTopology (topoConfig : TopologyConfig)
  | registerNode (nodeID nodeName torID : String) (labels : List (String × String))
  | addSubnetToTOR (torID : String) (cidr : CIDRString) (purpose : String)
  | allocateIP (nodeID purpose : String) (ord₁ ord₂ : MapOrder)
  | releaseIP (nodeID : String) (ip : IP) (ord : MapOrder)

/-- The orders carried by a call are orders. -/
def TopoOp.Valid : TopoOp → Prop
  | TopoOp.allocateIP _ _ ord₁ ord₂ => IsMapOrder ord₁ ∧ IsMapOrder ord₂
  | TopoOp.releaseIP _ _ ord => IsMapOrder ord
  | _ => True

/-- A topology pool together with the addresses currently held: those a successful
`AllocateIPForNodeWithPurpose` returned and no successful `ReleaseIPForNode` has
released since. -/
structure TrackedTopo where
  pool : TopologyAwarePool
  held : List IP
  deriving DecidableEq, Repr

namespace TrackedTopo

/-- One call: the pool after it and the held addresses after it. -/
def step (t : TrackedTopo) : TopoOp → TrackedTopo
  | TopoOp.initializeTopology cfg => { t with pool := (t.pool.InitializeTopology cfg).1 }
  | TopoOp.registerNode nodeID nodeName torID labels =>
    { t with pool := (t.pool.RegisterNode nodeID nodeName torID labels).1 }
  | TopoOp.addSubnetToTOR torID cidr purpose =>
    { t with pool := (t.pool.AddSubnetToTOR torID cidr purpose).1 }
  | TopoOp.allocateIP nodeID purpose ord₁ ord₂ =>
    match t.pool.AllocateIPForNodeWithPurpose nodeID purpose ord₁ ord₂ with
    | (p, Except.ok (ip, _)) => { pool := p, held := ip :: t.held }
    | (p, Except.error _) => { pool := p, held := t.held }
  | TopoOp.releaseIP nodeID ip ord =>
    match t.pool.ReleaseIPForNode nodeID ip ord with
    | (p, none) => { pool := p, held := t.held.filter (fun x => decide (x ≠ ip)) }
    | (p, some _) => { pool := p, held := t.held }

/-- The calls applied in order. -/
def run (t : TrackedTopo) : List TopoOp → TrackedTopo
  | [] => t
  | op :: ops => run (t.step op) ops

end TrackedTopo

/-- The topology pools reachable from `NewTopologyAwarePool(clusterCIDR)` by the five
operations, with their held addresses. -/
def TopologyAwarePool.ReachableFrom (clusterCIDR : CIDRString) (t : TrackedTopo) : Prop :=
  ∃ ops : List TopoOp, (∀ op ∈ ops, op.Valid) ∧
    t = TrackedTopo.run ⟨NewTopologyAwarePool clusterCIDR, []⟩ ops

/-- The allocator of a subnet seen as a block: same CIDR, capacity and bitmap. -/
def Subnet.asBlock (s : Subnet) : IPBlock :=
  { CIDR := s.CIDR, NodeID := "", Total := s.Capacity, Used := s.bitmap.allocated,
    bitmap := s.bitmap }

/-- The address lies in the subnet and its bit is set. -/
def Subnet.Holds (s : Subnet) (ip : IP) : Bool := s.asBlock.Contains ip

/-- Well-formedness of a subnet: what `AddSubnet` establishes and `AllocateIP`/`ReleaseIP`
keep. -/
structure Subnet.WF (s : Subnet) : Prop where
  bm : s.bitmap.WF
  size : s.bitmap.size = s.Capacity
  v4 : s.CIDR.bits = 32 → s.CIDR.ones ≤ 30 ∧ s.CIDR.addr < 2 ^ 32 ∧
    maskAddr s.CIDR.addr s.CIDR.ones 32 = s.CIDR.addr ∧
    s.Capacity = 2 ^ (32 - s.CIDR.ones) - 2

namespace TopologyAwarePool

/-- The subnet stored under the key `key` in the subnet pool of the TOR `tor`. -/
def subnetAt (p : TopologyAwarePool) (tor : String) (key : CIDRString) : Option Subnet :=
  match mapGet p.subnetPools tor with
  | none => none
  | some sp => mapGet sp.Subnets key

/-- Every subnet of every TOR is an IPv4 network. -/
def AllV4 (p : TopologyAwarePool) : Prop :=
  ∀ tor key s, p.subnetAt tor key = some s → s.CIDR.bits = 32

/-- The address ranges of the subnets are pairwise disjoint, over all TORs: an address
lies in the network of at most one stored subnet. -/
def Disjoint (p : TopologyAwarePool) : Prop :=
  ∀ tor₁ key₁ s₁ tor₂ key₂ s₂ ip, p.subnetAt tor₁ key₁ = some s₁ →
    p.subnetAt tor₂ key₂ = some s₂ → s₁.CIDR.Contains ip = true →
    s₂.CIDR.Contains ip = true → tor₁ = tor₂ ∧ key₁ = key₂

/-- A subnet pool exists only for a TOR of the topology. -/
def PoolsHaveTOR (p : TopologyAwarePool) : Prop :=
  ∀ tor, mapGet p.subnetPools tor ≠ none → mapGet p.topology.TORs tor ≠ none

/-- Every stored subnet is well-formed. -/
def SubnetsWF (p : TopologyAwarePool) : Prop :=
  ∀ tor key s, p.subnetAt tor key = some s → s.WF

end TopologyAwarePool

/-- The invariant of a tracked topology pool: pools belong to TORs, subnets are
well-formed and, as long as all subnets are IPv4, every held address has its bit set in a
subnet that contains it. -/
def TrackedTopo.Inv (t : TrackedTopo) : Prop :=
  t.pool.PoolsHaveTOR ∧ t.pool.SubnetsWF ∧
  (t.pool.AllV4 → ∀ ip ∈ t.held, ∃ tor key s, t.pool.subnetAt tor key = some s ∧
    s.Holds ip = true)

/-- A subnet pool extended by fresh subnets: the old subnets are kept as they are and
every new one is well-formed and holds no address. -/
def SubnetPool.Ext (sp sp' : SubnetPool) : Prop :=
  (∀ key s, mapGet sp.Subnets key = some s → mapGet sp'.Subnets key = some s) ∧
  (∀ key s', mapGet sp'.Subnets key = some s' →
    mapGet sp.Subnets key = some s' ∨ (s'.WF ∧ ∀ ip, s'.Holds ip = false))

/-- A topology pool extended by topology entries and fresh subnets: the old subnets are
kept as they are, every new one is well-formed and holds no address, no TOR disappears,
and pools still belong to TORs. -/
def TopologyAwarePool.Ext (p p' : TopologyAwarePool) : Prop :=
  (∀ tor key s, p.subnetAt tor key = some s → p'.subnetAt tor key = some s) ∧
  (∀ tor key s', p'.subnetAt tor key = some s' →
    p.subnetAt tor key = some s' ∨ (s'.WF ∧ ∀ ip, s'.Holds ip = false)) ∧
  (∀ id, mapGet p.topology.TORs id ≠ none → mapGet p'.topology.TORs id ≠ none) ∧
  (p.PoolsHaveTOR → p'.PoolsHaveTOR)

/-- No TOR disappears from `t` to `t'`. -/
def Topology.TORsKept (t t' : Topology) : Prop :=
  ∀ id, mapGet t.TORs id ≠ none → mapGet t'.TORs id ≠ none

/-! ## `pkg/allocator/ipv6.go` -/

/-- The Go struct `IPv6Block` (without `CreatedAt`); `Total` and `Used` are `int64`, the
bitmap pointer is `nil` for a block with more than 32 host bits. -/
structure IPv6Block where
  CIDR : IPNet
  NodeID : String
  Total : Int
  Used : Int
  bitmap : Option Bitmap
  deriving DecidableEq, Repr

/-- `NewIPv6Block(cidr, nodeID)`: a network `To4` accepts is refused; with more than 32
host bits the total is capped at `1 << 32` and no bitmap is made. -/
def NewIPv6Block (cidr : CIDRString) (nodeID : String) : Except Err IPv6Block :=
  match ParseCIDR cidr with
  | none => Except.error Err.invalidCIDR
  | some ipNet =>
    match ipNet.To4 with
    | some _ => Except.error Err.notIPv6CIDR
    | none =>
      if ipNet.ones ≥ ipNet.bits then Except.error Err.invalidIPv6Mask
      else
        let maskSize := ipNet.bits - ipNet.ones
        let total : Int := if maskSize > 32 then 2 ^ 32 else 2 ^ maskSize
        let bitmap : Option Bitmap := if maskSize ≤ 32 then some (NewBitmap total) else none
        Except.ok
          { CIDR := ipNet, NodeID := nodeID, Total := total, Used := 0, bitmap := bitmap }

/-- The integer `new(big.Int).SetBytes(ip.To16())`: the 16-byte form of an IPv4 address is
`::ffff:a.b.c.d`; `To16` of a byte string of another length is `nil`, of value 0. -/
def IP.To16Int : IP → Int
  | IP.nil => 0
  | IP.v4 a => ((0xffff * 2 ^ 32 + a % 2 ^ 32 : Nat) : Int)
  | IP.v6 a => if a < 2 ^ 128 then (a : Int) else 0

namespace IPv6Block

/-- `IPv6Block.positionToIPv6(pos)`: the network address plus `pos` as a big integer, its
magnitude written big-endian and padded to 16 bytes. -/
def positionToIPv6 (block : IPv6Block) (pos : Int) : IP :=
  IP.ofBytes16 ((block.CIDR.addr : Int) + pos).natAbs

/-- `IPv6Block.ipv6ToPosition(ip)`: the difference to the network address, `-1` when it
does not fit an `int64`. -/
def ipv6ToPosition (block : IPv6Block) (ip : IP) : Int :=
  let posInt := ip.To16Int - (block.CIDR.addr : Int)
  if -(2 ^ 63) ≤ posInt ∧ posInt < 2 ^ 63 then posInt else -1

/-- `IPv6Block.Allocate()`: through the bitmap when there is one, else the next address
in sequence. -/
def Allocate (block : IPv6Block) : IPv6Block × Except Err IP :=
  match block.bitmap with
  | some bitmap =>
    let pos := bitmap.FindFirstZero
    if pos = -1 then (block, Except.error Err.ErrNoAvailableIP)
    else
      match bitmap.Set pos with
      | (bm, some err) => ({ block with bitmap := some bm }, Except.error err)
      | (bm, none) =>
        let ip := block.positionToIPv6 pos
        ({ block with bitmap := some bm, Used := toInt64 (block.Used + 1) }, Except.ok ip)
  | none =>
    if block.Used ≥ block.Total then (block, Except.error Err.ErrNoAvailableIP)
    else
      let ip := block.positionToIPv6 block.Used
      ({ block with Used := toInt64 (block.Used + 1) }, Except.ok ip)

/-- `IPv6Block.Release(ip)`. -/
def Release (block : IPv6Block) (ip : IP) : IPv6Block × Option Err :=
  if !block.CIDR.Contains ip then (block, some Err.ErrIPNotInBlock)
  else
    match block.bitmap with
    | some bitmap =>
      let pos := block.ipv6ToPosition ip
      if pos < 0 ∨ pos ≥ bitmap.size then (block, some Err.ErrInvalidIP)
      else
        match bitmap.Clear pos with
        | (bm, some err) => ({ block with bitmap := some bm }, some err)
        | (bm, none) =>
          ({ block with bitmap := some bm, Used := toInt64 (block.Used - 1) }, none)
    | none =>
      if block.Used > 0 then ({ block with Used := toInt64 (block.Used - 1) }, none)
      else (block, none)

/-- `IPv6Block.Available()`. -/
def Available (block : IPv6Block) : Int := toInt64 (block.Total - block.Used)

/-- The block after `k` consecutive `Allocate` calls. -/
def allocN (block : IPv6Block) : Nat → IPv6Block
  | 0 => block
  | k + 1 => (allocN block k).Allocate.1

end IPv6Block

/-- The Go struct `DualStackBlock`. -/
structure DualStackBlock where
  IPv4Block : IPBlock
  IPv6Block : IPv6Block
  NodeID : String
  deriving DecidableEq, Repr

/-- `NewDualStackBlock(ipv4CIDR, ipv6CIDR, nodeID)`. -/
def NewDualStackBlock (ipv4CIDR ipv6CIDR : CIDRString) (nodeID : String) :
    Except Err DualStackBlock :=
  match NewIPBlock ipv4CIDR nodeID with
  | Except.error e => Except.error e
  | Except.ok ipv4Block =>
    match NewIPv6Block ipv6CIDR nodeID with
    | Except.error e => Except.error e
    | Except.ok ipv6Block =>
      Except.ok { IPv4Block := ipv4Block, IPv6Block := ipv6Block, NodeID := nodeID }

namespace DualStackBlock

/-- `DualStackBlock.AllocateDualStack()`: when the IPv6 allocation fails the IPv4 address
is released again, the result of that `Release` being dropped. -/
def AllocateDualStack (dsb : DualStackBlock) : DualStackBlock × Except Err (IP × IP) :=
  match dsb.IPv4Block.Allocate with
  | (b4, Except.error e) => ({ dsb with IPv4Block := b4 }, Except.error e)
  | (b4, Except.ok ipv4) =>
    match dsb.IPv6Block.Allocate with
    | (b6, Except.error e) =>
      ({ dsb with IPv4Block := (b4.Release ipv4).1, IPv6Block := b6 }, Except.error e)
    | (b6, Except.ok ipv6) =>
      ({ dsb with IPv4Block := b4, IPv6Block := b6 }, Except.ok (ipv4, ipv6))

/-- `DualStackBlock.ReleaseDualStack(ipv4, ipv6)`: both releases are made, the first
error is returned. -/
def ReleaseDualStack (dsb : DualStackBlock) (ipv4 ipv6 : IP) : DualStackBlock × Option Err :=
  let r4 := dsb.IPv4Block.Release ipv4
  let r6 := dsb.IPv6Block.Release ipv6
  ({ dsb with IPv4Block := r4.1, IPv6Block := r6.1 },
    match r4.2 with
    | some e => some e
    | none => r6.2)

/-- The states of a dual-stack block: what `NewDualStackBlock` returned, followed by any
`AllocateDualStack` and `ReleaseDualStack` calls and any `Allocate` and `Release` calls on
its two blocks, which are exported fields. -/
inductive Reachable (ipv4CIDR ipv6CIDR : CIDRString) (nodeID : String) :
    DualStackBlock → Prop
  | init (d : DualStackBlock) :
      NewDualStackBlock ipv4CIDR ipv6CIDR nodeID = Except.ok d →
      Reachable ipv4CIDR ipv6CIDR nodeID d
  | allocateDual (d : DualStackBlock) :
      Reachable ipv4CIDR ipv6CIDR nodeID d →
      Reachable ipv4CIDR ipv6CIDR nodeID d.AllocateDualStack.1
  | releaseDual (d : DualStackBlock) (ipv4 ipv6 : IP) :
      Reachable ipv4CIDR ipv6CIDR nodeID d →
      Reachable ipv4CIDR ipv6CIDR nodeID (d.ReleaseDualStack ipv4 ipv6).1
  | allocate4 (d : DualStackBlock) :
      Reachable ipv4CIDR ipv6CIDR nodeID d →
      Reachable ipv4CIDR ipv6CIDR nodeID { d with IPv4Block := d.IPv4Block.Allocate.1 }
  | release4 (d : DualStackBlock) (ip : IP) :
      Reachable ipv4CIDR ipv6CIDR nodeID d →
      Reachable ipv4CIDR ipv6CIDR nodeID { d with IPv4Block := (d.IPv4Block.Release ip).1 }
  | allocate6 (d : DualStackBlock) :
      Reachable ipv4CIDR ipv6CIDR nodeID d →
      Reachable ipv4CIDR ipv6CIDR nodeID { d with IPv6Block := d.IPv6Block.Allocate.1 }
  | release6 (d : DualStackBlock) (ip : IP) :
      Reachable ipv4CIDR ipv6CIDR nodeID d →
      Reachable ipv4CIDR ipv6CIDR nodeID { d with IPv6Block := (d.IPv6Block.Release ip).1 }

end DualStackBlock

/-- Well-formedness of an IPv6 block: what `NewIPv6Block` establishes and `Allocate` and
`Release` keep. -/
structure IPv6Block.WF (b : IPv6Block) : Prop where
  bm : ∀ bitmap, b.bitmap = some bitmap →
    bitmap.WF ∧ b.Used = bitmap.allocated ∧ bitmap.size = b.Total
  seq : b.bitmap = none → 0 ≤ b.Used ∧ b.Used ≤ b.Total
  total : 0 ≤ b.Total ∧ b.Total ≤ 2 ^ 32

/-! ## Subnet pools: queries, call sequences and invariant -/

namespace SubnetPool

/-- `SubnetPool.GetAllocation(ip)`: the first visited subnet whose CIDR contains `ip`
decides; `ord` is the order of its `range` loop. -/
def GetAllocation (sp : SubnetPool) (ip : IP) (ord : MapOrder) : Except Err IPAllocation :=
  match (rangeMap sp.Subnets ord).find? (fun e => e.2.CIDR.Contains ip) with
  | none => Except.error Err.ipNotInPool
  | some (_, subnet) =>
    match mapGet subnet.Allocations ip with
    | none => Except.error Err.ipNotAllocated
    | some allocation => Except.ok allocation

/-- The field `SubnetCount` of `SubnetPool.GetStats()`: `len(sp.Subnets)`. -/
def SubnetCount (sp : SubnetPool) : Int := sp.Subnets.length

/-- The pool after the `AddSubnet` calls of a list of (CIDR, purpose) pairs, in order,
whether they succeed or fail. -/
def addAll (sp : SubnetPool) : List (CIDRString × String) → SubnetPool
  | [] => sp
  | c :: rest => addAll (sp.AddSubnet c.1 c.2).1 rest

end SubnetPool

/-- A call on a subnet pool, with the orders in which its `range` loops visit the map. -/
inductive SubnetOp where
  | addSubnet (cidr : CIDRString) (purpose : String)
  | allocateIP (nodeID purpose : String) (ord₁ ord₂ : MapOrder)
  | releaseIP (ip : IP) (ord : MapOrder)

/-- The orders of a call are orders: each visits every key exactly once. -/
def SubnetOp.Valid : SubnetOp → Prop
  | SubnetOp.addSubnet _ _ => True
  | SubnetOp.allocateIP _ _ ord₁ ord₂ => IsMapOrder ord₁ ∧ IsMapOrder ord₂
  | SubnetOp.releaseIP _ ord => IsMapOrder ord

namespace SubnetPool

/-- The pool after one call. -/
def step (sp : SubnetPool) : SubnetOp → SubnetPool
  | SubnetOp.addSubnet cidr purpose => (sp.AddSubnet cidr purpose).1
  | SubnetOp.allocateIP nodeID purpose ord₁ ord₂ => (sp.AllocateIP nodeID purpose ord₁ ord₂).1
  | SubnetOp.releaseIP ip ord => (sp.ReleaseIP ip ord).1

/-- The calls applied in order. -/
def run (sp : SubnetPool) : List SubnetOp → SubnetPool
  | [] => sp
  | op :: ops => run (sp.step op) ops

/-- The pools reachable from `NewSubnetPool(torID)` by `AddSubnet`, `AllocateIP` and
`ReleaseIP` calls. -/
def ReachableFrom (torID : String) (sp : SubnetPool) : Prop :=
  ∃ ops : List SubnetOp, (∀ op ∈ ops, op.Valid) ∧ sp = run (NewSubnetPool torID) ops

/-- The invariant of a subnet pool: every stored subnet is well-formed, its `Used` is the
count of its bitmap, and its network is the one parsed from the string it is stored
under. -/
def Good (sp : SubnetPool) : Prop :=
  ∀ key s, mapGet sp.Subnets key = some s →
    s.WF ∧ s.Used = s.bitmap.allocated ∧ ParseCIDR key = some s.CIDR

end SubnetPool

/-! ## Subnets: recorded allocations and the bitmap -/

/-- Recorded allocations and bitmap of a subnet agree: a subnet over an IPv4 network has
fewer than `2 ^ 32` positions, and every address of the network with a recorded allocation
sits at a position of the bitmap that is set. -/
structure Subnet.AllocOK (s : Subnet) : Prop where
  cap : s.CIDR.To4 ≠ none → s.Capacity < 2 ^ 32
  recorded : ∀ ip, (mapGet s.Allocations ip).isSome = true → s.CIDR.Contains ip = true →
    ∃ q : Nat, ipToPosition s.CIDR ip = (q : Int) ∧ (q : Int) < s.bitmap.size ∧
      Bitmap.bitAt s.bitmap q = true

/-- Every stored subnet of the pool satisfies `Subnet.AllocOK`. -/
def SubnetPool.AllocGood (sp : SubnetPool) : Prop :=
  ∀ key s, mapGet sp.Subnets key = some s → s.AllocOK

/-! ## Topology configurations -/

/-- The subnet CIDR strings a configuration lists, each with the ID of its TOR, in the
order in which `InitializeTopology` adds them. -/
def TopologyConfig.subnetCIDRs (cfg : TopologyConfig) : List (String × CIDRString) :=
  cfg.Zones.flatMap (fun z => z.Pods.flatMap (fun pd => pd.TORs.flatMap (fun tc =>
    tc.Subnets.map (fun sc => (tc.ID, sc.CIDR)))))

/-! ## Statistics (`GetStats`, `GetPoolStats`) -/

/-- The Go struct `SubnetStats` (without `UsageRate`). -/
structure SubnetStats where
  CIDR : CIDRString
  Purpose : String
  Capacity : Int
  Used : Int
  Available : Int
  deriving DecidableEq, Repr

/-- The Go struct `SubnetPoolStats` (without `UsageRate`). -/
structure SubnetPoolStats where
  TORID : String
  SubnetCount : Int
  TotalCapacity : Int
  TotalUsed : Int
  TotalAvailable : Int
  SubnetStats : List (CIDRString × SubnetStats)
  deriving DecidableEq, Repr

/-- `SubnetPool.GetStats()`.  The loop ranges over the subnet map; its sums and its
insertions under distinct keys do not depend on the order, and the model visits the
entries as stored. -/
def SubnetPool.GetStats (sp : SubnetPool) : SubnetPoolStats :=
  sp.Subnets.foldl
    (fun stats e =>
      { stats with
          SubnetStats := mapPut stats.SubnetStats e.1
            { CIDR := e.1, Purpose := e.2.Purpose, Capacity := e.2.Capacity, Used := e.2.Used,
              Available := toInt64 (e.2.Capacity - e.2.Used) },
          TotalCapacity := toInt64 (stats.TotalCapacity + e.2.Capacity),
          TotalUsed := toInt64 (stats.TotalUsed + e.2.Used),
          TotalAvailable := toInt64 (stats.TotalAvailable + toInt64 (e.2.Capacity - e.2.Used)) })
    { TORID := sp.TORID, SubnetCount := sp.Subnets.length, TotalCapacity := 0, TotalUsed := 0,
      TotalAvailable := 0, SubnetStats := [] }

/-- The Go struct `TopologyPoolStats` (without `UsageRate`). -/
structure TopologyPoolStats where
  ZoneCount : Int
  PodCount : Int
  TORCount : Int
  NodeCount : Int
  TotalSubnets : Int
  TotalCapacity : Int
  TotalUsed : Int
  TotalAvailable : Int
  TORStats : List (String × SubnetPoolStats)
  deriving DecidableEq, Repr

/-- `TopologyAwarePool.GetPoolStats()`; the four counts are those of
`Topology.GetTopologyStats()`, the lengths of the four maps.  The loop ranges over the map
of subnet pools; the model visits the entries as stored. -/
def TopologyAwarePool.GetPoolStats (p : TopologyAwarePool) : TopologyPoolStats :=
  p.subnetPools.foldl
    (fun stats e =>
      { stats with
          TORStats := mapPut stats.TORStats e.1 e.2.GetStats,
          TotalSubnets := toInt64 (stats.TotalSubnets + e.2.GetStats.SubnetCount),
          TotalCapacity := toInt64 (stats.TotalCapacity + e.2.GetStats.TotalCapacity),
          TotalUsed := toInt64 (stats.TotalUsed + e.2.GetStats.TotalUsed),
          TotalAvailable := toInt64 (stats.TotalAvailable + e.2.GetStats.TotalAvailable) })
    { ZoneCount := p.topology.Zones.length, PodCount := p.topology.Pods.length,
      TORCount := p.topology.TORs.length, NodeCount := p.topology.Nodes.length,
      TotalSubnets := 0, TotalCapacity := 0, TotalUsed := 0, TotalAvailable := 0,
      TORStats := [] }

/-- The Go struct `NodeStats` of the flat pool. -/
structure NodeStats where
  NodeID : String
  Blocks : Int
  TotalIPs : Int
  UsedIPs : Int
  AvailableIPs : Int
  deriving DecidableEq, Repr

/-- The Go struct `PoolStats` of the flat pool. -/
structure PoolStats where
  TotalNodes : Int
  TotalBlocks : Int
  TotalIPs : Int
  UsedIPs : Int
  AvailableIPs : Int
  NodeStats : List (String × NodeStats)
  deriving DecidableEq, Repr

/-- `Pool.GetStats()`; the outer loop ranges over the node map, visited as stored. -/
def Pool.GetStats (p : Pool) : PoolStats :=
  p.nodeBlocks.foldl
    (fun stats e =>
      let nodeStats : NodeStats :=
        e.2.foldl
          (fun ns block =>
            { ns with
                TotalIPs := toInt64 (ns.TotalIPs + block.Total),
                UsedIPs := toInt64 (ns.UsedIPs + block.Used),
                AvailableIPs := toInt64 (ns.AvailableIPs + block.Available) })
          { NodeID := e.1, Blocks := e.2.length, TotalIPs := 0, UsedIPs := 0,
            AvailableIPs := 0 }
      { stats with
          NodeStats := mapPut stats.NodeStats e.1 nodeStats,
          TotalIPs := toInt64 (stats.TotalIPs + nodeStats.TotalIPs),
          UsedIPs := toInt64 (stats.UsedIPs + nodeStats.UsedIPs),
          AvailableIPs := toInt64 (stats.AvailableIPs + nodeStats.AvailableIPs) })
    { TotalNodes := p.nodeBlocks.length, TotalBlocks := p.allocatedBlocks.length,
      TotalIPs := 0, UsedIPs := 0, AvailableIPs := 0, NodeStats := [] }

/-! ## `pkg/raft/fsm.go` and `pkg/raft/topology_fsm.go` -/

/-- The text of an IP address: `v4 a` is the dotted text of the 32-bit value `a`, `v6 a`
the text of a 128-bit value, `invalid s` any text `net.ParseIP` rejects. -/
inductive IPString where
  | v4 (addr : Nat)
  | v6 (addr : Nat)
  | invalid (text : String)
  deriving DecidableEq, Repr

/-- `net.ParseIP`: `nil` for a text that is no address. -/
def ParseIP : IPString → IP
  | IPString.v4 a => if a < 2 ^ 32 then IP.v4 a else IP.nil
  | IPString.v6 a => if a < 2 ^ 128 then IP.ofBytes16 a else IP.nil
  | IPString.invalid _ => IP.nil

/-- The `Data` map of an `FSMResponse`, one constructor for each shape the code builds;
`empty` is the nil map. -/
inductive ResponseData where
  | empty
  | block (cidr : CIDRString) (node_id : String) (total used available : Int)
  | topology (zones pods tors subnets : Int)
  | node (node_id node_name tor_id : String)
  | allocation (ip : IP) (cidr : CIDRString) (node_id purpose : String)
  | release (ip : IPString) (node_id : String)
  | subnet (tor_id : String) (cidr : CIDRString) (purpose : String)
  deriving DecidableEq, Repr

/-- The Go struct `FSMResponse`; `Error` is `none` for the empty string. -/
structure FSMResponse where
  Success : Bool
  Error : Option Err
  Data : ResponseData
  deriving DecidableEq, Repr

/-- The Go struct `ReleaseBlockData`. -/
structure ReleaseBlockData where
  CIDR : CIDRString
  deriving DecidableEq, Repr

/-- The Go struct `Command` of the flat FSM; `CmdType` is its field `Type`.  `Data` is the raw JSON of the `data` field,
represented by what `json.Unmarshal` makes of it as a `ReleaseBlockData`, the only type the
code decodes it to (`none`: the decoding fails, as it does for a missing field). -/
structure Command where
  CmdType : String
  NodeID : String
  Data : Option ReleaseBlockData
  deriving DecidableEq, Repr

/-- The Go struct `FSM` (without the mutex). -/
structure FSM where
  pool : Pool
  deriving DecidableEq, Repr

/-- `NewFSM(pool)`. -/
def NewFSM (pool : Pool) : FSM := { pool := pool }

namespace FSM

/-- `FSM.applyAllocateBlock(cmd)`. -/
def applyAllocateBlock (f : FSM) (cmd : Command) : FSM × FSMResponse :=
  match f.pool.AllocateBlockForNode cmd.NodeID with
  | (p, Except.error err) =>
    ({ pool := p }, { Success := false, Error := some err, Data := ResponseData.empty })
  | (p, Except.ok block) =>
    ({ pool := p },
      { Success := true, Error := none,
        Data := ResponseData.block block.CIDR.String block.NodeID block.Total block.Used
          block.Available })

/-- `FSM.applyReleaseBlock(cmd)`. -/
def applyReleaseBlock (f : FSM) (cmd : Command) : FSM × FSMResponse :=
  match cmd.Data with
  | none =>
    (f, { Success := false, Error := some Err.failedUnmarshalData, Data := ResponseData.empty })
  | some data =>
    match f.pool.ReleaseBlockForNode cmd.NodeID data.CIDR with
    | (p, some err) =>
      ({ pool := p }, { Success := false, Error := some err, Data := ResponseData.empty })
    | (p, none) =>
      ({ pool := p }, { Success := true, Error := none, Data := ResponseData.empty })

/-- `FSM.applyUpdateUsage(cmd)`. -/
def applyUpdateUsage (f : FSM) (_cmd : Command) : FSM × FSMResponse :=
  (f, { Success := true, Error := none, Data := ResponseData.empty })

/-- `FSM.Apply(log)`; the log entry is represented by the command its data decodes to,
`none` when `json.Unmarshal` fails. -/
def Apply (f : FSM) (log : Option Command) : FSM × FSMResponse :=
  match log with
  | none =>
    (f, { Success := false, Error := some Err.failedUnmarshalCommand,
          Data := ResponseData.empty })
  | some cmd =>
    if cmd.CmdType = "allocate_block" then f.applyAllocateBlock cmd
    else if cmd.CmdType = "release_block" then f.applyReleaseBlock cmd
    else if cmd.CmdType = "update_usage" then f.applyUpdateUsage cmd
    else
      (f, { Success := false, Error := some Err.unknownCommandType,
            Data := ResponseData.empty })

end FSM

/-- The Go struct `FSMSnapshot`. -/
structure FSMSnapshot where
  stats : PoolStats
  deriving DecidableEq, Repr

/-- The Go struct `SnapshotData`. -/
structure SnapshotData where
  Stats : PoolStats
  deriving DecidableEq, Repr

/-- `FSM.Snapshot()`. -/
def FSM.Snapshot (f : FSM) : FSMSnapshot := { stats := f.pool.GetStats }

/-- `FSMSnapshot.Persist(sink)`: the snapshot data whose JSON encoding is written to the
sink. -/
def FSMSnapshot.Persist (s : FSMSnapshot) : SnapshotData := { Stats := s.stats }

/-- `FSM.Restore(snapshot)`; the reader is represented by the snapshot data its content
decodes to, `none` when decoding fails.  The decoded data is not used. -/
def FSM.Restore (f : FSM) (snapshot : Option SnapshotData) : FSM × Option Err :=
  match snapshot with
  | none => (f, some Err.failedDecodeSnapshot)
  | some _ => (f, none)

/-- The Go struct `InitTopologyData`; `Config` is a pointer, `none` standing for nil. -/
structure InitTopologyData where
  Config : Option TopologyConfig
  deriving DecidableEq, Repr

/-- The Go struct `RegisterNodeData`. -/
structure RegisterNodeData where
  NodeID : String
  NodeName : String
  TORID : String
  Labels : List (String × String)
  deriving DecidableEq, Repr

/-- The Go struct `AllocateIPData`. -/
structure AllocateIPData where
  NodeID : String
  Purpose : String
  deriving DecidableEq, Repr

/-- The Go struct `ReleaseIPData`. -/
structure ReleaseIPData where
  NodeID : String
  IP : IPString
  deriving DecidableEq, Repr

/-- The Go struct `AddSubnetData`. -/
structure AddSubnetData where
  TORID : String
  CIDR : CIDRString
  Purpose : String
  deriving DecidableEq, Repr

/-- The raw JSON of the `data` field of a `TopologyCommand`, represented by what
`json.Unmarshal` makes of it for each of the five data structs (`none`: the decoding
fails).  One text can decode to several of them. -/
structure RawMessage where
  asInitTopology : Option InitTopologyData
  asRegisterNode : Option RegisterNodeData
  asAllocateIP : Option AllocateIPData
  asReleaseIP : Option ReleaseIPData
  asAddSubnet : Option AddSubnetData
  deriving DecidableEq, Repr

/-- The Go struct `TopologyCommand`; `CmdType` is its field `Type`. -/
structure TopologyCommand where
  CmdType : String
  Data : RawMessage
  deriving DecidableEq, Repr

/-- The Go struct `TopologyFSM` (without the mutex). -/
structure TopologyFSM where
  pool : TopologyAwarePool
  deriving DecidableEq, Repr

/-- `NewTopologyFSM(pool)`. -/
def NewTopologyFSM (pool : TopologyAwarePool) : TopologyFSM := { pool := pool }

namespace TopologyFSM

/-- `TopologyFSM.applyInitTopology(cmd)`.  With a nil `Config` the call of
`InitializeTopology` dereferences a nil pointer and panics: no response is returned, which
is the result `none`. -/
def applyInitTopology (f : TopologyFSM) (cmd : TopologyCommand) :
    Option (TopologyFSM × FSMResponse) :=
  match cmd.Data.asInitTopology with
  | none =>
    some (f, { Success := false, Error := some Err.failedUnmarshalData,
               Data := ResponseData.empty })
  | some data =>
    match data.Config with
    | none => none
    | some config =>
      match f.pool.InitializeTopology config with
      | (p, some err) =>
        some ({ pool := p }, { Success := false, Error := some err, Data := ResponseData.empty })
      | (p, none) =>
        some ({ pool := p },
          { Success := true, Error := none,
            Data := ResponseData.topology p.GetPoolStats.ZoneCount p.GetPoolStats.PodCount
              p.GetPoolStats.TORCount p.GetPoolStats.TotalSubnets })

/-- `TopologyFSM.applyRegisterNode(cmd)`. -/
def applyRegisterNode (f : TopologyFSM) (cmd : TopologyCommand) : TopologyFSM × FSMResponse :=
  match cmd.Data.asRegisterNode with
  | none =>
    (f, { Success := false, Error := some Err.failedUnmarshalData, Data := ResponseData.empty })
  | some data =>
    match f.pool.RegisterNode data.NodeID data.NodeName data.TORID data.Labels with
    | (p, some err) =>
      ({ pool := p }, { Success := false, Error := some err, Data := ResponseData.empty })
    | (p, none) =>
      ({ pool := p },
        { Success := true, Error := none,
          Data := ResponseData.node data.NodeID data.NodeName data.TORID })

/-- `TopologyFSM.applyAllocateIP(cmd)`; `ord₁`, `ord₂` are the orders of the two `range`
loops of `SubnetPool.AllocateIP`. -/
def applyAllocateIP (f : TopologyFSM) (cmd : TopologyCommand) (ord₁ ord₂ : MapOrder) :
    TopologyFSM × FSMResponse :=
  match cmd.Data.asAllocateIP with
  | none =>
    (f, { Success := false, Error := some Err.failedUnmarshalData, Data := ResponseData.empty })
  | some data =>
    let purpose := if data.Purpose = "" then "default" else data.Purpose
    match f.pool.AllocateIPForNodeWithPurpose data.NodeID purpose ord₁ ord₂ with
    | (p, Except.error err) =>
      ({ pool := p }, { Success := false, Error := some err, Data := ResponseData.empty })
    | (p, Except.ok (ip, cidr)) =>
      ({ pool := p },
        { Success := true, Error := none,
          Data := ResponseData.allocation ip cidr data.NodeID purpose })

/-- `TopologyFSM.applyReleaseIP(cmd)`; `ord` is the order of the `range` loop of
`SubnetPool.ReleaseIP`. -/
def applyReleaseIP (f : TopologyFSM) (cmd : TopologyCommand) (ord : MapOrder) :
    TopologyFSM × FSMResponse :=
  match cmd.Data.asReleaseIP with
  | none =>
    (f, { Success := false, Error := some Err.failedUnmarshalData, Data := ResponseData.empty })
  | some data =>
    if ParseIP data.IP = IP.nil then
      (f, { Success := false, Error := some Err.invalidIPAddress, Data := ResponseData.empty })
    else
      match f.pool.ReleaseIPForNode data.NodeID (ParseIP data.IP) ord with
      | (p, some err) =>
        ({ pool := p }, { Success := false, Error := some err, Data := ResponseData.empty })
      | (p, none) =>
        ({ pool := p },
          { Success := true, Error := none, Data := ResponseData.release data.IP data.NodeID })

/-- `TopologyFSM.applyAddSubnet(cmd)`. -/
def applyAddSubnet (f : TopologyFSM) (cmd : TopologyCommand) : TopologyFSM × FSMResponse :=
  match cmd.Data.asAddSubnet with
  | none =>
    (f, { Success := false, Error := some Err.failedUnmarshalData, Data := ResponseData.empty })
  | some data =>
    match f.pool.AddSubnetToTOR data.TORID data.CIDR data.Purpose with
    | (p, some err) =>
      ({ pool := p }, { Success := false, Error := some err, Data := ResponseData.empty })
    | (p, none) =>
      ({ pool := p },
        { Success := true, Error := none,
          Data := ResponseData.subnet data.TORID data.CIDR data.Purpose })

/-- `TopologyFSM.Apply(log)`.  The log entry is represented by the command its data
decodes to (`none`: `json.Unmarshal` fails); `ord₁` and `ord₂` are the orders in which the
`range` loops of the pool call visit the subnet map (a release has one loop and uses
`ord₁`).  The result `none` stands for a panic. -/
def Apply (f : TopologyFSM) (log : Option TopologyCommand) (ord₁ ord₂ : MapOrder) :
    Option (TopologyFSM × FSMResponse) :=
  match log with
  | none =>
    some (f, { Success := false, Error := some Err.failedUnmarshalCommand,
               Data := ResponseData.empty })
  | some cmd =>
    if cmd.CmdType = "init_topology" then f.applyInitTopology cmd
    else if cmd.CmdType = "register_node" then some (f.applyRegisterNode cmd)
    else if cmd.CmdType = "allocate_ip" then some (f.applyAllocateIP cmd ord₁ ord₂)
    else if cmd.CmdType = "release_ip" then some (f.applyReleaseIP cmd ord₁)
    else if cmd.CmdType = "add_subnet" then some (f.applyAddSubnet cmd)
    else
      some (f, { Success := false, Error := some Err.unknownCommandType,
                 Data := ResponseData.empty })

end TopologyFSM

/-- The Go struct `TopologyFSMSnapshot`. -/
structure TopologyFSMSnapshot where
  stats : TopologyPoolStats
  deriving DecidableEq, Repr

/-- The Go struct `TopologySnapshotData`; an omitted `topology_config` is `none`, an
omitted `nodes` the empty list. -/
structure TopologySnapshotData where
  Stats : TopologyPoolStats
  TopologyConfig : Option TopologyConfig
  Nodes : List RegisterNodeData
  deriving DecidableEq, Repr

/-- `TopologyFSM.Snapshot()`. -/
def TopologyFSM.Snapshot (f : TopologyFSM) : TopologyFSMSnapshot :=
  { stats := f.pool.GetPoolStats }

/-- `TopologyFSMSnapshot.Persist(sink)`: the snapshot data whose JSON encoding is written
to the sink; only `Stats` is filled. -/
def TopologyFSMSnapshot.Persist (s : TopologyFSMSnapshot) : TopologySnapshotData :=
  { Stats := s.stats, TopologyConfig := none, Nodes := [] }

/-- The loop of `TopologyFSM.Restore` over the node registrations. -/
def TopologyFSM.restoreNodes (p : TopologyAwarePool) :
    List RegisterNodeData → TopologyAwarePool × Option Err
  | [] => (p, none)
  | nodeData :: rest =>
    match p.RegisterNode nodeData.NodeID nodeData.NodeName nodeData.TORID nodeData.Labels with
    | (p', some err) => (p', some err)
    | (p', none) => restoreNodes p' rest

/-- `TopologyFSM.Restore(snapshot)`; the reader is represented by the snapshot data its
content decodes to, `none` when decoding fails. -/
def TopologyFSM.Restore (f : TopologyFSM) (snapshot : Option TopologySnapshotData) :
    TopologyFSM × Option Err :=
  match snapshot with
  | none => (f, some Err.failedDecodeSnapshot)
  | some snapshotData =>
    match snapshotData.TopologyConfig with
    | some config =>
      match f.pool.InitializeTopology config with
      | (p, some err) => ({ pool := p }, some err)
      | (p, none) =>
        match TopologyFSM.restoreNodes p snapshotData.Nodes with
        | (p', err) => ({ pool := p' }, err)
    | none =>
      match TopologyFSM.restoreNodes f.pool snapshotData.Nodes with
      | (p', err) => ({ pool := p' }, err)

/-- Every CIDR string in the subnet list of a TOR that has a subnet pool is a key of that
pool. -/
def TopologyAwarePool.TORSubnetsInPool (p : TopologyAwarePool) : Prop :=
  ∀ tor sp T, mapGet p.subnetPools tor = some sp → mapGet p.topology.TORs tor = some T →
    ∀ c ∈ T.Subnets, mapGet sp.Subnets c ≠ none

/-! ## Commands as the clients encode them, and the replay of a log -/

namespace RawMessage

/-- The text `json.Marshal` makes of an `InitTopologyData`, as each data struct decodes
it: its only field is `config`, so the other structs decode to their zero values. -/
def ofInitTopology (d : InitTopologyData) : RawMessage :=
  { asInitTopology := some d,
    asRegisterNode := some { NodeID := "", NodeName := "", TORID := "", Labels := [] },
    asAllocateIP := some { NodeID := "", Purpose := "" },
    asReleaseIP := some { NodeID := "", IP := IPString.invalid "" },
    asAddSubnet := some { TORID := "", CIDR := CIDRString.invalid "", Purpose := "" } }

/-- The text `json.Marshal` makes of a `RegisterNodeData` (fields `node_id`, `node_name`,
`tor_id`, `labels`), as each data struct decodes it. -/
def ofRegisterNode (d : RegisterNodeData) : RawMessage :=
  { asInitTopology := some { Config := none },
    asRegisterNode := some d,
    asAllocateIP := some { NodeID := d.NodeID, Purpose := "" },
    asReleaseIP := some { NodeID := d.NodeID, IP := IPString.invalid "" },
    asAddSubnet := some { TORID := d.TORID, CIDR := CIDRString.invalid "", Purpose := "" } }

/-- The text `json.Marshal` makes of an `AllocateIPData` (fields `node_id`, `purpose`), as
each data struct decodes it. -/
def ofAllocateIP (d : AllocateIPData) : RawMessage :=
  { asInitTopology := some { Config := none },
    asRegisterNode := some { NodeID := d.NodeID, NodeName := "", TORID := "", Labels := [] },
    asAllocateIP := some d,
    asReleaseIP := some { NodeID := d.NodeID, IP := IPString.invalid "" },
    asAddSubnet := some { TORID := "", CIDR := CIDRString.invalid "", Purpose := d.Purpose } }

/-- The text `json.Marshal` makes of a `ReleaseIPData` (fields `node_id`, `ip`), as each
data struct decodes it. -/
def ofReleaseIP (d : ReleaseIPData) : RawMessage :=
  { asInitTopology := some { Config := none },
    asRegisterNode := some { NodeID := d.NodeID, NodeName := "", TORID := "", Labels := [] },
    asAllocateIP := some { NodeID := d.NodeID, Purpose := "" },
    asReleaseIP := some d,
    asAddSubnet := some { TORID := "", CIDR := CIDRString.invalid "", Purpose := "" } }

end RawMessage

/-- Every subnet pool of the topology pool holds at most one subnet. -/
def TopologyAwarePool.SingleSubnet (p : TopologyAwarePool) : Bool :=
  p.subnetPools.all (fun e => decide (e.2.Subnets.length ≤ 1))

namespace TopologyFSM

/-- The replay of a log: the entries are applied in order, entry number `i` with the
visiting orders `ord i`; the result is the final state with the responses in order, or
`none` when an `Apply` panics. -/
def applyLog (ord : Nat → MapOrder × MapOrder) :
    List (Option TopologyCommand) → Nat → TopologyFSM → Option (TopologyFSM × List FSMResponse)
  | [], _, f => some (f, [])
  | e :: rest, i, f =>
    match f.Apply e (ord i).1 (ord i).2 with
    | none => none
    | some (g, r) =>
      match applyLog ord rest (i + 1) g with
      | none => none
      | some (h, rs) => some (h, r :: rs)

/-- Along the replay of the entries in the stored order, every state has at most one
subnet in each subnet pool. -/
def singleAlong : List (Option TopologyCommand) → TopologyFSM → Bool
  | [], f => f.pool.SingleSubnet
  | e :: rest, f =>
    f.pool.SingleSubnet &&
      match f.Apply e id id with
      | none => true
      | some (g, _) => singleAlong rest g

end TopologyFSM

/-! ## Flat pool: call sequences without a block release -/

/-- No call of the sequence, applied in order from `t`, is a `ReleaseBlockForNode` that
succeeds. -/
def TrackedPool.noBlockReleased (t : TrackedPool) : List PoolOp → Bool
  | [] => true
  | op :: ops =>
    (match op with
      | PoolOp.releaseBlock nodeID blockCIDR =>
        decide ((t.pool.ReleaseBlockForNode nodeID blockCIDR).2 ≠ none)
      | _ => true) && TrackedPool.noBlockReleased (t.step op) ops

/-! ## Flat pool: block numbers and counts -/

/-- The sum of `g` over the values of a map. -/
def sumBy {κ ν : Type} (g : ν → Int) (m : List (κ × ν)) : Int :=
  (m.map (fun e => g e.2)).sum

namespace Pool

/-- The sum of `f` over the blocks of node `n`. -/
def sumOf (f : IPBlock → Int) (p : Pool) (n : String) : Int := ((p.view.blocks n).map f).sum

/-- The sum of `f` over the blocks of all node entries. -/
def sumAll (f : IPBlock → Int) (p : Pool) : Int :=
  sumBy (fun (l : List IPBlock) => (l.map f).sum) p.nodeBlocks

/-- The CIDR string of block number `i` of an IPv4 pool: the network
`clusterBase + i * 2 ^ (32 - b)` with the block prefix length `b`. -/
def blockCIDR (p : Pool) (i : Nat) : CIDRString :=
  CIDRString.v4 (p.clusterCIDR.addr + i * 2 ^ (32 - p.blockSize.toNat)) p.blockSize.toNat

/-- The number of blocks of an IPv4 pool: `2 ^ (b - c)`. -/
def blocksCount (p : Pool) : Nat := 2 ^ (p.blockSize.toNat - p.clusterCIDR.ones)

/-- The bookkeeping of the two maps of a pool: each map has one entry per key, every entry
of the allocated map is `true` and belongs to a block number of the pool, and the map has
as many entries as the nodes hold blocks. -/
structure Counts (p : Pool) : Prop where
  keys : (p.allocatedBlocks.map Prod.fst).Nodup
  marked : ∀ e ∈ p.allocatedBlocks, e.2 = true ∧ ∃ i, i < p.blocksCount ∧ e.1 = p.blockCIDR i
  nodes : (p.nodeBlocks.map Prod.fst).Nodup
  total : p.sumAll (fun _ => 1) = (p.allocatedBlocks.length : Int)

end Pool

namespace TrackedPool

/-- What one call adds to the number of addresses held through node `n`: 1 for a
successful `AllocateIPForNode(n)`, -1 for a successful `ReleaseIP(ip, n)`, else 0. -/
def delta (t : TrackedPool) (n : String) : PoolOp → Int
  | PoolOp.allocateIP m =>
    if m = n then
      match (t.pool.AllocateIPForNode m).2 with
      | Except.ok _ => 1
      | Except.error _ => 0
    else 0
  | PoolOp.releaseIP ip m =>
    if m = n then
      match (t.pool.ReleaseIP ip m).2 with
      | none => -1
      | some _ => 0
    else 0
  | _ => 0

/-- What one call adds to the number of addresses held: 1 for a successful
`AllocateIPForNode`, -1 for a successful `ReleaseIP`, else 0. -/
def deltaAll (t : TrackedPool) : PoolOp → Int
  | PoolOp.allocateIP m =>
    match (t.pool.AllocateIPForNode m).2 with
    | Except.ok _ => 1
    | Except.error _ => 0
  | PoolOp.releaseIP ip m =>
    match (t.pool.ReleaseIP ip m).2 with
    | none => -1
    | some _ => 0
  | _ => 0

/-- The number of successful `AllocateIPForNode(n)` calls minus the number of successful
`ReleaseIP(ip, n)` calls among the calls `ops` applied in order from `t`. -/
def heldBy (t : TrackedPool) (n : String) : List PoolOp → Int
  | [] => 0
  | op :: ops => t.delta n op + heldBy (t.step op) n ops

/-- The number of successful `AllocateIPForNode` calls minus the number of successful
`ReleaseIP` calls among the calls `ops` applied in order from `t`. -/
def heldTotal (t : TrackedPool) : List PoolOp → Int
  | [] => 0
  | op :: ops => t.deltaAll op + heldTotal (t.step op) ops

end TrackedPool

/-- The inner loop of `Pool.GetStats()`: the statistics of one node entry. -/
def Pool.nodeStatsOf (nodeID : String) (blocks : List IPBlock) : NodeStats :=
  blocks.foldl
    (fun ns block =>
      { ns with
          TotalIPs := toInt64 (ns.TotalIPs + block.Total),
          UsedIPs := toInt64 (ns.UsedIPs + block.Used),
          AvailableIPs := toInt64 (ns.AvailableIPs + block.Available) })
    { NodeID := nodeID, Blocks := blocks.length, TotalIPs := 0, UsedIPs := 0,
      AvailableIPs := 0 }

/-- The held addresses are exactly the allocated ones: no address is held twice, and every
address allocated in a block of the pool is held. -/
def TrackedPool.HeldExact (t : TrackedPool) : Prop :=
  t.held.Nodup ∧ ∀ n, ∀ b ∈ t.pool.view.blocks n, ∀ ip, b.Contains ip = true → ip ∈ t.held

/-- The calls of the statistics scenario: five `AllocateIPForNode("node1")`, then three
`AllocateIPForNode("node2")`. -/
def statsScenario : List PoolOp :=
  [PoolOp.allocateIP "node1", PoolOp.allocateIP "node1", PoolOp.allocateIP "node1",
    PoolOp.allocateIP "node1", PoolOp.allocateIP "node1", PoolOp.allocateIP "node2",
    PoolOp.allocateIP "node2", PoolOp.allocateIP "node2"]

/-! ## `pkg/server/grpc.go` -/

/-- `ip.String()`: the text of an address, `<nil>` for the nil address. -/
def IP.String : IP → IPString
  | IP.nil => IPString.invalid "<nil>"
  | IP.v4 a => IPString.v4 a
  | IP.v6 a => IPString.v6 a

/-- The text `fmt.Sprintf("%s/%d", ip.String(), ones)`. -/
def cidrText (ip : IP) (ones : Nat) : CIDRString :=
  match ip with
  | IP.nil => CIDRString.invalid "<nil>"
  | IP.v4 a => CIDRString.v4 a ones
  | IP.v6 a => CIDRString.v6 a ones

/-- The Go struct `AllocateIPRequest`. -/
structure AllocateIPRequest where
  NodeID : String
  PodName : String
  PodNamespace : String
  ContainerID : String
  deriving DecidableEq, Repr

/-- The Go struct `Route`. -/
structure Route where
  Dst : String
  GW : String
  deriving DecidableEq, Repr

/-- The Go struct `AllocateIPResponse`; an empty `Gateway` is `IPString.invalid ""`. -/
structure AllocateIPResponse where
  IP : IPString
  CIDR : CIDRString
  Gateway : IPString
  Routes : List Route
  deriving DecidableEq, Repr

/-- The Go struct `IPAMServer`.  The store, which only records the mapping from container
to address and whose errors are logged and dropped, and the Raft node, which the server
uses after the response is built, are left out. -/
structure IPAMServer where
  pool : Pool
  deriving DecidableEq, Repr

namespace IPAMServer

/-- `IPAMServer.calculateGateway(cidr)`: the empty string for a network that is not IPv4,
else the text of the network address plus 1 in `uint32` arithmetic. -/
def calculateGateway (cidr : IPNet) : IPString :=
  match cidr.To4 with
  | none => IPString.invalid ""
  | some addr => (IP.v4 ((addr + 1) % 2 ^ 32)).String

/-- `IPAMServer.AllocateIP(ctx, req)`: the server after the call and the response or the
error. -/
def AllocateIP (s : IPAMServer) (req : AllocateIPRequest) :
    IPAMServer × Except Err AllocateIPResponse :=
  match s.pool.AllocateIPForNode req.NodeID with
  | (p, Except.error err) => ({ pool := p }, Except.error err)
  | (p, Except.ok (ip, block)) =>
    ({ pool := p },
      Except.ok
        { IP := ip.String, CIDR := cidrText ip block.CIDR.ones,
          Gateway := calculateGateway block.CIDR,
          Routes := [{ Dst := "0.0.0.0/0", GW := "" }] })

end IPAMServer

/-! ### The floating-point expression of `checkAndAllocateBlock`

`int(float64(x) * 0.2)` is computed on exact integers.  A finite binary64 value is
`± m * 2 ^ e` with `m < 2 ^ 53`; the conversion of an `int` and the multiplication round to
nearest, ties to even; `int(...)` truncates toward zero.  The constant `0.2` is the binary64
value `3602879701896397 * 2 ^ (-54)`.  The values met here are far from the subnormal and
the overflow range. -/

/-- Number of binary digits of `n`, 0 for 0; exact for `n < 2 ^ fuel`. -/
def bitLength : Nat → Nat → Nat
  | 0, _ => 0
  | fuel + 1, n => if n = 0 then 0 else bitLength fuel (n / 2) + 1

/-- Rounding of the natural number `n < 2 ^ 128` to 53 significant bits, to nearest, ties to
even: the pair `(m, e)` stands for `m * 2 ^ e`. -/
def round53 (n : Nat) : Nat × Nat :=
  let len := bitLength 128 n
  if len ≤ 53 then (n, 0)
  else
    let e := len - 53
    let q := n / 2 ^ e
    let r := n % 2 ^ e
    if 2 ^ e < 2 * r ∨ (2 * r = 2 ^ e ∧ q % 2 = 1) then (q + 1, e) else (q, e)

/-- The Go expression `int(float64(x) * 0.2)` for an `int` x. -/
def intOfFloatTimesFifth (x : Int) : Int :=
  let a := round53 x.natAbs
  let pr := round53 (a.1 * 3602879701896397)
  let k := pr.2 + a.2
  let mag : Nat := if 54 ≤ k then pr.1 * 2 ^ (k - 54) else pr.1 / 2 ^ (54 - k)
  if x < 0 then -(mag : Int) else (mag : Int)

namespace IPAMServer

/-- The condition of `checkAndAllocateBlock`:
`currentBlock.Available() < int(float64(currentBlock.Total)*0.2)`. -/
def lowCapacity (currentBlock : IPBlock) : Bool :=
  decide (currentBlock.Available < intOfFloatTimesFifth currentBlock.Total)

/-- `IPAMServer.checkAndAllocateBlock(nodeID, currentBlock)`: whether the server asks the
Raft node for a new block; `leader` is `s.raftNode != nil && s.raftNode.IsLeader()`. -/
def checkAndAllocateBlock (leader : Bool) (currentBlock : IPBlock) : Bool :=
  lowCapacity currentBlock && leader

end IPAMServer

/-! ## Call sequences on an IPv6 block -/

/-- A call on an IPv6 block. -/
inductive V6Op where
  | allocate
  | release (ip : IP)
  deriving DecidableEq, Repr

namespace IPv6Block

/-- The block after one call. -/
def step (block : IPv6Block) : V6Op → IPv6Block
  | V6Op.allocate => block.Allocate.1
  | V6Op.release ip => (block.Release ip).1

/-- The calls applied in order. -/
def run (block : IPv6Block) : List V6Op → IPv6Block
  | [] => block
  | op :: ops => run (block.step op) ops

end IPv6Block

/-! ## `pkg/topology/types.go`: node paths and call sequences -/

namespace Topology

/-- `Topology.GetNodePath(nodeID)`: the names of the node's zone, pod and TOR and its own,
joined by `/`. -/
def GetNodePath (t : Topology) (nodeID : String) : Except Err String :=
  match mapGet t.Nodes nodeID with
  | none => Except.error Err.nodeNotFound
  | some node =>
    match mapGet t.TORs node.TORID with
    | none => Except.error Err.torNotFound
    | some tor =>
      match mapGet t.Pods tor.PodID with
      | none => Except.error Err.podNotFound
      | some pod =>
        match mapGet t.Zones pod.ZoneID with
        | none => Except.error Err.zoneNotFound
        | some zone =>
          Except.ok (zone.Name ++ "/" ++ pod.Name ++ "/" ++ tor.Name ++ "/" ++ node.Name)

end Topology

/-- A call of one of the four operations that build a topology. -/
inductive TopologyOp where
  | addZone (zone : Zone)
  | addPod (pod : Pod)
  | addTOR (tor : TOR)
  | registerNode (node : Node)
  deriving DecidableEq, Repr

namespace Topology

/-- The topology after one call, whether it succeeds or fails. -/
def step (t : Topology) : TopologyOp → Topology
  | TopologyOp.addZone zone => (t.AddZone zone).1
  | TopologyOp.addPod pod => (t.AddPod pod).1
  | TopologyOp.addTOR tor => (t.AddTOR tor).1
  | TopologyOp.registerNode node => (t.RegisterNode node).1

/-- The calls applied in order. -/
def run (t : Topology) : List TopologyOp → Topology
  | [] => t
  | op :: ops => run (t.step op) ops

/-- Every pod, TOR and node is stored under its own id, and its parent id is the key of a
stored zone, pod or TOR. -/
def Linked (t : Topology) : Prop :=
  (∀ k pod, mapGet t.Pods k = some pod →
    pod.ID = k ∧ (mapGet t.Zones pod.ZoneID).isSome = true) ∧
  (∀ k tor, mapGet t.TORs k = some tor →
    tor.ID = k ∧ (mapGet t.Pods tor.PodID).isSome = true) ∧
  (∀ k node, mapGet t.Nodes k = some node →
    node.ID = k ∧ (mapGet t.TORs node.TORID).isSome = true)

end Topology

/-! ## Consistency of the subnets over IPv4 networks -/

/-- The IPv4 form of the network of a subnet: `To4` gives the network address `A`, and
with the IPv4 prefix length `n` the capacity is `2 ^ (32 - n) - 2` and `Contains` on an
IPv4 address compares its masked value with `A`. -/
structure Subnet.V4Shape (s : Subnet) (A n : Nat) : Prop where
  to4 : s.CIDR.To4 = some A
  ones : n ≤ 32
  addr_lt : A < 2 ^ 32
  aligned : maskAddr A n 32 = A
  cap : s.Capacity = 2 ^ (32 - n) - 2
  contains : ∀ a, s.CIDR.Contains (IP.v4 a) = decide (a < 2 ^ 32 ∧ maskAddr a n 32 = A)

/-- Recorded allocations and bitmap of a subnet with the IPv4 network address `A` agree:
one entry per key, as many entries as `Used`, every key the address of a position, and a
position set exactly when its address has an entry. -/
structure Subnet.Consistent (s : Subnet) (A : Nat) : Prop where
  keys : (s.Allocations.map Prod.fst).Nodup
  count : (s.Allocations.length : Int) = s.Used
  positions : ∀ ip, (mapGet s.Allocations ip).isSome = true →
    ∃ p : Nat, (p : Int) < s.Capacity ∧ ip = IP.v4 (A + p + 1)
  bits : ∀ p : Nat, (p : Int) < s.Capacity →
    (Bitmap.bitAt s.bitmap p = true ↔
      (mapGet s.Allocations (IP.v4 (A + p + 1))).isSome = true)

/-- Every stored subnet over an IPv4 network has the IPv4 form and is consistent. -/
def SubnetPool.Consistent (sp : SubnetPool) : Prop :=
  ∀ key s, mapGet sp.Subnets key = some s → ∀ A, s.CIDR.To4 = some A →
    (∃ n, s.V4Shape A n) ∧ s.Consistent A

/-! ## The subnet pools of a topology pool -/

/-- Every subnet pool of the topology pool satisfies the invariants of a subnet pool:
well-formed subnets whose recorded allocations sit at set positions. -/
def TopologyAwarePool.PoolsSound (p : TopologyAwarePool) : Prop :=
  ∀ tor sp, mapGet p.subnetPools tor = some sp → sp.Good ∧ sp.AllocGood

/-! ## The range in which `AddSubnet` builds its bitmap as modelled -/

/-- The CIDR strings for which `SubnetPool.AddSubnet` reaches `NewBitmap` only with a size
the model covers: a string that does not parse, or a network of at most 32 host bits.
With more host bits the `int` computations `1 << (bits - ones)` and `size + 63` can wrap
around, and `make` in `NewBitmap` can panic on the length. -/
def SubnetPool.bitmapInRange (cidr : CIDRString) : Prop :=
  ∀ ipNet, ParseCIDR cidr = some ipNet → ipNet.bits - ipNet.ones ≤ 32

/-! # Theorems -/

/-! ## Bitmap: proofs -/

section BitmapProofs

open Bitmap

theorem bit64_eq {k : Nat} (hk : k < 64) : bit64 k = 2 ^ k := by
  unfold bit64
  rw [Nat.one_shiftLeft]
  exact Nat.mod_eq_of_lt (Nat.pow_lt_pow_right (by decide) hk)

theorem and_bit64_ne_zero {w k : Nat} (hk : k < 64) :
    w &&& bit64 k ≠ 0 ↔ w.testBit k = true := by
  rw [bit64_eq hk]
  constructor
  · intro h
    obtain ⟨i, hi⟩ := Nat.ne_zero_implies_bit_true h
    rw [Nat.testBit_and, Nat.testBit_two_pow] at hi
    simp only [Bool.and_eq_true, decide_eq_true_eq] at hi
    obtain ⟨h1, h2⟩ := hi
    subst h2
    exact h1
  · intro h h0
    have : (w &&& 2 ^ k).testBit k = true := by
      rw [Nat.testBit_and, h, Nat.testBit_two_pow_self]; rfl
    rw [h0] at this
    simp at this

theorem tdiv_toNat (p : Nat) : (((p : Int)).tdiv 64).toNat = p / 64 := by
  have : ((p : Int)).tdiv 64 = ((p / 64 : Nat) : Int) := (Int.ofNat_tdiv p 64).symm
  omega

theorem tmod_toNat (p : Nat) : (((p : Int)).tmod 64).toNat = p % 64 := by
  have : ((p : Int)).tmod 64 = ((p % 64 : Nat) : Int) := (Int.ofNat_tmod p 64).symm
  omega

theorem IsSet_natCast (b : Bitmap) (p : Nat) :
    b.IsSet (p : Int) = (decide ((p : Int) < b.size) && bitAt b p) := by
  unfold Bitmap.IsSet bitAt
  by_cases h : (p : Int) < b.size
  · have h' : ¬ ((p : Int) < 0 ∨ (p : Int) ≥ b.size) := by omega
    simp only [h', if_false, h, decide_True, Bool.true_and, tdiv_toNat, tmod_toNat]
    by_cases hb : (b.word (p / 64)).testBit (p % 64) = true
    · rw [hb]; exact decide_eq_true ((and_bit64_ne_zero (Nat.mod_lt _ (by decide))).2 hb)
    · have hb' := hb
      rw [Bool.not_eq_true] at hb'
      rw [hb']
      exact decide_eq_false (fun hc => hb ((and_bit64_ne_zero (Nat.mod_lt _ (by decide))).1 hc))
  · have h' : ((p : Int) < 0 ∨ (p : Int) ≥ b.size) := by omega
    simp [h', h]

theorem IsSet_neg (b : Bitmap) {pos : Int} (h : pos < 0) : b.IsSet pos = false := by
  unfold Bitmap.IsSet; simp [h]

theorem IsSet_ge (b : Bitmap) {pos : Int} (h : b.size ≤ pos) : b.IsSet pos = false := by
  unfold Bitmap.IsSet; simp [h]

theorem getD_set_zero (l : List Nat) (idx v i : Nat) (h : idx < l.length) :
    (l.set idx v).getD i 0 = if i = idx then v else l.getD i 0 := by
  simp only [List.getD_eq_getElem?_getD, List.getElem?_set]
  by_cases hi : i = idx
  · subst hi; simp [h]
  · have : ¬ idx = i := fun h => hi h.symm
    simp [hi, this]

theorem pos_eq_iff (p q : Nat) : q = p ↔ (q / 64 = p / 64 ∧ q % 64 = p % 64) := by
  constructor
  · rintro rfl; exact ⟨rfl, rfl⟩
  · rintro ⟨h1, h2⟩; omega

theorem Set_outOfRange (b : Bitmap) {pos : Int} (h : pos < 0 ∨ b.size ≤ pos) :
    b.Set pos = (b, some Err.positionOutOfRange) := by
  unfold Bitmap.Set
  have h' : pos < 0 ∨ pos ≥ b.size := h
  simp only [h', if_true]

theorem Set_alreadySet (b : Bitmap) {p : Nat} (h : (p : Int) < b.size) (hb : bitAt b p = true) :
    b.Set (p : Int) = (b, some Err.bitAlreadySet) := by
  unfold Bitmap.Set
  have h' : ¬ ((p : Int) < 0 ∨ (p : Int) ≥ b.size) := by omega
  have hw : b.word (p / 64) &&& bit64 (p % 64) ≠ 0 :=
    (and_bit64_ne_zero (Nat.mod_lt _ (by decide))).2 hb
  simp only [h', if_false, tdiv_toNat, tmod_toNat, hw, if_true, ne_eq, not_false_eq_true]

theorem Set_ok (b : Bitmap) {p : Nat} (h : (p : Int) < b.size) (hb : bitAt b p = false) :
    b.Set (p : Int) =
      ({ b with bits := b.bits.set (p / 64) (b.word (p / 64) ||| 2 ^ (p % 64)),
                allocated := b.allocated + 1 }, none) := by
  unfold Bitmap.Set
  have h' : ¬ ((p : Int) < 0 ∨ (p : Int) ≥ b.size) := by omega
  have hw : ¬ (b.word (p / 64) &&& bit64 (p % 64) ≠ 0) := by
    intro hc
    have := (and_bit64_ne_zero (Nat.mod_lt _ (by decide))).1 hc
    rw [bitAt] at hb
    rw [hb] at this
    exact Bool.noConfusion this
  have he := bit64_eq (Nat.mod_lt p (by decide : 0 < 64))
  rw [he] at hw
  simp only [h', if_false, tdiv_toNat, tmod_toNat, he, hw]

theorem Clear_outOfRange (b : Bitmap) {pos : Int} (h : pos < 0 ∨ b.size ≤ pos) :
    b.Clear pos = (b, some Err.positionOutOfRange) := by
  unfold Bitmap.Clear
  have h' : pos < 0 ∨ pos ≥ b.size := h
  simp only [h', if_true]

theorem Clear_alreadyClear (b : Bitmap) {p : Nat} (h : (p : Int) < b.size)
    (hb : bitAt b p = false) : b.Clear (p : Int) = (b, some Err.bitAlreadyClear) := by
  unfold Bitmap.Clear
  have h' : ¬ ((p : Int) < 0 ∨ (p : Int) ≥ b.size) := by omega
  have hw : b.word (p / 64) &&& bit64 (p % 64) = 0 := by
    by_contra hc
    have := (and_bit64_ne_zero (Nat.mod_lt _ (by decide))).1 hc
    rw [bitAt] at hb
    rw [hb] at this
    exact Bool.noConfusion this
  simp only [h', if_false, tdiv_toNat, tmod_toNat, hw, if_true]

theorem Clear_ok (b : Bitmap) {p : Nat} (h : (p : Int) < b.size) (hb : bitAt b p = true) :
    b.Clear (p : Int) =
      ({ b with bits := b.bits.set (p / 64) (b.word (p / 64) &&& (allOnes64 ^^^ 2 ^ (p % 64))),
                allocated := b.allocated - 1 }, none) := by
  unfold Bitmap.Clear
  have h' : ¬ ((p : Int) < 0 ∨ (p : Int) ≥ b.size) := by omega
  have hw : ¬ (b.word (p / 64) &&& bit64 (p % 64) = 0) :=
    (and_bit64_ne_zero (Nat.mod_lt _ (by decide))).2 hb
  have he := bit64_eq (Nat.mod_lt p (by decide : 0 < 64))
  rw [he] at hw
  simp only [h', if_false, tdiv_toNat, tmod_toNat, he, hw]

theorem bitAt_set_or (b : Bitmap) (p q : Nat) (a : Int) (hlen : p / 64 < b.bits.length) :
    bitAt { b with bits := b.bits.set (p / 64) (b.word (p / 64) ||| 2 ^ (p % 64)),
                   allocated := a } q = (decide (q = p) || bitAt b q) := by
  unfold bitAt Bitmap.word
  simp only [getD_set_zero _ _ _ _ hlen]
  by_cases h1 : q / 64 = p / 64
  · simp only [h1, if_true, Nat.testBit_or, Nat.testBit_two_pow]
    by_cases h2 : q % 64 = p % 64
    · have : q = p := (pos_eq_iff p q).2 ⟨h1, h2⟩
      simp [this]
    · have hne : ¬ q = p := fun hc => h2 (by rw [hc])
      have h2' : ¬ p % 64 = q % 64 := fun hc => h2 hc.symm
      simp [hne, h2']
  · have hne : ¬ q = p := fun hc => h1 (by rw [hc])
    simp [h1, hne]

theorem bitAt_set_andNot (b : Bitmap) (p q : Nat) (a : Int) (hlen : p / 64 < b.bits.length) :
    bitAt { b with bits := b.bits.set (p / 64) (b.word (p / 64) &&& (allOnes64 ^^^ 2 ^ (p % 64))),
                   allocated := a } q = (!decide (q = p) && bitAt b q) := by
  unfold bitAt Bitmap.word
  simp only [getD_set_zero _ _ _ _ hlen]
  have hq : q % 64 < 64 := Nat.mod_lt _ (by decide)
  by_cases h1 : q / 64 = p / 64
  · simp only [h1, if_true, Nat.testBit_and, Nat.testBit_xor, allOnes64,
      Nat.testBit_two_pow_sub_one, Nat.testBit_two_pow, hq, decide_True]
    by_cases h2 : q % 64 = p % 64
    · have : q = p := (pos_eq_iff p q).2 ⟨h1, h2⟩
      simp [this]
    · have hne : ¬ q = p := fun hc => h2 (by rw [hc])
      have h2' : ¬ p % 64 = q % 64 := fun hc => h2 hc.symm
      simp [hne, h2']
  · have hne : ¬ q = p := fun hc => h1 (by rw [hc])
    simp [h1, hne]

theorem filter_length_flip (f g : Nat → Bool) (n k : Nat) (hk : k < n)
    (hf : f k = false) (hg : g k = true) (hagree : ∀ q, q ≠ k → g q = f q) :
    ((List.range n).filter g).length = ((List.range n).filter f).length + 1 := by
  induction n with
  | zero => omega
  | succ n ih =>
    rw [List.range_succ, List.filter_append, List.filter_append, List.length_append,
      List.length_append]
    by_cases hkn : k = n
    · subst hkn
      have h1 : (List.range k).filter g = (List.range k).filter f := by
        apply List.filter_congr
        intro x hx
        have : x < k := List.mem_range.1 hx
        exact hagree x (by omega)
      rw [h1]
      simp [List.filter, hf, hg]
    · have h1 := ih (by omega)
      have h2 : g n = f n := hagree n (fun h => hkn h.symm)
      rw [h1]
      simp only [List.filter, h2]
      omega

theorem popcount_eq_of_agree (b b' : Bitmap) (hs : b'.size = b.size)
    (h : ∀ q : Nat, (q : Int) < b.size → bitAt b' q = bitAt b q) :
    popcount b' = popcount b := by
  unfold popcount
  rw [hs]
  congr 1
  apply List.filter_congr
  intro x hx
  have hx' : x < b.size.toNat := List.mem_range.1 hx
  have hx'' : (x : Int) < b.size := by omega
  rw [IsSet_natCast, IsSet_natCast, hs, h x hx'']

theorem popcount_flip (b b' : Bitmap) (hs : b'.size = b.size) (p : Nat)
    (hp : (p : Int) < b.size) (h0 : bitAt b p = false) (h1 : bitAt b' p = true)
    (h : ∀ q : Nat, q ≠ p → bitAt b' q = bitAt b q) :
    popcount b' = popcount b + 1 := by
  unfold popcount
  rw [hs]
  apply filter_length_flip _ _ _ p (by omega)
  · rw [IsSet_natCast, h0]; simp
  · rw [IsSet_natCast, h1, hs]; simp [hp]
  · intro q hq
    rw [IsSet_natCast, IsSet_natCast, hs, h q hq]

theorem word_index_lt {b : Bitmap} (hb : WF b) {p : Nat} (hp : (p : Int) < b.size) :
    p / 64 < b.bits.length := by
  rw [hb.len]
  have := hb.nonneg
  omega

theorem NewBitmap_word (N : Int) (i : Nat) : (NewBitmap N).word i = 0 := by
  unfold NewBitmap Bitmap.word
  simp only [List.getD_eq_getElem?_getD]
  by_cases h : i < ((N + 63).tdiv 64).toNat
  · simp [List.getElem?_replicate, h]
  · simp [List.getElem?_replicate, h]

theorem NewBitmap_bitAt (N : Int) (p : Nat) : bitAt (NewBitmap N) p = false := by
  unfold bitAt
  rw [NewBitmap_word]
  exact Nat.zero_testBit _

theorem WF_NewBitmap {N : Int} (hN : 0 ≤ N) : WF (NewBitmap N) := by
  refine ⟨hN, ?_, ?_, ?_, ?_⟩
  · show (List.replicate ((N + 63).tdiv 64).toNat 0).length = (N.toNat + 63) / 64
    rw [List.length_replicate]
    obtain ⟨n, rfl⟩ := Int.eq_ofNat_of_zero_le hN
    have : ((n : Int) + 63).tdiv 64 = (((n + 63) / 64 : Nat) : Int) := by
      have := Int.ofNat_tdiv (n + 63) 64
      simpa using this.symm
    rw [this]
    rfl
  · intro i; rw [NewBitmap_word]; exact Nat.two_pow_pos 64
  · intro p _; exact NewBitmap_bitAt N p
  · show (0 : Int) = _
    have : popcount (NewBitmap N) = 0 := by
      unfold popcount
      rw [List.length_eq_zero, List.filter_eq_nil_iff]
      intro a _
      rw [IsSet_natCast, NewBitmap_bitAt]
      simp
    rw [this]; rfl

theorem Set_size (b : Bitmap) (pos : Int) : (b.Set pos).1.size = b.size := by
  unfold Bitmap.Set
  split
  · rfl
  · simp only []
    split <;> rfl

theorem Clear_size (b : Bitmap) (pos : Int) : (b.Clear pos).1.size = b.size := by
  unfold Bitmap.Clear
  split
  · rfl
  · simp only []
    split <;> rfl

/-- The three outcomes of `Set`, in terms of the stored bits. -/
theorem Set_cases (b : Bitmap) (hb : WF b) (pos : Int) :
    ((pos < 0 ∨ b.size ≤ pos) ∧ b.Set pos = (b, some Err.positionOutOfRange)) ∨
    (∃ p : Nat, pos = (p : Int) ∧ (p : Int) < b.size ∧ bitAt b p = true ∧
      b.Set pos = (b, some Err.bitAlreadySet)) ∨
    (∃ p : Nat, pos = (p : Int) ∧ (p : Int) < b.size ∧ bitAt b p = false ∧
      (b.Set pos).2 = none ∧ (b.Set pos).1.size = b.size ∧
      (b.Set pos).1.allocated = b.allocated + 1 ∧
      (b.Set pos).1.bits.length = b.bits.length ∧
      (∀ i, (b.Set pos).1.word i < 2 ^ 64) ∧
      ∀ q, bitAt (b.Set pos).1 q = (decide (q = p) || bitAt b q)) := by
  by_cases h : pos < 0 ∨ b.size ≤ pos
  · exact Or.inl ⟨h, Set_outOfRange b h⟩
  · right
    have h0 : 0 ≤ pos := by omega
    obtain ⟨p, rfl⟩ := Int.eq_ofNat_of_zero_le h0
    have hp : (p : Int) < b.size := by omega
    by_cases hbit : bitAt b p = true
    · exact Or.inl ⟨p, rfl, hp, hbit, Set_alreadySet b hp hbit⟩
    · rw [Bool.not_eq_true] at hbit
      have hlen := word_index_lt hb hp
      refine Or.inr ⟨p, rfl, hp, hbit, ?_⟩
      rw [Set_ok b hp hbit]
      refine ⟨rfl, rfl, rfl, ?_, ?_, ?_⟩
      · simp
      · intro i
        show (b.bits.set (p / 64) (b.word (p / 64) ||| 2 ^ (p % 64))).getD i 0 < 2 ^ 64
        rw [getD_set_zero _ _ _ _ hlen]
        split
        · exact Nat.or_lt_two_pow (hb.words _)
            (Nat.pow_lt_pow_right (by decide) (Nat.mod_lt _ (by decide)))
        · exact hb.words i
      · intro q
        exact bitAt_set_or b p q _ hlen

/-- The three outcomes of `Clear`, in terms of the stored bits. -/
theorem Clear_cases (b : Bitmap) (hb : WF b) (pos : Int) :
    ((pos < 0 ∨ b.size ≤ pos) ∧ b.Clear pos = (b, some Err.positionOutOfRange)) ∨
    (∃ p : Nat, pos = (p : Int) ∧ (p : Int) < b.size ∧ bitAt b p = false ∧
      b.Clear pos = (b, some Err.bitAlreadyClear)) ∨
    (∃ p : Nat, pos = (p : Int) ∧ (p : Int) < b.size ∧ bitAt b p = true ∧
      (b.Clear pos).2 = none ∧ (b.Clear pos).1.size = b.size ∧
      (b.Clear pos).1.allocated = b.allocated - 1 ∧
      (b.Clear pos).1.bits.length = b.bits.length ∧
      (∀ i, (b.Clear pos).1.word i < 2 ^ 64) ∧
      ∀ q, bitAt (b.Clear pos).1 q = (!decide (q = p) && bitAt b q)) := by
  by_cases h : pos < 0 ∨ b.size ≤ pos
  · exact Or.inl ⟨h, Clear_outOfRange b h⟩
  · right
    have h0 : 0 ≤ pos := by omega
    obtain ⟨p, rfl⟩ := Int.eq_ofNat_of_zero_le h0
    have hp : (p : Int) < b.size := by omega
    by_cases hbit : bitAt b p = true
    · have hlen := word_index_lt hb hp
      refine Or.inr ⟨p, rfl, hp, hbit, ?_⟩
      rw [Clear_ok b hp hbit]
      refine ⟨rfl, rfl, rfl, ?_, ?_, ?_⟩
      · simp
      · intro i
        show (b.bits.set (p / 64) (b.word (p / 64) &&& (allOnes64 ^^^ 2 ^ (p % 64)))).getD i 0
          < 2 ^ 64
        rw [getD_set_zero _ _ _ _ hlen]
        split
        · exact Nat.lt_of_le_of_lt Nat.and_le_left (hb.words _)
        · exact hb.words i
      · intro q
        exact bitAt_set_andNot b p q _ hlen
    · rw [Bool.not_eq_true] at hbit
      exact Or.inl ⟨p, rfl, hp, hbit, Clear_alreadyClear b hp hbit⟩

theorem WF_Set (b : Bitmap) (hb : WF b) (pos : Int) : WF (b.Set pos).1 := by
  rcases Set_cases b hb pos with ⟨_, h⟩ | ⟨p, _, _, _, h⟩ | ⟨p, rfl, hp, h0, _, hs, ha, hl, hw, hq⟩
  · rw [h]; exact hb
  · rw [h]; exact hb
  · refine ⟨by rw [hs]; exact hb.nonneg, by rw [hl, hs]; exact hb.len, hw, ?_, ?_⟩
    · intro q hq'
      rw [hs] at hq'
      rw [hq q, hb.tail q hq']
      have : ¬ q = p := by omega
      simp [this]
    · rw [ha, hb.count, popcount_flip b _ hs p hp h0 (by rw [hq]; simp)
        (fun q hne => by rw [hq]; simp [hne])]
      push_cast; rfl

theorem popcount_flip_down (b b' : Bitmap) (hs : b'.size = b.size) (p : Nat)
    (hp : (p : Int) < b.size) (h1 : bitAt b p = true) (h0 : bitAt b' p = false)
    (h : ∀ q : Nat, q ≠ p → bitAt b' q = bitAt b q) :
    popcount b = popcount b' + 1 := by
  have hp' : (p : Int) < b'.size := by rw [hs]; exact hp
  exact popcount_flip b' b hs.symm p hp' h0 h1 (fun q hq => (h q hq).symm)

theorem WF_Clear (b : Bitmap) (hb : WF b) (pos : Int) : WF (b.Clear pos).1 := by
  rcases Clear_cases b hb pos with ⟨_, h⟩ | ⟨p, _, _, _, h⟩ |
    ⟨p, rfl, hp, h1, _, hs, ha, hl, hw, hq⟩
  · rw [h]; exact hb
  · rw [h]; exact hb
  · refine ⟨by rw [hs]; exact hb.nonneg, by rw [hl, hs]; exact hb.len, hw, ?_, ?_⟩
    · intro q hq'
      rw [hs] at hq'
      rw [hq q, hb.tail q hq']
      simp
    · have := popcount_flip_down b _ hs p hp h1 (by rw [hq]; simp)
        (fun q hne => by rw [hq]; simp [hne])
      rw [ha, hb.count, this]
      push_cast; omega

theorem Reachable_size {N : Int} {b : Bitmap} (h : Reachable N b) : b.size = N := by
  induction h with
  | init => rfl
  | set b pos _ ih => rw [Set_size]; exact ih
  | clear b pos _ ih => rw [Clear_size]; exact ih

theorem Reachable_WF {N : Int} (hN : 0 ≤ N) {b : Bitmap} (h : Reachable N b) : WF b := by
  induction h with
  | init => exact WF_NewBitmap hN
  | set b pos _ ih => exact WF_Set b ih pos
  | clear b pos _ ih => exact WF_Clear b ih pos

theorem findInWord_spec (b : Bitmap) (i : Nat) :
    ∀ (fuel j : Nat), AllSetBelow b (64 * i + j) →
      (∀ r, findInWord b i fuel j = some r → FirstZeroSpec b r) ∧
      (findInWord b i fuel j = none → AllSetBelow b (64 * i + j + fuel)) := by
  intro fuel
  induction fuel with
  | zero =>
    intro j hP
    refine ⟨fun r h => ?_, fun _ => hP⟩
    simp [findInWord] at h
  | succ fuel ih =>
    intro j hP
    have hpos : ((i : Int) * 64 + (j : Int)) = ((64 * i + j : Nat) : Int) := by
      push_cast; ring
    unfold findInWord
    simp only [hpos]
    by_cases h1 : ((64 * i + j : Nat) : Int) ≥ b.size
    · simp only [h1, if_true]
      refine ⟨fun r h => ?_, fun h => by simp at h⟩
      have hr : r = -1 := by
        have := Option.some.inj h
        omega
      refine Or.inl ⟨hr, fun q hq => ?_⟩
      exact hP q (by omega) hq
    · simp only [h1, if_false]
      by_cases h2 : b.IsSet ((64 * i + j : Nat) : Int) = true
      · simp only [h2, Bool.not_true, Bool.false_eq_true, if_false]
        have hP' : AllSetBelow b (64 * i + (j + 1)) := by
          intro q hq hq'
          by_cases hqe : q = 64 * i + j
          · rw [hqe]; exact h2
          · exact hP q (by omega) hq'
        have := ih (j + 1) hP'
        refine ⟨this.1, fun h => ?_⟩
        have h3 := this.2 h
        have he : 64 * i + (j + 1) + fuel = 64 * i + j + (fuel + 1) := by omega
        rw [he] at h3
        exact h3
      · rw [Bool.not_eq_true] at h2
        simp only [h2, Bool.not_false, if_true]
        refine ⟨fun r h => ?_, fun h => by simp at h⟩
        have hr : r = ((64 * i + j : Nat) : Int) := (Option.some.inj h).symm
        refine Or.inr ⟨64 * i + j, hr, by omega, h2, fun q hq => ?_⟩
        exact hP q hq (by omega)

theorem allOnes_block (b : Bitmap) (i : Nat) (h : b.word i = allOnes64)
    (hP : AllSetBelow b (64 * i)) : AllSetBelow b (64 * (i + 1)) := by
  intro q hq hq'
  by_cases hlt : q < 64 * i
  · exact hP q hlt hq'
  · rw [IsSet_natCast, bitAt]
    have hdiv : q / 64 = i := by omega
    have hmod : q % 64 < 64 := Nat.mod_lt _ (by decide)
    rw [hdiv, h, allOnes64, Nat.testBit_two_pow_sub_one]
    simp [hq', hmod]

theorem findFrom_spec (b : Bitmap) :
    ∀ (fuel i : Nat), AllSetBelow b (64 * i) → b.size ≤ ((64 * (i + fuel) : Nat) : Int) →
      FirstZeroSpec b (findFrom b fuel i) := by
  intro fuel
  induction fuel with
  | zero =>
    intro i hP hlen
    refine Or.inl ⟨rfl, fun q hq => hP q ?_ hq⟩
    have : (q : Int) < ((64 * (i + 0) : Nat) : Int) := lt_of_lt_of_le hq hlen
    omega
  | succ fuel ih =>
    intro i hP hlen
    have hlen' : b.size ≤ ((64 * (i + 1 + fuel) : Nat) : Int) := by
      have : 64 * (i + 1 + fuel) = 64 * (i + (fuel + 1)) := by omega
      rw [this]; exact hlen
    unfold findFrom
    by_cases hw : b.word i = allOnes64
    · simp only [hw, ne_eq, not_true_eq_false, if_false]
      exact ih (i + 1) (allOnes_block b i hw hP) hlen'
    · simp only [hw, ne_eq, not_false_eq_true, if_true]
      have hin := findInWord_spec b i 64 0 (by simpa using hP)
      cases hf : findInWord b i 64 0 with
      | some r => exact hin.1 r hf
      | none =>
        have h3 := hin.2 hf
        have he : 64 * i + 0 + 64 = 64 * (i + 1) := by omega
        rw [he] at h3
        exact ih (i + 1) h3 hlen'

theorem FindFirstZero_spec (b : Bitmap) (hb : WF b) : FirstZeroSpec b b.FindFirstZero := by
  unfold Bitmap.FindFirstZero
  apply findFrom_spec b b.bits.length 0
  · intro q hq; omega
  · rw [hb.len]
    have := hb.nonneg
    omega

theorem IsSet_eq_bitAt (b : Bitmap) {pos : Int} (h0 : 0 ≤ pos) (h1 : pos < b.size) :
    b.IsSet pos = bitAt b pos.toNat := by
  obtain ⟨p, rfl⟩ := Int.eq_ofNat_of_zero_le h0
  rw [IsSet_natCast]
  simp [h1]

theorem FirstZeroSpec_unique (b : Bitmap) (hb : WF b) :
    (b.FindFirstZero = -1 ↔ ∀ p : Int, 0 ≤ p → p < b.size → b.IsSet p = true) ∧
    (b.FindFirstZero ≠ -1 →
      0 ≤ b.FindFirstZero ∧ b.FindFirstZero < b.size ∧ b.IsSet b.FindFirstZero = false ∧
      ∀ q : Int, 0 ≤ q → q < b.FindFirstZero → b.IsSet q = true) := by
  rcases FindFirstZero_spec b hb with ⟨hr, hall⟩ | ⟨p, hr, hp, hun, hbelow⟩
  · refine ⟨⟨fun _ q h0 h1 => ?_, fun _ => hr⟩, fun hne => absurd hr hne⟩
    obtain ⟨n, rfl⟩ := Int.eq_ofNat_of_zero_le h0
    exact hall n h1
  · have hne : b.FindFirstZero ≠ -1 := by omega
    refine ⟨⟨fun h => absurd h hne, fun hall => ?_⟩, fun _ => ?_⟩
    · have := hall (p : Int) (by omega) hp
      rw [this] at hun
      exact Bool.noConfusion hun
    · rw [hr]
      refine ⟨by omega, hp, hun, fun q h0 h1 => ?_⟩
      obtain ⟨n, rfl⟩ := Int.eq_ofNat_of_zero_le h0
      exact hbelow n (by omega)

/-- C4: on every bitmap reachable from `NewBitmap N` (`N ≥ 0`) by `Set` and `Clear`,
`FindFirstZero` returns `-1` exactly when all positions of `[0, N)` are set, and otherwise
the smallest position of `[0, N)` that is not set. -/
theorem C4_findFirstZero_least_unset (N : Int) (hN : 0 ≤ N) (b : Bitmap)
    (h : Bitmap.Reachable N b) :
    (b.FindFirstZero = -1 ↔ ∀ p : Int, 0 ≤ p → p < N → b.IsSet p = true) ∧
    (b.FindFirstZero ≠ -1 →
      0 ≤ b.FindFirstZero ∧ b.FindFirstZero < N ∧ b.IsSet b.FindFirstZero = false ∧
      ∀ q : Int, 0 ≤ q → q < b.FindFirstZero → b.IsSet q = true) := by
  have hs := Reachable_size h
  have := FirstZeroSpec_unique b (Reachable_WF hN h)
  rw [hs] at this
  exact this

/-- C4, instance: a 130-bit bitmap with position 0 set. -/
theorem C4_findFirstZero_least_unset_witness :
    (0 : Int) ≤ 130 ∧ Bitmap.Reachable 130 ((NewBitmap 130).Set 0).1 ∧
    ((((NewBitmap 130).Set 0).1.FindFirstZero = -1 ↔
        ∀ p : Int, 0 ≤ p → p < 130 → ((NewBitmap 130).Set 0).1.IsSet p = true) ∧
      (((NewBitmap 130).Set 0).1.FindFirstZero ≠ -1 →
        0 ≤ ((NewBitmap 130).Set 0).1.FindFirstZero ∧
        ((NewBitmap 130).Set 0).1.FindFirstZero < 130 ∧
        ((NewBitmap 130).Set 0).1.IsSet ((NewBitmap 130).Set 0).1.FindFirstZero = false ∧
        ∀ q : Int, 0 ≤ q → q < ((NewBitmap 130).Set 0).1.FindFirstZero →
          ((NewBitmap 130).Set 0).1.IsSet q = true)) :=
  ⟨by decide, Bitmap.Reachable.set _ 0 Bitmap.Reachable.init,
    C4_findFirstZero_least_unset 130 (by decide) _
      (Bitmap.Reachable.set _ 0 Bitmap.Reachable.init)⟩

theorem Set_contract_WF (b : Bitmap) (hb : WF b) (pos : Int) :
    ((b.Set pos).2 ≠ none ↔ (pos < 0 ∨ b.size ≤ pos ∨ b.IsSet pos = true)) ∧
    ((b.Set pos).2 ≠ none → (b.Set pos).1 = b) ∧
    ((b.Set pos).2 = none →
      (b.Set pos).1.IsSet pos = true ∧ (b.Set pos).1.Count = b.Count + 1 ∧
      ∀ q : Int, q ≠ pos → (b.Set pos).1.IsSet q = b.IsSet q) := by
  rcases Set_cases b hb pos with ⟨hr, h⟩ | ⟨p, rfl, hp, hbit, h⟩ |
    ⟨p, rfl, hp, h0, hnone, hs, ha, _, _, hq⟩
  · rw [h]
    refine ⟨⟨fun _ => ?_, fun _ => by simp⟩, fun _ => rfl, fun hc => by simp at hc⟩
    rcases hr with hr | hr
    · exact Or.inl hr
    · exact Or.inr (Or.inl hr)
  · rw [h]
    refine ⟨⟨fun _ => Or.inr (Or.inr ?_), fun _ => by simp⟩, fun _ => rfl,
      fun hc => by simp at hc⟩
    rw [IsSet_natCast, hbit]; simp [hp]
  · refine ⟨⟨fun hc => absurd hnone hc, fun hc => ?_⟩, fun hc => absurd hnone hc, fun _ => ?_⟩
    · rcases hc with hc | hc | hc
      · omega
      · omega
      · rw [IsSet_natCast, h0] at hc; simp at hc
    · refine ⟨?_, ha, fun q hne => ?_⟩
      · rw [IsSet_natCast, hs, hq]; simp [hp]
      · by_cases hq0 : 0 ≤ q
        · obtain ⟨n, rfl⟩ := Int.eq_ofNat_of_zero_le hq0
          have hne' : ¬ n = p := fun hc => hne (by rw [hc])
          rw [IsSet_natCast, IsSet_natCast, hs, hq]
          simp [hne']
        · rw [IsSet_neg _ (by omega), IsSet_neg _ (by omega)]

/-- C5: `Set(pos)` on a bitmap made by `NewBitmap N` fails exactly when `pos` is outside
`[0, N)` or the bit is already set; a failing call leaves the bitmap as it was; a
successful one makes `IsSet(pos)` true, raises `Count` by one and leaves `IsSet(q)` alone
for every other `q`. -/
theorem C5_set_contract (N : Int) (b : Bitmap) (h : Bitmap.Reachable N b) (pos : Int) :
    ((b.Set pos).2 ≠ none ↔ (pos < 0 ∨ N ≤ pos ∨ b.IsSet pos = true)) ∧
    ((b.Set pos).2 ≠ none → (b.Set pos).1 = b) ∧
    ((b.Set pos).2 = none →
      (b.Set pos).1.IsSet pos = true ∧ (b.Set pos).1.Count = b.Count + 1 ∧
      ∀ q : Int, q ≠ pos → (b.Set pos).1.IsSet q = b.IsSet q) := by
  have hs := Reachable_size h
  by_cases hN : 0 ≤ N
  · have := Set_contract_WF b (Reachable_WF hN h) pos
    rw [hs] at this
    exact this
  · have hr : pos < 0 ∨ b.size ≤ pos := by omega
    rw [Set_outOfRange b hr]
    refine ⟨⟨fun _ => ?_, fun _ => by simp⟩, fun _ => rfl, fun hc => by simp at hc⟩
    omega

/-- C5, instance: setting position 3 of a 10-bit bitmap that has position 3 set. -/
theorem C5_set_contract_witness :
    Bitmap.Reachable 10 ((NewBitmap 10).Set 3).1 ∧
    (((((NewBitmap 10).Set 3).1.Set 3).2 ≠ none ↔
        ((3 : Int) < 0 ∨ (10 : Int) ≤ 3 ∨ ((NewBitmap 10).Set 3).1.IsSet 3 = true)) ∧
      ((((NewBitmap 10).Set 3).1.Set 3).2 ≠ none →
        (((NewBitmap 10).Set 3).1.Set 3).1 = ((NewBitmap 10).Set 3).1) ∧
      ((((NewBitmap 10).Set 3).1.Set 3).2 = none →
        (((NewBitmap 10).Set 3).1.Set 3).1.IsSet 3 = true ∧
        (((NewBitmap 10).Set 3).1.Set 3).1.Count = ((NewBitmap 10).Set 3).1.Count + 1 ∧
        ∀ q : Int, q ≠ 3 →
          (((NewBitmap 10).Set 3).1.Set 3).1.IsSet q = ((NewBitmap 10).Set 3).1.IsSet q)) :=
  ⟨Bitmap.Reachable.set _ 3 Bitmap.Reachable.init,
    C5_set_contract 10 _ (Bitmap.Reachable.set _ 3 Bitmap.Reachable.init) 3⟩

theorem or_andNot_cancel {w k : Nat} (hw : w < 2 ^ 64) (hk : k < 64)
    (hbit : w.testBit k = false) : (w ||| 2 ^ k) &&& (allOnes64 ^^^ 2 ^ k) = w := by
  apply Nat.eq_of_testBit_eq
  intro i
  rw [Nat.testBit_and, Nat.testBit_or, Nat.testBit_xor, allOnes64,
    Nat.testBit_two_pow_sub_one, Nat.testBit_two_pow]
  by_cases hik : k = i
  · subst hik
    simp [hbit, hk]
  · by_cases hi : i < 64
    · simp [hik, hi]
    · have : w.testBit i = false :=
        Nat.testBit_lt_two_pow (Nat.lt_of_lt_of_le hw (Nat.pow_le_pow_right (by decide) (by omega)))
      simp [hik, hi, this]

theorem set_getD_self (l : List Nat) (i : Nat) (h : i < l.length) :
    l.set i (l.getD i 0) = l := by
  apply List.ext_getElem
  · simp
  · intro n h1 h2
    rw [List.getElem_set]
    split
    · rename_i he
      subst he
      simp [List.getD_eq_getElem?_getD, List.getElem?_eq_getElem h]
    · rfl

theorem word_set_self (b : Bitmap) (i v : Nat) (a : Int) (h : i < b.bits.length) :
    Bitmap.word ⟨b.bits.set i v, b.size, a⟩ i = v := by
  show (b.bits.set i v).getD i 0 = v
  rw [getD_set_zero _ _ _ _ h]; simp

theorem Clear_after_Set (b : Bitmap) (hb : WF b) (pos : Int) (hok : (b.Set pos).2 = none) :
    (b.Set pos).1.Clear pos = (b, none) := by
  rcases Set_cases b hb pos with ⟨_, h⟩ | ⟨p, _, _, _, h⟩ | ⟨p, rfl, hp, h0, _, hs, _, _, _, hq⟩
  · rw [h] at hok; simp at hok
  · rw [h] at hok; simp at hok
  · have hlen := word_index_lt hb hp
    have h1 : bitAt (b.Set (p : Int)).1 p = true := by rw [hq]; simp
    have hp' : (p : Int) < (b.Set (p : Int)).1.size := by rw [hs]; exact hp
    rw [Clear_ok _ hp' h1]
    rw [Set_ok b hp h0]
    have hk : p % 64 < 64 := Nat.mod_lt _ (by decide)
    have hword := word_set_self b (p / 64) (b.word (p / 64) ||| 2 ^ (p % 64))
      (b.allocated + 1) hlen
    simp only [hword, List.set_set]
    rw [or_andNot_cancel (hb.words _) hk h0]
    have : b.bits.set (p / 64) (b.word (p / 64)) = b.bits := set_getD_self _ _ hlen
    rw [this]
    have ha : b.allocated + 1 - 1 = b.allocated := by omega
    rw [ha]

theorem Clear_contract_WF (b : Bitmap) (hb : WF b) (pos : Int) :
    ((b.Clear pos).2 ≠ none ↔ (pos < 0 ∨ b.size ≤ pos ∨ b.IsSet pos = false)) ∧
    ((b.Clear pos).2 ≠ none → (b.Clear pos).1 = b) ∧
    ((b.Clear pos).2 = none →
      (b.Clear pos).1.IsSet pos = false ∧ (b.Clear pos).1.Count = b.Count - 1 ∧
      ∀ q : Int, q ≠ pos → (b.Clear pos).1.IsSet q = b.IsSet q) := by
  rcases Clear_cases b hb pos with ⟨hr, h⟩ | ⟨p, rfl, hp, hbit, h⟩ |
    ⟨p, rfl, hp, h1, hnone, hs, ha, _, _, hq⟩
  · rw [h]
    refine ⟨⟨fun _ => ?_, fun _ => by simp⟩, fun _ => rfl, fun hc => by simp at hc⟩
    rcases hr with hr | hr
    · exact Or.inl hr
    · exact Or.inr (Or.inl hr)
  · rw [h]
    refine ⟨⟨fun _ => Or.inr (Or.inr ?_), fun _ => by simp⟩, fun _ => rfl,
      fun hc => by simp at hc⟩
    rw [IsSet_natCast, hbit]; simp
  · refine ⟨⟨fun hc => absurd hnone hc, fun hc => ?_⟩, fun hc => absurd hnone hc, fun _ => ?_⟩
    · rcases hc with hc | hc | hc
      · omega
      · omega
      · rw [IsSet_natCast, h1] at hc; simp [hp] at hc
    · refine ⟨?_, ha, fun q hne => ?_⟩
      · rw [IsSet_natCast, hs, hq]; simp
      · by_cases hq0 : 0 ≤ q
        · obtain ⟨n, rfl⟩ := Int.eq_ofNat_of_zero_le hq0
          have hne' : ¬ n = p := fun hc => hne (by rw [hc])
          rw [IsSet_natCast, IsSet_natCast, hs, hq]
          simp [hne']
        · rw [IsSet_neg _ (by omega), IsSet_neg _ (by omega)]

/-- C6: `Clear(pos)` on a bitmap made by `NewBitmap N` fails exactly when `pos` is outside
`[0, N)` or the bit is already clear; a failing call leaves the bitmap as it was; a
successful one makes `IsSet(pos)` false, lowers `Count` by one and leaves `IsSet(q)` alone
for every other `q`; and `Clear(pos)` right after a successful `Set(pos)` succeeds and
gives back the bitmap from before the `Set`. -/
theorem C6_clear_contract (N : Int) (b : Bitmap) (h : Bitmap.Reachable N b) (pos : Int) :
    ((b.Clear pos).2 ≠ none ↔ (pos < 0 ∨ N ≤ pos ∨ b.IsSet pos = false)) ∧
    ((b.Clear pos).2 ≠ none → (b.Clear pos).1 = b) ∧
    ((b.Clear pos).2 = none →
      (b.Clear pos).1.IsSet pos = false ∧ (b.Clear pos).1.Count = b.Count - 1 ∧
      ∀ q : Int, q ≠ pos → (b.Clear pos).1.IsSet q = b.IsSet q) ∧
    ((b.Set pos).2 = none → (b.Set pos).1.Clear pos = (b, none)) := by
  have hs := Reachable_size h
  by_cases hN : 0 ≤ N
  · have hb := Reachable_WF hN h
    have := Clear_contract_WF b hb pos
    rw [hs] at this
    exact ⟨this.1, this.2.1, this.2.2, Clear_after_Set b hb pos⟩
  · have hr : pos < 0 ∨ b.size ≤ pos := by omega
    rw [Clear_outOfRange b hr, Set_outOfRange b hr]
    refine ⟨⟨fun _ => ?_, fun _ => by simp⟩, fun _ => rfl, fun hc => by simp at hc,
      fun hc => by simp at hc⟩
    omega

/-- C6, instance: clearing position 69 of a 130-bit bitmap that has position 69 set. -/
theorem C6_clear_contract_witness :
    Bitmap.Reachable 130 ((NewBitmap 130).Set 69).1 ∧
    ((((NewBitmap 130).Set 69).1.Clear 69).2 = none ∧
      (((NewBitmap 130).Set 69).1.Clear 69).1.IsSet 69 = false) :=
  ⟨Bitmap.Reachable.set _ 69 Bitmap.Reachable.init,
    by decide,
    ((C6_clear_contract 130 _ (Bitmap.Reachable.set _ 69 Bitmap.Reachable.init) 69).2.2.1
      (by decide)).1⟩

theorem popcount_le (b : Bitmap) : popcount b ≤ b.size.toNat := by
  unfold popcount
  calc ((List.range b.size.toNat).filter _).length
      ≤ (List.range b.size.toNat).length := List.length_filter_le _ _
    _ = b.size.toNat := List.length_range _

/-- C7: on every bitmap reachable from `NewBitmap N` (`N ≥ 0`) by `Set` and `Clear` calls,
failing ones included, `Count` is the number of positions of `[0, N)` for which `IsSet`
holds, the words hold no bit at a position `≥ N` (and none above bit 63), `0 ≤ Count ≤ N`
and `Available = N - Count`. -/
theorem C7_bitmap_invariant (N : Int) (hN : 0 ≤ N) (b : Bitmap) (h : Bitmap.Reachable N b) :
    b.Count = ((List.range N.toNat).filter (fun (p : Nat) => b.IsSet (p : Int))).length ∧
    (∀ p : Nat, N ≤ (p : Int) → (b.word (p / 64)).testBit (p % 64) = false) ∧
    (∀ i, b.word i < 2 ^ 64) ∧
    0 ≤ b.Count ∧ b.Count ≤ N ∧ b.Available = N - b.Count := by
  have hs := Reachable_size h
  have hb := Reachable_WF hN h
  have hc : b.Count = (popcount b : Int) := hb.count
  have hle := popcount_le b
  refine ⟨?_, ?_, hb.words, by omega, by omega, ?_⟩
  · rw [hc, popcount, hs]
  · intro p hp
    exact hb.tail p (by omega)
  · show b.size - b.allocated = N - b.allocated
    rw [hs]

/-- C7, instance: a 70-bit bitmap after `Set 0`, `Set 69`, a failing `Set 70` and
`Clear 0`. -/
theorem C7_bitmap_invariant_witness :
    (0 : Int) ≤ 70 ∧
    Bitmap.Reachable 70 ((((((NewBitmap 70).Set 0).1.Set 69).1.Set 70).1).Clear 0).1 ∧
    ((((((NewBitmap 70).Set 0).1.Set 69).1.Set 70).1).Clear 0).1.Count = 1 :=
  ⟨by decide,
    Bitmap.Reachable.clear _ 0 (Bitmap.Reachable.set _ 70 (Bitmap.Reachable.set _ 69
      (Bitmap.Reachable.set _ 0 Bitmap.Reachable.init))),
    by
      have h := (C7_bitmap_invariant 70 (by decide) _
        (Bitmap.Reachable.clear _ 0 (Bitmap.Reachable.set _ 70 (Bitmap.Reachable.set _ 69
          (Bitmap.Reachable.set _ 0 Bitmap.Reachable.init))))).1
      rw [h]
      decide⟩

end BitmapProofs

/-! ## Maps and addresses: proofs -/

theorem mapGet_mapPut_self {κ ν : Type} [DecidableEq κ] (m : List (κ × ν)) (k : κ) (v : ν) :
    mapGet (mapPut m k v) k = some v := by
  induction m with
  | nil => simp [mapPut, mapGet]
  | cons e m ih =>
    obtain ⟨k', v'⟩ := e
    by_cases h : k' = k
    · simp [mapPut, mapGet, h]
    · simp [mapPut, mapGet, h, ih]

theorem mapGet_mapPut_ne {κ ν : Type} [DecidableEq κ] (m : List (κ × ν)) {k k' : κ} (v : ν)
    (hne : k' ≠ k) : mapGet (mapPut m k v) k' = mapGet m k' := by
  induction m with
  | nil =>
    have : ¬ k = k' := fun h => hne h.symm
    simp [mapPut, mapGet, this]
  | cons e m ih =>
    obtain ⟨k0, v0⟩ := e
    by_cases h : k0 = k
    · subst h
      have : ¬ k0 = k' := fun h => hne h.symm
      simp [mapPut, mapGet, this]
    · by_cases h2 : k0 = k'
      · subst h2
        simp [mapPut, mapGet, h]
      · simp [mapPut, mapGet, h, h2, ih]

theorem mapGet_mapPut {κ ν : Type} [DecidableEq κ] (m : List (κ × ν)) (k k' : κ) (v : ν) :
    mapGet (mapPut m k v) k' = if k' = k then some v else mapGet m k' := by
  by_cases h : k' = k
  · subst h; simp [mapGet_mapPut_self]
  · simp [h, mapGet_mapPut_ne m v h]

theorem mapGet_mapDel {κ ν : Type} [DecidableEq κ] (m : List (κ × ν)) (k k' : κ) :
    mapGet (mapDel m k) k' = if k' = k then none else mapGet m k' := by
  induction m with
  | nil => simp [mapDel, mapGet]
  | cons e m ih =>
    obtain ⟨k0, v0⟩ := e
    unfold mapDel at ih ⊢
    by_cases h : k0 = k
    · subst h
      by_cases h2 : k' = k0
      · subst h2; simpa [List.filter, mapGet] using ih
      · have : ¬ k0 = k' := fun hc => h2 hc.symm
        simpa [List.filter, mapGet, this, h2] using ih
    · by_cases h2 : k0 = k'
      · subst h2
        simp [List.filter, mapGet, h]
      · simp only [List.filter, mapGet, h, h2, ne_eq, not_false_eq_true, decide_True, if_false]
        exact ih

theorem mapGet_some_mem {κ ν : Type} [DecidableEq κ] {m : List (κ × ν)} {k : κ} {v : ν}
    (h : mapGet m k = some v) : (k, v) ∈ m := by
  induction m with
  | nil => simp [mapGet] at h
  | cons e m ih =>
    obtain ⟨k0, v0⟩ := e
    by_cases h0 : k0 = k
    · subst h0
      simp [mapGet] at h
      subst h
      exact List.mem_cons_self _ _
    · simp [mapGet, h0] at h
      exact List.mem_cons_of_mem _ (ih h)

theorem toInt64_of_range {x : Int} (h0 : -(2 ^ 63) ≤ x) (h1 : x < 2 ^ 63) : toInt64 x = x := by
  unfold toInt64
  omega

theorem two_pow_le_of_le_32 (h : Nat) (hh : h ≤ 32) : (2 : Int) ^ h ≤ 2 ^ 32 := by
  have : (2 : Nat) ^ h ≤ 2 ^ 32 := Nat.pow_le_pow_right (by decide) hh
  exact_mod_cast this

theorem two_pow_pos_int (h : Nat) : (0 : Int) < 2 ^ h := by positivity

/-- The capacity computed by `NewIPBlock` and `AddSubnet` for an IPv4 network. -/
theorem usable_v4 (p : Nat) (hp : p ≤ 32) :
    toInt64 (toInt64 (2 ^ (32 - p)) - 2) = 2 ^ (32 - p) - 2 := by
  have h1 := two_pow_le_of_le_32 (32 - p) (by omega)
  have h2 := two_pow_pos_int (32 - p)
  have e1 : toInt64 (2 ^ (32 - p)) = 2 ^ (32 - p) := toInt64_of_range (by omega) (by omega)
  rw [e1]
  exact toInt64_of_range (by omega) (by omega)

theorem usable_v4_pos (p : Nat) (hp : p ≤ 30) : (0 : Int) < 2 ^ (32 - p) - 2 := by
  have : (2 : Nat) ^ 2 ≤ 2 ^ (32 - p) := Nat.pow_le_pow_right (by decide) (by omega)
  have h : ((2 : Nat) ^ 2 : Int) ≤ ((2 : Nat) ^ (32 - p) : Int) := by exact_mod_cast this
  push_cast at h
  omega

theorem usable_v4_nonpos (p : Nat) (hp : 31 ≤ p) (hp' : p ≤ 32) :
    (2 : Int) ^ (32 - p) - 2 ≤ 0 := by
  have : p = 31 ∨ p = 32 := by omega
  rcases this with rfl | rfl <;> decide

theorem ParseCIDR_v4 (a p : Nat) (ha : a < 2 ^ 32) (hp : p ≤ 32) :
    ParseCIDR (CIDRString.v4 a p) = some ⟨maskAddr a p 32, p, 32⟩ := by
  show (if a < 2 ^ 32 ∧ p ≤ 32 then some (IPNet.mk (maskAddr a p 32) p 32) else none) = _
  rw [if_pos ⟨ha, hp⟩]

theorem NewIPBlock_v4_ok (a p : Nat) (nodeID : String) (ha : a < 2 ^ 32) (hp : p ≤ 30) :
    NewIPBlock (CIDRString.v4 a p) nodeID = Except.ok
      { CIDR := ⟨maskAddr a p 32, p, 32⟩, NodeID := nodeID, Total := 2 ^ (32 - p) - 2,
        Used := 0, bitmap := NewBitmap (2 ^ (32 - p) - 2) } := by
  unfold NewIPBlock
  rw [ParseCIDR_v4 a p ha (by omega)]
  have hpos := usable_v4_pos p hp
  simp only [usable_v4 p (by omega)]
  rw [if_neg (by omega)]

theorem NewIPBlock_v4_small (a p : Nat) (nodeID : String) (ha : a < 2 ^ 32) (hp : 31 ≤ p)
    (hp' : p ≤ 32) : NewIPBlock (CIDRString.v4 a p) nodeID = Except.error Err.noUsableIPs := by
  unfold NewIPBlock
  rw [ParseCIDR_v4 a p ha hp']
  have hnp := usable_v4_nonpos p hp hp'
  simp only [usable_v4 p hp']
  rw [if_pos hnp]

theorem AddSubnet_v4_ok (sp : SubnetPool) (a p : Nat) (purpose : String) (ha : a < 2 ^ 32)
    (hp : p ≤ 30) (hnew : mapGet sp.Subnets (CIDRString.v4 a p) = none) :
    sp.AddSubnet (CIDRString.v4 a p) purpose =
      (SubnetPool.mk sp.TORID (mapPut sp.Subnets (CIDRString.v4 a p)
          (Subnet.mk ⟨maskAddr a p 32, p, 32⟩ purpose (2 ^ (32 - p) - 2) 0 []
            (NewBitmap (2 ^ (32 - p) - 2)))), none) := by
  unfold SubnetPool.AddSubnet
  rw [hnew, ParseCIDR_v4 a p ha (by omega)]
  have hpos := usable_v4_pos p hp
  simp only [usable_v4 p (by omega), Option.isSome_none, Bool.false_eq_true, if_false]
  rw [if_neg (by omega)]

theorem AddSubnet_v4_small (sp : SubnetPool) (a p : Nat) (purpose : String) (ha : a < 2 ^ 32)
    (hp : 31 ≤ p) (hp' : p ≤ 32) (hnew : mapGet sp.Subnets (CIDRString.v4 a p) = none) :
    sp.AddSubnet (CIDRString.v4 a p) purpose = (sp, some Err.noUsableIPs) := by
  unfold SubnetPool.AddSubnet
  rw [hnew, ParseCIDR_v4 a p ha hp']
  have hnp := usable_v4_nonpos p hp hp'
  simp only [usable_v4 p hp', Option.isSome_none, Bool.false_eq_true, if_false]
  rw [if_pos hnp]

/-- C8: for every IPv4 CIDR `a/p` (`a` a 32-bit address, `p ≤ 32`), `NewIPBlock` and
`SubnetPool.AddSubnet` (on a pool that does not hold this CIDR string yet) succeed when
`p ≤ 30`, with `Total` resp. `Capacity` equal to `2 ^ (32 - p) - 2` and `Used = 0`, and
both fail with the `no usable IPs` error when `p ≥ 31`. -/
theorem C8_reservation_rule (a p : Nat) (nodeID purpose : String) (sp : SubnetPool)
    (ha : a < 2 ^ 32) (hp : p ≤ 32) (hnew : mapGet sp.Subnets (CIDRString.v4 a p) = none) :
    (p ≤ 30 →
      (∃ b, NewIPBlock (CIDRString.v4 a p) nodeID = Except.ok b ∧
        b.Total = 2 ^ (32 - p) - 2 ∧ b.Used = 0 ∧ b.Available = 2 ^ (32 - p) - 2) ∧
      (sp.AddSubnet (CIDRString.v4 a p) purpose).2 = none ∧
      ∃ s, mapGet (sp.AddSubnet (CIDRString.v4 a p) purpose).1.Subnets (CIDRString.v4 a p)
          = some s ∧ s.Capacity = 2 ^ (32 - p) - 2 ∧ s.Used = 0) ∧
    (31 ≤ p →
      NewIPBlock (CIDRString.v4 a p) nodeID = Except.error Err.noUsableIPs ∧
      sp.AddSubnet (CIDRString.v4 a p) purpose = (sp, some Err.noUsableIPs)) := by
  constructor
  · intro h30
    refine ⟨⟨_, NewIPBlock_v4_ok a p nodeID ha h30, rfl, rfl, ?_⟩, ?_⟩
    · show (NewBitmap (2 ^ (32 - p) - 2)).size - (NewBitmap (2 ^ (32 - p) - 2)).allocated = _
      simp [NewBitmap]
    · rw [AddSubnet_v4_ok sp a p purpose ha h30 hnew]
      exact ⟨rfl, _, mapGet_mapPut_self _ _ _, rfl, rfl⟩
  · intro h31
    exact ⟨NewIPBlock_v4_small a p nodeID ha h31 hp, AddSubnet_v4_small sp a p purpose ha h31 hp hnew⟩

/-- C8, instance: `10.244.0.0/24` gives 254 usable addresses. -/
theorem C8_reservation_rule_witness :
    (∃ b, NewIPBlock (CIDRString.v4 183762944 24) "n1" = Except.ok b ∧
        b.Total = 254 ∧ b.Used = 0 ∧ b.Available = 254) ∧
      ((NewSubnetPool "tor-1").AddSubnet (CIDRString.v4 183762944 24) "default").2 = none ∧
      ∃ s, mapGet ((NewSubnetPool "tor-1").AddSubnet (CIDRString.v4 183762944 24)
          "default").1.Subnets (CIDRString.v4 183762944 24) = some s ∧
        s.Capacity = 254 ∧ s.Used = 0 :=
  (C8_reservation_rule 183762944 24 "n1" "default" (NewSubnetPool "tor-1")
    (by decide) (by decide) (by decide)).1 (by decide)

/-! ## IPBlock: proofs -/

section BlockProofs

open Bitmap

theorem maskAddr_le (a n : Nat) : maskAddr a n 32 ≤ a := Nat.div_mul_le_self _ _

theorem maskAddr_idem (a n : Nat) : maskAddr (maskAddr a n 32) n 32 = maskAddr a n 32 := by
  unfold maskAddr
  rw [Nat.mul_div_cancel _ (Nat.two_pow_pos _)]

theorem maskAddr_eq_iff (A n x : Nat) (hal : maskAddr A n 32 = A) :
    maskAddr x n 32 = A ↔ A ≤ x ∧ x < A + 2 ^ (32 - n) := by
  unfold maskAddr at *
  have hH : 0 < 2 ^ (32 - n) := Nat.two_pow_pos _
  generalize 2 ^ (32 - n) = H at *
  constructor
  · intro h
    have h1 : x / H * H ≤ x := Nat.div_mul_le_self _ _
    have h2 : x < (x / H + 1) * H := by
      have := Nat.lt_succ_self (x / H)
      exact (Nat.div_lt_iff_lt_mul hH).1 this
    rw [Nat.add_mul, Nat.one_mul, h] at h2
    omega
  · rintro ⟨h1, h2⟩
    have hk : x / H = A / H := by
      apply Nat.le_antisymm
      · have : x < (A / H + 1) * H := by rw [Nat.add_mul, Nat.one_mul, hal]; exact h2
        exact Nat.lt_succ_iff.1 ((Nat.div_lt_iff_lt_mul hH).2 this)
      · exact Nat.div_le_div_right h1
    rw [hk, hal]

theorem block_range (A n : Nat) (hn : n ≤ 32) (hA : A < 2 ^ 32)
    (hal : maskAddr A n 32 = A) : A + 2 ^ (32 - n) ≤ 2 ^ 32 := by
  unfold maskAddr at hal
  have hH : 0 < 2 ^ (32 - n) := Nat.two_pow_pos _
  have hsplit : 2 ^ 32 = 2 ^ n * 2 ^ (32 - n) := by
    rw [← Nat.pow_add]; congr 1; omega
  rw [hsplit] at hA ⊢
  generalize 2 ^ (32 - n) = H at *
  generalize 2 ^ n = K at *
  have hk : A / H < K := by
    by_contra hc
    have : K * H ≤ A / H * H := Nat.mul_le_mul_right H (Nat.le_of_not_lt hc)
    omega
  have : (A / H + 1) * H ≤ K * H := Nat.mul_le_mul_right H hk
  rw [Nat.add_mul, Nat.one_mul, hal] at this
  exact this

theorem WF_total_nat {b : IPBlock} (hb : b.WF) :
    b.Total = ((2 ^ (32 - b.CIDR.ones) - 2 : Nat) : Int) ∧ 4 ≤ 2 ^ (32 - b.CIDR.ones) ∧
    b.CIDR.addr + 2 ^ (32 - b.CIDR.ones) ≤ 2 ^ 32 := by
  have h4 : (2 : Nat) ^ 2 ≤ 2 ^ (32 - b.CIDR.ones) :=
    Nat.pow_le_pow_right (by decide) (by have := hb.ones; omega)
  refine ⟨?_, h4, block_range _ _ (by have := hb.ones; omega) hb.addr_lt hb.aligned⟩
  rw [hb.total]
  have : (2 : Nat) ≤ 2 ^ (32 - b.CIDR.ones) := by omega
  push_cast [Nat.cast_sub this]
  rfl

theorem positionToIP_WF {b : IPBlock} (hb : b.WF) (p : Nat) (hp : (p : Int) < b.Total) :
    b.positionToIP (p : Int) = IP.v4 (b.CIDR.addr + p + 1) := by
  obtain ⟨ht, h4, hr⟩ := WF_total_nat hb
  have hA := hb.addr_lt
  unfold IPBlock.positionToIP Ipam.positionToIP IPNet.To4 toUint32
  rw [if_pos hb.bits]
  simp only []
  have hp' : p + 2 < 2 ^ (32 - b.CIDR.ones) := by omega
  have e1 : (((p : Int) + 1) % 2 ^ 32).toNat = p + 1 := by
    have : ((p : Int) + 1) % 2 ^ 32 = (p : Int) + 1 := Int.emod_eq_of_lt (by omega) (by omega)
    rw [this]; omega
  rw [e1, Nat.mod_eq_of_lt hA, Nat.mod_eq_of_lt (by omega)]
  rfl

/-- A masked network address of the IPv4-in-IPv6 form has a prefix of 96 bits or more:
bit 32 of the address is set. -/
theorem mapped_ones {a n : Nat} (h : isV4Mapped (maskAddr a n 128) = true) : 96 ≤ n := by
  by_contra hn
  have hk : 2 ^ (128 - n) = (2 ^ (128 - n - 33) * 2) * 2 ^ 32 := by
    rw [← pow_succ, ← pow_add]
    congr 1
    omega
  unfold isV4Mapped maskAddr at h
  simp only [decide_eq_true_eq] at h
  generalize a / 2 ^ (128 - n) = q at h
  rw [hk, ← Nat.mul_assoc, Nat.mul_div_cancel _ (by positivity), ← Nat.mul_assoc] at h
  omega

theorem Contains_v4_of_bits {n : IPNet} (h : n.bits = 32) (a : Nat) :
    n.Contains (IP.v4 a) = decide (a < 2 ^ 32 ∧ maskAddr a n.ones 32 = n.addr) := by
  show (if n.bits = 32 then decide (a < 2 ^ 32 ∧ maskAddr a n.ones 32 = n.addr)
    else decide (n.bits = 128 ∧ isV4Mapped n.addr = true ∧ a < 2 ^ 32 ∧
      maskAddr a (n.ones - 96) 32 = n.addr % 2 ^ 32)) = _
  rw [if_pos h]

theorem CIDR_Contains_v4 {b : IPBlock} (hb : b.WF) (x : Nat) :
    b.CIDR.Contains (IP.v4 x) = true ↔
      b.CIDR.addr ≤ x ∧ x < b.CIDR.addr + 2 ^ (32 - b.CIDR.ones) := by
  obtain ⟨_, _, hr⟩ := WF_total_nat hb
  rw [Contains_v4_of_bits hb.bits]
  simp only [decide_eq_true_eq]
  rw [maskAddr_eq_iff _ _ _ hb.aligned]
  constructor
  · rintro ⟨_, h⟩; exact h
  · intro h; exact ⟨by omega, h⟩

theorem CIDR_Contains_cases {b : IPBlock} (hb : b.WF) {ip : IP}
    (h : b.CIDR.Contains ip = true) : ∃ x, ip = IP.v4 x := by
  cases ip with
  | nil => simp [IPNet.Contains] at h
  | v4 x => exact ⟨x, rfl⟩
  | v6 x =>
    simp only [IPNet.Contains, decide_eq_true_eq] at h
    have := hb.bits
    omega

theorem ipToPosition_WF {b : IPBlock} (hb : b.WF) (x : Nat)
    (hx : b.CIDR.Contains (IP.v4 x) = true) :
    b.ipToPosition (IP.v4 x) = (x : Int) - b.CIDR.addr - 1 := by
  obtain ⟨_, _, hr⟩ := WF_total_nat hb
  have ⟨h1, h2⟩ := (CIDR_Contains_v4 hb x).1 hx
  have hA := hb.addr_lt
  unfold IPBlock.ipToPosition Ipam.ipToPosition IPNet.To4 IP.To4
  rw [if_pos hb.bits]
  simp only []
  rw [Nat.mod_eq_of_lt hA, Nat.mod_eq_of_lt (by omega : x < 2 ^ 32)]
  have : (x + 2 ^ 32 - b.CIDR.addr) % 2 ^ 32 = x - b.CIDR.addr := by
    have e : x + 2 ^ 32 - b.CIDR.addr = (x - b.CIDR.addr) + 2 ^ 32 := by omega
    rw [e, Nat.add_mod_right]
    exact Nat.mod_eq_of_lt (by omega)
  rw [this]
  omega

theorem FirstZeroSpec_eq {b : Bitmap} {r : Int} (h : FirstZeroSpec b r) (p : Nat)
    (hp : (p : Int) < b.size) (hun : b.IsSet (p : Int) = false)
    (hbelow : ∀ q : Nat, q < p → b.IsSet (q : Int) = true) : r = (p : Int) := by
  rcases h with ⟨_, hall⟩ | ⟨p', hr, hp', hun', hbelow'⟩
  · rw [hall p hp] at hun; exact Bool.noConfusion hun
  · rw [hr]
    rcases Nat.lt_trichotomy p' p with hlt | heq | hgt
    · rw [hbelow p' hlt] at hun'; exact Bool.noConfusion hun'
    · rw [heq]
    · rw [hbelow' p hgt] at hun; exact Bool.noConfusion hun

/-- What `Allocate` does on a well-formed block, by the result of `FindFirstZero`. -/
theorem Allocate_cases {b : IPBlock} (hb : b.WF) :
    (b.bitmap.FindFirstZero = -1 ∧ b.Allocate = (b, Except.error Err.ErrNoAvailableIP)) ∨
    (∃ p : Nat, b.bitmap.FindFirstZero = (p : Int) ∧ (p : Int) < b.Total ∧
      bitAt b.bitmap p = false ∧ (∀ q : Nat, q < p → bitAt b.bitmap q = true) ∧
      b.Allocate = ({ b with bitmap := (b.bitmap.Set (p : Int)).1, Used := b.Used + 1 },
        Except.ok (IP.v4 (b.CIDR.addr + p + 1)))) := by
  rcases FindFirstZero_spec b.bitmap hb.bm with ⟨hr, _⟩ | ⟨p, hr, hp, hun, hbelow⟩
  · left
    refine ⟨hr, ?_⟩
    unfold IPBlock.Allocate
    simp only [hr, if_true]
  · right
    have hpT : (p : Int) < b.Total := by rw [← hb.size]; exact hp
    have hbit : bitAt b.bitmap p = false := by
      rw [IsSet_natCast] at hun; simpa [hp] using hun
    refine ⟨p, hr, hpT, hbit, ?_, ?_⟩
    · intro q hq
      have := hbelow q hq
      rw [IsSet_natCast] at this
      simp only [Bool.and_eq_true, decide_eq_true_eq] at this
      exact this.2
    · unfold IPBlock.Allocate
      have hne : ¬ ((p : Int) = -1) := by omega
      simp only [hr, hne, if_false]
      have hset := Set_ok b.bitmap hp hbit
      rw [hset]
      simp only []
      rw [positionToIP_WF hb p hpT]

theorem WF_Allocate {b : IPBlock} (hb : b.WF) : b.Allocate.1.WF := by
  rcases Allocate_cases hb with ⟨_, h⟩ | ⟨p, _, hp, hbit, _, h⟩
  · rw [h]; exact hb
  · rw [h]
    have hp' : (p : Int) < b.bitmap.size := by rw [hb.size]; exact hp
    refine ⟨hb.bits, hb.ones, hb.addr_lt, hb.aligned, hb.total, WF_Set _ hb.bm _, ?_, ?_⟩
    · show (b.bitmap.Set (p : Int)).1.size = b.Total
      rw [Set_size]; exact hb.size
    · show b.Used + 1 = (b.bitmap.Set (p : Int)).1.allocated
      rw [Set_ok b.bitmap hp' hbit, hb.used]

theorem IPBlock_eta (b : IPBlock) : { b with bitmap := b.bitmap } = b := by
  cases b; rfl

/-- What `Release` does on a well-formed block. -/
theorem Release_cases {b : IPBlock} (hb : b.WF) (ip : IP) :
    (b.CIDR.Contains ip = false ∧ b.Release ip = (b, some Err.ErrIPNotInBlock)) ∨
    (∃ x, ip = IP.v4 x ∧ b.CIDR.Contains ip = true ∧
      (b.ipToPosition ip < 0 ∨ b.Total ≤ b.ipToPosition ip) ∧
      b.Release ip = (b, some Err.ErrInvalidIP)) ∨
    (∃ x p : Nat, ip = IP.v4 x ∧ b.CIDR.Contains ip = true ∧ x = b.CIDR.addr + p + 1 ∧
      b.ipToPosition ip = (p : Int) ∧ (p : Int) < b.Total ∧ bitAt b.bitmap p = false ∧
      b.Release ip = (b, some Err.bitAlreadyClear)) ∨
    (∃ x p : Nat, ip = IP.v4 x ∧ b.CIDR.Contains ip = true ∧ x = b.CIDR.addr + p + 1 ∧
      b.ipToPosition ip = (p : Int) ∧ (p : Int) < b.Total ∧ bitAt b.bitmap p = true ∧
      b.Release ip =
        ({ b with bitmap := (b.bitmap.Clear (p : Int)).1, Used := b.Used - 1 }, none)) := by
  by_cases hc : b.CIDR.Contains ip = true
  · right
    obtain ⟨x, rfl⟩ := CIDR_Contains_cases hb hc
    have hpos := ipToPosition_WF hb x hc
    have ⟨h1, h2⟩ := (CIDR_Contains_v4 hb x).1 hc
    obtain ⟨ht, h4, hr⟩ := WF_total_nat hb
    by_cases hrange : b.ipToPosition (IP.v4 x) < 0 ∨ b.Total ≤ b.ipToPosition (IP.v4 x)
    · left
      refine ⟨x, rfl, hc, hrange, ?_⟩
      unfold IPBlock.Release
      have hrange' : b.ipToPosition (IP.v4 x) < 0 ∨ b.ipToPosition (IP.v4 x) ≥ b.Total := hrange
      simp only [hc, Bool.not_true, Bool.false_eq_true, if_false, hrange', if_true]
    · right
      have hx0 : b.CIDR.addr + 1 ≤ x := by rw [hpos] at hrange; omega
      obtain ⟨p, hp⟩ : ∃ p : Nat, x = b.CIDR.addr + p + 1 := ⟨x - b.CIDR.addr - 1, by omega⟩
      have hposp : b.ipToPosition (IP.v4 x) = (p : Int) := by rw [hpos, hp]; push_cast; omega
      have hpT : (p : Int) < b.Total := by rw [hposp] at hrange; omega
      have hpS : (p : Int) < b.bitmap.size := by rw [hb.size]; exact hpT
      have hrange' : ¬ ((p : Int) < 0 ∨ (p : Int) ≥ b.Total) := by omega
      by_cases hbit : bitAt b.bitmap p = true
      · right
        refine ⟨x, p, rfl, hc, hp, hposp, hpT, hbit, ?_⟩
        unfold IPBlock.Release
        simp only [hc, Bool.not_true, Bool.false_eq_true, if_false, hposp, hrange']
        rw [Clear_ok b.bitmap hpS hbit]
      · rw [Bool.not_eq_true] at hbit
        left
        refine ⟨x, p, rfl, hc, hp, hposp, hpT, hbit, ?_⟩
        unfold IPBlock.Release
        simp only [hc, Bool.not_true, Bool.false_eq_true, if_false, hposp, hrange']
        rw [Clear_alreadyClear b.bitmap hpS hbit]
  · left
    rw [Bool.not_eq_true] at hc
    refine ⟨hc, ?_⟩
    unfold IPBlock.Release
    simp only [hc, Bool.not_false, if_true]

theorem WF_Release {b : IPBlock} (hb : b.WF) (ip : IP) : (b.Release ip).1.WF := by
  rcases Release_cases hb ip with ⟨_, h⟩ | ⟨_, _, _, _, h⟩ | ⟨_, _, _, _, _, _, _, _, h⟩ |
    ⟨x, p, _, _, _, _, hp, hbit, h⟩
  · rw [h]; exact hb
  · rw [h]; exact hb
  · rw [h]; exact hb
  · rw [h]
    have hp' : (p : Int) < b.bitmap.size := by rw [hb.size]; exact hp
    refine ⟨hb.bits, hb.ones, hb.addr_lt, hb.aligned, hb.total, WF_Clear _ hb.bm _, ?_, ?_⟩
    · show (b.bitmap.Clear (p : Int)).1.size = b.Total
      rw [Clear_size]; exact hb.size
    · show b.Used - 1 = (b.bitmap.Clear (p : Int)).1.allocated
      rw [Clear_ok b.bitmap hp' hbit, hb.used]

theorem WF_NewIPBlock {a p : Nat} {nodeID : String} {b : IPBlock} (ha : a < 2 ^ 32)
    (h : NewIPBlock (CIDRString.v4 a p) nodeID = Except.ok b) : b.WF ∧ p ≤ 30 ∧
      b = { CIDR := ⟨maskAddr a p 32, p, 32⟩, NodeID := nodeID, Total := 2 ^ (32 - p) - 2,
            Used := 0, bitmap := NewBitmap (2 ^ (32 - p) - 2) } := by
  by_cases hp : p ≤ 30
  · rw [NewIPBlock_v4_ok a p nodeID ha hp] at h
    have hb := (Except.ok.inj h).symm
    refine ⟨?_, hp, hb⟩
    rw [hb]
    have hpos := usable_v4_pos p hp
    exact ⟨rfl, hp, Nat.lt_of_le_of_lt (maskAddr_le a p) ha, maskAddr_idem a p, rfl,
      WF_NewBitmap (by omega), rfl, rfl⟩
  · exfalso
    by_cases hp' : p ≤ 32
    · rw [NewIPBlock_v4_small a p nodeID ha (by omega) hp'] at h
      exact Except.noConfusion h
    · have : ParseCIDR (CIDRString.v4 a p) = none := by
        show (if a < 2 ^ 32 ∧ p ≤ 32 then some (IPNet.mk (maskAddr a p 32) p 32) else none) = _
        rw [if_neg (fun hc => hp' hc.2)]
      unfold NewIPBlock at h
      rw [this] at h
      exact Except.noConfusion h

theorem Reachable_WF_block {a p : Nat} {nodeID : String} {b : IPBlock} (ha : a < 2 ^ 32)
    (h : IPBlock.Reachable (CIDRString.v4 a p) nodeID b) : b.WF := by
  induction h with
  | init b hnew => exact (WF_NewIPBlock ha hnew).1
  | allocate b _ ih => exact WF_Allocate ih
  | release b ip _ ih => exact WF_Release ih ip

/-- The state after `k` allocations on a fresh block: exactly the positions below `k`
are set. -/
theorem allocN_state {b : IPBlock} (hb : b.WF)
    (hfresh : ∀ q : Nat, bitAt b.bitmap q = false) :
    ∀ k : Nat, (k : Int) ≤ b.Total →
      (b.allocN k).WF ∧ (b.allocN k).CIDR = b.CIDR ∧ (b.allocN k).Total = b.Total ∧
      (b.allocN k).Used = b.Used + k ∧
      ∀ q : Nat, bitAt (b.allocN k).bitmap q = decide (q < k) := by
  intro k
  induction k with
  | zero =>
    intro _
    refine ⟨hb, rfl, rfl, by simp [IPBlock.allocN], fun q => ?_⟩
    simp [IPBlock.allocN, hfresh q]
  | succ k ih =>
    intro hk
    obtain ⟨hwf, hc, ht, hu, hbits⟩ := ih (by omega)
    have hkS : (k : Int) < (b.allocN k).bitmap.size := by rw [hwf.size, ht]; omega
    rcases Allocate_cases hwf with ⟨hr, _⟩ | ⟨p, hr, hp, hbit, hbelow, h⟩
    · exfalso
      have hspec := FindFirstZero_spec _ hwf.bm
      have := FirstZeroSpec_eq hspec k hkS
        (by rw [IsSet_natCast, hbits]; simp)
        (fun q hq => by rw [IsSet_natCast, hbits]; simp [hq]; omega)
      omega
    · have hpk : p = k := by
        have hspec := FindFirstZero_spec _ hwf.bm
        have := FirstZeroSpec_eq hspec k hkS
          (by rw [IsSet_natCast, hbits]; simp)
          (fun q hq => by rw [IsSet_natCast, hbits]; simp [hq]; omega)
        omega
      subst hpk
      have hwf' := WF_Allocate hwf
      show (b.allocN p).Allocate.1.WF ∧ (b.allocN p).Allocate.1.CIDR = b.CIDR ∧
        (b.allocN p).Allocate.1.Total = b.Total ∧
        (b.allocN p).Allocate.1.Used = b.Used + ((p + 1 : Nat) : Int) ∧
        ∀ q : Nat, bitAt (b.allocN p).Allocate.1.bitmap q = decide (q < p + 1)
      refine ⟨hwf', ?_, ?_, ?_, ?_⟩
      · rw [h]; exact hc
      · rw [h]; exact ht
      · rw [h]; show (b.allocN p).Used + 1 = _; rw [hu]; push_cast; omega
      · intro q
        rw [h]
        show bitAt ((b.allocN p).bitmap.Set (p : Int)).1 q = _
        rw [Set_ok _ hkS hbit, bitAt_set_or _ _ _ _ (word_index_lt hwf.bm hkS), hbits]
        by_cases hq : q = p
        · simp [hq]
        · by_cases hq2 : q < p
          · have : q < p + 1 := by omega
            simp [hq, hq2, this]
          · have : ¬ q < p + 1 := by omega
            simp [hq, hq2, this]

/-- C9: on the block `NewIPBlock` returns for an IPv4 CIDR, with usable capacity `Total`,
the `k`-th consecutive `Allocate` (`1 ≤ k ≤ Total`) succeeds and returns the address
network + `k`; after `Total` allocations `Available` is 0 and one more `Allocate` fails
with `ErrNoAvailableIP` and leaves the block as it is. -/
theorem C9_consecutive_allocations (a p : Nat) (nodeID : String) (b : IPBlock)
    (ha : a < 2 ^ 32) (hnew : NewIPBlock (CIDRString.v4 a p) nodeID = Except.ok b) :
    (∀ k : Nat, 1 ≤ k → (k : Int) ≤ b.Total →
      (b.allocN (k - 1)).Allocate.2 = Except.ok (IP.v4 (b.CIDR.addr + k))) ∧
    (b.allocN b.Total.toNat).Available = 0 ∧
    (b.allocN b.Total.toNat).Allocate =
      (b.allocN b.Total.toNat, Except.error Err.ErrNoAvailableIP) := by
  obtain ⟨hb, hp, hval⟩ := WF_NewIPBlock ha hnew
  have hfresh : ∀ q : Nat, bitAt b.bitmap q = false := by
    intro q; rw [hval]; exact NewBitmap_bitAt _ q
  have hused : b.Used = 0 := by rw [hval]
  have hT0 : 0 ≤ b.Total := by rw [← hb.size]; exact hb.bm.nonneg
  refine ⟨?_, ?_, ?_⟩
  · intro k hk1 hkT
    obtain ⟨hwf, hc, ht, _, hbits⟩ := allocN_state hb hfresh (k - 1) (by omega)
    have hkS : ((k - 1 : Nat) : Int) < (b.allocN (k - 1)).bitmap.size := by
      rw [hwf.size, ht]; omega
    have hspec := FindFirstZero_spec _ hwf.bm
    have hffz := FirstZeroSpec_eq hspec (k - 1) hkS
      (by rw [IsSet_natCast, hbits]; simp)
      (fun q hq => by rw [IsSet_natCast, hbits]; simp [hq]; omega)
    rcases Allocate_cases hwf with ⟨hr, _⟩ | ⟨p', hr, _, _, _, h⟩
    · omega
    · have : p' = k - 1 := by omega
      subst this
      rw [h, hc]
      have : b.CIDR.addr + (k - 1) + 1 = b.CIDR.addr + k := by omega
      simp only [this]
  · obtain ⟨hwf, _, ht, hu, _⟩ := allocN_state hb hfresh b.Total.toNat (by omega)
    show (b.allocN b.Total.toNat).bitmap.size - (b.allocN b.Total.toNat).bitmap.allocated = 0
    rw [hwf.size, ← hwf.used, hu, ht, hused]
    omega
  · obtain ⟨hwf, _, ht, _, hbits⟩ := allocN_state hb hfresh b.Total.toNat (by omega)
    rcases Allocate_cases hwf with ⟨_, h⟩ | ⟨p', _, hp', hbit, _, _⟩
    · exact h
    · exfalso
      rw [hbits] at hbit
      rw [ht] at hp'
      have : p' < b.Total.toNat := by omega
      simp [this] at hbit

/-- C9, instance: the block `10.244.0.0/30` hands out `.1`, then `.2`, then is full. -/
theorem C9_consecutive_allocations_witness :
    ∃ b, NewIPBlock (CIDRString.v4 183762944 30) "n1" = Except.ok b ∧
      (b.allocN 0).Allocate.2 = Except.ok (IP.v4 183762945) ∧
      (b.allocN 1).Allocate.2 = Except.ok (IP.v4 183762946) ∧
      (b.allocN 2).Allocate.2 = Except.error Err.ErrNoAvailableIP :=
  ⟨_, rfl,
    (C9_consecutive_allocations 183762944 30 "n1" _ (by decide) rfl).1 1 (by decide)
      (by decide),
    (C9_consecutive_allocations 183762944 30 "n1" _ (by decide) rfl).1 2 (by decide)
      (by decide),
    congrArg Prod.snd (C9_consecutive_allocations 183762944 30 "n1" _ (by decide) rfl).2.2⟩

theorem Contains_WF {b : IPBlock} (hb : b.WF) {ip : IP} (h : b.Contains ip = true) :
    ∃ x p : Nat, ip = IP.v4 x ∧ x = b.CIDR.addr + p + 1 ∧ b.ipToPosition ip = (p : Int) ∧
      (p : Int) < b.Total ∧ bitAt b.bitmap p = true ∧
      b.Release ip =
        ({ b with bitmap := (b.bitmap.Clear (p : Int)).1, Used := b.Used - 1 }, none) := by
  have hc : b.CIDR.Contains ip = true := by
    unfold IPBlock.Contains at h
    by_contra hc
    rw [Bool.not_eq_true] at hc
    simp [hc] at h
  have hset : b.bitmap.IsSet (b.ipToPosition ip) = true := by
    unfold IPBlock.Contains at h
    simpa [hc] using h
  rcases Release_cases hb ip with ⟨hn, _⟩ | ⟨_, _, _, hr, _⟩ | ⟨x, p, _, _, _, hpos, hp, hbit, _⟩ |
    ⟨x, p, hx, _, hxp, hpos, hp, hbit, h⟩
  · rw [hn] at hc; exact Bool.noConfusion hc
  · exfalso
    rcases hr with hr | hr
    · rw [IsSet_neg _ hr] at hset; exact Bool.noConfusion hset
    · rw [IsSet_ge _ (by rw [hb.size]; exact hr)] at hset; exact Bool.noConfusion hset
  · exfalso
    rw [hpos, IsSet_natCast, hbit] at hset
    simp at hset
  · exact ⟨x, p, hx, hxp, hpos, hp, hbit, h⟩

/-- C10, as stated, fails: in the block `10.244.0.0/24` after two allocations and the
release of `10.244.0.1`, the address `10.244.0.2` is allocated, its release succeeds,
and the next `Allocate` returns `10.244.0.1`. -/
theorem C10_release_then_allocate_counterexample :
    ¬ (∀ (a p : Nat) (nodeID : String) (b : IPBlock) (x : IP), a < 2 ^ 32 →
        IPBlock.Reachable (CIDRString.v4 a p) nodeID b → b.Contains x = true →
        (b.Release x).2 = none → (b.Release x).1.Allocate.2 = Except.ok x) := by
  intro h
  have hr : IPBlock.Reachable (CIDRString.v4 183762944 24) "n1"
      ((IPBlock.mk ⟨183762944, 24, 32⟩ "n1" 254 0 (NewBitmap 254)).Allocate.1.Allocate.1.Release
        (IP.v4 183762945)).1 :=
    IPBlock.Reachable.release _ _ (IPBlock.Reachable.allocate _ (IPBlock.Reachable.allocate _
      (IPBlock.Reachable.init _ (by decide))))
  have := h 183762944 24 "n1" _ (IP.v4 183762946) (by decide) hr (by decide) (by decide)
  revert this
  decide

/-- C10, amended: on every state of an IPv4 block and for every address `x` allocated in
it, `Release(x)` succeeds and the `Allocate` that follows succeeds and returns the lowest
free address: this is `x` when every position below the position of `x` is allocated, and
otherwise the address of the first free position of the block before the release, which
is below `x`. -/
theorem C10_release_then_allocate_lowest (a p : Nat) (nodeID : String) (b : IPBlock) (x : IP)
    (ha : a < 2 ^ 32) (hr : IPBlock.Reachable (CIDRString.v4 a p) nodeID b)
    (hx : b.Contains x = true) :
    (b.Release x).2 = none ∧
    ∃ y, (b.Release x).1.Allocate.2 = Except.ok y ∧
      ((∀ q : Int, 0 ≤ q → q < b.ipToPosition x → b.bitmap.IsSet q = true) → y = x) ∧
      (¬ (∀ q : Int, 0 ≤ q → q < b.ipToPosition x → b.bitmap.IsSet q = true) →
        y = b.positionToIP b.bitmap.FindFirstZero ∧
        0 ≤ b.bitmap.FindFirstZero ∧ b.bitmap.FindFirstZero < b.ipToPosition x) := by
  have hb := Reachable_WF_block ha hr
  obtain ⟨xa, px, rfl, hxp, hpos, hpT, hbit, hrel⟩ := Contains_WF hb hx
  have hwf1 : (b.Release (IP.v4 xa)).1.WF := WF_Release hb _
  have hpS : (px : Int) < b.bitmap.size := by rw [hb.size]; exact hpT
  have hlen := word_index_lt hb.bm hpS
  have hbits1 : ∀ q, bitAt (b.Release (IP.v4 xa)).1.bitmap q =
      (!decide (q = px) && bitAt b.bitmap q) := by
    intro q
    rw [hrel]
    show bitAt (b.bitmap.Clear (px : Int)).1 q = _
    rw [Clear_ok _ hpS hbit, bitAt_set_andNot _ _ _ _ hlen]
  have hsize1 : (b.Release (IP.v4 xa)).1.bitmap.size = b.bitmap.size := by
    rw [hrel]; exact Clear_size _ _
  have hcidr1 : (b.Release (IP.v4 xa)).1.CIDR = b.CIDR := by rw [hrel]
  have htot1 : (b.Release (IP.v4 xa)).1.Total = b.Total := by rw [hrel]
  refine ⟨by rw [hrel], ?_⟩
  rcases Allocate_cases hwf1 with ⟨hffz, _⟩ | ⟨p1, hffz, hp1, hbit1, hbelow1, hal⟩
  · exfalso
    have hspec := FindFirstZero_spec _ hwf1.bm
    rcases hspec with ⟨_, hall⟩ | ⟨p', hr', _, _, _⟩
    · have := hall px (by rw [hsize1]; exact hpS)
      rw [IsSet_natCast, hbits1] at this
      simp at this
    · omega
  · refine ⟨_, by rw [hal], ?_, ?_⟩
    · intro hall
      have hp1x : p1 = px := by
        rcases Nat.lt_trichotomy p1 px with hlt | heq | hgt
        · exfalso
          have h1 := hall (p1 : Int) (by omega) (by rw [hpos]; omega)
          rw [IsSet_natCast] at h1
          simp only [Bool.and_eq_true, decide_eq_true_eq] at h1
          rw [hbits1, h1.2] at hbit1
          have : ¬ p1 = px := by omega
          simp [this] at hbit1
        · exact heq
        · exfalso
          have := hbelow1 px hgt
          rw [hbits1] at this
          simp at this
      rw [hcidr1, hp1x, hxp]
    · intro hnall
      have hex : ∃ q : Nat, q < px ∧ bitAt b.bitmap q = false := by
        by_contra hcon
        apply hnall
        intro q hq0 hq1
        obtain ⟨n, rfl⟩ := Int.eq_ofNat_of_zero_le hq0
        rw [hpos] at hq1
        have hn : n < px := by omega
        rw [IsSet_natCast]
        have : bitAt b.bitmap n = true := by
          by_contra hc
          rw [Bool.not_eq_true] at hc
          exact hcon ⟨n, hn, hc⟩
        rw [this]
        simp
        omega
      obtain ⟨q, hq, hqbit⟩ := hex
      have hp1lt : p1 < px := by
        by_contra hc
        have hge : px ≤ p1 := Nat.le_of_not_lt hc
        have := hbelow1 q (by omega)
        rw [hbits1, hqbit] at this
        simp at this
      have hne : ¬ p1 = px := by omega
      have hb0 : bitAt b.bitmap p1 = false := by
        rw [hbits1] at hbit1
        simpa [hne] using hbit1
      have hbelow0 : ∀ q : Nat, q < p1 → b.bitmap.IsSet (q : Int) = true := by
        intro q' hq'
        have := hbelow1 q' hq'
        rw [hbits1] at this
        have hne' : ¬ q' = px := by omega
        rw [IsSet_natCast]
        simp only [hne', decide_False, Bool.not_false, Bool.true_and] at this
        rw [this]
        simp
        omega
      have hffz0 : b.bitmap.FindFirstZero = (p1 : Int) :=
        FirstZeroSpec_eq (FindFirstZero_spec _ hb.bm) p1 (by omega)
          (by rw [IsSet_natCast, hb0]; simp) hbelow0
      rw [hffz0, hpos, positionToIP_WF hb p1 (by omega), hcidr1]
      exact ⟨rfl, by omega, by omega⟩

/-- C10 amended, instance: in the full block `10.244.0.0/30`, releasing `10.244.0.2` and
allocating again returns `10.244.0.2`. -/
theorem C10_release_then_allocate_lowest_witness :
    ((IPBlock.mk ⟨183762944, 30, 32⟩ "n1" 2 0 (NewBitmap 2)).Allocate.1.Allocate.1.Release
        (IP.v4 183762946)).2 = none :=
  (C10_release_then_allocate_lowest 183762944 30 "n1"
    (IPBlock.mk ⟨183762944, 30, 32⟩ "n1" 2 0 (NewBitmap 2)).Allocate.1.Allocate.1
    (IP.v4 183762946) (by decide)
    (IPBlock.Reachable.allocate _ (IPBlock.Reachable.allocate _
      (IPBlock.Reachable.init _ (by decide))))
    (by decide)).1

end BlockProofs

/-! ## The flat pool: proofs -/

section PoolProofs

open Bitmap

theorem Contains_iff {b : IPBlock} (hb : b.WF) (ip : IP) :
    b.Contains ip = true ↔
      ∃ p : Nat, ip = IP.v4 (b.CIDR.addr + p + 1) ∧ (p : Int) < b.Total ∧
        bitAt b.bitmap p = true := by
  constructor
  · intro h
    obtain ⟨x, p, hip, hx, _, hp, hbit, _⟩ := Contains_WF hb h
    exact ⟨p, by rw [hip, hx], hp, hbit⟩
  · rintro ⟨p, rfl, hp, hbit⟩
    obtain ⟨ht, h4, hr⟩ := WF_total_nat hb
    have hc : b.CIDR.Contains (IP.v4 (b.CIDR.addr + p + 1)) = true :=
      (CIDR_Contains_v4 hb _).2 ⟨by omega, by omega⟩
    unfold IPBlock.Contains
    rw [hc, ipToPosition_WF hb _ hc]
    have : ((b.CIDR.addr + p + 1 : Nat) : Int) - (b.CIDR.addr : Int) - 1 = (p : Int) := by
      push_cast; omega
    rw [this, IsSet_natCast, hbit, hb.size]
    simp [hp]

theorem Contains_CIDR {b : IPBlock} {ip : IP} (h : b.Contains ip = true) :
    b.CIDR.Contains ip = true := by
  unfold IPBlock.Contains at h
  by_contra hc
  rw [Bool.not_eq_true] at hc
  simp [hc] at h

/-- Effect of a successful `Allocate` on the allocated set of a block. -/
theorem Allocate_ok_Contains {b b' : IPBlock} {ip : IP} (hb : b.WF)
    (h : b.Allocate = (b', Except.ok ip)) :
    b'.CIDR = b.CIDR ∧ b.Contains ip = false ∧ b.CIDR.Contains ip = true ∧
      ∀ ip', b'.Contains ip' = (decide (ip' = ip) || b.Contains ip') := by
  have hwf' : b'.WF := by have := WF_Allocate hb; rw [h] at this; exact this
  rcases Allocate_cases hb with ⟨_, h0⟩ | ⟨p, _, hp, hbit, _, h1⟩
  · rw [h0] at h; exact absurd (congrArg Prod.snd h) (by simp)
  · rw [h1] at h
    have hb' := (Prod.mk.inj h).1
    have hip : ip = IP.v4 (b.CIDR.addr + p + 1) := (Except.ok.inj (Prod.mk.inj h).2).symm
    have hc : b'.CIDR = b.CIDR := by rw [← hb']
    have ht : b'.Total = b.Total := by rw [← hb']
    have hpS : (p : Int) < b.bitmap.size := by rw [hb.size]; exact hp
    have hbits : ∀ q, bitAt b'.bitmap q = (decide (q = p) || bitAt b.bitmap q) := by
      intro q
      rw [← hb']
      show bitAt (b.bitmap.Set (p : Int)).1 q = _
      rw [Set_ok _ hpS hbit, bitAt_set_or _ _ _ _ (word_index_lt hb.bm hpS)]
    obtain ⟨_, h4, hr⟩ := WF_total_nat hb
    have hT := WF_total_nat hb
    refine ⟨hc, ?_, ?_, ?_⟩
    · by_contra hcon
      rw [Bool.not_eq_false] at hcon
      obtain ⟨q, hq, _, hqbit⟩ := (Contains_iff hb ip).1 hcon
      rw [hip] at hq
      have : q = p := by
        have := IP.v4.inj hq
        omega
      rw [this, hbit] at hqbit
      exact Bool.noConfusion hqbit
    · rw [hip]
      exact (CIDR_Contains_v4 hb _).2 ⟨by omega, by omega⟩
    · intro ip'
      by_cases hc' : b.Contains ip' = true
      · obtain ⟨q, hq, hqT, hqbit⟩ := (Contains_iff hb ip').1 hc'
        have : b'.Contains ip' = true :=
          (Contains_iff hwf' ip').2 ⟨q, by rw [hc]; exact hq, by rw [ht]; exact hqT,
            by rw [hbits, hqbit]; simp⟩
        rw [this, hc']; simp
      · rw [Bool.not_eq_true] at hc'
        rw [hc']
        by_cases he : ip' = ip
        · have : b'.Contains ip' = true :=
            (Contains_iff hwf' ip').2 ⟨p, by rw [hc, he, hip], by rw [ht]; exact hp,
              by rw [hbits]; simp⟩
          rw [this]; simp [he]
        · have : b'.Contains ip' = false := by
            by_contra hcon
            rw [Bool.not_eq_false] at hcon
            obtain ⟨q, hq, hqT, hqbit⟩ := (Contains_iff hwf' ip').1 hcon
            rw [hbits] at hqbit
            rw [hc] at hq
            rw [ht] at hqT
            by_cases hqp : q = p
            · apply he; rw [hq, hip, hqp]
            · simp only [hqp, decide_False, Bool.false_or] at hqbit
              have := (Contains_iff hb ip').2 ⟨q, hq, hqT, hqbit⟩
              rw [this] at hc'
              exact Bool.noConfusion hc'
          rw [this]; simp [he]

/-- A failing `Allocate` leaves the block as it is. -/
theorem Allocate_error {b b' : IPBlock} {e : Err} (hb : b.WF)
    (h : b.Allocate = (b', Except.error e)) : b' = b := by
  rcases Allocate_cases hb with ⟨_, h0⟩ | ⟨p, _, _, _, _, h1⟩
  · rw [h0] at h; exact (Prod.mk.inj h).1.symm
  · rw [h1] at h; exact absurd (congrArg Prod.snd h) (by simp)

/-- Effect of `Release` on the allocated set of a block. -/
theorem Release_Contains {b : IPBlock} (hb : b.WF) (ip : IP) :
    (b.Release ip).1.CIDR = b.CIDR ∧
    ((b.Release ip).2 ≠ none → (b.Release ip).1 = b) ∧
    ((b.Release ip).2 = none →
      ∀ ip', ip' ≠ ip → b.Contains ip' = true → (b.Release ip).1.Contains ip' = true) := by
  have hwf' := WF_Release hb ip
  rcases Release_cases hb ip with ⟨_, h⟩ | ⟨_, _, _, _, h⟩ | ⟨_, _, _, _, _, _, _, _, h⟩ |
    ⟨x, p, hx, _, hxp, _, hp, hbit, h⟩
  · rw [h]; exact ⟨rfl, fun _ => rfl, fun hc => by simp at hc⟩
  · rw [h]; exact ⟨rfl, fun _ => rfl, fun hc => by simp at hc⟩
  · rw [h]; exact ⟨rfl, fun _ => rfl, fun hc => by simp at hc⟩
  · have hc : (b.Release ip).1.CIDR = b.CIDR := by rw [h]
    have ht : (b.Release ip).1.Total = b.Total := by rw [h]
    have hpS : (p : Int) < b.bitmap.size := by rw [hb.size]; exact hp
    have hbits : ∀ q, bitAt (b.Release ip).1.bitmap q =
        (!decide (q = p) && bitAt b.bitmap q) := by
      intro q
      rw [h]
      show bitAt (b.bitmap.Clear (p : Int)).1 q = _
      rw [Clear_ok _ hpS hbit, bitAt_set_andNot _ _ _ _ (word_index_lt hb.bm hpS)]
    refine ⟨hc, fun hne => absurd (by rw [h]) hne, fun _ ip' hne hcon => ?_⟩
    obtain ⟨q, hq, hqT, hqbit⟩ := (Contains_iff hb ip').1 hcon
    have hqp : ¬ q = p := by
      intro he
      apply hne
      rw [hq, hx, hxp, he]
    exact (Contains_iff hwf' ip').2 ⟨q, by rw [hc]; exact hq, by rw [ht]; exact hqT,
      by rw [hbits, hqbit]; simp [hqp]⟩

/-- The loop of `AllocateIPForNode` over well-formed blocks. -/
theorem allocFromBlocks_spec (l : List IPBlock) (hwf : ∀ b ∈ l, b.WF) :
    (Pool.allocFromBlocks l).1.map (fun b => b.CIDR) = l.map (fun b => b.CIDR) ∧
    (∀ b' ∈ (Pool.allocFromBlocks l).1, b'.WF) ∧
    (∀ b ∈ l, ∃ b' ∈ (Pool.allocFromBlocks l).1,
      ∀ ip', b.Contains ip' = true → b'.Contains ip' = true) ∧
    ((Pool.allocFromBlocks l).2 = none → (Pool.allocFromBlocks l).1 = l) ∧
    (∀ ip blk, (Pool.allocFromBlocks l).2 = some (ip, blk) →
      (∃ b ∈ l, b.Contains ip = false ∧ b.CIDR.Contains ip = true) ∧
      ∃ b' ∈ (Pool.allocFromBlocks l).1, b'.Contains ip = true) := by
  induction l with
  | nil =>
    refine ⟨rfl, fun b' hb' => ?_, fun b hb => ?_, fun _ => rfl, fun ip blk h => ?_⟩
    · simp [Pool.allocFromBlocks] at hb'
    · simp at hb
    · simp [Pool.allocFromBlocks] at h
  | cons b rest ih =>
    have hb : b.WF := hwf b (List.mem_cons_self _ _)
    have hrest : ∀ x ∈ rest, x.WF := fun x hx => hwf x (List.mem_cons_of_mem _ hx)
    obtain ⟨ih1, ih2, ih3, ih4, ih5⟩ := ih hrest
    cases hal : b.Allocate with
    | mk b' r =>
      cases r with
      | ok ip =>
        have hres : Pool.allocFromBlocks (b :: rest) = (b' :: rest, some (ip, b')) := by
          simp [Pool.allocFromBlocks, hal]
        obtain ⟨hc, hnot, hin, hall⟩ := Allocate_ok_Contains hb hal
        have hwf' : b'.WF := by have := WF_Allocate hb; rw [hal] at this; exact this
        rw [hres]
        refine ⟨by simp [hc], ?_, ?_, fun h => by simp at h, ?_⟩
        · intro x hx
          rcases List.mem_cons.1 hx with rfl | hx
          · exact hwf'
          · exact hrest x hx
        · intro x hx
          rcases List.mem_cons.1 hx with rfl | hx
          · exact ⟨b', List.mem_cons_self _ _, fun ip' h => by rw [hall, h]; simp⟩
          · exact ⟨x, List.mem_cons_of_mem _ hx, fun _ h => h⟩
        · intro ip0 blk0 h
          have h' := Option.some.inj h
          have hip : ip = ip0 := (Prod.mk.inj h').1
          subst hip
          exact ⟨⟨b, List.mem_cons_self _ _, hnot, hin⟩, b', List.mem_cons_self _ _,
            by rw [hall]; simp⟩
      | error e =>
        have hres : Pool.allocFromBlocks (b :: rest) =
            (b' :: (Pool.allocFromBlocks rest).1, (Pool.allocFromBlocks rest).2) := by
          simp [Pool.allocFromBlocks, hal]
        have hbb : b' = b := Allocate_error hb hal
        subst hbb
        rw [hres]
        refine ⟨by simp [ih1], ?_, ?_, fun h => by simp [ih4 h], ?_⟩
        · intro x hx
          rcases List.mem_cons.1 hx with rfl | hx
          · exact hb
          · exact ih2 x hx
        · intro x hx
          rcases List.mem_cons.1 hx with rfl | hx
          · exact ⟨x, List.mem_cons_self _ _, fun _ h => h⟩
          · obtain ⟨x', hx', hg⟩ := ih3 x hx
            exact ⟨x', List.mem_cons_of_mem _ hx', hg⟩
        · intro ip0 blk0 h
          obtain ⟨⟨x, hx, h1, h2⟩, x', hx', h3⟩ := ih5 ip0 blk0 h
          exact ⟨⟨x, List.mem_cons_of_mem _ hx, h1, h2⟩, x', List.mem_cons_of_mem _ hx', h3⟩

/-- The loop of `ReleaseIP` over well-formed blocks. -/
theorem releaseFromBlocks_spec (ip : IP) (l : List IPBlock) (hwf : ∀ b ∈ l, b.WF) :
    ∀ l' err, Pool.releaseFromBlocks ip l = some (l', err) →
      l'.map (fun b => b.CIDR) = l.map (fun b => b.CIDR) ∧
      (∀ b' ∈ l', b'.WF) ∧
      (err ≠ none → l' = l) ∧
      (err = none → ∀ b ∈ l, ∃ b' ∈ l',
        ∀ ip', ip' ≠ ip → b.Contains ip' = true → b'.Contains ip' = true) := by
  induction l with
  | nil => intro l' err h; simp [Pool.releaseFromBlocks] at h
  | cons b rest ih =>
    intro l' err h
    have hb : b.WF := hwf b (List.mem_cons_self _ _)
    have hrest : ∀ x ∈ rest, x.WF := fun x hx => hwf x (List.mem_cons_of_mem _ hx)
    unfold Pool.releaseFromBlocks at h
    by_cases hc : b.CIDR.Contains ip = true
    · simp only [hc, if_true] at h
      have h' := Option.some.inj h
      have hl : l' = (b.Release ip).1 :: rest := (Prod.mk.inj h').1.symm
      have he : err = (b.Release ip).2 := (Prod.mk.inj h').2.symm
      obtain ⟨r1, r2, r3⟩ := Release_Contains hb ip
      subst hl he
      refine ⟨by simp [r1], ?_, fun hne => by rw [r2 hne], fun hnone x hx => ?_⟩
      · intro x hx
        rcases List.mem_cons.1 hx with rfl | hx
        · exact WF_Release hb ip
        · exact hrest x hx
      · rcases List.mem_cons.1 hx with rfl | hx
        · exact ⟨_, List.mem_cons_self _ _, r3 hnone⟩
        · exact ⟨x, List.mem_cons_of_mem _ hx, fun _ _ h => h⟩
    · simp only [hc, Bool.false_eq_true, if_false] at h
      cases hr : Pool.releaseFromBlocks ip rest with
      | none => rw [hr] at h; simp at h
      | some r =>
        rw [hr] at h
        simp only [Option.map_some'] at h
        have h' := Option.some.inj h
        have hl : l' = b :: r.1 := (Prod.mk.inj h').1.symm
        have he : err = r.2 := (Prod.mk.inj h').2.symm
        obtain ⟨i1, i2, i3, i4⟩ := ih hrest r.1 r.2 (by rw [hr])
        subst hl he
        refine ⟨by simp [i1], ?_, fun hne => by rw [i3 hne], fun hnone x hx => ?_⟩
        · intro x hx
          rcases List.mem_cons.1 hx with rfl | hx
          · exact hb
          · exact i2 x hx
        · rcases List.mem_cons.1 hx with rfl | hx
          · exact ⟨x, List.mem_cons_self _ _, fun _ _ h => h⟩
          · obtain ⟨x', hx', hg⟩ := i4 hnone x hx
            exact ⟨x', List.mem_cons_of_mem _ hx', hg⟩

theorem String_inj {n1 n2 : IPNet} (h1 : n1.bits = 32) (h2 : n2.bits = 32)
    (h : n1.String = n2.String) : n1 = n2 := by
  unfold IPNet.String at h
  rw [if_pos h1, if_pos h2] at h
  cases n1; cases n2
  simp only [CIDRString.v4.injEq] at h
  simp only [IPNet.mk.injEq]
  simp only at h1 h2
  exact ⟨h.1, h.2, by rw [h1, h2]⟩

theorem same_CIDR_of_Contains {b1 b2 : IPBlock} (h1 : b1.WF) (h2 : b2.CIDR.bits = 32)
    (ho : b1.CIDR.ones = b2.CIDR.ones) {ip : IP} (c1 : b1.CIDR.Contains ip = true)
    (c2 : b2.CIDR.Contains ip = true) : b1.CIDR = b2.CIDR := by
  obtain ⟨x, rfl⟩ := CIDR_Contains_cases h1 c1
  rw [Contains_v4_of_bits h1.bits] at c1
  rw [Contains_v4_of_bits h2] at c2
  simp only [decide_eq_true_eq] at c1 c2
  have ha : b1.CIDR.addr = b2.CIDR.addr := by rw [← c1.2, ← c2.2, ho]
  have hb : b1.CIDR.bits = b2.CIDR.bits := by rw [h1.bits, h2]
  cases hc1 : b1.CIDR; cases hc2 : b2.CIDR
  rw [hc1] at ha ho hb; rw [hc2] at ha ho hb
  simp only at ha ho hb
  rw [ha, ho, hb]

theorem mem_map_CIDR {l : List IPBlock} {b : IPBlock} (h : b ∈ l) :
    b.CIDR ∈ l.map (fun b => b.CIDR) := List.mem_map.2 ⟨b, h, rfl⟩

/-- The invariant only depends on the CIDRs of the blocks. -/
theorem Inv_same_cidrs {bs : Nat} {v v' : PoolView} (h : v.Inv bs)
    (hc : ∀ m, (v'.blocks m).map (fun b => b.CIDR) = (v.blocks m).map (fun b => b.CIDR))
    (hwf : ∀ m, ∀ b ∈ v'.blocks m, b.WF) (ha : v'.alloc = v.alloc) : v'.Inv bs := by
  have back : ∀ m, ∀ b' ∈ v'.blocks m, ∃ b ∈ v.blocks m, b.CIDR = b'.CIDR := by
    intro m b' hb'
    have := mem_map_CIDR hb'
    rw [hc m] at this
    obtain ⟨b, hb, he⟩ := List.mem_map.1 this
    exact ⟨b, hb, he⟩
  have forth : ∀ m, ∀ b ∈ v.blocks m, ∃ b' ∈ v'.blocks m, b'.CIDR = b.CIDR := by
    intro m b hb
    have := mem_map_CIDR hb
    rw [← hc m] at this
    obtain ⟨b', hb', he⟩ := List.mem_map.1 this
    exact ⟨b', hb', he⟩
  refine ⟨?_, ?_, ?_, ?_⟩
  · intro n b' hb'
    obtain ⟨b, hb, he⟩ := back n b' hb'
    exact ⟨hwf n b' hb', by rw [← he]; exact (h.wf n b hb).2⟩
  · intro n; rw [hc n]; exact h.nodup n
  · intro n1 n2 hne b1 hb1 b2 hb2 heq
    obtain ⟨c1, hc1, he1⟩ := back n1 b1 hb1
    obtain ⟨c2, hc2, he2⟩ := back n2 b2 hb2
    exact h.cross n1 n2 hne c1 hc1 c2 hc2 (by rw [he1, he2, heq])
  · intro c
    rw [ha, h.alloc_iff c]
    constructor
    · rintro ⟨n, b, hb, hs⟩
      obtain ⟨b', hb', he⟩ := forth n b hb
      exact ⟨n, b', hb', by rw [he]; exact hs⟩
    · rintro ⟨n, b', hb', hs⟩
      obtain ⟨b, hb, he⟩ := back n b' hb'
      exact ⟨n, b, hb, by rw [he]; exact hs⟩

/-- Appending a fresh block to the list of a node keeps the invariant. -/
theorem Inv_append {bs : Nat} {v v' : PoolView} (h : v.Inv bs) (n : String) (blk : IPBlock)
    (cidr : CIDRString) (hfree : v.alloc cidr = false) (hwf : blk.WF)
    (hones : blk.CIDR.ones = bs) (hstr : blk.CIDR.String = cidr)
    (hb : v'.blocks = Function.update v.blocks n (v.blocks n ++ [blk]))
    (ha : v'.alloc = Function.update v.alloc cidr true) : v'.Inv bs := by
  have hnew : ∀ m, ∀ b ∈ v.blocks m, b.CIDR ≠ blk.CIDR := by
    intro m b hbm heq
    have : v.alloc cidr = true := (h.alloc_iff cidr).2 ⟨m, b, hbm, by rw [heq]; exact hstr⟩
    rw [hfree] at this
    exact Bool.noConfusion this
  have hmem : ∀ m b, b ∈ v'.blocks m ↔ (b ∈ v.blocks m ∨ (m = n ∧ b = blk)) := by
    intro m b
    rw [hb]
    by_cases hm : m = n
    · subst hm; simp
    · simp [Function.update_noteq hm, hm]
  refine ⟨?_, ?_, ?_, ?_⟩
  · intro m b hbm
    rcases (hmem m b).1 hbm with h1 | ⟨_, rfl⟩
    · exact h.wf m b h1
    · exact ⟨hwf, hones⟩
  · intro m
    rw [hb]
    by_cases hm : m = n
    · subst hm
      simp only [Function.update_same, List.map_append, List.map_cons, List.map_nil]
      rw [List.nodup_append]
      refine ⟨h.nodup m, List.nodup_singleton _, ?_⟩
      intro c hc1 hc2
      rw [List.mem_singleton] at hc2
      obtain ⟨b, hbm, he⟩ := List.mem_map.1 hc1
      exact hnew m b hbm (by rw [he, hc2])
    · rw [Function.update_noteq hm]; exact h.nodup m
  · intro n1 n2 hne b1 hb1 b2 hb2
    rcases (hmem n1 b1).1 hb1 with h1 | ⟨e1, rfl⟩
    · rcases (hmem n2 b2).1 hb2 with h2 | ⟨e2, rfl⟩
      · exact h.cross n1 n2 hne b1 h1 b2 h2
      · exact hnew n1 b1 h1
    · rcases (hmem n2 b2).1 hb2 with h2 | ⟨e2, rfl⟩
      · exact fun heq => hnew n2 b2 h2 heq.symm
      · exact absurd (e1.trans e2.symm) hne
  · intro c
    rw [ha]
    by_cases hcc : c = cidr
    · subst hcc
      simp only [Function.update_same, true_iff]
      exact ⟨n, blk, (hmem n blk).2 (Or.inr ⟨rfl, rfl⟩), hstr⟩
    · rw [Function.update_noteq hcc, h.alloc_iff c]
      constructor
      · rintro ⟨m, b, hbm, hs⟩
        exact ⟨m, b, (hmem m b).2 (Or.inl hbm), hs⟩
      · rintro ⟨m, b, hbm, hs⟩
        rcases (hmem m b).1 hbm with h1 | ⟨_, rfl⟩
        · exact ⟨m, b, h1, hs⟩
        · exact absurd (hs.symm.trans hstr) hcc

theorem eraseIdx_split {α : Type} (l : List α) (i : Nat) (x : α) (h : l.get? i = some x) :
    ∃ l1 l2, l = l1 ++ x :: l2 ∧ l.eraseIdx i = l1 ++ l2 := by
  induction l generalizing i with
  | nil => simp at h
  | cons a l ih =>
    cases i with
    | zero =>
      simp at h
      subst h
      exact ⟨[], l, rfl, rfl⟩
    | succ i =>
      simp at h
      obtain ⟨l1, l2, h1, h2⟩ := ih i (by simpa using h)
      exact ⟨a :: l1, l2, by rw [h1]; rfl, by simp [List.eraseIdx, h2]⟩

/-- Removing a block from the list of a node, and its CIDR string from the allocated
set, keeps the invariant. -/
theorem Inv_erase {bs : Nat} {v v' : PoolView} (h : v.Inv bs) (n : String) (i : Nat)
    (x : IPBlock) (hx : (v.blocks n).get? i = some x) (cidr : CIDRString)
    (hstr : x.CIDR.String = cidr)
    (hb : v'.blocks = Function.update v.blocks n ((v.blocks n).eraseIdx i))
    (ha : v'.alloc = Function.update v.alloc cidr false) : v'.Inv bs := by
  obtain ⟨l1, l2, hl, he⟩ := eraseIdx_split _ i x hx
  have hxmem : x ∈ v.blocks n := by rw [hl]; simp
  have hnd := h.nodup n
  rw [hl, List.map_append, List.map_cons] at hnd
  have hnd' : ((l1 ++ l2).map (fun b => b.CIDR)).Nodup := by
    rw [List.map_append]
    exact (List.nodup_cons.1 (List.nodup_middle.1 hnd)).2
  have hxnot : x.CIDR ∉ (l1 ++ l2).map (fun b => b.CIDR) := by
    rw [List.map_append]
    exact (List.nodup_cons.1 (List.nodup_middle.1 hnd)).1
  have hsub : ∀ b, b ∈ l1 ++ l2 → b ∈ v.blocks n := by
    intro b hbm
    rw [hl]
    rcases List.mem_append.1 hbm with h1 | h2
    · exact List.mem_append_left _ h1
    · exact List.mem_append_right _ (List.mem_cons_of_mem _ h2)
  have hmem : ∀ m b, b ∈ v'.blocks m → b ∈ v.blocks m ∧ b.CIDR ≠ x.CIDR := by
    intro m b hbm
    rw [hb] at hbm
    by_cases hm : m = n
    · subst hm
      rw [Function.update_same, he] at hbm
      exact ⟨hsub b hbm, fun heq => hxnot (by rw [← heq]; exact mem_map_CIDR hbm)⟩
    · rw [Function.update_noteq hm] at hbm
      exact ⟨hbm, h.cross m n hm b hbm x hxmem⟩
  refine ⟨?_, ?_, ?_, ?_⟩
  · intro m b hbm; exact h.wf m b (hmem m b hbm).1
  · intro m
    rw [hb]
    by_cases hm : m = n
    · subst hm; rw [Function.update_same, he]; exact hnd'
    · rw [Function.update_noteq hm]; exact h.nodup m
  · intro n1 n2 hne b1 hb1 b2 hb2
    exact h.cross n1 n2 hne b1 (hmem n1 b1 hb1).1 b2 (hmem n2 b2 hb2).1
  · intro c
    rw [ha]
    by_cases hcc : c = cidr
    · subst hcc
      simp only [Function.update_same, Bool.false_eq_true, false_iff]
      rintro ⟨m, b, hbm, hs⟩
      obtain ⟨h1, h2⟩ := hmem m b hbm
      exact h2 (String_inj (h.wf m b h1).1.bits (h.wf n x hxmem).1.bits (hs.trans hstr.symm))
    · rw [Function.update_noteq hcc, h.alloc_iff c]
      constructor
      · rintro ⟨m, b, hbm, hs⟩
        refine ⟨m, b, ?_, hs⟩
        rw [hb]
        by_cases hm : m = n
        · subst hm
          rw [Function.update_same, he]
          rw [hl] at hbm
          rcases List.mem_append.1 hbm with h1 | h2
          · exact List.mem_append_left _ h1
          · rcases List.mem_cons.1 h2 with rfl | h3
            · exact absurd (hs.symm.trans hstr) hcc
            · exact List.mem_append_right _ h3
        · rw [Function.update_noteq hm]; exact hbm
      · rintro ⟨m, b, hbm, hs⟩
        exact ⟨m, b, (hmem m b hbm).1, hs⟩

/-- A well-formed block with `Used = 0` holds no address. -/
theorem Contains_of_unused {b : IPBlock} (hb : b.WF) (hu : b.Used ≤ 0) (ip : IP) :
    b.Contains ip = false := by
  by_contra hcon
  rw [Bool.not_eq_false] at hcon
  obtain ⟨p, _, hp, hbit⟩ := (Contains_iff hb ip).1 hcon
  have hcount := hb.bm.count
  rw [← hb.used] at hcount
  have hpS : (p : Int) < b.bitmap.size := by rw [hb.size]; exact hp
  have hpos : 0 < popcount b.bitmap := by
    unfold popcount
    apply List.length_pos_of_mem (a := p)
    rw [List.mem_filter]
    refine ⟨List.mem_range.2 (by omega), ?_⟩
    rw [IsSet_natCast, hbit]
    simp [hpS]
  omega

theorem findBlockIdx_spec (c : CIDRString) (l : List IPBlock) (i : Nat)
    (h : Pool.findBlockIdx c l = some i) : ∃ x, l.get? i = some x ∧ x.CIDR.String = c := by
  induction l generalizing i with
  | nil => simp [Pool.findBlockIdx] at h
  | cons b rest ih =>
    unfold Pool.findBlockIdx at h
    by_cases hb : b.CIDR.String = c
    · simp only [hb, if_true] at h
      have := Option.some.inj h
      subst this
      exact ⟨b, rfl, hb⟩
    · simp only [hb, if_false] at h
      cases hr : Pool.findBlockIdx c rest with
      | none => rw [hr] at h; simp at h
      | some j =>
        rw [hr] at h
        simp only [Option.map_some'] at h
        have := Option.some.inj h
        subst this
        obtain ⟨x, hx, hs⟩ := ih j hr
        exact ⟨x, by simpa using hx, hs⟩

theorem blocks_put (nb : List (String × List IPBlock)) (n : String) (l : List IPBlock) :
    (fun m => (mapGet (mapPut nb n l) m).getD []) =
      Function.update (fun m => (mapGet nb m).getD []) n l := by
  funext m
  rw [mapGet_mapPut]
  by_cases hm : m = n
  · subst hm; simp
  · simp [hm, Function.update_noteq hm]

theorem alloc_put (ab : List (CIDRString × Bool)) (c : CIDRString) :
    (fun c' => (mapGet (mapPut ab c true) c').getD false) =
      Function.update (fun c' => (mapGet ab c').getD false) c true := by
  funext c'
  rw [mapGet_mapPut]
  by_cases hc : c' = c
  · subst hc; simp
  · simp [hc, Function.update_noteq hc]

theorem alloc_del (ab : List (CIDRString × Bool)) (c : CIDRString) :
    (fun c' => (mapGet (mapDel ab c) c').getD false) =
      Function.update (fun c' => (mapGet ab c').getD false) c false := by
  funext c'
  rw [mapGet_mapDel]
  by_cases hc : c' = c
  · subst hc; simp
  · simp [hc, Function.update_noteq hc]

theorem findLoop_spec (p : Pool) (base B : Nat) :
    ∀ (fuel i : Nat) (c : CIDRString), Pool.findLoop p base B fuel i = Except.ok c →
      ∃ j, i ≤ j ∧ j < i + fuel ∧
        c = p.blockCIDRString ((base + (j % 2 ^ 32) * B) % 2 ^ 32) ∧
        p.view.alloc c = false := by
  intro fuel
  induction fuel with
  | zero => intro i c h; simp [Pool.findLoop] at h
  | succ fuel ih =>
    intro i c h
    unfold Pool.findLoop at h
    simp only [] at h
    by_cases hfree : (mapGet p.allocatedBlocks
        (p.blockCIDRString ((base + (i % 2 ^ 32) * B) % 2 ^ 32))).getD false = true
    · simp only [hfree, Bool.not_true, Bool.false_eq_true, if_false] at h
      obtain ⟨j, h1, h2, h3⟩ := ih (i + 1) c h
      exact ⟨j, by omega, by omega, h3⟩
    · rw [Bool.not_eq_true] at hfree
      simp only [hfree, Bool.not_false, if_true] at h
      have hc := (Except.ok.inj h).symm
      exact ⟨i, Nat.le_refl _, by omega, hc, by rw [hc]; exact hfree⟩

/-- The CIDR string `findAvailableBlock` returns on an IPv4 pool: an aligned network of
the block prefix length that is not marked allocated. -/
theorem findAvailableBlock_spec {p : Pool} (hcfg : p.Cfg) {c : CIDRString}
    (h : p.findAvailableBlock = Except.ok c) :
    ∃ addr, c = CIDRString.v4 addr p.blockSize.toNat ∧ addr < 2 ^ 32 ∧
      maskAddr addr p.blockSize.toNat 32 = addr ∧ p.view.alloc c = false := by
  obtain ⟨hbits, hones, hlt, hal, hgt, hle⟩ := hcfg
  obtain ⟨bs, hbs⟩ := Int.eq_ofNat_of_zero_le (by omega : 0 ≤ p.blockSize)
  have hbs1 : p.clusterCIDR.ones < bs := by omega
  have hbs2 : bs ≤ 32 := by omega
  unfold Pool.findAvailableBlock at h
  simp only [IPNet.To4, hbits, if_true] at h
  have hk : (p.blockSize - (p.clusterCIDR.ones : Int)).toNat = bs - p.clusterCIDR.ones := by
    omega
  have hB : ((32 : Nat) - p.blockSize).toNat = 32 - bs := by omega
  rw [hk] at h
  have hB' : (((32 : Nat) : Int) - p.blockSize).toNat = 32 - bs := by omega
  rw [hB'] at h
  have hcount : toInt64 (2 ^ (bs - p.clusterCIDR.ones)) = ((2 ^ (bs - p.clusterCIDR.ones) : Nat) : Int) := by
    have h1 := two_pow_le_of_le_32 (bs - p.clusterCIDR.ones) (by omega)
    have h2 := two_pow_pos_int (bs - p.clusterCIDR.ones)
    rw [toInt64_of_range (by omega) (by omega)]
    push_cast; rfl
  rw [hcount, Int.toNat_ofNat] at h
  have hH : 2 ^ (32 - bs) % 2 ^ 32 = 2 ^ (32 - bs) :=
    Nat.mod_eq_of_lt (Nat.pow_lt_pow_right (by decide) (by omega))
  rw [hH, Nat.mod_eq_of_lt hlt] at h
  obtain ⟨j, _, hj, hc, hfree⟩ := findLoop_spec p _ _ _ 0 c h
  have hsplit : 2 ^ (32 - p.clusterCIDR.ones) = 2 ^ (bs - p.clusterCIDR.ones) * 2 ^ (32 - bs) := by
    rw [← Nat.pow_add]; congr 1; omega
  have hrange := block_range _ _ hones hlt hal
  have hj32 : j < 2 ^ 32 :=
    Nat.lt_of_lt_of_le (by omega : j < 2 ^ (bs - p.clusterCIDR.ones))
      (Nat.pow_le_pow_right (by decide) (by omega))
  rw [Nat.mod_eq_of_lt hj32] at hc
  have hjH : j * 2 ^ (32 - bs) < 2 ^ (32 - p.clusterCIDR.ones) := by
    rw [hsplit]
    exact Nat.mul_lt_mul_of_pos_right (by omega) (Nat.two_pow_pos _)
  have haddr : p.clusterCIDR.addr + j * 2 ^ (32 - bs) < 2 ^ 32 := by omega
  rw [Nat.mod_eq_of_lt haddr] at hc
  have htoNat : p.blockSize.toNat = bs := by omega
  refine ⟨p.clusterCIDR.addr + j * 2 ^ (32 - bs), hc, haddr, ?_, hfree⟩
  rw [htoNat]
  unfold maskAddr at hal ⊢
  rw [hsplit] at hal
  have hdvd : 2 ^ (32 - bs) ∣ p.clusterCIDR.addr + j * 2 ^ (32 - bs) := by
    apply Dvd.dvd.add
    · rw [← hal, ← Nat.mul_assoc]
      exact Dvd.intro_left _ rfl
    · exact Dvd.intro_left _ rfl
  exact Nat.div_mul_cancel hdvd

/-- The block made for the CIDR string `findAvailableBlock` returned. -/
theorem fresh_block {p : Pool} (hcfg : p.Cfg) {c : CIDRString} {n : String} {blk : IPBlock}
    (h : p.findAvailableBlock = Except.ok c) (hnew : NewIPBlock c n = Except.ok blk) :
    p.view.alloc c = false ∧ blk.WF ∧ blk.CIDR.ones = p.blockSize.toNat ∧
      blk.CIDR.String = c ∧ blk.Used = 0 := by
  obtain ⟨addr, rfl, hlt, hal, hfree⟩ := findAvailableBlock_spec hcfg h
  obtain ⟨hwf, _, hval⟩ := WF_NewIPBlock hlt hnew
  refine ⟨hfree, hwf, by rw [hval], ?_, by rw [hval]⟩
  rw [hval]
  simp [IPNet.String, hal]

theorem Cfg_congr {p p' : Pool} (hc : p'.clusterCIDR = p.clusterCIDR)
    (hs : p'.blockSize = p.blockSize) (h : p.Cfg) : p'.Cfg := by
  obtain ⟨h1, h2, h3, h4, h5, h6⟩ := h
  exact ⟨by rw [hc]; exact h1, by rw [hc]; exact h2, by rw [hc]; exact h3,
    by rw [hc]; exact h4, by rw [hc, hs]; exact h5, by rw [hs]; exact h6⟩

theorem HeldInv_cons {v : PoolView} {held : List IP} {ip : IP} (h : v.HeldInv held)
    (hip : ∃ n, ∃ b ∈ v.blocks n, b.Contains ip = true) : v.HeldInv (ip :: held) := by
  intro x hx
  rcases List.mem_cons.1 hx with rfl | hx
  · exact hip
  · exact h x hx

/-- Replacing the list of one node by one with the same CIDRs, whose blocks keep the held
addresses, keeps the invariant. -/
theorem PInv_inplace {p p' : Pool} {held held' : List IP} {n : String} {l' : List IPBlock}
    (h : p.PInv held) (hcc : p'.clusterCIDR = p.clusterCIDR) (hbs : p'.blockSize = p.blockSize)
    (hb : p'.view.blocks = Function.update p.view.blocks n l')
    (ha : p'.view.alloc = p.view.alloc)
    (hc : l'.map (fun b => b.CIDR) = (p.view.blocks n).map (fun b => b.CIDR))
    (hwf : ∀ b ∈ l', b.WF) (hsub : ∀ ip ∈ held', ip ∈ held)
    (hgrow : ∀ b ∈ p.view.blocks n, ∃ b' ∈ l',
      ∀ ip' ∈ held', b.Contains ip' = true → b'.Contains ip' = true) : p'.PInv held' := by
  obtain ⟨hcfg, hinv, hheld⟩ := h
  refine ⟨Cfg_congr hcc hbs hcfg, ?_, ?_⟩
  · rw [hbs]
    apply Inv_same_cidrs hinv _ _ ha
    · intro m
      rw [hb]
      by_cases hm : m = n
      · subst hm; rw [Function.update_same]; exact hc
      · rw [Function.update_noteq hm]
    · intro m b hbm
      rw [hb] at hbm
      by_cases hm : m = n
      · subst hm; rw [Function.update_same] at hbm; exact hwf b hbm
      · rw [Function.update_noteq hm] at hbm; exact (hinv.wf m b hbm).1
  · intro ip hip
    obtain ⟨m, b, hbm, hcon⟩ := hheld ip (hsub ip hip)
    by_cases hm : m = n
    · subst hm
      obtain ⟨b', hb', hg⟩ := hgrow b hbm
      exact ⟨m, b', by rw [hb, Function.update_same]; exact hb', hg ip hip hcon⟩
    · exact ⟨m, b, by rw [hb, Function.update_noteq hm]; exact hbm, hcon⟩

/-- Appending a fresh block (possibly after its first allocation) to the list of a node
keeps the invariant. -/
theorem PInv_append {p p' : Pool} {held : List IP} {n : String} {blk : IPBlock}
    {c : CIDRString} (h : p.PInv held) (hcc : p'.clusterCIDR = p.clusterCIDR)
    (hbs : p'.blockSize = p.blockSize)
    (hb : p'.view.blocks = Function.update p.view.blocks n (p.view.blocks n ++ [blk]))
    (ha : p'.view.alloc = Function.update p.view.alloc c true)
    (hfree : p.view.alloc c = false) (hwf : blk.WF) (hones : blk.CIDR.ones = p.blockSize.toNat)
    (hstr : blk.CIDR.String = c) : p'.PInv held := by
  obtain ⟨hcfg, hinv, hheld⟩ := h
  refine ⟨Cfg_congr hcc hbs hcfg, ?_, ?_⟩
  · rw [hbs]
    exact Inv_append hinv n blk c hfree hwf hones hstr hb ha
  · intro ip hip
    obtain ⟨m, b, hbm, hcon⟩ := hheld ip hip
    refine ⟨m, b, ?_, hcon⟩
    rw [hb]
    by_cases hm : m = n
    · subst hm; rw [Function.update_same]; exact List.mem_append_left _ hbm
    · rw [Function.update_noteq hm]; exact hbm

theorem PInv_AllocateBlockForNode {p : Pool} {held : List IP} (h : p.PInv held) (n : String) :
    (p.AllocateBlockForNode n).1.PInv held := by
  cases hf : p.findAvailableBlock with
  | error e =>
    have hres : p.AllocateBlockForNode n = (p, Except.error e) := by
      simp only [Pool.AllocateBlockForNode, hf]
    rw [hres]; exact h
  | ok c =>
    cases hn : NewIPBlock c n with
    | error e =>
      have hres : p.AllocateBlockForNode n = (p, Except.error e) := by
        simp only [Pool.AllocateBlockForNode, hf, hn]
      rw [hres]; exact h
    | ok blk =>
      have hres : p.AllocateBlockForNode n =
          (Pool.mk p.clusterCIDR p.blockSize
            (mapPut p.nodeBlocks n ((mapGet p.nodeBlocks n).getD [] ++ [blk]))
            (mapPut p.allocatedBlocks c true), Except.ok blk) := by
        simp only [Pool.AllocateBlockForNode, hf, hn]
      rw [hres]
      dsimp only
      obtain ⟨hfree, hwf, hones, hstr, _⟩ := fresh_block h.1 hf hn
      exact PInv_append (p := p) h rfl rfl (blocks_put _ _ _) (alloc_put _ _) hfree hwf hones hstr

theorem blocks_of_get {p : Pool} {n : String} {l : List IPBlock}
    (h : mapGet p.nodeBlocks n = some l) : p.view.blocks n = l := by
  show (mapGet p.nodeBlocks n).getD [] = l
  rw [h]; rfl

theorem PInv_ReleaseBlockForNode {p : Pool} {held : List IP} (h : p.PInv held) (n : String)
    (c : CIDRString) : (p.ReleaseBlockForNode n c).1.PInv held := by
  cases hg : mapGet p.nodeBlocks n with
  | none =>
    have hres : p.ReleaseBlockForNode n c = (p, some Err.ErrNodeNotFound) := by
      simp only [Pool.ReleaseBlockForNode, hg]
    rw [hres]; exact h
  | some blocks =>
    have hbl := blocks_of_get hg
    cases hi : Pool.findBlockIdx c blocks with
    | none =>
      have hres : p.ReleaseBlockForNode n c = (p, some Err.ErrBlockNotFound) := by
        simp only [Pool.ReleaseBlockForNode, hg, hi]
      rw [hres]; exact h
    | some i =>
      obtain ⟨x, hx, hstr⟩ := findBlockIdx_spec c blocks i hi
      by_cases hu : x.Used > 0
      · have hres : p.ReleaseBlockForNode n c = (p, some Err.ErrBlockInUse) := by
          simp only [Pool.ReleaseBlockForNode, hg, hi, hx, hu, if_true]
        rw [hres]; exact h
      · have hres : p.ReleaseBlockForNode n c =
            (Pool.mk p.clusterCIDR p.blockSize (mapPut p.nodeBlocks n (blocks.eraseIdx i))
              (mapDel p.allocatedBlocks c), none) := by
          simp only [Pool.ReleaseBlockForNode, hg, hi, hx, hu, if_false]
        rw [hres]
        dsimp only
        obtain ⟨hcfg, hinv, hheld⟩ := h
        have hxb : (p.view.blocks n).get? i = some x := by rw [hbl]; exact hx
        refine ⟨Cfg_congr (p := p) rfl rfl hcfg, ?_, ?_⟩
        · apply Inv_erase hinv n i x hxb c hstr
          · have hbeq : Function.update p.view.blocks n ((p.view.blocks n).eraseIdx i) =
                Function.update p.view.blocks n (blocks.eraseIdx i) := by rw [hbl]
            exact (blocks_put p.nodeBlocks n (blocks.eraseIdx i)).trans hbeq.symm
          · exact alloc_del _ _
        · intro ip hip
          obtain ⟨m, b, hbm, hcon⟩ := hheld ip hip
          refine ⟨m, b, ?_, hcon⟩
          show b ∈ (fun m => (mapGet (mapPut p.nodeBlocks n (blocks.eraseIdx i)) m).getD []) m
          rw [blocks_put]
          by_cases hm : m = n
          · subst hm
            rw [Function.update_same]
            obtain ⟨l1, l2, hl, he⟩ := eraseIdx_split _ i x hx
            rw [he]
            rw [hbl, hl] at hbm
            rcases List.mem_append.1 hbm with h1 | h2
            · exact List.mem_append_left _ h1
            · rcases List.mem_cons.1 h2 with rfl | h3
              · have hxm : b ∈ p.view.blocks m := by rw [hbl, hl]; simp
                have := Contains_of_unused (hinv.wf m b hxm).1 (by omega) ip
                rw [this] at hcon
                exact Bool.noConfusion hcon
              · exact List.mem_append_right _ h3
          · rw [Function.update_noteq hm]; exact hbm

theorem PInv_ReleaseIP {p : Pool} {held : List IP} (h : p.PInv held) (ip : IP) (n : String) :
    ((p.ReleaseIP ip n).2 = none →
      (p.ReleaseIP ip n).1.PInv (held.filter (fun x => decide (x ≠ ip)))) ∧
    ((p.ReleaseIP ip n).2 ≠ none → (p.ReleaseIP ip n).1.PInv held) := by
  cases hg : mapGet p.nodeBlocks n with
  | none =>
    have hres : p.ReleaseIP ip n = (p, some Err.ErrNodeNotFound) := by
      simp only [Pool.ReleaseIP, hg]
    rw [hres]; exact ⟨fun hc => by simp at hc, fun _ => h⟩
  | some blocks =>
    have hbl := blocks_of_get hg
    cases hr : Pool.releaseFromBlocks ip blocks with
    | none =>
      have hres : p.ReleaseIP ip n = (p, some Err.ErrBlockNotFound) := by
        simp only [Pool.ReleaseIP, hg, hr]
      rw [hres]; exact ⟨fun hc => by simp at hc, fun _ => h⟩
    | some r =>
      obtain ⟨l', err⟩ := r
      have hres : p.ReleaseIP ip n =
          (Pool.mk p.clusterCIDR p.blockSize (mapPut p.nodeBlocks n l') p.allocatedBlocks,
            err) := by
        simp only [Pool.ReleaseIP, hg, hr]
      rw [hres]
      dsimp only
      have hwf : ∀ b ∈ blocks, b.WF := fun b hb => (h.2.1.wf n b (by rw [hbl]; exact hb)).1
      obtain ⟨s1, s2, s3, s4⟩ := releaseFromBlocks_spec ip blocks hwf l' err hr
      constructor
      · intro hnone
        refine PInv_inplace (p := p) h rfl rfl (blocks_put _ _ _) rfl (by rw [hbl]; exact s1) s2
          ?_ ?_
        · intro x hx; exact (List.mem_filter.1 hx).1
        · intro b hb
          rw [hbl] at hb
          obtain ⟨b', hb', hg'⟩ := s4 hnone b hb
          refine ⟨b', hb', fun ip' hip' hcon => hg' ip' ?_ hcon⟩
          have := (List.mem_filter.1 hip').2
          simpa using this
      · intro hne
        have hl : l' = blocks := s3 hne
        subst hl
        refine PInv_inplace (p := p) h rfl rfl (blocks_put _ _ _) rfl (by rw [hbl]) s2
          (fun _ hx => hx) ?_
        intro b hb
        rw [hbl] at hb
        exact ⟨b, hb, fun _ _ hcon => hcon⟩

theorem not_held_of_block {p : Pool} {held : List IP} (h : p.PInv held) {n : String}
    {b : IPBlock} {ip : IP} (hb : b ∈ p.view.blocks n) (hnot : b.Contains ip = false)
    (hin : b.CIDR.Contains ip = true) : ip ∉ held := by
  intro hmem
  obtain ⟨_, hinv, hheld⟩ := h
  obtain ⟨m, b0, hb0, hcon⟩ := hheld ip hmem
  have hsame : b0.CIDR = b.CIDR :=
    same_CIDR_of_Contains (hinv.wf m b0 hb0).1 (hinv.wf n b hb).1.bits
      (by rw [(hinv.wf m b0 hb0).2, (hinv.wf n b hb).2]) (Contains_CIDR hcon) hin
  by_cases hm : m = n
  · subst hm
    have : b0 = b := List.inj_on_of_nodup_map (hinv.nodup m) hb0 hb hsame
    rw [this, hnot] at hcon
    exact Bool.noConfusion hcon
  · exact hinv.cross m n hm b0 hb0 b hb hsame

theorem not_held_of_fresh {p : Pool} {held : List IP} (h : p.PInv held) {c : CIDRString}
    {blk : IPBlock} {ip : IP} (hfree : p.view.alloc c = false)
    (hbits : blk.CIDR.bits = 32) (hones : blk.CIDR.ones = p.blockSize.toNat)
    (hstr : blk.CIDR.String = c) (hin : blk.CIDR.Contains ip = true) : ip ∉ held := by
  intro hmem
  obtain ⟨_, hinv, hheld⟩ := h
  obtain ⟨m, b0, hb0, hcon⟩ := hheld ip hmem
  have hsame : b0.CIDR = blk.CIDR :=
    same_CIDR_of_Contains (hinv.wf m b0 hb0).1 hbits
      (by rw [(hinv.wf m b0 hb0).2, hones]) (Contains_CIDR hcon) hin
  have : p.view.alloc c = true := (hinv.alloc_iff c).2 ⟨m, b0, hb0, by rw [hsame]; exact hstr⟩
  rw [hfree] at this
  exact Bool.noConfusion this

theorem PInv_cons {p : Pool} {held : List IP} {ip : IP} (h : p.PInv held)
    (hip : ∃ n, ∃ b ∈ p.view.blocks n, b.Contains ip = true) : p.PInv (ip :: held) :=
  ⟨h.1, h.2.1, HeldInv_cons h.2.2 hip⟩

theorem blocks_put_self (nb : List (String × List IPBlock)) (n : String) (l : List IPBlock) :
    (mapGet (mapPut nb n l) n).getD [] = l := by
  rw [mapGet_mapPut_self]; rfl

/-- The tail of `AllocateIPForNode`: a returned address was not held, and the invariant
is kept with it added to the held addresses. -/
theorem PInv_allocateIPFrom {p : Pool} {held : List IP} (h : p.PInv held) (n : String)
    (blocks : List IPBlock) (hbl : p.view.blocks n = blocks) :
    (∀ ip blk, (p.allocateIPFrom n blocks).2 = Except.ok (ip, blk) →
      ip ∉ held ∧ (p.allocateIPFrom n blocks).1.PInv (ip :: held)) ∧
    (∀ e, (p.allocateIPFrom n blocks).2 = Except.error e →
      (p.allocateIPFrom n blocks).1.PInv held) := by
  have hwf : ∀ b ∈ blocks, b.WF := fun b hb => (h.2.1.wf n b (by rw [hbl]; exact hb)).1
  obtain ⟨s1, s2, s3, s4, s5⟩ := allocFromBlocks_spec blocks hwf
  cases hal : Pool.allocFromBlocks blocks with
  | mk blocks' r =>
    rw [hal] at s1 s2 s3 s4 s5
    dsimp only at s1 s2 s3 s4 s5
    have hp1 : (Pool.mk p.clusterCIDR p.blockSize (mapPut p.nodeBlocks n blocks')
        p.allocatedBlocks).PInv held := by
      refine PInv_inplace (p := p) h rfl rfl (blocks_put _ _ _) rfl (by rw [hbl]; exact s1) s2
        (fun _ hx => hx) ?_
      intro b hb
      rw [hbl] at hb
      obtain ⟨b', hb', hg⟩ := s3 b hb
      exact ⟨b', hb', fun ip' _ hcon => hg ip' hcon⟩
    cases r with
    | some r0 =>
      obtain ⟨ip0, blk0⟩ := r0
      have hres : p.allocateIPFrom n blocks =
          (Pool.mk p.clusterCIDR p.blockSize (mapPut p.nodeBlocks n blocks') p.allocatedBlocks,
            Except.ok (ip0, blk0)) := by
        simp only [Pool.allocateIPFrom, hal]
      rw [hres]
      dsimp only
      refine ⟨fun ip blk hok => ?_, fun e he => by simp at he⟩
      have hip : ip0 = ip := (Prod.mk.inj (Except.ok.inj hok)).1
      subst hip
      obtain ⟨⟨b, hb, hnot, hin⟩, b', hb', hcon'⟩ := s5 ip0 blk0 rfl
      refine ⟨not_held_of_block h (by rw [hbl]; exact hb) hnot hin, PInv_cons hp1 ⟨n, b', ?_, hcon'⟩⟩
      show b' ∈ (mapGet (mapPut p.nodeBlocks n blocks') n).getD []
      rw [blocks_put_self]; exact hb'
    | none =>
      have hbb : blocks' = blocks := s4 rfl
      subst hbb
      have hv1 : (Pool.mk p.clusterCIDR p.blockSize (mapPut p.nodeBlocks n blocks')
          p.allocatedBlocks).view.blocks n = blocks' := blocks_put_self _ _ _
      cases hf : (Pool.mk p.clusterCIDR p.blockSize (mapPut p.nodeBlocks n blocks')
          p.allocatedBlocks).findAvailableBlock with
      | error e0 =>
        have hres : p.allocateIPFrom n blocks' =
            (Pool.mk p.clusterCIDR p.blockSize (mapPut p.nodeBlocks n blocks')
              p.allocatedBlocks, Except.error e0) := by
          simp only [Pool.allocateIPFrom, hal, hf]
        rw [hres]
        exact ⟨fun ip blk hok => by simp at hok, fun _ _ => hp1⟩
      | ok c =>
        cases hn : NewIPBlock c n with
        | error e0 =>
          have hres : p.allocateIPFrom n blocks' =
              (Pool.mk p.clusterCIDR p.blockSize (mapPut p.nodeBlocks n blocks')
                p.allocatedBlocks, Except.error e0) := by
            simp only [Pool.allocateIPFrom, hal, hf, hn]
          rw [hres]
          exact ⟨fun ip blk hok => by simp at hok, fun _ _ => hp1⟩
        | ok blk =>
          obtain ⟨hfree, hbwf, hones, hstr, _⟩ := fresh_block hp1.1 hf hn
          cases hba : blk.Allocate with
          | mk blk' r2 =>
            have hwf' : blk'.WF := by have := WF_Allocate hbwf; rw [hba] at this; exact this
            have hbeq : Function.update
                (Pool.mk p.clusterCIDR p.blockSize (mapPut p.nodeBlocks n blocks')
                  p.allocatedBlocks).view.blocks n
                ((Pool.mk p.clusterCIDR p.blockSize (mapPut p.nodeBlocks n blocks')
                  p.allocatedBlocks).view.blocks n ++ [blk']) =
                Function.update
                (Pool.mk p.clusterCIDR p.blockSize (mapPut p.nodeBlocks n blocks')
                  p.allocatedBlocks).view.blocks n (blocks' ++ [blk']) := by rw [hv1]
            have happ : ∀ (hc : blk'.CIDR = blk.CIDR),
                (Pool.mk p.clusterCIDR p.blockSize
                  (mapPut (mapPut p.nodeBlocks n blocks') n (blocks' ++ [blk']))
                  (mapPut p.allocatedBlocks c true)).PInv held := by
              intro hc
              exact PInv_append
                (p := Pool.mk p.clusterCIDR p.blockSize (mapPut p.nodeBlocks n blocks')
                  p.allocatedBlocks) hp1 rfl rfl
                ((blocks_put _ _ _).trans hbeq.symm) (alloc_put _ _) hfree hwf'
                (by rw [hc]; exact hones) (by rw [hc]; exact hstr)
            cases r2 with
            | error e0 =>
              have hres : p.allocateIPFrom n blocks' =
                  (Pool.mk p.clusterCIDR p.blockSize
                    (mapPut (mapPut p.nodeBlocks n blocks') n (blocks' ++ [blk']))
                    (mapPut p.allocatedBlocks c true), Except.error e0) := by
                simp only [Pool.allocateIPFrom, hal, hf, hn, hba]
              rw [hres]
              have hc : blk'.CIDR = blk.CIDR := by rw [Allocate_error hbwf hba]
              exact ⟨fun ip blk hok => by simp at hok, fun _ _ => happ hc⟩
            | ok ip0 =>
              have hres : p.allocateIPFrom n blocks' =
                  (Pool.mk p.clusterCIDR p.blockSize
                    (mapPut (mapPut p.nodeBlocks n blocks') n (blocks' ++ [blk']))
                    (mapPut p.allocatedBlocks c true), Except.ok (ip0, blk')) := by
                simp only [Pool.allocateIPFrom, hal, hf, hn, hba]
              rw [hres]
              dsimp only
              obtain ⟨hc, _, hin, hall⟩ := Allocate_ok_Contains hbwf hba
              refine ⟨fun ip blk0 hok => ?_, fun e he => by simp at he⟩
              have hip : ip0 = ip := (Prod.mk.inj (Except.ok.inj hok)).1
              subst hip
              refine ⟨not_held_of_fresh hp1 hfree hbwf.bits hones hstr hin,
                PInv_cons (happ hc) ⟨n, blk', ?_, by rw [hall]; simp⟩⟩
              show blk' ∈ (mapGet (mapPut (mapPut p.nodeBlocks n blocks') n (blocks' ++ [blk']))
                n).getD []
              rw [blocks_put_self]; simp

theorem PInv_AllocateIPForNode_empty {p : Pool} {held : List IP} (h : p.PInv held) (n : String)
    (hempty : p.view.blocks n = [])
    (e1 : ∀ e, p.findAvailableBlock = Except.error e →
      p.AllocateIPForNode n = (p, Except.error e))
    (e2 : ∀ c e, p.findAvailableBlock = Except.ok c → NewIPBlock c n = Except.error e →
      p.AllocateIPForNode n = (p, Except.error e))
    (e3 : ∀ c blk, p.findAvailableBlock = Except.ok c → NewIPBlock c n = Except.ok blk →
      p.AllocateIPForNode n = Pool.allocateIPFrom
        (Pool.mk p.clusterCIDR p.blockSize (mapPut p.nodeBlocks n [blk])
          (mapPut p.allocatedBlocks c true)) n [blk]) :
    (∀ ip blk, (p.AllocateIPForNode n).2 = Except.ok (ip, blk) →
      ip ∉ held ∧ (p.AllocateIPForNode n).1.PInv (ip :: held)) ∧
    (∀ e, (p.AllocateIPForNode n).2 = Except.error e →
      (p.AllocateIPForNode n).1.PInv held) := by
  cases hf : p.findAvailableBlock with
  | error e0 =>
    rw [e1 e0 hf]
    exact ⟨fun ip blk hok => by simp at hok, fun _ _ => h⟩
  | ok c =>
    cases hn : NewIPBlock c n with
    | error e0 =>
      rw [e2 c e0 hf hn]
      exact ⟨fun ip blk hok => by simp at hok, fun _ _ => h⟩
    | ok blk =>
      rw [e3 c blk hf hn]
      obtain ⟨hfree, hbwf, hones, hstr, _⟩ := fresh_block h.1 hf hn
      have hbeq : Function.update p.view.blocks n (p.view.blocks n ++ [blk]) =
          Function.update p.view.blocks n [blk] := by rw [hempty]; rfl
      have hp2 : (Pool.mk p.clusterCIDR p.blockSize (mapPut p.nodeBlocks n [blk])
          (mapPut p.allocatedBlocks c true)).PInv held :=
        PInv_append (p := p) h rfl rfl ((blocks_put _ _ _).trans hbeq.symm) (alloc_put _ _)
          hfree hbwf hones hstr
      exact PInv_allocateIPFrom hp2 n [blk] (blocks_put_self _ _ _)

theorem PInv_AllocateIPForNode {p : Pool} {held : List IP} (h : p.PInv held) (n : String) :
    (∀ ip blk, (p.AllocateIPForNode n).2 = Except.ok (ip, blk) →
      ip ∉ held ∧ (p.AllocateIPForNode n).1.PInv (ip :: held)) ∧
    (∀ e, (p.AllocateIPForNode n).2 = Except.error e →
      (p.AllocateIPForNode n).1.PInv held) := by
  cases hg : mapGet p.nodeBlocks n with
  | none =>
    apply PInv_AllocateIPForNode_empty h n
    · show (mapGet p.nodeBlocks n).getD [] = []
      rw [hg]; rfl
    · intro e hf; simp only [Pool.AllocateIPForNode, hg, hf]
    · intro c e hf hn; simp only [Pool.AllocateIPForNode, hg, hf, hn]
    · intro c blk hf hn; simp only [Pool.AllocateIPForNode, hg, hf, hn]
  | some l =>
    cases l with
    | nil =>
      apply PInv_AllocateIPForNode_empty h n
      · show (mapGet p.nodeBlocks n).getD [] = []
        rw [hg]; rfl
      · intro e hf; simp only [Pool.AllocateIPForNode, hg, hf]
      · intro c e hf hn; simp only [Pool.AllocateIPForNode, hg, hf, hn]
      · intro c blk hf hn; simp only [Pool.AllocateIPForNode, hg, hf, hn]
    | cons b bs =>
      have hdef : p.AllocateIPForNode n = p.allocateIPFrom n (b :: bs) := by
        simp only [Pool.AllocateIPForNode, hg]
      rw [hdef]
      exact PInv_allocateIPFrom h n (b :: bs) (blocks_of_get hg)

/-- Over a cluster network of width 128 no block is ever made: the search fails, or it
proposes an IPv4 text with a prefix above 32, which does not parse. -/
theorem findAvailableBlock_v6 {p : Pool} (hbits : p.clusterCIDR.bits ≠ 32)
    (hm : isV4Mapped p.clusterCIDR.addr = true → 32 < p.blockSize) (c : CIDRString)
    (h : p.findAvailableBlock = Except.ok c) (n : String) :
    NewIPBlock c n = Except.error Err.invalidCIDR := by
  unfold Pool.findAvailableBlock IPNet.To4 at h
  rw [if_neg hbits] at h
  by_cases hmap : isV4Mapped p.clusterCIDR.addr = true
  · rw [if_pos hmap] at h
    obtain ⟨j, _, _, hc, _⟩ := findLoop_spec p _ _ _ _ c h
    have hbs := hm hmap
    have hparse : ∀ addr, ParseCIDR (CIDRString.v4 addr p.blockSize.toNat) = none := by
      intro addr
      have hnot : ¬ (addr < 2 ^ 32 ∧ p.blockSize.toNat ≤ 32) := by omega
      simp only [ParseCIDR, hnot, if_false]
    rw [hc]
    simp only [NewIPBlock, Pool.blockCIDRString, hparse]
  · rw [if_neg hmap] at h
    exact Except.noConfusion h

theorem AllocateBlockForNode_v6 {p : Pool}
    (hno : ∀ c, p.findAvailableBlock = Except.ok c → ∀ n, NewIPBlock c n =
      Except.error Err.invalidCIDR) (n : String) : (p.AllocateBlockForNode n).1 = p := by
  unfold Pool.AllocateBlockForNode
  cases hf : p.findAvailableBlock with
  | error e => rfl
  | ok c => simp only [hno c hf n]

theorem AllocateIPForNode_v6 {p : Pool}
    (hno : ∀ c, p.findAvailableBlock = Except.ok c → ∀ n, NewIPBlock c n =
      Except.error Err.invalidCIDR) (hnb : p.nodeBlocks = []) (n : String) :
    ∃ e, p.AllocateIPForNode n = (p, Except.error e) := by
  have hget : mapGet p.nodeBlocks n = none := by rw [hnb]; rfl
  unfold Pool.AllocateIPForNode
  cases hf : p.findAvailableBlock with
  | error e => exact ⟨e, by simp only [hget]⟩
  | ok c => exact ⟨Err.invalidCIDR, by simp only [hget, hno c hf n]⟩

theorem step_allocateIP_ok {t : TrackedPool} {n : String} {p' : Pool} {ip : IP} {blk : IPBlock}
    (h : t.pool.AllocateIPForNode n = (p', Except.ok (ip, blk))) :
    t.step (PoolOp.allocateIP n) = ⟨p', ip :: t.held⟩ := by
  simp only [TrackedPool.step, h]

theorem step_allocateIP_error {t : TrackedPool} {n : String} {p' : Pool} {e : Err}
    (h : t.pool.AllocateIPForNode n = (p', Except.error e)) :
    t.step (PoolOp.allocateIP n) = ⟨p', t.held⟩ := by
  simp only [TrackedPool.step, h]

theorem step_releaseIP_ok {t : TrackedPool} {n : String} {ip : IP} {p' : Pool}
    (h : t.pool.ReleaseIP ip n = (p', none)) :
    t.step (PoolOp.releaseIP ip n) = ⟨p', t.held.filter (fun x => decide (x ≠ ip))⟩ := by
  simp only [TrackedPool.step, h]

theorem step_releaseIP_error {t : TrackedPool} {n : String} {ip : IP} {p' : Pool} {e : Err}
    (h : t.pool.ReleaseIP ip n = (p', some e)) :
    t.step (PoolOp.releaseIP ip n) = ⟨p', t.held⟩ := by
  simp only [TrackedPool.step, h]

/-- One call keeps the invariant of a tracked pool. -/
theorem OK_step {t : TrackedPool} (h : t.OK) (op : PoolOp) : (t.step op).OK := by
  rcases h with h | ⟨hbits, hm, hnb, hheld⟩
  · left
    cases op with
    | allocateBlock n => exact PInv_AllocateBlockForNode h n
    | releaseBlock n c => exact PInv_ReleaseBlockForNode h n c
    | allocateIP n =>
      have := PInv_AllocateIPForNode h n
      cases hr : t.pool.AllocateIPForNode n with
      | mk p' r =>
        rw [hr] at this
        cases r with
        | ok v =>
          obtain ⟨ip, blk⟩ := v
          rw [step_allocateIP_ok hr]
          exact (this.1 ip blk rfl).2
        | error e =>
          rw [step_allocateIP_error hr]
          exact this.2 e rfl
    | releaseIP ip n =>
      have := PInv_ReleaseIP h ip n
      cases hr : t.pool.ReleaseIP ip n with
      | mk p' r =>
        rw [hr] at this
        cases r with
        | none =>
          rw [step_releaseIP_ok hr]
          exact this.1 rfl
        | some e =>
          rw [step_releaseIP_error hr]
          exact this.2 (by simp)
  · right
    obtain ⟨hab, hheld⟩ := hheld
    have hno := findAvailableBlock_v6 hbits hm
    have hget : ∀ n, mapGet t.pool.nodeBlocks n = none := by intro n; rw [hnb]; rfl
    cases op with
    | allocateBlock n =>
      show (t.pool.AllocateBlockForNode n).1.clusterCIDR.bits ≠ 32 ∧
        (isV4Mapped (t.pool.AllocateBlockForNode n).1.clusterCIDR.addr = true →
          32 < (t.pool.AllocateBlockForNode n).1.blockSize) ∧
        (t.pool.AllocateBlockForNode n).1.nodeBlocks = [] ∧
        (t.pool.AllocateBlockForNode n).1.allocatedBlocks = [] ∧ t.held = []
      rw [AllocateBlockForNode_v6 hno n]
      exact ⟨hbits, hm, hnb, hab, hheld⟩
    | releaseBlock n c =>
      have hres : t.pool.ReleaseBlockForNode n c = (t.pool, some Err.ErrNodeNotFound) := by
        simp only [Pool.ReleaseBlockForNode, hget]
      show (t.pool.ReleaseBlockForNode n c).1.clusterCIDR.bits ≠ 32 ∧
        (isV4Mapped (t.pool.ReleaseBlockForNode n c).1.clusterCIDR.addr = true →
          32 < (t.pool.ReleaseBlockForNode n c).1.blockSize) ∧
        (t.pool.ReleaseBlockForNode n c).1.nodeBlocks = [] ∧
        (t.pool.ReleaseBlockForNode n c).1.allocatedBlocks = [] ∧ t.held = []
      rw [hres]
      exact ⟨hbits, hm, hnb, hab, hheld⟩
    | allocateIP n =>
      obtain ⟨e, hres⟩ := AllocateIPForNode_v6 hno hnb n
      rw [step_allocateIP_error hres]
      exact ⟨hbits, hm, hnb, hab, hheld⟩
    | releaseIP ip n =>
      have hres : t.pool.ReleaseIP ip n = (t.pool, some Err.ErrNodeNotFound) := by
        simp only [Pool.ReleaseIP, hget]
      rw [step_releaseIP_error hres]
      exact ⟨hbits, hm, hnb, hab, hheld⟩

theorem OK_run {t : TrackedPool} (h : t.OK) (ops : List PoolOp) : (t.run ops).OK := by
  induction ops generalizing t with
  | nil => exact h
  | cons op ops ih => exact ih (OK_step h op)

theorem OK_NewPool {config : PoolConfig} {p0 : Pool} (h : NewPool config = Except.ok p0) :
    (TrackedPool.mk p0 []).OK := by
  unfold NewPool at h
  cases hp : ParseCIDR config.ClusterCIDR with
  | none => rw [hp] at h; exact Except.noConfusion h
  | some cidr =>
    rw [hp] at h
    dsimp only at h
    by_cases hbs : config.BlockSize ≤ (cidr.ones : Int) ∨ config.BlockSize > (cidr.bits : Int)
    · rw [if_pos hbs] at h; exact Except.noConfusion h
    · rw [if_neg hbs] at h
      have hp0 := (Except.ok.inj h).symm
      subst hp0
      by_cases hbits : cidr.bits = 32
      · left
        cases hc : config.ClusterCIDR with
        | invalid s => rw [hc] at hp; simp [ParseCIDR] at hp
        | v6 a n =>
          rw [hc] at hp
          simp only [ParseCIDR] at hp
          split at hp
          · have := (Option.some.inj hp).symm
            rw [this] at hbits
            simp at hbits
          · exact Option.noConfusion hp
        | v4 a n =>
          rw [hc] at hp
          simp only [ParseCIDR] at hp
          split at hp
          · rename_i hcond
            have hcv := (Option.some.inj hp).symm
            subst hcv
            refine ⟨⟨rfl, hcond.2, Nat.lt_of_le_of_lt (maskAddr_le a n) hcond.1,
              maskAddr_idem a n, by simp only at hbs ⊢; omega, by simp only at hbs ⊢; omega⟩,
              ⟨?_, ?_, ?_, ?_⟩, ?_⟩
            · intro m b hb; simp [Pool.view, mapGet] at hb
            · intro m; simp [Pool.view, mapGet]
            · intro n1 n2 _ b1 hb1; simp [Pool.view, mapGet] at hb1
            · intro c; simp [Pool.view, mapGet]
            · intro ip hip; simp at hip
          · exact Option.noConfusion hp
      · right
        refine ⟨hbits, ?_, rfl, rfl, rfl⟩
        intro hmap
        cases hc : config.ClusterCIDR with
        | invalid s => rw [hc] at hp; simp [ParseCIDR] at hp
        | v4 a n =>
          rw [hc] at hp
          simp only [ParseCIDR] at hp
          split at hp
          · have := (Option.some.inj hp).symm
            rw [this] at hbits
            simp at hbits
          · exact Option.noConfusion hp
        | v6 a n =>
          rw [hc] at hp
          simp only [ParseCIDR] at hp
          split at hp
          · have hcv := (Option.some.inj hp).symm
            subst hcv
            have := mapped_ones hmap
            simp only at hbs ⊢
            omega
          · exact Option.noConfusion hp

theorem OK_Reachable {config : PoolConfig} {t : TrackedPool}
    (h : Pool.ReachableFrom config t) : t.OK := by
  obtain ⟨p0, ops, hnew, rfl⟩ := h
  exact OK_run (OK_NewPool hnew) ops

/-- C1: in every pool reachable from `NewPool` by `AllocateBlockForNode`,
`ReleaseBlockForNode`, `AllocateIPForNode` and `ReleaseIP` calls, a successful
`AllocateIPForNode`, for any node, returns an address that is not currently held, that is,
not returned by an earlier `AllocateIPForNode` without a successful `ReleaseIP` since. -/
theorem C1_flat_pool_no_double_allocation (config : PoolConfig) (t : TrackedPool)
    (hr : Pool.ReachableFrom config t) (nodeID : String) (ip : IP) (blk : IPBlock)
    (h : (t.pool.AllocateIPForNode nodeID).2 = Except.ok (ip, blk)) : ip ∉ t.held := by
  rcases OK_Reachable hr with hok | ⟨_, _, _, _, hheld⟩
  · exact ((PInv_AllocateIPForNode hok nodeID).1 ip blk h).1
  · rw [hheld]; exact List.not_mem_nil _

/-- C1, instance: the pool `10.244.0.0/28` with `/30` blocks after three allocations for
`n1` and the release of `10.244.0.1`; the next allocation returns `10.244.0.1`, which is
not held. -/
theorem C1_flat_pool_no_double_allocation_witness :
    Pool.ReachableFrom ⟨CIDRString.v4 183762944 28, 30⟩
      (TrackedPool.run ⟨⟨⟨183762944, 28, 32⟩, 30, [], []⟩, []⟩
        [PoolOp.allocateIP "n1", PoolOp.allocateIP "n1", PoolOp.allocateIP "n1",
          PoolOp.releaseIP (IP.v4 183762945) "n1"]) ∧
    IP.v4 183762945 ∉
      (TrackedPool.run ⟨⟨⟨183762944, 28, 32⟩, 30, [], []⟩, []⟩
        [PoolOp.allocateIP "n1", PoolOp.allocateIP "n1", PoolOp.allocateIP "n1",
          PoolOp.releaseIP (IP.v4 183762945) "n1"]).held :=
  ⟨⟨_, _, by decide, rfl⟩,
    C1_flat_pool_no_double_allocation ⟨CIDRString.v4 183762944 28, 30⟩ _
      ⟨_, _, by decide, rfl⟩ "n1" (IP.v4 183762945)
      (IPBlock.mk ⟨183762944, 30, 32⟩ "n1" 2 2 ⟨[3], 2, 2⟩) (by decide)⟩

theorem get?_map_nodup_inj {l : List IPBlock} (h : (l.map (fun b => b.CIDR)).Nodup)
    {i j : Nat} {b1 b2 : IPBlock} (h1 : l.get? i = some b1) (h2 : l.get? j = some b2)
    (he : b1.CIDR = b2.CIDR) : i = j := by
  have hi : i < (l.map (fun b => b.CIDR)).length := by
    rw [List.length_map]; exact (List.get?_eq_some.1 h1).1
  have hj : j < (l.map (fun b => b.CIDR)).length := by
    rw [List.length_map]; exact (List.get?_eq_some.1 h2).1
  have e1 : (l.map (fun b => b.CIDR))[i]? = some b1.CIDR := by
    rw [List.getElem?_map]; rw [List.get?_eq_getElem?] at h1; rw [h1]; rfl
  have e2 : (l.map (fun b => b.CIDR))[j]? = some b2.CIDR := by
    rw [List.getElem?_map]; rw [List.get?_eq_getElem?] at h2; rw [h2]; rfl
  rcases Nat.lt_trichotomy i j with hlt | heq | hgt
  · exact absurd (by rw [e1, e2, he]) (List.nodup_iff_getElem?_ne_getElem?.1 h i j hlt hj)
  · exact heq
  · exact absurd (by rw [e1, e2, he]) (List.nodup_iff_getElem?_ne_getElem?.1 h j i hgt hi)

/-- C3: in every pool reachable from `NewPool` by the four operations, two blocks at
different places (different nodes, or different positions in the list of one node) never
have the same CIDR, and the CIDR strings marked in `allocatedBlocks` are exactly the CIDRs
of the blocks present in the lists of the nodes. -/
theorem C3_flat_pool_blocks_unique (config : PoolConfig) (t : TrackedPool)
    (hr : Pool.ReachableFrom config t) :
    (∀ n1 n2 l1 l2 i1 i2 b1 b2, mapGet t.pool.nodeBlocks n1 = some l1 →
      mapGet t.pool.nodeBlocks n2 = some l2 → l1.get? i1 = some b1 → l2.get? i2 = some b2 →
      b1.CIDR = b2.CIDR → n1 = n2 ∧ i1 = i2) ∧
    (∀ c, (mapGet t.pool.allocatedBlocks c).getD false = true ↔
      ∃ n l b, mapGet t.pool.nodeBlocks n = some l ∧ b ∈ l ∧ b.CIDR.String = c) := by
  rcases OK_Reachable hr with ⟨_, hinv, _⟩ | ⟨_, _, hnb, hab, _⟩
  · constructor
    · intro n1 n2 l1 l2 i1 i2 b1 b2 g1 g2 e1 e2 he
      have hb1 : b1 ∈ t.pool.view.blocks n1 := by
        rw [blocks_of_get g1]; exact List.get?_mem e1
      have hb2 : b2 ∈ t.pool.view.blocks n2 := by
        rw [blocks_of_get g2]; exact List.get?_mem e2
      by_cases hn : n1 = n2
      · subst hn
        rw [g1] at g2
        have hl := Option.some.inj g2
        subst hl
        have hnd := hinv.nodup n1
        rw [blocks_of_get g1] at hnd
        exact ⟨rfl, get?_map_nodup_inj hnd e1 e2 he⟩
      · exact absurd he (hinv.cross n1 n2 hn b1 hb1 b2 hb2)
    · intro c
      have := hinv.alloc_iff c
      constructor
      · intro hc
        obtain ⟨n, b, hb, hs⟩ := this.1 hc
        cases hg : mapGet t.pool.nodeBlocks n with
        | none =>
          have : t.pool.view.blocks n = [] := by
            show (mapGet t.pool.nodeBlocks n).getD [] = []
            rw [hg]; rfl
          rw [this] at hb
          exact absurd hb (List.not_mem_nil _)
        | some l =>
          rw [blocks_of_get hg] at hb
          exact ⟨n, l, b, hg, hb, hs⟩
      · rintro ⟨n, l, b, hg, hb, hs⟩
        exact this.2 ⟨n, b, by rw [blocks_of_get hg]; exact hb, hs⟩
  · constructor
    · intro n1 n2 l1 l2 i1 i2 b1 b2 g1
      rw [hnb] at g1
      exact Option.noConfusion g1
    · intro c
      rw [hab, hnb]
      constructor
      · intro hc; exact Bool.noConfusion hc
      · rintro ⟨n, l, b, hg, _⟩; exact Option.noConfusion hg

/-- C3, instance: the pool `10.244.0.0/28` with `/30` blocks after blocks were allocated
for `n1`, `n2`, `n1` and the second block of `n1` was released; `10.244.0.0/30` is marked
allocated. -/
theorem C3_flat_pool_blocks_unique_witness :
    Pool.ReachableFrom ⟨CIDRString.v4 183762944 28, 30⟩
      (TrackedPool.run ⟨⟨⟨183762944, 28, 32⟩, 30, [], []⟩, []⟩
        [PoolOp.allocateBlock "n1", PoolOp.allocateBlock "n2", PoolOp.allocateBlock "n1",
          PoolOp.releaseBlock "n1" (CIDRString.v4 183762952 30)]) ∧
    ∃ n l b, mapGet (TrackedPool.run ⟨⟨⟨183762944, 28, 32⟩, 30, [], []⟩, []⟩
        [PoolOp.allocateBlock "n1", PoolOp.allocateBlock "n2", PoolOp.allocateBlock "n1",
          PoolOp.releaseBlock "n1" (CIDRString.v4 183762952 30)]).pool.nodeBlocks n = some l ∧
      b ∈ l ∧ b.CIDR.String = CIDRString.v4 183762944 30 :=
  ⟨⟨_, _, by decide, rfl⟩,
    ((C3_flat_pool_blocks_unique ⟨CIDRString.v4 183762944 28, 30⟩ _
      ⟨_, _, by decide, rfl⟩).2 (CIDRString.v4 183762944 30)).1 (by decide)⟩

end PoolProofs

/-! ## The topology pool: proofs -/

section TopoProofs

open Bitmap

theorem NewBitmap_IsSet (N pos : Int) : (NewBitmap N).IsSet pos = false := by
  by_cases h0 : 0 ≤ pos
  · obtain ⟨p, rfl⟩ := Int.eq_ofNat_of_zero_le h0
    rw [IsSet_natCast, NewBitmap_bitAt]
    simp
  · exact IsSet_neg _ (by omega)

theorem asBlock_WF {s : Subnet} (hs : s.WF) (h4 : s.CIDR.bits = 32) : s.asBlock.WF := by
  obtain ⟨h1, h2, h3, h5⟩ := hs.v4 h4
  exact ⟨h4, h1, h2, h3, h5, hs.bm, hs.size, rfl⟩

theorem rangeMap_mem {ν : Type} {m : List (CIDRString × ν)} {ord : MapOrder}
    {e : CIDRString × ν} (h : e ∈ rangeMap m ord) : mapGet m e.1 = some e.2 := by
  unfold rangeMap at h
  rw [List.mem_filterMap] at h
  obtain ⟨k, _, hk⟩ := h
  cases hg : mapGet m k with
  | none => rw [hg] at hk; simp at hk
  | some v =>
    rw [hg] at hk
    simp only [Option.map_some', Option.some.injEq] at hk
    rw [← hk]
    exact hg

theorem pickTarget_mem {sp : SubnetPool} {purpose : String} {ord₁ ord₂ : MapOrder}
    {e : CIDRString × Subnet} (h : sp.pickTarget purpose ord₁ ord₂ = some e) :
    mapGet sp.Subnets e.1 = some e.2 := by
  unfold SubnetPool.pickTarget at h
  cases h1 : sp.pickByPurpose purpose ord₁ with
  | some e1 =>
    rw [h1] at h
    have := Option.some.inj h
    subst this
    exact rangeMap_mem (List.mem_of_find?_eq_some h1)
  | none =>
    rw [h1] at h
    dsimp only at h
    split at h
    · exact rangeMap_mem (List.mem_of_find?_eq_some h)
    · exact Option.noConfusion h

/-- What `AddSubnet` does to the subnets of a pool. -/
theorem AddSubnet_spec (sp : SubnetPool) (c : CIDRString) (purpose : String) :
    ((sp.AddSubnet c purpose).2 ≠ none → (sp.AddSubnet c purpose).1 = sp) ∧
    ((sp.AddSubnet c purpose).2 = none → mapGet sp.Subnets c = none ∧
      (sp.AddSubnet c purpose).1.TORID = sp.TORID ∧
      ∃ s', (sp.AddSubnet c purpose).1.Subnets = mapPut sp.Subnets c s' ∧ s'.WF ∧
        ∀ ip, s'.Holds ip = false) := by
  cases hg : mapGet sp.Subnets c with
  | some s0 =>
    have hres : sp.AddSubnet c purpose = (sp, some Err.subnetExistsInPool) := by
      simp only [SubnetPool.AddSubnet, hg, Option.isSome_some, if_true]
    rw [hres]
    exact ⟨fun _ => rfl, fun hc => by simp at hc⟩
  | none =>
    cases hp : ParseCIDR c with
    | none =>
      have hres : sp.AddSubnet c purpose = (sp, some Err.invalidCIDR) := by
        simp only [SubnetPool.AddSubnet, hg, hp, Option.isSome_none, Bool.false_eq_true,
          if_false]
      rw [hres]
      exact ⟨fun _ => rfl, fun hc => by simp at hc⟩
    | some ipNet =>
      by_cases hu : toInt64 (toInt64 (2 ^ (ipNet.bits - ipNet.ones)) - 2) ≤ 0
      · have hres : sp.AddSubnet c purpose = (sp, some Err.noUsableIPs) := by
          simp only [SubnetPool.AddSubnet, hg, hp, Option.isSome_none, Bool.false_eq_true,
            if_false, hu, if_true]
        rw [hres]
        exact ⟨fun _ => rfl, fun hc => by simp at hc⟩
      · have hres : sp.AddSubnet c purpose =
            (SubnetPool.mk sp.TORID (mapPut sp.Subnets c
              (Subnet.mk ipNet purpose (toInt64 (toInt64 (2 ^ (ipNet.bits - ipNet.ones)) - 2)) 0 []
                (NewBitmap (toInt64 (toInt64 (2 ^ (ipNet.bits - ipNet.ones)) - 2))))), none) := by
          simp only [SubnetPool.AddSubnet, hg, hp, Option.isSome_none, Bool.false_eq_true,
            if_false, hu]
        rw [hres]
        refine ⟨fun hc => absurd rfl hc, fun _ => ⟨rfl, rfl, _, rfl, ?_, ?_⟩⟩
        · refine ⟨WF_NewBitmap (by omega), rfl, fun h4 => ?_⟩
          dsimp only at h4 ⊢
          cases c with
          | invalid s => simp [ParseCIDR] at hp
          | v6 a n =>
            simp only [ParseCIDR] at hp
            split at hp
            · have := (Option.some.inj hp).symm
              rw [this] at h4
              simp at h4
            · exact Option.noConfusion hp
          | v4 a n =>
            simp only [ParseCIDR] at hp
            split at hp
            · rename_i hcond
              have hv := (Option.some.inj hp).symm
              subst hv
              dsimp only at hu ⊢
              rw [usable_v4 n hcond.2] at hu ⊢
              have hn : n ≤ 30 := by
                by_contra hc
                exact hu (usable_v4_nonpos n (by omega) hcond.2)
              exact ⟨hn, Nat.lt_of_le_of_lt (maskAddr_le a n) hcond.1, maskAddr_idem a n, rfl⟩
            · exact Option.noConfusion hp
        · intro ip
          unfold Subnet.Holds IPBlock.Contains Subnet.asBlock
          dsimp only
          split
          · rfl
          · exact NewBitmap_IsSet _ _

theorem mapPut_self {κ ν : Type} [DecidableEq κ] {m : List (κ × ν)} {k : κ} {v : ν}
    (h : mapGet m k = some v) : mapPut m k v = m := by
  induction m with
  | nil => simp [mapGet] at h
  | cons e m ih =>
    obtain ⟨k0, v0⟩ := e
    by_cases hk : k0 = k
    · subst hk
      simp only [mapGet, if_true] at h
      have := Option.some.inj h
      subst this
      simp [mapPut]
    · simp only [mapGet, hk, if_false] at h
      simp [mapPut, hk, ih h]

theorem Subnet_eta (s : Subnet) : { s with bitmap := s.bitmap } = s := by
  cases s; rfl

theorem SubnetPool_eta (sp : SubnetPool) : SubnetPool.mk sp.TORID sp.Subnets = sp := by
  cases sp; rfl

/-- What `AllocateIP` does to the subnets of a pool of well-formed subnets. -/
theorem AllocateIP_spec (sp : SubnetPool) (nodeID purpose : String) (ord₁ ord₂ : MapOrder)
    (hwf : ∀ key s, mapGet sp.Subnets key = some s → s.WF) :
    (∀ e, (sp.AllocateIP nodeID purpose ord₁ ord₂).2 = Except.error e →
      (sp.AllocateIP nodeID purpose ord₁ ord₂).1 = sp) ∧
    (∀ ip c, (sp.AllocateIP nodeID purpose ord₁ ord₂).2 = Except.ok (ip, c) →
      ∃ key s s', mapGet sp.Subnets key = some s ∧
        (sp.AllocateIP nodeID purpose ord₁ ord₂).1.Subnets = mapPut sp.Subnets key s' ∧
        s'.WF ∧ s'.CIDR = s.CIDR ∧
        (s.CIDR.bits = 32 → s.Holds ip = false ∧ s.CIDR.Contains ip = true ∧
          ∀ ip', s'.Holds ip' = (decide (ip' = ip) || s.Holds ip'))) := by
  cases ht : sp.pickTarget purpose ord₁ ord₂ with
  | none =>
    have hres : sp.AllocateIP nodeID purpose ord₁ ord₂ =
        (sp, Except.error Err.noAvailableSubnet) := by
      simp only [SubnetPool.AllocateIP, ht]
    rw [hres]
    exact ⟨fun _ _ => rfl, fun ip c hc => by simp at hc⟩
  | some e =>
    obtain ⟨key, S⟩ := e
    have hS : mapGet sp.Subnets key = some S := pickTarget_mem ht
    have hSwf := hwf key S hS
    rcases FindFirstZero_spec S.bitmap hSwf.bm with ⟨hr, _⟩ | ⟨p, hr, hp, hun, _⟩
    · have hres : sp.AllocateIP nodeID purpose ord₁ ord₂ =
          (sp, Except.error Err.noAvailableIPInSubnet) := by
        simp only [SubnetPool.AllocateIP, ht, hr, if_true]
      rw [hres]
      exact ⟨fun _ _ => rfl, fun ip c hc => by simp at hc⟩
    · have hbit : bitAt S.bitmap p = false := by
        rw [IsSet_natCast] at hun; simpa [hp] using hun
      have hne : ¬ ((p : Int) = -1) := by omega
      have hset := Set_ok S.bitmap hp hbit
      have hres : sp.AllocateIP nodeID purpose ord₁ ord₂ =
          (SubnetPool.mk sp.TORID (mapPut sp.Subnets key
            (Subnet.mk S.CIDR S.Purpose S.Capacity (S.Used + 1)
              (mapPut S.Allocations (positionToIP S.CIDR (p : Int))
                (IPAllocation.mk (positionToIP S.CIDR (p : Int)) nodeID "" "" ""))
              (S.bitmap.Set (p : Int)).1)),
            Except.ok (positionToIP S.CIDR (p : Int), key)) := by
        simp only [SubnetPool.AllocateIP, ht, hr, hne, if_false, hset]
      rw [hres]
      refine ⟨fun e hc => by simp at hc, fun ip c hc => ?_⟩
      have hip : positionToIP S.CIDR (p : Int) = ip := (Prod.mk.inj (Except.ok.inj hc)).1
      refine ⟨key, S, _, hS, rfl, ?_, rfl, fun h4 => ?_⟩
      · exact ⟨WF_Set _ hSwf.bm _, by rw [Set_size]; exact hSwf.size, hSwf.v4⟩
      · have hbw := asBlock_WF hSwf h4
        have hal : S.asBlock.Allocate =
            ((Subnet.mk S.CIDR S.Purpose S.Capacity (S.Used + 1)
              (mapPut S.Allocations (positionToIP S.CIDR (p : Int))
                (IPAllocation.mk (positionToIP S.CIDR (p : Int)) nodeID "" "" ""))
              (S.bitmap.Set (p : Int)).1).asBlock, Except.ok ip) := by
          have hfz : S.asBlock.bitmap.FindFirstZero = (p : Int) := hr
          have hset' : S.asBlock.bitmap.Set (p : Int) = _ := hset
          simp only [IPBlock.Allocate, hfz, hne, if_false, hset']
          rw [← hip]
          simp only [Subnet.asBlock, IPBlock.positionToIP]
          rw [hset]
        obtain ⟨_, h2, h3, h4'⟩ := Allocate_ok_Contains hbw hal
        exact ⟨h2, h3, h4'⟩

/-- What `ReleaseIP` does to the subnets of a pool of well-formed subnets. -/
theorem ReleaseIP_spec (sp : SubnetPool) (ip : IP) (ord : MapOrder)
    (hwf : ∀ key s, mapGet sp.Subnets key = some s → s.WF) :
    ((sp.ReleaseIP ip ord).2 ≠ none → (sp.ReleaseIP ip ord).1 = sp) ∧
    ((sp.ReleaseIP ip ord).2 = none →
      ∃ key s s', mapGet sp.Subnets key = some s ∧
        (sp.ReleaseIP ip ord).1.Subnets = mapPut sp.Subnets key s' ∧
        s'.WF ∧ s'.CIDR = s.CIDR ∧
        (s.CIDR.bits = 32 →
          ∀ ip', ip' ≠ ip → s.Holds ip' = true → s'.Holds ip' = true)) := by
  cases hf : (rangeMap sp.Subnets ord).find? (fun e => e.2.CIDR.Contains ip) with
  | none =>
    have hres : sp.ReleaseIP ip ord = (sp, some Err.ipNotInAnySubnet) := by
      simp only [SubnetPool.ReleaseIP, hf]
    rw [hres]
    exact ⟨fun _ => rfl, fun hc => by simp at hc⟩
  | some e =>
    obtain ⟨key, S⟩ := e
    have hS : mapGet sp.Subnets key = some S := rangeMap_mem (List.mem_of_find?_eq_some hf)
    have hcon : S.CIDR.Contains ip = true := by
      have := List.find?_some hf
      simpa using this
    have hSwf := hwf key S hS
    by_cases hal : (mapGet S.Allocations ip).isNone = true
    · have hres : sp.ReleaseIP ip ord = (sp, some Err.ipNotAllocated) := by
        simp only [SubnetPool.ReleaseIP, hf, hal, if_true]
      rw [hres]
      exact ⟨fun _ => rfl, fun hc => by simp at hc⟩
    · rcases Clear_cases S.bitmap hSwf.bm (ipToPosition S.CIDR ip) with ⟨_, h⟩ |
        ⟨_, _, _, _, h⟩ | ⟨p, hpos, hp, hbit, hnone, _, _, _, _, _⟩
      · have hres : sp.ReleaseIP ip ord =
            (SubnetPool.mk sp.TORID (mapPut sp.Subnets key { S with bitmap := S.bitmap }),
              some Err.positionOutOfRange) := by
          simp only [SubnetPool.ReleaseIP, hf, hal, Bool.false_eq_true, if_false, h]
        rw [hres, Subnet_eta, mapPut_self hS, SubnetPool_eta]
        exact ⟨fun _ => rfl, fun hc => by simp at hc⟩
      · have hres : sp.ReleaseIP ip ord =
            (SubnetPool.mk sp.TORID (mapPut sp.Subnets key { S with bitmap := S.bitmap }),
              some Err.bitAlreadyClear) := by
          simp only [SubnetPool.ReleaseIP, hf, hal, Bool.false_eq_true, if_false, h]
        rw [hres, Subnet_eta, mapPut_self hS, SubnetPool_eta]
        exact ⟨fun _ => rfl, fun hc => by simp at hc⟩
      · have hclr : S.bitmap.Clear (ipToPosition S.CIDR ip) =
            ((S.bitmap.Clear (ipToPosition S.CIDR ip)).1, none) := by
          rw [← hnone]
        have hres : sp.ReleaseIP ip ord =
            (SubnetPool.mk sp.TORID (mapPut sp.Subnets key
              (Subnet.mk S.CIDR S.Purpose S.Capacity (S.Used - 1) (mapDel S.Allocations ip)
                (S.bitmap.Clear (ipToPosition S.CIDR ip)).1)), none) := by
          unfold SubnetPool.ReleaseIP
          simp only [hf, hal, Bool.false_eq_true, if_false]
          rw [hclr]
        rw [hres]
        refine ⟨fun hc => absurd rfl hc, fun _ => ⟨key, S, _, hS, rfl, ?_, rfl, fun h4 => ?_⟩⟩
        · exact ⟨WF_Clear _ hSwf.bm _, by rw [Clear_size]; exact hSwf.size, hSwf.v4⟩
        · have hbw := asBlock_WF hSwf h4
          have hrange : ¬ (S.asBlock.ipToPosition ip < 0 ∨
              S.asBlock.ipToPosition ip ≥ S.asBlock.Total) := by
            show ¬ (ipToPosition S.CIDR ip < 0 ∨ ipToPosition S.CIDR ip ≥ S.Capacity)
            rw [hpos, ← hSwf.size]
            omega
          have hcon' : S.asBlock.CIDR.Contains ip = true := hcon
          have hclr' : S.asBlock.bitmap.Clear (S.asBlock.ipToPosition ip) =
              ((S.bitmap.Clear (ipToPosition S.CIDR ip)).1, none) := hclr
          have hrel : S.asBlock.Release ip =
              ((Subnet.mk S.CIDR S.Purpose S.Capacity (S.Used - 1) (mapDel S.Allocations ip)
                (S.bitmap.Clear (ipToPosition S.CIDR ip)).1).asBlock, none) := by
            unfold IPBlock.Release
            simp only [hcon', Bool.not_true, Bool.false_eq_true, if_false, hrange]
            rw [hclr']
            simp only [Subnet.asBlock]
            have hp' : (p : Int) < S.bitmap.size := hp
            rw [hpos, Clear_ok S.bitmap hp' hbit]
          obtain ⟨_, _, r3⟩ := Release_Contains hbw ip
          rw [hrel] at r3
          exact r3 rfl

theorem TORsKept_refl (t : Topology) : t.TORsKept t := fun _ h => h

theorem TORsKept_trans {t1 t2 t3 : Topology} (h1 : t1.TORsKept t2) (h2 : t2.TORsKept t3) :
    t1.TORsKept t3 := fun id h => h2 id (h1 id h)

theorem mapGet_mapPut_ne_none {κ ν : Type} [DecidableEq κ] (m : List (κ × ν)) (k : κ) (v : ν)
    (k' : κ) (h : mapGet m k' ≠ none) : mapGet (mapPut m k v) k' ≠ none := by
  rw [mapGet_mapPut]
  split
  · simp
  · exact h

theorem AddZone_TORs (t : Topology) (zone : Zone) : (t.AddZone zone).1.TORs = t.TORs := by
  unfold Topology.AddZone
  split <;> rfl

theorem AddPod_TORs (t : Topology) (pod : Pod) : (t.AddPod pod).1.TORs = t.TORs := by
  unfold Topology.AddPod
  split
  · rfl
  · split <;> rfl

theorem AddTOR_spec (t : Topology) (tor : TOR) :
    t.TORsKept (t.AddTOR tor).1 ∧
    ((t.AddTOR tor).2 = none →
      mapGet t.TORs tor.ID = none ∧ mapGet (t.AddTOR tor).1.TORs tor.ID ≠ none) := by
  cases hp : mapGet t.Pods tor.PodID with
  | none =>
    have hres : t.AddTOR tor = (t, some Err.podNotFound) := by
      simp only [Topology.AddTOR, hp]
    rw [hres]
    exact ⟨TORsKept_refl t, fun hc => by simp at hc⟩
  | some pod =>
    cases hg : mapGet t.TORs tor.ID with
    | some t0 =>
      have hres : t.AddTOR tor = (t, some Err.torExists) := by
        simp only [Topology.AddTOR, hp, hg, Option.isSome_some, if_true]
      rw [hres]
      exact ⟨TORsKept_refl t, fun hc => by simp at hc⟩
    | none =>
      have hres : t.AddTOR tor =
          (Topology.mk t.Zones (mapPut t.Pods tor.PodID { pod with TORs := keyInsert pod.TORs tor.ID })
            (mapPut t.TORs tor.ID tor) t.Nodes, none) := by
        simp only [Topology.AddTOR, hp, hg, Option.isSome_none, Bool.false_eq_true, if_false]
      rw [hres]
      refine ⟨fun id h => mapGet_mapPut_ne_none _ _ _ _ h, fun _ => ⟨rfl, ?_⟩⟩
      show mapGet (mapPut t.TORs tor.ID tor) tor.ID ≠ none
      rw [mapGet_mapPut_self]; simp

theorem RegisterNode_TORs (t : Topology) (node : Node) : t.TORsKept (t.RegisterNode node).1 := by
  cases hg : mapGet t.TORs node.TORID with
  | none =>
    have hres : t.RegisterNode node = (t, some Err.torNotFound) := by
      simp only [Topology.RegisterNode, hg]
    rw [hres]; exact TORsKept_refl t
  | some tor =>
    by_cases hn : (mapGet t.Nodes node.ID).isSome = true
    · have hres : t.RegisterNode node = (t, some Err.nodeRegistered) := by
        simp only [Topology.RegisterNode, hg, hn, if_true]
      rw [hres]; exact TORsKept_refl t
    · have hres : t.RegisterNode node =
          (Topology.mk t.Zones t.Pods
            (mapPut t.TORs node.TORID { tor with Nodes := tor.Nodes ++ [node.ID] })
            (mapPut t.Nodes node.ID node), none) := by
        simp only [Topology.RegisterNode, hg, hn, Bool.false_eq_true, if_false]
      rw [hres]
      exact fun id h => mapGet_mapPut_ne_none _ _ _ _ h

theorem AddSubnetToTOR_TORs (t : Topology) (torID : String) (c : CIDRString) :
    t.TORsKept (t.AddSubnetToTOR torID c).1 := by
  cases hg : mapGet t.TORs torID with
  | none =>
    have hres : t.AddSubnetToTOR torID c = (t, some Err.torNotFound) := by
      simp only [Topology.AddSubnetToTOR, hg]
    rw [hres]; exact TORsKept_refl t
  | some tor =>
    by_cases hn : c ∈ tor.Subnets
    · have hres : t.AddSubnetToTOR torID c = (t, some Err.subnetExistsInTOR) := by
        simp only [Topology.AddSubnetToTOR, hg, hn, if_true]
      rw [hres]; exact TORsKept_refl t
    · have hres : t.AddSubnetToTOR torID c =
          (Topology.mk t.Zones t.Pods
            (mapPut t.TORs torID { tor with Subnets := tor.Subnets ++ [c] }) t.Nodes, none) := by
        simp only [Topology.AddSubnetToTOR, hg, hn, if_false]
      rw [hres]
      exact fun id h => mapGet_mapPut_ne_none _ _ _ _ h

theorem SPExt_refl (sp : SubnetPool) : sp.Ext sp :=
  ⟨fun _ _ h => h, fun _ _ h => Or.inl h⟩

theorem SPExt_trans {a b c : SubnetPool} (h1 : a.Ext b) (h2 : b.Ext c) : a.Ext c := by
  refine ⟨fun k s h => h2.1 k s (h1.1 k s h), fun k s' h => ?_⟩
  rcases h2.2 k s' h with h3 | h3
  · exact h1.2 k s' h3
  · exact Or.inr h3

theorem AddSubnet_Ext (sp : SubnetPool) (c : CIDRString) (purpose : String) :
    sp.Ext (sp.AddSubnet c purpose).1 := by
  obtain ⟨h1, h2⟩ := AddSubnet_spec sp c purpose
  cases he : (sp.AddSubnet c purpose).2 with
  | some e =>
    rw [h1 (by rw [he]; simp)]
    exact SPExt_refl sp
  | none =>
    obtain ⟨hnew, _, s', hs, hwf, hfresh⟩ := h2 he
    refine ⟨fun k s h => ?_, fun k s0 h => ?_⟩
    · rw [hs, mapGet_mapPut]
      by_cases hk : k = c
      · subst hk; rw [hnew] at h; exact Option.noConfusion h
      · rw [if_neg hk]; exact h
    · rw [hs, mapGet_mapPut] at h
      by_cases hk : k = c
      · rw [if_pos hk] at h
        have := Option.some.inj h
        subst this
        exact Or.inr ⟨hwf, hfresh⟩
      · rw [if_neg hk] at h
        exact Or.inl h

/-- The subnet loop of `InitializeTopology` only extends the local pool and keeps the
TORs. -/
theorem initSubnets_spec (torID : String) (l : List SubnetConfig) :
    ∀ (topo : Topology) (sp : SubnetPool),
      topo.TORsKept (TopologyAwarePool.initSubnets topo sp torID l).1 ∧
      sp.Ext (TopologyAwarePool.initSubnets topo sp torID l).2.1 := by
  induction l with
  | nil => intro topo sp; exact ⟨TORsKept_refl _, SPExt_refl _⟩
  | cons c rest ih =>
    intro topo sp
    have hext := AddSubnet_Ext sp c.CIDR c.Purpose
    cases ha : sp.AddSubnet c.CIDR c.Purpose with
    | mk sp1 e =>
      rw [ha] at hext
      cases e with
      | some err =>
        have hres : TopologyAwarePool.initSubnets topo sp torID (c :: rest) =
            (topo, sp1, some err) := by
          simp only [TopologyAwarePool.initSubnets, ha]
        rw [hres]
        exact ⟨TORsKept_refl _, hext⟩
      | none =>
        have hres : TopologyAwarePool.initSubnets topo sp torID (c :: rest) =
            TopologyAwarePool.initSubnets (topo.AddSubnetToTOR torID c.CIDR).1 sp1 torID rest := by
          simp only [TopologyAwarePool.initSubnets, ha]
        rw [hres]
        obtain ⟨i1, i2⟩ := ih (topo.AddSubnetToTOR torID c.CIDR).1 sp1
        exact ⟨TORsKept_trans (AddSubnetToTOR_TORs topo torID c.CIDR) i1, SPExt_trans hext i2⟩

theorem subnetAt_put (p : TopologyAwarePool) (topo : Topology) (id : String) (sp : SubnetPool)
    (t : String) (k : CIDRString) :
    (TopologyAwarePool.mk p.clusterCIDR topo (mapPut p.subnetPools id sp)).subnetAt t k =
      if t = id then mapGet sp.Subnets k else p.subnetAt t k := by
  unfold TopologyAwarePool.subnetAt
  dsimp only
  rw [mapGet_mapPut]
  by_cases ht : t = id
  · rw [if_pos ht, if_pos ht]
  · rw [if_neg ht, if_neg ht]

theorem subnetAt_topology (p : TopologyAwarePool) (topo : Topology) (t : String)
    (k : CIDRString) :
    (TopologyAwarePool.mk p.clusterCIDR topo p.subnetPools).subnetAt t k = p.subnetAt t k := rfl

theorem subnetAt_of_pool {p : TopologyAwarePool} {id : String} {sp : SubnetPool}
    (h : mapGet p.subnetPools id = some sp) (k : CIDRString) :
    p.subnetAt id k = mapGet sp.Subnets k := by
  unfold TopologyAwarePool.subnetAt
  rw [h]

theorem subnetAt_no_pool {p : TopologyAwarePool} {id : String}
    (h : mapGet p.subnetPools id = none) (k : CIDRString) : p.subnetAt id k = none := by
  unfold TopologyAwarePool.subnetAt
  rw [h]

theorem Ext_refl (p : TopologyAwarePool) : p.Ext p :=
  ⟨fun _ _ _ h => h, fun _ _ _ h => Or.inl h, fun _ h => h, fun h => h⟩

theorem Ext_trans {a b c : TopologyAwarePool} (h1 : a.Ext b) (h2 : b.Ext c) : a.Ext c := by
  refine ⟨fun t k s h => h2.1 t k s (h1.1 t k s h), fun t k s' h => ?_,
    fun id h => h2.2.2.1 id (h1.2.2.1 id h), fun h => h2.2.2.2 (h1.2.2.2 h)⟩
  rcases h2.2.1 t k s' h with h3 | h3
  · exact h1.2.1 t k s' h3
  · exact Or.inr h3

theorem Ext_topology (p : TopologyAwarePool) (topo : Topology)
    (h : p.topology.TORsKept topo) :
    p.Ext (TopologyAwarePool.mk p.clusterCIDR topo p.subnetPools) :=
  ⟨fun _ _ _ hs => hs, fun _ _ _ hs => Or.inl hs, h, fun hk tor ht => h tor (hk tor ht)⟩

/-- Replacing the pool of a TOR by an extension of it extends the topology pool. -/
theorem Ext_updatePool (p : TopologyAwarePool) (topo : Topology) (id : String)
    (sp sp' : SubnetPool) (hg : mapGet p.subnetPools id = some sp) (hext : sp.Ext sp')
    (h : p.topology.TORsKept topo) :
    p.Ext (TopologyAwarePool.mk p.clusterCIDR topo (mapPut p.subnetPools id sp')) := by
  refine ⟨fun t k s hs => ?_, fun t k s' hs => ?_, h, fun hk tor ht => ?_⟩
  · rw [subnetAt_put]
    by_cases htid : t = id
    · subst htid
      rw [if_pos rfl]
      rw [subnetAt_of_pool hg] at hs
      exact hext.1 k s hs
    · rw [if_neg htid]; exact hs
  · rw [subnetAt_put] at hs
    by_cases htid : t = id
    · subst htid
      rw [if_pos rfl] at hs
      rw [subnetAt_of_pool hg]
      exact hext.2 k s' hs
    · rw [if_neg htid] at hs; exact Or.inl hs
  · apply h tor
    apply hk tor
    by_cases htid : tor = id
    · subst htid; rw [hg]; simp
    · have ht' : mapGet (mapPut p.subnetPools id sp') tor ≠ none := ht
      rw [mapGet_mapPut, if_neg htid] at ht'
      exact ht'

/-- Storing the pool made for a new TOR extends the topology pool. -/
theorem Ext_newPool (p : TopologyAwarePool) (topo : Topology) (id : String) (sp : SubnetPool)
    (hk : p.PoolsHaveTOR) (hnew : mapGet p.topology.TORs id = none)
    (h : p.topology.TORsKept topo) (hid : mapGet topo.TORs id ≠ none)
    (hext : (NewSubnetPool id).Ext sp) :
    p.Ext (TopologyAwarePool.mk p.clusterCIDR topo (mapPut p.subnetPools id sp)) := by
  have hnone : mapGet p.subnetPools id = none := by
    by_contra hc
    exact hk id hc hnew
  refine ⟨fun t k s hs => ?_, fun t k s' hs => ?_, h, fun _ tor ht => ?_⟩
  · rw [subnetAt_put]
    by_cases htid : t = id
    · subst htid
      rw [subnetAt_no_pool hnone] at hs
      exact Option.noConfusion hs
    · rw [if_neg htid]; exact hs
  · rw [subnetAt_put] at hs
    by_cases htid : t = id
    · rw [if_pos htid] at hs
      rcases hext.2 k s' hs with h0 | h1
      · simp [NewSubnetPool, mapGet] at h0
      · exact Or.inr h1
    · rw [if_neg htid] at hs; exact Or.inl hs
  · by_cases htid : tor = id
    · subst htid; exact hid
    · have ht' : mapGet (mapPut p.subnetPools id sp) tor ≠ none := ht
      rw [mapGet_mapPut, if_neg htid] at ht'
      exact h tor (hk tor ht')

theorem initTORs_Ext (podID : String) (l : List TORConfig) :
    ∀ p : TopologyAwarePool, p.PoolsHaveTOR →
      p.Ext (TopologyAwarePool.initTORs p podID l).1 := by
  induction l with
  | nil => intro p _; exact Ext_refl p
  | cons tc rest ih =>
    intro p hk
    have hspec := AddTOR_spec p.topology
      (TOR.mk tc.ID tc.Name podID tc.Location [] [])
    cases ha : p.topology.AddTOR (TOR.mk tc.ID tc.Name podID tc.Location [] []) with
    | mk topo1 e1 =>
      rw [ha] at hspec
      cases e1 with
      | some err =>
        have hres : TopologyAwarePool.initTORs p podID (tc :: rest) =
            (TopologyAwarePool.mk p.clusterCIDR topo1 p.subnetPools, some err) := by
          simp only [TopologyAwarePool.initTORs, ha]
        rw [hres]
        exact Ext_topology p topo1 hspec.1
      | none =>
        obtain ⟨hnew, hid⟩ := hspec.2 rfl
        have hsub := initSubnets_spec tc.ID tc.Subnets topo1 (NewSubnetPool tc.ID)
        cases hi : TopologyAwarePool.initSubnets topo1 (NewSubnetPool tc.ID) tc.ID tc.Subnets with
        | mk topo2 r =>
          obtain ⟨sp, e2⟩ := r
          rw [hi] at hsub
          have hkept : p.topology.TORsKept topo2 := TORsKept_trans hspec.1 hsub.1
          cases e2 with
          | some err =>
            have hres : TopologyAwarePool.initTORs p podID (tc :: rest) =
                (TopologyAwarePool.mk p.clusterCIDR topo2 p.subnetPools, some err) := by
              simp only [TopologyAwarePool.initTORs, ha, hi]
            rw [hres]
            exact Ext_topology p topo2 hkept
          | none =>
            have hres : TopologyAwarePool.initTORs p podID (tc :: rest) =
                TopologyAwarePool.initTORs
                  (TopologyAwarePool.mk p.clusterCIDR topo2 (mapPut p.subnetPools tc.ID sp))
                  podID rest := by
              simp only [TopologyAwarePool.initTORs, ha, hi]
            rw [hres]
            have hext1 := Ext_newPool p topo2 tc.ID sp hk hnew hkept (hsub.1 tc.ID hid) hsub.2
            exact Ext_trans hext1 (ih _ (hext1.2.2.2 hk))

theorem initPods_Ext (zoneID : String) (l : List PodConfig) :
    ∀ p : TopologyAwarePool, p.PoolsHaveTOR →
      p.Ext (TopologyAwarePool.initPods p zoneID l).1 := by
  induction l with
  | nil => intro p _; exact Ext_refl p
  | cons pc rest ih =>
    intro p hk
    have htors := AddPod_TORs p.topology (Pod.mk pc.ID pc.Name zoneID pc.SubnetRanges [])
    cases ha : p.topology.AddPod (Pod.mk pc.ID pc.Name zoneID pc.SubnetRanges []) with
    | mk topo1 e1 =>
      rw [ha] at htors
      have hkept : p.topology.TORsKept topo1 := by
        intro id h
        have : topo1.TORs = p.topology.TORs := htors
        rw [this]; exact h
      have hext1 := Ext_topology p topo1 hkept
      cases e1 with
      | some err =>
        have hres : TopologyAwarePool.initPods p zoneID (pc :: rest) =
            (TopologyAwarePool.mk p.clusterCIDR topo1 p.subnetPools, some err) := by
          simp only [TopologyAwarePool.initPods, ha]
        rw [hres]
        exact hext1
      | none =>
        have hext2 := initTORs_Ext pc.ID pc.TORs
          (TopologyAwarePool.mk p.clusterCIDR topo1 p.subnetPools) (hext1.2.2.2 hk)
        cases hi : TopologyAwarePool.initTORs
            (TopologyAwarePool.mk p.clusterCIDR topo1 p.subnetPools) pc.ID pc.TORs with
        | mk p2 e2 =>
          rw [hi] at hext2
          cases e2 with
          | some err =>
            have hres : TopologyAwarePool.initPods p zoneID (pc :: rest) = (p2, some err) := by
              simp only [TopologyAwarePool.initPods, ha, hi]
            rw [hres]
            exact Ext_trans hext1 hext2
          | none =>
            have hres : TopologyAwarePool.initPods p zoneID (pc :: rest) =
                TopologyAwarePool.initPods p2 zoneID rest := by
              simp only [TopologyAwarePool.initPods, ha, hi]
            rw [hres]
            have h12 := Ext_trans hext1 hext2
            exact Ext_trans h12 (ih p2 (h12.2.2.2 hk))

theorem initZones_Ext (l : List ZoneConfig) :
    ∀ p : TopologyAwarePool, p.PoolsHaveTOR →
      p.Ext (TopologyAwarePool.initZones p l).1 := by
  induction l with
  | nil => intro p _; exact Ext_refl p
  | cons zc rest ih =>
    intro p hk
    have htors := AddZone_TORs p.topology (Zone.mk zc.ID zc.Name zc.SubnetRanges [])
    cases ha : p.topology.AddZone (Zone.mk zc.ID zc.Name zc.SubnetRanges []) with
    | mk topo1 e1 =>
      rw [ha] at htors
      have hkept : p.topology.TORsKept topo1 := by
        intro id h
        have : topo1.TORs = p.topology.TORs := htors
        rw [this]; exact h
      have hext1 := Ext_topology p topo1 hkept
      cases e1 with
      | some err =>
        have hres : TopologyAwarePool.initZones p (zc :: rest) =
            (TopologyAwarePool.mk p.clusterCIDR topo1 p.subnetPools, some err) := by
          simp only [TopologyAwarePool.initZones, ha]
        rw [hres]
        exact hext1
      | none =>
        have hext2 := initPods_Ext zc.ID zc.Pods
          (TopologyAwarePool.mk p.clusterCIDR topo1 p.subnetPools) (hext1.2.2.2 hk)
        cases hi : TopologyAwarePool.initPods
            (TopologyAwarePool.mk p.clusterCIDR topo1 p.subnetPools) zc.ID zc.Pods with
        | mk p2 e2 =>
          rw [hi] at hext2
          cases e2 with
          | some err =>
            have hres : TopologyAwarePool.initZones p (zc :: rest) = (p2, some err) := by
              simp only [TopologyAwarePool.initZones, ha, hi]
            rw [hres]
            exact Ext_trans hext1 hext2
          | none =>
            have hres : TopologyAwarePool.initZones p (zc :: rest) =
                TopologyAwarePool.initZones p2 rest := by
              simp only [TopologyAwarePool.initZones, ha, hi]
            rw [hres]
            have h12 := Ext_trans hext1 hext2
            exact Ext_trans h12 (ih p2 (h12.2.2.2 hk))

theorem Inv_of_Ext {t : TrackedTopo} (h : t.Inv) {p' : TopologyAwarePool}
    (hext : t.pool.Ext p') : (TrackedTopo.mk p' t.held).Inv := by
  obtain ⟨k0, k1, k2⟩ := h
  refine ⟨hext.2.2.2 k0, fun tor key s' hs => ?_, fun hv4 ip hip => ?_⟩
  · rcases hext.2.1 tor key s' hs with h1 | h1
    · exact k1 tor key s' h1
    · exact h1.1
  · have hv4' : t.pool.AllV4 := fun tor key s hs => hv4 tor key s (hext.1 tor key s hs)
    obtain ⟨tor, key, s, hs, hh⟩ := k2 hv4' ip hip
    exact ⟨tor, key, s, hext.1 tor key s hs, hh⟩

theorem Holds_CIDR {s : Subnet} {ip : IP} (h : s.Holds ip = true) :
    s.CIDR.Contains ip = true := Contains_CIDR h

/-- Replacing one subnet of one pool by a well-formed one of the same CIDR that still
holds the held addresses keeps the invariant. -/
theorem Inv_update {p : TopologyAwarePool} {held held' : List IP} (h : (TrackedTopo.mk p held).Inv)
    {id : String} {sp sp' : SubnetPool} {key : CIDRString} {S S' : Subnet}
    (hg : mapGet p.subnetPools id = some sp) (hS : mapGet sp.Subnets key = some S)
    (hsp : sp'.Subnets = mapPut sp.Subnets key S') (hwf : S'.WF) (hc : S'.CIDR = S.CIDR)
    (hnew : ∀ ip' ∈ held', ip' ∈ held ∨ (S.CIDR.bits = 32 → S'.Holds ip' = true))
    (hkeep : S.CIDR.bits = 32 → ∀ ip' ∈ held', S.Holds ip' = true → S'.Holds ip' = true) :
    (TrackedTopo.mk (TopologyAwarePool.mk p.clusterCIDR p.topology
      (mapPut p.subnetPools id sp')) held').Inv := by
  obtain ⟨k0, k1, k2⟩ := h
  have hat : ∀ t k, (TopologyAwarePool.mk p.clusterCIDR p.topology
      (mapPut p.subnetPools id sp')).subnetAt t k =
      if t = id ∧ k = key then some S' else p.subnetAt t k := by
    intro t k
    rw [subnetAt_put]
    by_cases ht : t = id
    · subst ht
      rw [if_pos rfl, hsp, mapGet_mapPut, subnetAt_of_pool hg]
      by_cases hk : k = key
      · rw [if_pos hk, if_pos ⟨rfl, hk⟩]
      · rw [if_neg hk, if_neg (fun hc => hk hc.2)]
    · rw [if_neg ht, if_neg (fun hc => ht hc.1)]
  have hSat : p.subnetAt id key = some S := by rw [subnetAt_of_pool hg]; exact hS
  refine ⟨fun tor ht => ?_, fun tor k s' hs => ?_, fun hv4 ip hip => ?_⟩
  · apply k0 tor
    by_cases htid : tor = id
    · subst htid
      have : mapGet p.subnetPools tor ≠ none := by rw [hg]; simp
      exact this
    · have ht' : mapGet (mapPut p.subnetPools id sp') tor ≠ none := ht
      rw [mapGet_mapPut, if_neg htid] at ht'
      exact ht'
  · rw [hat] at hs
    by_cases hcase : tor = id ∧ k = key
    · rw [if_pos hcase] at hs
      rw [← Option.some.inj hs]; exact hwf
    · rw [if_neg hcase] at hs
      exact k1 tor k s' hs
  · have hv4' : TopologyAwarePool.AllV4 p := by
      intro tor k s hs
      by_cases hcase : tor = id ∧ k = key
      · obtain ⟨rfl, rfl⟩ := hcase
        rw [hSat] at hs
        rw [← Option.some.inj hs, ← hc]
        exact hv4 tor k S' (by rw [hat, if_pos ⟨rfl, rfl⟩])
      · exact hv4 tor k s (by rw [hat, if_neg hcase]; exact hs)
    have hbits : S.CIDR.bits = 32 := hv4' id key S hSat
    rcases hnew ip hip with hold | hnw
    · obtain ⟨tor, k, s, hs, hh⟩ := k2 hv4' ip hold
      by_cases hcase : tor = id ∧ k = key
      · obtain ⟨rfl, rfl⟩ := hcase
        rw [hSat] at hs
        have hsS := Option.some.inj hs
        subst hsS
        exact ⟨tor, k, S', by rw [hat, if_pos ⟨rfl, rfl⟩], hkeep hbits ip hip hh⟩
      · exact ⟨tor, k, s, by rw [hat, if_neg hcase]; exact hs, hh⟩
    · exact ⟨id, key, S', by rw [hat, if_pos ⟨rfl, rfl⟩], hnw hbits⟩

theorem GetNodeTOR_cases (t : Topology) (nodeID : String) :
    (∃ e, t.GetNodeTOR nodeID = Except.error e) ∨ (∃ tor, t.GetNodeTOR nodeID = Except.ok tor) := by
  cases h : t.GetNodeTOR nodeID with
  | error e => exact Or.inl ⟨e, rfl⟩
  | ok tor => exact Or.inr ⟨tor, rfl⟩

theorem TopologyAwarePool_eta (p : TopologyAwarePool) :
    TopologyAwarePool.mk p.clusterCIDR p.topology p.subnetPools = p := by
  cases p; rfl

/-- `AllocateIPForNodeWithPurpose` keeps the invariant; an address it returns becomes
held and, when the subnets are IPv4 and pairwise disjoint, was not held. -/
theorem Inv_allocate {p : TopologyAwarePool} {held : List IP} (h : (TrackedTopo.mk p held).Inv)
    (nodeID purpose : String) (ord₁ ord₂ : MapOrder) :
    (∀ e, (p.AllocateIPForNodeWithPurpose nodeID purpose ord₁ ord₂).2 = Except.error e →
      (TrackedTopo.mk (p.AllocateIPForNodeWithPurpose nodeID purpose ord₁ ord₂).1 held).Inv) ∧
    (∀ ip c, (p.AllocateIPForNodeWithPurpose nodeID purpose ord₁ ord₂).2 = Except.ok (ip, c) →
      (TrackedTopo.mk (p.AllocateIPForNodeWithPurpose nodeID purpose ord₁ ord₂).1
        (ip :: held)).Inv ∧
      (p.AllV4 → p.Disjoint → ip ∉ held)) := by
  rcases GetNodeTOR_cases p.topology nodeID with ⟨e0, hn⟩ | ⟨tor, hn⟩
  · have hres : p.AllocateIPForNodeWithPurpose nodeID purpose ord₁ ord₂ =
        (p, Except.error e0) := by
      simp only [TopologyAwarePool.AllocateIPForNodeWithPurpose, hn]
    rw [hres]
    exact ⟨fun _ _ => h, fun ip c hc => by simp at hc⟩
  · cases hg : mapGet p.subnetPools tor.ID with
    | none =>
      have hres : p.AllocateIPForNodeWithPurpose nodeID purpose ord₁ ord₂ =
          (p, Except.error Err.subnetPoolNotFound) := by
        simp only [TopologyAwarePool.AllocateIPForNodeWithPurpose, hn, hg]
      rw [hres]
      exact ⟨fun _ _ => h, fun ip c hc => by simp at hc⟩
    | some sp =>
      have hres : p.AllocateIPForNodeWithPurpose nodeID purpose ord₁ ord₂ =
          (TopologyAwarePool.mk p.clusterCIDR p.topology
            (mapPut p.subnetPools tor.ID (sp.AllocateIP nodeID purpose ord₁ ord₂).1),
            (sp.AllocateIP nodeID purpose ord₁ ord₂).2) := by
        simp only [TopologyAwarePool.AllocateIPForNodeWithPurpose, hn, hg]
      rw [hres]
      dsimp only
      have hwf : ∀ key s, mapGet sp.Subnets key = some s → s.WF := by
        intro key s hs
        exact h.2.1 tor.ID key s (by rw [subnetAt_of_pool hg]; exact hs)
      obtain ⟨s1, s2⟩ := AllocateIP_spec sp nodeID purpose ord₁ ord₂ hwf
      constructor
      · intro e he
        rw [s1 e he, mapPut_self hg, TopologyAwarePool_eta]
        exact h
      · intro ip c hok
        obtain ⟨key, S, S', hS, hsp, hSwf, hc, hv⟩ := s2 ip c hok
        constructor
        · apply Inv_update h hg hS hsp hSwf hc
          · intro ip' hip'
            rcases List.mem_cons.1 hip' with rfl | hold
            · right
              intro hb
              rw [(hv hb).2.2]; simp
            · exact Or.inl hold
          · intro hb ip' _ hh
            rw [(hv hb).2.2, hh]; simp
        · intro hv4 hdis hmem
          have hSat : p.subnetAt tor.ID key = some S := by
            rw [subnetAt_of_pool hg]; exact hS
          have hb : S.CIDR.bits = 32 := hv4 tor.ID key S hSat
          obtain ⟨t0, k0, s0, hs0, hh0⟩ := h.2.2 hv4 ip hmem
          obtain ⟨e1, e2⟩ := hdis t0 k0 s0 tor.ID key S ip hs0 hSat (Holds_CIDR hh0) (hv hb).2.1
          subst e1 e2
          rw [hSat] at hs0
          have := Option.some.inj hs0
          subst this
          rw [(hv hb).1] at hh0
          exact Bool.noConfusion hh0

/-- `ReleaseIPForNode` keeps the invariant, the released address leaving the held ones. -/
theorem Inv_release {p : TopologyAwarePool} {held : List IP} (h : (TrackedTopo.mk p held).Inv)
    (nodeID : String) (ip : IP) (ord : MapOrder) :
    ((p.ReleaseIPForNode nodeID ip ord).2 ≠ none →
      (TrackedTopo.mk (p.ReleaseIPForNode nodeID ip ord).1 held).Inv) ∧
    ((p.ReleaseIPForNode nodeID ip ord).2 = none →
      (TrackedTopo.mk (p.ReleaseIPForNode nodeID ip ord).1
        (held.filter (fun x => decide (x ≠ ip)))).Inv) := by
  rcases GetNodeTOR_cases p.topology nodeID with ⟨e0, hn⟩ | ⟨tor, hn⟩
  · have hres : p.ReleaseIPForNode nodeID ip ord = (p, some e0) := by
      simp only [TopologyAwarePool.ReleaseIPForNode, hn]
    rw [hres]
    exact ⟨fun _ => h, fun hc => by simp at hc⟩
  · cases hg : mapGet p.subnetPools tor.ID with
    | none =>
      have hres : p.ReleaseIPForNode nodeID ip ord = (p, some Err.subnetPoolNotFound) := by
        simp only [TopologyAwarePool.ReleaseIPForNode, hn, hg]
      rw [hres]
      exact ⟨fun _ => h, fun hc => by simp at hc⟩
    | some sp =>
      have hres : p.ReleaseIPForNode nodeID ip ord =
          (TopologyAwarePool.mk p.clusterCIDR p.topology
            (mapPut p.subnetPools tor.ID (sp.ReleaseIP ip ord).1), (sp.ReleaseIP ip ord).2) := by
        simp only [TopologyAwarePool.ReleaseIPForNode, hn, hg]
      rw [hres]
      dsimp only
      have hwf : ∀ key s, mapGet sp.Subnets key = some s → s.WF := by
        intro key s hs
        exact h.2.1 tor.ID key s (by rw [subnetAt_of_pool hg]; exact hs)
      obtain ⟨s1, s2⟩ := ReleaseIP_spec sp ip ord hwf
      constructor
      · intro he
        rw [s1 he, mapPut_self hg, TopologyAwarePool_eta]
        exact h
      · intro hok
        obtain ⟨key, S, S', hS, hsp, hSwf, hc, hv⟩ := s2 hok
        apply Inv_update h hg hS hsp hSwf hc
        · intro ip' hip'
          exact Or.inl (List.mem_filter.1 hip').1
        · intro hb ip' hip' hh
          have hne : ip' ≠ ip := by
            have := (List.mem_filter.1 hip').2
            simpa using this
          exact hv hb ip' hne hh

theorem RegisterNode_Ext (p : TopologyAwarePool) (nodeID nodeName torID : String)
    (labels : List (String × String)) : p.Ext (p.RegisterNode nodeID nodeName torID labels).1 :=
  Ext_topology p _ (RegisterNode_TORs p.topology _)

theorem AddSubnetToTOR_Ext (p : TopologyAwarePool) (torID : String) (c : CIDRString)
    (purpose : String) : p.Ext (p.AddSubnetToTOR torID c purpose).1 := by
  cases hg : mapGet p.subnetPools torID with
  | none =>
    have hres : p.AddSubnetToTOR torID c purpose = (p, some Err.torNotFound) := by
      simp only [TopologyAwarePool.AddSubnetToTOR, hg]
    rw [hres]; exact Ext_refl p
  | some sp =>
    have hext := AddSubnet_Ext sp c purpose
    cases ha : sp.AddSubnet c purpose with
    | mk sp1 e =>
      rw [ha] at hext
      cases e with
      | some err =>
        have hres : p.AddSubnetToTOR torID c purpose =
            (TopologyAwarePool.mk p.clusterCIDR p.topology (mapPut p.subnetPools torID sp1),
              some err) := by
          simp only [TopologyAwarePool.AddSubnetToTOR, hg, ha]
        rw [hres]
        exact Ext_updatePool p p.topology torID sp sp1 hg hext (TORsKept_refl _)
      | none =>
        have hres : p.AddSubnetToTOR torID c purpose =
            (TopologyAwarePool.mk p.clusterCIDR (p.topology.AddSubnetToTOR torID c).1
              (mapPut p.subnetPools torID sp1), (p.topology.AddSubnetToTOR torID c).2) := by
          simp only [TopologyAwarePool.AddSubnetToTOR, hg, ha]
        rw [hres]
        exact Ext_updatePool p _ torID sp sp1 hg hext (AddSubnetToTOR_TORs _ _ _)

theorem topo_step_allocate_ok {t : TrackedTopo} {n purpose : String} {o1 o2 : MapOrder}
    {p' : TopologyAwarePool} {ip : IP} {c : CIDRString}
    (h : t.pool.AllocateIPForNodeWithPurpose n purpose o1 o2 = (p', Except.ok (ip, c))) :
    t.step (TopoOp.allocateIP n purpose o1 o2) = ⟨p', ip :: t.held⟩ := by
  simp only [TrackedTopo.step, h]

theorem topo_step_allocate_error {t : TrackedTopo} {n purpose : String} {o1 o2 : MapOrder}
    {p' : TopologyAwarePool} {e : Err}
    (h : t.pool.AllocateIPForNodeWithPurpose n purpose o1 o2 = (p', Except.error e)) :
    t.step (TopoOp.allocateIP n purpose o1 o2) = ⟨p', t.held⟩ := by
  simp only [TrackedTopo.step, h]

theorem topo_step_release_ok {t : TrackedTopo} {n : String} {ip : IP} {o : MapOrder}
    {p' : TopologyAwarePool} (h : t.pool.ReleaseIPForNode n ip o = (p', none)) :
    t.step (TopoOp.releaseIP n ip o) = ⟨p', t.held.filter (fun x => decide (x ≠ ip))⟩ := by
  simp only [TrackedTopo.step, h]

theorem topo_step_release_error {t : TrackedTopo} {n : String} {ip : IP} {o : MapOrder}
    {p' : TopologyAwarePool} {e : Err} (h : t.pool.ReleaseIPForNode n ip o = (p', some e)) :
    t.step (TopoOp.releaseIP n ip o) = ⟨p', t.held⟩ := by
  simp only [TrackedTopo.step, h]

/-- One call keeps the invariant of a tracked topology pool. -/
theorem Inv_step {t : TrackedTopo} (h : t.Inv) (op : TopoOp) : (t.step op).Inv := by
  cases op with
  | initializeTopology cfg => exact Inv_of_Ext h (initZones_Ext cfg.Zones t.pool h.1)
  | registerNode n nm tor labels => exact Inv_of_Ext h (RegisterNode_Ext t.pool n nm tor labels)
  | addSubnetToTOR tor c purpose => exact Inv_of_Ext h (AddSubnetToTOR_Ext t.pool tor c purpose)
  | allocateIP n purpose o1 o2 =>
    have h' : (TrackedTopo.mk t.pool t.held).Inv := h
    have := Inv_allocate h' n purpose o1 o2
    cases hr : t.pool.AllocateIPForNodeWithPurpose n purpose o1 o2 with
    | mk p' r =>
      rw [hr] at this
      cases r with
      | ok v =>
        obtain ⟨ip, c⟩ := v
        rw [topo_step_allocate_ok hr]
        exact (this.2 ip c rfl).1
      | error e =>
        rw [topo_step_allocate_error hr]
        exact this.1 e rfl
  | releaseIP n ip o =>
    have h' : (TrackedTopo.mk t.pool t.held).Inv := h
    have := Inv_release h' n ip o
    cases hr : t.pool.ReleaseIPForNode n ip o with
    | mk p' r =>
      rw [hr] at this
      cases r with
      | none =>
        rw [topo_step_release_ok hr]
        exact this.2 rfl
      | some e =>
        rw [topo_step_release_error hr]
        exact this.1 (by simp)

theorem Inv_run {t : TrackedTopo} (h : t.Inv) (ops : List TopoOp) : (t.run ops).Inv := by
  induction ops generalizing t with
  | nil => exact h
  | cons op ops ih => exact ih (Inv_step h op)

theorem Inv_init (c : CIDRString) : (TrackedTopo.mk (NewTopologyAwarePool c) []).Inv := by
  refine ⟨fun tor ht => ?_, fun tor key s hs => ?_, fun _ ip hip => ?_⟩
  · exact absurd rfl ht
  · simp [TopologyAwarePool.subnetAt, NewTopologyAwarePool, mapGet] at hs
  · simp at hip

theorem Inv_Reachable {c : CIDRString} {t : TrackedTopo}
    (h : TopologyAwarePool.ReachableFrom c t) : t.Inv := by
  obtain ⟨ops, _, rfl⟩ := h
  exact Inv_run (Inv_init c) ops

theorem IsMapOrder_id : IsMapOrder id := fun l => List.Perm.refl l

/-- C2, as stated, fails: two TORs may carry the same subnet.  With `10.244.0.0/24`
configured on `tor-1` and on `tor-2`, node `n1` on `tor-1` and `n2` on `tor-2`, the first
allocation for `n1` returns `10.244.0.1`, and the allocation for `n2` that follows returns
`10.244.0.1` again while `n1` holds it. -/
theorem C2_topology_pool_no_double_allocation_counterexample :
    ¬ (∀ (c : CIDRString) (t : TrackedTopo), TopologyAwarePool.ReachableFrom c t →
        ∀ (nodeID purpose : String) (ord₁ ord₂ : MapOrder) (ip : IP) (cidr : CIDRString),
          IsMapOrder ord₁ → IsMapOrder ord₂ →
          (t.pool.AllocateIPForNodeWithPurpose nodeID purpose ord₁ ord₂).2 =
            Except.ok (ip, cidr) → ip ∉ t.held) := by
  intro h
  have hvalid : ∀ op ∈ [TopoOp.initializeTopology
        ⟨[⟨"z1", "zone-1", [], [⟨"p1", "pod-1", [],
          [⟨"tor-1", "tor-1", "rack-1", [⟨CIDRString.v4 183762944 24, "default"⟩]⟩,
           ⟨"tor-2", "tor-2", "rack-2", [⟨CIDRString.v4 183762944 24, "default"⟩]⟩]⟩]⟩]⟩,
        TopoOp.registerNode "n1" "node-1" "tor-1" [],
        TopoOp.registerNode "n2" "node-2" "tor-2" [],
        TopoOp.allocateIP "n1" "default" id id], op.Valid := by
    intro op hop
    simp only [List.mem_cons, List.mem_singleton, List.mem_nil_iff, or_false] at hop
    rcases hop with rfl | rfl | rfl | rfl
    · exact trivial
    · exact trivial
    · exact trivial
    · exact ⟨IsMapOrder_id, IsMapOrder_id⟩
  have := h (CIDRString.v4 183762944 16) _ ⟨_, hvalid, rfl⟩ "n2" "default" id id
    (IP.v4 183762945) (CIDRString.v4 183762944 24) IsMapOrder_id IsMapOrder_id (by decide)
  exact this (by decide)

/-- C2, amended: in every topology pool reachable from `NewTopologyAwarePool` by
`InitializeTopology`, `RegisterNode`, `AddSubnetToTOR`, `AllocateIPForNodeWithPurpose` and
`ReleaseIPForNode` calls whose subnets are IPv4 networks with pairwise disjoint address
ranges over all TORs, a successful `AllocateIPForNodeWithPurpose` returns an address that
is not currently held by any node. -/
theorem C2_topology_pool_no_double_allocation_disjoint (c : CIDRString) (t : TrackedTopo)
    (hr : TopologyAwarePool.ReachableFrom c t) (hv4 : t.pool.AllV4) (hdis : t.pool.Disjoint)
    (nodeID purpose : String) (ord₁ ord₂ : MapOrder) (ip : IP) (cidr : CIDRString)
    (h : (t.pool.AllocateIPForNodeWithPurpose nodeID purpose ord₁ ord₂).2 =
      Except.ok (ip, cidr)) : ip ∉ t.held := by
  have hinv : (TrackedTopo.mk t.pool t.held).Inv := Inv_Reachable hr
  exact ((Inv_allocate hinv nodeID purpose ord₁ ord₂).2 ip cidr h).2 hv4 hdis

theorem subnetAt_single {p : TopologyAwarePool} {tor0 : String} {sp : SubnetPool}
    {k0 : CIDRString} {s0 : Subnet} (hp : p.subnetPools = [(tor0, sp)])
    (hs : sp.Subnets = [(k0, s0)]) {tor : String} {k : CIDRString} {s : Subnet}
    (h : p.subnetAt tor k = some s) : tor = tor0 ∧ k = k0 ∧ s = s0 := by
  unfold TopologyAwarePool.subnetAt at h
  rw [hp] at h
  by_cases ht : tor0 = tor
  · simp only [mapGet, ht, if_true] at h
    rw [hs] at h
    by_cases hk : k0 = k
    · simp only [mapGet, hk, if_true] at h
      exact ⟨ht.symm, hk.symm, (Option.some.inj h).symm⟩
    · simp [mapGet, hk] at h
  · simp [mapGet, ht] at h

/-- C2 amended, instance: one TOR with the subnet `10.244.0.0/24`; after two allocations
for `n1` the third returns `10.244.0.3`, which is not held. -/
theorem C2_topology_pool_no_double_allocation_disjoint_witness :
    IP.v4 183762947 ∉
      (TrackedTopo.run ⟨NewTopologyAwarePool (CIDRString.v4 183762944 16), []⟩
        [TopoOp.initializeTopology
          ⟨[⟨"z1", "zone-1", [], [⟨"p1", "pod-1", [],
            [⟨"tor-1", "tor-1", "rack-1", [⟨CIDRString.v4 183762944 24, "default"⟩]⟩]⟩]⟩]⟩,
          TopoOp.registerNode "n1" "node-1" "tor-1" [],
          TopoOp.allocateIP "n1" "default" id id,
          TopoOp.allocateIP "n1" "default" id id]).held := by
  have hvalid : ∀ op ∈ [TopoOp.initializeTopology
        ⟨[⟨"z1", "zone-1", [], [⟨"p1", "pod-1", [],
          [⟨"tor-1", "tor-1", "rack-1", [⟨CIDRString.v4 183762944 24, "default"⟩]⟩]⟩]⟩]⟩,
        TopoOp.registerNode "n1" "node-1" "tor-1" [],
        TopoOp.allocateIP "n1" "default" id id,
        TopoOp.allocateIP "n1" "default" id id], op.Valid := by
    intro op hop
    simp only [List.mem_cons, List.mem_singleton, List.mem_nil_iff, or_false] at hop
    rcases hop with rfl | rfl | rfl | rfl
    · exact trivial
    · exact trivial
    · exact ⟨IsMapOrder_id, IsMapOrder_id⟩
    · exact ⟨IsMapOrder_id, IsMapOrder_id⟩
  have hp : (TrackedTopo.run ⟨NewTopologyAwarePool (CIDRString.v4 183762944 16), []⟩
        [TopoOp.initializeTopology
          ⟨[⟨"z1", "zone-1", [], [⟨"p1", "pod-1", [],
            [⟨"tor-1", "tor-1", "rack-1", [⟨CIDRString.v4 183762944 24, "default"⟩]⟩]⟩]⟩]⟩,
          TopoOp.registerNode "n1" "node-1" "tor-1" [],
          TopoOp.allocateIP "n1" "default" id id,
          TopoOp.allocateIP "n1" "default" id id]).pool.subnetPools =
      [("tor-1", ⟨"tor-1", [(CIDRString.v4 183762944 24,
        ⟨⟨183762944, 24, 32⟩, "default", 254, 2,
          [(IP.v4 183762945, ⟨IP.v4 183762945, "n1", "", "", ""⟩),
           (IP.v4 183762946, ⟨IP.v4 183762946, "n1", "", "", ""⟩)],
          ⟨[3, 0, 0, 0], 254, 2⟩⟩)]⟩)] := by decide
  exact C2_topology_pool_no_double_allocation_disjoint (CIDRString.v4 183762944 16) _
    ⟨_, hvalid, rfl⟩
    (fun tor key s hs => by
      obtain ⟨_, _, rfl⟩ := subnetAt_single hp rfl hs
      rfl)
    (fun t1 k1 s1 t2 k2 s2 ip h1 h2 _ _ => by
      obtain ⟨e1, e2, _⟩ := subnetAt_single hp rfl h1
      obtain ⟨e3, e4, _⟩ := subnetAt_single hp rfl h2
      exact ⟨e1.trans e3.symm, e2.trans e4.symm⟩)
    "n1" "default" id id (IP.v4 183762947) (CIDRString.v4 183762944 24) (by decide)

end TopoProofs

/-! ## IPBlock: reserved addresses and the contract of `Release` -/

section BlockContract
open Bitmap

theorem Allocate_CIDR {b : IPBlock} (hb : b.WF) : b.Allocate.1.CIDR = b.CIDR := by
  rcases Allocate_cases hb with ⟨_, h⟩ | ⟨q, _, _, _, _, h⟩ <;> rw [h]

theorem Release_CIDR {b : IPBlock} (hb : b.WF) (ip : IP) : (b.Release ip).1.CIDR = b.CIDR := by
  rcases Release_cases hb ip with ⟨_, h⟩ | ⟨_, _, _, _, h⟩ | ⟨_, _, _, _, _, _, _, _, h⟩ |
    ⟨_, _, _, _, _, _, _, _, h⟩ <;> rw [h]

theorem Reachable_CIDR {a p : Nat} {nodeID : String} {b : IPBlock} (ha : a < 2 ^ 32)
    (h : IPBlock.Reachable (CIDRString.v4 a p) nodeID b) :
    b.CIDR = ⟨maskAddr a p 32, p, 32⟩ := by
  induction h with
  | init b hnew => rw [(WF_NewIPBlock ha hnew).2.2]
  | allocate b hr ih => rw [Allocate_CIDR (Reachable_WF_block ha hr), ih]
  | release b ip hr ih => rw [Release_CIDR (Reachable_WF_block ha hr), ih]

/-- C11: in every state of a block made by `NewIPBlock` from an IPv4 CIDR `a/p`, whose
network address is `a` with the host bits cleared, an address a successful `Allocate`
returns lies in the CIDR of the block and is neither the network address nor the
broadcast address (network address plus `2 ^ (32 - p) - 1`); and
`ipToPosition (positionToIP pos) = pos` for every position `pos` of `[0, Total)`. -/
theorem C11_network_and_broadcast_never_allocated (a p : Nat) (nodeID : String)
    (b : IPBlock) (ha : a < 2 ^ 32) (hr : IPBlock.Reachable (CIDRString.v4 a p) nodeID b) :
    b.CIDR = ⟨maskAddr a p 32, p, 32⟩ ∧
    (∀ ip, b.Allocate.2 = Except.ok ip →
      b.CIDR.Contains ip = true ∧ ip ≠ IP.v4 (maskAddr a p 32) ∧
      ip ≠ IP.v4 (maskAddr a p 32 + 2 ^ (32 - p) - 1)) ∧
    (∀ pos : Int, 0 ≤ pos → pos < b.Total → b.ipToPosition (b.positionToIP pos) = pos) := by
  have hb := Reachable_WF_block ha hr
  have hc := Reachable_CIDR ha hr
  obtain ⟨ht, h4, hrange⟩ := WF_total_nat hb
  have haddr : b.CIDR.addr = maskAddr a p 32 := by rw [hc]
  have hones : b.CIDR.ones = p := by rw [hc]
  rw [hones] at ht h4 hrange
  rw [haddr] at hrange
  refine ⟨hc, ?_, ?_⟩
  · intro ip hip
    rcases Allocate_cases hb with ⟨_, h⟩ | ⟨q, _, hq, _, _, h⟩
    · rw [h] at hip; exact Except.noConfusion hip
    · rw [h] at hip
      have hipe : ip = IP.v4 (b.CIDR.addr + q + 1) := (Except.ok.inj hip).symm
      rw [hipe, haddr]
      have hqT : q + 2 < 2 ^ (32 - p) := by omega
      refine ⟨?_, ?_, ?_⟩
      · have := (CIDR_Contains_v4 hb (maskAddr a p 32 + q + 1)).2
        rw [haddr, hones] at this
        exact this ⟨by omega, by omega⟩
      · intro he
        have := IP.v4.inj he
        omega
      · intro he
        have := IP.v4.inj he
        omega
  · intro pos h0 hT
    obtain ⟨q, rfl⟩ := Int.eq_ofNat_of_zero_le h0
    have hqT : q + 2 < 2 ^ (32 - p) := by omega
    rw [positionToIP_WF hb q hT]
    have hin : b.CIDR.Contains (IP.v4 (b.CIDR.addr + q + 1)) = true := by
      rw [CIDR_Contains_v4 hb, hones, haddr]
      exact ⟨by omega, by omega⟩
    rw [ipToPosition_WF hb _ hin]
    push_cast
    omega

/-- C11, instance: the first address of the fresh block `10.244.0.0/24` is `10.244.0.1`. -/
theorem C11_network_and_broadcast_never_allocated_witness :
    (183762944 : Nat) < 2 ^ 32 ∧
    (IPBlock.mk ⟨183762944, 24, 32⟩ "n1" 254 0 (NewBitmap 254)).Allocate.2 =
      Except.ok (IP.v4 183762945) ∧
    (IPNet.mk 183762944 24 32).Contains (IP.v4 183762945) = true ∧
    IP.v4 183762945 ≠ IP.v4 (maskAddr 183762944 24 32) ∧
    IP.v4 183762945 ≠ IP.v4 (maskAddr 183762944 24 32 + 2 ^ (32 - 24) - 1) :=
  ⟨by decide, by decide,
    (C11_network_and_broadcast_never_allocated 183762944 24 "n1"
      (IPBlock.mk ⟨183762944, 24, 32⟩ "n1" 254 0 (NewBitmap 254)) (by decide)
      (IPBlock.Reachable.init _ (by decide))).2.1 (IP.v4 183762945) (by decide)⟩

/-- The bit of the position of a contained address decides `Contains`. -/
theorem Contains_position {b : IPBlock} (hb : b.WF) {x q : Nat}
    (hx : x = b.CIDR.addr + q + 1) (hq : (q : Int) < b.Total) :
    b.Contains (IP.v4 x) = bitAt b.bitmap q := by
  cases hbit : bitAt b.bitmap q with
  | true => exact (Contains_iff hb _).2 ⟨q, by rw [hx], hq, hbit⟩
  | false =>
    cases hc : b.Contains (IP.v4 x) with
    | false => rfl
    | true =>
      obtain ⟨q', hq', _, hbit'⟩ := (Contains_iff hb _).1 hc
      have : q' = q := by have := IP.v4.inj hq'; omega
      rw [this, hbit] at hbit'
      exact Bool.noConfusion hbit'

/-- C12: for every state `b` of a block made by `NewIPBlock` from an IPv4 CIDR `a/p` and
every address `ip`: `Release(ip)` returns `ErrIPNotInBlock` when `ip` is outside the CIDR,
`ErrInvalidIP` when `ip` is the network or the broadcast address, and an error (the
bitmap's `already clear`) when `ip` is a usable address that is not allocated; a failing
call leaves the block as it was; the call succeeds exactly when `Contains(ip)` holds, and
then `Used` is one less and `Contains(ip)` is false. -/
theorem C12_release_error_contract (a p : Nat) (nodeID : String) (b : IPBlock) (ip : IP)
    (ha : a < 2 ^ 32) (hr : IPBlock.Reachable (CIDRString.v4 a p) nodeID b) :
    (b.CIDR.Contains ip = false → b.Release ip = (b, some Err.ErrIPNotInBlock)) ∧
    (ip = IP.v4 (maskAddr a p 32) ∨ ip = IP.v4 (maskAddr a p 32 + 2 ^ (32 - p) - 1) →
      b.Release ip = (b, some Err.ErrInvalidIP)) ∧
    (b.CIDR.Contains ip = true → ip ≠ IP.v4 (maskAddr a p 32) →
      ip ≠ IP.v4 (maskAddr a p 32 + 2 ^ (32 - p) - 1) → b.Contains ip = false →
      b.Release ip = (b, some Err.bitAlreadyClear)) ∧
    (∀ e, (b.Release ip).2 = some e → (b.Release ip).1 = b) ∧
    ((b.Release ip).2 = none ↔ b.Contains ip = true) ∧
    ((b.Release ip).2 = none →
      (b.Release ip).1.Used = b.Used - 1 ∧ (b.Release ip).1.Contains ip = false) := by
  have hb := Reachable_WF_block ha hr
  have hc := Reachable_CIDR ha hr
  obtain ⟨ht, h4, hrange⟩ := WF_total_nat hb
  have haddr : b.CIDR.addr = maskAddr a p 32 := by rw [hc]
  have hones : b.CIDR.ones = p := by rw [hc]
  rw [hones] at ht h4 hrange
  rw [← haddr]
  rcases Release_cases hb ip with ⟨hout, h⟩ | ⟨x, rfl, hin, hpos, h⟩ |
    ⟨x, q, rfl, hin, hx, hq, hqT, hbit, h⟩ | ⟨x, q, rfl, hin, hx, hq, hqT, hbit, h⟩
  · have hnc : b.Contains ip = false := by
      cases hcon : b.Contains ip with
      | false => rfl
      | true => rw [Contains_CIDR hcon] at hout; exact Bool.noConfusion hout
    refine ⟨fun _ => h, ?_, ?_, ?_, ?_, ?_⟩
    · rintro (rfl | rfl)
      · have : b.CIDR.Contains (IP.v4 b.CIDR.addr) = true := by
          rw [CIDR_Contains_v4 hb, hones]; exact ⟨Nat.le_refl _, by omega⟩
        rw [this] at hout; exact Bool.noConfusion hout
      · have : b.CIDR.Contains (IP.v4 (b.CIDR.addr + 2 ^ (32 - p) - 1)) = true := by
          rw [CIDR_Contains_v4 hb, hones]; exact ⟨by omega, by omega⟩
        rw [this] at hout; exact Bool.noConfusion hout
    · intro hin; rw [hin] at hout; exact Bool.noConfusion hout
    · intro e _; rw [h]
    · rw [h, hnc]; simp
    · rw [h]; intro hn; simp at hn
  · have hr2 := (CIDR_Contains_v4 hb x).1 hin
    rw [hones] at hr2
    have hp := ipToPosition_WF hb x hin
    have hnc : b.Contains (IP.v4 x) = false := by
      cases hcon : b.Contains (IP.v4 x) with
      | false => rfl
      | true =>
        obtain ⟨q, hq, hqT, _⟩ := (Contains_iff hb _).1 hcon
        have := IP.v4.inj hq
        omega
    refine ⟨fun hout => by rw [hin] at hout; exact Bool.noConfusion hout, fun _ => h, ?_,
      ?_, ?_, ?_⟩
    · intro _ hn hbr _
      exfalso
      rcases hpos with hpos | hpos
      · exact hn (by congr 1; omega)
      · exact hbr (by congr 1; omega)
    · intro e _; rw [h]
    · rw [h, hnc]; simp
    · rw [h]; intro hn; simp at hn
  · have hnc : b.Contains (IP.v4 x) = false := by rw [Contains_position hb hx hqT, hbit]
    refine ⟨fun hout => by rw [hin] at hout; exact Bool.noConfusion hout, ?_, fun _ _ _ _ => h,
      ?_, ?_, ?_⟩
    · rintro (he | he) <;> have := IP.v4.inj he <;> omega
    · intro e _; rw [h]
    · rw [h, hnc]; simp
    · rw [h]; intro hn; simp at hn
  · have hcon : b.Contains (IP.v4 x) = true := by rw [Contains_position hb hx hqT, hbit]
    have hwf' := WF_Release hb (IP.v4 x)
    have hS : (q : Int) < b.bitmap.size := by rw [hb.size]; exact hqT
    refine ⟨fun hout => by rw [hin] at hout; exact Bool.noConfusion hout, ?_, ?_, ?_, ?_, ?_⟩
    · rintro (he | he) <;> have := IP.v4.inj he <;> omega
    · intro _ _ _ hn; rw [hcon] at hn; exact Bool.noConfusion hn
    · intro e he; rw [h] at he; simp at he
    · rw [h, hcon]; simp
    · intro _
      have hx' : x = (b.Release (IP.v4 x)).1.CIDR.addr + q + 1 := by
        rw [Release_CIDR hb]; exact hx
      have hT' : (q : Int) < (b.Release (IP.v4 x)).1.Total := by rw [h]; exact hqT
      rw [Contains_position hwf' hx' hT']
      rw [h]
      refine ⟨rfl, ?_⟩
      show bitAt (b.bitmap.Clear (q : Int)).1 q = false
      rw [Clear_ok _ hS hbit, bitAt_set_andNot _ _ _ _ (word_index_lt hb.bm hS)]
      simp

/-- C12, instance: in the block `10.244.0.0/24` after one allocation, releasing the
network address `10.244.0.0` fails with `ErrInvalidIP` and changes nothing. -/
theorem C12_release_error_contract_witness :
    (183762944 : Nat) < 2 ^ 32 ∧
    IPBlock.Reachable (CIDRString.v4 183762944 24) "n1"
      (IPBlock.mk ⟨183762944, 24, 32⟩ "n1" 254 0 (NewBitmap 254)).Allocate.1 ∧
    (IPBlock.mk ⟨183762944, 24, 32⟩ "n1" 254 0 (NewBitmap 254)).Allocate.1.Release
        (IP.v4 183762944) =
      ((IPBlock.mk ⟨183762944, 24, 32⟩ "n1" 254 0 (NewBitmap 254)).Allocate.1,
        some Err.ErrInvalidIP) :=
  ⟨by decide,
    IPBlock.Reachable.allocate _ (IPBlock.Reachable.init _ (by decide)),
    (C12_release_error_contract 183762944 24 "n1"
      (IPBlock.mk ⟨183762944, 24, 32⟩ "n1" 254 0 (NewBitmap 254)).Allocate.1
      (IP.v4 183762944) (by decide)
      (IPBlock.Reachable.allocate _ (IPBlock.Reachable.init _ (by decide)))).2.1
      (Or.inl (by decide))⟩

end BlockContract

/-! ## IPv6 blocks and dual-stack blocks -/

section IPv6Proofs
open Bitmap

theorem Set_error_unchanged (b : Bitmap) (pos : Int) (h : (b.Set pos).2 ≠ none) :
    (b.Set pos).1 = b := by
  unfold Bitmap.Set at h ⊢
  simp only [] at h ⊢
  split_ifs at h ⊢
  · rfl
  · rfl
  · exact absurd rfl h

theorem Clear_error_unchanged (b : Bitmap) (pos : Int) (h : (b.Clear pos).2 ≠ none) :
    (b.Clear pos).1 = b := by
  unfold Bitmap.Clear at h ⊢
  simp only [] at h ⊢
  split_ifs at h ⊢
  · rfl
  · rfl
  · exact absurd rfl h

theorem IPv6Block_eta (b : IPv6Block) {bm : Bitmap} (h : b.bitmap = some bm) :
    IPv6Block.mk b.CIDR b.NodeID b.Total b.Used (some bm) = b := by
  cases b
  simp only at h
  rw [h]

/-- A failing `Allocate` leaves an IPv6 block as it was, whatever its state. -/
theorem V6_Allocate_error (b : IPv6Block) {e : Err} (h : b.Allocate.2 = Except.error e) :
    b.Allocate.1 = b := by
  cases hbm : b.bitmap with
  | none =>
    by_cases hu : b.Used ≥ b.Total
    · have hres : b.Allocate = (b, Except.error Err.ErrNoAvailableIP) := by
        simp only [IPv6Block.Allocate, hbm, hu, if_true]
      rw [hres]
    · have hres : b.Allocate = (IPv6Block.mk b.CIDR b.NodeID b.Total (toInt64 (b.Used + 1)) none,
          Except.ok (b.positionToIPv6 b.Used)) := by
        simp only [IPv6Block.Allocate, hbm, hu, if_false]
      rw [hres] at h
      exact Except.noConfusion h
  | some bm =>
    by_cases hp : bm.FindFirstZero = -1
    · have hres : b.Allocate = (b, Except.error Err.ErrNoAvailableIP) := by
        simp only [IPv6Block.Allocate, hbm, hp, if_true]
      rw [hres]
    · cases hset : bm.Set bm.FindFirstZero with
      | mk bm' r =>
        cases r with
        | none =>
          have hres : b.Allocate =
              (IPv6Block.mk b.CIDR b.NodeID b.Total (toInt64 (b.Used + 1)) (some bm'),
                Except.ok (b.positionToIPv6 bm.FindFirstZero)) := by
            simp only [IPv6Block.Allocate, hbm, hp, if_false, hset]
          rw [hres] at h
          exact Except.noConfusion h
        | some err =>
          have hres : b.Allocate =
              (IPv6Block.mk b.CIDR b.NodeID b.Total b.Used (some bm'), Except.error err) := by
            simp only [IPv6Block.Allocate, hbm, hp, if_false, hset]
          have hbm' : bm' = bm := by
            have := Set_error_unchanged bm bm.FindFirstZero (by rw [hset]; simp)
            rw [hset] at this
            exact this
          rw [hres, hbm']
          exact IPv6Block_eta b hbm

theorem V6_used_range {b : IPv6Block} (hb : b.WF) : 0 ≤ b.Used ∧ b.Used ≤ b.Total := by
  cases hbm : b.bitmap with
  | none => exact hb.seq hbm
  | some bm =>
    obtain ⟨hwf, hu, hs⟩ := hb.bm bm hbm
    have := popcount_le bm
    have hc := hwf.count
    have hn := hwf.nonneg
    omega

/-- What `Allocate` does on a well-formed IPv6 block. -/
theorem V6_Allocate_cases {b : IPv6Block} (hb : b.WF) :
    (b.Total ≤ b.Used ∧ b.Allocate = (b, Except.error Err.ErrNoAvailableIP)) ∨
    (∃ (bm : Bitmap) (q : Nat), b.bitmap = some bm ∧ bm.FindFirstZero = (q : Int) ∧
      (q : Int) < b.Total ∧ bitAt bm q = false ∧ (∀ q' : Nat, q' < q → bitAt bm q' = true) ∧
      b.Allocate = (IPv6Block.mk b.CIDR b.NodeID b.Total (b.Used + 1)
        (some (bm.Set (q : Int)).1), Except.ok (b.positionToIPv6 (q : Int)))) ∨
    (b.bitmap = none ∧ b.Used < b.Total ∧
      b.Allocate = (IPv6Block.mk b.CIDR b.NodeID b.Total (b.Used + 1) none,
        Except.ok (b.positionToIPv6 b.Used))) := by
  obtain ⟨hu0, huT⟩ := V6_used_range hb
  obtain ⟨hT0, hT32⟩ := hb.total
  cases hbm : b.bitmap with
  | none =>
    by_cases hu : b.Used ≥ b.Total
    · left
      refine ⟨hu, ?_⟩
      simp only [IPv6Block.Allocate, hbm, hu, if_true]
    · right; right
      refine ⟨rfl, by omega, ?_⟩
      simp only [IPv6Block.Allocate, hbm, hu, if_false]
      rw [toInt64_of_range (by omega) (by omega)]
  | some bm =>
    obtain ⟨hwf, hused, hsize⟩ := hb.bm bm hbm
    rcases FindFirstZero_spec bm hwf with ⟨hr, hall⟩ | ⟨q, hr, hq, hun, hbelow⟩
    · left
      constructor
      · have hpc : popcount bm = bm.size.toNat := by
          unfold popcount
          rw [List.filter_eq_self.2, List.length_range]
          intro p hp
          rw [List.mem_range] at hp
          exact hall p (by omega)
        have := hwf.count
        have := hwf.nonneg
        omega
      · simp only [IPv6Block.Allocate, hbm, hr, if_true]
    · right; left
      have hbit : bitAt bm q = false := by
        rw [IsSet_natCast] at hun; simpa [hq] using hun
      refine ⟨bm, q, rfl, hr, by rw [← hsize]; exact hq, hbit, ?_, ?_⟩
      · intro q' hq'
        have := hbelow q' hq'
        rw [IsSet_natCast] at this
        simp only [Bool.and_eq_true, decide_eq_true_eq] at this
        exact this.2
      · have hne : ¬ ((q : Int) = -1) := by omega
        have hset := Set_ok bm hq hbit
        simp only [IPv6Block.Allocate, hbm, hr, hne, if_false, hset]
        rw [toInt64_of_range (by omega) (by omega)]

theorem V6_WF_Allocate {b : IPv6Block} (hb : b.WF) : b.Allocate.1.WF := by
  obtain ⟨hu0, huT⟩ := V6_used_range hb
  rcases V6_Allocate_cases hb with ⟨_, h⟩ | ⟨bm, q, hbm, _, hq, hbit, _, h⟩ | ⟨hbm, hlt, h⟩
  · rw [h]; exact hb
  · rw [h]
    obtain ⟨hwf, hused, hsize⟩ := hb.bm bm hbm
    have hqS : (q : Int) < bm.size := by rw [hsize]; exact hq
    refine ⟨?_, ?_, hb.total⟩
    · intro bm' hbm'
      have : (bm.Set (q : Int)).1 = bm' := Option.some.inj hbm'
      rw [← this]
      refine ⟨WF_Set bm hwf _, ?_, by rw [Set_size]; exact hsize⟩
      show b.Used + 1 = (bm.Set (q : Int)).1.allocated
      rw [Set_ok bm hqS hbit, hused]
    · intro hn; exact Option.noConfusion hn
  · rw [h]
    refine ⟨?_, ?_, hb.total⟩
    · intro bm' hbm'; exact Option.noConfusion hbm'
    · intro _
      show 0 ≤ b.Used + 1 ∧ b.Used + 1 ≤ b.Total
      omega

theorem V6_WF_Release {b : IPv6Block} (hb : b.WF) (ip : IP) : (b.Release ip).1.WF := by
  obtain ⟨hu0, huT⟩ := V6_used_range hb
  obtain ⟨hT0, hT32⟩ := hb.total
  by_cases hc : b.CIDR.Contains ip = true
  · cases hbm : b.bitmap with
    | none =>
      by_cases hu : b.Used > 0
      · have hres : b.Release ip =
            (IPv6Block.mk b.CIDR b.NodeID b.Total (b.Used - 1) none, none) := by
          simp only [IPv6Block.Release, hc, Bool.not_true, Bool.false_eq_true, if_false, hbm,
            hu, if_true]
          rw [toInt64_of_range (by omega) (by omega)]
        rw [hres]
        refine ⟨?_, ?_, hb.total⟩
        · intro bm' hbm'; exact Option.noConfusion hbm'
        · intro _
          show 0 ≤ b.Used - 1 ∧ b.Used - 1 ≤ b.Total
          omega
      · have hres : b.Release ip = (b, none) := by
          simp only [IPv6Block.Release, hc, Bool.not_true, Bool.false_eq_true, if_false, hbm,
            hu]
        rw [hres]; exact hb
    | some bm =>
      obtain ⟨hwf, hused, hsize⟩ := hb.bm bm hbm
      by_cases hp : b.ipv6ToPosition ip < 0 ∨ b.ipv6ToPosition ip ≥ bm.size
      · have hres : b.Release ip = (b, some Err.ErrInvalidIP) := by
          simp only [IPv6Block.Release, hc, Bool.not_true, Bool.false_eq_true, if_false, hbm,
            hp, if_true]
        rw [hres]; exact hb
      · rcases Clear_cases bm hwf (b.ipv6ToPosition ip) with ⟨_, hcl⟩ | ⟨_, _, _, _, hcl⟩ |
          ⟨q, hq, hqS, hbit, hnone, hsz, hal, _, _, _⟩
        · have hres : b.Release ip =
              (IPv6Block.mk b.CIDR b.NodeID b.Total b.Used (some bm),
                some Err.positionOutOfRange) := by
            simp only [IPv6Block.Release, hc, Bool.not_true, Bool.false_eq_true, if_false, hbm,
              hp, hcl]
          rw [hres, IPv6Block_eta b hbm]; exact hb
        · have hres : b.Release ip =
              (IPv6Block.mk b.CIDR b.NodeID b.Total b.Used (some bm),
                some Err.bitAlreadyClear) := by
            simp only [IPv6Block.Release, hc, Bool.not_true, Bool.false_eq_true, if_false, hbm,
              hp, hcl]
          rw [hres, IPv6Block_eta b hbm]; exact hb
        · have hwf' := WF_Clear bm hwf (b.ipv6ToPosition ip)
          have hcl : bm.Clear (b.ipv6ToPosition ip) =
              ((bm.Clear (b.ipv6ToPosition ip)).1, none) := by
            rw [← hnone]
          have hpc := popcount_le (bm.Clear (b.ipv6ToPosition ip)).1
          have hcnt := hwf'.count
          have hnn := hwf'.nonneg
          have hres : b.Release ip =
              (IPv6Block.mk b.CIDR b.NodeID b.Total (b.Used - 1)
                (some (bm.Clear (b.ipv6ToPosition ip)).1), none) := by
            simp only [IPv6Block.Release, hc, Bool.not_true, Bool.false_eq_true, if_false, hbm,
              hp]
            rw [hcl]
            simp only []
            rw [toInt64_of_range (by omega) (by omega)]
          rw [hres]
          refine ⟨?_, ?_, hb.total⟩
          · intro bm' hbm'
            have : (bm.Clear (b.ipv6ToPosition ip)).1 = bm' := Option.some.inj hbm'
            rw [← this]
            refine ⟨hwf', ?_, by rw [hsz]; exact hsize⟩
            show b.Used - 1 = _
            rw [hal, hused]
          · intro hn; exact Option.noConfusion hn
  · have hres : b.Release ip = (b, some Err.ErrIPNotInBlock) := by
      rw [Bool.not_eq_true] at hc
      simp only [IPv6Block.Release, hc, Bool.not_false, if_true]
    rw [hres]; exact hb

/-- Releasing the address an `Allocate` has just returned gives back the block from
before the `Allocate`. -/
theorem Release_after_Allocate {b b' : IPBlock} {ip : IP} (hb : b.WF)
    (h : b.Allocate = (b', Except.ok ip)) : b'.Release ip = (b, none) := by
  obtain ⟨hcidr, _, _, hcon⟩ := Allocate_ok_Contains hb h
  have hb' : b'.WF := by
    have := WF_Allocate hb
    rw [h] at this
    exact this
  rcases Allocate_cases hb with ⟨_, ha⟩ | ⟨q, _, hqT, hbit, _, ha⟩
  · rw [ha] at h
    exact Except.noConfusion (Prod.mk.inj h).2
  · rw [ha] at h
    obtain ⟨hb1, hip⟩ := Prod.mk.inj h
    have hip' : IP.v4 (b.CIDR.addr + q + 1) = ip := Except.ok.inj hip
    have hc : b'.Contains ip = true := by rw [hcon]; simp
    obtain ⟨x, p, hx, hxp, _, _, _, hrel⟩ := Contains_WF hb' hc
    have hpq : p = q := by
      rw [← hip'] at hx
      have := IP.v4.inj hx
      rw [hcidr] at hxp
      omega
    rw [hrel, hpq, ← hb1]
    have hS : (q : Int) < b.bitmap.size := by rw [hb.size]; exact hqT
    have hok : (b.bitmap.Set (q : Int)).2 = none := by rw [Set_ok _ hS hbit]
    have hclr := Clear_after_Set b.bitmap hb.bm (q : Int) hok
    show (IPBlock.mk b.CIDR b.NodeID b.Total (b.Used + 1 - 1)
      ((b.bitmap.Set (q : Int)).1.Clear (q : Int)).1, none) = (b, none)
    rw [hclr]
    cases b
    simp

theorem NewDualStackBlock_spec {c4 c6 : CIDRString} {n : String} {d : DualStackBlock}
    (h : NewDualStackBlock c4 c6 n = Except.ok d) :
    NewIPBlock c4 n = Except.ok d.IPv4Block ∧ NewIPv6Block c6 n = Except.ok d.IPv6Block := by
  unfold NewDualStackBlock at h
  cases h4 : NewIPBlock c4 n with
  | error e => rw [h4] at h; exact Except.noConfusion h
  | ok b4 =>
    cases h6 : NewIPv6Block c6 n with
    | error e => rw [h4, h6] at h; exact Except.noConfusion h
    | ok b6 =>
      rw [h4, h6] at h
      have := Except.ok.inj h
      rw [← this]
      exact ⟨rfl, rfl⟩

/-- The three outcomes of `AllocateDualStack`, over an IPv4 block that is well-formed. -/
theorem AllocateDualStack_cases {d : DualStackBlock} (h4 : d.IPv4Block.WF) :
    (∃ e, d.IPv4Block.Allocate = (d.IPv4Block, Except.error e) ∧
      d.AllocateDualStack = (d, Except.error e)) ∨
    (∃ b4 ipv4 e, d.IPv4Block.Allocate = (b4, Except.ok ipv4) ∧
      d.IPv6Block.Allocate = (d.IPv6Block, Except.error e) ∧
      d.AllocateDualStack = (d, Except.error e)) ∨
    (∃ b4 ipv4 b6 ipv6, d.IPv4Block.Allocate = (b4, Except.ok ipv4) ∧
      d.IPv6Block.Allocate = (b6, Except.ok ipv6) ∧
      d.AllocateDualStack = (DualStackBlock.mk b4 b6 d.NodeID, Except.ok (ipv4, ipv6))) := by
  cases ha : d.IPv4Block.Allocate with
  | mk b4 r4 =>
    cases r4 with
    | error e =>
      left
      have hb4 : b4 = d.IPv4Block := by
        have := Allocate_error h4 ha
        exact this
      subst hb4
      refine ⟨e, rfl, ?_⟩
      simp only [DualStackBlock.AllocateDualStack, ha]
    | ok ipv4 =>
      right
      cases ha6 : d.IPv6Block.Allocate with
      | mk b6 r6 =>
        cases r6 with
        | error e =>
          left
          have hb6 : b6 = d.IPv6Block := by
            have := V6_Allocate_error d.IPv6Block (e := e) (by rw [ha6])
            rw [ha6] at this
            exact this
          subst hb6
          refine ⟨b4, ipv4, e, rfl, rfl, ?_⟩
          simp only [DualStackBlock.AllocateDualStack, ha, ha6, Release_after_Allocate h4 ha]
        | ok ipv6 =>
          right
          refine ⟨b4, ipv4, b6, ipv6, rfl, rfl, ?_⟩
          simp only [DualStackBlock.AllocateDualStack, ha, ha6]

theorem Dual_v4_Reachable {c4 c6 : CIDRString} {n : String} {d : DualStackBlock} {a p : Nat}
    (ha : a < 2 ^ 32) (hc4 : c4 = CIDRString.v4 a p)
    (h : DualStackBlock.Reachable c4 c6 n d) :
    IPBlock.Reachable c4 n d.IPv4Block := by
  induction h with
  | init d hnew => exact IPBlock.Reachable.init _ (NewDualStackBlock_spec hnew).1
  | allocateDual d _ ih =>
    have hwf : d.IPv4Block.WF := Reachable_WF_block ha (hc4 ▸ ih)
    rcases AllocateDualStack_cases hwf with ⟨e, _, h⟩ | ⟨b4, ipv4, e, _, _, h⟩ |
      ⟨b4, ipv4, b6, ipv6, h4, _, h⟩
    · rw [h]; exact ih
    · rw [h]; exact ih
    · rw [h]
      have := IPBlock.Reachable.allocate _ ih
      rw [h4] at this
      exact this
  | releaseDual d ipv4 ipv6 _ ih => exact IPBlock.Reachable.release _ ipv4 ih
  | allocate4 d _ ih => exact IPBlock.Reachable.allocate _ ih
  | release4 d ip _ ih => exact IPBlock.Reachable.release _ ip ih
  | allocate6 d _ ih => exact ih
  | release6 d ip _ ih => exact ih

/-- What `NewIPv6Block` returns: the CIDR is an IPv6 one with fewer than 128 prefix bits
whose network is not of the IPv4-in-IPv6 form. -/
theorem NewIPv6Block_spec {c : CIDRString} {n : String} {b : IPv6Block}
    (h : NewIPv6Block c n = Except.ok b) :
    ∃ a k : Nat, c = CIDRString.v6 a k ∧ a < 2 ^ 128 ∧ k < 128 ∧
      isV4Mapped (maskAddr a k 128) = false ∧ b.CIDR = ⟨maskAddr a k 128, k, 128⟩ ∧
      b.NodeID = n ∧ b.Used = 0 ∧
      (128 - k ≤ 32 → b.Total = 2 ^ (128 - k) ∧ b.bitmap = some (NewBitmap (2 ^ (128 - k)))) ∧
      (32 < 128 - k → b.Total = 2 ^ 32 ∧ b.bitmap = none) := by
  unfold NewIPv6Block at h
  cases c with
  | invalid t => simp [ParseCIDR] at h
  | v4 a k =>
    simp only [ParseCIDR] at h
    split_ifs at h
    simp [IPNet.To4] at h
  | v6 a k =>
    simp only [ParseCIDR] at h
    by_cases hcond : a < 2 ^ 128 ∧ k ≤ 128
    · rw [if_pos hcond] at h
      simp only [IPNet.To4] at h
      rw [if_neg (by decide)] at h
      by_cases hm : isV4Mapped (maskAddr a k 128) = true
      · rw [if_pos hm] at h
        exact Except.noConfusion h
      · rw [if_neg hm] at h
        simp only [] at h
        by_cases hk : k ≥ 128
        · rw [if_pos hk] at h
          exact Except.noConfusion h
        · rw [if_neg hk] at h
          have hb := (Except.ok.inj h).symm
          subst hb
          refine ⟨a, k, rfl, hcond.1, by omega, by simpa using hm, rfl, rfl, rfl,
            fun hc => ?_, fun hc => ?_⟩
          · have hnot : ¬ (128 - k > 32) := by omega
            simp only [hnot, hc, if_true, if_false, and_self]
          · have hnot : ¬ (128 - k ≤ 32) := by omega
            simp only [hnot, hc, if_true, if_false, and_self]
    · rw [if_neg hcond] at h
      simp at h

theorem V6_WF_New {c : CIDRString} {n : String} {b : IPv6Block}
    (h : NewIPv6Block c n = Except.ok b) : b.WF := by
  obtain ⟨a, k, _, _, hk, _, _, _, hu, hsmall, hbig⟩ := NewIPv6Block_spec h
  by_cases h32 : 128 - k ≤ 32
  · obtain ⟨ht, hbm⟩ := hsmall h32
    have hle := two_pow_le_of_le_32 (128 - k) h32
    have hpos : (0 : Int) ≤ 2 ^ (128 - k) := by positivity
    refine ⟨?_, ?_, by rw [ht]; exact ⟨hpos, hle⟩⟩
    · intro bm hb
      rw [hbm] at hb
      have := (Option.some.inj hb).symm
      subst this
      exact ⟨WF_NewBitmap hpos, by rw [hu]; rfl, by rw [ht]; rfl⟩
    · intro hn; rw [hbm] at hn; exact Option.noConfusion hn
  · obtain ⟨ht, hbm⟩ := hbig (by omega)
    refine ⟨?_, ?_, by rw [ht]; exact ⟨by norm_num, le_refl _⟩⟩
    · intro bm hb; rw [hbm] at hb; exact Option.noConfusion hb
    · intro _; rw [hu, ht]; exact ⟨le_refl _, by norm_num⟩

theorem Dual_v6_WF {c4 c6 : CIDRString} {n : String} {d : DualStackBlock} {a p : Nat}
    (ha : a < 2 ^ 32) (hc4 : c4 = CIDRString.v4 a p)
    (h : DualStackBlock.Reachable c4 c6 n d) : d.IPv6Block.WF := by
  induction h with
  | init d hnew => exact V6_WF_New (NewDualStackBlock_spec hnew).2
  | allocateDual d hr ih =>
    have hwf : d.IPv4Block.WF := Reachable_WF_block ha (hc4 ▸ Dual_v4_Reachable ha hc4 hr)
    rcases AllocateDualStack_cases hwf with ⟨e, _, h⟩ | ⟨b4, ipv4, e, _, _, h⟩ |
      ⟨b4, ipv4, b6, ipv6, _, h6, h⟩
    · rw [h]; exact ih
    · rw [h]; exact ih
    · rw [h]
      have := V6_WF_Allocate ih
      rw [h6] at this
      exact this
  | releaseDual d ipv4 ipv6 _ ih => exact V6_WF_Release ih ipv6
  | allocate4 d _ ih => exact ih
  | release4 d ip _ ih => exact ih
  | allocate6 d _ ih => exact V6_WF_Allocate ih
  | release6 d ip _ ih => exact V6_WF_Release ih ip

/-- C13: in every state of a dual-stack block made by `NewDualStackBlock` from an IPv4
CIDR and any second CIDR, an `AllocateDualStack` that returns an error leaves the whole
block, the IPv4 block and the IPv6 block, as it was before the call; this is what happens
in particular when the IPv6 `Allocate` fails, the IPv4 address being released again.  A
successful call takes exactly the address `ipv4` from the IPv4 block (`Used` one more, the
address not allocated before and allocated after, nothing else changed) and exactly one
address from the IPv6 block (`Used` one more; with a bitmap, one position newly set, of
which `ipv6` is the address). -/
theorem C13_dual_stack_atomicity (a p : Nat) (c6 : CIDRString) (nodeID : String)
    (d : DualStackBlock) (ha : a < 2 ^ 32)
    (hr : DualStackBlock.Reachable (CIDRString.v4 a p) c6 nodeID d) :
    (∀ e, d.AllocateDualStack.2 = Except.error e → d.AllocateDualStack.1 = d) ∧
    (∀ e, d.IPv6Block.Allocate.2 = Except.error e →
      ∃ e', d.AllocateDualStack = (d, Except.error e')) ∧
    (∀ ipv4 ipv6, d.AllocateDualStack.2 = Except.ok (ipv4, ipv6) →
      d.AllocateDualStack.1.IPv4Block.Used = d.IPv4Block.Used + 1 ∧
      d.IPv4Block.Contains ipv4 = false ∧
      (∀ ip, d.AllocateDualStack.1.IPv4Block.Contains ip =
        (decide (ip = ipv4) || d.IPv4Block.Contains ip)) ∧
      d.AllocateDualStack.1.IPv6Block.Used = d.IPv6Block.Used + 1 ∧
      (d.IPv6Block.bitmap = none → d.AllocateDualStack.1.IPv6Block.bitmap = none) ∧
      (∀ bm, d.IPv6Block.bitmap = some bm →
        ∃ (bm' : Bitmap) (q : Nat), d.AllocateDualStack.1.IPv6Block.bitmap = some bm' ∧
          ipv6 = d.IPv6Block.positionToIPv6 (q : Int) ∧
          bm.IsSet (q : Int) = false ∧ bm'.IsSet (q : Int) = true ∧
          ∀ pos : Int, pos ≠ (q : Int) → bm'.IsSet pos = bm.IsSet pos)) := by
  have h4 : d.IPv4Block.WF := Reachable_WF_block ha (Dual_v4_Reachable ha rfl hr)
  have h6 : d.IPv6Block.WF := Dual_v6_WF ha rfl hr
  rcases AllocateDualStack_cases h4 with ⟨e, h4e, h⟩ | ⟨b4, ipv4, e, h4a, h6e, h⟩ |
    ⟨b4, ipv4, b6, ipv6, h4a, h6a, h⟩
  · refine ⟨fun _ _ => by rw [h], fun _ _ => ⟨e, h⟩, fun i4 i6 hok => ?_⟩
    rw [h] at hok; exact Except.noConfusion hok
  · refine ⟨fun _ _ => by rw [h], fun _ _ => ⟨e, h⟩, fun i4 i6 hok => ?_⟩
    rw [h] at hok; exact Except.noConfusion hok
  · refine ⟨fun e he => ?_, fun e he => ?_, fun i4 i6 hok => ?_⟩
    · rw [h] at he; exact Except.noConfusion he
    · rw [h6a] at he; exact Except.noConfusion he
    · rw [h] at hok ⊢
      obtain ⟨hi4, hi6⟩ := Prod.mk.inj (Except.ok.inj hok)
      subst hi4; subst hi6
      obtain ⟨_, hnot, _, hall⟩ := Allocate_ok_Contains h4 h4a
      have hU4 : b4.Used = d.IPv4Block.Used + 1 := by
        rcases Allocate_cases h4 with ⟨_, hc⟩ | ⟨q, _, _, _, _, hc⟩
        · rw [hc] at h4a; exact Except.noConfusion (Prod.mk.inj h4a).2
        · rw [hc] at h4a; rw [← (Prod.mk.inj h4a).1]
      refine ⟨hU4, hnot, hall, ?_, ?_, ?_⟩
      · rcases V6_Allocate_cases h6 with ⟨_, hc⟩ | ⟨bm, q, _, _, _, _, _, hc⟩ | ⟨_, _, hc⟩ <;>
          rw [hc] at h6a
        · exact Except.noConfusion (Prod.mk.inj h6a).2
        · rw [← (Prod.mk.inj h6a).1]
        · rw [← (Prod.mk.inj h6a).1]
      · intro hn
        rcases V6_Allocate_cases h6 with ⟨_, hc⟩ | ⟨bm, q, hbm, _, _, _, _, hc⟩ | ⟨_, _, hc⟩ <;>
          rw [hc] at h6a
        · exact Except.noConfusion (Prod.mk.inj h6a).2
        · rw [hn] at hbm; exact Option.noConfusion hbm
        · rw [← (Prod.mk.inj h6a).1]
      · intro bm hbm
        rcases V6_Allocate_cases h6 with ⟨_, hc⟩ | ⟨bm0, q, hbm0, _, hq, hbit, _, hc⟩ |
          ⟨hn, _, hc⟩ <;> rw [hc] at h6a
        · exact Except.noConfusion (Prod.mk.inj h6a).2
        · rw [hbm] at hbm0
          have hbe : bm = bm0 := Option.some.inj hbm0
          subst hbe
          obtain ⟨hwf, _, hsize⟩ := h6.bm bm hbm
          have hqS : (q : Int) < bm.size := by rw [hsize]; exact hq
          have hok : (bm.Set (q : Int)).2 = none := by rw [Set_ok bm hqS hbit]
          obtain ⟨hs1, _, hs3⟩ := (Set_contract_WF bm hwf (q : Int)).2.2 hok
          refine ⟨(bm.Set (q : Int)).1, q, by rw [← (Prod.mk.inj h6a).1], ?_, ?_, hs1,
            fun pos hpos => hs3 pos hpos⟩
          · exact (Except.ok.inj (Prod.mk.inj h6a).2).symm
          · rw [IsSet_natCast, hbit]; simp
        · rw [hn] at hbm; exact Option.noConfusion hbm

/-- C13, instance: the dual-stack block of `10.244.1.0/24` and `2001:db8::/127` after two
allocations; the third fails, the IPv6 block being exhausted, and changes nothing. -/
theorem C13_dual_stack_atomicity_witness :
    (183763200 : Nat) < 2 ^ 32 ∧
    (DualStackBlock.mk (IPBlock.mk ⟨183763200, 24, 32⟩ "node1" 254 0 (NewBitmap 254))
      (IPv6Block.mk ⟨42540766411282592856903984951653826560, 127, 128⟩ "node1" 2 0
        (some (NewBitmap 2))) "node1").AllocateDualStack.1.AllocateDualStack.1.AllocateDualStack.1 =
    (DualStackBlock.mk (IPBlock.mk ⟨183763200, 24, 32⟩ "node1" 254 0 (NewBitmap 254))
      (IPv6Block.mk ⟨42540766411282592856903984951653826560, 127, 128⟩ "node1" 2 0
        (some (NewBitmap 2))) "node1").AllocateDualStack.1.AllocateDualStack.1 :=
  ⟨by decide,
    (C13_dual_stack_atomicity 183763200 24
      (CIDRString.v6 42540766411282592856903984951653826560 127) "node1" _ (by decide)
      (DualStackBlock.Reachable.allocateDual _ (DualStackBlock.Reachable.allocateDual _
        (DualStackBlock.Reachable.init
          (DualStackBlock.mk (IPBlock.mk ⟨183763200, 24, 32⟩ "node1" 254 0 (NewBitmap 254))
            (IPv6Block.mk ⟨42540766411282592856903984951653826560, 127, 128⟩ "node1" 2 0
              (some (NewBitmap 2))) "node1") (by decide))))).1
      Err.ErrNoAvailableIP (by decide)⟩

/-- C14, as stated, fails: the first `Allocate` on the fresh block `2001:db8::/120` returns
`2001:db8::`, the network address itself, not network + 1. -/
theorem C14_ipv6_first_usable_offset_counterexample :
    ¬ (∀ (c : CIDRString) (nodeID : String) (b : IPv6Block),
        NewIPv6Block c nodeID = Except.ok b → ∀ n : Nat, 1 ≤ n → (n : Int) ≤ b.Total →
        (b.allocN (n - 1)).Allocate.2 = Except.ok (IP.v6 (b.CIDR.addr + n))) := by
  intro h
  have := h (CIDRString.v6 42540766411282592856903984951653826560 120) "node1"
    (IPv6Block.mk ⟨42540766411282592856903984951653826560, 120, 128⟩ "node1" 256 0
      (some (NewBitmap 256))) (by decide) 1 (by decide) (by decide)
  revert this
  decide

/-- Adding an offset below the alignment of a network address does not change the bytes
`To4` tests. -/
theorem isV4Mapped_add {A g k : Nat} (hg : g ≤ 32) (hA : 2 ^ g ∣ A) (hk : k < 2 ^ g) :
    isV4Mapped (A + k) = isV4Mapped A := by
  obtain ⟨m, rfl⟩ := hA
  have h32 : (2 : Nat) ^ 32 = 2 ^ g * 2 ^ (32 - g) := by
    rw [← pow_add]; congr 1; omega
  have hpos : 0 < 2 ^ g := by positivity
  have h1 : (2 ^ g * m + k) / 2 ^ g = m := by
    rw [Nat.mul_add_div hpos, Nat.div_eq_of_lt hk, Nat.add_zero]
  have h2 : (2 ^ g * m) / 2 ^ g = m := Nat.mul_div_cancel_left m hpos
  unfold isV4Mapped
  rw [h32, ← Nat.div_div_eq_div_mul, ← Nat.div_div_eq_div_mul, h1, h2]

theorem maskAddr_dvd (a j g : Nat) (hg : g ≤ 128 - j) : 2 ^ g ∣ maskAddr a j 128 := by
  unfold maskAddr
  have : (2 : Nat) ^ (128 - j) = 2 ^ g * 2 ^ (128 - j - g) := by
    rw [← pow_add]; congr 1; omega
  rw [this]
  exact ⟨a / (2 ^ g * 2 ^ (128 - j - g)) * 2 ^ (128 - j - g), by ring⟩

/-- The address of a position of a fresh IPv6 block: network address plus position. -/
theorem positionToIPv6_fresh {c : CIDRString} {n : String} {b : IPv6Block}
    (h : NewIPv6Block c n = Except.ok b) (k : Nat) (hk : (k : Int) < b.Total) :
    b.positionToIPv6 (k : Int) = IP.v6 (b.CIDR.addr + k) := by
  obtain ⟨a, j, _, _, hj, hm, hc, _, _, hsmall, hbig⟩ := NewIPv6Block_spec h
  have haddr : b.CIDR.addr = maskAddr a j 128 := by rw [hc]
  unfold IPv6Block.positionToIPv6 IP.ofBytes16
  have hnat : ((b.CIDR.addr : Int) + (k : Int)).natAbs = b.CIDR.addr + k := by omega
  rw [hnat]
  have hmap : isV4Mapped (b.CIDR.addr + k) = false := by
    rw [haddr]
    by_cases h32 : 128 - j ≤ 32
    · have ht := (hsmall h32).1
      rw [ht] at hk
      have hk' : k < 2 ^ (128 - j) := by exact_mod_cast hk
      rw [isV4Mapped_add h32 (maskAddr_dvd a j _ (le_refl _)) hk', hm]
    · have ht := (hbig (by omega)).1
      rw [ht] at hk
      have hk' : k < 2 ^ 32 := by exact_mod_cast hk
      rw [isV4Mapped_add (le_refl 32) (maskAddr_dvd a j 32 (by omega)) hk', hm]
  rw [hmap]
  simp

/-- The state of a fresh IPv6 block after `k` allocations: `Used = k`, and with a
bitmap exactly the positions below `k` are set. -/
theorem V6_allocN_state {c : CIDRString} {n : String} {b : IPv6Block}
    (h : NewIPv6Block c n = Except.ok b) :
    ∀ k : Nat, (k : Int) ≤ b.Total →
      (b.allocN k).WF ∧ (b.allocN k).CIDR = b.CIDR ∧ (b.allocN k).Total = b.Total ∧
      (b.allocN k).Used = k ∧ (b.bitmap = none → (b.allocN k).bitmap = none) ∧
      (b.bitmap ≠ none → ∃ bm, (b.allocN k).bitmap = some bm ∧
        ∀ q : Nat, bitAt bm q = decide (q < k)) := by
  obtain ⟨a, j, _, _, hj, hm, hc, _, hu, hsmall, hbig⟩ := NewIPv6Block_spec h
  intro k
  induction k with
  | zero =>
    intro _
    refine ⟨V6_WF_New h, rfl, rfl, by simpa [IPv6Block.allocN] using hu, fun hn => hn,
      fun hne => ?_⟩
    by_cases h32 : 128 - j ≤ 32
    · refine ⟨_, (hsmall h32).2, fun q => ?_⟩
      rw [NewBitmap_bitAt]; simp
    · exact absurd (hbig (by omega)).2 hne
  | succ k ih =>
    intro hk
    obtain ⟨hwf, hcd, ht, hused, hnone, hsome⟩ := ih (by omega)
    have hstep : (b.allocN (k + 1)) = (b.allocN k).Allocate.1 := rfl
    rw [hstep]
    rcases V6_Allocate_cases hwf with ⟨hfull, _⟩ | ⟨bm, q, hbm, _, hq, hbit, hbelow, hres⟩ |
      ⟨hbm, _, hres⟩
    · omega
    · have hne : b.bitmap ≠ none := by
        intro hn
        rw [hnone hn] at hbm
        exact Option.noConfusion hbm
      obtain ⟨bm1, hbm1, hbits⟩ := hsome hne
      rw [hbm] at hbm1
      have hbe : bm = bm1 := Option.some.inj hbm1
      subst hbe
      have hqk : q = k := by
        rcases Nat.lt_trichotomy q k with hlt | heq | hgt
        · rw [hbits] at hbit; simp [hlt] at hbit
        · exact heq
        · have := hbelow k hgt
          rw [hbits] at this
          simp at this
      subst hqk
      obtain ⟨hbwf, _, hsize⟩ := hwf.bm bm hbm
      have hqS : (q : Int) < bm.size := by rw [hsize]; exact hq
      have hwf' := V6_WF_Allocate hwf
      rw [hres] at hwf' ⊢
      refine ⟨hwf', hcd, ht, ?_, fun hn => absurd hn hne, fun _ => ⟨_, rfl, fun q' => ?_⟩⟩
      · show (b.allocN q).Used + 1 = ((q + 1 : Nat) : Int)
        rw [hused]; push_cast; rfl
      · rw [Set_ok _ hqS hbit, bitAt_set_or _ _ _ _ (word_index_lt hbwf hqS), hbits]
        by_cases h1 : q' = q
        · simp [h1]
        · by_cases h2 : q' < q
          · have : q' < q + 1 := by omega
            simp [h1, h2, this]
          · have : ¬ q' < q + 1 := by omega
            simp [h1, h2, this]
    · have hwf' := V6_WF_Allocate hwf
      rw [hres] at hwf' ⊢
      refine ⟨hwf', hcd, ht, ?_, fun _ => rfl, fun hne => ?_⟩
      · show (b.allocN k).Used + 1 = ((k + 1 : Nat) : Int)
        rw [hused]; push_cast; rfl
      · obtain ⟨bm1, hbm1, _⟩ := hsome hne
        rw [hbm] at hbm1
        exact Option.noConfusion hbm1

/-- C14, amended: on every fresh IPv6 block (made by `NewIPv6Block`, with a bitmap when
there are at most 32 host bits, sequential otherwise), the `n`-th consecutive `Allocate`
(`1 ≤ n ≤ Total`) is made with `Used = n - 1`, succeeds and returns network address plus
`n - 1`: the address handed out when `Used = u` is network + `u`, and the first address
handed out is the network address itself. -/
theorem C14_ipv6_allocation_sequence (c : CIDRString) (nodeID : String) (b : IPv6Block)
    (hnew : NewIPv6Block c nodeID = Except.ok b) (n : Nat) (h1 : 1 ≤ n)
    (hn : (n : Int) ≤ b.Total) :
    (b.allocN (n - 1)).Used = ((n - 1 : Nat) : Int) ∧
    (b.allocN (n - 1)).Allocate.2 = Except.ok (IP.v6 (b.CIDR.addr + (n - 1))) ∧
    b.Allocate.2 = Except.ok (IP.v6 b.CIDR.addr) := by
  have key : ∀ m : Nat, (m : Int) < b.Total →
      (b.allocN m).Used = (m : Int) ∧
      (b.allocN m).Allocate.2 = Except.ok (IP.v6 (b.CIDR.addr + m)) := by
    intro m hm
    obtain ⟨hwf, hcd, ht, hused, hnone, hsome⟩ := V6_allocN_state hnew m (by omega)
    refine ⟨hused, ?_⟩
    have hpos : ∀ x : Int, (b.allocN m).positionToIPv6 x = b.positionToIPv6 x := by
      intro x; unfold IPv6Block.positionToIPv6; rw [hcd]
    rcases V6_Allocate_cases hwf with ⟨hfull, _⟩ | ⟨bm, q, hbm, _, hq, hbit, hbelow, hres⟩ |
      ⟨hbm, _, hres⟩
    · omega
    · have hne : b.bitmap ≠ none := by
        intro hn'
        rw [hnone hn'] at hbm
        exact Option.noConfusion hbm
      obtain ⟨bm1, hbm1, hbits⟩ := hsome hne
      rw [hbm] at hbm1
      have hbe : bm = bm1 := Option.some.inj hbm1
      subst hbe
      have hqk : q = m := by
        rcases Nat.lt_trichotomy q m with hlt | heq | hgt
        · rw [hbits] at hbit; simp [hlt] at hbit
        · exact heq
        · have := hbelow m hgt
          rw [hbits] at this
          simp at this
      subst hqk
      rw [hres, hpos, positionToIPv6_fresh hnew q hm]
    · rw [hres, hused, hpos, positionToIPv6_fresh hnew m hm]
  have hT : (0 : Int) < b.Total := by omega
  obtain ⟨hu, ha⟩ := key (n - 1) (by omega)
  have h0 := (key 0 (by exact_mod_cast hT)).2
  exact ⟨hu, ha, by simpa [IPv6Block.allocN] using h0⟩

/-- C14 amended, instance: the second `Allocate` on the fresh block `2001:db8::/120`
returns `2001:db8::1`. -/
theorem C14_ipv6_allocation_sequence_witness :
    (IPv6Block.mk ⟨42540766411282592856903984951653826560, 120, 128⟩ "node1" 256 0
      (some (NewBitmap 256))).Allocate.1.Allocate.2 =
      Except.ok (IP.v6 42540766411282592856903984951653826561) :=
  (C14_ipv6_allocation_sequence (CIDRString.v6 42540766411282592856903984951653826560 120)
    "node1" (IPv6Block.mk ⟨42540766411282592856903984951653826560, 120, 128⟩ "node1" 256 0
      (some (NewBitmap 256))) (by decide) 2 (by decide) (by decide)).2.1

end IPv6Proofs

/-! ## Subnet pools: `AddSubnet`, purpose routing and the allocated address -/

section SubnetProofs
open Bitmap

theorem mapPut_length_of_none {κ ν : Type} [DecidableEq κ] {m : List (κ × ν)} {k : κ}
    (h : mapGet m k = none) (v : ν) : (mapPut m k v).length = m.length + 1 := by
  induction m with
  | nil => rfl
  | cons e m ih =>
    obtain ⟨k0, v0⟩ := e
    by_cases hk : k0 = k
    · simp [mapGet, hk] at h
    · simp only [mapGet, hk, if_false] at h
      simp [mapPut, hk, ih h]

/-- C15: `AddSubnet` with a CIDR string that is already a key of the pool fails with the
duplicate-subnet error and returns the pool as it was; `AddSubnet` with an IPv4 CIDR of
prefix length at most 30 that is not yet a key succeeds and the number of subnets grows by
exactly one. -/
theorem C15_add_subnet_duplicate (sp : SubnetPool) (cidr : CIDRString) (purpose : String) :
    ((mapGet sp.Subnets cidr).isSome = true →
      sp.AddSubnet cidr purpose = (sp, some Err.subnetExistsInPool)) ∧
    (∀ a p : Nat, cidr = CIDRString.v4 a p → a < 2 ^ 32 → p ≤ 30 →
      mapGet sp.Subnets cidr = none →
      (sp.AddSubnet cidr purpose).2 = none ∧
      (sp.AddSubnet cidr purpose).1.SubnetCount = sp.SubnetCount + 1 ∧
      ∀ k, k ≠ cidr →
        mapGet (sp.AddSubnet cidr purpose).1.Subnets k = mapGet sp.Subnets k) := by
  constructor
  · intro h
    simp only [SubnetPool.AddSubnet, h, if_true]
  · intro a p hc ha hp hnew
    subst hc
    rw [AddSubnet_v4_ok sp a p purpose ha hp hnew]
    refine ⟨rfl, ?_, fun k hk => mapGet_mapPut_ne _ _ hk⟩
    show ((mapPut sp.Subnets (CIDRString.v4 a p) _).length : Int) = (sp.Subnets.length : Int) + 1
    rw [mapPut_length_of_none hnew]
    push_cast
    rfl

/-- C15, instance: adding `10.244.0.0/24` twice to a new pool; the second call fails. -/
theorem C15_add_subnet_duplicate_witness :
    ((NewSubnetPool "tor-1").AddSubnet (CIDRString.v4 183762944 24) "default").1.AddSubnet
        (CIDRString.v4 183762944 24) "storage" =
      (((NewSubnetPool "tor-1").AddSubnet (CIDRString.v4 183762944 24) "default").1,
        some Err.subnetExistsInPool) :=
  (C15_add_subnet_duplicate
    ((NewSubnetPool "tor-1").AddSubnet (CIDRString.v4 183762944 24) "default").1
    (CIDRString.v4 183762944 24) "storage").1 (by decide)

/-- The outcomes of `AddSubnet`: an error and the same pool, or a new subnet under a new
key. -/
theorem AddSubnet_form (sp : SubnetPool) (c : CIDRString) (purpose : String) :
    (∃ e, sp.AddSubnet c purpose = (sp, some e)) ∨
    (∃ ipNet, mapGet sp.Subnets c = none ∧ ParseCIDR c = some ipNet ∧
      sp.AddSubnet c purpose =
        (SubnetPool.mk sp.TORID (mapPut sp.Subnets c
          (Subnet.mk ipNet purpose (toInt64 (toInt64 (2 ^ (ipNet.bits - ipNet.ones)) - 2)) 0 []
            (NewBitmap (toInt64 (toInt64 (2 ^ (ipNet.bits - ipNet.ones)) - 2))))), none)) := by
  cases hg : mapGet sp.Subnets c with
  | some s0 =>
    left
    exact ⟨Err.subnetExistsInPool,
      by simp only [SubnetPool.AddSubnet, hg, Option.isSome_some, if_true]⟩
  | none =>
    cases hp : ParseCIDR c with
    | none =>
      left
      exact ⟨Err.invalidCIDR, by simp only [SubnetPool.AddSubnet, hg, hp, Option.isSome_none,
        Bool.false_eq_true, if_false]⟩
    | some ipNet =>
      by_cases hu : toInt64 (toInt64 (2 ^ (ipNet.bits - ipNet.ones)) - 2) ≤ 0
      · left
        exact ⟨Err.noUsableIPs, by simp only [SubnetPool.AddSubnet, hg, hp, Option.isSome_none,
          Bool.false_eq_true, if_false, hu, if_true]⟩
      · right
        refine ⟨ipNet, rfl, rfl, ?_⟩
        simp only [SubnetPool.AddSubnet, hg, hp, Option.isSome_none, Bool.false_eq_true,
          if_false, hu]

/-- The outcomes of `AllocateIP`: an error and the same pool, or the target subnet
replaced by its successor. -/
theorem AllocateIP_form (sp : SubnetPool) (nodeID purpose : String) (ord₁ ord₂ : MapOrder) :
    (∃ e, sp.AllocateIP nodeID purpose ord₁ ord₂ = (sp, Except.error e) ∧
      (sp.pickTarget purpose ord₁ ord₂ = none ∨
        ∃ key S, sp.pickTarget purpose ord₁ ord₂ = some (key, S) ∧
          (S.bitmap.FindFirstZero = -1 ∨ (S.bitmap.Set S.bitmap.FindFirstZero).2 ≠ none))) ∨
    (∃ key S, sp.pickTarget purpose ord₁ ord₂ = some (key, S) ∧
      S.bitmap.FindFirstZero ≠ -1 ∧ (S.bitmap.Set S.bitmap.FindFirstZero).2 = none ∧
      sp.AllocateIP nodeID purpose ord₁ ord₂ =
        (SubnetPool.mk sp.TORID (mapPut sp.Subnets key
          (Subnet.mk S.CIDR S.Purpose S.Capacity (S.Used + 1)
            (mapPut S.Allocations (positionToIP S.CIDR S.bitmap.FindFirstZero)
              (IPAllocation.mk (positionToIP S.CIDR S.bitmap.FindFirstZero) nodeID "" "" ""))
            (S.bitmap.Set S.bitmap.FindFirstZero).1)),
          Except.ok (positionToIP S.CIDR S.bitmap.FindFirstZero, key))) := by
  cases ht : sp.pickTarget purpose ord₁ ord₂ with
  | none =>
    left
    exact ⟨Err.noAvailableSubnet, by simp only [SubnetPool.AllocateIP, ht], Or.inl rfl⟩
  | some e =>
    obtain ⟨key, S⟩ := e
    have hS : mapGet sp.Subnets key = some S := pickTarget_mem ht
    by_cases hp : S.bitmap.FindFirstZero = -1
    · left
      exact ⟨Err.noAvailableIPInSubnet, by simp only [SubnetPool.AllocateIP, ht, hp, if_true],
        Or.inr ⟨key, S, rfl, Or.inl hp⟩⟩
    · cases hset : S.bitmap.Set S.bitmap.FindFirstZero with
      | mk bm r =>
        cases r with
        | some err =>
          left
          have hbm : bm = S.bitmap := by
            have := Set_error_unchanged S.bitmap S.bitmap.FindFirstZero (by rw [hset]; simp)
            rw [hset] at this
            exact this
          refine ⟨err, ?_, Or.inr ⟨key, S, rfl, Or.inr (by rw [hset]; simp)⟩⟩
          have hres : sp.AllocateIP nodeID purpose ord₁ ord₂ =
              (SubnetPool.mk sp.TORID (mapPut sp.Subnets key { S with bitmap := bm }),
                Except.error err) := by
            simp only [SubnetPool.AllocateIP, ht, hp, if_false, hset]
          rw [hres, hbm, Subnet_eta, mapPut_self hS, SubnetPool_eta]
        | none =>
          right
          refine ⟨key, S, rfl, hp, by rw [hset], ?_⟩
          simp only [SubnetPool.AllocateIP, ht, hp, if_false, hset]

/-- The outcomes of `ReleaseIP`: an error and the same pool, or the subnet of the
address replaced by its successor. -/
theorem ReleaseIP_form (sp : SubnetPool) (ip : IP) (ord : MapOrder) :
    (∃ e, sp.ReleaseIP ip ord = (sp, some e)) ∨
    (∃ key S, (rangeMap sp.Subnets ord).find? (fun e => e.2.CIDR.Contains ip) = some (key, S) ∧
      (mapGet S.Allocations ip).isSome = true ∧
      (S.bitmap.Clear (ipToPosition S.CIDR ip)).2 = none ∧
      sp.ReleaseIP ip ord =
        (SubnetPool.mk sp.TORID (mapPut sp.Subnets key
          (Subnet.mk S.CIDR S.Purpose S.Capacity (S.Used - 1) (mapDel S.Allocations ip)
            (S.bitmap.Clear (ipToPosition S.CIDR ip)).1)), none)) := by
  cases hf : (rangeMap sp.Subnets ord).find? (fun e => e.2.CIDR.Contains ip) with
  | none =>
    left
    exact ⟨Err.ipNotInAnySubnet, by simp only [SubnetPool.ReleaseIP, hf]⟩
  | some e =>
    obtain ⟨key, S⟩ := e
    have hS : mapGet sp.Subnets key = some S := rangeMap_mem (List.mem_of_find?_eq_some hf)
    by_cases hal : (mapGet S.Allocations ip).isNone = true
    · left
      exact ⟨Err.ipNotAllocated, by simp only [SubnetPool.ReleaseIP, hf, hal, if_true]⟩
    · cases hclr : S.bitmap.Clear (ipToPosition S.CIDR ip) with
      | mk bm r =>
        cases r with
        | some err =>
          left
          have hbm : bm = S.bitmap := by
            have := Clear_error_unchanged S.bitmap (ipToPosition S.CIDR ip)
              (by rw [hclr]; simp)
            rw [hclr] at this
            exact this
          refine ⟨err, ?_⟩
          have hres : sp.ReleaseIP ip ord =
              (SubnetPool.mk sp.TORID (mapPut sp.Subnets key { S with bitmap := bm }),
                some err) := by
            simp only [SubnetPool.ReleaseIP, hf, hal, Bool.false_eq_true, if_false, hclr]
          rw [hres, hbm, Subnet_eta, mapPut_self hS, SubnetPool_eta]
        | none =>
          right
          refine ⟨key, S, rfl, ?_, by rw [hclr], ?_⟩
          · cases hm : mapGet S.Allocations ip with
            | none => rw [hm] at hal; simp at hal
            | some v => rfl
          · simp only [SubnetPool.ReleaseIP, hf, hal, Bool.false_eq_true, if_false, hclr]

theorem Set_ok_allocated (b : Bitmap) (pos : Int) (h : (b.Set pos).2 = none) :
    (b.Set pos).1.allocated = b.allocated + 1 := by
  unfold Bitmap.Set at h ⊢
  simp only [] at h ⊢
  split_ifs at h ⊢
  rfl

theorem Clear_ok_allocated (b : Bitmap) (pos : Int) (h : (b.Clear pos).2 = none) :
    (b.Clear pos).1.allocated = b.allocated - 1 := by
  unfold Bitmap.Clear at h ⊢
  simp only [] at h ⊢
  split_ifs at h ⊢
  rfl

theorem mapGet_none_not_mem {κ ν : Type} [DecidableEq κ] {m : List (κ × ν)} {k : κ}
    (h : mapGet m k = none) : k ∉ m.map Prod.fst := by
  induction m with
  | nil => simp
  | cons e m ih =>
    obtain ⟨k0, v0⟩ := e
    by_cases hk : k0 = k
    · simp [mapGet, hk] at h
    · simp only [mapGet, hk, if_false] at h
      simp only [List.map_cons, List.mem_cons, not_or]
      exact ⟨fun hc => hk hc.symm, ih h⟩

theorem mapPut_keys {κ ν : Type} [DecidableEq κ] (m : List (κ × ν)) (k : κ) (v : ν) :
    (mapPut m k v).map Prod.fst =
      if (mapGet m k).isSome then m.map Prod.fst else m.map Prod.fst ++ [k] := by
  induction m with
  | nil => simp [mapPut, mapGet]
  | cons e m ih =>
    obtain ⟨k0, v0⟩ := e
    by_cases hk : k0 = k
    · simp [mapPut, mapGet, hk]
    · simp only [mapPut, mapGet, hk, if_false, List.map_cons, ih]
      split_ifs <;> simp

theorem mapPut_keys_nodup {κ ν : Type} [DecidableEq κ] {m : List (κ × ν)}
    (h : (m.map Prod.fst).Nodup) (k : κ) (v : ν) : ((mapPut m k v).map Prod.fst).Nodup := by
  rw [mapPut_keys]
  cases hg : mapGet m k with
  | some v0 => simpa using h
  | none =>
    simp only [Option.isSome_none, Bool.false_eq_true, if_false]
    rw [List.nodup_append]
    refine ⟨h, List.nodup_singleton k, ?_⟩
    intro x hx hk
    rw [List.mem_singleton] at hk
    subst hk
    exact mapGet_none_not_mem hg hx

/-- Replacing the subnet of a key by a good one of the same network keeps a pool good. -/
theorem Good_put {sp : SubnetPool} (h : sp.Good) {key : CIDRString} {S' : Subnet}
    (hwf : S'.WF) (hu : S'.Used = S'.bitmap.allocated) (hp : ParseCIDR key = some S'.CIDR)
    (tor : String) : (SubnetPool.mk tor (mapPut sp.Subnets key S')).Good := by
  intro k s hk
  simp only [mapGet_mapPut] at hk
  split_ifs at hk with hkk
  · have := Option.some.inj hk
    subst this
    subst hkk
    exact ⟨hwf, hu, hp⟩
  · exact h k s hk

theorem Good_WF {sp : SubnetPool} (h : sp.Good) :
    ∀ key s, mapGet sp.Subnets key = some s → s.WF := fun key s hs => (h key s hs).1

theorem Good_step {sp : SubnetPool} (h : sp.Good) (op : SubnetOp) : (sp.step op).Good := by
  cases op with
  | addSubnet c purpose =>
    show (sp.AddSubnet c purpose).1.Good
    rcases AddSubnet_form sp c purpose with ⟨e, hres⟩ | ⟨ipNet, hnew, hparse, hres⟩
    · rw [hres]; exact h
    · obtain ⟨_, _, s', hs', hwf', _⟩ := (AddSubnet_spec sp c purpose).2 (by rw [hres])
      rw [hres] at hs' ⊢
      have hsame : s' = Subnet.mk ipNet purpose
          (toInt64 (toInt64 (2 ^ (ipNet.bits - ipNet.ones)) - 2)) 0 []
          (NewBitmap (toInt64 (toInt64 (2 ^ (ipNet.bits - ipNet.ones)) - 2))) := by
        have h1 := mapGet_mapPut_self sp.Subnets c s'
        have hs'' : mapPut sp.Subnets c (Subnet.mk ipNet purpose
          (toInt64 (toInt64 (2 ^ (ipNet.bits - ipNet.ones)) - 2)) 0 []
          (NewBitmap (toInt64 (toInt64 (2 ^ (ipNet.bits - ipNet.ones)) - 2)))) =
            mapPut sp.Subnets c s' := hs'
        rw [← hs'', mapGet_mapPut_self] at h1
        exact (Option.some.inj h1).symm
      rw [hsame] at hwf'
      exact Good_put h hwf' rfl hparse _
  | allocateIP nodeID purpose ord₁ ord₂ =>
    show (sp.AllocateIP nodeID purpose ord₁ ord₂).1.Good
    rcases AllocateIP_form sp nodeID purpose ord₁ ord₂ with ⟨e, hres, _⟩ |
      ⟨key, S, ht, _, hset, hres⟩
    · rw [hres]; exact h
    · rw [hres]
      obtain ⟨hwf, hu, hp⟩ := h key S (pickTarget_mem ht)
      have hwf' : (Subnet.mk S.CIDR S.Purpose S.Capacity (S.Used + 1)
          (mapPut S.Allocations (positionToIP S.CIDR S.bitmap.FindFirstZero)
            (IPAllocation.mk (positionToIP S.CIDR S.bitmap.FindFirstZero) nodeID "" "" ""))
          (S.bitmap.Set S.bitmap.FindFirstZero).1).WF :=
        ⟨WF_Set _ hwf.bm _, by rw [Set_size]; exact hwf.size, hwf.v4⟩
      refine Good_put h hwf' ?_ hp _
      show S.Used + 1 = (S.bitmap.Set S.bitmap.FindFirstZero).1.allocated
      rw [Set_ok_allocated _ _ hset, hu]
  | releaseIP ip ord =>
    show (sp.ReleaseIP ip ord).1.Good
    rcases ReleaseIP_form sp ip ord with ⟨e, hres⟩ | ⟨key, S, hf, _, hclr, hres⟩
    · rw [hres]; exact h
    · rw [hres]
      obtain ⟨hwf, hu, hp⟩ := h key S (rangeMap_mem (List.mem_of_find?_eq_some hf))
      have hwf' : (Subnet.mk S.CIDR S.Purpose S.Capacity (S.Used - 1) (mapDel S.Allocations ip)
          (S.bitmap.Clear (ipToPosition S.CIDR ip)).1).WF :=
        ⟨WF_Clear _ hwf.bm _, by rw [Clear_size]; exact hwf.size, hwf.v4⟩
      refine Good_put h hwf' ?_ hp _
      show S.Used - 1 = (S.bitmap.Clear (ipToPosition S.CIDR ip)).1.allocated
      rw [Clear_ok_allocated _ _ hclr, hu]

theorem keys_step {sp : SubnetPool} (h : (sp.Subnets.map Prod.fst).Nodup) (op : SubnetOp) :
    ((sp.step op).Subnets.map Prod.fst).Nodup := by
  cases op with
  | addSubnet c purpose =>
    show ((sp.AddSubnet c purpose).1.Subnets.map Prod.fst).Nodup
    rcases AddSubnet_form sp c purpose with ⟨e, hres⟩ | ⟨ipNet, _, _, hres⟩
    · rw [hres]; exact h
    · rw [hres]; exact mapPut_keys_nodup h _ _
  | allocateIP nodeID purpose ord₁ ord₂ =>
    show ((sp.AllocateIP nodeID purpose ord₁ ord₂).1.Subnets.map Prod.fst).Nodup
    rcases AllocateIP_form sp nodeID purpose ord₁ ord₂ with ⟨e, hres, _⟩ |
      ⟨key, S, _, _, _, hres⟩
    · rw [hres]; exact h
    · rw [hres]; exact mapPut_keys_nodup h _ _
  | releaseIP ip ord =>
    show ((sp.ReleaseIP ip ord).1.Subnets.map Prod.fst).Nodup
    rcases ReleaseIP_form sp ip ord with ⟨e, hres⟩ | ⟨key, S, _, _, _, hres⟩
    · rw [hres]; exact h
    · rw [hres]; exact mapPut_keys_nodup h _ _

theorem Good_run {sp : SubnetPool} (h : sp.Good) (hk : (sp.Subnets.map Prod.fst).Nodup)
    (ops : List SubnetOp) :
    (sp.run ops).Good ∧ ((sp.run ops).Subnets.map Prod.fst).Nodup := by
  induction ops generalizing sp with
  | nil => exact ⟨h, hk⟩
  | cons op ops ih => exact ih (Good_step h op) (keys_step hk op)

theorem Good_Reachable {torID : String} {sp : SubnetPool}
    (h : SubnetPool.ReachableFrom torID sp) :
    sp.Good ∧ (sp.Subnets.map Prod.fst).Nodup := by
  obtain ⟨ops, _, rfl⟩ := h
  refine Good_run ?_ ?_ ops
  · intro k s hk; simp [NewSubnetPool, mapGet] at hk
  · simp [NewSubnetPool]

/-- C16, as stated, fails: `AddSubnet` accepts `10.244.0.0/24` and then `10.244.0.0/25`,
two distinct subnets that both contain `10.244.0.1`. -/
theorem C16_subnet_disjointness_counterexample :
    ¬ (∀ (torID : String) (adds : List (CIDRString × String)) (k₁ k₂ : CIDRString)
        (s₁ s₂ : Subnet) (ip : IP), k₁ ≠ k₂ →
        mapGet ((NewSubnetPool torID).addAll adds).Subnets k₁ = some s₁ →
        mapGet ((NewSubnetPool torID).addAll adds).Subnets k₂ = some s₂ →
        ¬ (s₁.CIDR.Contains ip = true ∧ s₂.CIDR.Contains ip = true)) := by
  intro h
  exact h "tor-1" [(CIDRString.v4 183762944 24, "default"), (CIDRString.v4 183762944 25, "default")]
    (CIDRString.v4 183762944 24) (CIDRString.v4 183762944 25)
    (Subnet.mk ⟨183762944, 24, 32⟩ "default" 254 0 [] (NewBitmap 254))
    (Subnet.mk ⟨183762944, 25, 32⟩ "default" 126 0 [] (NewBitmap 126))
    (IP.v4 183762945) (by decide) (by decide) (by decide) ⟨by decide, by decide⟩

/-- Two parsed networks of the same prefix length that share an address are the same
network. -/
theorem same_net_of_Contains {k₁ k₂ : CIDRString} {n₁ n₂ : IPNet} {ip : IP}
    (h₁ : ParseCIDR k₁ = some n₁) (h₂ : ParseCIDR k₂ = some n₂) (ho : n₁.ones = n₂.ones)
    (c₁ : n₁.Contains ip = true) (c₂ : n₂.Contains ip = true) : n₁ = n₂ := by
  have hform : ∀ {k : CIDRString} {n : IPNet}, ParseCIDR k = some n →
      (∃ a, a < 2 ^ 32 ∧ n.ones ≤ 32 ∧ n = ⟨maskAddr a n.ones 32, n.ones, 32⟩) ∨
      (∃ a, n = ⟨maskAddr a n.ones 128, n.ones, 128⟩) := by
    intro k n hk
    cases k with
    | invalid t => simp [ParseCIDR] at hk
    | v4 a o =>
      simp only [ParseCIDR] at hk
      split_ifs at hk with hc
      have := (Option.some.inj hk).symm
      subst this
      exact Or.inl ⟨a, hc.1, hc.2, rfl⟩
    | v6 a o =>
      simp only [ParseCIDR] at hk
      split_ifs at hk with hc
      have := (Option.some.inj hk).symm
      subst this
      exact Or.inr ⟨a, rfl⟩
  have hmk : ∀ {n m : IPNet}, n.addr = m.addr → n.ones = m.ones → n.bits = m.bits → n = m := by
    intro n m ha ho hb
    cases n; cases m
    simp only at ha ho hb
    rw [ha, ho, hb]
  cases ip with
  | nil => simp [IPNet.Contains] at c₁
  | v6 x =>
    simp only [IPNet.Contains, decide_eq_true_eq] at c₁ c₂
    exact hmk (by rw [← c₁.2.2.2, ← c₂.2.2.2, ho]) ho (by rw [c₁.1, c₂.1])
  | v4 x =>
    rcases hform h₁ with ⟨a₁, _, ho₁, e₁⟩ | ⟨a₁, e₁⟩ <;>
      rcases hform h₂ with ⟨a₂, _, ho₂, e₂⟩ | ⟨a₂, e₂⟩
    · have b₁ : n₁.bits = 32 := by rw [e₁]
      have b₂ : n₂.bits = 32 := by rw [e₂]
      rw [Contains_v4_of_bits b₁] at c₁
      rw [Contains_v4_of_bits b₂] at c₂
      simp only [decide_eq_true_eq] at c₁ c₂
      exact hmk (by rw [← c₁.2, ← c₂.2, ho]) ho (by rw [b₁, b₂])
    · exfalso
      have b₂ : n₂.bits = 128 := by rw [e₂]
      have b₂' : ¬ n₂.bits = 32 := by omega
      simp only [IPNet.Contains, b₂', if_false, decide_eq_true_eq] at c₂
      have hm := c₂.2.1
      rw [e₂] at hm
      have := mapped_ones hm
      omega
    · exfalso
      have b₁ : n₁.bits = 128 := by rw [e₁]
      have b₁' : ¬ n₁.bits = 32 := by omega
      simp only [IPNet.Contains, b₁', if_false, decide_eq_true_eq] at c₁
      have hm := c₁.2.1
      rw [e₁] at hm
      have := mapped_ones hm
      omega
    · have b₁ : n₁.bits = 128 := by rw [e₁]
      have b₂ : n₂.bits = 128 := by rw [e₂]
      have b₁' : ¬ n₁.bits = 32 := by omega
      have b₂' : ¬ n₂.bits = 32 := by omega
      simp only [IPNet.Contains, b₁', b₂', if_false, decide_eq_true_eq] at c₁ c₂
      obtain ⟨_, m₁, _, r₁⟩ := c₁
      obtain ⟨_, m₂, _, r₂⟩ := c₂
      unfold isV4Mapped at m₁ m₂
      simp only [decide_eq_true_eq] at m₁ m₂
      refine hmk ?_ ho (by rw [b₁, b₂])
      rw [← Nat.div_add_mod n₁.addr (2 ^ 32), ← Nat.div_add_mod n₂.addr (2 ^ 32), m₁, m₂,
        ← r₁, ← r₂, ho]

/-- C16, amended: in every subnet pool reachable from `NewSubnetPool` by `AddSubnet` calls
(and by `AllocateIP` and `ReleaseIP` calls as well), the subnets are stored under pairwise
distinct CIDR strings, each subnet has the network parsed from its string, and two subnets
of the same prefix length with different networks have disjoint address ranges.  Nothing
more holds: `AddSubnet` makes no overlap check, so subnets of different prefix lengths may
overlap. -/
theorem C16_subnet_keys_distinct (torID : String) (sp : SubnetPool)
    (hr : SubnetPool.ReachableFrom torID sp) :
    (sp.Subnets.map Prod.fst).Nodup ∧
    (∀ key s, mapGet sp.Subnets key = some s → ParseCIDR key = some s.CIDR) ∧
    (∀ k₁ s₁ k₂ s₂ ip, mapGet sp.Subnets k₁ = some s₁ → mapGet sp.Subnets k₂ = some s₂ →
      s₁.CIDR.ones = s₂.CIDR.ones → s₁.CIDR ≠ s₂.CIDR →
      ¬ (s₁.CIDR.Contains ip = true ∧ s₂.CIDR.Contains ip = true)) := by
  obtain ⟨hgood, hkeys⟩ := Good_Reachable hr
  refine ⟨hkeys, fun key s hs => (hgood key s hs).2.2, ?_⟩
  intro k₁ s₁ k₂ s₂ ip g₁ g₂ ho hne hc
  exact hne (same_net_of_Contains (hgood k₁ s₁ g₁).2.2 (hgood k₂ s₂ g₂).2.2 ho hc.1 hc.2)

/-- C16 amended, instance: after `10.244.0.0/24` and `10.244.1.0/24` were added, the
address `10.244.0.1` is not in both. -/
theorem C16_subnet_keys_distinct_witness :
    ¬ ((IPNet.mk 183762944 24 32).Contains (IP.v4 183762945) = true ∧
       (IPNet.mk 183763200 24 32).Contains (IP.v4 183762945) = true) :=
  (C16_subnet_keys_distinct "tor-1"
    (SubnetPool.run (NewSubnetPool "tor-1")
      [SubnetOp.addSubnet (CIDRString.v4 183762944 24) "default",
       SubnetOp.addSubnet (CIDRString.v4 183763200 24) "storage"])
    ⟨_, fun op hop => by
        simp only [List.mem_cons, List.mem_singleton, List.mem_nil_iff, or_false] at hop
        rcases hop with rfl | rfl <;> exact trivial, rfl⟩).2.2
    (CIDRString.v4 183762944 24) (Subnet.mk ⟨183762944, 24, 32⟩ "default" 254 0 [] (NewBitmap 254))
    (CIDRString.v4 183763200 24) (Subnet.mk ⟨183763200, 24, 32⟩ "storage" 254 0 [] (NewBitmap 254))
    (IP.v4 183762945) (by decide) (by decide) rfl (by decide)

theorem rangeMap_mem_of_get {ν : Type} {m : List (CIDRString × ν)} {ord : MapOrder}
    (hord : IsMapOrder ord) {k : CIDRString} {v : ν} (h : mapGet m k = some v) :
    (k, v) ∈ rangeMap m ord := by
  unfold rangeMap
  rw [List.mem_filterMap]
  refine ⟨k, ?_, by rw [h]; rfl⟩
  rw [(hord _).mem_iff]
  exact List.mem_map.2 ⟨(k, v), mapGet_some_mem h, rfl⟩

theorem find_rangeMap_some {ν : Type} {m : List (CIDRString × ν)} {ord : MapOrder}
    (hord : IsMapOrder ord) {p : CIDRString × ν → Bool} {k : CIDRString} {v : ν}
    (hk : mapGet m k = some v) (hp : p (k, v) = true) :
    ∃ e, (rangeMap m ord).find? p = some e ∧ p e = true ∧ mapGet m e.1 = some e.2 := by
  cases hf : (rangeMap m ord).find? p with
  | none =>
    rw [List.find?_eq_none] at hf
    exact absurd hp (hf _ (rangeMap_mem_of_get hord hk))
  | some e =>
    exact ⟨e, rfl, List.find?_some hf, rangeMap_mem (List.mem_of_find?_eq_some hf)⟩

theorem find_rangeMap_none {ν : Type} {m : List (CIDRString × ν)} {ord : MapOrder}
    {p : CIDRString × ν → Bool} (h : ∀ k v, mapGet m k = some v → p (k, v) = false) :
    (rangeMap m ord).find? p = none := by
  rw [List.find?_eq_none]
  intro e he
  have := h e.1 e.2 (rangeMap_mem he)
  simp [this]

theorem find_rangeMap_none_get {ν : Type} {m : List (CIDRString × ν)} {ord : MapOrder}
    (hord : IsMapOrder ord) {p : CIDRString × ν → Bool}
    (hf : (rangeMap m ord).find? p = none) {k : CIDRString} {v : ν}
    (hk : mapGet m k = some v) : p (k, v) = false := by
  rw [List.find?_eq_none] at hf
  have := hf _ (rangeMap_mem_of_get hord hk)
  simpa using this

/-- A good subnet with free capacity has a free position, and setting it succeeds. -/
theorem free_position {S : Subnet} (hwf : S.WF) (hu : S.Used = S.bitmap.allocated)
    (hfree : S.Capacity - S.Used > 0) :
    S.bitmap.FindFirstZero ≠ -1 ∧ (S.bitmap.Set S.bitmap.FindFirstZero).2 = none := by
  rcases FindFirstZero_spec S.bitmap hwf.bm with ⟨_, hall⟩ | ⟨q, hr, hq, hun, _⟩
  · exfalso
    have hpc : popcount S.bitmap = S.bitmap.size.toNat := by
      unfold popcount
      rw [List.filter_eq_self.2, List.length_range]
      intro p hp
      rw [List.mem_range] at hp
      exact hall p (by omega)
    have := hwf.bm.count
    have := hwf.bm.nonneg
    have := hwf.size
    omega
  · have hbit : bitAt S.bitmap q = false := by
      rw [IsSet_natCast] at hun; simpa [hq] using hun
    rw [hr]
    exact ⟨by omega, by rw [Set_ok _ hq hbit]⟩

/-- On a good pool `AllocateIP` succeeds from the target subnet whenever that one has
free capacity. -/
theorem AllocateIP_ok_of_target {sp : SubnetPool} (hg : sp.Good) (nodeID : String)
    {purpose : String} {ord₁ ord₂ : MapOrder} {e : CIDRString × Subnet}
    (ht : sp.pickTarget purpose ord₁ ord₂ = some e) (hfree : e.2.Capacity - e.2.Used > 0) :
    ∃ ip, (sp.AllocateIP nodeID purpose ord₁ ord₂).2 = Except.ok (ip, e.1) := by
  obtain ⟨hwf, hu, _⟩ := hg e.1 e.2 (pickTarget_mem ht)
  obtain ⟨hne, hset⟩ := free_position hwf hu hfree
  rcases AllocateIP_form sp nodeID purpose ord₁ ord₂ with ⟨err, _, hnone | ⟨key, S, hS, hbad⟩⟩ |
    ⟨key, S, hS, _, _, hres⟩
  · rw [ht] at hnone; exact Option.noConfusion hnone
  · rw [ht] at hS
    have := Option.some.inj hS
    subst this
    rcases hbad with hbad | hbad
    · exact absurd hbad hne
    · exact absurd hset hbad
  · rw [ht] at hS
    have := Option.some.inj hS
    subst this
    exact ⟨_, by rw [hres]⟩

/-- C17: on every subnet pool reachable from `NewSubnetPool` by `AddSubnet`, `AllocateIP`
and `ReleaseIP`, for every non-empty purpose `P` and whatever the iteration orders: when a
subnet of purpose `P` has free capacity, `AllocateIP(node, P)` succeeds and the CIDR it
returns names a subnet of purpose `P`; when none has, `P` is not `default` and a subnet of
purpose `default` has free capacity, it succeeds and the CIDR names a `default` subnet;
in the remaining case it fails (no available subnet) and the pool is unchanged. -/
theorem C17_purpose_routing (torID : String) (sp : SubnetPool)
    (hr : SubnetPool.ReachableFrom torID sp) (nodeID P : String) (hP : P ≠ "")
    (ord₁ ord₂ : MapOrder) (h₁ : IsMapOrder ord₁) (h₂ : IsMapOrder ord₂) :
    ((∃ k s, mapGet sp.Subnets k = some s ∧ s.Purpose = P ∧ s.Capacity - s.Used > 0) →
      ∃ ip cidr s, (sp.AllocateIP nodeID P ord₁ ord₂).2 = Except.ok (ip, cidr) ∧
        mapGet sp.Subnets cidr = some s ∧ s.Purpose = P) ∧
    ((¬ ∃ k s, mapGet sp.Subnets k = some s ∧ s.Purpose = P ∧ s.Capacity - s.Used > 0) →
      P ≠ "default" →
      (∃ k s, mapGet sp.Subnets k = some s ∧ s.Purpose = "default" ∧
        s.Capacity - s.Used > 0) →
      ∃ ip cidr s, (sp.AllocateIP nodeID P ord₁ ord₂).2 = Except.ok (ip, cidr) ∧
        mapGet sp.Subnets cidr = some s ∧ s.Purpose = "default") ∧
    ((¬ ∃ k s, mapGet sp.Subnets k = some s ∧ s.Purpose = P ∧ s.Capacity - s.Used > 0) →
      (P = "default" ∨ ¬ ∃ k s, mapGet sp.Subnets k = some s ∧ s.Purpose = "default" ∧
        s.Capacity - s.Used > 0) →
      sp.AllocateIP nodeID P ord₁ ord₂ = (sp, Except.error Err.noAvailableSubnet)) := by
  obtain ⟨hg, _⟩ := Good_Reachable hr
  have hnoneP : (¬ ∃ k s, mapGet sp.Subnets k = some s ∧ s.Purpose = P ∧
      s.Capacity - s.Used > 0) → sp.pickByPurpose P ord₁ = none := by
    intro hno
    unfold SubnetPool.pickByPurpose
    apply find_rangeMap_none
    intro k s hk
    by_cases hp : s.Purpose = P
    · have : ¬ (s.Capacity - s.Used > 0) := fun hf => hno ⟨k, s, hk, hp, hf⟩
      simp [this]
    · simp [hP, hp]
  refine ⟨?_, ?_, ?_⟩
  · rintro ⟨k, s, hk, hp, hfree⟩
    obtain ⟨e, hfind, hpe, hge⟩ := find_rangeMap_some h₁
      (p := fun (e : CIDRString × Subnet) => !(decide (P ≠ "") && decide (e.2.Purpose ≠ P)) &&
        decide (e.2.Capacity - e.2.Used > 0)) hk (by simp [hp, hfree])
    have ht : sp.pickTarget P ord₁ ord₂ = some e := by
      unfold SubnetPool.pickTarget SubnetPool.pickByPurpose
      rw [hfind]
    simp only [Bool.and_eq_true, Bool.not_eq_true', Bool.and_eq_false_iff,
      decide_eq_false_iff_not, decide_eq_true_eq, ne_eq, not_not] at hpe
    obtain ⟨ip, hok⟩ := AllocateIP_ok_of_target hg nodeID ht hpe.2
    refine ⟨ip, e.1, e.2, hok, hge, ?_⟩
    rcases hpe.1 with h | h
    · exact absurd h hP
    · exact h
  · intro hno hnd ⟨k, s, hk, hp, hfree⟩
    obtain ⟨e, hfind, hpe, hge⟩ := find_rangeMap_some h₂
      (p := fun (e : CIDRString × Subnet) => decide (e.2.Purpose = "default") && decide (e.2.Capacity - e.2.Used > 0))
      hk (by simp [hp, hfree])
    have ht : sp.pickTarget P ord₁ ord₂ = some e := by
      unfold SubnetPool.pickTarget
      rw [hnoneP hno]
      simp only [hnd, ne_eq, not_false_eq_true, if_true]
      exact hfind
    simp only [Bool.and_eq_true, decide_eq_true_eq] at hpe
    obtain ⟨ip, hok⟩ := AllocateIP_ok_of_target hg nodeID ht hpe.2
    exact ⟨ip, e.1, e.2, hok, hge, hpe.1⟩
  · intro hno hcase
    have ht : sp.pickTarget P ord₁ ord₂ = none := by
      unfold SubnetPool.pickTarget
      rw [hnoneP hno]
      rcases hcase with hd | hnd
      · simp [hd]
      · simp only []
        split_ifs
        · unfold SubnetPool.pickDefault
          apply find_rangeMap_none
          intro k s hk
          by_cases hp : s.Purpose = "default"
          · have : ¬ (s.Capacity - s.Used > 0) := fun hf => hnd ⟨k, s, hk, hp, hf⟩
            simp [this]
          · simp [hp]
        · rfl
    simp only [SubnetPool.AllocateIP, ht]

/-- C17, instance: a pool with the `default` subnet `10.244.0.0/24` only; a request for
purpose `backup` is served from the `default` subnet. -/
theorem C17_purpose_routing_witness :
    ∃ ip cidr s,
      ((SubnetPool.run (NewSubnetPool "tor-1")
          [SubnetOp.addSubnet (CIDRString.v4 183762944 24) "default"]).AllocateIP
        "n1" "backup" id id).2 = Except.ok (ip, cidr) ∧
      mapGet (SubnetPool.run (NewSubnetPool "tor-1")
          [SubnetOp.addSubnet (CIDRString.v4 183762944 24) "default"]).Subnets cidr = some s ∧
      s.Purpose = "default" :=
  (C17_purpose_routing "tor-1"
    (SubnetPool.run (NewSubnetPool "tor-1")
      [SubnetOp.addSubnet (CIDRString.v4 183762944 24) "default"])
    ⟨_, fun op hop => by
        simp only [List.mem_singleton] at hop
        subst hop
        exact trivial, rfl⟩
    "n1" "backup" (by decide) id id IsMapOrder_id IsMapOrder_id).2.1
    (by
      rintro ⟨k, s, hk, hp, _⟩
      have hk' : mapGet [(CIDRString.v4 183762944 24,
          Subnet.mk ⟨183762944, 24, 32⟩ "default" 254 0 [] (NewBitmap 254))] k = some s := hk
      by_cases hkk : CIDRString.v4 183762944 24 = k
      · subst hkk
        rw [mapGet, if_pos rfl] at hk'
        rw [← Option.some.inj hk'] at hp
        exact absurd hp (by decide)
      · rw [mapGet, if_neg hkk, mapGet] at hk'
        exact Option.noConfusion hk')
    (by decide)
    ⟨CIDRString.v4 183762944 24, Subnet.mk ⟨183762944, 24, 32⟩ "default" 254 0 []
      (NewBitmap 254), by decide, rfl, by decide⟩

/-- C18: in every subnet pool in which every subnet of purpose `default` is full
(`Capacity - Used ≤ 0`), `AllocateIP(node, "default")` fails and returns the pool as it
was, whatever the other subnets and the iteration orders are. -/
theorem C18_no_reverse_fallback (sp : SubnetPool) (nodeID : String) (ord₁ ord₂ : MapOrder)
    (hfull : ∀ k s, mapGet sp.Subnets k = some s → s.Purpose = "default" →
      s.Capacity - s.Used ≤ 0) :
    sp.AllocateIP nodeID "default" ord₁ ord₂ = (sp, Except.error Err.noAvailableSubnet) := by
  have h1 : sp.pickByPurpose "default" ord₁ = none := by
    unfold SubnetPool.pickByPurpose
    apply find_rangeMap_none
    intro k s hk
    by_cases hp : s.Purpose = "default"
    · have : ¬ (s.Capacity - s.Used > 0) := by
        have := hfull k s hk hp
        omega
      simp [this]
    · simp [hp]
  have ht : sp.pickTarget "default" ord₁ ord₂ = none := by
    unfold SubnetPool.pickTarget
    rw [h1]
    simp
  simp only [SubnetPool.AllocateIP, ht]

/-- C18, instance: the `default` subnet `10.244.0.0/30` is full with two addresses, the
`storage` subnet `10.244.1.0/24` is empty; a `default` request fails. -/
theorem C18_no_reverse_fallback_witness :
    (SubnetPool.mk "tor-1"
      [(CIDRString.v4 183762944 30, Subnet.mk ⟨183762944, 30, 32⟩ "default" 2 2
          [(IP.v4 183762945, ⟨IP.v4 183762945, "n1", "", "", ""⟩),
           (IP.v4 183762946, ⟨IP.v4 183762946, "n1", "", "", ""⟩)] ⟨[3], 2, 2⟩),
       (CIDRString.v4 183763200 24, Subnet.mk ⟨183763200, 24, 32⟩ "storage" 254 0 []
          (NewBitmap 254))]).AllocateIP "n1" "default" id id =
    (SubnetPool.mk "tor-1"
      [(CIDRString.v4 183762944 30, Subnet.mk ⟨183762944, 30, 32⟩ "default" 2 2
          [(IP.v4 183762945, ⟨IP.v4 183762945, "n1", "", "", ""⟩),
           (IP.v4 183762946, ⟨IP.v4 183762946, "n1", "", "", ""⟩)] ⟨[3], 2, 2⟩),
       (CIDRString.v4 183763200 24, Subnet.mk ⟨183763200, 24, 32⟩ "storage" 254 0 []
          (NewBitmap 254))], Except.error Err.noAvailableSubnet) :=
  C18_no_reverse_fallback _ "n1" id id (by
    intro k s hk hp
    have hk' : mapGet
      [(CIDRString.v4 183762944 30, Subnet.mk ⟨183762944, 30, 32⟩ "default" 2 2
          [(IP.v4 183762945, ⟨IP.v4 183762945, "n1", "", "", ""⟩),
           (IP.v4 183762946, ⟨IP.v4 183762946, "n1", "", "", ""⟩)] ⟨[3], 2, 2⟩),
       (CIDRString.v4 183763200 24, Subnet.mk ⟨183763200, 24, 32⟩ "storage" 254 0 []
          (NewBitmap 254))] k = some s := hk
    by_cases h1 : CIDRString.v4 183762944 30 = k
    · subst h1
      rw [mapGet, if_pos rfl] at hk'
      rw [← Option.some.inj hk']
      decide
    · rw [mapGet, if_neg h1] at hk'
      by_cases h2 : CIDRString.v4 183763200 24 = k
      · subst h2
        rw [mapGet, if_pos rfl] at hk'
        rw [← Option.some.inj hk'] at hp
        exact absurd hp (by decide)
      · rw [mapGet, if_neg h2, mapGet] at hk'
        exact Option.noConfusion hk')

/-- C19, as stated, fails for the empty purpose: in a pool whose only subnet has purpose
`storage`, `AllocateIP(node, "")` succeeds from that subnet, whose purpose is neither the
requested one nor `default`. -/
theorem C19_candidate_set_counterexample :
    ¬ (∀ (sp : SubnetPool) (nodeID p : String) (ord₁ ord₂ : MapOrder) (ip : IP)
        (cidr : CIDRString), IsMapOrder ord₁ → IsMapOrder ord₂ →
        (sp.AllocateIP nodeID p ord₁ ord₂).2 = Except.ok (ip, cidr) →
        ∃ s, mapGet sp.Subnets cidr = some s ∧
          (s.Purpose = p ∨ (p ≠ "default" ∧ s.Purpose = "default" ∧
            ∀ k s', mapGet sp.Subnets k = some s' → s'.Purpose = p →
              s'.Capacity - s'.Used ≤ 0))) := by
  intro h
  obtain ⟨s, hs, hc⟩ := h
    (SubnetPool.mk "tor-1" [(CIDRString.v4 183762944 24,
      Subnet.mk ⟨183762944, 24, 32⟩ "storage" 254 0 [] (NewBitmap 254))])
    "n1" "" id id (IP.v4 183762945) (CIDRString.v4 183762944 24) IsMapOrder_id IsMapOrder_id
    (by decide)
  have hs' : mapGet [(CIDRString.v4 183762944 24,
      Subnet.mk ⟨183762944, 24, 32⟩ "storage" 254 0 [] (NewBitmap 254))]
      (CIDRString.v4 183762944 24) = some s := hs
  rw [mapGet, if_pos rfl] at hs'
  rw [← Option.some.inj hs'] at hc
  rcases hc with hp | ⟨_, hp, _⟩
  · exact absurd hp (by decide)
  · exact absurd hp (by decide)

/-- C19, amended: in every subnet pool and for every purpose `P`, a successful
`AllocateIP(node, P)` takes the address from the subnet stored under the CIDR it returns
(that subnet gets `Used + 1`, the recorded allocation and the new bit; no other subnet
changes), a subnet with free capacity; for a non-empty `P` the purpose of that subnet is
`P`, or it is `default` while `P` is not `default` and no subnet of purpose `P` has free
capacity.  For the empty purpose the subnet may have any purpose. -/
theorem C19_candidate_set (sp : SubnetPool) (nodeID P : String) (ord₁ ord₂ : MapOrder)
    (h₁ : IsMapOrder ord₁) (ip : IP) (cidr : CIDRString)
    (hok : (sp.AllocateIP nodeID P ord₁ ord₂).2 = Except.ok (ip, cidr)) :
    ∃ s, mapGet sp.Subnets cidr = some s ∧ s.Capacity - s.Used > 0 ∧
      (sp.AllocateIP nodeID P ord₁ ord₂).1.Subnets = mapPut sp.Subnets cidr
        (Subnet.mk s.CIDR s.Purpose s.Capacity (s.Used + 1)
          (mapPut s.Allocations ip (IPAllocation.mk ip nodeID "" "" ""))
          (s.bitmap.Set s.bitmap.FindFirstZero).1) ∧
      (P ≠ "" → s.Purpose = P ∨ (P ≠ "default" ∧ s.Purpose = "default" ∧
        ∀ k s', mapGet sp.Subnets k = some s' → s'.Purpose = P →
          s'.Capacity - s'.Used ≤ 0)) := by
  rcases AllocateIP_form sp nodeID P ord₁ ord₂ with ⟨e, hres, _⟩ | ⟨key, S, ht, _, _, hres⟩
  · rw [hres] at hok; exact Except.noConfusion hok
  · rw [hres] at hok ⊢
    obtain ⟨hip, hkey⟩ := Prod.mk.inj (Except.ok.inj hok)
    subst hkey
    rw [hip]
    refine ⟨S, pickTarget_mem ht, ?_, rfl, ?_⟩
    · unfold SubnetPool.pickTarget at ht
      cases h1 : sp.pickByPurpose P ord₁ with
      | some e =>
        rw [h1] at ht
        have he := Option.some.inj ht
        subst he
        have := List.find?_some h1
        simp only [Bool.and_eq_true, decide_eq_true_eq] at this
        exact this.2
      | none =>
        rw [h1] at ht
        simp only [] at ht
        split_ifs at ht
        have := List.find?_some ht
        simp only [Bool.and_eq_true, decide_eq_true_eq] at this
        exact this.2
    · intro hP
      unfold SubnetPool.pickTarget at ht
      cases h1 : sp.pickByPurpose P ord₁ with
      | some e =>
        left
        rw [h1] at ht
        have he := Option.some.inj ht
        subst he
        have := List.find?_some h1
        simp only [Bool.and_eq_true, Bool.not_eq_true', Bool.and_eq_false_iff,
          decide_eq_false_iff_not, decide_eq_true_eq, ne_eq, not_not] at this
        rcases this.1 with h | h
        · exact absurd h hP
        · exact h
      | none =>
        right
        rw [h1] at ht
        simp only [] at ht
        split_ifs at ht with hnd
        have := List.find?_some ht
        simp only [Bool.and_eq_true, decide_eq_true_eq] at this
        refine ⟨hnd, this.1, fun k s' hk hp => ?_⟩
        have hf := find_rangeMap_none_get h₁ h1 hk
        simp only [hp, ne_eq, not_true_eq_false, decide_False, Bool.and_false, Bool.not_false,
          Bool.true_and, decide_eq_false_iff_not] at hf
        omega

/-- C19 amended, instance: a pool with a `storage` and a `default` subnet; a `storage`
request returns the CIDR of the `storage` subnet. -/
theorem C19_candidate_set_witness :
    ∃ s, mapGet (SubnetPool.mk "tor-1"
        [(CIDRString.v4 183762944 24,
          Subnet.mk ⟨183762944, 24, 32⟩ "default" 254 0 [] (NewBitmap 254)),
         (CIDRString.v4 183763200 24,
          Subnet.mk ⟨183763200, 24, 32⟩ "storage" 254 0 [] (NewBitmap 254))]).Subnets
        (CIDRString.v4 183763200 24) = some s ∧
      ("storage" ≠ "" → s.Purpose = "storage" ∨ ("storage" ≠ "default" ∧ s.Purpose = "default" ∧
        ∀ k s', mapGet (SubnetPool.mk "tor-1"
          [(CIDRString.v4 183762944 24,
            Subnet.mk ⟨183762944, 24, 32⟩ "default" 254 0 [] (NewBitmap 254)),
           (CIDRString.v4 183763200 24,
            Subnet.mk ⟨183763200, 24, 32⟩ "storage" 254 0 [] (NewBitmap 254))]).Subnets k =
          some s' → s'.Purpose = "storage" → s'.Capacity - s'.Used ≤ 0)) := by
  obtain ⟨s, h1, _, _, h4⟩ := C19_candidate_set
    (SubnetPool.mk "tor-1"
      [(CIDRString.v4 183762944 24,
        Subnet.mk ⟨183762944, 24, 32⟩ "default" 254 0 [] (NewBitmap 254)),
       (CIDRString.v4 183763200 24,
        Subnet.mk ⟨183763200, 24, 32⟩ "storage" 254 0 [] (NewBitmap 254))])
    "n1" "storage" id id IsMapOrder_id (IP.v4 183763201) (CIDRString.v4 183763200 24)
    (by decide)
  exact ⟨s, h1, h4⟩

theorem IsMapOrder_reverse : IsMapOrder List.reverse := fun l => List.reverse_perm l

/-- C20, as stated, fails: with the overlapping subnets `10.244.0.0/24` (`default`) and
`10.244.0.0/25` (`storage`) in the pool, a `default` allocation for `n1` returns
`10.244.0.1` from the `/24`, and a `GetAllocation(10.244.0.1)` whose loop visits the `/25`
first answers that the address is not allocated. -/
theorem C20_allocated_address_counterexample :
    ¬ (∀ (torID : String) (sp : SubnetPool), SubnetPool.ReachableFrom torID sp →
        ∀ (nodeID purpose : String) (ord₁ ord₂ ord₃ : MapOrder), IsMapOrder ord₁ →
        IsMapOrder ord₂ → IsMapOrder ord₃ → ∀ (ip : IP) (cidr : CIDRString),
        (sp.AllocateIP nodeID purpose ord₁ ord₂).2 = Except.ok (ip, cidr) →
        ∃ s, mapGet sp.Subnets cidr = some s ∧
          ip = IP.v4 (s.CIDR.addr + 1 + s.bitmap.FindFirstZero.toNat) ∧
          ∃ al, (sp.AllocateIP nodeID purpose ord₁ ord₂).1.GetAllocation ip ord₃ =
            Except.ok al ∧ al.NodeID = nodeID) := by
  intro h
  have hvalid : ∀ op ∈ [SubnetOp.addSubnet (CIDRString.v4 183762944 24) "default",
      SubnetOp.addSubnet (CIDRString.v4 183762944 25) "storage"], op.Valid := by
    intro op hop
    simp only [List.mem_cons, List.mem_singleton, List.mem_nil_iff, or_false] at hop
    rcases hop with rfl | rfl <;> exact trivial
  obtain ⟨s, _, _, al, hal, _⟩ := h "tor-1" _ ⟨_, hvalid, rfl⟩ "n1" "default" id id List.reverse
    IsMapOrder_id IsMapOrder_id IsMapOrder_reverse (IP.v4 183762945)
    (CIDRString.v4 183762944 24) (by decide)
  have herr : ((SubnetPool.run (NewSubnetPool "tor-1")
      [SubnetOp.addSubnet (CIDRString.v4 183762944 24) "default",
       SubnetOp.addSubnet (CIDRString.v4 183762944 25) "storage"]).AllocateIP
        "n1" "default" id id).1.GetAllocation (IP.v4 183762945) List.reverse =
      Except.error Err.ipNotAllocated := by decide
  rw [herr] at hal
  exact Except.noConfusion hal

/-- C20, amended: on every subnet pool reachable from `NewSubnetPool` by `AddSubnet`,
`AllocateIP` and `ReleaseIP`, a successful `AllocateIP` returns the CIDR key of the chosen
subnet and the address of its lowest free position `q` (the first-zero position of its
bitmap), which for an IPv4 subnet is network address + 1 + `q`; afterwards, in that subnet
and no other, position `q` is set, `Used` is one more and an allocation with the
requesting node is recorded under the address.  `GetAllocation(ip)` then returns that
allocation provided the subnet is IPv4 and no other subnet of the pool contains the
address; with overlapping subnets it may answer from another subnet. -/
theorem C20_allocated_address (torID : String) (sp : SubnetPool)
    (hr : SubnetPool.ReachableFrom torID sp) (nodeID purpose : String) (ord₁ ord₂ : MapOrder)
    (ip : IP) (cidr : CIDRString)
    (hok : (sp.AllocateIP nodeID purpose ord₁ ord₂).2 = Except.ok (ip, cidr)) :
    ∃ (s s' : Subnet) (q : Nat), mapGet sp.Subnets cidr = some s ∧
      s.bitmap.FindFirstZero = (q : Int) ∧ (q : Int) < s.Capacity ∧
      s.bitmap.IsSet (q : Int) = false ∧
      (∀ q' : Nat, q' < q → s.bitmap.IsSet (q' : Int) = true) ∧
      (s.CIDR.bits = 32 → ip = IP.v4 (s.CIDR.addr + 1 + q)) ∧
      (sp.AllocateIP nodeID purpose ord₁ ord₂).1.Subnets = mapPut sp.Subnets cidr s' ∧
      s'.CIDR = s.CIDR ∧ s'.Purpose = s.Purpose ∧ s'.Capacity = s.Capacity ∧
      s'.bitmap.IsSet (q : Int) = true ∧
      (∀ pos : Int, pos ≠ (q : Int) → s'.bitmap.IsSet pos = s.bitmap.IsSet pos) ∧
      s'.Used = s.Used + 1 ∧
      mapGet s'.Allocations ip = some (IPAllocation.mk ip nodeID "" "" "") ∧
      (∀ ord, IsMapOrder ord → s.CIDR.bits = 32 →
        (∀ k s₂, k ≠ cidr → mapGet sp.Subnets k = some s₂ → s₂.CIDR.Contains ip = false) →
        (sp.AllocateIP nodeID purpose ord₁ ord₂).1.GetAllocation ip ord =
          Except.ok (IPAllocation.mk ip nodeID "" "" "")) := by
  obtain ⟨hg, _⟩ := Good_Reachable hr
  rcases AllocateIP_form sp nodeID purpose ord₁ ord₂ with ⟨e, hres, _⟩ |
    ⟨key, S, ht, hne, hset, hres⟩
  · rw [hres] at hok; exact Except.noConfusion hok
  · rw [hres] at hok ⊢
    obtain ⟨hip, hkey⟩ := Prod.mk.inj (Except.ok.inj hok)
    subst hkey
    have hS := pickTarget_mem ht
    obtain ⟨hwf, hu, _⟩ := hg key S hS
    rcases FindFirstZero_spec S.bitmap hwf.bm with ⟨hr1, _⟩ | ⟨q, hq, hqS, hun, hbelow⟩
    · exact absurd hr1 hne
    · rw [hq] at hip hset ⊢
      obtain ⟨hs1, _, hs3⟩ := (Set_contract_WF S.bitmap hwf.bm (q : Int)).2.2 hset
      have hqC : (q : Int) < S.Capacity := by rw [← hwf.size]; exact hqS
      have hv4 : S.CIDR.bits = 32 → ip = IP.v4 (S.CIDR.addr + 1 + q) := by
        intro h4
        have := positionToIP_WF (asBlock_WF hwf h4) q hqC
        rw [← hip]
        have e1 : S.CIDR.addr + 1 + q = S.CIDR.addr + q + 1 := by omega
        rw [e1]
        exact this
      rw [hip]
      refine ⟨S, _, q, hS, hq, hqC, hun, hbelow, hv4, rfl, rfl, rfl, rfl, hs1, hs3, rfl,
        mapGet_mapPut_self _ _ _, ?_⟩
      intro ord hord h4 huniq
      have hbw := asBlock_WF hwf h4
      have hin : S.CIDR.Contains ip = true := by
        rw [hv4 h4]
        have hT := (WF_total_nat hbw).1
        have hR := (WF_total_nat hbw).2.2
        have hT' : S.Capacity = ((2 ^ (32 - S.CIDR.ones) - 2 : Nat) : Int) := hT
        have h4' := (WF_total_nat hbw).2.1
        have h4'' : 4 ≤ 2 ^ (32 - S.CIDR.ones) := h4'
        have hR' : S.CIDR.addr + 2 ^ (32 - S.CIDR.ones) ≤ 2 ^ 32 := hR
        exact (CIDR_Contains_v4 hbw _).2 ⟨by show S.CIDR.addr ≤ _; omega,
          by show _ < S.CIDR.addr + 2 ^ (32 - S.CIDR.ones); omega⟩
      obtain ⟨e, hfind, hpe, hge⟩ := find_rangeMap_some hord
        (m := mapPut sp.Subnets key
          (Subnet.mk S.CIDR S.Purpose S.Capacity (S.Used + 1)
            (mapPut S.Allocations ip (IPAllocation.mk ip nodeID "" "" ""))
            (S.bitmap.Set (q : Int)).1))
        (p := fun (e : CIDRString × Subnet) => e.2.CIDR.Contains ip)
        (mapGet_mapPut_self _ _ _) hin
      have hek : e.1 = key := by
        by_contra hc
        rw [mapGet_mapPut_ne _ _ hc] at hge
        have := huniq e.1 e.2 hc hge
        rw [this] at hpe
        exact Bool.noConfusion hpe
      obtain ⟨ek, es⟩ := e
      simp only at hek hge
      subst hek
      rw [mapGet_mapPut_self] at hge
      have hes := (Option.some.inj hge).symm
      subst hes
      simp only [SubnetPool.GetAllocation, hfind, mapGet_mapPut_self]

/-- C20 amended, instance: the first allocation from a pool holding the fresh subnet
`10.244.0.0/24` returns `10.244.0.1`, records it for `n1`, and `GetAllocation` finds it. -/
theorem C20_allocated_address_witness :
    ∃ (s s' : Subnet) (q : Nat),
      mapGet (SubnetPool.run (NewSubnetPool "tor-1")
        [SubnetOp.addSubnet (CIDRString.v4 183762944 24) "default"]).Subnets
        (CIDRString.v4 183762944 24) = some s ∧
      s.bitmap.FindFirstZero = (q : Int) ∧
      (s.CIDR.bits = 32 → IP.v4 183762945 = IP.v4 (s.CIDR.addr + 1 + q)) ∧
      s'.Used = s.Used + 1 ∧
      mapGet s'.Allocations (IP.v4 183762945) =
        some (IPAllocation.mk (IP.v4 183762945) "n1" "" "" "") := by
  obtain ⟨s, s', q, h1, h2, _, _, _, h6, _, _, _, _, _, _, h13, h14, _⟩ :=
    C20_allocated_address "tor-1"
      (SubnetPool.run (NewSubnetPool "tor-1")
        [SubnetOp.addSubnet (CIDRString.v4 183762944 24) "default"])
      ⟨_, fun op hop => by
          simp only [List.mem_singleton] at hop
          subst hop
          exact trivial, rfl⟩
      "n1" "default" id id (IP.v4 183762945) (CIDRString.v4 183762944 24) (by decide)
  exact ⟨s, s', q, h1, h2, h6, h13, h14⟩

end SubnetProofs

/-! ## Topology: `RegisterNode` -/

section RegisterNodeProofs

/-- A failing `Topology.RegisterNode` returns the topology as it was. -/
theorem RegisterNode_failure_unchanged (t : Topology) (node : Node) :
    (t.RegisterNode node).2 ≠ none → (t.RegisterNode node).1 = t := by
  intro h
  cases ht : mapGet t.TORs node.TORID with
  | none => simp only [Topology.RegisterNode, ht]
  | some tor =>
    cases hn : mapGet t.Nodes node.ID with
    | some n0 =>
      simp only [Topology.RegisterNode, ht, hn, Option.isSome_some, if_true]
    | none =>
      simp only [Topology.RegisterNode, ht, hn, Option.isSome_none, Bool.false_eq_true,
        if_false] at h
      exact absurd rfl h

/-- C23: `Topology.RegisterNode` fails with `TOR not found` when the node's `TORID` is no
key of `TORs` and with `already registered` when the TOR is known and the node's ID is a
key of `Nodes`; in both cases the topology is returned as it was.  When the TOR is known
and the ID is new, the call succeeds: the node is stored under its ID, the TOR stored
under `TORID` is the old one with the node ID appended once at the end of its node list
(the list has one more occurrence of the ID), `GetNodeTOR` of the ID returns that TOR, and
every other node entry, every other TOR, the zones and the pods are as before. -/
theorem C23_register_node_contract (t : Topology) (node : Node) :
    (mapGet t.TORs node.TORID = none → t.RegisterNode node = (t, some Err.torNotFound)) ∧
    (mapGet t.TORs node.TORID ≠ none → mapGet t.Nodes node.ID ≠ none →
      t.RegisterNode node = (t, some Err.nodeRegistered)) ∧
    (∀ tor, mapGet t.TORs node.TORID = some tor → mapGet t.Nodes node.ID = none →
      (t.RegisterNode node).2 = none ∧
      mapGet (t.RegisterNode node).1.Nodes node.ID = some node ∧
      mapGet (t.RegisterNode node).1.TORs node.TORID =
        some (TOR.mk tor.ID tor.Name tor.PodID tor.Location tor.Subnets
          (tor.Nodes ++ [node.ID])) ∧
      (tor.Nodes ++ [node.ID]).count node.ID = tor.Nodes.count node.ID + 1 ∧
      (t.RegisterNode node).1.GetNodeTOR node.ID =
        Except.ok (TOR.mk tor.ID tor.Name tor.PodID tor.Location tor.Subnets
          (tor.Nodes ++ [node.ID])) ∧
      (∀ id, id ≠ node.ID → mapGet (t.RegisterNode node).1.Nodes id = mapGet t.Nodes id) ∧
      (∀ id, id ≠ node.TORID → mapGet (t.RegisterNode node).1.TORs id = mapGet t.TORs id) ∧
      (t.RegisterNode node).1.Zones = t.Zones ∧ (t.RegisterNode node).1.Pods = t.Pods) := by
  refine ⟨?_, ?_, ?_⟩
  · intro h
    simp only [Topology.RegisterNode, h]
  · intro h1 h2
    cases ht : mapGet t.TORs node.TORID with
    | none => exact absurd ht h1
    | some tor =>
      have hs : (mapGet t.Nodes node.ID).isSome = true := by
        cases hn : mapGet t.Nodes node.ID with
        | none => exact absurd hn h2
        | some n => rfl
      simp only [Topology.RegisterNode, ht, hs, if_true]
  · intro tor ht hn
    have hres : t.RegisterNode node =
        (Topology.mk t.Zones t.Pods
          (mapPut t.TORs node.TORID (TOR.mk tor.ID tor.Name tor.PodID tor.Location tor.Subnets
            (tor.Nodes ++ [node.ID])))
          (mapPut t.Nodes node.ID node), none) := by
      simp only [Topology.RegisterNode, ht, hn, Option.isSome_none, Bool.false_eq_true,
        if_false]
    rw [hres]
    refine ⟨rfl, mapGet_mapPut_self _ _ _, mapGet_mapPut_self _ _ _, ?_, ?_, ?_, ?_, rfl, rfl⟩
    · rw [List.count_append]; simp
    · simp only [Topology.GetNodeTOR, mapGet_mapPut_self]
    · intro id hid
      exact mapGet_mapPut_ne _ _ hid
    · intro id hid
      exact mapGet_mapPut_ne _ _ hid

/-- C23, instance: registering `node-1` on `tor-1` in a topology with that TOR succeeds,
`GetNodeTOR` returns the TOR with the node in its list, and registering it again fails. -/
theorem C23_register_node_contract_witness :
    mapGet (Topology.mk [] [] [("tor-1", TOR.mk "tor-1" "TOR 1" "pod-1" "R01" [] [])] []).TORs
        "tor-1" = some (TOR.mk "tor-1" "TOR 1" "pod-1" "R01" [] []) ∧
    ((Topology.mk [] [] [("tor-1", TOR.mk "tor-1" "TOR 1" "pod-1" "R01" [] [])] []).RegisterNode
        (Node.mk "node-1" "k8s-node-1" "tor-1" [])).2 = none ∧
    ((Topology.mk [] [] [("tor-1", TOR.mk "tor-1" "TOR 1" "pod-1" "R01" [] [])]
        []).RegisterNode (Node.mk "node-1" "k8s-node-1" "tor-1" [])).1.GetNodeTOR "node-1" =
      Except.ok (TOR.mk "tor-1" "TOR 1" "pod-1" "R01" [] ["node-1"]) :=
  have h := (C23_register_node_contract
    (Topology.mk [] [] [("tor-1", TOR.mk "tor-1" "TOR 1" "pod-1" "R01" [] [])] [])
    (Node.mk "node-1" "k8s-node-1" "tor-1" [])).2.2
      (TOR.mk "tor-1" "TOR 1" "pod-1" "R01" [] []) (by decide) (by decide)
  ⟨by decide, h.1, h.2.2.2.2.1⟩

end RegisterNodeProofs

/-! ## Flat pool: the lowest free block -/

section LowestBlockProofs

theorem findLoop_min (p : Pool) (base B : Nat) :
    ∀ (fuel i : Nat),
      (∀ c, Pool.findLoop p base B fuel i = Except.ok c →
        ∃ j, i ≤ j ∧ j < i + fuel ∧
          c = p.blockCIDRString ((base + (j % 2 ^ 32) * B) % 2 ^ 32) ∧
          p.view.alloc c = false ∧
          ∀ k, i ≤ k → k < j →
            p.view.alloc (p.blockCIDRString ((base + (k % 2 ^ 32) * B) % 2 ^ 32)) = true) ∧
      (∀ e, Pool.findLoop p base B fuel i = Except.error e →
        e = Err.ErrCIDRExhausted ∧ ∀ k, i ≤ k → k < i + fuel →
          p.view.alloc (p.blockCIDRString ((base + (k % 2 ^ 32) * B) % 2 ^ 32)) = true) := by
  intro fuel
  induction fuel with
  | zero =>
    intro i
    refine ⟨fun c h => ?_, fun e h => ?_⟩
    · simp [Pool.findLoop] at h
    · simp only [Pool.findLoop] at h
      exact ⟨(Except.error.inj h).symm, fun k h1 h2 => by omega⟩
  | succ fuel ih =>
    intro i
    by_cases hfree : (mapGet p.allocatedBlocks
        (p.blockCIDRString ((base + (i % 2 ^ 32) * B) % 2 ^ 32))).getD false = true
    · have hstep : Pool.findLoop p base B (fuel + 1) i = Pool.findLoop p base B fuel (i + 1) := by
        rw [Pool.findLoop]
        simp only [hfree, Bool.not_true, Bool.false_eq_true, if_false]
      rw [hstep]
      obtain ⟨ih1, ih2⟩ := ih (i + 1)
      refine ⟨fun c h => ?_, fun e h => ?_⟩
      · obtain ⟨j, h1, h2, h3, h4, h5⟩ := ih1 c h
        refine ⟨j, by omega, by omega, h3, h4, fun k hk1 hk2 => ?_⟩
        by_cases hki : k = i
        · subst hki; exact hfree
        · exact h5 k (by omega) hk2
      · obtain ⟨h1, h2⟩ := ih2 e h
        refine ⟨h1, fun k hk1 hk2 => ?_⟩
        by_cases hki : k = i
        · subst hki; exact hfree
        · exact h2 k (by omega) (by omega)
    · rw [Bool.not_eq_true] at hfree
      have hstep : Pool.findLoop p base B (fuel + 1) i =
          Except.ok (p.blockCIDRString ((base + (i % 2 ^ 32) * B) % 2 ^ 32)) := by
        rw [Pool.findLoop]
        simp only [hfree, Bool.not_false, if_true]
      rw [hstep]
      refine ⟨fun c h => ?_, fun e h => Except.noConfusion h⟩
      have hc := (Except.ok.inj h).symm
      exact ⟨i, Nat.le_refl _, by omega, hc, by rw [hc]; exact hfree, fun k h1 h2 => by omega⟩

/-- On an IPv4 pool the search runs over the `2 ^ (b - c)` block indices, with the block
size `2 ^ (32 - b)` and the cluster network address as base. -/
theorem findAvailableBlock_eq {p : Pool} (hcfg : p.Cfg) (b : Nat) (hb : p.blockSize = (b : Int)) :
    p.findAvailableBlock =
      Pool.findLoop p p.clusterCIDR.addr (2 ^ (32 - b)) (2 ^ (b - p.clusterCIDR.ones)) 0 := by
  obtain ⟨hbits, hones, hlt, hal, hgt, hle⟩ := hcfg
  have hbs1 : p.clusterCIDR.ones < b := by omega
  have hbs2 : b ≤ 32 := by omega
  unfold Pool.findAvailableBlock
  simp only [IPNet.To4, hbits, if_true]
  have hk : (p.blockSize - (p.clusterCIDR.ones : Int)).toNat = b - p.clusterCIDR.ones := by
    omega
  have hB' : (((32 : Nat) : Int) - p.blockSize).toNat = 32 - b := by omega
  rw [hk, hB']
  have hcount : toInt64 (2 ^ (b - p.clusterCIDR.ones)) =
      ((2 ^ (b - p.clusterCIDR.ones) : Nat) : Int) := by
    have h1 := two_pow_le_of_le_32 (b - p.clusterCIDR.ones) (by omega)
    have h2 := two_pow_pos_int (b - p.clusterCIDR.ones)
    rw [toInt64_of_range (by omega) (by omega)]
    push_cast; rfl
  rw [hcount, Int.toNat_ofNat]
  have hH : 2 ^ (32 - b) % 2 ^ 32 = 2 ^ (32 - b) :=
    Nat.mod_eq_of_lt (Nat.pow_lt_pow_right (by decide) (by omega))
  rw [hH, Nat.mod_eq_of_lt hlt]

/-- The address of block `k` is computed without wrap-around and lies in the cluster
network. -/
theorem block_addr_eq {p : Pool} (hcfg : p.Cfg) (b : Nat) (hb : p.blockSize = (b : Int))
    (k : Nat) (hk : k < 2 ^ (b - p.clusterCIDR.ones)) :
    (p.clusterCIDR.addr + (k % 2 ^ 32) * 2 ^ (32 - b)) % 2 ^ 32 =
        p.clusterCIDR.addr + k * 2 ^ (32 - b) ∧
      p.clusterCIDR.addr + k * 2 ^ (32 - b) < 2 ^ 32 ∧
      maskAddr (p.clusterCIDR.addr + k * 2 ^ (32 - b)) b 32 =
        p.clusterCIDR.addr + k * 2 ^ (32 - b) := by
  obtain ⟨hbits, hones, hlt, hal, hgt, hle⟩ := hcfg
  have hbs1 : p.clusterCIDR.ones < b := by omega
  have hbs2 : b ≤ 32 := by omega
  have hsplit : 2 ^ (32 - p.clusterCIDR.ones) =
      2 ^ (b - p.clusterCIDR.ones) * 2 ^ (32 - b) := by
    rw [← Nat.pow_add]; congr 1; omega
  have hrange := block_range _ _ hones hlt hal
  have hk32 : k < 2 ^ 32 :=
    Nat.lt_of_lt_of_le hk (Nat.pow_le_pow_right (by decide) (by omega))
  have hkH : k * 2 ^ (32 - b) < 2 ^ (32 - p.clusterCIDR.ones) := by
    rw [hsplit]
    exact Nat.mul_lt_mul_of_pos_right hk (Nat.two_pow_pos _)
  have haddr : p.clusterCIDR.addr + k * 2 ^ (32 - b) < 2 ^ 32 := by omega
  refine ⟨by rw [Nat.mod_eq_of_lt hk32, Nat.mod_eq_of_lt haddr], haddr, ?_⟩
  unfold maskAddr at hal ⊢
  rw [hsplit] at hal
  have hdvd : 2 ^ (32 - b) ∣ p.clusterCIDR.addr + k * 2 ^ (32 - b) := by
    apply Dvd.dvd.add
    · rw [← hal, ← Nat.mul_assoc]
      exact Dvd.intro_left _ rfl
    · exact Dvd.intro_left _ rfl
  exact Nat.div_mul_cancel hdvd

/-- The two outcomes of `AllocateBlockForNode` on an IPv4 pool with block prefix length
`b ≤ 30`: the block of the least index whose CIDR string is not marked allocated, or
`ErrCIDRExhausted` with every index marked. -/
theorem AllocateBlockForNode_cases {p : Pool} (hcfg : p.Cfg) (b : Nat)
    (hb : p.blockSize = (b : Int)) (hb30 : b ≤ 30) (nodeID : String) :
    (∃ i, i < 2 ^ (b - p.clusterCIDR.ones) ∧
      (∀ j, j < i →
        p.view.alloc (CIDRString.v4 (p.clusterCIDR.addr + j * 2 ^ (32 - b)) b) = true) ∧
      p.view.alloc (CIDRString.v4 (p.clusterCIDR.addr + i * 2 ^ (32 - b)) b) = false ∧
      p.AllocateBlockForNode nodeID =
        (Pool.mk p.clusterCIDR p.blockSize
          (mapPut p.nodeBlocks nodeID ((mapGet p.nodeBlocks nodeID).getD [] ++
            [IPBlock.mk ⟨p.clusterCIDR.addr + i * 2 ^ (32 - b), b, 32⟩ nodeID
              (2 ^ (32 - b) - 2) 0 (NewBitmap (2 ^ (32 - b) - 2))]))
          (mapPut p.allocatedBlocks
            (CIDRString.v4 (p.clusterCIDR.addr + i * 2 ^ (32 - b)) b) true),
          Except.ok (IPBlock.mk ⟨p.clusterCIDR.addr + i * 2 ^ (32 - b), b, 32⟩ nodeID
            (2 ^ (32 - b) - 2) 0 (NewBitmap (2 ^ (32 - b) - 2))))) ∨
    ((∀ i, i < 2 ^ (b - p.clusterCIDR.ones) →
        p.view.alloc (CIDRString.v4 (p.clusterCIDR.addr + i * 2 ^ (32 - b)) b) = true) ∧
      p.AllocateBlockForNode nodeID = (p, Except.error Err.ErrCIDRExhausted)) := by
  have htoNat : p.blockSize.toNat = b := by omega
  have hcs : ∀ k, k < 2 ^ (b - p.clusterCIDR.ones) →
      p.blockCIDRString ((p.clusterCIDR.addr + (k % 2 ^ 32) * 2 ^ (32 - b)) % 2 ^ 32) =
        CIDRString.v4 (p.clusterCIDR.addr + k * 2 ^ (32 - b)) b := by
    intro k hk
    rw [(block_addr_eq hcfg b hb k hk).1]
    show CIDRString.v4 _ p.blockSize.toNat = _
    rw [htoNat]
  obtain ⟨hmin1, hmin2⟩ := findLoop_min p p.clusterCIDR.addr (2 ^ (32 - b))
    (2 ^ (b - p.clusterCIDR.ones)) 0
  cases hf : Pool.findLoop p p.clusterCIDR.addr (2 ^ (32 - b))
      (2 ^ (b - p.clusterCIDR.ones)) 0 with
  | error e =>
    obtain ⟨he, hall⟩ := hmin2 e hf
    subst he
    refine Or.inr ⟨fun i hi => ?_, ?_⟩
    · rw [← hcs i hi]
      exact hall i (Nat.zero_le _) (by omega)
    · have hfa := findAvailableBlock_eq hcfg b hb
      rw [hf] at hfa
      simp only [Pool.AllocateBlockForNode, hfa]
  | ok c =>
    obtain ⟨i, _, hi, hc, hfree, hbelow⟩ := hmin1 c hf
    have hi' : i < 2 ^ (b - p.clusterCIDR.ones) := by omega
    rw [hcs i hi'] at hc
    subst hc
    obtain ⟨_, haddr, hal⟩ := block_addr_eq hcfg b hb i hi'
    have hnew := NewIPBlock_v4_ok (p.clusterCIDR.addr + i * 2 ^ (32 - b)) b nodeID haddr hb30
    rw [hal] at hnew
    have hfa := findAvailableBlock_eq hcfg b hb
    rw [hf] at hfa
    refine Or.inl ⟨i, hi', fun j hj => ?_, hfree, ?_⟩
    · rw [← hcs j (by omega)]
      exact hbelow j (Nat.zero_le _) hj
    · simp only [Pool.AllocateBlockForNode, hfa, hnew]

/-- C30: on every pool reachable from `NewPool` whose cluster network is IPv4 with prefix
length `c` and whose block prefix length is `b ≤ 30` (so `c < b`), block number `i` being
the network `clusterBase + i * 2 ^ (32 - b)` of prefix length `b`: if `i < 2 ^ (b - c)` is
the least index whose block CIDR is not marked allocated, `AllocateBlockForNode(node)`
returns the empty block of that network owned by the node, appends it to the node's blocks
and marks its CIDR, and no node held a block of that network before; the call returns
`ErrCIDRExhausted` if and only if all `2 ^ (b - c)` block CIDRs are marked allocated; it
fails in no other way and a failure leaves the pool as it was; and a block CIDR is marked
allocated exactly when some node holds a block of that network. -/
theorem C30_lowest_free_block (config : PoolConfig) (t : TrackedPool)
    (hr : Pool.ReachableFrom config t) (b c : Nat)
    (hb : t.pool.blockSize = (b : Int)) (hc : t.pool.clusterCIDR.ones = c)
    (hv4 : t.pool.clusterCIDR.bits = 32) (hb30 : b ≤ 30) (nodeID : String) :
    c < b ∧
    (∀ i, i < 2 ^ (b - c) →
      (∀ j, j < i → (mapGet t.pool.allocatedBlocks
        (CIDRString.v4 (t.pool.clusterCIDR.addr + j * 2 ^ (32 - b)) b)).getD false = true) →
      (mapGet t.pool.allocatedBlocks
        (CIDRString.v4 (t.pool.clusterCIDR.addr + i * 2 ^ (32 - b)) b)).getD false = false →
      t.pool.AllocateBlockForNode nodeID =
        (Pool.mk t.pool.clusterCIDR t.pool.blockSize
          (mapPut t.pool.nodeBlocks nodeID ((mapGet t.pool.nodeBlocks nodeID).getD [] ++
            [IPBlock.mk ⟨t.pool.clusterCIDR.addr + i * 2 ^ (32 - b), b, 32⟩ nodeID
              (2 ^ (32 - b) - 2) 0 (NewBitmap (2 ^ (32 - b) - 2))]))
          (mapPut t.pool.allocatedBlocks
            (CIDRString.v4 (t.pool.clusterCIDR.addr + i * 2 ^ (32 - b)) b) true),
          Except.ok (IPBlock.mk ⟨t.pool.clusterCIDR.addr + i * 2 ^ (32 - b), b, 32⟩ nodeID
            (2 ^ (32 - b) - 2) 0 (NewBitmap (2 ^ (32 - b) - 2)))) ∧
      ∀ n, ∀ blk ∈ (mapGet t.pool.nodeBlocks n).getD [],
        blk.CIDR ≠ ⟨t.pool.clusterCIDR.addr + i * 2 ^ (32 - b), b, 32⟩) ∧
    ((t.pool.AllocateBlockForNode nodeID).2 = Except.error Err.ErrCIDRExhausted ↔
      ∀ i, i < 2 ^ (b - c) → (mapGet t.pool.allocatedBlocks
        (CIDRString.v4 (t.pool.clusterCIDR.addr + i * 2 ^ (32 - b)) b)).getD false = true) ∧
    (∀ e, (t.pool.AllocateBlockForNode nodeID).2 = Except.error e →
      e = Err.ErrCIDRExhausted ∧ (t.pool.AllocateBlockForNode nodeID).1 = t.pool) ∧
    (∀ i, i < 2 ^ (b - c) →
      ((mapGet t.pool.allocatedBlocks
          (CIDRString.v4 (t.pool.clusterCIDR.addr + i * 2 ^ (32 - b)) b)).getD false = true ↔
        ∃ n, ∃ blk ∈ (mapGet t.pool.nodeBlocks n).getD [],
          blk.CIDR = ⟨t.pool.clusterCIDR.addr + i * 2 ^ (32 - b), b, 32⟩)) := by
  have hP : t.pool.PInv t.held := by
    rcases OK_Reachable hr with hok | ⟨hne, _⟩
    · exact hok
    · exact absurd hv4 hne
  obtain ⟨hcfg, hinv, _⟩ := hP
  subst hc
  have hcb : t.pool.clusterCIDR.ones < b := by have := hcfg.size_gt; omega
  have halloc : ∀ a : Nat,
      ((mapGet t.pool.allocatedBlocks (CIDRString.v4 a b)).getD false = true ↔
        ∃ n, ∃ blk ∈ (mapGet t.pool.nodeBlocks n).getD [], blk.CIDR = ⟨a, b, 32⟩) := by
    intro a
    have h1 := hinv.alloc_iff (CIDRString.v4 a b)
    constructor
    · intro h
      obtain ⟨n, blk, hmem, hstr⟩ := h1.1 h
      refine ⟨n, blk, hmem, ?_⟩
      have hbits := (hinv.wf n blk hmem).1.bits
      simp only [IPNet.String, hbits, if_true] at hstr
      obtain ⟨h2, h3⟩ := CIDRString.v4.inj hstr
      cases hcidr : blk.CIDR with
      | mk a' o' b' =>
        rw [hcidr] at h2 h3 hbits
        simp only at h2 h3 hbits
        rw [h2, h3, hbits]
    · rintro ⟨n, blk, hmem, hcidr⟩
      refine h1.2 ⟨n, blk, hmem, ?_⟩
      rw [hcidr]
      rfl
  have hcases := AllocateBlockForNode_cases hcfg b hb hb30 nodeID
  refine ⟨hcb, ?_, ?_, ?_, fun i _ => halloc _⟩
  · intro i hi hbelow hfree
    rcases hcases with ⟨j, hj, hjb, hjf, hres⟩ | ⟨hall, _⟩
    · have hij : j = i := by
        rcases Nat.lt_trichotomy j i with h | h | h
        · have := hbelow j h
          have hjf' : (mapGet t.pool.allocatedBlocks
            (CIDRString.v4 (t.pool.clusterCIDR.addr + j * 2 ^ (32 - b)) b)).getD false = false :=
            hjf
          rw [this] at hjf'
          exact Bool.noConfusion hjf'
        · exact h
        · have := hjb i h
          have this' : (mapGet t.pool.allocatedBlocks
            (CIDRString.v4 (t.pool.clusterCIDR.addr + i * 2 ^ (32 - b)) b)).getD false = true :=
            this
          rw [hfree] at this'
          exact Bool.noConfusion this'
      subst hij
      refine ⟨hres, fun n blk hmem hcidr => ?_⟩
      have := (halloc _).2 ⟨n, blk, hmem, hcidr⟩
      rw [hfree] at this
      exact Bool.noConfusion this
    · have := hall i hi
      have this' : (mapGet t.pool.allocatedBlocks
        (CIDRString.v4 (t.pool.clusterCIDR.addr + i * 2 ^ (32 - b)) b)).getD false = true := this
      rw [hfree] at this'
      exact Bool.noConfusion this'
  · rcases hcases with ⟨j, hj, _, hjf, hres⟩ | ⟨hall, hres⟩
    · rw [hres]
      constructor
      · intro h; exact Except.noConfusion h
      · intro h
        have := h j hj
        have hjf' : (mapGet t.pool.allocatedBlocks
          (CIDRString.v4 (t.pool.clusterCIDR.addr + j * 2 ^ (32 - b)) b)).getD false = false :=
          hjf
        rw [this] at hjf'
        exact Bool.noConfusion hjf'
    · rw [hres]
      exact ⟨fun _ => hall, fun _ => rfl⟩
  · intro e he
    rcases hcases with ⟨j, _, _, _, hres⟩ | ⟨_, hres⟩
    · rw [hres] at he; exact Except.noConfusion he
    · rw [hres] at he ⊢
      exact ⟨(Except.error.inj he).symm, rfl⟩

/-- C30, instance: the pool `10.244.0.0/28` with `/30` blocks.  After one allocation the
next one returns `10.244.0.4/30`; after four allocations the next one fails with
`ErrCIDRExhausted`. -/
theorem C30_lowest_free_block_witness :
    Pool.ReachableFrom (PoolConfig.mk (CIDRString.v4 183762944 28) 30)
      (TrackedPool.run ⟨Pool.mk ⟨183762944, 28, 32⟩ 30 [] [], []⟩
        [PoolOp.allocateBlock "node1"]) ∧
    ((TrackedPool.run ⟨Pool.mk ⟨183762944, 28, 32⟩ 30 [] [], []⟩
        [PoolOp.allocateBlock "node1"]).pool.AllocateBlockForNode "node1").2 =
      Except.ok (IPBlock.mk ⟨183762948, 30, 32⟩ "node1" 2 0 (NewBitmap 2)) ∧
    ((TrackedPool.run ⟨Pool.mk ⟨183762944, 28, 32⟩ 30 [] [], []⟩
        [PoolOp.allocateBlock "node1", PoolOp.allocateBlock "node1",
          PoolOp.allocateBlock "node1", PoolOp.allocateBlock "node1"]).pool.AllocateBlockForNode
        "node1").2 = Except.error Err.ErrCIDRExhausted :=
  have h1 := (C30_lowest_free_block (PoolConfig.mk (CIDRString.v4 183762944 28) 30)
    (TrackedPool.run ⟨Pool.mk ⟨183762944, 28, 32⟩ 30 [] [], []⟩ [PoolOp.allocateBlock "node1"])
    ⟨_, _, by decide, rfl⟩ 30 28 (by decide) (by decide) (by decide) (by decide) "node1").2.1
      1 (by decide) (by decide) (by decide)
  have h4 := (C30_lowest_free_block (PoolConfig.mk (CIDRString.v4 183762944 28) 30)
    (TrackedPool.run ⟨Pool.mk ⟨183762944, 28, 32⟩ 30 [] [], []⟩
      [PoolOp.allocateBlock "node1", PoolOp.allocateBlock "node1",
        PoolOp.allocateBlock "node1", PoolOp.allocateBlock "node1"])
    ⟨_, _, by decide, rfl⟩ 30 28 (by decide) (by decide) (by decide) (by decide)
      "node1").2.2.1
  ⟨⟨_, _, by decide, rfl⟩, congrArg Prod.snd h1.1, h4.2 (by decide)⟩

end LowestBlockProofs

/-! ## Subnet pools: `ReleaseIP` -/

section ReleaseProofs
open Bitmap

/-- An address in a network that `To4` accepts is an IPv4 address. -/
theorem Contains_To4 {n : IPNet} {ip : IP} (h : n.Contains ip = true) (h4 : n.To4 ≠ none) :
    ∃ a, ip = IP.v4 a ∧ a < 2 ^ 32 := by
  cases ip with
  | nil => exact Bool.noConfusion h
  | v4 a =>
    refine ⟨a, rfl, ?_⟩
    by_cases hb : n.bits = 32
    · rw [Contains_v4_of_bits hb] at h
      exact (of_decide_eq_true h).1
    · have h' : (if n.bits = 32 then decide (a < 2 ^ 32 ∧ maskAddr a n.ones 32 = n.addr)
          else decide (n.bits = 128 ∧ isV4Mapped n.addr = true ∧ a < 2 ^ 32 ∧
            maskAddr a (n.ones - 96) 32 = n.addr % 2 ^ 32)) = true := h
      rw [if_neg hb] at h'
      exact (of_decide_eq_true h').2.2.1
  | v6 a =>
    exfalso
    have h' : decide (n.bits = 128 ∧ isV4Mapped n.addr = false ∧ a < 2 ^ 128 ∧
      maskAddr a n.ones 128 = n.addr) = true := h
    obtain ⟨hb, hm, _⟩ := of_decide_eq_true h'
    apply h4
    unfold IPNet.To4
    rw [if_neg (by omega), hm]
    rfl

/-- Position to address and back. -/
theorem ipToPosition_positionToIP {n : IPNet} (h4 : n.To4 ≠ none) (q : Nat)
    (hq : q + 1 < 2 ^ 32) : ipToPosition n (positionToIP n (q : Int)) = (q : Int) := by
  cases hA : n.To4 with
  | none => exact absurd hA h4
  | some A =>
    have hAlt : A < 2 ^ 32 := by
      unfold IPNet.To4 at hA
      split_ifs at hA
      · have := Option.some.inj hA
        omega
      · have := Option.some.inj hA
        omega
    have hu : toUint32 ((q : Int) + 1) = q + 1 := by
      unfold toUint32
      omega
    simp only [positionToIP, ipToPosition, hA, IP.To4, hu]
    omega

/-- Address to position and back. -/
theorem positionToIP_ipToPosition {n : IPNet} (h4 : n.To4 ≠ none) (a q : Nat)
    (ha : a < 2 ^ 32) (hq : ipToPosition n (IP.v4 a) = (q : Int)) :
    positionToIP n (q : Int) = IP.v4 a := by
  cases hA : n.To4 with
  | none => exact absurd hA h4
  | some A =>
    have hAlt : A < 2 ^ 32 := by
      unfold IPNet.To4 at hA
      split_ifs at hA
      · have := Option.some.inj hA
        omega
      · have := Option.some.inj hA
        omega
    simp only [ipToPosition, hA, IP.To4] at hq
    have hu : toUint32 ((q : Int) + 1) = q + 1 := by
      unfold toUint32
      omega
    simp only [positionToIP, hA, hu]
    congr 1
    omega

/-- Two IPv4 addresses at the same position of a network are equal. -/
theorem ipToPosition_inj {n : IPNet} (h4 : n.To4 ≠ none) (a a' : Nat) (ha : a < 2 ^ 32)
    (ha' : a' < 2 ^ 32) (h : ipToPosition n (IP.v4 a) = ipToPosition n (IP.v4 a')) :
    a = a' := by
  cases hA : n.To4 with
  | none => exact absurd hA h4
  | some A =>
    have hAlt : A < 2 ^ 32 := by
      unfold IPNet.To4 at hA
      split_ifs at hA
      · have := Option.some.inj hA
        omega
      · have := Option.some.inj hA
        omega
    simp only [ipToPosition, hA, IP.To4] at h
    omega

/-- The subnet `AddSubnet` creates has fewer than `2 ^ 32` positions when its network is
IPv4, and no allocation. -/
theorem AllocOK_new {c : CIDRString} {ipNet : IPNet} (hp : ParseCIDR c = some ipNet)
    (purpose : String) :
    (Subnet.mk ipNet purpose (toInt64 (toInt64 (2 ^ (ipNet.bits - ipNet.ones)) - 2)) 0 []
      (NewBitmap (toInt64 (toInt64 (2 ^ (ipNet.bits - ipNet.ones)) - 2)))).AllocOK := by
  refine ⟨fun h4 => ?_, fun ip h _ => ?_⟩
  · show toInt64 (toInt64 (2 ^ (ipNet.bits - ipNet.ones)) - 2) < 2 ^ 32
    have hpow : ∀ k : Nat, k ≤ 32 → toInt64 (toInt64 (2 ^ k) - 2) < 2 ^ 32 := by
      intro k hk
      have h1 := two_pow_le_of_le_32 k hk
      have h2 := two_pow_pos_int k
      have e1 : toInt64 (2 ^ k) = 2 ^ k := toInt64_of_range (by omega) (by omega)
      rw [e1, toInt64_of_range (by omega) (by omega)]
      omega
    cases c with
    | invalid t => simp [ParseCIDR] at hp
    | v4 a n =>
      simp only [ParseCIDR] at hp
      split_ifs at hp with hc
      have := (Option.some.inj hp).symm
      subst this
      exact hpow _ (by simp only; omega)
    | v6 a n =>
      simp only [ParseCIDR] at hp
      split_ifs at hp with hc
      have := (Option.some.inj hp).symm
      subst this
      have hm : isV4Mapped (maskAddr a n 128) = true := by
        by_contra hm
        apply h4
        show (if (128 : Nat) = 32 then some (maskAddr a n 128 % 2 ^ 32)
          else if isV4Mapped (maskAddr a n 128) = true then some (maskAddr a n 128 % 2 ^ 32)
          else none) = none
        rw [if_neg (by decide), if_neg hm]
      have := mapped_ones hm
      exact hpow _ (by simp only; omega)
  · simp [mapGet] at h

/-- `AllocateIP` keeps the agreement of allocations and bitmap in the target subnet. -/
theorem AllocOK_allocate {S : Subnet} (hwf : S.WF) (hok : S.AllocOK) (nodeID : String)
    (hset : (S.bitmap.Set S.bitmap.FindFirstZero).2 = none) :
    (Subnet.mk S.CIDR S.Purpose S.Capacity (S.Used + 1)
      (mapPut S.Allocations (positionToIP S.CIDR S.bitmap.FindFirstZero)
        (IPAllocation.mk (positionToIP S.CIDR S.bitmap.FindFirstZero) nodeID "" "" ""))
      (S.bitmap.Set S.bitmap.FindFirstZero).1).AllocOK := by
  rcases Set_cases S.bitmap hwf.bm S.bitmap.FindFirstZero with ⟨_, h⟩ | ⟨p, _, _, _, h⟩ |
    ⟨q0, hq0, hq0s, _, _, hsize, _, _, _, hbits⟩
  · rw [h] at hset; exact Option.noConfusion hset
  · rw [h] at hset; exact Option.noConfusion hset
  · refine ⟨hok.cap, fun ip hrec hin => ?_⟩
    have hin' : S.CIDR.Contains ip = true := hin
    show ∃ q : Nat, ipToPosition S.CIDR ip = (q : Int) ∧
      (q : Int) < (S.bitmap.Set S.bitmap.FindFirstZero).1.size ∧
      bitAt (S.bitmap.Set S.bitmap.FindFirstZero).1 q = true
    rw [hsize]
    by_cases hip : ip = positionToIP S.CIDR S.bitmap.FindFirstZero
    · have h4 : S.CIDR.To4 ≠ none := by
        intro hn
        rw [hip] at hin'
        simp only [positionToIP, hn] at hin'
        exact Bool.noConfusion hin'
      have hcap := hok.cap h4
      have hlt : q0 + 1 < 2 ^ 32 := by
        have := hwf.size
        omega
      refine ⟨q0, ?_, hq0s, ?_⟩
      · rw [hip, hq0]
        exact ipToPosition_positionToIP h4 q0 hlt
      · rw [hbits]; simp
    · have hrec' : (mapGet S.Allocations ip).isSome = true := by
        have hrec'' : (mapGet (mapPut S.Allocations (positionToIP S.CIDR S.bitmap.FindFirstZero)
          (IPAllocation.mk (positionToIP S.CIDR S.bitmap.FindFirstZero) nodeID "" "" ""))
            ip).isSome = true := hrec
        rw [mapGet_mapPut_ne _ _ hip] at hrec''
        exact hrec''
      obtain ⟨q, h1, h2, h3⟩ := hok.recorded ip hrec' hin'
      refine ⟨q, h1, h2, ?_⟩
      rw [hbits, h3]; simp

/-- `ReleaseIP` keeps the agreement of allocations and bitmap in the subnet of the
address. -/
theorem AllocOK_release {S : Subnet} (hwf : S.WF) (hok : S.AllocOK) (ip : IP)
    (hin : S.CIDR.Contains ip = true)
    (hclr : (S.bitmap.Clear (ipToPosition S.CIDR ip)).2 = none) :
    (Subnet.mk S.CIDR S.Purpose S.Capacity (S.Used - 1) (mapDel S.Allocations ip)
      (S.bitmap.Clear (ipToPosition S.CIDR ip)).1).AllocOK := by
  rcases Clear_cases S.bitmap hwf.bm (ipToPosition S.CIDR ip) with ⟨_, h⟩ | ⟨p, _, _, _, h⟩ |
    ⟨q0, hq0, hq0s, _, _, hsize, _, _, _, hbits⟩
  · rw [h] at hclr; exact Option.noConfusion hclr
  · rw [h] at hclr; exact Option.noConfusion hclr
  · refine ⟨hok.cap, fun ip' hrec hin2 => ?_⟩
    have hin' : S.CIDR.Contains ip' = true := hin2
    show ∃ q : Nat, ipToPosition S.CIDR ip' = (q : Int) ∧
      (q : Int) < (S.bitmap.Clear (ipToPosition S.CIDR ip)).1.size ∧
      bitAt (S.bitmap.Clear (ipToPosition S.CIDR ip)).1 q = true
    rw [hsize]
    have hrec2 : (mapGet (mapDel S.Allocations ip) ip').isSome = true := hrec
    rw [mapGet_mapDel] at hrec2
    by_cases hip : ip' = ip
    · rw [if_pos hip] at hrec2
      exact Bool.noConfusion hrec2
    · rw [if_neg hip] at hrec2
      obtain ⟨q, h1, h2, h3⟩ := hok.recorded ip' hrec2 hin'
      refine ⟨q, h1, h2, ?_⟩
      rw [hbits, h3]
      have hne : q ≠ q0 := by
        intro hqq
        subst hqq
        have h4 : S.CIDR.To4 ≠ none := by
          intro hn
          simp only [ipToPosition, hn] at h1
          omega
        obtain ⟨a, ha, halt⟩ := Contains_To4 hin h4
        obtain ⟨a', ha', halt'⟩ := Contains_To4 hin' h4
        subst ha; subst ha'
        have := ipToPosition_inj h4 a' a halt' halt (by rw [h1, hq0])
        exact hip (by rw [this])
      simp [hne]

theorem AllocGood_put {sp : SubnetPool} (h : sp.AllocGood) {key : CIDRString} {S' : Subnet}
    (hS' : S'.AllocOK) (tor : String) :
    (SubnetPool.mk tor (mapPut sp.Subnets key S')).AllocGood := by
  intro k s hk
  have hk' : mapGet (mapPut sp.Subnets key S') k = some s := hk
  by_cases hkk : k = key
  · subst hkk
    rw [mapGet_mapPut_self] at hk'
    rw [← Option.some.inj hk']
    exact hS'
  · rw [mapGet_mapPut_ne _ _ hkk] at hk'
    exact h k s hk'

theorem AllocGood_step {sp : SubnetPool} (hg : sp.Good) (h : sp.AllocGood) (op : SubnetOp) :
    (sp.step op).AllocGood := by
  cases op with
  | addSubnet c purpose =>
    show (sp.AddSubnet c purpose).1.AllocGood
    rcases AddSubnet_form sp c purpose with ⟨e, hres⟩ | ⟨ipNet, _, hparse, hres⟩
    · rw [hres]; exact h
    · rw [hres]; exact AllocGood_put h (AllocOK_new hparse purpose) _
  | allocateIP nodeID purpose ord₁ ord₂ =>
    show (sp.AllocateIP nodeID purpose ord₁ ord₂).1.AllocGood
    rcases AllocateIP_form sp nodeID purpose ord₁ ord₂ with ⟨e, hres, _⟩ |
      ⟨key, S, ht, _, hset, hres⟩
    · rw [hres]; exact h
    · rw [hres]
      have hS := pickTarget_mem ht
      exact AllocGood_put h (AllocOK_allocate (hg key S hS).1 (h key S hS) nodeID hset) _
  | releaseIP ip ord =>
    show (sp.ReleaseIP ip ord).1.AllocGood
    rcases ReleaseIP_form sp ip ord with ⟨e, hres⟩ | ⟨key, S, hf, _, hclr, hres⟩
    · rw [hres]; exact h
    · rw [hres]
      have hS := rangeMap_mem (List.mem_of_find?_eq_some hf)
      have hin : S.CIDR.Contains ip = true :=
        List.find?_some (p := fun (e : CIDRString × Subnet) => e.2.CIDR.Contains ip) hf
      exact AllocGood_put h (AllocOK_release (hg key S hS).1 (h key S hS) ip hin hclr) _

theorem AllocGood_run {sp : SubnetPool} (hg : sp.Good) (h : sp.AllocGood)
    (ops : List SubnetOp) : (sp.run ops).AllocGood := by
  induction ops generalizing sp with
  | nil => exact h
  | cons op ops ih => exact ih (Good_step hg op) (AllocGood_step hg h op)

theorem AllocGood_Reachable {torID : String} {sp : SubnetPool}
    (h : SubnetPool.ReachableFrom torID sp) : sp.AllocGood := by
  obtain ⟨ops, _, rfl⟩ := h
  refine AllocGood_run ?_ ?_ ops
  · intro k s hk; simp [NewSubnetPool, mapGet] at hk
  · intro k s hk; simp [NewSubnetPool, mapGet] at hk

/-- In a subnet whose allocations and bitmap agree, `ReleaseIP` of a contained address
with a recorded allocation clears its bit. -/
theorem Clear_of_recorded {S : Subnet} (hwf : S.WF) (hok : S.AllocOK) {ip : IP}
    (hin : S.CIDR.Contains ip = true) (hrec : (mapGet S.Allocations ip).isSome = true) :
    (S.bitmap.Clear (ipToPosition S.CIDR ip)).2 = none := by
  obtain ⟨q, h1, h2, h3⟩ := hok.recorded ip hrec hin
  rw [h1]
  rcases Clear_cases S.bitmap hwf.bm (q : Int) with ⟨h, _⟩ | ⟨p, hp, _, h0, _⟩ |
    ⟨p, _, _, _, hnone, _⟩
  · have := hwf.bm.nonneg
    omega
  · have : p = q := by omega
    subst this
    rw [h3] at h0
    exact Bool.noConfusion h0
  · exact hnone

/-- The outcomes of `ReleaseIP` on a pool whose subnets are well-formed with allocations
and bitmap in agreement: no subnet contains the address, or the first visited subnet that
contains it has no recorded allocation, or that subnet is replaced by its successor. -/
theorem ReleaseIP_outcomes {sp : SubnetPool} (hg : sp.Good) (ha : sp.AllocGood) (ip : IP)
    (ord : MapOrder) :
    ((rangeMap sp.Subnets ord).find? (fun e => e.2.CIDR.Contains ip) = none ∧
      sp.ReleaseIP ip ord = (sp, some Err.ipNotInAnySubnet)) ∨
    (∃ key S, (rangeMap sp.Subnets ord).find? (fun e => e.2.CIDR.Contains ip) = some (key, S) ∧
      mapGet S.Allocations ip = none ∧ sp.ReleaseIP ip ord = (sp, some Err.ipNotAllocated)) ∨
    (∃ key S, (rangeMap sp.Subnets ord).find? (fun e => e.2.CIDR.Contains ip) = some (key, S) ∧
      (mapGet S.Allocations ip).isSome = true ∧
      (S.bitmap.Clear (ipToPosition S.CIDR ip)).2 = none ∧
      sp.ReleaseIP ip ord =
        (SubnetPool.mk sp.TORID (mapPut sp.Subnets key
          (Subnet.mk S.CIDR S.Purpose S.Capacity (S.Used - 1) (mapDel S.Allocations ip)
            (S.bitmap.Clear (ipToPosition S.CIDR ip)).1)), none)) := by
  cases hf : (rangeMap sp.Subnets ord).find? (fun e => e.2.CIDR.Contains ip) with
  | none =>
    left
    exact ⟨rfl, by simp only [SubnetPool.ReleaseIP, hf]⟩
  | some e =>
    obtain ⟨key, S⟩ := e
    right
    have hS : mapGet sp.Subnets key = some S := rangeMap_mem (List.mem_of_find?_eq_some hf)
    have hin : S.CIDR.Contains ip = true :=
      List.find?_some (p := fun (e : CIDRString × Subnet) => e.2.CIDR.Contains ip) hf
    cases hal : mapGet S.Allocations ip with
    | none =>
      left
      exact ⟨key, S, rfl, hal, by
        simp only [SubnetPool.ReleaseIP, hf, hal, Option.isNone_none, if_true]⟩
    | some al =>
      right
      have hrec : (mapGet S.Allocations ip).isSome = true := by rw [hal]; rfl
      have hclr := Clear_of_recorded (hg key S hS).1 (ha key S hS) hin hrec
      rcases ReleaseIP_form sp ip ord with ⟨e, hres⟩ | ⟨key', S', hf', _, _, hres⟩
      · exfalso
        have hres2 := hres
        simp only [SubnetPool.ReleaseIP, hf, hal, Option.isNone_some, Bool.false_eq_true,
          if_false] at hres2
        cases hc : S.bitmap.Clear (ipToPosition S.CIDR ip) with
        | mk bm r =>
          rw [hc] at hclr hres2
          simp only at hclr
          subst hclr
          simp only at hres2
          exact Option.noConfusion (Prod.mk.inj hres2).2
      · rw [hf] at hf'
        obtain ⟨h1, h2⟩ := Prod.mk.inj (Option.some.inj hf')
        subst h1; subst h2
        exact ⟨key, S, rfl, hrec, hclr, hres⟩

/-- A bitmap whose count has reached its size has every position set. -/
theorem full_all_set {b : Bitmap} (hb : WF b) (hfull : b.size ≤ b.allocated) :
    ∀ q : Nat, (q : Int) < b.size → b.IsSet (q : Int) = true := by
  have hle := popcount_le b
  have hc := hb.count
  have hn := hb.nonneg
  have hpc : popcount b = b.size.toNat := by omega
  unfold popcount at hpc
  have hlen : ((List.range b.size.toNat).filter (fun (p : Nat) => b.IsSet (p : Int))).length =
      (List.range b.size.toNat).length := by rw [hpc, List.length_range]
  have hall := List.filter_length_eq_length.1 hlen
  intro q hq
  exact hall q (List.mem_range.2 (by omega))

/-- After clearing one position of a bitmap with every position set, that position is the
first zero and can be set again. -/
theorem first_zero_after_clear {b : Bitmap} (hb : WF b)
    (hall : ∀ q : Nat, (q : Int) < b.size → b.IsSet (q : Int) = true) (q0 : Nat)
    (hclr : (b.Clear (q0 : Int)).2 = none) :
    (b.Clear (q0 : Int)).1.FindFirstZero = (q0 : Int) ∧
      ((b.Clear (q0 : Int)).1.Set (q0 : Int)).2 = none := by
  have hb' := WF_Clear b hb (q0 : Int)
  obtain ⟨hunset, _, hother⟩ := (Clear_contract_WF b hb (q0 : Int)).2.2 hclr
  have hsize := Clear_size b (q0 : Int)
  have hq0 : (q0 : Int) < b.size := by
    by_contra hc
    have := (Clear_contract_WF b hb (q0 : Int)).1.2 (Or.inr (Or.inl (by omega)))
    exact this hclr
  constructor
  · rcases FindFirstZero_spec _ hb' with ⟨_, hall'⟩ | ⟨p, hr, hp, hun, _⟩
    · have := hall' q0 (by rw [hsize]; exact hq0)
      rw [hunset] at this
      exact Bool.noConfusion this
    · rw [hr]
      by_contra hne
      have hpq : (p : Int) ≠ (q0 : Int) := hne
      rw [hother (p : Int) hpq, hall p (by rw [← hsize]; exact hp)] at hun
      exact Bool.noConfusion hun
  · by_contra hc
    rcases (Set_contract_WF _ hb' (q0 : Int)).1.1 hc with h | h | h
    · omega
    · rw [hsize] at h; omega
    · rw [hunset] at h
      exact Bool.noConfusion h

/-- A second `ReleaseIP` of an address directly after a successful one fails with
`IP not allocated` when only the subnet stored under `key` contains the address. -/
theorem ReleaseIP_again (sp : SubnetPool) {ip : IP} {key : CIDRString} {S : Subnet}
    (hin : S.CIDR.Contains ip = true)
    (huniq : ∀ k s, mapGet sp.Subnets k = some s → s.CIDR.Contains ip = true → k = key)
    (bm : Bitmap) (used : Int) (ord : MapOrder) (hord : IsMapOrder ord) :
    (SubnetPool.mk sp.TORID (mapPut sp.Subnets key
        (Subnet.mk S.CIDR S.Purpose S.Capacity used (mapDel S.Allocations ip) bm))).ReleaseIP
      ip ord =
      (SubnetPool.mk sp.TORID (mapPut sp.Subnets key
        (Subnet.mk S.CIDR S.Purpose S.Capacity used (mapDel S.Allocations ip) bm)),
        some Err.ipNotAllocated) := by
  obtain ⟨e, hfind, hpe, hge⟩ := find_rangeMap_some hord
    (m := mapPut sp.Subnets key
      (Subnet.mk S.CIDR S.Purpose S.Capacity used (mapDel S.Allocations ip) bm))
    (p := fun (e : CIDRString × Subnet) => e.2.CIDR.Contains ip)
    (mapGet_mapPut_self _ _ _) hin
  obtain ⟨ek, es⟩ := e
  have hek : ek = key := by
    by_contra hc
    rw [mapGet_mapPut_ne _ _ hc] at hge
    exact hc (huniq ek es hge hpe)
  subst hek
  rw [mapGet_mapPut_self] at hge
  have hes := (Option.some.inj hge).symm
  subst hes
  have hdel : mapGet (mapDel S.Allocations ip) ip = none := by
    rw [mapGet_mapDel, if_pos rfl]
  simp only [SubnetPool.ReleaseIP, hfind, hdel, Option.isNone_none, if_true]

/-- In a full subnet, the `AllocateIP` that follows a successful `ReleaseIP` and is
directed to that subnet returns the released address. -/
theorem reuse_after_release {sp : SubnetPool} {key : CIDRString} {S : Subnet} (hwf : S.WF)
    (hu : S.Used = S.bitmap.allocated) (hok : S.AllocOK) {ip : IP}
    (hin : S.CIDR.Contains ip = true) (hrec : (mapGet S.Allocations ip).isSome = true)
    (hfull : S.Capacity - S.Used ≤ 0) (nodeID purpose : String) (ord₁ ord₂ : MapOrder)
    (ht : ((SubnetPool.mk sp.TORID (mapPut sp.Subnets key
        (Subnet.mk S.CIDR S.Purpose S.Capacity (S.Used - 1) (mapDel S.Allocations ip)
          (S.bitmap.Clear (ipToPosition S.CIDR ip)).1))).pickTarget purpose ord₁ ord₂).map
        Prod.fst = some key) :
    ((SubnetPool.mk sp.TORID (mapPut sp.Subnets key
        (Subnet.mk S.CIDR S.Purpose S.Capacity (S.Used - 1) (mapDel S.Allocations ip)
          (S.bitmap.Clear (ipToPosition S.CIDR ip)).1))).AllocateIP nodeID purpose ord₁ ord₂).2 =
      Except.ok (ip, key) := by
  obtain ⟨q, hq, hqs, _⟩ := hok.recorded ip hrec hin
  have hclr := Clear_of_recorded hwf hok hin hrec
  have h4 : S.CIDR.To4 ≠ none := by
    intro hn
    simp only [ipToPosition, hn] at hq
    omega
  obtain ⟨a, ha, halt⟩ := Contains_To4 hin h4
  have hall := full_all_set hwf.bm (by have := hwf.size; omega)
  rw [hq] at hclr ht ⊢
  obtain ⟨hffz, hset⟩ := first_zero_after_clear hwf.bm hall q hclr
  have hback : positionToIP S.CIDR (q : Int) = ip := by
    rw [ha]
    exact positionToIP_ipToPosition h4 a q halt (by rw [← ha]; exact hq)
  rcases AllocateIP_form (SubnetPool.mk sp.TORID (mapPut sp.Subnets key
      (Subnet.mk S.CIDR S.Purpose S.Capacity (S.Used - 1) (mapDel S.Allocations ip)
        (S.bitmap.Clear (q : Int)).1))) nodeID purpose ord₁ ord₂ with
    ⟨e, _, hnone | ⟨k2, S2, hp, hbad⟩⟩ | ⟨k2, S2, hp, _, _, hres⟩
  · rw [hnone] at ht
    exact Option.noConfusion ht
  · exfalso
    rw [hp] at ht
    have hk : k2 = key := Option.some.inj ht
    subst hk
    have hm := pickTarget_mem hp
    have hm' : mapGet (mapPut sp.Subnets k2
      (Subnet.mk S.CIDR S.Purpose S.Capacity (S.Used - 1) (mapDel S.Allocations ip)
        (S.bitmap.Clear (q : Int)).1)) k2 = some S2 := hm
    rw [mapGet_mapPut_self] at hm'
    have hS2 := (Option.some.inj hm').symm
    subst hS2
    rcases hbad with hb | hb
    · have hb' : (S.bitmap.Clear (q : Int)).1.FindFirstZero = -1 := hb
      rw [hffz] at hb'
      omega
    · have hb' : ((S.bitmap.Clear (q : Int)).1.Set
        (S.bitmap.Clear (q : Int)).1.FindFirstZero).2 ≠ none := hb
      rw [hffz] at hb'
      exact hb' hset
  · rw [hp] at ht
    have hk : k2 = key := Option.some.inj ht
    subst hk
    have hm := pickTarget_mem hp
    have hm' : mapGet (mapPut sp.Subnets k2
      (Subnet.mk S.CIDR S.Purpose S.Capacity (S.Used - 1) (mapDel S.Allocations ip)
        (S.bitmap.Clear (q : Int)).1)) k2 = some S2 := hm
    rw [mapGet_mapPut_self] at hm'
    have hS2 := (Option.some.inj hm').symm
    subst hS2
    rw [hres]
    show Except.ok (positionToIP S.CIDR (S.bitmap.Clear (q : Int)).1.FindFirstZero, k2) = _
    rw [hffz, hback]

/-- C21, as stated, fails: a second release directly after a successful one need not fail.
With the overlapping subnets `10.244.0.0/24` (purpose `default`) and `10.244.0.0/25`
(purpose `storage`), each holding `10.244.0.1`, a release that visits the `/24` first
succeeds, and a second release that visits the `/25` first succeeds as well. -/
theorem C21_release_contract_counterexample :
    ¬ (∀ (torID : String) (sp : SubnetPool), SubnetPool.ReachableFrom torID sp →
        ∀ (ip : IP) (ord ord' : MapOrder), IsMapOrder ord → IsMapOrder ord' →
          (sp.ReleaseIP ip ord).2 = none →
          ((sp.ReleaseIP ip ord).1.ReleaseIP ip ord').2 = some Err.ipNotAllocated) := by
  intro h
  have hvalid : ∀ op ∈ [SubnetOp.addSubnet (CIDRString.v4 183762944 24) "default",
      SubnetOp.addSubnet (CIDRString.v4 183762944 25) "storage",
      SubnetOp.allocateIP "n1" "default" id id,
      SubnetOp.allocateIP "n1" "storage" id id], op.Valid := by
    intro op hop
    simp only [List.mem_cons, List.mem_singleton, List.mem_nil_iff, or_false] at hop
    rcases hop with rfl | rfl | rfl | rfl
    · exact trivial
    · exact trivial
    · exact ⟨IsMapOrder_id, IsMapOrder_id⟩
    · exact ⟨IsMapOrder_id, IsMapOrder_id⟩
  have h2 := h "tor-1" _ ⟨_, hvalid, rfl⟩ (IP.v4 183762945) id List.reverse IsMapOrder_id
    IsMapOrder_reverse (by decide)
  have hok : (((SubnetPool.run (NewSubnetPool "tor-1")
      [SubnetOp.addSubnet (CIDRString.v4 183762944 24) "default",
       SubnetOp.addSubnet (CIDRString.v4 183762944 25) "storage",
       SubnetOp.allocateIP "n1" "default" id id,
       SubnetOp.allocateIP "n1" "storage" id id]).ReleaseIP (IP.v4 183762945) id).1.ReleaseIP
        (IP.v4 183762945) List.reverse).2 = none := by decide
  rw [hok] at h2
  exact Option.noConfusion h2

/-- C21, amended: on every subnet pool reachable from `NewSubnetPool` by `AddSubnet`,
`AllocateIP` and `ReleaseIP`, for every address and visiting order:
(1) a failing `ReleaseIP` leaves the pool as it was and its error is `IP not allocated` or
`not found in any subnet`;
(2) it succeeds exactly when the first visited subnet containing the address has a
recorded allocation for it, and fails with `not found in any subnet` when no subnet
contains the address;
(3) on success, in that subnet the bit of the address was set and is cleared, no other bit
changes, the allocation is removed and no other, `Used` is one less, and no other subnet
changes; if the subnet was full, an `AllocateIP` that follows and is directed to this
subnet returns the released address;
(4) when at most one subnet of the pool contains the address, the release succeeds exactly
when a subnet contains the address and has a recorded allocation for it, and a second
release directly after a successful one fails with `IP not allocated`, leaving the pool as
it was.  With overlapping subnets the outcome depends on the visiting order. -/
theorem C21_release_contract (torID : String) (sp : SubnetPool)
    (hr : SubnetPool.ReachableFrom torID sp) (ip : IP) (ord : MapOrder)
    (hord : IsMapOrder ord) :
    ((sp.ReleaseIP ip ord).2 ≠ none → (sp.ReleaseIP ip ord).1 = sp ∧
      ((sp.ReleaseIP ip ord).2 = some Err.ipNotAllocated ∨
        (sp.ReleaseIP ip ord).2 = some Err.ipNotInAnySubnet)) ∧
    ((sp.ReleaseIP ip ord).2 = none ↔
      ∃ key s, (rangeMap sp.Subnets ord).find? (fun e => e.2.CIDR.Contains ip) =
        some (key, s) ∧ (mapGet s.Allocations ip).isSome = true) ∧
    ((∀ key s, mapGet sp.Subnets key = some s → s.CIDR.Contains ip = false) →
      (sp.ReleaseIP ip ord).2 = some Err.ipNotInAnySubnet) ∧
    ((sp.ReleaseIP ip ord).2 = none →
      ∃ (key : CIDRString) (s s' : Subnet) (q : Nat), mapGet sp.Subnets key = some s ∧
        s.CIDR.Contains ip = true ∧ ipToPosition s.CIDR ip = (q : Int) ∧
        s.bitmap.IsSet (q : Int) = true ∧ (mapGet s.Allocations ip).isSome = true ∧
        (sp.ReleaseIP ip ord).1 = SubnetPool.mk sp.TORID (mapPut sp.Subnets key s') ∧
        s'.CIDR = s.CIDR ∧ s'.Purpose = s.Purpose ∧ s'.Capacity = s.Capacity ∧
        s'.Used = s.Used - 1 ∧ s'.bitmap.IsSet (q : Int) = false ∧
        (∀ pos : Int, pos ≠ (q : Int) → s'.bitmap.IsSet pos = s.bitmap.IsSet pos) ∧
        mapGet s'.Allocations ip = none ∧
        (∀ ip', ip' ≠ ip → mapGet s'.Allocations ip' = mapGet s.Allocations ip') ∧
        (s.Capacity - s.Used ≤ 0 → ∀ (nodeID purpose : String) (ord₁ ord₂ : MapOrder),
          ((sp.ReleaseIP ip ord).1.pickTarget purpose ord₁ ord₂).map Prod.fst = some key →
          ((sp.ReleaseIP ip ord).1.AllocateIP nodeID purpose ord₁ ord₂).2 =
            Except.ok (ip, key))) ∧
    ((∀ k₁ s₁ k₂ s₂, mapGet sp.Subnets k₁ = some s₁ → mapGet sp.Subnets k₂ = some s₂ →
        s₁.CIDR.Contains ip = true → s₂.CIDR.Contains ip = true → k₁ = k₂) →
      ((sp.ReleaseIP ip ord).2 = none ↔
        ∃ key s, mapGet sp.Subnets key = some s ∧ s.CIDR.Contains ip = true ∧
          (mapGet s.Allocations ip).isSome = true) ∧
      (∀ ord', IsMapOrder ord' → (sp.ReleaseIP ip ord).2 = none →
        (sp.ReleaseIP ip ord).1.ReleaseIP ip ord' =
          ((sp.ReleaseIP ip ord).1, some Err.ipNotAllocated))) := by
  obtain ⟨hg, _⟩ := Good_Reachable hr
  have ha := AllocGood_Reachable hr
  rcases ReleaseIP_outcomes hg ha ip ord with ⟨hf, hres⟩ | ⟨key, S, hf, hno, hres⟩ |
    ⟨key, S, hf, hrec, hclr, hres⟩
  · rw [hres]
    refine ⟨fun _ => ⟨rfl, Or.inr rfl⟩, ⟨fun h => Option.noConfusion h, ?_⟩, fun _ => rfl,
      fun h => Option.noConfusion h, fun _ => ⟨⟨fun h => Option.noConfusion h, ?_⟩,
        fun _ _ h => Option.noConfusion h⟩⟩
    · rintro ⟨k, s, h1, _⟩
      rw [hf] at h1
      exact Option.noConfusion h1
    · rintro ⟨k, s, hk, hin, _⟩
      have := find_rangeMap_none_get hord hf hk
      have this' : s.CIDR.Contains ip = false := this
      rw [hin] at this'
      exact Bool.noConfusion this'
  · have hS : mapGet sp.Subnets key = some S := rangeMap_mem (List.mem_of_find?_eq_some hf)
    have hin : S.CIDR.Contains ip = true :=
      List.find?_some (p := fun (e : CIDRString × Subnet) => e.2.CIDR.Contains ip) hf
    rw [hres]
    refine ⟨fun _ => ⟨rfl, Or.inl rfl⟩, ⟨fun h => Option.noConfusion h, ?_⟩, ?_,
      fun h => Option.noConfusion h, fun huniq => ⟨⟨fun h => Option.noConfusion h, ?_⟩,
        fun _ _ h => Option.noConfusion h⟩⟩
    · rintro ⟨k, s, h1, h2⟩
      rw [hf] at h1
      obtain ⟨_, hs⟩ := Prod.mk.inj (Option.some.inj h1)
      subst hs
      rw [hno] at h2
      exact Bool.noConfusion h2
    · intro hnone
      have := hnone key S hS
      rw [hin] at this
      exact Bool.noConfusion this
    · rintro ⟨k, s, hk, hin2, h2⟩
      have hkk := huniq k s key S hk hS hin2 hin
      subst hkk
      rw [hS] at hk
      have := Option.some.inj hk
      subst this
      rw [hno] at h2
      exact Bool.noConfusion h2
  · have hS : mapGet sp.Subnets key = some S := rangeMap_mem (List.mem_of_find?_eq_some hf)
    have hin : S.CIDR.Contains ip = true :=
      List.find?_some (p := fun (e : CIDRString × Subnet) => e.2.CIDR.Contains ip) hf
    obtain ⟨hwf, hu, _⟩ := hg key S hS
    have hok := ha key S hS
    obtain ⟨q, hq, hqs, hbit⟩ := hok.recorded ip hrec hin
    obtain ⟨hunset, _, hother⟩ :=
      (Clear_contract_WF S.bitmap hwf.bm (ipToPosition S.CIDR ip)).2.2 hclr
    rw [hres]
    refine ⟨fun h => absurd rfl h, ⟨fun _ => ⟨key, S, hf, hrec⟩, fun _ => rfl⟩, ?_, ?_, ?_⟩
    · intro hnone
      have := hnone key S hS
      rw [hin] at this
      exact Bool.noConfusion this
    · intro _
      refine ⟨key, S, _, q, hS, hin, hq, ?_, hrec, rfl, rfl, rfl, rfl, rfl, ?_, ?_, ?_, ?_, ?_⟩
      · rw [IsSet_natCast, hbit]; simp [hqs]
      · rw [← hq]; exact hunset
      · rw [← hq]; exact hother
      · show mapGet (mapDel S.Allocations ip) ip = none
        rw [mapGet_mapDel, if_pos rfl]
      · intro ip' hne
        show mapGet (mapDel S.Allocations ip) ip' = _
        rw [mapGet_mapDel, if_neg hne]
      · intro hfull nodeID purpose ord₁ ord₂ ht
        exact reuse_after_release hwf hu hok hin hrec hfull nodeID purpose ord₁ ord₂ ht
    · intro huniq
      refine ⟨⟨fun _ => ⟨key, S, hS, hin, hrec⟩, fun _ => rfl⟩, fun ord' hord' _ => ?_⟩
      exact ReleaseIP_again sp hin (fun k s hk hc => huniq k s key S hk hS hc hin) _ _ ord' hord'

/-- C21 amended, instance: the pool with the single subnet `10.244.0.0/30`, both usable
addresses allocated.  Releasing `10.244.0.1` succeeds, a second release fails with
`IP not allocated`, and the next `AllocateIP` returns `10.244.0.1` again. -/
theorem C21_release_contract_witness :
    SubnetPool.ReachableFrom "tor-1" (SubnetPool.mk "tor-1" [(CIDRString.v4 183762944 30,
        Subnet.mk ⟨183762944, 30, 32⟩ "default" 2 2
          [(IP.v4 183762945, IPAllocation.mk (IP.v4 183762945) "node-1" "" "" ""),
           (IP.v4 183762946, IPAllocation.mk (IP.v4 183762946) "node-1" "" "" "")]
          (Bitmap.mk [3] 2 2))]) ∧
    ((SubnetPool.mk "tor-1" [(CIDRString.v4 183762944 30,
        Subnet.mk ⟨183762944, 30, 32⟩ "default" 2 2
          [(IP.v4 183762945, IPAllocation.mk (IP.v4 183762945) "node-1" "" "" ""),
           (IP.v4 183762946, IPAllocation.mk (IP.v4 183762946) "node-1" "" "" "")]
          (Bitmap.mk [3] 2 2))]).ReleaseIP (IP.v4 183762945) id).2 = none ∧
    (((SubnetPool.mk "tor-1" [(CIDRString.v4 183762944 30,
        Subnet.mk ⟨183762944, 30, 32⟩ "default" 2 2
          [(IP.v4 183762945, IPAllocation.mk (IP.v4 183762945) "node-1" "" "" ""),
           (IP.v4 183762946, IPAllocation.mk (IP.v4 183762946) "node-1" "" "" "")]
          (Bitmap.mk [3] 2 2))]).ReleaseIP (IP.v4 183762945) id).1.ReleaseIP (IP.v4 183762945) List.reverse).2 =
      some Err.ipNotAllocated ∧
    (((SubnetPool.mk "tor-1" [(CIDRString.v4 183762944 30,
        Subnet.mk ⟨183762944, 30, 32⟩ "default" 2 2
          [(IP.v4 183762945, IPAllocation.mk (IP.v4 183762945) "node-1" "" "" ""),
           (IP.v4 183762946, IPAllocation.mk (IP.v4 183762946) "node-1" "" "" "")]
          (Bitmap.mk [3] 2 2))]).ReleaseIP (IP.v4 183762945) id).1.AllocateIP "node-1" "default" id id).2 =
      Except.ok (IP.v4 183762945, CIDRString.v4 183762944 30) := by
  have hvalid : ∀ op ∈ [SubnetOp.addSubnet (CIDRString.v4 183762944 30) "default",
      SubnetOp.allocateIP "node-1" "default" id id,
      SubnetOp.allocateIP "node-1" "default" id id], op.Valid := by
    intro op hop
    simp only [List.mem_cons, List.mem_singleton, List.mem_nil_iff, or_false] at hop
    rcases hop with rfl | rfl | rfl
    · exact trivial
    · exact ⟨IsMapOrder_id, IsMapOrder_id⟩
    · exact ⟨IsMapOrder_id, IsMapOrder_id⟩
  have hr : SubnetPool.ReachableFrom "tor-1" (SubnetPool.mk "tor-1" [(CIDRString.v4 183762944 30,
        Subnet.mk ⟨183762944, 30, 32⟩ "default" 2 2
          [(IP.v4 183762945, IPAllocation.mk (IP.v4 183762945) "node-1" "" "" ""),
           (IP.v4 183762946, IPAllocation.mk (IP.v4 183762946) "node-1" "" "" "")]
          (Bitmap.mk [3] 2 2))]) := ⟨_, hvalid, by decide⟩
  have h := C21_release_contract "tor-1" (SubnetPool.mk "tor-1" [(CIDRString.v4 183762944 30,
        Subnet.mk ⟨183762944, 30, 32⟩ "default" 2 2
          [(IP.v4 183762945, IPAllocation.mk (IP.v4 183762945) "node-1" "" "" ""),
           (IP.v4 183762946, IPAllocation.mk (IP.v4 183762946) "node-1" "" "" "")]
          (Bitmap.mk [3] 2 2))]) hr (IP.v4 183762945) id IsMapOrder_id
  have hok : ((SubnetPool.mk "tor-1" [(CIDRString.v4 183762944 30,
        Subnet.mk ⟨183762944, 30, 32⟩ "default" 2 2
          [(IP.v4 183762945, IPAllocation.mk (IP.v4 183762945) "node-1" "" "" ""),
           (IP.v4 183762946, IPAllocation.mk (IP.v4 183762946) "node-1" "" "" "")]
          (Bitmap.mk [3] 2 2))]).ReleaseIP (IP.v4 183762945) id).2 = none :=
    h.2.1.2 ⟨CIDRString.v4 183762944 30, Subnet.mk ⟨183762944, 30, 32⟩ "default" 2 2
      [(IP.v4 183762945, IPAllocation.mk (IP.v4 183762945) "node-1" "" "" ""),
       (IP.v4 183762946, IPAllocation.mk (IP.v4 183762946) "node-1" "" "" "")]
      (Bitmap.mk [3] 2 2), by decide, by decide⟩
  have huniq : ∀ k₁ s₁ k₂ s₂, mapGet (SubnetPool.mk "tor-1" [(CIDRString.v4 183762944 30,
        Subnet.mk ⟨183762944, 30, 32⟩ "default" 2 2
          [(IP.v4 183762945, IPAllocation.mk (IP.v4 183762945) "node-1" "" "" ""),
           (IP.v4 183762946, IPAllocation.mk (IP.v4 183762946) "node-1" "" "" "")]
          (Bitmap.mk [3] 2 2))]).Subnets k₁ = some s₁ →
      mapGet (SubnetPool.mk "tor-1" [(CIDRString.v4 183762944 30,
        Subnet.mk ⟨183762944, 30, 32⟩ "default" 2 2
          [(IP.v4 183762945, IPAllocation.mk (IP.v4 183762945) "node-1" "" "" ""),
           (IP.v4 183762946, IPAllocation.mk (IP.v4 183762946) "node-1" "" "" "")]
          (Bitmap.mk [3] 2 2))]).Subnets k₂ = some s₂ →
      s₁.CIDR.Contains (IP.v4 183762945) = true → s₂.CIDR.Contains (IP.v4 183762945) = true →
      k₁ = k₂ := by
    intro k₁ s₁ k₂ s₂ h1 h2 _ _
    have e1 : k₁ = CIDRString.v4 183762944 30 := by
      by_contra hc
      simp only [mapGet] at h1
      rw [if_neg (fun hh => hc hh.symm)] at h1
      exact Option.noConfusion h1
    have e2 : k₂ = CIDRString.v4 183762944 30 := by
      by_contra hc
      simp only [mapGet] at h2
      rw [if_neg (fun hh => hc hh.symm)] at h2
      exact Option.noConfusion h2
    rw [e1, e2]
  obtain ⟨key, s, s', q, hs, _, _, _, _, _, _, _, _, _, _, _, _, _, hreuse⟩ := h.2.2.2.1 hok
  have hkey : key = CIDRString.v4 183762944 30 := by
    by_contra hc
    simp only [mapGet] at hs
    rw [if_neg (fun hh => hc hh.symm)] at hs
    exact Option.noConfusion hs
  subst hkey
  have hs' : s = Subnet.mk ⟨183762944, 30, 32⟩ "default" 2 2
      [(IP.v4 183762945, IPAllocation.mk (IP.v4 183762945) "node-1" "" "" ""),
       (IP.v4 183762946, IPAllocation.mk (IP.v4 183762946) "node-1" "" "" "")]
      (Bitmap.mk [3] 2 2) := by
    simp only [mapGet, if_true] at hs
    exact (Option.some.inj hs).symm
  subst hs'
  refine ⟨hr, hok, ?_, hreuse (by decide) "node-1" "default" id id (by decide)⟩
  rw [(h.2.2.2.2 huniq).2 List.reverse IsMapOrder_reverse hok]

end ReleaseProofs

/-! ## Subnet pools: the choice of the subnet and the visiting order -/

section OrderProofs

/-- A search over a map finds the same entry in any two visiting orders when at most one
entry satisfies the predicate. -/
theorem find_rangeMap_unique {ν : Type} {m : List (CIDRString × ν)} {ord ord' : MapOrder}
    (hord : IsMapOrder ord) (hord' : IsMapOrder ord') {p : CIDRString × ν → Bool}
    (huniq : ∀ k₁ v₁ k₂ v₂, mapGet m k₁ = some v₁ → mapGet m k₂ = some v₂ →
      p (k₁, v₁) = true → p (k₂, v₂) = true → k₁ = k₂) :
    (rangeMap m ord).find? p = (rangeMap m ord').find? p := by
  cases hf : (rangeMap m ord).find? p with
  | none =>
    symm
    exact find_rangeMap_none (fun k v hk => find_rangeMap_none_get hord hf hk)
  | some e =>
    have hpe : p e = true := List.find?_some hf
    have hge : mapGet m e.1 = some e.2 := rangeMap_mem (List.mem_of_find?_eq_some hf)
    obtain ⟨e', hf', hpe', hge'⟩ := find_rangeMap_some hord' hge hpe
    rw [hf']
    have hk : e'.1 = e.1 := huniq e'.1 e'.2 e.1 e.2 hge' hge hpe' hpe
    obtain ⟨k, v⟩ := e
    obtain ⟨k', v'⟩ := e'
    simp only at hk hge hge'
    subst hk
    rw [hge] at hge'
    rw [Option.some.inj hge']

/-- C22, as stated, fails: the subnet is chosen by a `range` over the Go map, whose order
is not fixed.  With the two `default` subnets `10.244.0.0/24` and `10.244.1.0/24`, both
free, `AllocateIP("n1", "default")` returns `10.244.0.1` when the first subnet is visited
first and `10.244.1.1` when the second one is. -/
theorem C22_deterministic_selection_counterexample :
    ¬ (∀ (torID : String) (sp : SubnetPool), SubnetPool.ReachableFrom torID sp →
        ∀ (nodeID purpose : String) (ord₁ ord₂ ord₁' ord₂' : MapOrder),
          IsMapOrder ord₁ → IsMapOrder ord₂ → IsMapOrder ord₁' → IsMapOrder ord₂' →
          sp.AllocateIP nodeID purpose ord₁ ord₂ = sp.AllocateIP nodeID purpose ord₁' ord₂') := by
  intro h
  have hvalid : ∀ op ∈ [SubnetOp.addSubnet (CIDRString.v4 183762944 24) "default",
      SubnetOp.addSubnet (CIDRString.v4 183763200 24) "default"], op.Valid := by
    intro op hop
    simp only [List.mem_cons, List.mem_singleton, List.mem_nil_iff, or_false] at hop
    rcases hop with rfl | rfl <;> exact trivial
  have h2 := h "tor-1" _ ⟨_, hvalid, rfl⟩ "n1" "default" id id List.reverse id
    IsMapOrder_id IsMapOrder_id IsMapOrder_reverse IsMapOrder_id
  have h3 := congrArg Prod.snd h2
  have ha : ((SubnetPool.run (NewSubnetPool "tor-1")
      [SubnetOp.addSubnet (CIDRString.v4 183762944 24) "default",
       SubnetOp.addSubnet (CIDRString.v4 183763200 24) "default"]).AllocateIP
        "n1" "default" id id).2 =
      Except.ok (IP.v4 183762945, CIDRString.v4 183762944 24) := by decide
  have hb : ((SubnetPool.run (NewSubnetPool "tor-1")
      [SubnetOp.addSubnet (CIDRString.v4 183762944 24) "default",
       SubnetOp.addSubnet (CIDRString.v4 183763200 24) "default"]).AllocateIP
        "n1" "default" List.reverse id).2 =
      Except.ok (IP.v4 183763201, CIDRString.v4 183763200 24) := by decide
  rw [ha, hb] at h3
  exact absurd h3 (by decide)

/-- C22, amended: the address and CIDR returned by `SubnetPool.AllocateIP` and the pool
after it are a function of the pool, the arguments and the orders in which the two `range`
loops visit the subnet map.  They do not depend on these orders when at most one subnet
with free capacity has the requested purpose (any purpose when the request leaves it empty)
and, for a request with a purpose other than `default`, at most one subnet with free
capacity has the purpose `default`.  When the subnet pool of the node's TOR satisfies this
condition, `TopologyFSM.Apply` of an `allocate_ip` command for that node and purpose yields
the same state and the same response for all visiting orders. -/
theorem C22_deterministic_selection (sp : SubnetPool) (nodeID purpose : String)
    (ord₁ ord₂ ord₁' ord₂' : MapOrder) (h₁ : IsMapOrder ord₁) (h₂ : IsMapOrder ord₂)
    (h₁' : IsMapOrder ord₁') (h₂' : IsMapOrder ord₂')
    (hone : ∀ k₁ s₁ k₂ s₂, mapGet sp.Subnets k₁ = some s₁ → mapGet sp.Subnets k₂ = some s₂ →
      (purpose = "" ∨ s₁.Purpose = purpose) → s₁.Capacity - s₁.Used > 0 →
      (purpose = "" ∨ s₂.Purpose = purpose) → s₂.Capacity - s₂.Used > 0 → k₁ = k₂)
    (hdef : purpose ≠ "default" →
      ∀ k₁ s₁ k₂ s₂, mapGet sp.Subnets k₁ = some s₁ → mapGet sp.Subnets k₂ = some s₂ →
        s₁.Purpose = "default" → s₁.Capacity - s₁.Used > 0 →
        s₂.Purpose = "default" → s₂.Capacity - s₂.Used > 0 → k₁ = k₂) :
    sp.AllocateIP nodeID purpose ord₁ ord₂ = sp.AllocateIP nodeID purpose ord₁' ord₂' ∧
    (∀ (g : TopologyFSM) (cmd : TopologyCommand) (data : AllocateIPData) (tor : TOR),
      cmd.CmdType = "allocate_ip" → cmd.Data.asAllocateIP = some data →
      data.NodeID = nodeID →
      (if data.Purpose = "" then "default" else data.Purpose) = purpose →
      g.pool.topology.GetNodeTOR nodeID = Except.ok tor →
      mapGet g.pool.subnetPools tor.ID = some sp →
      g.Apply (some cmd) ord₁ ord₂ = g.Apply (some cmd) ord₁' ord₂') := by
  have e1 : sp.pickByPurpose purpose ord₁ = sp.pickByPurpose purpose ord₁' := by
    unfold SubnetPool.pickByPurpose
    apply find_rangeMap_unique h₁ h₁'
    intro k₁ s₁ k₂ s₂ hk₁ hk₂ hp₁ hp₂
    simp only [Bool.and_eq_true, Bool.not_eq_true', Bool.and_eq_false_imp, decide_eq_true_eq,
      decide_eq_false_iff_not, not_not] at hp₁ hp₂
    refine hone k₁ s₁ k₂ s₂ hk₁ hk₂ ?_ hp₁.2 ?_ hp₂.2
    · by_cases hp : purpose = ""
      · exact Or.inl hp
      · exact Or.inr (hp₁.1 hp)
    · by_cases hp : purpose = ""
      · exact Or.inl hp
      · exact Or.inr (hp₂.1 hp)
  have e2 : sp.pickTarget purpose ord₁ ord₂ = sp.pickTarget purpose ord₁' ord₂' := by
    unfold SubnetPool.pickTarget
    rw [e1]
    cases sp.pickByPurpose purpose ord₁' with
    | some e => rfl
    | none =>
      by_cases hp : purpose = "default"
      · simp only [hp, ne_eq, not_true_eq_false, if_false]
      · simp only [ne_eq, hp, not_false_eq_true, if_true]
        unfold SubnetPool.pickDefault
        apply find_rangeMap_unique h₂ h₂'
        intro k₁ s₁ k₂ s₂ hk₁ hk₂ hp₁ hp₂
        simp only [Bool.and_eq_true, decide_eq_true_eq] at hp₁ hp₂
        exact hdef hp k₁ s₁ k₂ s₂ hk₁ hk₂ hp₁.1 hp₁.2 hp₂.1 hp₂.2
  have hsp : sp.AllocateIP nodeID purpose ord₁ ord₂ =
      sp.AllocateIP nodeID purpose ord₁' ord₂' := by
    unfold SubnetPool.AllocateIP
    rw [e2]
  refine ⟨hsp, fun g cmd data tor hc hd hid hp hn hg => ?_⟩
  have hA : ∀ o₁ o₂, g.Apply (some cmd) o₁ o₂ = some (g.applyAllocateIP cmd o₁ o₂) := by
    intro o₁ o₂
    unfold TopologyFSM.Apply
    simp only [hc]
    rw [if_neg (by decide), if_neg (by decide), if_pos trivial]
  rw [hA, hA]
  congr 1
  have hpool : g.pool.AllocateIPForNodeWithPurpose data.NodeID
      (if data.Purpose = "" then "default" else data.Purpose) ord₁ ord₂ =
      g.pool.AllocateIPForNodeWithPurpose data.NodeID
      (if data.Purpose = "" then "default" else data.Purpose) ord₁' ord₂' := by
    rw [hid, hp]
    simp only [TopologyAwarePool.AllocateIPForNodeWithPurpose, hn, hg, hsp]
  simp only [TopologyFSM.applyAllocateIP, hd, hpool]

/-- The entries of a map with two keys. -/
theorem mapGet_pair {ν : Type} {a b k : CIDRString} {A B v : ν}
    (h : mapGet [(a, A), (b, B)] k = some v) : (k = a ∧ v = A) ∨ (k = b ∧ v = B) := by
  simp only [mapGet] at h
  split_ifs at h with h1 h2
  · exact Or.inl ⟨h1.symm, (Option.some.inj h).symm⟩
  · exact Or.inr ⟨h2.symm, (Option.some.inj h).symm⟩

/-- C22 amended, instance: the pool holds the subnets `10.244.0.0/24` of purpose `default`
and `10.244.1.0/24` of purpose `storage`, both free.  A request for `storage` has one
candidate, and the allocation is the same whether the loops visit the `default` subnet
first (stored order) or the `storage` subnet first (reverse order). -/
theorem C22_deterministic_selection_witness :
    (SubnetPool.mk "tor-1" [(CIDRString.v4 183762944 24,
        Subnet.mk ⟨183762944, 24, 32⟩ "default" 254 0 [] (NewBitmap 254)),
      (CIDRString.v4 183763200 24,
        Subnet.mk ⟨183763200, 24, 32⟩ "storage" 254 0 [] (NewBitmap 254))]).AllocateIP
        "n1" "storage" id id =
      (SubnetPool.mk "tor-1" [(CIDRString.v4 183762944 24,
        Subnet.mk ⟨183762944, 24, 32⟩ "default" 254 0 [] (NewBitmap 254)),
      (CIDRString.v4 183763200 24,
        Subnet.mk ⟨183763200, 24, 32⟩ "storage" 254 0 [] (NewBitmap 254))]).AllocateIP
        "n1" "storage" List.reverse List.reverse ∧
    rangeMap [(CIDRString.v4 183762944 24, "default"), (CIDRString.v4 183763200 24, "storage")]
        id ≠
      rangeMap [(CIDRString.v4 183762944 24, "default"), (CIDRString.v4 183763200 24, "storage")]
        List.reverse :=
  ⟨(C22_deterministic_selection (SubnetPool.mk "tor-1" [(CIDRString.v4 183762944 24,
        Subnet.mk ⟨183762944, 24, 32⟩ "default" 254 0 [] (NewBitmap 254)),
      (CIDRString.v4 183763200 24,
        Subnet.mk ⟨183763200, 24, 32⟩ "storage" 254 0 [] (NewBitmap 254))])
      "n1" "storage" id id List.reverse List.reverse
      IsMapOrder_id IsMapOrder_id IsMapOrder_reverse IsMapOrder_reverse
      (fun k₁ s₁ k₂ s₂ h1 h2 p1 _ p2 _ => by
        rcases mapGet_pair h1 with ⟨_, e1⟩ | ⟨e1, _⟩
        · rw [e1] at p1
          rcases p1 with p1 | p1
          · exact absurd p1 (by decide)
          · exact absurd p1 (by decide)
        · rcases mapGet_pair h2 with ⟨_, e2⟩ | ⟨e2, _⟩
          · rw [e2] at p2
            rcases p2 with p2 | p2
            · exact absurd p2 (by decide)
            · exact absurd p2 (by decide)
          · rw [e1, e2])
      (fun _ k₁ s₁ k₂ s₂ h1 h2 p1 _ p2 _ => by
        rcases mapGet_pair h1 with ⟨e1, _⟩ | ⟨_, e1⟩
        · rcases mapGet_pair h2 with ⟨e2, _⟩ | ⟨_, e2⟩
          · rw [e1, e2]
          · rw [e2] at p2
            exact absurd p2 (by decide)
        · rw [e1] at p1
          exact absurd p1 (by decide))).1,
    by decide⟩

end OrderProofs

/-! ## Topology pool: duplicate subnets in `InitializeTopology` -/

section InitProofs

/-- The subnet loop fails when a CIDR string of the list is already a key of the pool or
occurs twice in the list. -/
theorem initSubnets_dup (torID : String) (l : List SubnetConfig) :
    ∀ (topo : Topology) (sp : SubnetPool),
      ((∃ c ∈ l, mapGet sp.Subnets c.CIDR ≠ none) ∨
        ¬ (l.map (fun (c : SubnetConfig) => c.CIDR)).Nodup) →
      (TopologyAwarePool.initSubnets topo sp torID l).2.2 ≠ none := by
  induction l with
  | nil =>
    intro topo sp h
    rcases h with ⟨c, hc, _⟩ | h
    · simp at hc
    · simp at h
  | cons c rest ih =>
    intro topo sp h
    rcases AddSubnet_form sp c.CIDR c.Purpose with ⟨e, hres⟩ | ⟨ipNet, hnew, _, hres⟩
    · have hr : TopologyAwarePool.initSubnets topo sp torID (c :: rest) = (topo, sp, some e) := by
        simp only [TopologyAwarePool.initSubnets, hres]
      rw [hr]
      simp
    · have hr : TopologyAwarePool.initSubnets topo sp torID (c :: rest) =
          TopologyAwarePool.initSubnets (topo.AddSubnetToTOR torID c.CIDR).1
            (SubnetPool.mk sp.TORID (mapPut sp.Subnets c.CIDR
              (Subnet.mk ipNet c.Purpose (toInt64 (toInt64 (2 ^ (ipNet.bits - ipNet.ones)) - 2))
                0 [] (NewBitmap (toInt64 (toInt64 (2 ^ (ipNet.bits - ipNet.ones)) - 2))))))
            torID rest := by
        simp only [TopologyAwarePool.initSubnets, hres]
      rw [hr]
      apply ih
      rcases h with ⟨c', hc', hkey⟩ | hdup
      · rw [List.mem_cons] at hc'
        rcases hc' with rfl | hc'
        · exact absurd hnew hkey
        · exact Or.inl ⟨c', hc', mapGet_mapPut_ne_none _ _ _ _ hkey⟩
      · rw [List.map_cons, List.nodup_cons, not_and_or, not_not] at hdup
        rcases hdup with hmem | hdup
        · obtain ⟨c', hc', heq⟩ := List.mem_map.1 hmem
          refine Or.inl ⟨c', hc', ?_⟩
          show mapGet (mapPut sp.Subnets c.CIDR _) c'.CIDR ≠ none
          have heq' : c'.CIDR = c.CIDR := heq
          rw [heq', mapGet_mapPut_self]
          simp
        · exact Or.inr hdup

theorem initTORs_kept (podID : String) (l : List TORConfig) :
    ∀ p : TopologyAwarePool,
      p.topology.TORsKept (TopologyAwarePool.initTORs p podID l).1.topology := by
  induction l with
  | nil => intro p; exact TORsKept_refl _
  | cons tc rest ih =>
    intro p
    have hspec := AddTOR_spec p.topology (TOR.mk tc.ID tc.Name podID tc.Location [] [])
    cases ha : p.topology.AddTOR (TOR.mk tc.ID tc.Name podID tc.Location [] []) with
    | mk topo1 e1 =>
      rw [ha] at hspec
      cases e1 with
      | some err =>
        have hres : TopologyAwarePool.initTORs p podID (tc :: rest) =
            (TopologyAwarePool.mk p.clusterCIDR topo1 p.subnetPools, some err) := by
          simp only [TopologyAwarePool.initTORs, ha]
        rw [hres]
        exact hspec.1
      | none =>
        have hsub := initSubnets_spec tc.ID tc.Subnets topo1 (NewSubnetPool tc.ID)
        cases hi : TopologyAwarePool.initSubnets topo1 (NewSubnetPool tc.ID) tc.ID tc.Subnets with
        | mk topo2 r =>
          obtain ⟨sp, e2⟩ := r
          rw [hi] at hsub
          have hkept : p.topology.TORsKept topo2 := TORsKept_trans hspec.1 hsub.1
          cases e2 with
          | some err =>
            have hres : TopologyAwarePool.initTORs p podID (tc :: rest) =
                (TopologyAwarePool.mk p.clusterCIDR topo2 p.subnetPools, some err) := by
              simp only [TopologyAwarePool.initTORs, ha, hi]
            rw [hres]
            exact hkept
          | none =>
            have hres : TopologyAwarePool.initTORs p podID (tc :: rest) =
                TopologyAwarePool.initTORs
                  (TopologyAwarePool.mk p.clusterCIDR topo2 (mapPut p.subnetPools tc.ID sp))
                  podID rest := by
              simp only [TopologyAwarePool.initTORs, ha, hi]
            rw [hres]
            exact TORsKept_trans hkept
              (ih (TopologyAwarePool.mk p.clusterCIDR topo2 (mapPut p.subnetPools tc.ID sp)))

/-- The TOR loop fails when a TOR of the list already exists or lists a CIDR string
twice. -/
theorem initTORs_fail (podID : String) (l : List TORConfig) :
    ∀ p : TopologyAwarePool,
      (∃ tc ∈ l, mapGet p.topology.TORs tc.ID ≠ none ∨
        ¬ (tc.Subnets.map (fun (c : SubnetConfig) => c.CIDR)).Nodup) →
      (TopologyAwarePool.initTORs p podID l).2 ≠ none := by
  induction l with
  | nil => intro p h; obtain ⟨tc, htc, _⟩ := h; simp at htc
  | cons tc rest ih =>
    intro p h
    have hspec := AddTOR_spec p.topology (TOR.mk tc.ID tc.Name podID tc.Location [] [])
    cases ha : p.topology.AddTOR (TOR.mk tc.ID tc.Name podID tc.Location [] []) with
    | mk topo1 e1 =>
      rw [ha] at hspec
      cases e1 with
      | some err =>
        have hres : TopologyAwarePool.initTORs p podID (tc :: rest) =
            (TopologyAwarePool.mk p.clusterCIDR topo1 p.subnetPools, some err) := by
          simp only [TopologyAwarePool.initTORs, ha]
        rw [hres]
        simp
      | none =>
        obtain ⟨hnew, _⟩ := hspec.2 rfl
        have hsub := initSubnets_spec tc.ID tc.Subnets topo1 (NewSubnetPool tc.ID)
        have hdup := initSubnets_dup tc.ID tc.Subnets topo1 (NewSubnetPool tc.ID)
        cases hi : TopologyAwarePool.initSubnets topo1 (NewSubnetPool tc.ID) tc.ID tc.Subnets with
        | mk topo2 r =>
          obtain ⟨sp, e2⟩ := r
          rw [hi] at hsub hdup
          have hkept : p.topology.TORsKept topo2 := TORsKept_trans hspec.1 hsub.1
          cases e2 with
          | some err =>
            have hres : TopologyAwarePool.initTORs p podID (tc :: rest) =
                (TopologyAwarePool.mk p.clusterCIDR topo2 p.subnetPools, some err) := by
              simp only [TopologyAwarePool.initTORs, ha, hi]
            rw [hres]
            simp
          | none =>
            have hres : TopologyAwarePool.initTORs p podID (tc :: rest) =
                TopologyAwarePool.initTORs
                  (TopologyAwarePool.mk p.clusterCIDR topo2 (mapPut p.subnetPools tc.ID sp))
                  podID rest := by
              simp only [TopologyAwarePool.initTORs, ha, hi]
            rw [hres]
            apply ih
            obtain ⟨tc0, htc0, hbad⟩ := h
            rw [List.mem_cons] at htc0
            rcases htc0 with rfl | htc0
            · exfalso
              rcases hbad with hex | hnd
              · exact hex hnew
              · exact hdup (Or.inr hnd) rfl
            · refine ⟨tc0, htc0, ?_⟩
              rcases hbad with hex | hnd
              · exact Or.inl (hkept _ hex)
              · exact Or.inr hnd

theorem initPods_kept (zoneID : String) (l : List PodConfig) :
    ∀ p : TopologyAwarePool,
      p.topology.TORsKept (TopologyAwarePool.initPods p zoneID l).1.topology := by
  induction l with
  | nil => intro p; exact TORsKept_refl _
  | cons pc rest ih =>
    intro p
    have htors := AddPod_TORs p.topology (Pod.mk pc.ID pc.Name zoneID pc.SubnetRanges [])
    cases ha : p.topology.AddPod (Pod.mk pc.ID pc.Name zoneID pc.SubnetRanges []) with
    | mk topo1 e1 =>
      rw [ha] at htors
      have hkept : p.topology.TORsKept topo1 := by
        intro id h
        have : topo1.TORs = p.topology.TORs := htors
        rw [this]; exact h
      cases e1 with
      | some err =>
        have hres : TopologyAwarePool.initPods p zoneID (pc :: rest) =
            (TopologyAwarePool.mk p.clusterCIDR topo1 p.subnetPools, some err) := by
          simp only [TopologyAwarePool.initPods, ha]
        rw [hres]
        exact hkept
      | none =>
        have hk2 := initTORs_kept pc.ID pc.TORs
          (TopologyAwarePool.mk p.clusterCIDR topo1 p.subnetPools)
        cases hi : TopologyAwarePool.initTORs
            (TopologyAwarePool.mk p.clusterCIDR topo1 p.subnetPools) pc.ID pc.TORs with
        | mk p2 e2 =>
          rw [hi] at hk2
          cases e2 with
          | some err =>
            have hres : TopologyAwarePool.initPods p zoneID (pc :: rest) = (p2, some err) := by
              simp only [TopologyAwarePool.initPods, ha, hi]
            rw [hres]
            exact TORsKept_trans hkept hk2
          | none =>
            have hres : TopologyAwarePool.initPods p zoneID (pc :: rest) =
                TopologyAwarePool.initPods p2 zoneID rest := by
              simp only [TopologyAwarePool.initPods, ha, hi]
            rw [hres]
            exact TORsKept_trans (TORsKept_trans hkept hk2) (ih p2)

/-- The pod loop fails when a TOR listed under one of the pods already exists or lists a
CIDR string twice. -/
theorem initPods_fail (zoneID : String) (l : List PodConfig) :
    ∀ p : TopologyAwarePool,
      (∃ pc ∈ l, ∃ tc ∈ pc.TORs, mapGet p.topology.TORs tc.ID ≠ none ∨
        ¬ (tc.Subnets.map (fun (c : SubnetConfig) => c.CIDR)).Nodup) →
      (TopologyAwarePool.initPods p zoneID l).2 ≠ none := by
  induction l with
  | nil => intro p h; obtain ⟨pc, hpc, _⟩ := h; simp at hpc
  | cons pc rest ih =>
    intro p h
    have htors := AddPod_TORs p.topology (Pod.mk pc.ID pc.Name zoneID pc.SubnetRanges [])
    cases ha : p.topology.AddPod (Pod.mk pc.ID pc.Name zoneID pc.SubnetRanges []) with
    | mk topo1 e1 =>
      rw [ha] at htors
      have htors' : topo1.TORs = p.topology.TORs := htors
      cases e1 with
      | some err =>
        have hres : TopologyAwarePool.initPods p zoneID (pc :: rest) =
            (TopologyAwarePool.mk p.clusterCIDR topo1 p.subnetPools, some err) := by
          simp only [TopologyAwarePool.initPods, ha]
        rw [hres]
        simp
      | none =>
        have hk2 := initTORs_kept pc.ID pc.TORs
          (TopologyAwarePool.mk p.clusterCIDR topo1 p.subnetPools)
        have hf2 := initTORs_fail pc.ID pc.TORs
          (TopologyAwarePool.mk p.clusterCIDR topo1 p.subnetPools)
        cases hi : TopologyAwarePool.initTORs
            (TopologyAwarePool.mk p.clusterCIDR topo1 p.subnetPools) pc.ID pc.TORs with
        | mk p2 e2 =>
          rw [hi] at hk2 hf2
          cases e2 with
          | some err =>
            have hres : TopologyAwarePool.initPods p zoneID (pc :: rest) = (p2, some err) := by
              simp only [TopologyAwarePool.initPods, ha, hi]
            rw [hres]
            simp
          | none =>
            have hres : TopologyAwarePool.initPods p zoneID (pc :: rest) =
                TopologyAwarePool.initPods p2 zoneID rest := by
              simp only [TopologyAwarePool.initPods, ha, hi]
            rw [hres]
            apply ih
            obtain ⟨pc0, hpc0, tc, htc, hbad⟩ := h
            rw [List.mem_cons] at hpc0
            rcases hpc0 with rfl | hpc0
            · exfalso
              refine hf2 ⟨tc, htc, ?_⟩ rfl
              rcases hbad with hex | hnd
              · left
                show mapGet topo1.TORs tc.ID ≠ none
                rw [htors']; exact hex
              · exact Or.inr hnd
            · refine ⟨pc0, hpc0, tc, htc, ?_⟩
              rcases hbad with hex | hnd
              · left
                apply hk2
                show mapGet topo1.TORs tc.ID ≠ none
                rw [htors']; exact hex
              · exact Or.inr hnd

/-- The zone loop fails when a TOR listed in one of the zones already exists or lists a
CIDR string twice. -/
theorem initZones_fail (l : List ZoneConfig) :
    ∀ p : TopologyAwarePool,
      (∃ zc ∈ l, ∃ pc ∈ zc.Pods, ∃ tc ∈ pc.TORs, mapGet p.topology.TORs tc.ID ≠ none ∨
        ¬ (tc.Subnets.map (fun (c : SubnetConfig) => c.CIDR)).Nodup) →
      (TopologyAwarePool.initZones p l).2 ≠ none := by
  induction l with
  | nil => intro p h; obtain ⟨zc, hzc, _⟩ := h; simp at hzc
  | cons zc rest ih =>
    intro p h
    have htors := AddZone_TORs p.topology (Zone.mk zc.ID zc.Name zc.SubnetRanges [])
    cases ha : p.topology.AddZone (Zone.mk zc.ID zc.Name zc.SubnetRanges []) with
    | mk topo1 e1 =>
      rw [ha] at htors
      have htors' : topo1.TORs = p.topology.TORs := htors
      cases e1 with
      | some err =>
        have hres : TopologyAwarePool.initZones p (zc :: rest) =
            (TopologyAwarePool.mk p.clusterCIDR topo1 p.subnetPools, some err) := by
          simp only [TopologyAwarePool.initZones, ha]
        rw [hres]
        simp
      | none =>
        have hk2 := initPods_kept zc.ID zc.Pods
          (TopologyAwarePool.mk p.clusterCIDR topo1 p.subnetPools)
        have hf2 := initPods_fail zc.ID zc.Pods
          (TopologyAwarePool.mk p.clusterCIDR topo1 p.subnetPools)
        cases hi : TopologyAwarePool.initPods
            (TopologyAwarePool.mk p.clusterCIDR topo1 p.subnetPools) zc.ID zc.Pods with
        | mk p2 e2 =>
          rw [hi] at hk2 hf2
          cases e2 with
          | some err =>
            have hres : TopologyAwarePool.initZones p (zc :: rest) = (p2, some err) := by
              simp only [TopologyAwarePool.initZones, ha, hi]
            rw [hres]
            simp
          | none =>
            have hres : TopologyAwarePool.initZones p (zc :: rest) =
                TopologyAwarePool.initZones p2 rest := by
              simp only [TopologyAwarePool.initZones, ha, hi]
            rw [hres]
            apply ih
            obtain ⟨zc0, hzc0, pc, hpc, tc, htc, hbad⟩ := h
            rw [List.mem_cons] at hzc0
            rcases hzc0 with rfl | hzc0
            · exfalso
              refine hf2 ⟨pc, hpc, tc, htc, ?_⟩ rfl
              rcases hbad with hex | hnd
              · left
                show mapGet topo1.TORs tc.ID ≠ none
                rw [htors']; exact hex
              · exact Or.inr hnd
            · refine ⟨zc0, hzc0, pc, hpc, tc, htc, ?_⟩
              rcases hbad with hex | hnd
              · left
                apply hk2
                show mapGet topo1.TORs tc.ID ≠ none
                rw [htors']; exact hex
              · exact Or.inr hnd

/-- C24, as stated, fails: a CIDR listed under two different TORs is accepted.  On a fresh
pool, the configuration with `10.244.0.0/24` under `tor-1` and again under `tor-2` is
initialized without error, and both TORs then hold that subnet. -/
theorem C24_init_duplicate_cidr_counterexample :
    ¬ (∀ (p : TopologyAwarePool) (cfg : TopologyConfig),
        ((∃ e ∈ cfg.subnetCIDRs, ∃ tor s, p.subnetAt tor e.2 = some s) ∨
          ¬ (cfg.subnetCIDRs.map Prod.snd).Nodup) →
        (p.InitializeTopology cfg).2 ≠ none) := by
  intro h
  exact h (NewTopologyAwarePool (CIDRString.v4 183762944 16))
    ⟨[⟨"z1", "zone-1", [], [⟨"p1", "pod-1", [],
      [⟨"tor-1", "tor-1", "rack-1", [⟨CIDRString.v4 183762944 24, "default"⟩]⟩,
       ⟨"tor-2", "tor-2", "rack-2", [⟨CIDRString.v4 183762944 24, "default"⟩]⟩]⟩]⟩]⟩
    (Or.inr (by decide)) (by decide)

/-- C24, amended: `InitializeTopology` fails whenever the configuration lists the same
CIDR string twice under one TOR, and whenever it names a TOR that the topology already has
(so no subnet can be introduced a second time under an existing TOR).  A CIDR that is
listed under, or already present in, a different TOR is no duplicate for the code: each TOR
gets a subnet pool of its own and nothing compares across pools. -/
theorem C24_init_duplicate_cidr (p : TopologyAwarePool) (cfg : TopologyConfig)
    (h : ∃ zc ∈ cfg.Zones, ∃ pc ∈ zc.Pods, ∃ tc ∈ pc.TORs,
      mapGet p.topology.TORs tc.ID ≠ none ∨
        ¬ (tc.Subnets.map (fun (c : SubnetConfig) => c.CIDR)).Nodup) :
    (p.InitializeTopology cfg).2 ≠ none :=
  initZones_fail cfg.Zones p h

/-- C24 amended, instance: listing `10.244.0.0/24` twice under `tor-1` makes
`InitializeTopology` fail on a fresh pool. -/
theorem C24_init_duplicate_cidr_witness :
    ((NewTopologyAwarePool (CIDRString.v4 183762944 16)).InitializeTopology
      ⟨[⟨"z1", "zone-1", [], [⟨"p1", "pod-1", [],
        [⟨"tor-1", "tor-1", "rack-1", [⟨CIDRString.v4 183762944 24, "default"⟩,
          ⟨CIDRString.v4 183762944 24, "storage"⟩]⟩]⟩]⟩]⟩).2 ≠ none :=
  C24_init_duplicate_cidr _ _
    ⟨⟨"z1", "zone-1", [], [⟨"p1", "pod-1", [],
        [⟨"tor-1", "tor-1", "rack-1", [⟨CIDRString.v4 183762944 24, "default"⟩,
          ⟨CIDRString.v4 183762944 24, "storage"⟩]⟩]⟩]⟩, List.mem_singleton.2 rfl,
      ⟨"p1", "pod-1", [],
        [⟨"tor-1", "tor-1", "rack-1", [⟨CIDRString.v4 183762944 24, "default"⟩,
          ⟨CIDRString.v4 183762944 24, "storage"⟩]⟩]⟩, List.mem_singleton.2 rfl,
      ⟨"tor-1", "tor-1", "rack-1", [⟨CIDRString.v4 183762944 24, "default"⟩,
          ⟨CIDRString.v4 183762944 24, "storage"⟩]⟩, List.mem_singleton.2 rfl,
      Or.inr (by decide)⟩

end InitProofs

/-! ## The replicated state machines: `Apply` -/

section ApplyProofs

/-- C26: for the flat `FSM.Apply` and for `TopologyFSM.Apply`, a log entry that decodes to
a command whose type tag is none of the known ones (`allocate_block`, `release_block`,
`update_usage`, resp. `init_topology`, `register_node`, `allocate_ip`, `release_ip`,
`add_subnet`) is answered with `Success = false` and the error `unknown command type`, and
the state machine, hence its pool, is the same after the call; this holds for every state,
every content of the command and every visiting order. -/
theorem C26_unknown_command_type (f : FSM) (g : TopologyFSM) (cmd : Command)
    (tcmd : TopologyCommand) (ord₁ ord₂ : MapOrder) :
    (cmd.CmdType ∉ ["allocate_block", "release_block", "update_usage"] →
      f.Apply (some cmd) =
        (f, FSMResponse.mk false (some Err.unknownCommandType) ResponseData.empty)) ∧
    (tcmd.CmdType ∉ ["init_topology", "register_node", "allocate_ip", "release_ip",
        "add_subnet"] →
      g.Apply (some tcmd) ord₁ ord₂ =
        some (g, FSMResponse.mk false (some Err.unknownCommandType) ResponseData.empty)) := by
  constructor
  · intro h
    simp only [List.mem_cons, List.mem_singleton, List.mem_nil_iff, or_false, not_or] at h
    obtain ⟨h1, h2, h3⟩ := h
    simp only [FSM.Apply, h1, h2, h3, if_false]
  · intro h
    simp only [List.mem_cons, List.mem_singleton, List.mem_nil_iff, or_false, not_or] at h
    obtain ⟨h1, h2, h3, h4, h5⟩ := h
    simp only [TopologyFSM.Apply, h1, h2, h3, h4, h5, if_false]

/-- C26, instance: the command of type `unknown` with the data `{}` applied to the state
machines over fresh pools. -/
theorem C26_unknown_command_type_witness :
    (NewFSM (Pool.mk ⟨183762944, 16, 32⟩ 24 [] [])).Apply (some (Command.mk "unknown" "n1" none)) =
      (NewFSM (Pool.mk ⟨183762944, 16, 32⟩ 24 [] []),
        FSMResponse.mk false (some Err.unknownCommandType) ResponseData.empty) ∧
    (NewTopologyFSM (NewTopologyAwarePool (CIDRString.v4 183762944 16))).Apply
        (some (TopologyCommand.mk "unknown"
          (RawMessage.mk (some ⟨none⟩) (some ⟨"", "", "", []⟩) (some ⟨"", ""⟩)
            (some ⟨"", IPString.invalid ""⟩) (some ⟨"", CIDRString.invalid "", ""⟩)))) id id =
      some (NewTopologyFSM (NewTopologyAwarePool (CIDRString.v4 183762944 16)),
        FSMResponse.mk false (some Err.unknownCommandType) ResponseData.empty) :=
  have h := C26_unknown_command_type (NewFSM (Pool.mk ⟨183762944, 16, 32⟩ 24 [] []))
    (NewTopologyFSM (NewTopologyAwarePool (CIDRString.v4 183762944 16)))
    (Command.mk "unknown" "n1" none)
    (TopologyCommand.mk "unknown"
      (RawMessage.mk (some ⟨none⟩) (some ⟨"", "", "", []⟩) (some ⟨"", ""⟩)
        (some ⟨"", IPString.invalid ""⟩) (some ⟨"", CIDRString.invalid "", ""⟩))) id id
  ⟨h.1 (by decide), h.2 (by decide)⟩

end ApplyProofs

/-! ## The replicated state machines: snapshots -/

section SnapshotProofs

/-- `Restore` applied to what `Snapshot().Persist` wrote, on both state machines: the
persisted data holds the statistics alone, and `Restore` returns no error and leaves the
restoring state machine as it was. -/
theorem Restore_Persist (s t : TopologyFSM) (f g : FSM) :
    t.Restore (some s.Snapshot.Persist) = (t, none) ∧
    s.Snapshot.Persist = TopologySnapshotData.mk s.pool.GetPoolStats none [] ∧
    g.Restore (some f.Snapshot.Persist) = (g, none) ∧
    f.Snapshot.Persist = SnapshotData.mk f.pool.GetStats :=
  ⟨rfl, rfl, rfl, rfl⟩

/-- C28: the snapshot round trip loses the state.  The topology state machine `s` holds one
zone, pod and TOR with the subnet `10.244.0.0/24`, the node `n1` and the allocation of
`10.244.0.1`.  `Restore` of what `Snapshot().Persist` wrote for `s`, applied to a fresh
state machine, returns no error and leaves it as it was, without zone, node, subnet pool
or allocation, while the docstring of `Restore` says that it restores the state from the
snapshot.  Likewise for the flat state machine: the pool of `f` holds the block
`10.244.0.0/24` of `n1` with `10.244.0.1` allocated, and after `Restore` of its snapshot
the fresh state machine still holds no block. -/
theorem C28_snapshot_restore_loses_state :
    ∃ (s : TrackedTopo) (f : TrackedPool),
      TopologyAwarePool.ReachableFrom (CIDRString.v4 183762944 16) s ∧
      s = TrackedTopo.run ⟨NewTopologyAwarePool (CIDRString.v4 183762944 16), []⟩
        [TopoOp.initializeTopology
          ⟨[⟨"zone-a", "Zone A", [], [⟨"pod-1", "Pod 1", [],
            [⟨"tor-1", "TOR 1", "R01", [⟨CIDRString.v4 183762944 24, "default"⟩]⟩]⟩]⟩]⟩,
          TopoOp.registerNode "n1" "node-1" "tor-1" [],
          TopoOp.allocateIP "n1" "default" id id] ∧
      s.pool.GetPoolStats.ZoneCount = 1 ∧ s.held = [IP.v4 183762945] ∧
      (TopologyFSM.mk s.pool).Snapshot.Persist =
        TopologySnapshotData.mk s.pool.GetPoolStats none [] ∧
      (NewTopologyFSM (NewTopologyAwarePool (CIDRString.v4 183762944 16))).Restore
          (some (TopologyFSM.mk s.pool).Snapshot.Persist) =
        (NewTopologyFSM (NewTopologyAwarePool (CIDRString.v4 183762944 16)), none) ∧
      (NewTopologyAwarePool (CIDRString.v4 183762944 16)).GetPoolStats.ZoneCount = 0 ∧
      (NewTopologyAwarePool (CIDRString.v4 183762944 16)).topology.Nodes = [] ∧
      (NewTopologyAwarePool (CIDRString.v4 183762944 16)).subnetPools = [] ∧
      Pool.ReachableFrom (PoolConfig.mk (CIDRString.v4 183762944 16) 24) f ∧
      f = TrackedPool.run ⟨Pool.mk ⟨183762944, 16, 32⟩ 24 [] [], []⟩ [PoolOp.allocateIP "n1"] ∧
      f.held = [IP.v4 183762945] ∧
      (f.pool.nodeBlocks.map Prod.fst) = ["n1"] ∧
      (NewFSM (Pool.mk ⟨183762944, 16, 32⟩ 24 [] [])).Restore
          (some (FSM.mk f.pool).Snapshot.Persist) =
        (NewFSM (Pool.mk ⟨183762944, 16, 32⟩ 24 [] []), none) ∧
      (NewFSM (Pool.mk ⟨183762944, 16, 32⟩ 24 [] [])).pool.nodeBlocks = [] := by
  have hvalid : ∀ op ∈ [TopoOp.initializeTopology
        ⟨[⟨"zone-a", "Zone A", [], [⟨"pod-1", "Pod 1", [],
          [⟨"tor-1", "TOR 1", "R01", [⟨CIDRString.v4 183762944 24, "default"⟩]⟩]⟩]⟩]⟩,
        TopoOp.registerNode "n1" "node-1" "tor-1" [],
        TopoOp.allocateIP "n1" "default" id id], op.Valid := by
    intro op hop
    simp only [List.mem_cons, List.mem_singleton, List.mem_nil_iff, or_false] at hop
    rcases hop with rfl | rfl | rfl
    · exact trivial
    · exact trivial
    · exact ⟨IsMapOrder_id, IsMapOrder_id⟩
  exact ⟨_, _, ⟨_, hvalid, rfl⟩, rfl, by decide, by decide, rfl, rfl, by decide, rfl, rfl,
    ⟨Pool.mk ⟨183762944, 16, 32⟩ 24 [] [], [PoolOp.allocateIP "n1"], by decide, rfl⟩, rfl,
    by decide, by decide, rfl, rfl⟩

end SnapshotProofs

/-! ## The replicated state machines: release commands -/

section ReleaseCommandProofs

theorem findBlockIdx_none {c : CIDRString} {l : List IPBlock}
    (h : ∀ b ∈ l, b.CIDR.String ≠ c) : Pool.findBlockIdx c l = none := by
  induction l with
  | nil => rfl
  | cons b rest ih =>
    unfold Pool.findBlockIdx
    rw [if_neg (h b (List.mem_cons_self _ _)),
      ih (fun b' hb' => h b' (List.mem_cons_of_mem _ hb'))]
    rfl

/-- The four outcomes of `ReleaseBlockForNode`. -/
theorem ReleaseBlockForNode_form (p : Pool) (n : String) (c : CIDRString) :
    (mapGet p.nodeBlocks n = none ∧ p.ReleaseBlockForNode n c = (p, some Err.ErrNodeNotFound)) ∨
    (∃ blocks, mapGet p.nodeBlocks n = some blocks ∧ Pool.findBlockIdx c blocks = none ∧
      p.ReleaseBlockForNode n c = (p, some Err.ErrBlockNotFound)) ∨
    (∃ blocks i x, mapGet p.nodeBlocks n = some blocks ∧ blocks.get? i = some x ∧
      x.CIDR.String = c ∧ x.Used > 0 ∧
      p.ReleaseBlockForNode n c = (p, some Err.ErrBlockInUse)) ∨
    (∃ blocks i x, mapGet p.nodeBlocks n = some blocks ∧ blocks.get? i = some x ∧
      x.CIDR.String = c ∧
      p.ReleaseBlockForNode n c =
        (Pool.mk p.clusterCIDR p.blockSize (mapPut p.nodeBlocks n (blocks.eraseIdx i))
          (mapDel p.allocatedBlocks c), none)) := by
  cases hg : mapGet p.nodeBlocks n with
  | none =>
    exact Or.inl ⟨rfl, by simp only [Pool.ReleaseBlockForNode, hg]⟩
  | some blocks =>
    right
    cases hi : Pool.findBlockIdx c blocks with
    | none =>
      exact Or.inl ⟨blocks, rfl, hi, by simp only [Pool.ReleaseBlockForNode, hg, hi]⟩
    | some i =>
      right
      obtain ⟨x, hx, hstr⟩ := findBlockIdx_spec c blocks i hi
      by_cases hu : x.Used > 0
      · exact Or.inl ⟨blocks, i, x, rfl, hx, hstr, hu, by
          simp only [Pool.ReleaseBlockForNode, hg, hi, hx, hu, if_true]⟩
      · exact Or.inr ⟨blocks, i, x, rfl, hx, hstr, by
          simp only [Pool.ReleaseBlockForNode, hg, hi, hx, hu, if_false]⟩

/-- On an IPv4 pool that satisfies the invariant, a second `ReleaseBlockForNode` directly
after a successful one fails with `ErrBlockNotFound`. -/
theorem ReleaseBlockForNode_again {p : Pool} {held : List IP} (h : p.PInv held) (n : String)
    (c : CIDRString) (hok : (p.ReleaseBlockForNode n c).2 = none) :
    (p.ReleaseBlockForNode n c).1.ReleaseBlockForNode n c =
      ((p.ReleaseBlockForNode n c).1, some Err.ErrBlockNotFound) := by
  rcases ReleaseBlockForNode_form p n c with ⟨_, hres⟩ | ⟨_, _, _, hres⟩ |
    ⟨_, _, _, _, _, _, _, hres⟩ | ⟨blocks, i, x, hg, hx, hstr, hres⟩
  · rw [hres] at hok; exact Option.noConfusion hok
  · rw [hres] at hok; exact Option.noConfusion hok
  · rw [hres] at hok; exact Option.noConfusion hok
  · rw [hres]
    obtain ⟨_, hinv, _⟩ := h
    have hbl : p.view.blocks n = blocks := blocks_of_get hg
    obtain ⟨l1, l2, hl, he⟩ := eraseIdx_split blocks i x hx
    have hnd := hinv.nodup n
    rw [hbl, hl] at hnd
    have hxwf : x.WF := (hinv.wf n x (by rw [hbl, hl]; simp)).1
    have hnone : Pool.findBlockIdx c (blocks.eraseIdx i) = none := by
      apply findBlockIdx_none
      intro b hb hbs
      rw [he] at hb
      have hbwf : b.WF := by
        refine (hinv.wf n b ?_).1
        rw [hbl, hl]
        rcases List.mem_append.1 hb with h1 | h2
        · exact List.mem_append_left _ h1
        · exact List.mem_append_right _ (List.mem_cons_of_mem _ h2)
      have hcidr : b.CIDR = x.CIDR := String_inj hbwf.bits hxwf.bits (by rw [hbs, hstr])
      rw [List.map_append, List.map_cons, List.nodup_append] at hnd
      obtain ⟨_, hnd2, hdisj⟩ := hnd
      rcases List.mem_append.1 hb with h1 | h2
      · exact hdisj (List.mem_map.2 ⟨b, h1, rfl⟩) (by rw [hcidr]; exact List.mem_cons_self _ _)
      · rw [List.nodup_cons] at hnd2
        exact hnd2.1 (by rw [← hcidr]; exact List.mem_map.2 ⟨b, h2, rfl⟩)
    simp only [Pool.ReleaseBlockForNode, mapGet_mapPut_self, hnone]

/-- A failing `RegisterNode` leaves the topology pool as it was. -/
theorem RegisterNode_error (p : TopologyAwarePool) (nodeID nodeName torID : String)
    (labels : List (String × String))
    (h : (p.RegisterNode nodeID nodeName torID labels).2 ≠ none) :
    (p.RegisterNode nodeID nodeName torID labels).1 = p := by
  have hc := RegisterNode_failure_unchanged p.topology (Node.mk nodeID nodeName torID labels)
  cases hr : p.topology.RegisterNode (Node.mk nodeID nodeName torID labels) with
  | mk topo e =>
    have hres : p.RegisterNode nodeID nodeName torID labels =
        (TopologyAwarePool.mk p.clusterCIDR topo p.subnetPools, e) := by
      simp only [TopologyAwarePool.RegisterNode, hr]
    rw [hres] at h ⊢
    rw [hr] at hc
    have : topo = p.topology := hc h
    rw [this]

/-- A failing `AllocateIPForNodeWithPurpose` leaves the topology pool as it was. -/
theorem AllocateIPForNode_error (p : TopologyAwarePool) (nodeID purpose : String)
    (ord₁ ord₂ : MapOrder) (e : Err)
    (h : (p.AllocateIPForNodeWithPurpose nodeID purpose ord₁ ord₂).2 = Except.error e) :
    (p.AllocateIPForNodeWithPurpose nodeID purpose ord₁ ord₂).1 = p := by
  rcases GetNodeTOR_cases p.topology nodeID with ⟨e0, hn⟩ | ⟨tor, hn⟩
  · simp only [TopologyAwarePool.AllocateIPForNodeWithPurpose, hn]
  · cases hg : mapGet p.subnetPools tor.ID with
    | none => simp only [TopologyAwarePool.AllocateIPForNodeWithPurpose, hn, hg]
    | some sp =>
      rcases AllocateIP_form sp nodeID purpose ord₁ ord₂ with ⟨e1, hres, _⟩ |
        ⟨key, S, _, _, _, hres⟩
      · simp only [TopologyAwarePool.AllocateIPForNodeWithPurpose, hn, hg, hres]
        rw [mapPut_self hg]
      · simp only [TopologyAwarePool.AllocateIPForNodeWithPurpose, hn, hg, hres] at h
        exact Except.noConfusion h

/-- The outcomes of `ReleaseIPForNode`: an error and the same pool, or the subnet pool of
the node's TOR replaced by its successor. -/
theorem ReleaseIPForNode_form (p : TopologyAwarePool) (nodeID : String) (ip : IP)
    (ord : MapOrder) :
    (∃ e, p.ReleaseIPForNode nodeID ip ord = (p, some e)) ∨
    (∃ tor sp key S, p.topology.GetNodeTOR nodeID = Except.ok tor ∧
      mapGet p.subnetPools tor.ID = some sp ∧
      (rangeMap sp.Subnets ord).find? (fun e => e.2.CIDR.Contains ip) = some (key, S) ∧
      (mapGet S.Allocations ip).isSome = true ∧
      p.ReleaseIPForNode nodeID ip ord =
        (TopologyAwarePool.mk p.clusterCIDR p.topology (mapPut p.subnetPools tor.ID
          (SubnetPool.mk sp.TORID (mapPut sp.Subnets key
            (Subnet.mk S.CIDR S.Purpose S.Capacity (S.Used - 1) (mapDel S.Allocations ip)
              (S.bitmap.Clear (ipToPosition S.CIDR ip)).1)))), none)) := by
  rcases GetNodeTOR_cases p.topology nodeID with ⟨e0, hn⟩ | ⟨tor, hn⟩
  · exact Or.inl ⟨e0, by simp only [TopologyAwarePool.ReleaseIPForNode, hn]⟩
  · cases hg : mapGet p.subnetPools tor.ID with
    | none =>
      exact Or.inl ⟨Err.subnetPoolNotFound, by
        simp only [TopologyAwarePool.ReleaseIPForNode, hn, hg]⟩
    | some sp =>
      rcases ReleaseIP_form sp ip ord with ⟨e1, hres⟩ | ⟨key, S, hf, hrec, _, hres⟩
      · refine Or.inl ⟨e1, ?_⟩
        simp only [TopologyAwarePool.ReleaseIPForNode, hn, hg, hres]
        rw [mapPut_self hg]
      · refine Or.inr ⟨tor, sp, key, S, hn, hg, hf, hrec, ?_⟩
        simp only [TopologyAwarePool.ReleaseIPForNode, hn, hg, hres]

/-- A failing `ReleaseIPForNode` leaves the topology pool as it was. -/
theorem ReleaseIPForNode_error (p : TopologyAwarePool) (nodeID : String) (ip : IP)
    (ord : MapOrder) (h : (p.ReleaseIPForNode nodeID ip ord).2 ≠ none) :
    (p.ReleaseIPForNode nodeID ip ord).1 = p := by
  rcases ReleaseIPForNode_form p nodeID ip ord with ⟨e, hres⟩ | ⟨_, _, _, _, _, _, _, _, hres⟩
  · rw [hres]
  · rw [hres] at h
    exact absurd rfl h

theorem Apply_release_block (f : FSM) (cmd : Command) (h : cmd.CmdType = "release_block") :
    f.Apply (some cmd) = f.applyReleaseBlock cmd := by
  unfold FSM.Apply
  simp only [h]
  rw [if_neg (by decide), if_pos trivial]

theorem Apply_release_ip (g : TopologyFSM) (cmd : TopologyCommand) (ord₁ ord₂ : MapOrder)
    (h : cmd.CmdType = "release_ip") :
    g.Apply (some cmd) ord₁ ord₂ = some (g.applyReleaseIP cmd ord₁) := by
  unfold TopologyFSM.Apply
  simp only [h]
  rw [if_neg (by decide), if_neg (by decide), if_neg (by decide), if_pos trivial]

/-- The response of a `release_block` command follows the result of
`ReleaseBlockForNode`. -/
theorem applyReleaseBlock_eq (f : FSM) (cmd : Command) (d : ReleaseBlockData)
    (hd : cmd.Data = some d) :
    f.applyReleaseBlock cmd =
      (FSM.mk (f.pool.ReleaseBlockForNode cmd.NodeID d.CIDR).1,
        FSMResponse.mk (f.pool.ReleaseBlockForNode cmd.NodeID d.CIDR).2.isNone
          (f.pool.ReleaseBlockForNode cmd.NodeID d.CIDR).2 ResponseData.empty) := by
  cases hr : f.pool.ReleaseBlockForNode cmd.NodeID d.CIDR with
  | mk p e =>
    cases e with
    | none => simp only [FSM.applyReleaseBlock, hd, hr]; rfl
    | some err => simp only [FSM.applyReleaseBlock, hd, hr]; rfl

/-- The response of a `release_ip` command with a valid address follows the result of
`ReleaseIPForNode`. -/
theorem applyReleaseIP_eq (g : TopologyFSM) (cmd : TopologyCommand) (data : ReleaseIPData)
    (ord : MapOrder) (hd : cmd.Data.asReleaseIP = some data) (hip : ParseIP data.IP ≠ IP.nil) :
    g.applyReleaseIP cmd ord =
      (TopologyFSM.mk (g.pool.ReleaseIPForNode data.NodeID (ParseIP data.IP) ord).1,
        FSMResponse.mk (g.pool.ReleaseIPForNode data.NodeID (ParseIP data.IP) ord).2.isNone
          (g.pool.ReleaseIPForNode data.NodeID (ParseIP data.IP) ord).2
          (if (g.pool.ReleaseIPForNode data.NodeID (ParseIP data.IP) ord).2.isNone then
            ResponseData.release data.IP data.NodeID else ResponseData.empty)) := by
  cases hr : g.pool.ReleaseIPForNode data.NodeID (ParseIP data.IP) ord with
  | mk p e =>
    cases e with
    | none => simp only [TopologyFSM.applyReleaseIP, hd, hip, if_false, hr]; rfl
    | some err => simp only [TopologyFSM.applyReleaseIP, hd, hip, if_false, hr]; rfl

/-- A second `ReleaseIPForNode` directly after a successful one fails with
`IP not allocated` and changes nothing, when at most one subnet of the pool of the node's
TOR contains the address. -/
theorem ReleaseIPForNode_again (p : TopologyAwarePool) (nodeID : String) (ip : IP)
    (ord ord' : MapOrder) (hord' : IsMapOrder ord')
    (hok : (p.ReleaseIPForNode nodeID ip ord).2 = none)
    (huniq : ∀ tor sp, p.topology.GetNodeTOR nodeID = Except.ok tor →
      mapGet p.subnetPools tor.ID = some sp →
      ∀ k₁ s₁ k₂ s₂, mapGet sp.Subnets k₁ = some s₁ → mapGet sp.Subnets k₂ = some s₂ →
        s₁.CIDR.Contains ip = true → s₂.CIDR.Contains ip = true → k₁ = k₂) :
    (p.ReleaseIPForNode nodeID ip ord).1.ReleaseIPForNode nodeID ip ord' =
      ((p.ReleaseIPForNode nodeID ip ord).1, some Err.ipNotAllocated) := by
  rcases ReleaseIPForNode_form p nodeID ip ord with ⟨e, hres⟩ |
    ⟨tor, sp, key, S, hn, hg, hf, hrec, hres⟩
  · rw [hres] at hok; exact Option.noConfusion hok
  · rw [hres]
    have hS : mapGet sp.Subnets key = some S := rangeMap_mem (List.mem_of_find?_eq_some hf)
    have hin : S.CIDR.Contains ip = true :=
      List.find?_some (p := fun (e : CIDRString × Subnet) => e.2.CIDR.Contains ip) hf
    have hagain := ReleaseIP_again sp hin
      (fun k s hk hc => huniq tor sp hn hg k s key S hk hS hc hin) 
      (S.bitmap.Clear (ipToPosition S.CIDR ip)).1 (S.Used - 1) ord' hord'
    simp only [TopologyAwarePool.ReleaseIPForNode, hn, mapGet_mapPut_self, hagain]
    rw [mapPut_self (mapGet_mapPut_self _ _ _)]

/-- C29, as stated, fails: a release whose target is absent is answered with
`Success = false`.  After `InitializeTopology` (one TOR with `10.244.0.0/24`) and the
registration of `n1`, the command `release_ip` for `10.244.0.1`, which was never
allocated, returns `Success = false`. -/
theorem C29_idempotent_release_counterexample :
    ¬ (∀ (c : CIDRString) (t : TrackedTopo), TopologyAwarePool.ReachableFrom c t →
        ∀ (data : ReleaseIPData) (raw : RawMessage) (ord₁ ord₂ : MapOrder),
          raw.asReleaseIP = some data → ParseIP data.IP ∉ t.held →
          ((TopologyFSM.mk t.pool).Apply (some (TopologyCommand.mk "release_ip" raw))
            ord₁ ord₂).map (fun res => res.2.Success) = some true) := by
  intro h
  have hvalid : ∀ op ∈ [TopoOp.initializeTopology
        ⟨[⟨"zone-a", "Zone A", [], [⟨"pod-1", "Pod 1", [],
          [⟨"tor-1", "TOR 1", "R01", [⟨CIDRString.v4 183762944 24, "default"⟩]⟩]⟩]⟩]⟩,
        TopoOp.registerNode "n1" "node-1" "tor-1" []], op.Valid := by
    intro op hop
    simp only [List.mem_cons, List.mem_singleton, List.mem_nil_iff, or_false] at hop
    rcases hop with rfl | rfl <;> exact trivial
  have h2 := h (CIDRString.v4 183762944 16) _ ⟨_, hvalid, rfl⟩
    (ReleaseIPData.mk "n1" (IPString.v4 183762945))
    (RawMessage.mk none none none (some (ReleaseIPData.mk "n1" (IPString.v4 183762945))) none)
    id id rfl (by decide)
  exact absurd h2 (by decide)

/-- C29, amended: release commands are not idempotent; their response follows the result
of the pool call.  For a `release_block` command with decodable data on a flat state
machine over a reachable pool: `Success` is true exactly when `ReleaseBlockForNode` returns
no error; when the node is unknown the response is `Success = false` with
`ErrNodeNotFound`, when the node holds no block with that CIDR it is `Success = false` with
`ErrBlockNotFound`, in both cases with the state unchanged; and after a successful
application the same command applied again returns `Success = false` with
`ErrBlockNotFound`.  For a `release_ip` command with decodable data and a valid address
on a topology state machine: `Success` is true exactly when `ReleaseIPForNode` returns no
error; when no subnet of the pool of the node's TOR that contains the address has an
allocation recorded for it, the response is `Success = false` with `IP not allocated` or
`not found in any subnet` and the state is unchanged; and after a successful application
the same command applied again returns `Success = false` with `IP not allocated`, provided
at most one subnet of that pool contains the address. -/
theorem C29_idempotent_release (config : PoolConfig) (tp : TrackedPool)
    (hr : Pool.ReachableFrom config tp) (g : TopologyFSM) (cmd : Command)
    (hcmd : cmd.CmdType = "release_block") (d : ReleaseBlockData) (hd : cmd.Data = some d)
    (tcmd : TopologyCommand) (htcmd : tcmd.CmdType = "release_ip") (data : ReleaseIPData)
    (hdata : tcmd.Data.asReleaseIP = some data) (hip : ParseIP data.IP ≠ IP.nil)
    (ord₁ ord₂ : MapOrder) :
    ((FSM.mk tp.pool).Apply (some cmd) =
      (FSM.mk (tp.pool.ReleaseBlockForNode cmd.NodeID d.CIDR).1,
        FSMResponse.mk (tp.pool.ReleaseBlockForNode cmd.NodeID d.CIDR).2.isNone
          (tp.pool.ReleaseBlockForNode cmd.NodeID d.CIDR).2 ResponseData.empty)) ∧
    (mapGet tp.pool.nodeBlocks cmd.NodeID = none →
      (FSM.mk tp.pool).Apply (some cmd) =
        (FSM.mk tp.pool, FSMResponse.mk false (some Err.ErrNodeNotFound) ResponseData.empty)) ∧
    (∀ blocks, mapGet tp.pool.nodeBlocks cmd.NodeID = some blocks →
      (∀ b ∈ blocks, b.CIDR.String ≠ d.CIDR) →
      (FSM.mk tp.pool).Apply (some cmd) =
        (FSM.mk tp.pool, FSMResponse.mk false (some Err.ErrBlockNotFound) ResponseData.empty)) ∧
    (((FSM.mk tp.pool).Apply (some cmd)).2.Success = true →
      ((FSM.mk tp.pool).Apply (some cmd)).1.Apply (some cmd) =
        (((FSM.mk tp.pool).Apply (some cmd)).1,
          FSMResponse.mk false (some Err.ErrBlockNotFound) ResponseData.empty)) ∧
    (g.Apply (some tcmd) ord₁ ord₂ =
      some (TopologyFSM.mk (g.pool.ReleaseIPForNode data.NodeID (ParseIP data.IP) ord₁).1,
        FSMResponse.mk (g.pool.ReleaseIPForNode data.NodeID (ParseIP data.IP) ord₁).2.isNone
          (g.pool.ReleaseIPForNode data.NodeID (ParseIP data.IP) ord₁).2
          (if (g.pool.ReleaseIPForNode data.NodeID (ParseIP data.IP) ord₁).2.isNone then
            ResponseData.release data.IP data.NodeID else ResponseData.empty))) ∧
    (∀ tor sp, g.pool.topology.GetNodeTOR data.NodeID = Except.ok tor →
      mapGet g.pool.subnetPools tor.ID = some sp →
      (∀ key s, mapGet sp.Subnets key = some s → s.CIDR.Contains (ParseIP data.IP) = true →
        mapGet s.Allocations (ParseIP data.IP) = none) →
      ∃ e, (e = Err.ipNotAllocated ∨ e = Err.ipNotInAnySubnet) ∧
        g.Apply (some tcmd) ord₁ ord₂ =
          some (g, FSMResponse.mk false (some e) ResponseData.empty)) ∧
    (∀ g' r, g.Apply (some tcmd) ord₁ ord₂ = some (g', r) → r.Success = true →
      (∀ tor sp, g.pool.topology.GetNodeTOR data.NodeID = Except.ok tor →
        mapGet g.pool.subnetPools tor.ID = some sp →
        ∀ k₁ s₁ k₂ s₂, mapGet sp.Subnets k₁ = some s₁ → mapGet sp.Subnets k₂ = some s₂ →
          s₁.CIDR.Contains (ParseIP data.IP) = true →
          s₂.CIDR.Contains (ParseIP data.IP) = true → k₁ = k₂) →
      ∀ ord₁' ord₂', IsMapOrder ord₁' →
        g'.Apply (some tcmd) ord₁' ord₂' =
          some (g', FSMResponse.mk false (some Err.ipNotAllocated) ResponseData.empty)) := by
  have hF : (FSM.mk tp.pool).Apply (some cmd) =
      (FSM.mk (tp.pool.ReleaseBlockForNode cmd.NodeID d.CIDR).1,
        FSMResponse.mk (tp.pool.ReleaseBlockForNode cmd.NodeID d.CIDR).2.isNone
          (tp.pool.ReleaseBlockForNode cmd.NodeID d.CIDR).2 ResponseData.empty) := by
    rw [Apply_release_block _ _ hcmd, applyReleaseBlock_eq _ _ d hd]
  have hT : ∀ (g0 : TopologyFSM) (o₁ o₂ : MapOrder), g0.Apply (some tcmd) o₁ o₂ =
      some (TopologyFSM.mk (g0.pool.ReleaseIPForNode data.NodeID (ParseIP data.IP) o₁).1,
        FSMResponse.mk (g0.pool.ReleaseIPForNode data.NodeID (ParseIP data.IP) o₁).2.isNone
          (g0.pool.ReleaseIPForNode data.NodeID (ParseIP data.IP) o₁).2
          (if (g0.pool.ReleaseIPForNode data.NodeID (ParseIP data.IP) o₁).2.isNone then
            ResponseData.release data.IP data.NodeID else ResponseData.empty)) := by
    intro g0 o₁ o₂
    rw [Apply_release_ip _ _ _ _ htcmd, applyReleaseIP_eq _ _ data _ hdata hip]
  refine ⟨hF, ?_, ?_, ?_, hT g ord₁ ord₂, ?_, ?_⟩
  · intro hnone
    rw [hF]
    rcases ReleaseBlockForNode_form tp.pool cmd.NodeID d.CIDR with ⟨_, hres⟩ |
      ⟨_, hg, _, _⟩ | ⟨_, _, _, hg, _⟩ | ⟨_, _, _, hg, _⟩
    · rw [hres]; rfl
    · rw [hnone] at hg; exact Option.noConfusion hg
    · rw [hnone] at hg; exact Option.noConfusion hg
    · rw [hnone] at hg; exact Option.noConfusion hg
  · intro blocks hb hno
    rw [hF]
    have hres : tp.pool.ReleaseBlockForNode cmd.NodeID d.CIDR =
        (tp.pool, some Err.ErrBlockNotFound) := by
      simp only [Pool.ReleaseBlockForNode, hb, findBlockIdx_none hno]
    rw [hres]; rfl
  · intro hs
    rw [hF] at hs ⊢
    have hok : (tp.pool.ReleaseBlockForNode cmd.NodeID d.CIDR).2 = none := by
      cases he : (tp.pool.ReleaseBlockForNode cmd.NodeID d.CIDR).2 with
      | none => rfl
      | some e =>
        rw [he] at hs
        exact Bool.noConfusion hs
    rcases OK_Reachable hr with hP | ⟨_, _, hnb, _⟩
    · have hagain := ReleaseBlockForNode_again hP cmd.NodeID d.CIDR hok
      rw [Apply_release_block _ _ hcmd, applyReleaseBlock_eq _ _ d hd]
      show (FSM.mk ((tp.pool.ReleaseBlockForNode cmd.NodeID d.CIDR).1.ReleaseBlockForNode
        cmd.NodeID d.CIDR).1, _) = _
      rw [hagain]
      rfl
    · exfalso
      have hres : tp.pool.ReleaseBlockForNode cmd.NodeID d.CIDR =
          (tp.pool, some Err.ErrNodeNotFound) := by
        simp only [Pool.ReleaseBlockForNode, hnb, mapGet]
      rw [hres] at hok
      exact Option.noConfusion hok
  · intro tor sp hn hg hno
    rw [hT g ord₁ ord₂]
    cases hf : (rangeMap sp.Subnets ord₁).find?
        (fun e => e.2.CIDR.Contains (ParseIP data.IP)) with
    | none =>
      refine ⟨Err.ipNotInAnySubnet, Or.inr rfl, ?_⟩
      have hres : g.pool.ReleaseIPForNode data.NodeID (ParseIP data.IP) ord₁ =
          (g.pool, some Err.ipNotInAnySubnet) := by
        simp only [TopologyAwarePool.ReleaseIPForNode, hn, hg, SubnetPool.ReleaseIP, hf]
        rw [mapPut_self hg]
      rw [hres]; rfl
    | some e =>
      obtain ⟨key, S⟩ := e
      have hS : mapGet sp.Subnets key = some S := rangeMap_mem (List.mem_of_find?_eq_some hf)
      have hin : S.CIDR.Contains (ParseIP data.IP) = true :=
        List.find?_some
          (p := fun (e : CIDRString × Subnet) => e.2.CIDR.Contains (ParseIP data.IP)) hf
      have hal := hno key S hS hin
      refine ⟨Err.ipNotAllocated, Or.inl rfl, ?_⟩
      have hres : g.pool.ReleaseIPForNode data.NodeID (ParseIP data.IP) ord₁ =
          (g.pool, some Err.ipNotAllocated) := by
        simp only [TopologyAwarePool.ReleaseIPForNode, hn, hg, SubnetPool.ReleaseIP, hf, hal,
          Option.isNone_none, if_true]
        rw [mapPut_self hg]
      rw [hres]; rfl
  · intro g' r hA hs huniq ord₁' ord₂' hord'
    rw [hT g ord₁ ord₂] at hA
    obtain ⟨hg', hr'⟩ := Prod.mk.inj (Option.some.inj hA)
    subst hg'; subst hr'
    have hok : (g.pool.ReleaseIPForNode data.NodeID (ParseIP data.IP) ord₁).2 = none := by
      cases he : (g.pool.ReleaseIPForNode data.NodeID (ParseIP data.IP) ord₁).2 with
      | none => rfl
      | some e =>
        have hs' : (g.pool.ReleaseIPForNode data.NodeID (ParseIP data.IP) ord₁).2.isNone =
          true := hs
        rw [he] at hs'
        exact Bool.noConfusion hs'
    rw [hT _ ord₁' ord₂']
    have hagain := ReleaseIPForNode_again g.pool data.NodeID (ParseIP data.IP) ord₁ ord₁'
      hord' hok huniq
    show some (TopologyFSM.mk
      ((g.pool.ReleaseIPForNode data.NodeID (ParseIP data.IP) ord₁).1.ReleaseIPForNode
        data.NodeID (ParseIP data.IP) ord₁').1, _) = _
    rw [hagain]
    rfl

/-- C29 amended, instance: on the state machine over the fresh pool `10.244.0.0/16` with
`/24` blocks, the command `release_block` of `10.244.0.0/24` for `n1`, which holds no
block, returns `Success = false` with `ErrNodeNotFound`. -/
theorem C29_idempotent_release_witness :
    Pool.ReachableFrom (PoolConfig.mk (CIDRString.v4 183762944 16) 24)
      ⟨Pool.mk ⟨183762944, 16, 32⟩ 24 [] [], []⟩ ∧
    (FSM.mk (Pool.mk ⟨183762944, 16, 32⟩ 24 [] [])).Apply
        (some (Command.mk "release_block" "n1" (some ⟨CIDRString.v4 183762944 24⟩))) =
      (FSM.mk (Pool.mk ⟨183762944, 16, 32⟩ 24 [] []),
        FSMResponse.mk false (some Err.ErrNodeNotFound) ResponseData.empty) :=
  ⟨⟨_, [], by decide, rfl⟩,
    (C29_idempotent_release (PoolConfig.mk (CIDRString.v4 183762944 16) 24)
      ⟨Pool.mk ⟨183762944, 16, 32⟩ 24 [] [], []⟩ ⟨_, [], by decide, rfl⟩
      (NewTopologyFSM (NewTopologyAwarePool (CIDRString.v4 183762944 16)))
      (Command.mk "release_block" "n1" (some ⟨CIDRString.v4 183762944 24⟩)) rfl
      ⟨CIDRString.v4 183762944 24⟩ rfl
      (TopologyCommand.mk "release_ip"
        (RawMessage.mk none none none (some (ReleaseIPData.mk "n1" (IPString.v4 183762945)))
          none)) rfl
      (ReleaseIPData.mk "n1" (IPString.v4 183762945)) rfl (by decide) id id).2.1 rfl⟩

end ReleaseCommandProofs

/-! ## Topology pool: the subnets of a TOR and its pool -/

section TORSubnetProofs

/-- The subnet list of a TOR after `Topology.AddSubnetToTOR`: the old one, possibly with
the new CIDR for the TOR addressed. -/
theorem AddSubnetToTOR_at (t : Topology) (torID : String) (c : CIDRString) :
    ∀ id T', mapGet (t.AddSubnetToTOR torID c).1.TORs id = some T' →
      ∃ T, mapGet t.TORs id = some T ∧
        ∀ x ∈ T'.Subnets, x ∈ T.Subnets ∨ (id = torID ∧ x = c) := by
  intro id T' h
  cases ht : mapGet t.TORs torID with
  | none =>
    have hres : t.AddSubnetToTOR torID c = (t, some Err.torNotFound) := by
      simp only [Topology.AddSubnetToTOR, ht]
    rw [hres] at h
    exact ⟨T', h, fun x hx => Or.inl hx⟩
  | some tor =>
    by_cases hmem : c ∈ tor.Subnets
    · have hres : t.AddSubnetToTOR torID c = (t, some Err.subnetExistsInTOR) := by
        simp only [Topology.AddSubnetToTOR, ht, hmem, if_true]
      rw [hres] at h
      exact ⟨T', h, fun x hx => Or.inl hx⟩
    · have hres : t.AddSubnetToTOR torID c =
          (Topology.mk t.Zones t.Pods
            (mapPut t.TORs torID (TOR.mk tor.ID tor.Name tor.PodID tor.Location
              (tor.Subnets ++ [c]) tor.Nodes)) t.Nodes, none) := by
        simp only [Topology.AddSubnetToTOR, ht, hmem, if_false]
      rw [hres] at h
      have h' : mapGet (mapPut t.TORs torID (TOR.mk tor.ID tor.Name tor.PodID tor.Location
        (tor.Subnets ++ [c]) tor.Nodes)) id = some T' := h
      by_cases hid : id = torID
      · subst hid
        rw [mapGet_mapPut_self] at h'
        rw [← Option.some.inj h']
        refine ⟨tor, ht, fun x hx => ?_⟩
        rcases List.mem_append.1 hx with h1 | h2
        · exact Or.inl h1
        · exact Or.inr ⟨rfl, List.mem_singleton.1 h2⟩
      · rw [mapGet_mapPut_ne _ _ hid] at h'
        exact ⟨T', h', fun x hx => Or.inl hx⟩

/-- A failing `Topology.AddSubnetToTOR`: the TOR is unknown or already lists the CIDR. -/
theorem AddSubnetToTOR_ok (t : Topology) (torID : String) (c : CIDRString) (tor : TOR)
    (ht : mapGet t.TORs torID = some tor) (hc : c ∉ tor.Subnets) :
    (t.AddSubnetToTOR torID c).2 = none := by
  simp only [Topology.AddSubnetToTOR, ht, hc, if_false]

/-- The subnet list of a TOR is not changed by `Topology.RegisterNode`. -/
theorem RegisterNode_at (t : Topology) (node : Node) :
    ∀ id T', mapGet (t.RegisterNode node).1.TORs id = some T' →
      ∃ T, mapGet t.TORs id = some T ∧ T'.Subnets = T.Subnets := by
  intro id T' h
  cases ht : mapGet t.TORs node.TORID with
  | none =>
    have hres : t.RegisterNode node = (t, some Err.torNotFound) := by
      simp only [Topology.RegisterNode, ht]
    rw [hres] at h
    exact ⟨T', h, rfl⟩
  | some tor =>
    cases hn : mapGet t.Nodes node.ID with
    | some n0 =>
      have hres : t.RegisterNode node = (t, some Err.nodeRegistered) := by
        simp only [Topology.RegisterNode, ht, hn, Option.isSome_some, if_true]
      rw [hres] at h
      exact ⟨T', h, rfl⟩
    | none =>
      have hres : t.RegisterNode node =
          (Topology.mk t.Zones t.Pods
            (mapPut t.TORs node.TORID (TOR.mk tor.ID tor.Name tor.PodID tor.Location tor.Subnets
              (tor.Nodes ++ [node.ID])))
            (mapPut t.Nodes node.ID node), none) := by
        simp only [Topology.RegisterNode, ht, hn, Option.isSome_none, Bool.false_eq_true,
          if_false]
      rw [hres] at h
      have h' : mapGet (mapPut t.TORs node.TORID (TOR.mk tor.ID tor.Name tor.PodID tor.Location
        tor.Subnets (tor.Nodes ++ [node.ID]))) id = some T' := h
      by_cases hid : id = node.TORID
      · subst hid
        rw [mapGet_mapPut_self] at h'
        rw [← Option.some.inj h']
        exact ⟨tor, ht, rfl⟩
      · rw [mapGet_mapPut_ne _ _ hid] at h'
        exact ⟨T', h', rfl⟩

/-- A TOR after `Topology.AddTOR`: an old one, or the new one under a fresh ID. -/
theorem AddTOR_at (t : Topology) (tor : TOR) :
    ∀ id T', mapGet (t.AddTOR tor).1.TORs id = some T' →
      mapGet t.TORs id = some T' ∨ (mapGet t.TORs id = none ∧ T' = tor) := by
  intro id T' h
  cases hp : mapGet t.Pods tor.PodID with
  | none =>
    have hres : t.AddTOR tor = (t, some Err.podNotFound) := by
      simp only [Topology.AddTOR, hp]
    rw [hres] at h
    exact Or.inl h
  | some pod =>
    cases hg : mapGet t.TORs tor.ID with
    | some t0 =>
      have hres : t.AddTOR tor = (t, some Err.torExists) := by
        simp only [Topology.AddTOR, hp, hg, Option.isSome_some, if_true]
      rw [hres] at h
      exact Or.inl h
    | none =>
      have hres : t.AddTOR tor =
          (Topology.mk t.Zones (mapPut t.Pods tor.PodID { pod with TORs := keyInsert pod.TORs tor.ID })
            (mapPut t.TORs tor.ID tor) t.Nodes, none) := by
        simp only [Topology.AddTOR, hp, hg, Option.isSome_none, Bool.false_eq_true, if_false]
      rw [hres] at h
      have h' : mapGet (mapPut t.TORs tor.ID tor) id = some T' := h
      by_cases hid : id = tor.ID
      · subst hid
        rw [mapGet_mapPut_self] at h'
        exact Or.inr ⟨hg, (Option.some.inj h').symm⟩
      · rw [mapGet_mapPut_ne _ _ hid] at h'
        exact Or.inl h'

theorem TORSubnetsInPool_congr {p p' : TopologyAwarePool}
    (hT : p'.topology.TORs = p.topology.TORs) (hP : p'.subnetPools = p.subnetPools)
    (h : p.TORSubnetsInPool) : p'.TORSubnetsInPool := by
  intro tor sp T hsp hT'
  rw [hP] at hsp
  rw [hT] at hT'
  exact h tor sp T hsp hT'

/-- The subnet loop changes the subnet list of the TOR it fills only, and only by CIDR
strings that are keys of the pool it returns. -/
theorem initSubnets_at (torID : String) (l : List SubnetConfig) :
    ∀ (topo : Topology) (sp : SubnetPool) (id : String) (T' : TOR),
      mapGet (TopologyAwarePool.initSubnets topo sp torID l).1.TORs id = some T' →
      ∃ T, mapGet topo.TORs id = some T ∧
        ∀ x ∈ T'.Subnets, x ∈ T.Subnets ∨
          (id = torID ∧
            mapGet (TopologyAwarePool.initSubnets topo sp torID l).2.1.Subnets x ≠ none) := by
  induction l with
  | nil =>
    intro topo sp id T' h
    exact ⟨T', h, fun x hx => Or.inl hx⟩
  | cons c rest ih =>
    intro topo sp id T' h
    rcases AddSubnet_form sp c.CIDR c.Purpose with ⟨e, hres⟩ | ⟨ipNet, _, _, hres⟩
    · have hr : TopologyAwarePool.initSubnets topo sp torID (c :: rest) = (topo, sp, some e) := by
        simp only [TopologyAwarePool.initSubnets, hres]
      rw [hr] at h
      exact ⟨T', h, fun x hx => Or.inl hx⟩
    · have hr : TopologyAwarePool.initSubnets topo sp torID (c :: rest) =
          TopologyAwarePool.initSubnets (topo.AddSubnetToTOR torID c.CIDR).1
            (SubnetPool.mk sp.TORID (mapPut sp.Subnets c.CIDR
              (Subnet.mk ipNet c.Purpose (toInt64 (toInt64 (2 ^ (ipNet.bits - ipNet.ones)) - 2))
                0 [] (NewBitmap (toInt64 (toInt64 (2 ^ (ipNet.bits - ipNet.ones)) - 2))))))
            torID rest := by
        simp only [TopologyAwarePool.initSubnets, hres]
      rw [hr] at h ⊢
      obtain ⟨T1, hT1, hsub1⟩ := ih _ _ id T' h
      obtain ⟨T, hT, hsub⟩ := AddSubnetToTOR_at topo torID c.CIDR id T1 hT1
      refine ⟨T, hT, fun x hx => ?_⟩
      rcases hsub1 x hx with h1 | h2
      · rcases hsub x h1 with h3 | ⟨h4, h5⟩
        · exact Or.inl h3
        · right
          refine ⟨h4, ?_⟩
          have hext := (initSubnets_spec torID rest (topo.AddSubnetToTOR torID c.CIDR).1
            (SubnetPool.mk sp.TORID (mapPut sp.Subnets c.CIDR
              (Subnet.mk ipNet c.Purpose (toInt64 (toInt64 (2 ^ (ipNet.bits - ipNet.ones)) - 2))
                0 [] (NewBitmap (toInt64 (toInt64 (2 ^ (ipNet.bits - ipNet.ones)) - 2))))))).2
          rw [h5, hext.1 c.CIDR _ (mapGet_mapPut_self _ _ _)]
          simp
      · exact Or.inr h2

theorem initTORs_J (podID : String) (l : List TORConfig) :
    ∀ p : TopologyAwarePool, p.PoolsHaveTOR → p.TORSubnetsInPool →
      (TopologyAwarePool.initTORs p podID l).1.TORSubnetsInPool := by
  induction l with
  | nil => intro p _ h; exact h
  | cons tc rest ih =>
    intro p hk hJ
    have hspec := AddTOR_spec p.topology (TOR.mk tc.ID tc.Name podID tc.Location [] [])
    have hat := AddTOR_at p.topology (TOR.mk tc.ID tc.Name podID tc.Location [] [])
    cases ha : p.topology.AddTOR (TOR.mk tc.ID tc.Name podID tc.Location [] []) with
    | mk topo1 e1 =>
      rw [ha] at hspec hat
      have hJ1 : (TopologyAwarePool.mk p.clusterCIDR topo1 p.subnetPools).TORSubnetsInPool := by
        intro tor sp T hsp hT
        rcases hat tor T hT with h1 | ⟨_, h2⟩
        · exact hJ tor sp T hsp h1
        · rw [h2]
          intro c hc
          exact absurd hc (List.not_mem_nil c)
      cases e1 with
      | some err =>
        have hres : TopologyAwarePool.initTORs p podID (tc :: rest) =
            (TopologyAwarePool.mk p.clusterCIDR topo1 p.subnetPools, some err) := by
          simp only [TopologyAwarePool.initTORs, ha]
        rw [hres]
        exact hJ1
      | none =>
        obtain ⟨hnew, hid⟩ := hspec.2 rfl
        have hnopool : mapGet p.subnetPools tc.ID = none := by
          by_contra hc
          exact hk tc.ID hc hnew
        have hsub := initSubnets_spec tc.ID tc.Subnets topo1 (NewSubnetPool tc.ID)
        have hsat := initSubnets_at tc.ID tc.Subnets topo1 (NewSubnetPool tc.ID)
        cases hi : TopologyAwarePool.initSubnets topo1 (NewSubnetPool tc.ID) tc.ID tc.Subnets with
        | mk topo2 r =>
          obtain ⟨sp2, e2⟩ := r
          rw [hi] at hsub hsat
          have hkept : p.topology.TORsKept topo2 := TORsKept_trans hspec.1 hsub.1
          cases e2 with
          | some err =>
            have hres : TopologyAwarePool.initTORs p podID (tc :: rest) =
                (TopologyAwarePool.mk p.clusterCIDR topo2 p.subnetPools, some err) := by
              simp only [TopologyAwarePool.initTORs, ha, hi]
            rw [hres]
            intro tor sp T' hsp hT'
            obtain ⟨T, hT, hx⟩ := hsat tor T' hT'
            intro c hc
            rcases hx c hc with h1 | ⟨h2, _⟩
            · exact hJ1 tor sp T hsp hT c h1
            · have hsp' : mapGet p.subnetPools tor = some sp := hsp
              rw [h2, hnopool] at hsp'
              exact Option.noConfusion hsp'
          | none =>
            have hres : TopologyAwarePool.initTORs p podID (tc :: rest) =
                TopologyAwarePool.initTORs
                  (TopologyAwarePool.mk p.clusterCIDR topo2 (mapPut p.subnetPools tc.ID sp2))
                  podID rest := by
              simp only [TopologyAwarePool.initTORs, ha, hi]
            rw [hres]
            have hext1 := Ext_newPool p topo2 tc.ID sp2 hk hnew hkept (hsub.1 tc.ID hid) hsub.2
            apply ih _ (hext1.2.2.2 hk)
            intro tor sp T' hsp hT'
            have hsp' : mapGet (mapPut p.subnetPools tc.ID sp2) tor = some sp := hsp
            obtain ⟨T, hT, hx⟩ := hsat tor T' hT'
            intro c hc
            by_cases htor : tor = tc.ID
            · subst htor
              rw [mapGet_mapPut_self] at hsp'
              rw [← Option.some.inj hsp']
              rcases hx c hc with h1 | ⟨_, h2⟩
              · exfalso
                rcases hat _ T hT with h3 | ⟨_, h4⟩
                · rw [hnew] at h3
                  exact Option.noConfusion h3
                · rw [h4] at h1
                  exact absurd h1 (List.not_mem_nil c)
              · exact h2
            · rw [mapGet_mapPut_ne _ _ htor] at hsp'
              rcases hx c hc with h1 | ⟨h2, _⟩
              · exact hJ1 tor sp T hsp' hT c h1
              · exact absurd h2 htor

theorem initPods_J (zoneID : String) (l : List PodConfig) :
    ∀ p : TopologyAwarePool, p.PoolsHaveTOR → p.TORSubnetsInPool →
      (TopologyAwarePool.initPods p zoneID l).1.TORSubnetsInPool := by
  induction l with
  | nil => intro p _ h; exact h
  | cons pc rest ih =>
    intro p hk hJ
    have htors := AddPod_TORs p.topology (Pod.mk pc.ID pc.Name zoneID pc.SubnetRanges [])
    cases ha : p.topology.AddPod (Pod.mk pc.ID pc.Name zoneID pc.SubnetRanges []) with
    | mk topo1 e1 =>
      rw [ha] at htors
      have htors' : topo1.TORs = p.topology.TORs := htors
      have hkept : p.topology.TORsKept topo1 := by
        intro id h
        rw [htors']; exact h
      have hext1 := Ext_topology p topo1 hkept
      have hJ1 : (TopologyAwarePool.mk p.clusterCIDR topo1 p.subnetPools).TORSubnetsInPool :=
        TORSubnetsInPool_congr (p := p) htors' rfl hJ
      cases e1 with
      | some err =>
        have hres : TopologyAwarePool.initPods p zoneID (pc :: rest) =
            (TopologyAwarePool.mk p.clusterCIDR topo1 p.subnetPools, some err) := by
          simp only [TopologyAwarePool.initPods, ha]
        rw [hres]
        exact hJ1
      | none =>
        have hext2 := initTORs_Ext pc.ID pc.TORs
          (TopologyAwarePool.mk p.clusterCIDR topo1 p.subnetPools) (hext1.2.2.2 hk)
        have hJ2 := initTORs_J pc.ID pc.TORs
          (TopologyAwarePool.mk p.clusterCIDR topo1 p.subnetPools) (hext1.2.2.2 hk) hJ1
        cases hi : TopologyAwarePool.initTORs
            (TopologyAwarePool.mk p.clusterCIDR topo1 p.subnetPools) pc.ID pc.TORs with
        | mk p2 e2 =>
          rw [hi] at hext2 hJ2
          cases e2 with
          | some err =>
            have hres : TopologyAwarePool.initPods p zoneID (pc :: rest) = (p2, some err) := by
              simp only [TopologyAwarePool.initPods, ha, hi]
            rw [hres]
            exact hJ2
          | none =>
            have hres : TopologyAwarePool.initPods p zoneID (pc :: rest) =
                TopologyAwarePool.initPods p2 zoneID rest := by
              simp only [TopologyAwarePool.initPods, ha, hi]
            rw [hres]
            exact ih p2 (hext2.2.2.2 (hext1.2.2.2 hk)) hJ2

theorem initZones_J (l : List ZoneConfig) :
    ∀ p : TopologyAwarePool, p.PoolsHaveTOR → p.TORSubnetsInPool →
      (TopologyAwarePool.initZones p l).1.TORSubnetsInPool := by
  induction l with
  | nil => intro p _ h; exact h
  | cons zc rest ih =>
    intro p hk hJ
    have htors := AddZone_TORs p.topology (Zone.mk zc.ID zc.Name zc.SubnetRanges [])
    cases ha : p.topology.AddZone (Zone.mk zc.ID zc.Name zc.SubnetRanges []) with
    | mk topo1 e1 =>
      rw [ha] at htors
      have htors' : topo1.TORs = p.topology.TORs := htors
      have hkept : p.topology.TORsKept topo1 := by
        intro id h
        rw [htors']; exact h
      have hext1 := Ext_topology p topo1 hkept
      have hJ1 : (TopologyAwarePool.mk p.clusterCIDR topo1 p.subnetPools).TORSubnetsInPool :=
        TORSubnetsInPool_congr (p := p) htors' rfl hJ
      cases e1 with
      | some err =>
        have hres : TopologyAwarePool.initZones p (zc :: rest) =
            (TopologyAwarePool.mk p.clusterCIDR topo1 p.subnetPools, some err) := by
          simp only [TopologyAwarePool.initZones, ha]
        rw [hres]
        exact hJ1
      | none =>
        have hext2 := initPods_Ext zc.ID zc.Pods
          (TopologyAwarePool.mk p.clusterCIDR topo1 p.subnetPools) (hext1.2.2.2 hk)
        have hJ2 := initPods_J zc.ID zc.Pods
          (TopologyAwarePool.mk p.clusterCIDR topo1 p.subnetPools) (hext1.2.2.2 hk) hJ1
        cases hi : TopologyAwarePool.initPods
            (TopologyAwarePool.mk p.clusterCIDR topo1 p.subnetPools) zc.ID zc.Pods with
        | mk p2 e2 =>
          rw [hi] at hext2 hJ2
          cases e2 with
          | some err =>
            have hres : TopologyAwarePool.initZones p (zc :: rest) = (p2, some err) := by
              simp only [TopologyAwarePool.initZones, ha, hi]
            rw [hres]
            exact hJ2
          | none =>
            have hres : TopologyAwarePool.initZones p (zc :: rest) =
                TopologyAwarePool.initZones p2 rest := by
              simp only [TopologyAwarePool.initZones, ha, hi]
            rw [hres]
            exact ih p2 (hext2.2.2.2 (hext1.2.2.2 hk)) hJ2

theorem J_updatePool {p : TopologyAwarePool} (hJ : p.TORSubnetsInPool) {id : String}
    {sp sp' : SubnetPool} (hg : mapGet p.subnetPools id = some sp)
    (hkeys : ∀ c, mapGet sp.Subnets c ≠ none → mapGet sp'.Subnets c ≠ none) :
    (TopologyAwarePool.mk p.clusterCIDR p.topology
      (mapPut p.subnetPools id sp')).TORSubnetsInPool := by
  intro tor sp2 T hsp hT c hc
  have hsp' : mapGet (mapPut p.subnetPools id sp') tor = some sp2 := hsp
  by_cases htor : tor = id
  · subst htor
    rw [mapGet_mapPut_self] at hsp'
    rw [← Option.some.inj hsp']
    exact hkeys c (hJ tor sp T hg hT c hc)
  · rw [mapGet_mapPut_ne _ _ htor] at hsp'
    exact hJ tor sp2 T hsp' hT c hc

theorem J_allocate {p : TopologyAwarePool} (hJ : p.TORSubnetsInPool) (nodeID purpose : String)
    (ord₁ ord₂ : MapOrder) :
    (p.AllocateIPForNodeWithPurpose nodeID purpose ord₁ ord₂).1.TORSubnetsInPool := by
  rcases GetNodeTOR_cases p.topology nodeID with ⟨e0, hn⟩ | ⟨tor, hn⟩
  · simp only [TopologyAwarePool.AllocateIPForNodeWithPurpose, hn]
    exact hJ
  · cases hg : mapGet p.subnetPools tor.ID with
    | none =>
      simp only [TopologyAwarePool.AllocateIPForNodeWithPurpose, hn, hg]
      exact hJ
    | some sp =>
      have hres : (p.AllocateIPForNodeWithPurpose nodeID purpose ord₁ ord₂).1 =
          TopologyAwarePool.mk p.clusterCIDR p.topology
            (mapPut p.subnetPools tor.ID (sp.AllocateIP nodeID purpose ord₁ ord₂).1) := by
        simp only [TopologyAwarePool.AllocateIPForNodeWithPurpose, hn, hg]
      rw [hres]
      apply J_updatePool hJ hg
      intro c hc
      rcases AllocateIP_form sp nodeID purpose ord₁ ord₂ with ⟨e, hr, _⟩ |
        ⟨key, S, _, _, _, hr⟩
      · rw [hr]; exact hc
      · rw [hr]; exact mapGet_mapPut_ne_none _ _ _ _ hc

theorem J_release {p : TopologyAwarePool} (hJ : p.TORSubnetsInPool) (nodeID : String) (ip : IP)
    (ord : MapOrder) : (p.ReleaseIPForNode nodeID ip ord).1.TORSubnetsInPool := by
  rcases ReleaseIPForNode_form p nodeID ip ord with ⟨e, hres⟩ |
    ⟨tor, sp, key, S, _, hg, _, _, hres⟩
  · rw [hres]; exact hJ
  · rw [hres]
    apply J_updatePool hJ hg
    intro c hc
    exact mapGet_mapPut_ne_none _ _ _ _ hc

theorem J_register {p : TopologyAwarePool} (hJ : p.TORSubnetsInPool)
    (nodeID nodeName torID : String) (labels : List (String × String)) :
    (p.RegisterNode nodeID nodeName torID labels).1.TORSubnetsInPool := by
  intro tor sp T' hsp hT' c hc
  have hsp' : mapGet p.subnetPools tor = some sp := hsp
  have hT'' : mapGet (p.topology.RegisterNode (Node.mk nodeID nodeName torID labels)).1.TORs
    tor = some T' := hT'
  obtain ⟨T, hT, hsub⟩ := RegisterNode_at _ _ tor T' hT''
  rw [hsub] at hc
  exact hJ tor sp T hsp' hT c hc

/-- The outcomes of `TopologyAwarePool.AddSubnetToTOR` on a pool whose TOR subnet lists
agree with the subnet pools: a failure leaves the pool as it was. -/
theorem AddSubnetToTOR_outcomes {p : TopologyAwarePool} (hk : p.PoolsHaveTOR)
    (hJ : p.TORSubnetsInPool) (torID : String) (cidr : CIDRString) (purpose : String) :
    (∃ e, p.AddSubnetToTOR torID cidr purpose = (p, some e)) ∨
    ((p.AddSubnetToTOR torID cidr purpose).2 = none ∧
      (p.AddSubnetToTOR torID cidr purpose).1.TORSubnetsInPool) := by
  cases hg : mapGet p.subnetPools torID with
  | none =>
    exact Or.inl ⟨Err.torNotFound, by simp only [TopologyAwarePool.AddSubnetToTOR, hg]⟩
  | some sp =>
    rcases AddSubnet_form sp cidr purpose with ⟨e, hres⟩ | ⟨ipNet, hnew, _, hres⟩
    · refine Or.inl ⟨e, ?_⟩
      simp only [TopologyAwarePool.AddSubnetToTOR, hg, hres]
      rw [mapPut_self hg]
    · right
      cases hT : mapGet p.topology.TORs torID with
      | none => exact absurd hT (hk torID (by rw [hg]; simp))
      | some T =>
        have hnot : cidr ∉ T.Subnets := fun hc => hJ torID sp T hg hT cidr hc hnew
        have hok := AddSubnetToTOR_ok p.topology torID cidr T hT hnot
        have hat := AddSubnetToTOR_at p.topology torID cidr
        cases ht : p.topology.AddSubnetToTOR torID cidr with
        | mk topo' err =>
          rw [ht] at hok hat
          have herr : err = none := hok
          subst herr
          have hres2 : p.AddSubnetToTOR torID cidr purpose =
              (TopologyAwarePool.mk p.clusterCIDR topo' (mapPut p.subnetPools torID
                (SubnetPool.mk sp.TORID (mapPut sp.Subnets cidr
                  (Subnet.mk ipNet purpose (toInt64 (toInt64 (2 ^ (ipNet.bits - ipNet.ones)) - 2))
                    0 [] (NewBitmap (toInt64 (toInt64 (2 ^ (ipNet.bits - ipNet.ones)) - 2))))))),
                none) := by
            simp only [TopologyAwarePool.AddSubnetToTOR, hg, hres, ht]
          rw [hres2]
          refine ⟨rfl, ?_⟩
          intro tor sp2 T' hsp hT' c hc
          have hsp' : mapGet (mapPut p.subnetPools torID
            (SubnetPool.mk sp.TORID (mapPut sp.Subnets cidr
              (Subnet.mk ipNet purpose (toInt64 (toInt64 (2 ^ (ipNet.bits - ipNet.ones)) - 2))
                0 [] (NewBitmap (toInt64 (toInt64 (2 ^ (ipNet.bits - ipNet.ones)) - 2)))))))
            tor = some sp2 := hsp
          obtain ⟨T0, hT0, hsub⟩ := hat tor T' hT'
          by_cases htor : tor = torID
          · subst htor
            rw [mapGet_mapPut_self] at hsp'
            rw [← Option.some.inj hsp']
            show mapGet (mapPut sp.Subnets cidr _) c ≠ none
            rcases hsub c hc with h1 | ⟨_, h2⟩
            · exact mapGet_mapPut_ne_none _ _ _ _ (hJ tor sp T0 hg hT0 c h1)
            · rw [h2, mapGet_mapPut_self]; simp
          · rw [mapGet_mapPut_ne _ _ htor] at hsp'
            rcases hsub c hc with h1 | ⟨h2, _⟩
            · exact hJ tor sp2 T0 hsp' hT0 c h1
            · exact absurd h2 htor

theorem J_step {t : TrackedTopo} (h : t.Inv) (hJ : t.pool.TORSubnetsInPool) (op : TopoOp) :
    (t.step op).pool.TORSubnetsInPool := by
  cases op with
  | initializeTopology cfg => exact initZones_J cfg.Zones t.pool h.1 hJ
  | registerNode n nm tor labels => exact J_register hJ n nm tor labels
  | addSubnetToTOR tor c purpose =>
    show (t.pool.AddSubnetToTOR tor c purpose).1.TORSubnetsInPool
    rcases AddSubnetToTOR_outcomes h.1 hJ tor c purpose with ⟨e, hres⟩ | ⟨_, h2⟩
    · rw [hres]; exact hJ
    · exact h2
  | allocateIP n purpose o1 o2 =>
    have := J_allocate hJ n purpose o1 o2
    cases hr : t.pool.AllocateIPForNodeWithPurpose n purpose o1 o2 with
    | mk p' r =>
      rw [hr] at this
      cases r with
      | ok v =>
        obtain ⟨ip, c⟩ := v
        rw [topo_step_allocate_ok hr]
        exact this
      | error e =>
        rw [topo_step_allocate_error hr]
        exact this
  | releaseIP n ip o =>
    have := J_release hJ n ip o
    cases hr : t.pool.ReleaseIPForNode n ip o with
    | mk p' r =>
      rw [hr] at this
      cases r with
      | none =>
        rw [topo_step_release_ok hr]
        exact this
      | some e =>
        rw [topo_step_release_error hr]
        exact this

theorem J_run {t : TrackedTopo} (h : t.Inv) (hJ : t.pool.TORSubnetsInPool) (ops : List TopoOp) :
    (t.run ops).pool.TORSubnetsInPool := by
  induction ops generalizing t with
  | nil => exact hJ
  | cons op ops ih => exact ih (Inv_step h op) (J_step h hJ op)

theorem J_Reachable {c : CIDRString} {t : TrackedTopo}
    (h : TopologyAwarePool.ReachableFrom c t) : t.pool.TORSubnetsInPool := by
  obtain ⟨ops, _, rfl⟩ := h
  refine J_run (Inv_init c) ?_ ops
  intro tor sp T hsp _
  simp [NewTopologyAwarePool, mapGet] at hsp

end TORSubnetProofs

/-! ## The replicated state machines: failing commands -/

section AtomicityProofs

theorem Apply_init_topology (g : TopologyFSM) (cmd : TopologyCommand) (ord₁ ord₂ : MapOrder)
    (h : cmd.CmdType = "init_topology") :
    g.Apply (some cmd) ord₁ ord₂ = g.applyInitTopology cmd := by
  unfold TopologyFSM.Apply
  simp only [h]
  rw [if_pos trivial]

theorem Apply_register_node (g : TopologyFSM) (cmd : TopologyCommand) (ord₁ ord₂ : MapOrder)
    (h : cmd.CmdType = "register_node") :
    g.Apply (some cmd) ord₁ ord₂ = some (g.applyRegisterNode cmd) := by
  unfold TopologyFSM.Apply
  simp only [h]
  rw [if_neg (by decide), if_pos trivial]

theorem Apply_allocate_ip (g : TopologyFSM) (cmd : TopologyCommand) (ord₁ ord₂ : MapOrder)
    (h : cmd.CmdType = "allocate_ip") :
    g.Apply (some cmd) ord₁ ord₂ = some (g.applyAllocateIP cmd ord₁ ord₂) := by
  unfold TopologyFSM.Apply
  simp only [h]
  rw [if_neg (by decide), if_neg (by decide), if_pos trivial]

theorem Apply_add_subnet (g : TopologyFSM) (cmd : TopologyCommand) (ord₁ ord₂ : MapOrder)
    (h : cmd.CmdType = "add_subnet") :
    g.Apply (some cmd) ord₁ ord₂ = some (g.applyAddSubnet cmd) := by
  unfold TopologyFSM.Apply
  simp only [h]
  rw [if_neg (by decide), if_neg (by decide), if_neg (by decide), if_neg (by decide),
    if_pos trivial]

theorem applyRegisterNode_fail (f : TopologyFSM) (cmd : TopologyCommand)
    (h : (f.applyRegisterNode cmd).2.Success = false) : (f.applyRegisterNode cmd).1 = f := by
  cases hd : cmd.Data.asRegisterNode with
  | none => simp only [TopologyFSM.applyRegisterNode, hd]
  | some data =>
    have herr := RegisterNode_error f.pool data.NodeID data.NodeName data.TORID data.Labels
    cases hr : f.pool.RegisterNode data.NodeID data.NodeName data.TORID data.Labels with
    | mk p e =>
      rw [hr] at herr
      cases e with
      | none =>
        simp only [TopologyFSM.applyRegisterNode, hd, hr] at h
        exact Bool.noConfusion h
      | some err =>
        simp only [TopologyFSM.applyRegisterNode, hd, hr]
        have : p = f.pool := herr (by simp)
        rw [this]

theorem applyAllocateIP_fail (f : TopologyFSM) (cmd : TopologyCommand) (ord₁ ord₂ : MapOrder)
    (h : (f.applyAllocateIP cmd ord₁ ord₂).2.Success = false) :
    (f.applyAllocateIP cmd ord₁ ord₂).1 = f := by
  cases hd : cmd.Data.asAllocateIP with
  | none => simp only [TopologyFSM.applyAllocateIP, hd]
  | some data =>
    have herr := AllocateIPForNode_error f.pool data.NodeID
      (if data.Purpose = "" then "default" else data.Purpose) ord₁ ord₂
    cases hr : f.pool.AllocateIPForNodeWithPurpose data.NodeID
        (if data.Purpose = "" then "default" else data.Purpose) ord₁ ord₂ with
    | mk p e =>
      rw [hr] at herr
      cases e with
      | ok v =>
        obtain ⟨ip, c⟩ := v
        simp only [TopologyFSM.applyAllocateIP, hd, hr] at h
        exact Bool.noConfusion h
      | error err =>
        simp only [TopologyFSM.applyAllocateIP, hd, hr]
        have : p = f.pool := herr err rfl
        rw [this]

theorem applyReleaseIP_fail (f : TopologyFSM) (cmd : TopologyCommand) (ord : MapOrder)
    (h : (f.applyReleaseIP cmd ord).2.Success = false) : (f.applyReleaseIP cmd ord).1 = f := by
  cases hd : cmd.Data.asReleaseIP with
  | none => simp only [TopologyFSM.applyReleaseIP, hd]
  | some data =>
    by_cases hip : ParseIP data.IP = IP.nil
    · simp only [TopologyFSM.applyReleaseIP, hd, hip, if_true]
    · rw [applyReleaseIP_eq f cmd data ord hd hip] at h ⊢
      have herr := ReleaseIPForNode_error f.pool data.NodeID (ParseIP data.IP) ord
      cases he : (f.pool.ReleaseIPForNode data.NodeID (ParseIP data.IP) ord).2 with
      | none =>
        have h' : (f.pool.ReleaseIPForNode data.NodeID (ParseIP data.IP) ord).2.isNone =
          false := h
        rw [he] at h'
        exact Bool.noConfusion h'
      | some err =>
        show TopologyFSM.mk (f.pool.ReleaseIPForNode data.NodeID (ParseIP data.IP) ord).1 = f
        rw [herr (by rw [he]; simp)]

theorem applyAddSubnet_fail (f : TopologyFSM) (hk : f.pool.PoolsHaveTOR)
    (hJ : f.pool.TORSubnetsInPool) (cmd : TopologyCommand)
    (h : (f.applyAddSubnet cmd).2.Success = false) : (f.applyAddSubnet cmd).1 = f := by
  cases hd : cmd.Data.asAddSubnet with
  | none => simp only [TopologyFSM.applyAddSubnet, hd]
  | some data =>
    rcases AddSubnetToTOR_outcomes hk hJ data.TORID data.CIDR data.Purpose with ⟨e, hres⟩ |
      ⟨hok, _⟩
    · simp only [TopologyFSM.applyAddSubnet, hd, hres]
    · exfalso
      cases hr : f.pool.AddSubnetToTOR data.TORID data.CIDR data.Purpose with
      | mk p e =>
        rw [hr] at hok
        have he : e = none := hok
        subst he
        simp only [TopologyFSM.applyAddSubnet, hd, hr] at h
        exact Bool.noConfusion h

/-- C25, as stated, fails: an `init_topology` command that fails part-way leaves behind
what it added before the failure.  On a fresh pool, the configuration with one zone, one
pod and the TOR `tor-1` listing `10.244.0.0/24` twice is answered with `Success = false`
(the second `AddSubnet` fails), and the pool then holds the zone, the pod and the TOR with
that CIDR in its subnet list, but no subnet pool for the TOR. -/
theorem C25_failure_atomicity_counterexample :
    ¬ (∀ (c : CIDRString) (t : TrackedTopo), TopologyAwarePool.ReachableFrom c t →
        ∀ (log : Option TopologyCommand) (ord₁ ord₂ : MapOrder) (g : TopologyFSM)
          (r : FSMResponse), (TopologyFSM.mk t.pool).Apply log ord₁ ord₂ = some (g, r) →
          r.Success = false → g = TopologyFSM.mk t.pool) := by
  intro h
  have h2 := h (CIDRString.v4 183762944 16)
    ⟨NewTopologyAwarePool (CIDRString.v4 183762944 16), []⟩
    ⟨[], fun _ hop => absurd hop (List.not_mem_nil _), rfl⟩
    (some (TopologyCommand.mk "init_topology"
      (RawMessage.mk (some ⟨some ⟨[⟨"zone-a", "Zone A", [], [⟨"pod-1", "Pod 1", [],
        [⟨"tor-1", "TOR 1", "R01", [⟨CIDRString.v4 183762944 24, "default"⟩,
          ⟨CIDRString.v4 183762944 24, "default"⟩]⟩]⟩]⟩]⟩⟩) none none none none)))
    id id
    (TopologyFSM.mk (TopologyAwarePool.mk (CIDRString.v4 183762944 16)
      (Topology.mk [("zone-a", Zone.mk "zone-a" "Zone A" [] ["pod-1"])]
        [("pod-1", Pod.mk "pod-1" "Pod 1" "zone-a" [] ["tor-1"])]
        [("tor-1", TOR.mk "tor-1" "TOR 1" "pod-1" "R01" [CIDRString.v4 183762944 24] [])] [])
      []))
    (FSMResponse.mk false (some Err.subnetExistsInPool) ResponseData.empty)
    (by decide) rfl
  exact absurd h2 (by decide)

/-- C25, amended: for every topology pool reachable from `NewTopologyAwarePool` by the
pool operations, every visiting order and every log entry that is not an `init_topology`
command (an undecodable entry, a `register_node`, `allocate_ip`, `release_ip` or
`add_subnet` command, decodable or not, or a command of unknown type): if `Apply` returns
a response with `Success = false`, the state machine after the call is identical to the
one before; and `Apply` does return a response, for an `add_subnet` command provided its
CIDR does not parse or has at most 32 host bits (with more, the slice allocation of
`NewBitmap` can panic in the code, which the model does not represent).  For an
`init_topology` command atomicity does not hold: the code undoes nothing, and a failure
part-way leaves behind the zones, pods, TORs and TOR subnet entries added before it; what
still holds is that every subnet stored before the call is stored unchanged after it. -/
theorem C25_failure_atomicity (c : CIDRString) (t : TrackedTopo)
    (hr : TopologyAwarePool.ReachableFrom c t) (log : Option TopologyCommand)
    (ord₁ ord₂ : MapOrder) :
    ((∀ cmd, log = some cmd → cmd.CmdType ≠ "init_topology") →
      (∀ g r, (TopologyFSM.mk t.pool).Apply log ord₁ ord₂ = some (g, r) →
        r.Success = false → g = TopologyFSM.mk t.pool) ∧
      ((∀ cmd data, log = some cmd → cmd.CmdType = "add_subnet" →
          cmd.Data.asAddSubnet = some data → SubnetPool.bitmapInRange data.CIDR) →
        ∃ g r, (TopologyFSM.mk t.pool).Apply log ord₁ ord₂ = some (g, r))) ∧
    (∀ cmd, log = some cmd → cmd.CmdType = "init_topology" →
      ∀ g r, (TopologyFSM.mk t.pool).Apply log ord₁ ord₂ = some (g, r) →
        ∀ tor key s, t.pool.subnetAt tor key = some s →
          g.pool.subnetAt tor key = some s) := by
  have hinv : t.Inv := Inv_Reachable hr
  have hJ := J_Reachable hr
  constructor
  · intro hnot
    have hboth : ∃ g r, (TopologyFSM.mk t.pool).Apply log ord₁ ord₂ = some (g, r) ∧
        (r.Success = false → g = TopologyFSM.mk t.pool) := by
      cases log with
      | none => exact ⟨_, _, rfl, fun _ => rfl⟩
      | some cmd =>
        have hni := hnot cmd rfl
        by_cases h2 : cmd.CmdType = "register_node"
        · rw [Apply_register_node _ _ _ _ h2]
          exact ⟨_, _, rfl, applyRegisterNode_fail _ cmd⟩
        · by_cases h3 : cmd.CmdType = "allocate_ip"
          · rw [Apply_allocate_ip _ _ _ _ h3]
            exact ⟨_, _, rfl, applyAllocateIP_fail _ cmd ord₁ ord₂⟩
          · by_cases h4 : cmd.CmdType = "release_ip"
            · rw [Apply_release_ip _ _ _ _ h4]
              exact ⟨_, _, rfl, applyReleaseIP_fail _ cmd ord₁⟩
            · by_cases h5 : cmd.CmdType = "add_subnet"
              · rw [Apply_add_subnet _ _ _ _ h5]
                exact ⟨_, _, rfl, applyAddSubnet_fail _ hinv.1 hJ cmd⟩
              · refine ⟨TopologyFSM.mk t.pool,
                  FSMResponse.mk false (some Err.unknownCommandType) ResponseData.empty, ?_,
                  fun _ => rfl⟩
                simp only [TopologyFSM.Apply, hni, h2, h3, h4, h5, if_false]
    obtain ⟨g0, r0, heq, himp⟩ := hboth
    refine ⟨fun g r h hs => ?_, fun _ => ⟨g0, r0, heq⟩⟩
    rw [heq] at h
    obtain ⟨e1, e2⟩ := Prod.mk.inj (Option.some.inj h)
    rw [← e1]
    exact himp (by rw [e2]; exact hs)
  · intro cmd hlog hi g r hA tor key s hs
    rw [hlog, Apply_init_topology _ _ _ _ hi] at hA
    cases hd : cmd.Data.asInitTopology with
    | none =>
      simp only [TopologyFSM.applyInitTopology, hd] at hA
      rw [← (Prod.mk.inj (Option.some.inj hA)).1]
      exact hs
    | some data =>
      cases hc : data.Config with
      | none =>
        simp only [TopologyFSM.applyInitTopology, hd, hc] at hA
        exact Option.noConfusion hA
      | some config =>
        have hext := (initZones_Ext config.Zones t.pool hinv.1).1 tor key s hs
        cases hz : t.pool.InitializeTopology config with
        | mk p e =>
          have hp : (TopologyAwarePool.initZones t.pool config.Zones).1 = p := by
            have : TopologyAwarePool.initZones t.pool config.Zones = (p, e) := hz
            rw [this]
          rw [hp] at hext
          cases e with
          | none =>
            simp only [TopologyFSM.applyInitTopology, hd, hc, hz] at hA
            rw [← (Prod.mk.inj (Option.some.inj hA)).1]
            exact hext
          | some err =>
            simp only [TopologyFSM.applyInitTopology, hd, hc, hz] at hA
            rw [← (Prod.mk.inj (Option.some.inj hA)).1]
            exact hext

/-- C25 amended, instance: on the fresh pool, the command `add_subnet` of `10.244.1.0/24`
for the unknown TOR `tor-9` is answered, and its failure leaves the state unchanged. -/
theorem C25_failure_atomicity_witness :
    TopologyAwarePool.ReachableFrom (CIDRString.v4 183762944 16)
      ⟨NewTopologyAwarePool (CIDRString.v4 183762944 16), []⟩ ∧
    SubnetPool.bitmapInRange (CIDRString.v4 183763200 24) ∧
    (∃ g r, (TopologyFSM.mk (NewTopologyAwarePool (CIDRString.v4 183762944 16))).Apply
        (some (TopologyCommand.mk "add_subnet"
          (RawMessage.mk none none none none
            (some ⟨"tor-9", CIDRString.v4 183763200 24, "default"⟩)))) id id = some (g, r)) ∧
    (∀ g r, (TopologyFSM.mk (NewTopologyAwarePool (CIDRString.v4 183762944 16))).Apply
        (some (TopologyCommand.mk "add_subnet"
          (RawMessage.mk none none none none
            (some ⟨"tor-9", CIDRString.v4 183763200 24, "default"⟩)))) id id = some (g, r) →
      r.Success = false →
      g = TopologyFSM.mk (NewTopologyAwarePool (CIDRString.v4 183762944 16))) := by
  have hrange : SubnetPool.bitmapInRange (CIDRString.v4 183763200 24) := by
    intro ipNet hp
    rw [show ParseCIDR (CIDRString.v4 183763200 24) = some ⟨183763200, 24, 32⟩ from by decide]
      at hp
    rw [← Option.some.inj hp]
    decide
  have h := (C25_failure_atomicity (CIDRString.v4 183762944 16)
      ⟨NewTopologyAwarePool (CIDRString.v4 183762944 16), []⟩
      ⟨[], fun _ hop => absurd hop (List.not_mem_nil _), rfl⟩
      (some (TopologyCommand.mk "add_subnet"
        (RawMessage.mk none none none none
          (some ⟨"tor-9", CIDRString.v4 183763200 24, "default"⟩)))) id id).1
      (fun cmd hc => by
        rw [← Option.some.inj hc]
        decide)
  refine ⟨⟨[], fun _ hop => absurd hop (List.not_mem_nil _), rfl⟩, hrange, h.2 ?_, h.1⟩
  intro cmd data hc _ hd
  rw [← Option.some.inj hc] at hd
  rw [← Option.some.inj hd]
  exact hrange

end AtomicityProofs

/-! ## The replay scenario -/

section ReplayProofs
open Bitmap

/-- A map with at most one entry is visited in the same way by every order. -/
theorem rangeMap_single {ν : Type} {m : List (CIDRString × ν)} (h : m.length ≤ 1)
    {ord : MapOrder} (hord : IsMapOrder ord) : rangeMap m ord = rangeMap m id := by
  have hperm := hord (m.map Prod.fst)
  have hkeys : ord (m.map Prod.fst) = m.map Prod.fst := by
    cases m with
    | nil => exact List.Perm.eq_nil hperm
    | cons e rest =>
      cases rest with
      | nil => exact List.Perm.eq_singleton hperm
      | cons e' rest' => simp at h
  unfold rangeMap
  rw [hkeys]
  rfl

theorem AllocateIP_single {sp : SubnetPool} (h : sp.Subnets.length ≤ 1)
    (nodeID purpose : String) {ord₁ ord₂ : MapOrder} (h₁ : IsMapOrder ord₁)
    (h₂ : IsMapOrder ord₂) :
    sp.AllocateIP nodeID purpose ord₁ ord₂ = sp.AllocateIP nodeID purpose id id := by
  simp only [SubnetPool.AllocateIP, SubnetPool.pickTarget, SubnetPool.pickByPurpose,
    SubnetPool.pickDefault, rangeMap_single h h₁, rangeMap_single h h₂]

theorem ReleaseIP_single {sp : SubnetPool} (h : sp.Subnets.length ≤ 1) (ip : IP)
    {ord : MapOrder} (hord : IsMapOrder ord) : sp.ReleaseIP ip ord = sp.ReleaseIP ip id := by
  simp only [SubnetPool.ReleaseIP, rangeMap_single h hord]

theorem SingleSubnet_get {p : TopologyAwarePool} (hs : p.SingleSubnet = true) {tor : String}
    {sp : SubnetPool} (hg : mapGet p.subnetPools tor = some sp) : sp.Subnets.length ≤ 1 := by
  unfold TopologyAwarePool.SingleSubnet at hs
  rw [List.all_eq_true] at hs
  have := hs (tor, sp) (mapGet_some_mem hg)
  exact of_decide_eq_true this

theorem AllocateIPForNode_single {p : TopologyAwarePool} (hs : p.SingleSubnet = true)
    (nodeID purpose : String) {ord₁ ord₂ : MapOrder} (h₁ : IsMapOrder ord₁)
    (h₂ : IsMapOrder ord₂) :
    p.AllocateIPForNodeWithPurpose nodeID purpose ord₁ ord₂ =
      p.AllocateIPForNodeWithPurpose nodeID purpose id id := by
  rcases GetNodeTOR_cases p.topology nodeID with ⟨e0, hn⟩ | ⟨tor, hn⟩
  · simp only [TopologyAwarePool.AllocateIPForNodeWithPurpose, hn]
  · cases hg : mapGet p.subnetPools tor.ID with
    | none => simp only [TopologyAwarePool.AllocateIPForNodeWithPurpose, hn, hg]
    | some sp =>
      simp only [TopologyAwarePool.AllocateIPForNodeWithPurpose, hn, hg,
        AllocateIP_single (SingleSubnet_get hs hg) nodeID purpose h₁ h₂]

theorem ReleaseIPForNode_single {p : TopologyAwarePool} (hs : p.SingleSubnet = true)
    (nodeID : String) (ip : IP) {ord : MapOrder} (hord : IsMapOrder ord) :
    p.ReleaseIPForNode nodeID ip ord = p.ReleaseIPForNode nodeID ip id := by
  rcases GetNodeTOR_cases p.topology nodeID with ⟨e0, hn⟩ | ⟨tor, hn⟩
  · simp only [TopologyAwarePool.ReleaseIPForNode, hn]
  · cases hg : mapGet p.subnetPools tor.ID with
    | none => simp only [TopologyAwarePool.ReleaseIPForNode, hn, hg]
    | some sp =>
      simp only [TopologyAwarePool.ReleaseIPForNode, hn, hg,
        ReleaseIP_single (SingleSubnet_get hs hg) ip hord]

/-- With at most one subnet in every subnet pool, `Apply` does not depend on the visiting
orders. -/
theorem Apply_single {f : TopologyFSM} (hs : f.pool.SingleSubnet = true)
    (log : Option TopologyCommand) {ord₁ ord₂ : MapOrder} (h₁ : IsMapOrder ord₁)
    (h₂ : IsMapOrder ord₂) : f.Apply log ord₁ ord₂ = f.Apply log id id := by
  cases log with
  | none => rfl
  | some cmd =>
    have ha : f.applyAllocateIP cmd ord₁ ord₂ = f.applyAllocateIP cmd id id := by
      cases hd : cmd.Data.asAllocateIP with
      | none => simp only [TopologyFSM.applyAllocateIP, hd]
      | some data =>
        simp only [TopologyFSM.applyAllocateIP, hd,
          AllocateIPForNode_single hs data.NodeID
            (if data.Purpose = "" then "default" else data.Purpose) h₁ h₂]
    have hr : f.applyReleaseIP cmd ord₁ = f.applyReleaseIP cmd id := by
      cases hd : cmd.Data.asReleaseIP with
      | none => simp only [TopologyFSM.applyReleaseIP, hd]
      | some data =>
        simp only [TopologyFSM.applyReleaseIP, hd,
          ReleaseIPForNode_single hs data.NodeID (ParseIP data.IP) h₁]
    simp only [TopologyFSM.Apply, ha, hr]

/-- A replay along which every subnet pool holds at most one subnet does not depend on the
visiting orders. -/
theorem applyLog_single (ord : Nat → MapOrder × MapOrder)
    (hord : ∀ i, IsMapOrder (ord i).1 ∧ IsMapOrder (ord i).2)
    (entries : List (Option TopologyCommand)) :
    ∀ (i : Nat) (f : TopologyFSM), TopologyFSM.singleAlong entries f = true →
      TopologyFSM.applyLog ord entries i f =
        TopologyFSM.applyLog (fun _ => (id, id)) entries i f := by
  induction entries with
  | nil => intro i f _; rfl
  | cons e rest ih =>
    intro i f hs
    simp only [TopologyFSM.singleAlong, Bool.and_eq_true] at hs
    obtain ⟨hs1, hs2⟩ := hs
    have hA := Apply_single hs1 e (hord i).1 (hord i).2
    cases hr : f.Apply e id id with
    | none =>
      simp only [TopologyFSM.applyLog, hA, hr]
    | some res =>
      obtain ⟨g, r⟩ := res
      rw [hr] at hs2
      simp only [TopologyFSM.applyLog, hA, hr, ih (i + 1) g hs2]

/-- In a pool with a single IPv4 subnet, the `AllocateIP` that follows a successful
`ReleaseIP` returns the lowest free address of the subnet, which is at most the released
one. -/
theorem lowest_after_release {sp : SubnetPool} (hg : sp.Good) (ha : sp.AllocGood)
    {key : CIDRString} {S : Subnet} (hsingle : sp.Subnets = [(key, S)])
    (hv4 : S.CIDR.bits = 32) (ip : IP) (ord : MapOrder)
    (hok : (sp.ReleaseIP ip ord).2 = none) (nodeID purpose : String)
    (hp : purpose = "" ∨ S.Purpose = purpose ∨ S.Purpose = "default")
    (ord₁ ord₂ : MapOrder) (h₁ : IsMapOrder ord₁) (h₂ : IsMapOrder ord₂) :
    ∃ (a q : Nat) (S' : Subnet), ip = IP.v4 a ∧
      (sp.ReleaseIP ip ord).1.Subnets = [(key, S')] ∧
      ((sp.ReleaseIP ip ord).1.AllocateIP nodeID purpose ord₁ ord₂).2 =
        Except.ok (IP.v4 (S.CIDR.addr + 1 + q), key) ∧
      S.CIDR.addr + 1 + q ≤ a ∧ S'.bitmap.IsSet (q : Int) = false ∧
      ∀ q' : Nat, q' < q → S'.bitmap.IsSet (q' : Int) = true := by
  have hgood' : (sp.step (SubnetOp.releaseIP ip ord)).Good := Good_step hg _
  have hgood'' : (sp.ReleaseIP ip ord).1.Good := hgood'
  have hS : mapGet sp.Subnets key = some S := by rw [hsingle]; simp [mapGet]
  rcases ReleaseIP_outcomes hg ha ip ord with ⟨_, hres⟩ | ⟨_, _, _, _, hres⟩ |
    ⟨key0, S0, hf, hrec, hclr, hres⟩
  · rw [hres] at hok; exact Option.noConfusion hok
  · rw [hres] at hok; exact Option.noConfusion hok
  · have hS0 : mapGet sp.Subnets key0 = some S0 := rangeMap_mem (List.mem_of_find?_eq_some hf)
    have hin0 : S0.CIDR.Contains ip = true :=
      List.find?_some (p := fun (e : CIDRString × Subnet) => e.2.CIDR.Contains ip) hf
    have hk : key0 = key := by
      by_contra hc
      rw [hsingle] at hS0
      simp only [mapGet] at hS0
      rw [if_neg (fun hh => hc hh.symm)] at hS0
      exact Option.noConfusion hS0
    subst hk
    have hSS : S0 = S := by
      rw [hS] at hS0
      exact (Option.some.inj hS0).symm
    subst hSS
    obtain ⟨hwf, hu, _⟩ := hg key0 S0 hS
    have hok0 := ha key0 S0 hS
    obtain ⟨q0, hq0, hq0s, hbit0⟩ := hok0.recorded ip hrec hin0
    have h4 : S0.CIDR.To4 ≠ none := by
      intro hn
      simp only [ipToPosition, hn] at hq0
      omega
    obtain ⟨a, hipa, halt⟩ := Contains_To4 hin0 h4
    subst hipa
    have hbw := asBlock_WF hwf hv4
    have hpos : Ipam.ipToPosition S0.CIDR (IP.v4 a) = (a : Int) - S0.CIDR.addr - 1 :=
      ipToPosition_WF hbw a hin0
    have hsub' : (sp.ReleaseIP (IP.v4 a) ord).1.Subnets =
        [(key0, Subnet.mk S0.CIDR S0.Purpose S0.Capacity (S0.Used - 1)
          (mapDel S0.Allocations (IP.v4 a))
          (S0.bitmap.Clear (ipToPosition S0.CIDR (IP.v4 a))).1)] := by
      rw [hres]
      show mapPut sp.Subnets key0 _ = _
      rw [hsingle]
      simp [mapPut]
    have hS' : mapGet (sp.ReleaseIP (IP.v4 a) ord).1.Subnets key0 =
        some (Subnet.mk S0.CIDR S0.Purpose S0.Capacity (S0.Used - 1)
          (mapDel S0.Allocations (IP.v4 a))
          (S0.bitmap.Clear (ipToPosition S0.CIDR (IP.v4 a))).1) := by
      rw [hsub']; simp [mapGet]
    obtain ⟨hwf', hu', _⟩ := hgood'' key0 _ hS'
    have hle := popcount_le S0.bitmap
    have hcnt := hwf.bm.count
    have hnn := hwf.bm.nonneg
    have hsz := hwf.size
    have hfree : (Subnet.mk S0.CIDR S0.Purpose S0.Capacity (S0.Used - 1)
        (mapDel S0.Allocations (IP.v4 a))
        (S0.bitmap.Clear (ipToPosition S0.CIDR (IP.v4 a))).1).Capacity -
        (Subnet.mk S0.CIDR S0.Purpose S0.Capacity (S0.Used - 1)
          (mapDel S0.Allocations (IP.v4 a))
          (S0.bitmap.Clear (ipToPosition S0.CIDR (IP.v4 a))).1).Used > 0 := by
      show S0.Capacity - (S0.Used - 1) > 0
      omega
    have hlen : (sp.ReleaseIP (IP.v4 a) ord).1.Subnets.length ≤ 1 := by rw [hsub']; simp
    have hrm : ∀ o, IsMapOrder o → rangeMap (sp.ReleaseIP (IP.v4 a) ord).1.Subnets o =
        [(key0, Subnet.mk S0.CIDR S0.Purpose S0.Capacity (S0.Used - 1)
          (mapDel S0.Allocations (IP.v4 a))
          (S0.bitmap.Clear (ipToPosition S0.CIDR (IP.v4 a))).1)] := by
      intro o ho
      rw [rangeMap_single hlen ho, hsub']
      simp [rangeMap, mapGet]
    have hfree' : S0.Capacity - (S0.Used - 1) > 0 := hfree
    have htarget : (sp.ReleaseIP (IP.v4 a) ord).1.pickTarget purpose ord₁ ord₂ =
        some (key0, Subnet.mk S0.CIDR S0.Purpose S0.Capacity (S0.Used - 1)
          (mapDel S0.Allocations (IP.v4 a))
          (S0.bitmap.Clear (ipToPosition S0.CIDR (IP.v4 a))).1) := by
      unfold SubnetPool.pickTarget SubnetPool.pickByPurpose SubnetPool.pickDefault
      rw [hrm ord₁ h₁, hrm ord₂ h₂]
      by_cases hm : purpose = "" ∨ S0.Purpose = purpose
      · have hpred : (!(decide (purpose ≠ "") && decide (S0.Purpose ≠ purpose)) &&
            decide (S0.Capacity - (S0.Used - 1) > 0)) = true := by
          rcases hm with h | h
          · simp [h, hfree']
          · simp [h, hfree']
        simp only [List.find?, hpred]
      · have hd : S0.Purpose = "default" := by
          rcases hp with h | h | h
          · exact absurd (Or.inl h) hm
          · exact absurd (Or.inr h) hm
          · exact h
        have hne : purpose ≠ "default" := by
          intro hc
          exact hm (Or.inr (by rw [hd, hc]))
        have hpred : (!(decide (purpose ≠ "") && decide (S0.Purpose ≠ purpose)) &&
            decide (S0.Capacity - (S0.Used - 1) > 0)) = false := by
          have h1 : purpose ≠ "" := fun h => hm (Or.inl h)
          have h2 : S0.Purpose ≠ purpose := fun h => hm (Or.inr h)
          simp [h1, h2]
        have hpred2 : (decide (S0.Purpose = "default") &&
            decide (S0.Capacity - (S0.Used - 1) > 0)) = true := by
          simp [hd, hfree']
        simp only [List.find?, hpred, hpred2, hne, ne_eq, not_false_eq_true, if_true]
    obtain ⟨hne1, hset⟩ := free_position hwf' hu' hfree
    rcases AllocateIP_form (sp.ReleaseIP (IP.v4 a) ord).1 nodeID purpose ord₁ ord₂ with
      ⟨e, _, hnone | ⟨k2, S2, hp2, hbad⟩⟩ | ⟨k2, S2, hp2, _, _, hres2⟩
    · rw [htarget] at hnone; exact Option.noConfusion hnone
    · exfalso
      rw [htarget] at hp2
      obtain ⟨_, hS2⟩ := Prod.mk.inj (Option.some.inj hp2)
      subst hS2
      rcases hbad with hb | hb
      · exact hne1 hb
      · exact hb hset
    · rw [htarget] at hp2
      obtain ⟨hk2, hS2⟩ := Prod.mk.inj (Option.some.inj hp2)
      subst hk2; subst hS2
      rcases FindFirstZero_spec _ hwf'.bm with ⟨hr1, _⟩ | ⟨q, hq, hqS, hun, hbelow⟩
      · exact absurd hr1 hne1
      · have hqC : (q : Int) < S0.Capacity := by
          have := hwf'.size
          have this' : (S0.bitmap.Clear (ipToPosition S0.CIDR (IP.v4 a))).1.size =
            S0.Capacity := this
          rw [← this']
          exact hqS
        have hpip := positionToIP_WF hbw q hqC
        have hpip' : positionToIP S0.CIDR (q : Int) = IP.v4 (S0.CIDR.addr + q + 1) := hpip
        obtain ⟨hunset, _, _⟩ :=
          (Clear_contract_WF S0.bitmap hwf.bm (ipToPosition S0.CIDR (IP.v4 a))).2.2 hclr
        rw [hq0] at hunset
        have hqle : q ≤ q0 := by
          by_contra hc
          have := hbelow q0 (by omega)
          have this' : (S0.bitmap.Clear (ipToPosition S0.CIDR (IP.v4 a))).1.IsSet (q0 : Int) =
            true := this
          rw [hq0] at this'
          rw [hunset] at this'
          exact Bool.noConfusion this'
        refine ⟨a, q, _, rfl, hsub', ?_, ?_, hun, hbelow⟩
        · rw [hres2]
          show Except.ok (positionToIP S0.CIDR
            (S0.bitmap.Clear (ipToPosition S0.CIDR (IP.v4 a))).1.FindFirstZero, key0) = _
          have hq' : (S0.bitmap.Clear (ipToPosition S0.CIDR (IP.v4 a))).1.FindFirstZero =
            (q : Int) := hq
          rw [hq', hpip']
          have e1 : S0.CIDR.addr + q + 1 = S0.CIDR.addr + 1 + q := by omega
          rw [e1]
        · rw [hpos] at hq0
          omega

/-- The replay of the scenario in the stored order. -/
theorem replay_stored_order :
    TopologyFSM.applyLog (fun _ => (id, id))
      [some (TopologyCommand.mk "init_topology" (RawMessage.ofInitTopology
          ⟨some ⟨[⟨"zone-a", "Zone A", [], [⟨"pod-1", "Pod 1", [],
            [⟨"tor-1", "TOR 1", "R01", [⟨CIDRString.v4 183762944 24, "default"⟩]⟩]⟩]⟩]⟩⟩)),
        some (TopologyCommand.mk "register_node"
          (RawMessage.ofRegisterNode ⟨"n1", "node-1", "tor-1", []⟩)),
        some (TopologyCommand.mk "allocate_ip" (RawMessage.ofAllocateIP ⟨"n1", "default"⟩)),
        some (TopologyCommand.mk "allocate_ip" (RawMessage.ofAllocateIP ⟨"n1", "default"⟩)),
        some (TopologyCommand.mk "allocate_ip" (RawMessage.ofAllocateIP ⟨"n1", "default"⟩)),
        some (TopologyCommand.mk "allocate_ip" (RawMessage.ofAllocateIP ⟨"n1", "default"⟩)),
        some (TopologyCommand.mk "allocate_ip" (RawMessage.ofAllocateIP ⟨"n1", "default"⟩)),
        some (TopologyCommand.mk "release_ip"
          (RawMessage.ofReleaseIP ⟨"n1", IPString.v4 183762947⟩)),
        some (TopologyCommand.mk "allocate_ip" (RawMessage.ofAllocateIP ⟨"n1", "default"⟩))]
      0 (NewTopologyFSM (NewTopologyAwarePool (CIDRString.v4 183762944 16))) =
      some (TopologyFSM.mk (TopologyAwarePool.mk (CIDRString.v4 183762944 16)
          (Topology.mk [("zone-a", Zone.mk "zone-a" "Zone A" [] ["pod-1"])]
            [("pod-1", Pod.mk "pod-1" "Pod 1" "zone-a" [] ["tor-1"])]
            [("tor-1", TOR.mk "tor-1" "TOR 1" "pod-1" "R01" [CIDRString.v4 183762944 24]
              ["n1"])]
            [("n1", Node.mk "n1" "node-1" "tor-1" [])])
          [("tor-1", SubnetPool.mk "tor-1" [(CIDRString.v4 183762944 24,
            Subnet.mk ⟨183762944, 24, 32⟩ "default" 254 5
              [(IP.v4 183762945, IPAllocation.mk (IP.v4 183762945) "n1" "" "" ""),
               (IP.v4 183762946, IPAllocation.mk (IP.v4 183762946) "n1" "" "" ""),
               (IP.v4 183762948, IPAllocation.mk (IP.v4 183762948) "n1" "" "" ""),
               (IP.v4 183762949, IPAllocation.mk (IP.v4 183762949) "n1" "" "" ""),
               (IP.v4 183762947, IPAllocation.mk (IP.v4 183762947) "n1" "" "" "")]
              (Bitmap.mk [31, 0, 0, 0] 254 5))])]),
        [FSMResponse.mk true none (ResponseData.topology 1 1 1 1),
         FSMResponse.mk true none (ResponseData.node "n1" "node-1" "tor-1"),
         FSMResponse.mk true none (ResponseData.allocation (IP.v4 183762945)
           (CIDRString.v4 183762944 24) "n1" "default"),
         FSMResponse.mk true none (ResponseData.allocation (IP.v4 183762946)
           (CIDRString.v4 183762944 24) "n1" "default"),
         FSMResponse.mk true none (ResponseData.allocation (IP.v4 183762947)
           (CIDRString.v4 183762944 24) "n1" "default"),
         FSMResponse.mk true none (ResponseData.allocation (IP.v4 183762948)
           (CIDRString.v4 183762944 24) "n1" "default"),
         FSMResponse.mk true none (ResponseData.allocation (IP.v4 183762949)
           (CIDRString.v4 183762944 24) "n1" "default"),
         FSMResponse.mk true none (ResponseData.release (IPString.v4 183762947) "n1"),
         FSMResponse.mk true none (ResponseData.allocation (IP.v4 183762947)
           (CIDRString.v4 183762944 24) "n1" "default")]) := by
  decide

theorem replay_single :
    TopologyFSM.singleAlong
      [some (TopologyCommand.mk "init_topology" (RawMessage.ofInitTopology
          ⟨some ⟨[⟨"zone-a", "Zone A", [], [⟨"pod-1", "Pod 1", [],
            [⟨"tor-1", "TOR 1", "R01", [⟨CIDRString.v4 183762944 24, "default"⟩]⟩]⟩]⟩]⟩⟩)),
        some (TopologyCommand.mk "register_node"
          (RawMessage.ofRegisterNode ⟨"n1", "node-1", "tor-1", []⟩)),
        some (TopologyCommand.mk "allocate_ip" (RawMessage.ofAllocateIP ⟨"n1", "default"⟩)),
        some (TopologyCommand.mk "allocate_ip" (RawMessage.ofAllocateIP ⟨"n1", "default"⟩)),
        some (TopologyCommand.mk "allocate_ip" (RawMessage.ofAllocateIP ⟨"n1", "default"⟩)),
        some (TopologyCommand.mk "allocate_ip" (RawMessage.ofAllocateIP ⟨"n1", "default"⟩)),
        some (TopologyCommand.mk "allocate_ip" (RawMessage.ofAllocateIP ⟨"n1", "default"⟩)),
        some (TopologyCommand.mk "release_ip"
          (RawMessage.ofReleaseIP ⟨"n1", IPString.v4 183762947⟩)),
        some (TopologyCommand.mk "allocate_ip" (RawMessage.ofAllocateIP ⟨"n1", "default"⟩))]
      (NewTopologyFSM (NewTopologyAwarePool (CIDRString.v4 183762944 16))) = true := by
  decide

theorem replay_allocation_set (ip : IP) :
    (mapGet [(IP.v4 183762945, IPAllocation.mk (IP.v4 183762945) "n1" "" "" ""),
        (IP.v4 183762946, IPAllocation.mk (IP.v4 183762946) "n1" "" "" ""),
        (IP.v4 183762948, IPAllocation.mk (IP.v4 183762948) "n1" "" "" ""),
        (IP.v4 183762949, IPAllocation.mk (IP.v4 183762949) "n1" "" "" ""),
        (IP.v4 183762947, IPAllocation.mk (IP.v4 183762947) "n1" "" "" "")] ip).isSome = true ↔
      ip ∈ [IP.v4 183762945, IP.v4 183762946, IP.v4 183762947, IP.v4 183762948,
        IP.v4 183762949] := by
  simp only [mapGet, List.mem_cons, List.mem_singleton, List.mem_nil_iff, or_false]
  constructor
  · intro h
    by_cases h1 : IP.v4 183762945 = ip
    · exact Or.inl h1.symm
    · by_cases h2 : IP.v4 183762946 = ip
      · exact Or.inr (Or.inl h2.symm)
      · by_cases h3 : IP.v4 183762948 = ip
        · exact Or.inr (Or.inr (Or.inr (Or.inl h3.symm)))
        · by_cases h4 : IP.v4 183762949 = ip
          · exact Or.inr (Or.inr (Or.inr (Or.inr h4.symm)))
          · by_cases h5 : IP.v4 183762947 = ip
            · exact Or.inr (Or.inr (Or.inl h5.symm))
            · rw [if_neg h1, if_neg h2, if_neg h3, if_neg h4, if_neg h5] at h
              exact Bool.noConfusion h
  · intro h
    rcases h with rfl | rfl | rfl | rfl | rfl <;> decide

/-- C27: the replay scenario.  Applied in order to the state machine over a fresh pool,
with any visiting orders, the commands `init_topology` (zone `zone-a`, pod `pod-1`, TOR
`tor-1` with the single `default` subnet `10.244.0.0/24`), `register_node` (`n1` on
`tor-1`), five times `allocate_ip` (`n1`, `default`), `release_ip` (`n1`, `10.244.0.3`) and
one more `allocate_ip` all return `Success = true`; the five allocations return
`10.244.0.1` to `10.244.0.5` in order and the last one `10.244.0.3`; in the final state the
subnet has `Used = 5` and a recorded allocation exactly for `10.244.0.1` to `10.244.0.5`.
More generally, in every reachable subnet pool with a single IPv4 subnet, the `AllocateIP`
(for the subnet's purpose, an empty purpose, or any purpose if the subnet is `default`)
that follows a successful `ReleaseIP` returns the lowest free address of the subnet: its
position is free after the release, every lower position is allocated, and it is at most
the released address. -/
theorem C27_replay_scenario (ord : Nat → MapOrder × MapOrder)
    (hord : ∀ i, IsMapOrder (ord i).1 ∧ IsMapOrder (ord i).2) (torID : String)
    (sp : SubnetPool) (hr : SubnetPool.ReachableFrom torID sp) (key : CIDRString) (S : Subnet)
    (hsingle : sp.Subnets = [(key, S)]) (hv4 : S.CIDR.bits = 32) (ip : IP) (o : MapOrder)
    (hok : (sp.ReleaseIP ip o).2 = none) (nodeID purpose : String)
    (hp : purpose = "" ∨ S.Purpose = purpose ∨ S.Purpose = "default")
    (ord₁ ord₂ : MapOrder) (h₁ : IsMapOrder ord₁) (h₂ : IsMapOrder ord₂) :
    TopologyFSM.applyLog ord
      [some (TopologyCommand.mk "init_topology" (RawMessage.ofInitTopology
          ⟨some ⟨[⟨"zone-a", "Zone A", [], [⟨"pod-1", "Pod 1", [],
            [⟨"tor-1", "TOR 1", "R01", [⟨CIDRString.v4 183762944 24, "default"⟩]⟩]⟩]⟩]⟩⟩)),
        some (TopologyCommand.mk "register_node"
          (RawMessage.ofRegisterNode ⟨"n1", "node-1", "tor-1", []⟩)),
        some (TopologyCommand.mk "allocate_ip" (RawMessage.ofAllocateIP ⟨"n1", "default"⟩)),
        some (TopologyCommand.mk "allocate_ip" (RawMessage.ofAllocateIP ⟨"n1", "default"⟩)),
        some (TopologyCommand.mk "allocate_ip" (RawMessage.ofAllocateIP ⟨"n1", "default"⟩)),
        some (TopologyCommand.mk "allocate_ip" (RawMessage.ofAllocateIP ⟨"n1", "default"⟩)),
        some (TopologyCommand.mk "allocate_ip" (RawMessage.ofAllocateIP ⟨"n1", "default"⟩)),
        some (TopologyCommand.mk "release_ip"
          (RawMessage.ofReleaseIP ⟨"n1", IPString.v4 183762947⟩)),
        some (TopologyCommand.mk "allocate_ip" (RawMessage.ofAllocateIP ⟨"n1", "default"⟩))]
      0 (NewTopologyFSM (NewTopologyAwarePool (CIDRString.v4 183762944 16))) =
      some (TopologyFSM.mk (TopologyAwarePool.mk (CIDRString.v4 183762944 16)
          (Topology.mk [("zone-a", Zone.mk "zone-a" "Zone A" [] ["pod-1"])]
            [("pod-1", Pod.mk "pod-1" "Pod 1" "zone-a" [] ["tor-1"])]
            [("tor-1", TOR.mk "tor-1" "TOR 1" "pod-1" "R01" [CIDRString.v4 183762944 24]
              ["n1"])]
            [("n1", Node.mk "n1" "node-1" "tor-1" [])])
          [("tor-1", SubnetPool.mk "tor-1" [(CIDRString.v4 183762944 24,
            Subnet.mk ⟨183762944, 24, 32⟩ "default" 254 5
              [(IP.v4 183762945, IPAllocation.mk (IP.v4 183762945) "n1" "" "" ""),
               (IP.v4 183762946, IPAllocation.mk (IP.v4 183762946) "n1" "" "" ""),
               (IP.v4 183762948, IPAllocation.mk (IP.v4 183762948) "n1" "" "" ""),
               (IP.v4 183762949, IPAllocation.mk (IP.v4 183762949) "n1" "" "" ""),
               (IP.v4 183762947, IPAllocation.mk (IP.v4 183762947) "n1" "" "" "")]
              (Bitmap.mk [31, 0, 0, 0] 254 5))])]),
        [FSMResponse.mk true none (ResponseData.topology 1 1 1 1),
         FSMResponse.mk true none (ResponseData.node "n1" "node-1" "tor-1"),
         FSMResponse.mk true none (ResponseData.allocation (IP.v4 183762945)
           (CIDRString.v4 183762944 24) "n1" "default"),
         FSMResponse.mk true none (ResponseData.allocation (IP.v4 183762946)
           (CIDRString.v4 183762944 24) "n1" "default"),
         FSMResponse.mk true none (ResponseData.allocation (IP.v4 183762947)
           (CIDRString.v4 183762944 24) "n1" "default"),
         FSMResponse.mk true none (ResponseData.allocation (IP.v4 183762948)
           (CIDRString.v4 183762944 24) "n1" "default"),
         FSMResponse.mk true none (ResponseData.allocation (IP.v4 183762949)
           (CIDRString.v4 183762944 24) "n1" "default"),
         FSMResponse.mk true none (ResponseData.release (IPString.v4 183762947) "n1"),
         FSMResponse.mk true none (ResponseData.allocation (IP.v4 183762947)
           (CIDRString.v4 183762944 24) "n1" "default")]) ∧
    (∀ x : IP,
      (mapGet [(IP.v4 183762945, IPAllocation.mk (IP.v4 183762945) "n1" "" "" ""),
        (IP.v4 183762946, IPAllocation.mk (IP.v4 183762946) "n1" "" "" ""),
        (IP.v4 183762948, IPAllocation.mk (IP.v4 183762948) "n1" "" "" ""),
        (IP.v4 183762949, IPAllocation.mk (IP.v4 183762949) "n1" "" "" ""),
        (IP.v4 183762947, IPAllocation.mk (IP.v4 183762947) "n1" "" "" "")] x).isSome = true ↔
      x ∈ [IP.v4 183762945, IP.v4 183762946, IP.v4 183762947, IP.v4 183762948,
        IP.v4 183762949]) ∧
    ∃ (a q : Nat) (S' : Subnet), ip = IP.v4 a ∧
      (sp.ReleaseIP ip o).1.Subnets = [(key, S')] ∧
      ((sp.ReleaseIP ip o).1.AllocateIP nodeID purpose ord₁ ord₂).2 =
        Except.ok (IP.v4 (S.CIDR.addr + 1 + q), key) ∧
      S.CIDR.addr + 1 + q ≤ a ∧ S'.bitmap.IsSet (q : Int) = false ∧
      ∀ q' : Nat, q' < q → S'.bitmap.IsSet (q' : Int) = true := by
  refine ⟨?_, replay_allocation_set, ?_⟩
  · rw [applyLog_single ord hord _ 0 _ replay_single]
    exact replay_stored_order
  · exact lowest_after_release (Good_Reachable hr).1 (AllocGood_Reachable hr) hsingle hv4 ip o
      hok nodeID purpose hp ord₁ ord₂ h₁ h₂

/-- C27, instance: the scenario replayed with every loop visiting the subnet map in the
reverse order, and the pool with the single subnet `10.244.0.0/24` holding `10.244.0.1`
and `10.244.0.2`, from which `10.244.0.1` is released. -/
theorem C27_replay_scenario_witness :
    TopologyFSM.applyLog (fun _ => (List.reverse, List.reverse))
      [some (TopologyCommand.mk "init_topology" (RawMessage.ofInitTopology
          ⟨some ⟨[⟨"zone-a", "Zone A", [], [⟨"pod-1", "Pod 1", [],
            [⟨"tor-1", "TOR 1", "R01", [⟨CIDRString.v4 183762944 24, "default"⟩]⟩]⟩]⟩]⟩⟩)),
        some (TopologyCommand.mk "register_node"
          (RawMessage.ofRegisterNode ⟨"n1", "node-1", "tor-1", []⟩)),
        some (TopologyCommand.mk "allocate_ip" (RawMessage.ofAllocateIP ⟨"n1", "default"⟩)),
        some (TopologyCommand.mk "allocate_ip" (RawMessage.ofAllocateIP ⟨"n1", "default"⟩)),
        some (TopologyCommand.mk "allocate_ip" (RawMessage.ofAllocateIP ⟨"n1", "default"⟩)),
        some (TopologyCommand.mk "allocate_ip" (RawMessage.ofAllocateIP ⟨"n1", "default"⟩)),
        some (TopologyCommand.mk "allocate_ip" (RawMessage.ofAllocateIP ⟨"n1", "default"⟩)),
        some (TopologyCommand.mk "release_ip"
          (RawMessage.ofReleaseIP ⟨"n1", IPString.v4 183762947⟩)),
        some (TopologyCommand.mk "allocate_ip" (RawMessage.ofAllocateIP ⟨"n1", "default"⟩))]
      0 (NewTopologyFSM (NewTopologyAwarePool (CIDRString.v4 183762944 16))) =
      some (TopologyFSM.mk (TopologyAwarePool.mk (CIDRString.v4 183762944 16)
          (Topology.mk [("zone-a", Zone.mk "zone-a" "Zone A" [] ["pod-1"])]
            [("pod-1", Pod.mk "pod-1" "Pod 1" "zone-a" [] ["tor-1"])]
            [("tor-1", TOR.mk "tor-1" "TOR 1" "pod-1" "R01" [CIDRString.v4 183762944 24]
              ["n1"])]
            [("n1", Node.mk "n1" "node-1" "tor-1" [])])
          [("tor-1", SubnetPool.mk "tor-1" [(CIDRString.v4 183762944 24,
            Subnet.mk ⟨183762944, 24, 32⟩ "default" 254 5
              [(IP.v4 183762945, IPAllocation.mk (IP.v4 183762945) "n1" "" "" ""),
               (IP.v4 183762946, IPAllocation.mk (IP.v4 183762946) "n1" "" "" ""),
               (IP.v4 183762948, IPAllocation.mk (IP.v4 183762948) "n1" "" "" ""),
               (IP.v4 183762949, IPAllocation.mk (IP.v4 183762949) "n1" "" "" ""),
               (IP.v4 183762947, IPAllocation.mk (IP.v4 183762947) "n1" "" "" "")]
              (Bitmap.mk [31, 0, 0, 0] 254 5))])]),
        [FSMResponse.mk true none (ResponseData.topology 1 1 1 1),
         FSMResponse.mk true none (ResponseData.node "n1" "node-1" "tor-1"),
         FSMResponse.mk true none (ResponseData.allocation (IP.v4 183762945)
           (CIDRString.v4 183762944 24) "n1" "default"),
         FSMResponse.mk true none (ResponseData.allocation (IP.v4 183762946)
           (CIDRString.v4 183762944 24) "n1" "default"),
         FSMResponse.mk true none (ResponseData.allocation (IP.v4 183762947)
           (CIDRString.v4 183762944 24) "n1" "default"),
         FSMResponse.mk true none (ResponseData.allocation (IP.v4 183762948)
           (CIDRString.v4 183762944 24) "n1" "default"),
         FSMResponse.mk true none (ResponseData.allocation (IP.v4 183762949)
           (CIDRString.v4 183762944 24) "n1" "default"),
         FSMResponse.mk true none (ResponseData.release (IPString.v4 183762947) "n1"),
         FSMResponse.mk true none (ResponseData.allocation (IP.v4 183762947)
           (CIDRString.v4 183762944 24) "n1" "default")]) ∧
    ∃ (a q : Nat) (S' : Subnet), IP.v4 183762945 = IP.v4 a ∧
      ((SubnetPool.mk "tor-1" [(CIDRString.v4 183762944 24,
        Subnet.mk ⟨183762944, 24, 32⟩ "default" 254 2
          [(IP.v4 183762945, IPAllocation.mk (IP.v4 183762945) "n1" "" "" ""),
           (IP.v4 183762946, IPAllocation.mk (IP.v4 183762946) "n1" "" "" "")]
          (Bitmap.mk [3, 0, 0, 0] 254 2))]).ReleaseIP (IP.v4 183762945) id).1.Subnets = [(CIDRString.v4 183762944 24, S')] ∧
      (((SubnetPool.mk "tor-1" [(CIDRString.v4 183762944 24,
        Subnet.mk ⟨183762944, 24, 32⟩ "default" 254 2
          [(IP.v4 183762945, IPAllocation.mk (IP.v4 183762945) "n1" "" "" ""),
           (IP.v4 183762946, IPAllocation.mk (IP.v4 183762946) "n1" "" "" "")]
          (Bitmap.mk [3, 0, 0, 0] 254 2))]).ReleaseIP (IP.v4 183762945) id).1.AllocateIP "n1" "default" id id).2 =
        Except.ok (IP.v4 (183762944 + 1 + q), CIDRString.v4 183762944 24) ∧
      183762944 + 1 + q ≤ a ∧ S'.bitmap.IsSet (q : Int) = false ∧
      ∀ q' : Nat, q' < q → S'.bitmap.IsSet (q' : Int) = true := by
  have hvalid : ∀ op ∈ [SubnetOp.addSubnet (CIDRString.v4 183762944 24) "default",
      SubnetOp.allocateIP "n1" "default" id id,
      SubnetOp.allocateIP "n1" "default" id id], op.Valid := by
    intro op hop
    simp only [List.mem_cons, List.mem_singleton, List.mem_nil_iff, or_false] at hop
    rcases hop with rfl | rfl | rfl
    · exact trivial
    · exact ⟨IsMapOrder_id, IsMapOrder_id⟩
    · exact ⟨IsMapOrder_id, IsMapOrder_id⟩
  have h := C27_replay_scenario (fun _ => (List.reverse, List.reverse))
    (fun _ => ⟨IsMapOrder_reverse, IsMapOrder_reverse⟩) "tor-1" (SubnetPool.mk "tor-1" [(CIDRString.v4 183762944 24,
        Subnet.mk ⟨183762944, 24, 32⟩ "default" 254 2
          [(IP.v4 183762945, IPAllocation.mk (IP.v4 183762945) "n1" "" "" ""),
           (IP.v4 183762946, IPAllocation.mk (IP.v4 183762946) "n1" "" "" "")]
          (Bitmap.mk [3, 0, 0, 0] 254 2))]) ⟨_, hvalid, by decide⟩
    (CIDRString.v4 183762944 24) (Subnet.mk ⟨183762944, 24, 32⟩ "default" 254 2
          [(IP.v4 183762945, IPAllocation.mk (IP.v4 183762945) "n1" "" "" ""),
           (IP.v4 183762946, IPAllocation.mk (IP.v4 183762946) "n1" "" "" "")]
          (Bitmap.mk [3, 0, 0, 0] 254 2)) rfl rfl (IP.v4 183762945) id (by decide) "n1" "default"
    (Or.inr (Or.inl rfl)) id id IsMapOrder_id IsMapOrder_id
  exact ⟨h.1, h.2.2⟩

end ReplayProofs

/-! ## Exhaustion of the flat pool (C31) -/

section ExhaustionProofs

/-- The search loop reads the pool only through its block size and its allocated map. -/
theorem findLoop_congr {p p' : Pool} (hb : p'.blockSize = p.blockSize)
    (ha : p'.allocatedBlocks = p.allocatedBlocks) (base B : Nat) :
    ∀ fuel i, Pool.findLoop p' base B fuel i = Pool.findLoop p base B fuel i := by
  intro fuel
  induction fuel with
  | zero => intro i; rfl
  | succ fuel ih =>
    intro i
    unfold Pool.findLoop
    simp only [Pool.blockCIDRString, hb, ha, ih]

/-- The search for a free block reads the pool only through its cluster network, its block
size and its allocated map. -/
theorem findAvailableBlock_congr (p p' : Pool) (hc : p'.clusterCIDR = p.clusterCIDR)
    (hb : p'.blockSize = p.blockSize) (ha : p'.allocatedBlocks = p.allocatedBlocks) :
    p'.findAvailableBlock = p.findAvailableBlock := by
  unfold Pool.findAvailableBlock
  rw [hc, hb]
  cases p.clusterCIDR.To4 with
  | none => rfl
  | some baseAddr => exact findLoop_congr hb ha _ _ _ _

/-- An `AllocateBlockForNode` that reports exhaustion got it from the search. -/
theorem exhausted_of_AllocateBlockForNode {p : Pool} {n : String}
    (h : (p.AllocateBlockForNode n).2 = Except.error Err.ErrCIDRExhausted) :
    p.findAvailableBlock = Except.error Err.ErrCIDRExhausted := by
  unfold Pool.AllocateBlockForNode at h
  cases hf : p.findAvailableBlock with
  | error e =>
    rw [hf] at h
    simp only at h
    rw [Except.error.inj h]
  | ok c =>
    rw [hf] at h
    simp only at h
    unfold NewIPBlock at h
    cases hp : ParseCIDR c with
    | none =>
      rw [hp] at h
      simp only at h
      exact absurd (Except.error.inj h) (by decide)
    | some ipNet =>
      rw [hp] at h
      simp only at h
      by_cases hu : toInt64 (toInt64 (2 ^ (ipNet.bits - ipNet.ones)) - 2) ≤ 0
      · rw [if_pos hu] at h
        exact absurd (Except.error.inj h) (by decide)
      · rw [if_neg hu] at h
        exact Except.noConfusion h

/-- On an exhausted pool `AllocateBlockForNode` fails for every node and changes nothing. -/
theorem AllocateBlockForNode_exhausted {p : Pool}
    (h : p.findAvailableBlock = Except.error Err.ErrCIDRExhausted) (n : String) :
    p.AllocateBlockForNode n = (p, Except.error Err.ErrCIDRExhausted) := by
  unfold Pool.AllocateBlockForNode
  rw [h]

/-- A call that is no successful block release keeps an exhausted pool exhausted. -/
theorem exhausted_step {t : TrackedPool}
    (h : t.pool.findAvailableBlock = Except.error Err.ErrCIDRExhausted) (op : PoolOp)
    (hop : t.noBlockReleased [op] = true) :
    (t.step op).pool.findAvailableBlock = Except.error Err.ErrCIDRExhausted := by
  cases op with
  | allocateBlock n =>
    show (t.pool.AllocateBlockForNode n).1.findAvailableBlock = _
    rw [AllocateBlockForNode_exhausted h]
    exact h
  | releaseBlock n c =>
    have hne : (t.pool.ReleaseBlockForNode n c).2 ≠ none := by
      simpa [TrackedPool.noBlockReleased] using hop
    show (t.pool.ReleaseBlockForNode n c).1.findAvailableBlock = _
    rcases ReleaseBlockForNode_form t.pool n c with ⟨_, hr⟩ | ⟨_, _, _, hr⟩ |
      ⟨_, _, _, _, _, _, _, hr⟩ | ⟨_, _, _, _, _, _, hr⟩
    · rw [hr]; exact h
    · rw [hr]; exact h
    · rw [hr]; exact h
    · rw [hr] at hne; exact absurd rfl hne
  | allocateIP n =>
    have key : (t.pool.AllocateIPForNode n).1.findAvailableBlock =
        Except.error Err.ErrCIDRExhausted := by
      unfold Pool.AllocateIPForNode
      have hfrom : ∀ (q : Pool) (blocks : List IPBlock),
          q.findAvailableBlock = Except.error Err.ErrCIDRExhausted →
          (q.allocateIPFrom n blocks).1.findAvailableBlock =
            Except.error Err.ErrCIDRExhausted := by
        intro q blocks hq
        unfold Pool.allocateIPFrom
        cases hal : Pool.allocFromBlocks blocks with
        | mk blocks' r =>
          have hq1 : (Pool.mk q.clusterCIDR q.blockSize (mapPut q.nodeBlocks n blocks')
              q.allocatedBlocks).findAvailableBlock = Except.error Err.ErrCIDRExhausted :=
            (findAvailableBlock_congr q (Pool.mk q.clusterCIDR q.blockSize
              (mapPut q.nodeBlocks n blocks') q.allocatedBlocks) rfl rfl rfl).trans hq
          cases r with
          | some r => exact hq1
          | none =>
            simp only []
            rw [hq1]
            exact hq1
      cases hg : mapGet t.pool.nodeBlocks n with
      | none => simp only []; rw [h]; exact h
      | some l =>
        cases l with
        | nil => simp only []; rw [h]; exact h
        | cons b bs => exact hfrom t.pool (b :: bs) h
    show (match t.pool.AllocateIPForNode n with
      | (p, Except.ok (ip, _)) => (TrackedPool.mk p (ip :: t.held))
      | (p, Except.error _) => (TrackedPool.mk p t.held)).pool.findAvailableBlock = _
    cases hres : t.pool.AllocateIPForNode n with
    | mk p' r =>
      rw [hres] at key
      cases r with
      | ok v => exact key
      | error e => exact key
  | releaseIP ip n =>
    have key : (t.pool.ReleaseIP ip n).1.findAvailableBlock =
        Except.error Err.ErrCIDRExhausted := by
      unfold Pool.ReleaseIP
      cases hg : mapGet t.pool.nodeBlocks n with
      | none => exact h
      | some blocks =>
        simp only []
        cases hrel : Pool.releaseFromBlocks ip blocks with
        | none => exact h
        | some r =>
          exact (findAvailableBlock_congr t.pool (Pool.mk t.pool.clusterCIDR t.pool.blockSize
            (mapPut t.pool.nodeBlocks n r.1) t.pool.allocatedBlocks) rfl rfl rfl).trans h
    show (match t.pool.ReleaseIP ip n with
      | (p, none) => (TrackedPool.mk p (t.held.filter (fun x => decide (x ≠ ip))))
      | (p, some _) => (TrackedPool.mk p t.held)).pool.findAvailableBlock = _
    cases hres : t.pool.ReleaseIP ip n with
    | mk p' r =>
      rw [hres] at key
      cases r with
      | none => exact key
      | some e => exact key

/-- A sequence of calls without a successful block release keeps an exhausted pool
exhausted. -/
theorem exhausted_run (ops : List PoolOp) :
    ∀ t : TrackedPool, t.pool.findAvailableBlock = Except.error Err.ErrCIDRExhausted →
      t.noBlockReleased ops = true →
      (t.run ops).pool.findAvailableBlock = Except.error Err.ErrCIDRExhausted := by
  induction ops with
  | nil => intro t h _; exact h
  | cons op ops ih =>
    intro t h hno
    have hsplit : t.noBlockReleased [op] = true ∧ (t.step op).noBlockReleased ops = true := by
      cases op <;> simpa [TrackedPool.noBlockReleased] using hno
    exact ih (t.step op) (exhausted_step h op hsplit.1) hsplit.2

/-- C31: when `AllocateBlockForNode` returns `ErrCIDRExhausted` the pool is unchanged, and
after any further calls of the pool operations among which no `ReleaseBlockForNode`
succeeds, `AllocateBlockForNode` returns `ErrCIDRExhausted` again, for every node ID, and
changes nothing. -/
theorem C31_exhaustion_stable (t : TrackedPool) (nodeID : String)
    (hex : (t.pool.AllocateBlockForNode nodeID).2 = Except.error Err.ErrCIDRExhausted) :
    (t.pool.AllocateBlockForNode nodeID).1 = t.pool ∧
    ∀ (ops : List PoolOp) (n : String), t.noBlockReleased ops = true →
      (t.run ops).pool.AllocateBlockForNode n =
        ((t.run ops).pool, Except.error Err.ErrCIDRExhausted) := by
  have h := exhausted_of_AllocateBlockForNode hex
  refine ⟨by rw [AllocateBlockForNode_exhausted h], fun ops n hno => ?_⟩
  exact AllocateBlockForNode_exhausted (exhausted_run ops t h hno) n

/-- C31, instance: the pool `10.244.0.0/29` with `/30` blocks is exhausted after two block
allocations; after an address allocation and a refused release of the block in use, the
allocation of a block for a third node fails again. -/
theorem C31_exhaustion_stable_witness :
    ((TrackedPool.run ⟨Pool.mk ⟨183762944, 29, 32⟩ 30 [] [], []⟩
        [PoolOp.allocateBlock "n1", PoolOp.allocateBlock "n2"]).pool.AllocateBlockForNode
        "n3").2 = Except.error Err.ErrCIDRExhausted ∧
    ((TrackedPool.run ⟨Pool.mk ⟨183762944, 29, 32⟩ 30 [] [], []⟩
        [PoolOp.allocateBlock "n1", PoolOp.allocateBlock "n2"]).run
        [PoolOp.allocateIP "n1",
          PoolOp.releaseBlock "n1" (CIDRString.v4 183762944 30)]).pool.AllocateBlockForNode
        "n3" =
      (((TrackedPool.run ⟨Pool.mk ⟨183762944, 29, 32⟩ 30 [] [], []⟩
        [PoolOp.allocateBlock "n1", PoolOp.allocateBlock "n2"]).run
        [PoolOp.allocateIP "n1",
          PoolOp.releaseBlock "n1" (CIDRString.v4 183762944 30)]).pool,
        Except.error Err.ErrCIDRExhausted) :=
  ⟨by decide,
    (C31_exhaustion_stable
      (TrackedPool.run ⟨Pool.mk ⟨183762944, 29, 32⟩ 30 [] [], []⟩
        [PoolOp.allocateBlock "n1", PoolOp.allocateBlock "n2"]) "n3" (by decide)).2
      [PoolOp.allocateIP "n1", PoolOp.releaseBlock "n1" (CIDRString.v4 183762944 30)] "n3"
      (by decide)⟩

end ExhaustionProofs

/-! ## Maps: entries, lengths and sums -/

section MapCountProofs

theorem mem_mapPut {κ ν : Type} [DecidableEq κ] {m : List (κ × ν)} {k : κ} {v : ν}
    {e : κ × ν} (h : e ∈ mapPut m k v) : e ∈ m ∨ e = (k, v) := by
  induction m with
  | nil =>
    simp only [mapPut, List.mem_singleton] at h
    exact Or.inr h
  | cons x m ih =>
    obtain ⟨k', v'⟩ := x
    unfold mapPut at h
    by_cases hk : k' = k
    · rw [if_pos hk] at h
      rcases List.mem_cons.1 h with h | h
      · exact Or.inr h
      · exact Or.inl (List.mem_cons_of_mem _ h)
    · rw [if_neg hk] at h
      rcases List.mem_cons.1 h with h | h
      · exact Or.inl (by rw [h]; exact List.mem_cons_self _ _)
      · rcases ih h with h | h
        · exact Or.inl (List.mem_cons_of_mem _ h)
        · exact Or.inr h

theorem mapPut_mapPut {κ ν : Type} [DecidableEq κ] (m : List (κ × ν)) (k : κ) (v w : ν) :
    mapPut (mapPut m k v) k w = mapPut m k w := by
  induction m with
  | nil => simp [mapPut]
  | cons x m ih =>
    obtain ⟨k', v'⟩ := x
    by_cases hk : k' = k
    · simp [mapPut, hk]
    · simp [mapPut, hk, ih]

theorem mem_mapDel {κ ν : Type} [DecidableEq κ] {m : List (κ × ν)} {k : κ} {e : κ × ν}
    (h : e ∈ mapDel m k) : e ∈ m :=
  (List.mem_filter.1 h).1

theorem mapDel_keys {κ ν : Type} [DecidableEq κ] (m : List (κ × ν)) (k : κ) :
    (mapDel m k).map Prod.fst = (m.map Prod.fst).filter (fun x => decide (x ≠ k)) := by
  induction m with
  | nil => rfl
  | cons x m ih =>
    obtain ⟨k', v'⟩ := x
    by_cases hk : k' = k
    · simp [mapDel, List.filter_cons, hk] at ih ⊢
      exact ih
    · simp [mapDel, List.filter_cons, hk] at ih ⊢
      exact ih

theorem mapDel_keys_nodup {κ ν : Type} [DecidableEq κ] {m : List (κ × ν)}
    (h : (m.map Prod.fst).Nodup) (k : κ) : ((mapDel m k).map Prod.fst).Nodup := by
  rw [mapDel_keys]
  exact h.filter _

theorem mapDel_of_not_mem {κ ν : Type} [DecidableEq κ] {m : List (κ × ν)} {k : κ}
    (h : k ∉ m.map Prod.fst) : mapDel m k = m := by
  unfold mapDel
  apply List.filter_eq_self.2
  intro e he
  have : e.1 ≠ k := fun hc => h (by rw [← hc]; exact List.mem_map_of_mem _ he)
  simpa using this

/-- Deleting a key that is present, from a map with one entry per key, removes one entry. -/
theorem mapDel_length {κ ν : Type} [DecidableEq κ] {m : List (κ × ν)}
    (h : (m.map Prod.fst).Nodup) {k : κ} (hk : k ∈ m.map Prod.fst) :
    (mapDel m k).length + 1 = m.length := by
  induction m with
  | nil => simp at hk
  | cons x m ih =>
    obtain ⟨k', v'⟩ := x
    have hnd := List.nodup_cons.1 h
    by_cases hkk : k' = k
    · subst hkk
      have hnot : k' ∉ m.map Prod.fst := hnd.1
      have : mapDel ((k', v') :: m) k' = mapDel m k' := by
        simp [mapDel, List.filter_cons]
      rw [this, mapDel_of_not_mem hnot]
      rfl
    · have hk' : k ∈ m.map Prod.fst := by
        rcases List.mem_cons.1 hk with hk | hk
        · exact absurd hk.symm hkk
        · exact hk
      have : mapDel ((k', v') :: m) k = (k', v') :: mapDel m k := by
        simp [mapDel, List.filter_cons, hkk]
      rw [this, List.length_cons, List.length_cons, ih hnd.2 hk']

theorem mapGet_isSome_mem {κ ν : Type} [DecidableEq κ] {m : List (κ × ν)} {k : κ} {v : ν}
    (h : mapGet m k = some v) : k ∈ m.map Prod.fst :=
  List.mem_map.2 ⟨(k, v), mapGet_some_mem h, rfl⟩

/-- In a map with one entry per key, an entry is what the lookup of its key returns. -/
theorem mapGet_of_mem {κ ν : Type} [DecidableEq κ] {m : List (κ × ν)}
    (h : (m.map Prod.fst).Nodup) {k : κ} {v : ν} (hm : (k, v) ∈ m) : mapGet m k = some v := by
  induction m with
  | nil => simp at hm
  | cons x m ih =>
    obtain ⟨k', v'⟩ := x
    have hnd := List.nodup_cons.1 h
    rcases List.mem_cons.1 hm with hm | hm
    · have h1 := (Prod.mk.inj hm).1
      have h2 := (Prod.mk.inj hm).2
      subst h1; subst h2
      simp [mapGet]
    · have hne : k' ≠ k := by
        intro hc
        apply hnd.1
        rw [hc]
        exact List.mem_map.2 ⟨(k, v), hm, rfl⟩
      unfold mapGet
      rw [if_neg hne]
      exact ih hnd.2 hm

/-- The sum over a map after an assignment: the old value of the key leaves, the new one
enters. -/
theorem sumBy_mapPut {κ ν : Type} [DecidableEq κ] (g : ν → Int) (m : List (κ × ν)) (k : κ)
    (v : ν) : sumBy g (mapPut m k v) = sumBy g m - ((mapGet m k).map g).getD 0 + g v := by
  induction m with
  | nil => simp [sumBy, mapPut, mapGet]
  | cons x m ih =>
    obtain ⟨k', v'⟩ := x
    by_cases hk : k' = k
    · simp only [mapPut, mapGet, hk, if_true, sumBy, List.map_cons, List.sum_cons,
        Option.map_some', Option.getD_some]
      ring
    · simp only [mapPut, mapGet, hk, if_false, sumBy, List.map_cons, List.sum_cons]
      have := ih
      simp only [sumBy] at this
      rw [this]
      ring

end MapCountProofs

/-! ## The outcomes of `AllocateIPForNode` -/

section AllocateIPProofs

open Bitmap

theorem popcount_all_set {b : Bitmap}
    (h : ∀ q : Nat, (q : Int) < b.size → b.IsSet (q : Int) = true) :
    popcount b = b.size.toNat := by
  unfold popcount
  rw [List.filter_eq_self.2, List.length_range]
  intro q hq
  have hq' : q < b.size.toNat := List.mem_range.1 hq
  exact h q (by omega)

/-- A well-formed block without a free address: `Allocate` fails and changes nothing. -/
theorem Allocate_of_full {b : IPBlock} (hb : b.WF) (hfull : b.Available ≤ 0) :
    b.Allocate = (b, Except.error Err.ErrNoAvailableIP) := by
  rcases Allocate_cases hb with ⟨_, h⟩ | ⟨p, _, hp, hbit, _, _⟩
  · exact h
  · exfalso
    have hall := full_all_set hb.bm (by
      unfold IPBlock.Available Bitmap.Available at hfull; omega)
    have := hall p (by rw [hb.size]; exact hp)
    rw [IsSet_eq_bitAt _ (by omega) (by rw [hb.size]; exact hp)] at this
    simp only [Int.toNat_ofNat] at this
    rw [hbit] at this
    exact Bool.noConfusion this

/-- A well-formed block with a free address: `Allocate` takes the lowest free position. -/
theorem Allocate_of_free {b : IPBlock} (hb : b.WF) (hfree : 0 < b.Available) :
    ∃ p : Nat, b.bitmap.FindFirstZero = (p : Int) ∧ (p : Int) < b.Total ∧
      bitAt b.bitmap p = false ∧ (∀ q : Nat, q < p → bitAt b.bitmap q = true) ∧
      b.Allocate = (IPBlock.mk b.CIDR b.NodeID b.Total (b.Used + 1)
          (b.bitmap.Set (p : Int)).1, Except.ok (IP.v4 (b.CIDR.addr + p + 1))) := by
  rcases Allocate_cases hb with ⟨h1, _⟩ | ⟨p, h1, h2, h3, h4, h5⟩
  · exfalso
    have hspec := FindFirstZero_spec b.bitmap hb.bm
    rw [h1] at hspec
    rcases hspec with ⟨_, hall⟩ | ⟨q, hq, _⟩
    · have hc := popcount_all_set hall
      have hcount := hb.bm.count
      have hnn := hb.bm.nonneg
      unfold IPBlock.Available Bitmap.Available at hfree
      omega
    · omega
  · exact ⟨p, h1, h2, h3, h4, h5⟩

/-- The loop of `AllocateIPForNode` over well-formed blocks: it allocates the lowest free
address of the first block that has one, or leaves the blocks as they are. -/
theorem allocFromBlocks_split (l : List IPBlock) (hwf : ∀ b ∈ l, b.WF) :
    (∃ (l1 : List IPBlock) (b : IPBlock) (l2 : List IPBlock) (p : Nat),
      l = l1 ++ b :: l2 ∧ (∀ x ∈ l1, x.Available ≤ 0) ∧ 0 < b.Available ∧
      b.bitmap.FindFirstZero = (p : Int) ∧ (p : Int) < b.Total ∧
      bitAt b.bitmap p = false ∧ (∀ q : Nat, q < p → bitAt b.bitmap q = true) ∧
      Pool.allocFromBlocks l =
        (l1 ++ IPBlock.mk b.CIDR b.NodeID b.Total (b.Used + 1) (b.bitmap.Set (p : Int)).1 :: l2,
          some (IP.v4 (b.CIDR.addr + p + 1),
            IPBlock.mk b.CIDR b.NodeID b.Total (b.Used + 1) (b.bitmap.Set (p : Int)).1))) ∨
    ((∀ x ∈ l, x.Available ≤ 0) ∧ Pool.allocFromBlocks l = (l, none)) := by
  induction l with
  | nil => exact Or.inr ⟨fun x hx => by simp at hx, rfl⟩
  | cons b rest ih =>
    have hb : b.WF := hwf b (List.mem_cons_self _ _)
    have hrest : ∀ x ∈ rest, x.WF := fun x hx => hwf x (List.mem_cons_of_mem _ hx)
    by_cases hfree : 0 < b.Available
    · obtain ⟨p, h1, h2, h3, h4, h5⟩ := Allocate_of_free hb hfree
      refine Or.inl ⟨[], b, rest, p, rfl, fun x hx => by simp at hx, hfree, h1, h2, h3, h4, ?_⟩
      simp only [Pool.allocFromBlocks, h5, List.nil_append]
    · have hfull : b.Available ≤ 0 := by omega
      have hal := Allocate_of_full hb hfull
      have hres : Pool.allocFromBlocks (b :: rest) =
          (b :: (Pool.allocFromBlocks rest).1, (Pool.allocFromBlocks rest).2) := by
        simp only [Pool.allocFromBlocks, hal]
      rcases ih hrest with ⟨l1, b0, l2, p, hl, hl1, hb0, h1, h2, h3, h4, h5⟩ | ⟨hall, h5⟩
      · refine Or.inl ⟨b :: l1, b0, l2, p, by rw [hl]; rfl, ?_, hb0, h1, h2, h3, h4, ?_⟩
        · intro x hx
          rcases List.mem_cons.1 hx with rfl | hx
          · exact hfull
          · exact hl1 x hx
        · rw [hres, h5]; rfl
      · refine Or.inr ⟨?_, by rw [hres, h5]⟩
        intro x hx
        rcases List.mem_cons.1 hx with rfl | hx
        · exact hfull
        · exact hall x hx

theorem Pool_eta (p : Pool) :
    Pool.mk p.clusterCIDR p.blockSize p.nodeBlocks p.allocatedBlocks = p := by
  cases p; rfl

/-- The first `Allocate` on the block `NewIPBlock` made for an IPv4 CIDR string. -/
theorem Allocate_fresh {a b : Nat} {n : String} {blk : IPBlock} (ha : a < 2 ^ 32)
    (hnew : NewIPBlock (CIDRString.v4 a b) n = Except.ok blk) :
    blk.Allocate = (IPBlock.mk blk.CIDR blk.NodeID blk.Total 1 (blk.bitmap.Set 0).1,
      Except.ok (IP.v4 (blk.CIDR.addr + 1))) := by
  obtain ⟨hwf, hb30, hval⟩ := WF_NewIPBlock ha hnew
  have hfresh : ∀ q : Nat, bitAt blk.bitmap q = false := by
    intro q; rw [hval]; exact NewBitmap_bitAt _ q
  have hused : blk.Used = 0 := by rw [hval]
  rcases Allocate_cases hwf with ⟨h1, _⟩ | ⟨p, h1, h2, h3, h4, h5⟩
  · exfalso
    have hspec := FindFirstZero_spec blk.bitmap hwf.bm
    rw [h1] at hspec
    have htot : (2 : Int) ≤ blk.Total := by
      rw [hwf.total]
      have : (2 : Int) ^ 2 ≤ 2 ^ (32 - blk.CIDR.ones) :=
        pow_le_pow_right₀ (by norm_num) (by have := hwf.ones; omega)
      omega
    rcases hspec with ⟨_, hall⟩ | ⟨q, hq, _⟩
    · have := hall 0 (by rw [hwf.size]; push_cast; omega)
      rw [IsSet_eq_bitAt _ (by norm_num) (by rw [hwf.size]; push_cast; omega)] at this
      simp only [Nat.cast_zero, Int.toNat_zero] at this
      rw [hfresh 0] at this
      exact Bool.noConfusion this
    · omega
  · have hp0 : p = 0 := by
      by_contra hne
      have := h4 0 (by omega)
      rw [hfresh 0] at this
      exact Bool.noConfusion this
    subst hp0
    rw [h5, hused]
    rfl

/-- The outcomes of `AllocateIPForNode` on an IPv4 pool whose blocks of the node are
well-formed: the lowest free address of the first block with a free address; or, with no
such block, the error of the search or of `NewIPBlock` and the pool unchanged; or a new
block at the end of the node's list and its first address. -/
theorem AllocateIPForNode_outcomes {p : Pool} (hcfg : p.Cfg) (n : String)
    (hwf : ∀ b ∈ p.view.blocks n, b.WF) :
    (∃ (l1 : List IPBlock) (b : IPBlock) (l2 : List IPBlock) (q : Nat),
      p.view.blocks n = l1 ++ b :: l2 ∧ (∀ x ∈ l1, x.Available ≤ 0) ∧ 0 < b.Available ∧
      (q : Int) < b.Total ∧ bitAt b.bitmap q = false ∧
      (∀ q' : Nat, q' < q → bitAt b.bitmap q' = true) ∧
      p.AllocateIPForNode n =
        (Pool.mk p.clusterCIDR p.blockSize (mapPut p.nodeBlocks n
            (l1 ++ IPBlock.mk b.CIDR b.NodeID b.Total (b.Used + 1) (b.bitmap.Set (q : Int)).1
              :: l2)) p.allocatedBlocks,
          Except.ok (IP.v4 (b.CIDR.addr + q + 1),
            IPBlock.mk b.CIDR b.NodeID b.Total (b.Used + 1) (b.bitmap.Set (q : Int)).1))) ∨
    ((∀ x ∈ p.view.blocks n, x.Available ≤ 0) ∧
      ((∃ e, p.findAvailableBlock = Except.error e ∧
          p.AllocateIPForNode n = (p, Except.error e)) ∨
        (∃ c e, p.findAvailableBlock = Except.ok c ∧ NewIPBlock c n = Except.error e ∧
          p.AllocateIPForNode n = (p, Except.error e)) ∨
        (∃ c blk, p.findAvailableBlock = Except.ok c ∧ NewIPBlock c n = Except.ok blk ∧
          p.AllocateIPForNode n =
            (Pool.mk p.clusterCIDR p.blockSize (mapPut p.nodeBlocks n
                (p.view.blocks n ++
                  [IPBlock.mk blk.CIDR blk.NodeID blk.Total 1 (blk.bitmap.Set 0).1]))
                (mapPut p.allocatedBlocks c true),
              Except.ok (IP.v4 (blk.CIDR.addr + 1),
                IPBlock.mk blk.CIDR blk.NodeID blk.Total 1 (blk.bitmap.Set 0).1))))) := by
  have hfreshAlloc : ∀ c blk, p.findAvailableBlock = Except.ok c →
      NewIPBlock c n = Except.ok blk →
      blk.Allocate = (IPBlock.mk blk.CIDR blk.NodeID blk.Total 1 (blk.bitmap.Set 0).1,
        Except.ok (IP.v4 (blk.CIDR.addr + 1))) := by
    intro c blk hf hnew
    obtain ⟨addr, rfl, hlt, _, _⟩ := findAvailableBlock_spec hcfg hf
    exact Allocate_fresh hlt hnew
  cases hg : mapGet p.nodeBlocks n with
  | none =>
    have hbl : p.view.blocks n = [] := by simp [Pool.view, hg]
    refine Or.inr ⟨by rw [hbl]; intro x hx; simp at hx, ?_⟩
    unfold Pool.AllocateIPForNode
    rw [hg]
    simp only []
    cases hf : p.findAvailableBlock with
    | error e => exact Or.inl ⟨e, rfl, rfl⟩
    | ok c =>
      simp only []
      cases hnew : NewIPBlock c n with
      | error e => exact Or.inr (Or.inl ⟨c, e, rfl, hnew, rfl⟩)
      | ok blk =>
        refine Or.inr (Or.inr ⟨c, blk, rfl, hnew, ?_⟩)
        simp only [Pool.allocateIPFrom, Pool.allocFromBlocks, hfreshAlloc c blk hf hnew,
          mapPut_mapPut, hbl, List.nil_append]
  | some l =>
    have hbl : p.view.blocks n = l := blocks_of_get hg
    cases l with
    | nil =>
      refine Or.inr ⟨by rw [hbl]; intro x hx; simp at hx, ?_⟩
      unfold Pool.AllocateIPForNode
      rw [hg]
      simp only []
      cases hf : p.findAvailableBlock with
      | error e => exact Or.inl ⟨e, rfl, rfl⟩
      | ok c =>
        simp only []
        cases hnew : NewIPBlock c n with
        | error e => exact Or.inr (Or.inl ⟨c, e, rfl, hnew, rfl⟩)
        | ok blk =>
          refine Or.inr (Or.inr ⟨c, blk, rfl, hnew, ?_⟩)
          simp only [Pool.allocateIPFrom, Pool.allocFromBlocks, hfreshAlloc c blk hf hnew,
            mapPut_mapPut, hbl, List.nil_append]
    | cons b0 bs =>
      have hres : p.AllocateIPForNode n = p.allocateIPFrom n (b0 :: bs) := by
        unfold Pool.AllocateIPForNode
        rw [hg]
      rw [hres, hbl]
      rw [hbl] at hwf
      rcases allocFromBlocks_split (b0 :: bs) hwf with
        ⟨l1, b, l2, q, hl, hl1, hb, _, h2, h3, h4, h5⟩ | ⟨hall, h5⟩
      · refine Or.inl ⟨l1, b, l2, q, hl, hl1, hb, h2, h3, h4, ?_⟩
        simp only [Pool.allocateIPFrom, h5]
      · refine Or.inr ⟨hall, ?_⟩
        have hp1 : Pool.mk p.clusterCIDR p.blockSize (mapPut p.nodeBlocks n (b0 :: bs))
            p.allocatedBlocks = p := by
          rw [mapPut_self hg]
        have hfa : (Pool.mk p.clusterCIDR p.blockSize (mapPut p.nodeBlocks n (b0 :: bs))
            p.allocatedBlocks).findAvailableBlock = p.findAvailableBlock := by rw [hp1]
        cases hf : p.findAvailableBlock with
        | error e =>
          refine Or.inl ⟨e, rfl, ?_⟩
          simp only [Pool.allocateIPFrom, h5, hfa, hf, hp1]
        | ok c =>
          cases hnew : NewIPBlock c n with
          | error e =>
            refine Or.inr (Or.inl ⟨c, e, rfl, hnew, ?_⟩)
            simp only [Pool.allocateIPFrom, h5, hfa, hf, hnew, hp1]
          | ok blk =>
            refine Or.inr (Or.inr ⟨c, blk, rfl, hnew, ?_⟩)
            simp only [Pool.allocateIPFrom, h5, hfa, hf, hnew, hfreshAlloc c blk hf hnew,
              mapPut_mapPut]

end AllocateIPProofs

/-! ## The bookkeeping of the flat pool over call sequences -/

section CountsProofs

open Bitmap

theorem blocks_put_at (p : Pool) (m : String) (l' : List IPBlock)
    (a' : List (CIDRString × Bool)) (n : String) :
    (Pool.mk p.clusterCIDR p.blockSize (mapPut p.nodeBlocks m l') a').view.blocks n =
      if n = m then l' else p.view.blocks n := by
  show (mapGet (mapPut p.nodeBlocks m l') n).getD [] = _
  rw [mapGet_mapPut]
  by_cases h : n = m
  · simp [h]
  · simp [h, Pool.view]

/-- The sums over the blocks after the list of one node was replaced. -/
theorem sums_put (p : Pool) (m : String) (l' : List IPBlock) (a' : List (CIDRString × Bool))
    (f : IPBlock → Int) :
    (∀ n, (Pool.mk p.clusterCIDR p.blockSize (mapPut p.nodeBlocks m l') a').sumOf f n =
      if n = m then (l'.map f).sum else p.sumOf f n) ∧
    (Pool.mk p.clusterCIDR p.blockSize (mapPut p.nodeBlocks m l') a').sumAll f =
      p.sumAll f - p.sumOf f m + (l'.map f).sum := by
  constructor
  · intro n
    unfold Pool.sumOf
    rw [blocks_put_at]
    by_cases h : n = m
    · simp [h]
    · simp [h]
  · unfold Pool.sumAll Pool.sumOf
    show sumBy _ (mapPut p.nodeBlocks m l') = _
    rw [sumBy_mapPut]
    congr 2
    show _ = (((mapGet p.nodeBlocks m).getD []).map f).sum
    cases mapGet p.nodeBlocks m <;> simp

/-- The CIDR string the search returns is that of a block number of the pool. -/
theorem findAvailableBlock_range {p : Pool} (hcfg : p.Cfg) {c : CIDRString}
    (h : p.findAvailableBlock = Except.ok c) :
    ∃ i, i < p.blocksCount ∧ c = p.blockCIDR i ∧ p.view.alloc c = false := by
  have hpos : 0 ≤ p.blockSize := by have := hcfg.size_gt; omega
  obtain ⟨b, hb⟩ := Int.eq_ofNat_of_zero_le hpos
  have hbn : p.blockSize.toNat = b := by omega
  rw [findAvailableBlock_eq hcfg b hb] at h
  obtain ⟨j, _, hj, hc, hfree, _⟩ := (findLoop_min p _ _ _ 0).1 c h
  have hj' : j < 2 ^ (b - p.clusterCIDR.ones) := by omega
  refine ⟨j, by unfold Pool.blocksCount; rw [hbn]; exact hj', ?_, hfree⟩
  rw [hc, (block_addr_eq hcfg b hb j hj').1]
  unfold Pool.blockCIDRString Pool.blockCIDR
  rw [hbn]

/-- A successful `ReleaseBlockForNode`: the first block of the node with the CIDR string,
which has no address in use, is taken out. -/
theorem ReleaseBlockForNode_ok {p : Pool} {n : String} {c : CIDRString}
    (h : (p.ReleaseBlockForNode n c).2 = none) :
    ∃ blocks i x, mapGet p.nodeBlocks n = some blocks ∧ Pool.findBlockIdx c blocks = some i ∧
      blocks.get? i = some x ∧ x.CIDR.String = c ∧ x.Used ≤ 0 ∧
      p.ReleaseBlockForNode n c =
        (Pool.mk p.clusterCIDR p.blockSize (mapPut p.nodeBlocks n (blocks.eraseIdx i))
          (mapDel p.allocatedBlocks c), none) := by
  unfold Pool.ReleaseBlockForNode at h ⊢
  cases hg : mapGet p.nodeBlocks n with
  | none => rw [hg] at h; exact Option.noConfusion h
  | some blocks =>
    rw [hg] at h
    simp only [] at h ⊢
    cases hf : Pool.findBlockIdx c blocks with
    | none => rw [hf] at h; exact Option.noConfusion h
    | some i =>
      rw [hf] at h
      simp only [] at h ⊢
      obtain ⟨x, hx, hs⟩ := findBlockIdx_spec c blocks i hf
      rw [hx] at h ⊢
      simp only [] at h ⊢
      by_cases hu : x.Used > 0
      · rw [if_pos hu] at h; exact Option.noConfusion h
      · rw [if_neg hu]
        exact ⟨blocks, i, x, rfl, hf, hx, hs, by omega, rfl⟩

/-- The loop of `ReleaseIP` over well-formed blocks: no block contains the address, or the
release from the first containing block fails and changes nothing, or it clears the bit of
the address in that block. -/
theorem releaseFromBlocks_split (ip : IP) (l : List IPBlock) (hwf : ∀ b ∈ l, b.WF) :
    Pool.releaseFromBlocks ip l = none ∨
    (∃ e, Pool.releaseFromBlocks ip l = some (l, some e)) ∨
    (∃ (l1 : List IPBlock) (b : IPBlock) (l2 : List IPBlock) (q : Nat),
      l = l1 ++ b :: l2 ∧ (∀ y ∈ l1, y.CIDR.Contains ip = false) ∧
      b.CIDR.Contains ip = true ∧ bitAt b.bitmap q = true ∧ (q : Int) < b.Total ∧
      ip = IP.v4 (b.CIDR.addr + q + 1) ∧
      Pool.releaseFromBlocks ip l =
        some (l1 ++ IPBlock.mk b.CIDR b.NodeID b.Total (b.Used - 1)
          (b.bitmap.Clear (q : Int)).1 :: l2, none)) := by
  induction l with
  | nil => exact Or.inl rfl
  | cons b rest ih =>
    have hb : b.WF := hwf b (List.mem_cons_self _ _)
    have hrest : ∀ x ∈ rest, x.WF := fun x hx => hwf x (List.mem_cons_of_mem _ hx)
    by_cases hin : b.CIDR.Contains ip = true
    · have hres : Pool.releaseFromBlocks ip (b :: rest) =
          some ((b.Release ip).1 :: rest, (b.Release ip).2) := by
        simp only [Pool.releaseFromBlocks, hin, if_true]
      rcases Release_cases hb ip with ⟨hc, _⟩ | ⟨_, _, _, _, hr⟩ | ⟨_, _, _, _, _, _, _, _, hr⟩ |
        ⟨x, q, hip, _, hx, _, hq, hbit, hr⟩
      · rw [hin] at hc; exact Bool.noConfusion hc
      · exact Or.inr (Or.inl ⟨_, by rw [hres, hr]⟩)
      · exact Or.inr (Or.inl ⟨_, by rw [hres, hr]⟩)
      · refine Or.inr (Or.inr ⟨[], b, rest, q, rfl, fun y hy => by simp at hy, hin, hbit, hq,
          by rw [hip, hx], ?_⟩)
        rw [hres, hr]
        rfl
    · rw [Bool.not_eq_true] at hin
      have hres : Pool.releaseFromBlocks ip (b :: rest) =
          (Pool.releaseFromBlocks ip rest).map (fun r => (b :: r.1, r.2)) := by
        simp only [Pool.releaseFromBlocks, hin, Bool.false_eq_true, if_false]
      rcases ih hrest with h | ⟨e, h⟩ | ⟨l1, b0, l2, q, hl, hl1, h1, h2, h3, h4, h⟩
      · exact Or.inl (by rw [hres, h]; rfl)
      · exact Or.inr (Or.inl ⟨e, by rw [hres, h]; rfl⟩)
      · refine Or.inr (Or.inr ⟨b :: l1, b0, l2, q, by rw [hl]; rfl, ?_, h1, h2, h3, h4, ?_⟩)
        · intro y hy
          rcases List.mem_cons.1 hy with rfl | hy
          · exact hin
          · exact hl1 y hy
        · rw [hres, h]; rfl

/-- The outcomes of `ReleaseIP` on a pool whose blocks of the node are well-formed: an
error and the pool unchanged, or the bit of the address cleared in the first block of the
node whose CIDR contains it. -/
theorem ReleaseIP_flat_outcomes (p : Pool) (ip : IP) (n : String)
    (hwf : ∀ b ∈ p.view.blocks n, b.WF) :
    (∃ e, p.ReleaseIP ip n = (p, some e)) ∨
    (∃ (l1 : List IPBlock) (b : IPBlock) (l2 : List IPBlock) (q : Nat),
      p.view.blocks n = l1 ++ b :: l2 ∧ (∀ y ∈ l1, y.CIDR.Contains ip = false) ∧
      b.CIDR.Contains ip = true ∧ bitAt b.bitmap q = true ∧ (q : Int) < b.Total ∧
      ip = IP.v4 (b.CIDR.addr + q + 1) ∧
      p.ReleaseIP ip n =
        (Pool.mk p.clusterCIDR p.blockSize (mapPut p.nodeBlocks n
          (l1 ++ IPBlock.mk b.CIDR b.NodeID b.Total (b.Used - 1)
            (b.bitmap.Clear (q : Int)).1 :: l2)) p.allocatedBlocks, none)) := by
  unfold Pool.ReleaseIP
  cases hg : mapGet p.nodeBlocks n with
  | none => exact Or.inl ⟨_, rfl⟩
  | some blocks =>
    have hbl : p.view.blocks n = blocks := blocks_of_get hg
    rw [hbl] at hwf ⊢
    simp only []
    rcases releaseFromBlocks_split ip blocks hwf with h | ⟨e, h⟩ |
      ⟨l1, b, l2, q, hl, hl1, h1, h2, h3, h4, h⟩
    · rw [h]; exact Or.inl ⟨_, rfl⟩
    · rw [h]
      refine Or.inl ⟨e, ?_⟩
      simp only [mapPut_self hg]
    · rw [h]
      exact Or.inr ⟨l1, b, l2, q, hl, hl1, h1, h2, h3, h4, rfl⟩

/-- The bookkeeping after the list of one node and the allocated map were replaced by a
list and a map that differ from the old ones by the same number of entries. -/
theorem Counts_put {p : Pool} (hc : p.Counts) (m : String) (l' : List IPBlock)
    (a' : List (CIDRString × Bool)) (hk : (a'.map Prod.fst).Nodup)
    (hm : ∀ e ∈ a', e.2 = true ∧ ∃ i, i < p.blocksCount ∧ e.1 = p.blockCIDR i)
    (hlen : (l'.length : Int) - ((p.view.blocks m).length : Int) =
      (a'.length : Int) - (p.allocatedBlocks.length : Int)) :
    (Pool.mk p.clusterCIDR p.blockSize (mapPut p.nodeBlocks m l') a').Counts := by
  refine ⟨hk, hm, mapPut_keys_nodup hc.nodes m l', ?_⟩
  rw [(sums_put p m l' a' (fun _ => 1)).2, hc.total]
  have h1 : ∀ l : List IPBlock, (l.map (fun _ => (1 : Int))).sum = (l.length : Int) := by
    intro l
    induction l with
    | nil => rfl
    | cons x l ih => simp only [List.map_cons, List.sum_cons, List.length_cons, ih]; push_cast; ring
  unfold Pool.sumOf
  rw [h1, h1]
  show _ = (a'.length : Int)
  omega

theorem alloc_none {p : Pool} (hc : p.Counts) {c : CIDRString} (h : p.view.alloc c = false) :
    mapGet p.allocatedBlocks c = none := by
  cases hg : mapGet p.allocatedBlocks c with
  | none => rfl
  | some v =>
    have hv := (hc.marked (c, v) (mapGet_some_mem hg)).1
    simp only at hv
    have : p.view.alloc c = true := by
      show (mapGet p.allocatedBlocks c).getD false = true
      rw [hg, hv]; rfl
    rw [h] at this
    exact Bool.noConfusion this

theorem alloc_key {p : Pool} {c : CIDRString} (h : p.view.alloc c = true) :
    c ∈ p.allocatedBlocks.map Prod.fst := by
  cases hg : mapGet p.allocatedBlocks c with
  | none =>
    have : p.view.alloc c = false := by
      show (mapGet p.allocatedBlocks c).getD false = false
      rw [hg]; rfl
    rw [h] at this
    exact Bool.noConfusion this
  | some v => exact mapGet_isSome_mem hg

theorem Used_nonneg {b : IPBlock} (hb : b.WF) : 0 ≤ b.Used := by
  rw [hb.used, hb.bm.count]
  exact Int.natCast_nonneg _

/-- The counts after the list of one node and the allocated map were replaced, the
addresses in use of the node changing by `d`. -/
theorem effect_put {p : Pool} (hc : p.Counts) (m : String) (l' : List IPBlock)
    (a' : List (CIDRString × Bool)) (hk : (a'.map Prod.fst).Nodup)
    (hm : ∀ e ∈ a', e.2 = true ∧ ∃ i, i < p.blocksCount ∧ e.1 = p.blockCIDR i)
    (hlen : (l'.length : Int) - ((p.view.blocks m).length : Int) =
      (a'.length : Int) - (p.allocatedBlocks.length : Int))
    (d : Int) (hd : (l'.map (fun b => b.Used)).sum = p.sumOf (fun b => b.Used) m + d) :
    (Pool.mk p.clusterCIDR p.blockSize (mapPut p.nodeBlocks m l') a').Counts ∧
    (∀ n, (Pool.mk p.clusterCIDR p.blockSize (mapPut p.nodeBlocks m l') a').sumOf
        (fun b => b.Used) n = p.sumOf (fun b => b.Used) n + if n = m then d else 0) ∧
    (Pool.mk p.clusterCIDR p.blockSize (mapPut p.nodeBlocks m l') a').sumAll
        (fun b => b.Used) = p.sumAll (fun b => b.Used) + d := by
  obtain ⟨h1, h2⟩ := sums_put p m l' a' (fun b => b.Used)
  refine ⟨Counts_put hc m l' a' hk hm hlen, fun n => ?_, ?_⟩
  · rw [h1 n]
    by_cases hn : n = m
    · rw [if_pos hn, if_pos hn, hd, hn]
    · rw [if_neg hn, if_neg hn]; ring
  · rw [h2, hd]; ring

/-- What one call does to the bookkeeping and to the numbers of addresses in use. -/
theorem step_effect {t : TrackedPool} (h : t.pool.PInv t.held) (hc : t.pool.Counts)
    (op : PoolOp) :
    (t.step op).pool.Counts ∧
    (∀ n, (t.step op).pool.sumOf (fun b => b.Used) n =
      t.pool.sumOf (fun b => b.Used) n + t.delta n op) ∧
    (t.step op).pool.sumAll (fun b => b.Used) =
      t.pool.sumAll (fun b => b.Used) + t.deltaAll op := by
  obtain ⟨hcfg, hinv, _⟩ := h
  have hwf : ∀ n, ∀ b ∈ t.pool.view.blocks n, b.WF := fun n b hb => (hinv.wf n b hb).1
  have same : ∀ p', p' = t.pool → p'.Counts ∧
      (∀ n, p'.sumOf (fun b => b.Used) n = t.pool.sumOf (fun b => b.Used) n + 0) ∧
      p'.sumAll (fun b => b.Used) = t.pool.sumAll (fun b => b.Used) + 0 := by
    intro p' hp'
    rw [hp']
    exact ⟨hc, fun n => (add_zero _).symm, (add_zero _).symm⟩
  have append : ∀ (l : List IPBlock) (x : IPBlock),
      ((l ++ [x]).map (fun b => b.Used)).sum = (l.map (fun b => b.Used)).sum + x.Used := by
    intro l x; simp
  have replace : ∀ (l1 l2 : List IPBlock) (x y : IPBlock),
      ((l1 ++ y :: l2).map (fun b => b.Used)).sum =
        ((l1 ++ x :: l2).map (fun b => b.Used)).sum + (y.Used - x.Used) := by
    intro l1 l2 x y; simp; ring
  cases op with
  | allocateBlock m =>
    show (t.pool.AllocateBlockForNode m).1.Counts ∧
      (∀ n, (t.pool.AllocateBlockForNode m).1.sumOf (fun b => b.Used) n =
        t.pool.sumOf (fun b => b.Used) n + 0) ∧
      (t.pool.AllocateBlockForNode m).1.sumAll (fun b => b.Used) =
        t.pool.sumAll (fun b => b.Used) + 0
    cases hf : t.pool.findAvailableBlock with
    | error e => exact same _ (by simp only [Pool.AllocateBlockForNode, hf])
    | ok c =>
      cases hnew : NewIPBlock c m with
      | error e => exact same _ (by simp only [Pool.AllocateBlockForNode, hf, hnew])
      | ok blk =>
        have hres : (t.pool.AllocateBlockForNode m).1 =
            Pool.mk t.pool.clusterCIDR t.pool.blockSize
              (mapPut t.pool.nodeBlocks m (t.pool.view.blocks m ++ [blk]))
              (mapPut t.pool.allocatedBlocks c true) := by
          simp only [Pool.AllocateBlockForNode, hf, hnew]
          rfl
        obtain ⟨i, hi, hci, hfree⟩ := findAvailableBlock_range hcfg hf
        obtain ⟨_, _, _, _, hused⟩ := fresh_block hcfg hf hnew
        have hnone := alloc_none hc hfree
        rw [hres]
        have := effect_put hc m (t.pool.view.blocks m ++ [blk])
          (mapPut t.pool.allocatedBlocks c true) (mapPut_keys_nodup hc.keys c true)
          (by
            intro e he
            rcases mem_mapPut he with he | he
            · exact hc.marked e he
            · rw [he]; exact ⟨rfl, i, hi, hci⟩)
          (by rw [mapPut_length_of_none hnone, List.length_append]; simp)
          0 (by rw [append, hused]; rfl)
        refine ⟨this.1, fun n => ?_, this.2.2⟩
        rw [this.2.1 n]; simp
  | releaseBlock m c =>
    show (t.pool.ReleaseBlockForNode m c).1.Counts ∧
      (∀ n, (t.pool.ReleaseBlockForNode m c).1.sumOf (fun b => b.Used) n =
        t.pool.sumOf (fun b => b.Used) n + 0) ∧
      (t.pool.ReleaseBlockForNode m c).1.sumAll (fun b => b.Used) =
        t.pool.sumAll (fun b => b.Used) + 0
    cases hr : (t.pool.ReleaseBlockForNode m c).2 with
    | some e =>
      rcases ReleaseBlockForNode_form t.pool m c with ⟨_, h1⟩ | ⟨_, _, _, h1⟩ |
        ⟨_, _, _, _, _, _, _, h1⟩ | ⟨_, _, _, _, _, _, h1⟩
      · exact same _ (by rw [h1])
      · exact same _ (by rw [h1])
      · exact same _ (by rw [h1])
      · rw [h1] at hr; exact Option.noConfusion hr
    | none =>
      obtain ⟨blocks, i, x, hg, _, hx, hs, hu, hres⟩ := ReleaseBlockForNode_ok hr
      have hbl : t.pool.view.blocks m = blocks := blocks_of_get hg
      have hxm : x ∈ t.pool.view.blocks m := by rw [hbl]; exact List.get?_mem hx
      have hx0 : x.Used = 0 := by have := Used_nonneg (hwf m x hxm); omega
      obtain ⟨l1, l2, hl, her⟩ := eraseIdx_split blocks i x hx
      have hkey : c ∈ t.pool.allocatedBlocks.map Prod.fst :=
        alloc_key ((hinv.alloc_iff c).2 ⟨m, x, hxm, hs⟩)
      rw [hres]
      have := effect_put hc m (blocks.eraseIdx i) (mapDel t.pool.allocatedBlocks c)
        (mapDel_keys_nodup hc.keys c) (fun e he => hc.marked e (mem_mapDel he))
        (by
          have h1 := mapDel_length hc.keys hkey
          rw [hbl, her, hl]
          simp only [List.length_append, List.length_cons]
          push_cast
          omega)
        0 (by
          unfold Pool.sumOf
          rw [hbl, her, hl]
          simp [hx0])
      refine ⟨this.1, fun n => ?_, this.2.2⟩
      rw [this.2.1 n]; simp
  | allocateIP m =>
    rcases AllocateIPForNode_outcomes hcfg m (hwf m) with
      ⟨l1, b, l2, q, hl, _, _, _, _, _, hres⟩ | ⟨_, ⟨e, _, hres⟩ | ⟨c, e, _, _, hres⟩ |
        ⟨c, blk, hf, hnew, hres⟩⟩
    · rw [step_allocateIP_ok hres]
      have hd1 : ∀ n, t.delta n (PoolOp.allocateIP m) = if n = m then (1 : Int) else 0 := by
        intro n
        simp only [TrackedPool.delta, hres]
        by_cases hn : m = n
        · simp [hn]
        · have : ¬ n = m := fun hc => hn hc.symm
          simp [hn, this]
      have hd2 : t.deltaAll (PoolOp.allocateIP m) = 1 := by
        simp only [TrackedPool.deltaAll, hres]
      have := effect_put hc m
        (l1 ++ IPBlock.mk b.CIDR b.NodeID b.Total (b.Used + 1) (b.bitmap.Set (q : Int)).1 :: l2)
        t.pool.allocatedBlocks hc.keys hc.marked
        (by rw [hl]; simp) 1
        (by unfold Pool.sumOf; rw [hl, replace l1 l2 b]; simp)
      refine ⟨this.1, fun n => ?_, by rw [hd2]; exact this.2.2⟩
      rw [this.2.1 n, hd1 n]
    · rw [step_allocateIP_error hres]
      have hd1 : ∀ n, t.delta n (PoolOp.allocateIP m) = 0 := by
        intro n; simp only [TrackedPool.delta, hres]; simp
      have hd2 : t.deltaAll (PoolOp.allocateIP m) = 0 := by
        simp only [TrackedPool.deltaAll, hres]
      have := same t.pool rfl
      exact ⟨this.1, fun n => by rw [hd1 n]; exact this.2.1 n, by rw [hd2]; exact this.2.2⟩
    · rw [step_allocateIP_error hres]
      have hd1 : ∀ n, t.delta n (PoolOp.allocateIP m) = 0 := by
        intro n; simp only [TrackedPool.delta, hres]; simp
      have hd2 : t.deltaAll (PoolOp.allocateIP m) = 0 := by
        simp only [TrackedPool.deltaAll, hres]
      have := same t.pool rfl
      exact ⟨this.1, fun n => by rw [hd1 n]; exact this.2.1 n, by rw [hd2]; exact this.2.2⟩
    · rw [step_allocateIP_ok hres]
      have hd1 : ∀ n, t.delta n (PoolOp.allocateIP m) = if n = m then (1 : Int) else 0 := by
        intro n
        simp only [TrackedPool.delta, hres]
        by_cases hn : m = n
        · simp [hn]
        · have : ¬ n = m := fun hc => hn hc.symm
          simp [hn, this]
      have hd2 : t.deltaAll (PoolOp.allocateIP m) = 1 := by
        simp only [TrackedPool.deltaAll, hres]
      obtain ⟨i, hi, hci, hfree⟩ := findAvailableBlock_range hcfg hf
      have hnone := alloc_none hc hfree
      have := effect_put hc m
        (t.pool.view.blocks m ++
          [IPBlock.mk blk.CIDR blk.NodeID blk.Total 1 (blk.bitmap.Set 0).1])
        (mapPut t.pool.allocatedBlocks c true) (mapPut_keys_nodup hc.keys c true)
        (by
          intro e he
          rcases mem_mapPut he with he | he
          · exact hc.marked e he
          · rw [he]; exact ⟨rfl, i, hi, hci⟩)
        (by rw [mapPut_length_of_none hnone, List.length_append]; simp) 1
        (by rw [append]; rfl)
      refine ⟨this.1, fun n => ?_, by rw [hd2]; exact this.2.2⟩
      rw [this.2.1 n, hd1 n]
  | releaseIP ip m =>
    rcases ReleaseIP_flat_outcomes t.pool ip m (hwf m) with ⟨e, hres⟩ |
      ⟨l1, b, l2, q, hl, _, _, _, _, _, hres⟩
    · rw [step_releaseIP_error hres]
      have hd1 : ∀ n, t.delta n (PoolOp.releaseIP ip m) = 0 := by
        intro n; simp only [TrackedPool.delta, hres]; simp
      have hd2 : t.deltaAll (PoolOp.releaseIP ip m) = 0 := by
        simp only [TrackedPool.deltaAll, hres]
      have := same t.pool rfl
      exact ⟨this.1, fun n => by rw [hd1 n]; exact this.2.1 n, by rw [hd2]; exact this.2.2⟩
    · rw [step_releaseIP_ok hres]
      have hd1 : ∀ n, t.delta n (PoolOp.releaseIP ip m) =
          if n = m then (-1 : Int) else 0 := by
        intro n
        simp only [TrackedPool.delta, hres]
        by_cases hn : m = n
        · simp [hn]
        · have : ¬ n = m := fun hc => hn hc.symm
          simp [hn, this]
      have hd2 : t.deltaAll (PoolOp.releaseIP ip m) = -1 := by
        simp only [TrackedPool.deltaAll, hres]
      have := effect_put hc m
        (l1 ++ IPBlock.mk b.CIDR b.NodeID b.Total (b.Used - 1)
          (b.bitmap.Clear (q : Int)).1 :: l2)
        t.pool.allocatedBlocks hc.keys hc.marked
        (by rw [hl]; simp) (-1)
        (by unfold Pool.sumOf; rw [hl, replace l1 l2 b]; simp)
      refine ⟨this.1, fun n => ?_, by rw [hd2]; exact this.2.2⟩
      rw [this.2.1 n, hd1 n]

/-- Over a cluster network that is not IPv4 every call fails and changes nothing. -/
theorem step_effect_v6 {t : TrackedPool} (hbits : t.pool.clusterCIDR.bits ≠ 32)
    (hm : isV4Mapped t.pool.clusterCIDR.addr = true → 32 < t.pool.blockSize)
    (hnb : t.pool.nodeBlocks = []) (op : PoolOp) :
    (t.step op).pool = t.pool ∧ (∀ n, t.delta n op = 0) ∧ t.deltaAll op = 0 := by
  have hno := findAvailableBlock_v6 hbits hm
  have hget : ∀ n, mapGet t.pool.nodeBlocks n = none := by intro n; rw [hnb]; rfl
  cases op with
  | allocateBlock n => exact ⟨AllocateBlockForNode_v6 hno n, fun _ => rfl, rfl⟩
  | releaseBlock n c =>
    have hres : t.pool.ReleaseBlockForNode n c = (t.pool, some Err.ErrNodeNotFound) := by
      simp only [Pool.ReleaseBlockForNode, hget]
    exact ⟨by show (t.pool.ReleaseBlockForNode n c).1 = _; rw [hres], fun _ => rfl, rfl⟩
  | allocateIP n =>
    obtain ⟨e, hres⟩ := AllocateIPForNode_v6 hno hnb n
    refine ⟨by rw [step_allocateIP_error hres], fun k => ?_, ?_⟩
    · simp only [TrackedPool.delta, hres]; simp
    · simp only [TrackedPool.deltaAll, hres]
  | releaseIP ip n =>
    have hres : t.pool.ReleaseIP ip n = (t.pool, some Err.ErrNodeNotFound) := by
      simp only [Pool.ReleaseIP, hget]
    refine ⟨by rw [step_releaseIP_error hres], fun k => ?_, ?_⟩
    · simp only [TrackedPool.delta, hres]; simp
    · simp only [TrackedPool.deltaAll, hres]

/-- What one call does to the bookkeeping, on every pool that satisfies the invariant. -/
theorem step_effect_OK {t : TrackedPool} (h : t.OK) (hc : t.pool.Counts) (op : PoolOp) :
    (t.step op).pool.Counts ∧
    (∀ n, (t.step op).pool.sumOf (fun b => b.Used) n =
      t.pool.sumOf (fun b => b.Used) n + t.delta n op) ∧
    (t.step op).pool.sumAll (fun b => b.Used) =
      t.pool.sumAll (fun b => b.Used) + t.deltaAll op := by
  rcases h with h | ⟨hbits, hm, hnb, _⟩
  · exact step_effect h hc op
  · obtain ⟨h1, h2, h3⟩ := step_effect_v6 hbits hm hnb op
    rw [h1, h3]
    exact ⟨hc, fun n => by rw [h2 n, add_zero], (add_zero _).symm⟩

/-- The bookkeeping along a sequence of calls: the addresses in use grow by the number of
successful allocations minus the number of successful releases. -/
theorem effect_run (ops : List PoolOp) :
    ∀ t : TrackedPool, t.OK → t.pool.Counts →
      (t.run ops).pool.Counts ∧
      (∀ n, (t.run ops).pool.sumOf (fun b => b.Used) n =
        t.pool.sumOf (fun b => b.Used) n + t.heldBy n ops) ∧
      (t.run ops).pool.sumAll (fun b => b.Used) =
        t.pool.sumAll (fun b => b.Used) + t.heldTotal ops := by
  induction ops with
  | nil =>
    intro t _ hc
    exact ⟨hc, fun n => (add_zero _).symm, (add_zero _).symm⟩
  | cons op ops ih =>
    intro t h hc
    obtain ⟨h1, h2, h3⟩ := step_effect_OK h hc op
    obtain ⟨i1, i2, i3⟩ := ih (t.step op) (OK_step h op) h1
    refine ⟨i1, fun n => ?_, ?_⟩
    · show ((t.step op).run ops).pool.sumOf (fun b => b.Used) n =
        t.pool.sumOf (fun b => b.Used) n + (t.delta n op + (t.step op).heldBy n ops)
      rw [i2 n, h2 n]; ring
    · show ((t.step op).run ops).pool.sumAll (fun b => b.Used) =
        t.pool.sumAll (fun b => b.Used) + (t.deltaAll op + (t.step op).heldTotal ops)
      rw [i3, h3]; ring

theorem Counts_NewPool {config : PoolConfig} {p0 : Pool} (h : NewPool config = Except.ok p0) :
    p0.Counts ∧ p0.nodeBlocks = [] := by
  unfold NewPool at h
  cases hp : ParseCIDR config.ClusterCIDR with
  | none => rw [hp] at h; exact Except.noConfusion h
  | some cidr =>
    rw [hp] at h
    simp only at h
    by_cases hb : config.BlockSize ≤ (cidr.ones : Int) ∨ config.BlockSize > (cidr.bits : Int)
    · rw [if_pos hb] at h; exact Except.noConfusion h
    · rw [if_neg hb] at h
      have := (Except.ok.inj h).symm
      subst this
      exact ⟨⟨List.nodup_nil, fun e he => by simp at he, List.nodup_nil, rfl⟩, rfl⟩

/-- The bookkeeping of every pool reachable from `NewPool`. -/
theorem Counts_Reachable {config : PoolConfig} {p0 : Pool}
    (hnew : NewPool config = Except.ok p0) (ops : List PoolOp) :
    (TrackedPool.run ⟨p0, []⟩ ops).OK ∧
    (TrackedPool.run ⟨p0, []⟩ ops).pool.Counts ∧
    (∀ n, (TrackedPool.run ⟨p0, []⟩ ops).pool.sumOf (fun b => b.Used) n =
      TrackedPool.heldBy ⟨p0, []⟩ n ops) ∧
    (TrackedPool.run ⟨p0, []⟩ ops).pool.sumAll (fun b => b.Used) =
      TrackedPool.heldTotal ⟨p0, []⟩ ops := by
  obtain ⟨hc, hnb⟩ := Counts_NewPool hnew
  obtain ⟨h1, h2, h3⟩ := effect_run ops ⟨p0, []⟩ (OK_NewPool hnew) hc
  refine ⟨OK_run (OK_NewPool hnew) ops, h1, fun n => ?_, ?_⟩
  · rw [h2 n]
    have : Pool.sumOf (fun b => b.Used) p0 n = 0 := by
      unfold Pool.sumOf Pool.view
      simp only [hnb]; rfl
    simp only [this, zero_add]
  · rw [h3]
    have : Pool.sumAll (fun b => b.Used) p0 = 0 := by
      unfold Pool.sumAll
      rw [hnb]; rfl
    simp only [this, zero_add]

end CountsProofs

/-! ## The contract of `ReleaseBlockForNode` (C32) -/

section ReleaseBlockProofs

theorem findBlockIdx_some {c : CIDRString} {l : List IPBlock} {x : IPBlock} (hx : x ∈ l)
    (hs : x.CIDR.String = c) : ∃ i, Pool.findBlockIdx c l = some i := by
  induction l with
  | nil => simp at hx
  | cons b rest ih =>
    unfold Pool.findBlockIdx
    by_cases hb : b.CIDR.String = c
    · exact ⟨0, by rw [if_pos hb]⟩
    · rw [if_neg hb]
      rcases List.mem_cons.1 hx with rfl | hx
      · exact absurd hs hb
      · obtain ⟨i, hi⟩ := ih hx
        exact ⟨i + 1, by rw [hi]; rfl⟩

/-- `ReleaseBlockForNode` once the search has found the block. -/
theorem ReleaseBlockForNode_at {p : Pool} {n : String} {c : CIDRString}
    {blocks : List IPBlock} {i : Nat} {x : IPBlock} (hg : mapGet p.nodeBlocks n = some blocks)
    (hf : Pool.findBlockIdx c blocks = some i) (hx : blocks.get? i = some x) :
    p.ReleaseBlockForNode n c =
      if x.Used > 0 then (p, some Err.ErrBlockInUse)
      else (Pool.mk p.clusterCIDR p.blockSize (mapPut p.nodeBlocks n (blocks.eraseIdx i))
        (mapDel p.allocatedBlocks c), none) := by
  simp only [Pool.ReleaseBlockForNode, hg, hf, hx]

/-- C32: on every pool reachable from `NewPool`, `ReleaseBlockForNode(node, cidr)` fails
with `ErrNodeNotFound` when the node has no entry, with `ErrBlockNotFound` when no block of
the node has that CIDR, and with `ErrBlockInUse` when the block of the node with that CIDR
has `Used > 0`; a failing call leaves the pool unchanged.  Otherwise it succeeds: that
block is taken out of the node's list, the other blocks staying in their order, the CIDR is
no longer marked allocated and no node holds a block of it; the CIDR is the one of a block
number `i` of the pool, and the next `AllocateBlockForNode`, for any node, succeeds with
the block of a number `j ≤ i`. -/
theorem C32_release_block_contract (config : PoolConfig) (t : TrackedPool)
    (hr : Pool.ReachableFrom config t) (nodeID : String) (blockCIDR : CIDRString) :
    (mapGet t.pool.nodeBlocks nodeID = none →
      t.pool.ReleaseBlockForNode nodeID blockCIDR = (t.pool, some Err.ErrNodeNotFound)) ∧
    (∀ blocks, mapGet t.pool.nodeBlocks nodeID = some blocks →
      ((∀ x ∈ blocks, x.CIDR.String ≠ blockCIDR) →
        t.pool.ReleaseBlockForNode nodeID blockCIDR = (t.pool, some Err.ErrBlockNotFound)) ∧
      (∀ x ∈ blocks, x.CIDR.String = blockCIDR →
        (x.Used > 0 →
          t.pool.ReleaseBlockForNode nodeID blockCIDR = (t.pool, some Err.ErrBlockInUse)) ∧
        (¬ x.Used > 0 → ∃ l1 l2, blocks = l1 ++ x :: l2 ∧
          t.pool.ReleaseBlockForNode nodeID blockCIDR =
            (Pool.mk t.pool.clusterCIDR t.pool.blockSize
              (mapPut t.pool.nodeBlocks nodeID (l1 ++ l2))
              (mapDel t.pool.allocatedBlocks blockCIDR), none) ∧
          mapGet (t.pool.ReleaseBlockForNode nodeID blockCIDR).1.allocatedBlocks blockCIDR =
            none ∧
          (∀ n, ∀ blk ∈ (t.pool.ReleaseBlockForNode nodeID blockCIDR).1.view.blocks n,
            blk.CIDR.String ≠ blockCIDR) ∧
          ∃ i, i < t.pool.blocksCount ∧ blockCIDR = t.pool.blockCIDR i ∧
            ∀ n, ∃ j blk, j ≤ i ∧
              ((t.pool.ReleaseBlockForNode nodeID blockCIDR).1.AllocateBlockForNode n).2 =
                Except.ok blk ∧ blk.CIDR.String = t.pool.blockCIDR j ∧ blk.NodeID = n ∧
              blk.Used = 0))) ∧
    (∀ e, (t.pool.ReleaseBlockForNode nodeID blockCIDR).2 = some e →
      (t.pool.ReleaseBlockForNode nodeID blockCIDR).1 = t.pool) := by
  obtain ⟨p0, ops, hnew, rfl⟩ := hr
  obtain ⟨hok, hcounts, _, _⟩ := Counts_Reachable hnew ops
  generalize TrackedPool.run ⟨p0, []⟩ ops = t at hok hcounts
  refine ⟨fun hg => by simp only [Pool.ReleaseBlockForNode, hg], fun blocks hg => ⟨?_, ?_⟩, ?_⟩
  · intro hall
    simp only [Pool.ReleaseBlockForNode, hg, findBlockIdx_none hall]
  · intro x hx hs
    rcases hok with hinv | ⟨_, _, hnb, _⟩
    swap
    · rw [hnb] at hg; exact Option.noConfusion hg
    have hinv' := hinv
    obtain ⟨hcfg, hv, _⟩ := hinv
    have hbl : t.pool.view.blocks nodeID = blocks := blocks_of_get hg
    obtain ⟨i, hf⟩ := findBlockIdx_some hx hs
    obtain ⟨y, hy, hys⟩ := findBlockIdx_spec blockCIDR blocks i hf
    have hym : y ∈ blocks := List.get?_mem hy
    obtain ⟨j, hj⟩ := List.get?_of_mem hx
    have hxwf := hv.wf nodeID x (by rw [hbl]; exact hx)
    have hywf := hv.wf nodeID y (by rw [hbl]; exact hym)
    have hcidr : y.CIDR = x.CIDR :=
      String_inj hywf.1.bits hxwf.1.bits (by rw [hys, hs])
    have hnd := hv.nodup nodeID
    rw [hbl] at hnd
    have hij : i = j := get?_map_nodup_inj hnd hy hj hcidr
    subst hij
    have hyx : y = x := by rw [hy] at hj; exact Option.some.inj hj
    subst hyx
    have hat := ReleaseBlockForNode_at hg hf hy
    refine ⟨fun hu => by rw [hat, if_pos hu], fun hu => ?_⟩
    obtain ⟨l1, l2, hl, her⟩ := eraseIdx_split blocks i y hy
    have hres : t.pool.ReleaseBlockForNode nodeID blockCIDR =
        (Pool.mk t.pool.clusterCIDR t.pool.blockSize
          (mapPut t.pool.nodeBlocks nodeID (l1 ++ l2))
          (mapDel t.pool.allocatedBlocks blockCIDR), none) := by
      rw [hat, if_neg hu, her]
    have hpinv := PInv_ReleaseBlockForNode hinv' nodeID blockCIDR
    rw [hres] at hpinv ⊢
    have hdel : mapGet (mapDel t.pool.allocatedBlocks blockCIDR) blockCIDR = none := by
      rw [mapGet_mapDel, if_pos rfl]
    have hfree : (Pool.mk t.pool.clusterCIDR t.pool.blockSize
        (mapPut t.pool.nodeBlocks nodeID (l1 ++ l2))
        (mapDel t.pool.allocatedBlocks blockCIDR)).view.alloc blockCIDR = false := by
      show (mapGet (mapDel t.pool.allocatedBlocks blockCIDR) blockCIDR).getD false = false
      rw [hdel]; rfl
    have hmarked : t.pool.view.alloc blockCIDR = true :=
      (hv.alloc_iff blockCIDR).2 ⟨nodeID, y, by rw [hbl]; exact hx, hs⟩
    obtain ⟨v, hv1⟩ : ∃ v, mapGet t.pool.allocatedBlocks blockCIDR = some v := by
      cases hq : mapGet t.pool.allocatedBlocks blockCIDR with
      | none =>
        have : t.pool.view.alloc blockCIDR = false := by
          show (mapGet t.pool.allocatedBlocks blockCIDR).getD false = false
          rw [hq]; rfl
        rw [hmarked] at this
        exact Bool.noConfusion this
      | some v => exact ⟨v, rfl⟩
    obtain ⟨_, i0, hi0, hci0⟩ := hcounts.marked (blockCIDR, v) (mapGet_some_mem hv1)
    simp only at hci0
    refine ⟨l1, l2, hl, rfl, hdel, ?_, i0, hi0, hci0, fun n => ?_⟩
    · intro n blk hblk hc
      have := (hpinv.2.1.alloc_iff blockCIDR).2 ⟨n, blk, hblk, hc⟩
      rw [hfree] at this
      exact Bool.noConfusion this
    · obtain ⟨b, hb⟩ := Int.eq_ofNat_of_zero_le
        (by have := hcfg.size_gt; omega : 0 ≤ t.pool.blockSize)
      have hbn : t.pool.blockSize.toNat = b := by omega
      have hb30 : b ≤ 30 := by
        have h1 := hxwf.1.ones
        have h2 := hxwf.2
        omega
      have hcnt : t.pool.blocksCount = 2 ^ (b - t.pool.clusterCIDR.ones) := by
        unfold Pool.blocksCount; rw [hbn]
      have hstr : ∀ k, t.pool.blockCIDR k =
          CIDRString.v4 (t.pool.clusterCIDR.addr + k * 2 ^ (32 - b)) b := by
        intro k; unfold Pool.blockCIDR; rw [hbn]
      rcases AllocateBlockForNode_cases hpinv.1 b hb hb30 n with
        ⟨k, hk, hbelow, _, hal⟩ | ⟨hall, _⟩
      · refine ⟨k, _, ?_, by rw [hal], ?_, rfl, rfl⟩
        · by_contra hlt
          have := hbelow i0 (by omega)
          rw [← hstr i0, ← hci0, hfree] at this
          exact Bool.noConfusion this
        · rw [hstr k]
          simp [IPNet.String]
      · exfalso
        have := hall i0 (by rw [← hcnt]; exact hi0)
        rw [← hstr i0, ← hci0, hfree] at this
        exact Bool.noConfusion this
  · intro e he
    rcases ReleaseBlockForNode_form t.pool nodeID blockCIDR with ⟨_, h1⟩ | ⟨_, _, _, h1⟩ |
      ⟨_, _, _, _, _, _, _, h1⟩ | ⟨_, _, _, _, _, _, h1⟩
    · rw [h1]
    · rw [h1]
    · rw [h1]
    · rw [h1] at he; exact Option.noConfusion he

/-- C32, instance: in the pool `10.244.0.0/29` with `/30` blocks, after one address was
allocated for `n1`, the release of a block for the unknown node `n2` fails with
`ErrNodeNotFound` and the release of the block `10.244.0.0/30` of `n1` fails with
`ErrBlockInUse`. -/
theorem C32_release_block_contract_witness :
    Pool.ReachableFrom (PoolConfig.mk (CIDRString.v4 183762944 29) 30)
      (TrackedPool.run ⟨Pool.mk ⟨183762944, 29, 32⟩ 30 [] [], []⟩ [PoolOp.allocateIP "n1"]) ∧
    (TrackedPool.run ⟨Pool.mk ⟨183762944, 29, 32⟩ 30 [] [], []⟩
        [PoolOp.allocateIP "n1"]).pool.ReleaseBlockForNode "n2" (CIDRString.v4 183762944 30) =
      ((TrackedPool.run ⟨Pool.mk ⟨183762944, 29, 32⟩ 30 [] [], []⟩
        [PoolOp.allocateIP "n1"]).pool, some Err.ErrNodeNotFound) ∧
    (TrackedPool.run ⟨Pool.mk ⟨183762944, 29, 32⟩ 30 [] [], []⟩
        [PoolOp.allocateIP "n1"]).pool.ReleaseBlockForNode "n1" (CIDRString.v4 183762944 30) =
      ((TrackedPool.run ⟨Pool.mk ⟨183762944, 29, 32⟩ 30 [] [], []⟩
        [PoolOp.allocateIP "n1"]).pool, some Err.ErrBlockInUse) :=
  ⟨⟨_, _, rfl, rfl⟩,
    (C32_release_block_contract (PoolConfig.mk (CIDRString.v4 183762944 29) 30) _
      ⟨_, _, rfl, rfl⟩ "n2" (CIDRString.v4 183762944 30)).1 (by decide),
    (((C32_release_block_contract (PoolConfig.mk (CIDRString.v4 183762944 29) 30) _
      ⟨_, _, rfl, rfl⟩ "n1" (CIDRString.v4 183762944 30)).2.1
        [IPBlock.mk ⟨183762944, 30, 32⟩ "n1" 2 1 (Bitmap.mk [1] 2 1)] (by decide)).2
        (IPBlock.mk ⟨183762944, 30, 32⟩ "n1" 2 1 (Bitmap.mk [1] 2 1))
        (List.mem_singleton.2 rfl) (by decide)).1 (by decide)⟩

end ReleaseBlockProofs

/-! ## The contract of `AllocateIPForNode` (C33) -/

section AllocateIPContractProofs

open Bitmap

/-- The search on an IPv4 pool with block prefix length `b`: the CIDR string of the least
block number that is not marked allocated, or `ErrCIDRExhausted` with every number
marked. -/
theorem findAvailableBlock_cases {p : Pool} (hcfg : p.Cfg) (b : Nat)
    (hb : p.blockSize = (b : Int)) :
    (∃ i, i < 2 ^ (b - p.clusterCIDR.ones) ∧
      (∀ j, j < i →
        p.view.alloc (CIDRString.v4 (p.clusterCIDR.addr + j * 2 ^ (32 - b)) b) = true) ∧
      p.view.alloc (CIDRString.v4 (p.clusterCIDR.addr + i * 2 ^ (32 - b)) b) = false ∧
      p.clusterCIDR.addr + i * 2 ^ (32 - b) < 2 ^ 32 ∧
      maskAddr (p.clusterCIDR.addr + i * 2 ^ (32 - b)) b 32 =
        p.clusterCIDR.addr + i * 2 ^ (32 - b) ∧
      p.findAvailableBlock =
        Except.ok (CIDRString.v4 (p.clusterCIDR.addr + i * 2 ^ (32 - b)) b)) ∨
    ((∀ i, i < 2 ^ (b - p.clusterCIDR.ones) →
        p.view.alloc (CIDRString.v4 (p.clusterCIDR.addr + i * 2 ^ (32 - b)) b) = true) ∧
      p.findAvailableBlock = Except.error Err.ErrCIDRExhausted) := by
  have hbn : p.blockSize.toNat = b := by omega
  have hstr : ∀ k, k < 2 ^ (b - p.clusterCIDR.ones) →
      p.blockCIDRString ((p.clusterCIDR.addr + (k % 2 ^ 32) * 2 ^ (32 - b)) % 2 ^ 32) =
        CIDRString.v4 (p.clusterCIDR.addr + k * 2 ^ (32 - b)) b := by
    intro k hk
    rw [(block_addr_eq hcfg b hb k hk).1]
    unfold Pool.blockCIDRString
    rw [hbn]
  rw [findAvailableBlock_eq hcfg b hb]
  obtain ⟨h1, h2⟩ := findLoop_min p p.clusterCIDR.addr (2 ^ (32 - b))
    (2 ^ (b - p.clusterCIDR.ones)) 0
  cases hf : Pool.findLoop p p.clusterCIDR.addr (2 ^ (32 - b))
      (2 ^ (b - p.clusterCIDR.ones)) 0 with
  | ok c =>
    obtain ⟨j, _, hj, hc, hfree, hbelow⟩ := h1 c hf
    have hj' : j < 2 ^ (b - p.clusterCIDR.ones) := by omega
    rw [hstr j hj'] at hc
    obtain ⟨_, e2, e3⟩ := block_addr_eq hcfg b hb j hj'
    refine Or.inl ⟨j, hj', fun k hk => ?_, by rw [← hc]; exact hfree, e2, e3, by rw [hc]⟩
    have := hbelow k (Nat.zero_le _) hk
    rw [hstr k (by omega)] at this
    exact this
  | error e =>
    obtain ⟨he, hall⟩ := h2 e hf
    refine Or.inr ⟨fun i hi => ?_, by rw [he]⟩
    have := hall i (Nat.zero_le _) (by omega)
    rw [hstr i hi] at this
    exact this

/-- C33, counterexample: on the fresh pool `10.244.0.0/16` with block prefix length 31 the
node has no block and block number 0 is not allocated, but `AllocateIPForNode` creates no
block: it fails with the error of `NewIPBlock` for a CIDR without usable addresses. -/
theorem C33_allocate_ip_for_node_counterexample :
    NewPool (PoolConfig.mk (CIDRString.v4 183762944 16) 31) =
      Except.ok (Pool.mk ⟨183762944, 16, 32⟩ 31 [] []) ∧
    (Pool.mk ⟨183762944, 16, 32⟩ 31 [] []).findAvailableBlock =
      Except.ok (CIDRString.v4 183762944 31) ∧
    (Pool.mk ⟨183762944, 16, 32⟩ 31 [] []).AllocateIPForNode "n1" =
      (Pool.mk ⟨183762944, 16, 32⟩ 31 [] [], Except.error Err.noUsableIPs) := by
  decide

/-- C33: on every pool reachable from `NewPool` whose cluster network is IPv4 with prefix
length `c` and whose block prefix length is `b ≤ 30`.  If the node owns a block with a free
address, `AllocateIPForNode(node)` returns the lowest free address of the first such block
of the node's list, together with that block, and creates no block.  If every block of the
node is full (or it has none), the call creates the block of the least number `i` whose
CIDR is not marked allocated, appends it to the node's list and returns its address
network + 1.  The call returns `ErrCIDRExhausted` exactly when every block of the node is
full and all `2 ^ (b - c)` block CIDRs are marked; it fails in no other way, and a failure
leaves the pool unchanged. -/
theorem C33_allocate_ip_for_node (config : PoolConfig) (t : TrackedPool)
    (hr : Pool.ReachableFrom config t) (b c : Nat)
    (hb : t.pool.blockSize = (b : Int)) (hc : t.pool.clusterCIDR.ones = c)
    (hv4 : t.pool.clusterCIDR.bits = 32) (hb30 : b ≤ 30) (nodeID : String) :
    ((∃ x ∈ t.pool.view.blocks nodeID, 0 < x.Available) →
      ∃ (l1 : List IPBlock) (b0 : IPBlock) (l2 : List IPBlock) (q : Nat),
        t.pool.view.blocks nodeID = l1 ++ b0 :: l2 ∧ (∀ x ∈ l1, x.Available ≤ 0) ∧
        0 < b0.Available ∧ (q : Int) < b0.Total ∧ bitAt b0.bitmap q = false ∧
        (∀ q' : Nat, q' < q → bitAt b0.bitmap q' = true) ∧
        t.pool.AllocateIPForNode nodeID =
          (Pool.mk t.pool.clusterCIDR t.pool.blockSize (mapPut t.pool.nodeBlocks nodeID
              (l1 ++ IPBlock.mk b0.CIDR b0.NodeID b0.Total (b0.Used + 1)
                (b0.bitmap.Set (q : Int)).1 :: l2)) t.pool.allocatedBlocks,
            Except.ok (IP.v4 (b0.CIDR.addr + q + 1),
              IPBlock.mk b0.CIDR b0.NodeID b0.Total (b0.Used + 1)
                (b0.bitmap.Set (q : Int)).1))) ∧
    ((∀ x ∈ t.pool.view.blocks nodeID, x.Available ≤ 0) →
      (∀ i, i < 2 ^ (b - c) →
        (∀ j, j < i → (mapGet t.pool.allocatedBlocks
          (CIDRString.v4 (t.pool.clusterCIDR.addr + j * 2 ^ (32 - b)) b)).getD false = true) →
        (mapGet t.pool.allocatedBlocks
          (CIDRString.v4 (t.pool.clusterCIDR.addr + i * 2 ^ (32 - b)) b)).getD false = false →
        t.pool.AllocateIPForNode nodeID =
          (Pool.mk t.pool.clusterCIDR t.pool.blockSize
            (mapPut t.pool.nodeBlocks nodeID (t.pool.view.blocks nodeID ++
              [IPBlock.mk ⟨t.pool.clusterCIDR.addr + i * 2 ^ (32 - b), b, 32⟩ nodeID
                (2 ^ (32 - b) - 2) 1 ((NewBitmap (2 ^ (32 - b) - 2)).Set 0).1]))
            (mapPut t.pool.allocatedBlocks
              (CIDRString.v4 (t.pool.clusterCIDR.addr + i * 2 ^ (32 - b)) b) true),
            Except.ok (IP.v4 (t.pool.clusterCIDR.addr + i * 2 ^ (32 - b) + 1),
              IPBlock.mk ⟨t.pool.clusterCIDR.addr + i * 2 ^ (32 - b), b, 32⟩ nodeID
                (2 ^ (32 - b) - 2) 1 ((NewBitmap (2 ^ (32 - b) - 2)).Set 0).1)))) ∧
    ((t.pool.AllocateIPForNode nodeID).2 = Except.error Err.ErrCIDRExhausted ↔
      (∀ x ∈ t.pool.view.blocks nodeID, x.Available ≤ 0) ∧
      ∀ i, i < 2 ^ (b - c) → (mapGet t.pool.allocatedBlocks
        (CIDRString.v4 (t.pool.clusterCIDR.addr + i * 2 ^ (32 - b)) b)).getD false = true) ∧
    (∀ e, (t.pool.AllocateIPForNode nodeID).2 = Except.error e →
      e = Err.ErrCIDRExhausted ∧ (t.pool.AllocateIPForNode nodeID).1 = t.pool) := by
  have hok := OK_Reachable hr
  rcases hok with hinv | ⟨hbits, _⟩
  swap
  · exact absurd hv4 hbits
  obtain ⟨hcfg, hv, _⟩ := hinv
  have hwf : ∀ x ∈ t.pool.view.blocks nodeID, x.WF := fun x hx => (hv.wf nodeID x hx).1
  subst hc
  -- the result of the search and of `NewIPBlock`
  have hnewblk : ∀ i, t.pool.clusterCIDR.addr + i * 2 ^ (32 - b) < 2 ^ 32 →
      maskAddr (t.pool.clusterCIDR.addr + i * 2 ^ (32 - b)) b 32 =
        t.pool.clusterCIDR.addr + i * 2 ^ (32 - b) →
      NewIPBlock (CIDRString.v4 (t.pool.clusterCIDR.addr + i * 2 ^ (32 - b)) b) nodeID =
        Except.ok (IPBlock.mk ⟨t.pool.clusterCIDR.addr + i * 2 ^ (32 - b), b, 32⟩ nodeID
          (2 ^ (32 - b) - 2) 0 (NewBitmap (2 ^ (32 - b) - 2))) := by
    intro i h1 h2
    rw [NewIPBlock_v4_ok _ b nodeID h1 hb30, h2]
  have hfull_not : (∀ x ∈ t.pool.view.blocks nodeID, x.Available ≤ 0) →
      ¬ ∃ x ∈ t.pool.view.blocks nodeID, 0 < x.Available := by
    intro hall ⟨x, hx, hpos⟩
    have := hall x hx
    omega
  rcases AllocateIPForNode_outcomes hcfg nodeID hwf with
    ⟨l1, b0, l2, q, hl, hl1, hb0, hq, hbit, hbelow, hres⟩ | ⟨hall, hrest⟩
  · -- a block with a free address
    have hnotfull : ¬ ∀ x ∈ t.pool.view.blocks nodeID, x.Available ≤ 0 := by
      intro hall
      have := hall b0 (by rw [hl]; simp)
      omega
    refine ⟨fun _ => ⟨l1, b0, l2, q, hl, hl1, hb0, hq, hbit, hbelow, hres⟩,
      fun hall => absurd hall hnotfull, ⟨fun he => ?_, fun he => absurd he.1 hnotfull⟩,
      fun e he => ?_⟩
    · rw [hres] at he; exact Except.noConfusion he
    · rw [hres] at he; exact Except.noConfusion he
  · -- every block of the node is full
    refine ⟨fun hex => absurd hex (hfull_not hall), ?_⟩
    rcases findAvailableBlock_cases hcfg b hb with
      ⟨i0, hi0, hbelow0, hfree0, hlt0, hal0, hf0⟩ | ⟨hmarked, hf0⟩
    · have hblk := hnewblk i0 hlt0 hal0
      have hres : t.pool.AllocateIPForNode nodeID =
          (Pool.mk t.pool.clusterCIDR t.pool.blockSize
            (mapPut t.pool.nodeBlocks nodeID (t.pool.view.blocks nodeID ++
              [IPBlock.mk ⟨t.pool.clusterCIDR.addr + i0 * 2 ^ (32 - b), b, 32⟩ nodeID
                (2 ^ (32 - b) - 2) 1 ((NewBitmap (2 ^ (32 - b) - 2)).Set 0).1]))
            (mapPut t.pool.allocatedBlocks
              (CIDRString.v4 (t.pool.clusterCIDR.addr + i0 * 2 ^ (32 - b)) b) true),
            Except.ok (IP.v4 (t.pool.clusterCIDR.addr + i0 * 2 ^ (32 - b) + 1),
              IPBlock.mk ⟨t.pool.clusterCIDR.addr + i0 * 2 ^ (32 - b), b, 32⟩ nodeID
                (2 ^ (32 - b) - 2) 1 ((NewBitmap (2 ^ (32 - b) - 2)).Set 0).1)) := by
        rcases hrest with ⟨e, hf, _⟩ | ⟨c', e, hf, hnew, _⟩ | ⟨c', blk, hf, hnew, hres⟩
        · rw [hf0] at hf; exact Except.noConfusion hf
        · rw [hf0] at hf
          have := Except.ok.inj hf
          subst this
          rw [hblk] at hnew
          exact Except.noConfusion hnew
        · rw [hf0] at hf
          have := Except.ok.inj hf
          subst this
          rw [hblk] at hnew
          have := Except.ok.inj hnew
          subst this
          exact hres
      refine ⟨fun _ => fun i hi hbelow hfree => ?_, ⟨fun he => ?_, fun he => ?_⟩, fun e he => ?_⟩
      · have hii : i = i0 := by
          rcases Nat.lt_trichotomy i i0 with hlt | heq | hgt
          · have := hbelow0 i hlt
            change (mapGet t.pool.allocatedBlocks _).getD false = true at this
            rw [hfree] at this
            exact Bool.noConfusion this
          · exact heq
          · have := hbelow i0 hgt
            change (mapGet t.pool.allocatedBlocks _).getD false = false at hfree0
            rw [hfree0] at this
            exact Bool.noConfusion this
        subst hii
        exact hres
      · rw [hres] at he; exact Except.noConfusion he
      · have := he.2 i0 hi0
        change (mapGet t.pool.allocatedBlocks _).getD false = false at hfree0
        rw [hfree0] at this
        exact Bool.noConfusion this
      · rw [hres] at he; exact Except.noConfusion he
    · have hres : t.pool.AllocateIPForNode nodeID =
          (t.pool, Except.error Err.ErrCIDRExhausted) := by
        rcases hrest with ⟨e, hf, hres⟩ | ⟨c', e, hf, _, _⟩ | ⟨c', blk, hf, _, _⟩
        · rw [hf0] at hf
          have := Except.error.inj hf
          subst this
          exact hres
        · rw [hf0] at hf; exact Except.noConfusion hf
        · rw [hf0] at hf; exact Except.noConfusion hf
      refine ⟨fun _ => fun i hi _ hfree => ?_, ⟨fun _ => ⟨hall, hmarked⟩, fun _ => ?_⟩,
        fun e he => ?_⟩
      · have := hmarked i hi
        change (mapGet t.pool.allocatedBlocks _).getD false = true at this
        rw [hfree] at this
        exact Bool.noConfusion this
      · rw [hres]
      · rw [hres] at he ⊢
        exact ⟨(Except.error.inj he).symm, rfl⟩

/-- C33, instance: on the fresh pool `10.244.0.0/16` with `/24` blocks the first call for
`n1` creates the block `10.244.0.0/24` and returns `10.244.0.1`; the second call returns
`10.244.0.2`, and after `ReleaseIP(10.244.0.1, n1)` the next call returns `10.244.0.1`. -/
theorem C33_allocate_ip_for_node_witness :
    Pool.ReachableFrom (PoolConfig.mk (CIDRString.v4 183762944 16) 24)
      ⟨Pool.mk ⟨183762944, 16, 32⟩ 24 [] [], []⟩ ∧
    (Pool.mk ⟨183762944, 16, 32⟩ 24 [] []).AllocateIPForNode "n1" =
      (Pool.mk ⟨183762944, 16, 32⟩ 24
        [("n1", [IPBlock.mk ⟨183762944, 24, 32⟩ "n1" 254 1 ((NewBitmap 254).Set 0).1])]
        [(CIDRString.v4 183762944 24, true)],
        Except.ok (IP.v4 183762945,
          IPBlock.mk ⟨183762944, 24, 32⟩ "n1" 254 1 ((NewBitmap 254).Set 0).1)) ∧
    ((TrackedPool.run ⟨Pool.mk ⟨183762944, 16, 32⟩ 24 [] [], []⟩
        [PoolOp.allocateIP "n1"]).pool.AllocateIPForNode "n1").2.toOption.map Prod.fst =
      some (IP.v4 183762946) ∧
    ((TrackedPool.run ⟨Pool.mk ⟨183762944, 16, 32⟩ 24 [] [], []⟩
        [PoolOp.allocateIP "n1", PoolOp.allocateIP "n1",
          PoolOp.releaseIP (IP.v4 183762945) "n1"]).pool.AllocateIPForNode
        "n1").2.toOption.map Prod.fst = some (IP.v4 183762945) :=
  ⟨⟨_, [], rfl, rfl⟩,
    (C33_allocate_ip_for_node (PoolConfig.mk (CIDRString.v4 183762944 16) 24)
      ⟨Pool.mk ⟨183762944, 16, 32⟩ 24 [] [], []⟩ ⟨_, [], rfl, rfl⟩ 24 16 rfl rfl rfl
      (by decide) "n1").2.1 (fun x hx => absurd hx (List.not_mem_nil x)) 0 (by decide)
      (fun j hj => absurd hj (Nat.not_lt_zero j)) rfl,
    by decide, by decide⟩

end AllocateIPContractProofs

/-! ## The statistics of the flat pool (C36) -/

section StatsProofs

open Bitmap

/-- A sum accumulated with wrap-around is the plain sum when the terms are not negative
and the total fits. -/
theorem foldl_toInt64 {α : Type} (f : α → Int) (l : List α) :
    ∀ a : Int, 0 ≤ a → (∀ x ∈ l, 0 ≤ f x) → a + (l.map f).sum < 2 ^ 63 →
      l.foldl (fun acc x => toInt64 (acc + f x)) a = a + (l.map f).sum := by
  induction l with
  | nil => intro a _ _ _; simp
  | cons x l ih =>
    intro a ha hf hb
    have hx : 0 ≤ f x := hf x (List.mem_cons_self _ _)
    have hl : ∀ y ∈ l, 0 ≤ f y := fun y hy => hf y (List.mem_cons_of_mem _ hy)
    have hsum : 0 ≤ (l.map f).sum := List.sum_nonneg (by
      intro z hz
      obtain ⟨y, hy, rfl⟩ := List.mem_map.1 hz
      exact hl y hy)
    simp only [List.map_cons, List.sum_cons] at hb
    have hstep : toInt64 (a + f x) = a + f x := toInt64_of_range (by omega) (by omega)
    simp only [List.foldl_cons, List.map_cons, List.sum_cons, hstep]
    rw [ih (a + f x) (by omega) hl (by omega)]
    ring

theorem sum_nonneg_of {α : Type} (f : α → Int) (l : List α) (h : ∀ x ∈ l, 0 ≤ f x) :
    0 ≤ (l.map f).sum :=
  List.sum_nonneg (by
    intro z hz
    obtain ⟨y, hy, rfl⟩ := List.mem_map.1 hz
    exact h y hy)

theorem sum_le_of {α : Type} (f g : α → Int) (l : List α) (h : ∀ x ∈ l, f x ≤ g x) :
    (l.map f).sum ≤ (l.map g).sum := by
  induction l with
  | nil => simp
  | cons x l ih =>
    simp only [List.map_cons, List.sum_cons]
    have := h x (List.mem_cons_self _ _)
    have := ih (fun y hy => h y (List.mem_cons_of_mem _ hy))
    omega

theorem sum_congr_of {α : Type} (f g : α → Int) (l : List α) (h : ∀ x ∈ l, f x = g x) :
    (l.map f).sum = (l.map g).sum := by
  rw [List.map_congr_left h]

theorem mapPut_of_not_mem {κ ν : Type} [DecidableEq κ] {m : List (κ × ν)} {k : κ}
    (h : k ∉ m.map Prod.fst) (v : ν) : mapPut m k v = m ++ [(k, v)] := by
  induction m with
  | nil => rfl
  | cons x m ih =>
    obtain ⟨k', v'⟩ := x
    have hne : k' ≠ k := fun hc => h (by simp [hc])
    have hrest : k ∉ m.map Prod.fst := fun hc => h (by simp [hc])
    simp only [mapPut, if_neg hne, ih hrest, List.cons_append]

/-- Assigning the entries of a map with one entry per key, in order, to fresh keys of
another map appends them. -/
theorem foldl_mapPut_fresh {κ α β : Type} [DecidableEq κ] (g : κ × α → β)
    (es : List (κ × α)) :
    ∀ acc : List (κ × β), (es.map Prod.fst).Nodup →
      (∀ e ∈ es, e.1 ∉ acc.map Prod.fst) →
      es.foldl (fun m e => mapPut m e.1 (g e)) acc = acc ++ es.map (fun e => (e.1, g e)) := by
  induction es with
  | nil => intro acc _ _; simp
  | cons e es ih =>
    intro acc hnd hdis
    have hnd' := List.nodup_cons.1 hnd
    simp only [List.foldl_cons, List.map_cons]
    rw [mapPut_of_not_mem (hdis e (List.mem_cons_self _ _))]
    rw [ih (acc ++ [(e.1, g e)]) hnd'.2 ?_]
    · simp
    · intro e' he' hc
      simp only [List.map_append, List.map_cons, List.map_nil, List.mem_append,
        List.mem_singleton] at hc
      rcases hc with hc | hc
      · exact hdis e' (List.mem_cons_of_mem _ he') hc
      · apply hnd'.1
        simp only [List.map_cons] at *
        rw [← hc]
        exact List.mem_map_of_mem _ he'

theorem WF_counts {b : IPBlock} (hb : b.WF) :
    0 ≤ b.Used ∧ b.Used ≤ b.Total ∧ b.Available = b.Total - b.Used ∧ 0 ≤ b.Available := by
  have h1 := Used_nonneg hb
  have h2 : b.Used ≤ b.Total := by
    rw [hb.used, hb.bm.count, ← hb.size]
    have := popcount_le b.bitmap
    have := hb.bm.nonneg
    omega
  have h3 : b.Available = b.Total - b.Used := by
    unfold IPBlock.Available Bitmap.Available
    rw [hb.size, hb.used]
  exact ⟨h1, h2, h3, by omega⟩

/-- The inner loop of `GetStats` keeps the three sums apart. -/
theorem nodeStats_fold (l : List IPBlock) :
    ∀ ns : NodeStats,
      l.foldl
        (fun ns block =>
          { ns with
              TotalIPs := toInt64 (ns.TotalIPs + block.Total),
              UsedIPs := toInt64 (ns.UsedIPs + block.Used),
              AvailableIPs := toInt64 (ns.AvailableIPs + block.Available) }) ns =
      NodeStats.mk ns.NodeID ns.Blocks
        (l.foldl (fun acc (b : IPBlock) => toInt64 (acc + b.Total)) ns.TotalIPs)
        (l.foldl (fun acc (b : IPBlock) => toInt64 (acc + b.Used)) ns.UsedIPs)
        (l.foldl (fun acc (b : IPBlock) => toInt64 (acc + b.Available)) ns.AvailableIPs) := by
  induction l with
  | nil => intro ns; rfl
  | cons b l ih =>
    intro ns
    simp only [List.foldl_cons]
    rw [ih]

/-- The statistics of one node entry whose blocks are well-formed and whose total fits. -/
theorem nodeStatsOf_eq (n : String) (l : List IPBlock) (hwf : ∀ b ∈ l, b.WF)
    (hb : (l.map (fun b => b.Total)).sum < 2 ^ 63) :
    Pool.nodeStatsOf n l =
      NodeStats.mk n (l.length : Int) (l.map (fun b => b.Total)).sum
        (l.map (fun b => b.Used)).sum (l.map (fun b => b.Available)).sum := by
  unfold Pool.nodeStatsOf
  rw [nodeStats_fold]
  have hU : (l.map (fun b => b.Used)).sum ≤ (l.map (fun b => b.Total)).sum :=
    sum_le_of _ _ l (fun b hb => (WF_counts (hwf b hb)).2.1)
  have hA : (l.map (fun b => b.Available)).sum ≤ (l.map (fun b => b.Total)).sum :=
    sum_le_of _ _ l (fun b hb => by have := WF_counts (hwf b hb); omega)
  rw [foldl_toInt64 (fun b => b.Total) l 0 (le_refl _)
      (fun b hb => by show 0 ≤ b.Total; have := WF_counts (hwf b hb); omega) (by omega),
    foldl_toInt64 (fun b => b.Used) l 0 (le_refl _)
      (fun b hb => (WF_counts (hwf b hb)).1) (by omega),
    foldl_toInt64 (fun b => b.Available) l 0 (le_refl _)
      (fun b hb => (WF_counts (hwf b hb)).2.2.2) (by omega)]
  simp only [zero_add]

/-- The outer loop of `GetStats` keeps its fields apart. -/
theorem poolStats_fold (es : List (String × List IPBlock)) :
    ∀ acc : PoolStats,
      es.foldl
        (fun stats e =>
          { stats with
              NodeStats := mapPut stats.NodeStats e.1 (Pool.nodeStatsOf e.1 e.2),
              TotalIPs := toInt64 (stats.TotalIPs + (Pool.nodeStatsOf e.1 e.2).TotalIPs),
              UsedIPs := toInt64 (stats.UsedIPs + (Pool.nodeStatsOf e.1 e.2).UsedIPs),
              AvailableIPs :=
                toInt64 (stats.AvailableIPs + (Pool.nodeStatsOf e.1 e.2).AvailableIPs) })
        acc =
      PoolStats.mk acc.TotalNodes acc.TotalBlocks
        (es.foldl (fun a (e : String × List IPBlock) =>
          toInt64 (a + (Pool.nodeStatsOf e.1 e.2).TotalIPs)) acc.TotalIPs)
        (es.foldl (fun a (e : String × List IPBlock) =>
          toInt64 (a + (Pool.nodeStatsOf e.1 e.2).UsedIPs)) acc.UsedIPs)
        (es.foldl (fun a (e : String × List IPBlock) =>
          toInt64 (a + (Pool.nodeStatsOf e.1 e.2).AvailableIPs)) acc.AvailableIPs)
        (es.foldl (fun m (e : String × List IPBlock) =>
          mapPut m e.1 (Pool.nodeStatsOf e.1 e.2)) acc.NodeStats) := by
  induction es with
  | nil => intro acc; rfl
  | cons e es ih =>
    intro acc
    simp only [List.foldl_cons]
    rw [ih]

theorem GetStats_unfold (p : Pool) :
    p.GetStats =
      p.nodeBlocks.foldl
        (fun stats e =>
          { stats with
              NodeStats := mapPut stats.NodeStats e.1 (Pool.nodeStatsOf e.1 e.2),
              TotalIPs := toInt64 (stats.TotalIPs + (Pool.nodeStatsOf e.1 e.2).TotalIPs),
              UsedIPs := toInt64 (stats.UsedIPs + (Pool.nodeStatsOf e.1 e.2).UsedIPs),
              AvailableIPs :=
                toInt64 (stats.AvailableIPs + (Pool.nodeStatsOf e.1 e.2).AvailableIPs) })
        (PoolStats.mk (p.nodeBlocks.length : Int) (p.allocatedBlocks.length : Int) 0 0 0 []) :=
  rfl

/-- `GetStats` on a pool with one entry per node, well-formed blocks and a total that
fits: the counts of the two maps, the three sums over all blocks, and for every node entry
its number of blocks and its three sums. -/
theorem GetStats_eq (p : Pool) (hnd : (p.nodeBlocks.map Prod.fst).Nodup)
    (hwf : ∀ e ∈ p.nodeBlocks, ∀ b ∈ e.2, b.WF)
    (hb : p.sumAll (fun b => b.Total) < 2 ^ 63) :
    p.GetStats =
      PoolStats.mk (p.nodeBlocks.length : Int) (p.allocatedBlocks.length : Int)
        (p.sumAll (fun b => b.Total)) (p.sumAll (fun b => b.Used))
        (p.sumAll (fun b => b.Available))
        (p.nodeBlocks.map (fun e => (e.1, NodeStats.mk e.1 (e.2.length : Int)
          (e.2.map (fun b => b.Total)).sum (e.2.map (fun b => b.Used)).sum
          (e.2.map (fun b => b.Available)).sum))) := by
  rw [GetStats_unfold, poolStats_fold]
  have hT0 : ∀ e ∈ p.nodeBlocks, 0 ≤ (e.2.map (fun b => b.Total)).sum := fun e he =>
    sum_nonneg_of _ _ (fun b hb => by have := WF_counts (hwf e he b hb); omega)
  have hle : ∀ (es : List (String × List IPBlock)), (∀ e ∈ es, e ∈ p.nodeBlocks) →
      ∀ e ∈ es, (e.2.map (fun b => b.Total)).sum ≤
        (es.map (fun e => (e.2.map (fun b => b.Total)).sum)).sum := by
    intro es
    induction es with
    | nil => intro _ e he; simp at he
    | cons x es ih =>
      intro hsub e he
      simp only [List.map_cons, List.sum_cons]
      have hx := hT0 x (hsub x (List.mem_cons_self _ _))
      have hrest : 0 ≤ (es.map (fun e => (e.2.map (fun b => b.Total)).sum)).sum :=
        sum_nonneg_of _ _ (fun y hy => hT0 y (hsub y (List.mem_cons_of_mem _ hy)))
      rcases List.mem_cons.1 he with rfl | he
      · omega
      · have := ih (fun y hy => hsub y (List.mem_cons_of_mem _ hy)) e he
        omega
  have hnode : ∀ e ∈ p.nodeBlocks, Pool.nodeStatsOf e.1 e.2 =
      NodeStats.mk e.1 (e.2.length : Int) (e.2.map (fun b => b.Total)).sum
        (e.2.map (fun b => b.Used)).sum (e.2.map (fun b => b.Available)).sum := by
    intro e he
    apply nodeStatsOf_eq e.1 e.2 (hwf e he)
    have := hle p.nodeBlocks (fun _ h => h) e he
    simp only [Pool.sumAll, sumBy] at hb
    omega
  have hU : p.sumAll (fun b => b.Used) ≤ p.sumAll (fun b => b.Total) := by
    unfold Pool.sumAll sumBy
    exact sum_le_of _ _ _ (fun e he =>
      sum_le_of _ _ _ (fun b hb => (WF_counts (hwf e he b hb)).2.1))
  have hA : p.sumAll (fun b => b.Available) ≤ p.sumAll (fun b => b.Total) := by
    unfold Pool.sumAll sumBy
    exact sum_le_of _ _ _ (fun e he =>
      sum_le_of _ _ _ (fun b hb => by have := WF_counts (hwf e he b hb); omega))
  have e1 := foldl_toInt64 (fun (e : String × List IPBlock) =>
      (Pool.nodeStatsOf e.1 e.2).TotalIPs) p.nodeBlocks 0 (le_refl _)
    (fun e he => by
      show 0 ≤ (Pool.nodeStatsOf e.1 e.2).TotalIPs
      rw [hnode e he]; exact hT0 e he)
    (by
      rw [sum_congr_of _ (fun e => (e.2.map (fun b => b.Total)).sum) _
        (fun e he => by rw [hnode e he])]
      simp only [Pool.sumAll, sumBy] at hb
      omega)
  have e2 := foldl_toInt64 (fun (e : String × List IPBlock) =>
      (Pool.nodeStatsOf e.1 e.2).UsedIPs) p.nodeBlocks 0 (le_refl _)
    (fun e he => by
      show 0 ≤ (Pool.nodeStatsOf e.1 e.2).UsedIPs
      rw [hnode e he]
      exact sum_nonneg_of _ _ (fun b hb => (WF_counts (hwf e he b hb)).1))
    (by
      rw [sum_congr_of _ (fun e => (e.2.map (fun b => b.Used)).sum) _
        (fun e he => by rw [hnode e he])]
      simp only [Pool.sumAll, sumBy] at hb hU
      omega)
  have e3 := foldl_toInt64 (fun (e : String × List IPBlock) =>
      (Pool.nodeStatsOf e.1 e.2).AvailableIPs) p.nodeBlocks 0 (le_refl _)
    (fun e he => by
      show 0 ≤ (Pool.nodeStatsOf e.1 e.2).AvailableIPs
      rw [hnode e he]
      exact sum_nonneg_of _ _ (fun b hb => (WF_counts (hwf e he b hb)).2.2.2))
    (by
      rw [sum_congr_of _ (fun e => (e.2.map (fun b => b.Available)).sum) _
        (fun e he => by rw [hnode e he])]
      simp only [Pool.sumAll, sumBy] at hb hA
      omega)
  have e4 := foldl_mapPut_fresh (fun (e : String × List IPBlock) =>
      Pool.nodeStatsOf e.1 e.2) p.nodeBlocks [] hnd (fun e _ => by simp)
  simp only [e1, e2, e3, e4, zero_add, List.nil_append]
  congr 1
  · exact sum_congr_of _ _ _ (fun e he => by rw [hnode e he])
  · exact sum_congr_of _ _ _ (fun e he => by rw [hnode e he])
  · exact sum_congr_of _ _ _ (fun e he => by rw [hnode e he])
  · exact List.map_congr_left (fun e he => by rw [hnode e he])

/-- The allocated map has at most as many entries as the pool has block numbers. -/
theorem allocated_length_le {p : Pool} (hc : p.Counts) :
    p.allocatedBlocks.length ≤ p.blocksCount := by
  have hsub : p.allocatedBlocks.map Prod.fst ⊆ (List.range p.blocksCount).map p.blockCIDR := by
    intro k hk
    obtain ⟨e, he, rfl⟩ := List.mem_map.1 hk
    obtain ⟨_, i, hi, hci⟩ := hc.marked e he
    rw [hci]
    exact List.mem_map_of_mem _ (List.mem_range.2 hi)
  have := (List.subperm_of_subset hc.keys hsub).length_le
  simpa using this

theorem entry_blocks {p : Pool} (hnd : (p.nodeBlocks.map Prod.fst).Nodup)
    {e : String × List IPBlock} (he : e ∈ p.nodeBlocks) : p.view.blocks e.1 = e.2 := by
  have : mapGet p.nodeBlocks e.1 = some e.2 := mapGet_of_mem hnd he
  exact blocks_of_get this

theorem sumAll_const (p : Pool) (K : Int) :
    p.sumAll (fun _ => K) = K * p.sumAll (fun _ => 1) := by
  unfold Pool.sumAll sumBy
  have h1 : ∀ l : List IPBlock, (l.map (fun _ => K)).sum = K * (l.map (fun _ => (1 : Int))).sum := by
    intro l
    induction l with
    | nil => simp
    | cons x l ih => simp only [List.map_cons, List.sum_cons, ih]; ring
  induction p.nodeBlocks with
  | nil => simp
  | cons e es ih =>
    simp only [List.map_cons, List.sum_cons]
    simp only [] at ih
    rw [ih, h1]
    ring

/-- On an IPv4 pool that satisfies the invariants the total of all blocks is at most
`2 ^ 32`. -/
theorem total_bound {p : Pool} {held : List IP} (h : p.PInv held) (hc : p.Counts) :
    (∀ e ∈ p.nodeBlocks, ∀ b ∈ e.2, b.WF) ∧ p.sumAll (fun b => b.Total) ≤ 2 ^ 32 := by
  obtain ⟨hcfg, hv, _⟩ := h
  have hwf : ∀ e ∈ p.nodeBlocks, ∀ b ∈ e.2, b.WF ∧ b.CIDR.ones = p.blockSize.toNat := by
    intro e he b hb
    exact hv.wf e.1 b (by rw [entry_blocks hc.nodes he]; exact hb)
  refine ⟨fun e he b hb => (hwf e he b hb).1, ?_⟩
  have hbs1 : p.clusterCIDR.ones < p.blockSize.toNat := by have := hcfg.size_gt; omega
  have hbs2 : p.blockSize.toNat ≤ 32 := by have := hcfg.size_le; omega
  have hle : p.sumAll (fun b => b.Total) ≤
      p.sumAll (fun _ => (2 : Int) ^ (32 - p.blockSize.toNat)) := by
    unfold Pool.sumAll sumBy
    refine sum_le_of _ _ _ (fun e he => sum_le_of _ _ _ (fun b hb => ?_))
    obtain ⟨hbw, hones⟩ := hwf e he b hb
    show b.Total ≤ 2 ^ (32 - p.blockSize.toNat)
    rw [hbw.total, hones]
    omega
  rw [sumAll_const, hc.total] at hle
  have hlen := allocated_length_le hc
  have hmul : (2 : Int) ^ (32 - p.blockSize.toNat) * (p.allocatedBlocks.length : Int) ≤
      2 ^ (32 - p.blockSize.toNat) * (p.blocksCount : Int) :=
    Int.mul_le_mul_of_nonneg_left (by exact_mod_cast hlen) (by positivity)
  have hpow : (2 : Int) ^ (32 - p.blockSize.toNat) * (p.blocksCount : Int) =
      2 ^ (32 - p.clusterCIDR.ones) := by
    unfold Pool.blocksCount
    push_cast
    rw [← pow_add]
    congr 1
    omega
  have h32 : (2 : Int) ^ (32 - p.clusterCIDR.ones) ≤ 2 ^ 32 :=
    pow_le_pow_right₀ (by norm_num) (by omega)
  omega

/-- `GetStats` on every pool that satisfies the invariants. -/
theorem GetStats_OK {t : TrackedPool} (hok : t.OK) (hc : t.pool.Counts) :
    (∀ e ∈ t.pool.nodeBlocks, ∀ b ∈ e.2, b.WF) ∧
    t.pool.GetStats =
      PoolStats.mk (t.pool.nodeBlocks.length : Int) (t.pool.allocatedBlocks.length : Int)
        (t.pool.sumAll (fun b => b.Total)) (t.pool.sumAll (fun b => b.Used))
        (t.pool.sumAll (fun b => b.Available))
        (t.pool.nodeBlocks.map (fun e => (e.1, NodeStats.mk e.1 (e.2.length : Int)
          (e.2.map (fun b => b.Total)).sum (e.2.map (fun b => b.Used)).sum
          (e.2.map (fun b => b.Available)).sum))) := by
  rcases hok with h | ⟨_, _, hnb, _⟩
  · obtain ⟨hwf, hb⟩ := total_bound h hc
    exact ⟨hwf, GetStats_eq t.pool hc.nodes hwf (by omega)⟩
  · have hwf : ∀ e ∈ t.pool.nodeBlocks, ∀ b ∈ e.2, b.WF := by
      intro e he; rw [hnb] at he; simp at he
    refine ⟨hwf, GetStats_eq t.pool hc.nodes hwf ?_⟩
    unfold Pool.sumAll sumBy
    rw [hnb]
    norm_num

end StatsProofs

/-! ## Held addresses and allocated bits -/

section HeldProofs

open Bitmap

/-- The block after the bit of a free position was set. -/
theorem WF_after_set {b : IPBlock} (hb : b.WF) {q : Nat} (hq : (q : Int) < b.Total)
    (hbit : bitAt b.bitmap q = false) :
    (IPBlock.mk b.CIDR b.NodeID b.Total (b.Used + 1) (b.bitmap.Set (q : Int)).1).WF ∧
    ∀ p, bitAt (b.bitmap.Set (q : Int)).1 p = (decide (p = q) || bitAt b.bitmap p) := by
  rcases Set_cases b.bitmap hb.bm (q : Int) with ⟨h, _⟩ | ⟨p, hp, _, hbp, _⟩ |
    ⟨p, hp, _, _, _, hsize, hall, _, _, hbits⟩
  · rw [hb.size] at h; omega
  · have : p = q := by omega
    subst this
    rw [hbit] at hbp
    exact Bool.noConfusion hbp
  · have : p = q := by omega
    subst this
    refine ⟨⟨hb.bits, hb.ones, hb.addr_lt, hb.aligned, hb.total, WF_Set _ hb.bm _, ?_, ?_⟩, hbits⟩
    · show (b.bitmap.Set (p : Int)).1.size = b.Total
      rw [hsize, hb.size]
    · show b.Used + 1 = (b.bitmap.Set (p : Int)).1.allocated
      rw [hall, hb.used]

/-- The block after the bit of an allocated position was cleared. -/
theorem WF_after_clear {b : IPBlock} (hb : b.WF) {q : Nat} (hq : (q : Int) < b.Total)
    (hbit : bitAt b.bitmap q = true) :
    (IPBlock.mk b.CIDR b.NodeID b.Total (b.Used - 1) (b.bitmap.Clear (q : Int)).1).WF ∧
    ∀ p, bitAt (b.bitmap.Clear (q : Int)).1 p = (!decide (p = q) && bitAt b.bitmap p) := by
  rcases Clear_cases b.bitmap hb.bm (q : Int) with ⟨h, _⟩ | ⟨p, hp, _, hbp, _⟩ |
    ⟨p, hp, _, _, _, hsize, hall, _, _, hbits⟩
  · rw [hb.size] at h; omega
  · have : p = q := by omega
    subst this
    rw [hbit] at hbp
    exact Bool.noConfusion hbp
  · have : p = q := by omega
    subst this
    refine ⟨⟨hb.bits, hb.ones, hb.addr_lt, hb.aligned, hb.total, WF_Clear _ hb.bm _, ?_, ?_⟩,
      hbits⟩
    · show (b.bitmap.Clear (p : Int)).1.size = b.Total
      rw [hsize, hb.size]
    · show b.Used - 1 = (b.bitmap.Clear (p : Int)).1.allocated
      rw [hall, hb.used]

/-- The addresses allocated in a block after the address of position `q` was allocated. -/
theorem Contains_after_set {b : IPBlock} (hb : b.WF) {q : Nat} (hq : (q : Int) < b.Total)
    (hbit : bitAt b.bitmap q = false) (ip : IP) :
    (IPBlock.mk b.CIDR b.NodeID b.Total (b.Used + 1) (b.bitmap.Set (q : Int)).1).Contains ip =
        true ↔
      ip = IP.v4 (b.CIDR.addr + q + 1) ∨ b.Contains ip = true := by
  obtain ⟨hwf, hbits⟩ := WF_after_set hb hq hbit
  rw [Contains_iff hwf, Contains_iff hb]
  constructor
  · rintro ⟨p, hip, hp, hbp⟩
    rw [hbits p] at hbp
    by_cases hpq : p = q
    · left; rw [hip, hpq]
    · right
      simp only [hpq, decide_False, Bool.false_or] at hbp
      exact ⟨p, hip, hp, hbp⟩
  · rintro (hip | ⟨p, hip, hp, hbp⟩)
    · exact ⟨q, hip, hq, by rw [hbits q]; simp⟩
    · exact ⟨p, hip, hp, by rw [hbits p, hbp]; simp⟩

/-- The addresses allocated in a block after the address of position `q` was released. -/
theorem Contains_after_clear {b : IPBlock} (hb : b.WF) {q : Nat} (hq : (q : Int) < b.Total)
    (hbit : bitAt b.bitmap q = true) (ip : IP) :
    (IPBlock.mk b.CIDR b.NodeID b.Total (b.Used - 1) (b.bitmap.Clear (q : Int)).1).Contains ip =
        true ↔
      ip ≠ IP.v4 (b.CIDR.addr + q + 1) ∧ b.Contains ip = true := by
  obtain ⟨hwf, hbits⟩ := WF_after_clear hb hq hbit
  rw [Contains_iff hwf, Contains_iff hb]
  constructor
  · rintro ⟨p, hip, hp, hbp⟩
    rw [hbits p] at hbp
    have hpq : p ≠ q := by
      intro hc; rw [hc] at hbp; simp at hbp
    simp only [hpq, decide_False, Bool.not_false, Bool.true_and] at hbp
    refine ⟨?_, p, hip, hp, hbp⟩
    rw [hip]
    intro hc
    have h2 : b.CIDR.addr + p + 1 = b.CIDR.addr + q + 1 := IP.v4.inj hc
    omega
  · rintro ⟨hne, p, hip, hp, hbp⟩
    have hpq : p ≠ q := by
      intro hc; rw [hc] at hip; exact hne hip
    exact ⟨p, hip, hp, by rw [hbits p, hbp]; simp [hpq]⟩

theorem filter_ne_length {l : List IP} (hnd : l.Nodup) {a : IP} (ha : a ∈ l) :
    (l.filter (fun x => decide (x ≠ a))).length + 1 = l.length := by
  induction l with
  | nil => simp at ha
  | cons x l ih =>
    have hnd' := List.nodup_cons.1 hnd
    by_cases hx : x = a
    · subst hx
      have h1 : (l.filter (fun y => decide (y ≠ x))) = l := by
        apply List.filter_eq_self.2
        intro y hy
        have : y ≠ x := fun hc => hnd'.1 (hc ▸ hy)
        exact decide_eq_true this
      have h2 : ((x :: l).filter (fun y => decide (y ≠ x))) =
          l.filter (fun y => decide (y ≠ x)) :=
        List.filter_cons_of_neg (by simp)
      rw [h2, h1, List.length_cons]
    · have ha' : a ∈ l := by
        rcases List.mem_cons.1 ha with h | h
        · exact absurd h.symm hx
        · exact h
      have h2 : ((x :: l).filter (fun y => decide (y ≠ a))) =
          x :: l.filter (fun y => decide (y ≠ a)) :=
        List.filter_cons_of_pos (decide_eq_true hx)
      rw [h2, List.length_cons, List.length_cons, ih hnd'.2 ha']

/-- One call keeps the held addresses exactly the allocated ones, and their number grows
by 1 with a successful allocation and falls by 1 with a successful release. -/
theorem HeldExact_step {t : TrackedPool} (h : t.pool.PInv t.held) (hx : t.HeldExact)
    (op : PoolOp) :
    (t.step op).HeldExact ∧
    ((t.step op).held.length : Int) = (t.held.length : Int) + t.deltaAll op := by
  have hpinv := h
  obtain ⟨hcfg, hinv, _⟩ := h
  obtain ⟨hnd, hconv⟩ := hx
  have hwf : ∀ n, ∀ b ∈ t.pool.view.blocks n, b.WF := fun n b hb => (hinv.wf n b hb).1
  have same : ∀ p', p' = t.pool → (TrackedPool.mk p' t.held).HeldExact := by
    intro p' hp'
    rw [hp']
    exact ⟨hnd, hconv⟩
  cases op with
  | allocateBlock m =>
    refine ⟨?_, (add_zero _).symm⟩
    show (TrackedPool.mk (t.pool.AllocateBlockForNode m).1 t.held).HeldExact
    cases hf : t.pool.findAvailableBlock with
    | error e => exact same _ (by simp only [Pool.AllocateBlockForNode, hf])
    | ok c =>
      cases hnew : NewIPBlock c m with
      | error e => exact same _ (by simp only [Pool.AllocateBlockForNode, hf, hnew])
      | ok blk =>
        have hres : (t.pool.AllocateBlockForNode m).1 =
            Pool.mk t.pool.clusterCIDR t.pool.blockSize
              (mapPut t.pool.nodeBlocks m (t.pool.view.blocks m ++ [blk]))
              (mapPut t.pool.allocatedBlocks c true) := by
          simp only [Pool.AllocateBlockForNode, hf, hnew]
          rfl
        obtain ⟨_, hbw, _, _, hused⟩ := fresh_block hcfg hf hnew
        rw [hres]
        refine ⟨hnd, fun n b hb ip hcon => ?_⟩
        rw [blocks_put_at] at hb
        by_cases hn : n = m
        · rw [if_pos hn] at hb
          rcases List.mem_append.1 hb with hb | hb
          · exact hconv m b hb ip hcon
          · rw [List.mem_singleton.1 hb, Contains_of_unused hbw (by omega)] at hcon
            exact Bool.noConfusion hcon
        · rw [if_neg hn] at hb
          exact hconv n b hb ip hcon
  | releaseBlock m c =>
    refine ⟨?_, (add_zero _).symm⟩
    show (TrackedPool.mk (t.pool.ReleaseBlockForNode m c).1 t.held).HeldExact
    cases hr : (t.pool.ReleaseBlockForNode m c).2 with
    | some e =>
      rcases ReleaseBlockForNode_form t.pool m c with ⟨_, h1⟩ | ⟨_, _, _, h1⟩ |
        ⟨_, _, _, _, _, _, _, h1⟩ | ⟨_, _, _, _, _, _, h1⟩
      · exact same _ (by rw [h1])
      · exact same _ (by rw [h1])
      · exact same _ (by rw [h1])
      · rw [h1] at hr; exact Option.noConfusion hr
    | none =>
      obtain ⟨blocks, i, x, hg, _, hxi, _, _, hres⟩ := ReleaseBlockForNode_ok hr
      have hbl : t.pool.view.blocks m = blocks := blocks_of_get hg
      obtain ⟨l1, l2, hl, her⟩ := eraseIdx_split blocks i x hxi
      rw [hres]
      refine ⟨hnd, fun n b hb ip hcon => ?_⟩
      rw [blocks_put_at] at hb
      by_cases hn : n = m
      · rw [if_pos hn, her] at hb
        apply hconv m b _ ip hcon
        rw [hbl, hl]
        rcases List.mem_append.1 hb with hb | hb
        · exact List.mem_append_left _ hb
        · exact List.mem_append_right _ (List.mem_cons_of_mem _ hb)
      · rw [if_neg hn] at hb
        exact hconv n b hb ip hcon
  | allocateIP m =>
    rcases AllocateIPForNode_outcomes hcfg m (hwf m) with
      ⟨l1, b, l2, q, hl, _, _, hq, hbit, _, hres⟩ | ⟨_, ⟨e, _, hres⟩ | ⟨c, e, _, _, hres⟩ |
        ⟨c, blk, hf, hnew, hres⟩⟩
    · have hd2 : t.deltaAll (PoolOp.allocateIP m) = 1 := by
        simp only [TrackedPool.deltaAll, hres]
      rw [step_allocateIP_ok hres, hd2]
      have hbm : b ∈ t.pool.view.blocks m := by rw [hl]; simp
      have hbw := hwf m b hbm
      have hnew := (Contains_after_set hbw hq hbit (IP.v4 (b.CIDR.addr + q + 1))).2 (Or.inl rfl)
      have hnot : b.Contains (IP.v4 (b.CIDR.addr + q + 1)) = false := by
        cases hcb : b.Contains (IP.v4 (b.CIDR.addr + q + 1)) with
        | false => rfl
        | true =>
          obtain ⟨p, hip, _, hbp⟩ := (Contains_iff hbw _).1 hcb
          have h2 : b.CIDR.addr + q + 1 = b.CIDR.addr + p + 1 := IP.v4.inj hip
          have : p = q := by omega
          rw [this, hbit] at hbp
          exact Bool.noConfusion hbp
      have hfresh : IP.v4 (b.CIDR.addr + q + 1) ∉ t.held :=
        not_held_of_block hpinv hbm hnot (Contains_CIDR (b := IPBlock.mk b.CIDR b.NodeID
          b.Total (b.Used + 1) (b.bitmap.Set (q : Int)).1) hnew)
      refine ⟨⟨List.nodup_cons.2 ⟨hfresh, hnd⟩, fun n x hxm ip hcon => ?_⟩, by
        simp only [List.length_cons]; push_cast; ring⟩
      rw [blocks_put_at] at hxm
      by_cases hn : n = m
      · rw [if_pos hn] at hxm
        have hold : ∀ y ∈ l1 ++ b :: l2, y.Contains ip = true →
            ip ∈ IP.v4 (b.CIDR.addr + q + 1) :: t.held := fun y hy hc =>
          List.mem_cons_of_mem _ (hconv m y (by rw [hl]; exact hy) ip hc)
        rcases List.mem_append.1 hxm with hx1 | hx1
        · exact hold x (List.mem_append_left _ hx1) hcon
        · rcases List.mem_cons.1 hx1 with hx1 | hx1
          · rw [hx1] at hcon
            rcases (Contains_after_set hbw hq hbit ip).1 hcon with hip | hcb
            · rw [hip]; exact List.mem_cons_self _ _
            · exact hold b (by simp) hcb
          · exact hold x (List.mem_append_right _ (List.mem_cons_of_mem _ hx1)) hcon
      · rw [if_neg hn] at hxm
        exact List.mem_cons_of_mem _ (hconv n x hxm ip hcon)
    · have hd2 : t.deltaAll (PoolOp.allocateIP m) = 0 := by
        simp only [TrackedPool.deltaAll, hres]
      rw [step_allocateIP_error hres, hd2]
      exact ⟨⟨hnd, hconv⟩, (add_zero _).symm⟩
    · have hd2 : t.deltaAll (PoolOp.allocateIP m) = 0 := by
        simp only [TrackedPool.deltaAll, hres]
      rw [step_allocateIP_error hres, hd2]
      exact ⟨⟨hnd, hconv⟩, (add_zero _).symm⟩
    · have hd2 : t.deltaAll (PoolOp.allocateIP m) = 1 := by
        simp only [TrackedPool.deltaAll, hres]
      rw [step_allocateIP_ok hres, hd2]
      obtain ⟨hfree, hbw, hones, hstr, hused⟩ := fresh_block hcfg hf hnew
      have hq0 : ((0 : Nat) : Int) < blk.Total := by
        have h1 := hbw.total
        have h2 := hbw.ones
        have : (2 : Int) ^ 2 ≤ 2 ^ (32 - blk.CIDR.ones) :=
          pow_le_pow_right₀ (by norm_num) (by omega)
        rw [h1]; push_cast; omega
      have hbit0 : bitAt blk.bitmap 0 = false := by
        obtain ⟨addr, rfl, hlt, _, _⟩ := findAvailableBlock_spec hcfg hf
        obtain ⟨_, _, hval⟩ := WF_NewIPBlock hlt hnew
        rw [hval]; exact NewBitmap_bitAt _ 0
      have hcs := Contains_after_set hbw hq0 hbit0
      simp only [hused, zero_add, Nat.cast_zero, add_zero] at hcs
      have hnewc := (hcs (IP.v4 (blk.CIDR.addr + 1))).2 (Or.inl rfl)
      have hfresh : IP.v4 (blk.CIDR.addr + 1) ∉ t.held :=
        not_held_of_fresh hpinv hfree hbw.bits hones hstr (Contains_CIDR
          (b := IPBlock.mk blk.CIDR blk.NodeID blk.Total 1 (blk.bitmap.Set 0).1) hnewc)
      refine ⟨⟨List.nodup_cons.2 ⟨hfresh, hnd⟩, fun n x hxm ip hcon => ?_⟩, by
        simp only [List.length_cons]; push_cast; ring⟩
      rw [blocks_put_at] at hxm
      by_cases hn : n = m
      · rw [if_pos hn] at hxm
        rcases List.mem_append.1 hxm with hx1 | hx1
        · exact List.mem_cons_of_mem _ (hconv m x hx1 ip hcon)
        · rw [List.mem_singleton.1 hx1] at hcon
          rcases (hcs ip).1 hcon with hip | hcb
          · rw [hip]; exact List.mem_cons_self _ _
          · rw [Contains_of_unused hbw (by omega)] at hcb
            exact Bool.noConfusion hcb
      · rw [if_neg hn] at hxm
        exact List.mem_cons_of_mem _ (hconv n x hxm ip hcon)
  | releaseIP ip m =>
    rcases ReleaseIP_flat_outcomes t.pool ip m (hwf m) with ⟨e, hres⟩ |
      ⟨l1, b, l2, q, hl, hl1, hin, hbit, hq, hip, hres⟩
    · have hd2 : t.deltaAll (PoolOp.releaseIP ip m) = 0 := by
        simp only [TrackedPool.deltaAll, hres]
      rw [step_releaseIP_error hres, hd2]
      exact ⟨⟨hnd, hconv⟩, (add_zero _).symm⟩
    · have hd2 : t.deltaAll (PoolOp.releaseIP ip m) = -1 := by
        simp only [TrackedPool.deltaAll, hres]
      rw [step_releaseIP_ok hres, hd2]
      have hbm : b ∈ t.pool.view.blocks m := by rw [hl]; simp
      have hbw := hwf m b hbm
      have hcb : b.Contains ip = true := (Contains_iff hbw ip).2 ⟨q, hip, hq, hbit⟩
      have hheld : ip ∈ t.held := hconv m b hbm ip hcb
      have hmem : ∀ ip', ip' ∈ t.held → ip' ≠ ip →
          ip' ∈ t.held.filter (fun x => decide (x ≠ ip)) := fun ip' h1 h2 =>
        List.mem_filter.2 ⟨h1, decide_eq_true h2⟩
      -- a block other than `b` that contains the address has another CIDR
      have hother : ∀ n, ∀ x ∈ t.pool.view.blocks n, x.CIDR ≠ b.CIDR →
          x.Contains ip = true → False := by
        intro n x hxm hne hcx
        exact hne (same_CIDR_of_Contains (hwf n x hxm) hbw.bits
          (by rw [(hinv.wf n x hxm).2, (hinv.wf m b hbm).2]) (Contains_CIDR hcx) hin)
      have hndm := hinv.nodup m
      rw [hl, List.map_append, List.map_cons] at hndm
      have hndm2 := (List.nodup_cons.1 (List.nodup_append.1 hndm).2.1).1
      refine ⟨⟨hnd.filter _, fun n x hxm ip' hcon => ?_⟩, by
        have := filter_ne_length hnd hheld
        show ((t.held.filter (fun x => decide (x ≠ ip))).length : Int) = _
        omega⟩
      rw [blocks_put_at] at hxm
      by_cases hn : n = m
      · rw [if_pos hn] at hxm
        rcases List.mem_append.1 hxm with hx1 | hx1
        · have hxo : x ∈ t.pool.view.blocks m := by rw [hl]; exact List.mem_append_left _ hx1
          refine hmem ip' (hconv m x hxo ip' hcon) (fun hc => ?_)
          rw [hc] at hcon
          have := hl1 x hx1
          rw [Contains_CIDR hcon] at this
          exact Bool.noConfusion this
        · rcases List.mem_cons.1 hx1 with hx1 | hx1
          · rw [hx1] at hcon
            obtain ⟨hne, hcb'⟩ := (Contains_after_clear hbw hq hbit ip').1 hcon
            exact hmem ip' (hconv m b hbm ip' hcb') (by rw [hip]; exact hne)
          · have hxo : x ∈ t.pool.view.blocks m := by
              rw [hl]; exact List.mem_append_right _ (List.mem_cons_of_mem _ hx1)
            refine hmem ip' (hconv m x hxo ip' hcon) (fun hc => ?_)
            rw [hc] at hcon
            refine hother m x hxo (fun hcc => hndm2 ?_) hcon
            rw [← hcc]
            exact List.mem_map_of_mem _ hx1
      · rw [if_neg hn] at hxm
        refine hmem ip' (hconv n x hxm ip' hcon) (fun hc => ?_)
        rw [hc] at hcon
        exact hother n x hxm (fun hcc => hinv.cross n m hn x hxm b hbm hcc) hcon

theorem step_v6_eq {t : TrackedPool} (hbits : t.pool.clusterCIDR.bits ≠ 32)
    (hm : isV4Mapped t.pool.clusterCIDR.addr = true → 32 < t.pool.blockSize)
    (hnb : t.pool.nodeBlocks = []) (op : PoolOp) : t.step op = t := by
  have hno := findAvailableBlock_v6 hbits hm
  have hget : ∀ n, mapGet t.pool.nodeBlocks n = none := by intro n; rw [hnb]; rfl
  cases op with
  | allocateBlock n =>
    show TrackedPool.mk (t.pool.AllocateBlockForNode n).1 t.held = t
    rw [AllocateBlockForNode_v6 hno n]
  | releaseBlock n c =>
    have hres : t.pool.ReleaseBlockForNode n c = (t.pool, some Err.ErrNodeNotFound) := by
      simp only [Pool.ReleaseBlockForNode, hget]
    show TrackedPool.mk (t.pool.ReleaseBlockForNode n c).1 t.held = t
    rw [hres]
  | allocateIP n =>
    obtain ⟨e, hres⟩ := AllocateIPForNode_v6 hno hnb n
    rw [step_allocateIP_error hres]
  | releaseIP ip n =>
    have hres : t.pool.ReleaseIP ip n = (t.pool, some Err.ErrNodeNotFound) := by
      simp only [Pool.ReleaseIP, hget]
    rw [step_releaseIP_error hres]

/-- The held addresses along a sequence of calls. -/
theorem HeldExact_run (ops : List PoolOp) :
    ∀ t : TrackedPool, t.OK → t.HeldExact →
      (t.run ops).HeldExact ∧
      ((t.run ops).held.length : Int) = (t.held.length : Int) + t.heldTotal ops := by
  induction ops with
  | nil => intro t _ hx; exact ⟨hx, (add_zero _).symm⟩
  | cons op ops ih =>
    intro t hok hx
    have hstep : (t.step op).HeldExact ∧
        ((t.step op).held.length : Int) = (t.held.length : Int) + t.deltaAll op := by
      rcases hok with h | ⟨hbits, hm, hnb, _⟩
      · exact HeldExact_step h hx op
      · rw [step_v6_eq hbits hm hnb op, (step_effect_v6 hbits hm hnb op).2.2]
        exact ⟨hx, (add_zero _).symm⟩
    obtain ⟨i1, i2⟩ := ih (t.step op) (OK_step hok op) hstep.1
    refine ⟨i1, ?_⟩
    show (((t.step op).run ops).held.length : Int) =
      (t.held.length : Int) + (t.deltaAll op + (t.step op).heldTotal ops)
    rw [i2, hstep.2]; ring

end HeldProofs

/-! ## C36 -/

section StatsClaim

/-- C36: on every pool reachable from `NewPool` by `AllocateBlockForNode`,
`ReleaseBlockForNode`, `AllocateIPForNode` and `ReleaseIP` calls, `GetStats` reports
`UsedIPs` equal to the number of addresses currently held, which is the number of
successful `AllocateIPForNode` calls minus the number of successful `ReleaseIP` calls; for
every node entry a `NodeStats` with its number of blocks and with `UsedIPs` equal to the
number of successful `AllocateIPForNode` calls minus successful `ReleaseIP` calls for that
node, and no `NodeStats` for a node without entry; `TotalIPs = UsedIPs + AvailableIPs`,
for the pool and for every node; `TotalBlocks` equal to the sum of the per-node block
counts; `TotalNodes` equal to the number of node entries. -/
theorem C36_pool_stats (config : PoolConfig) (p0 : Pool) (ops : List PoolOp)
    (hnew : NewPool config = Except.ok p0) :
    (TrackedPool.run ⟨p0, []⟩ ops).pool.GetStats.UsedIPs =
      ((TrackedPool.run ⟨p0, []⟩ ops).held.length : Int) ∧
    (TrackedPool.run ⟨p0, []⟩ ops).held.Nodup ∧
    (TrackedPool.run ⟨p0, []⟩ ops).pool.GetStats.UsedIPs =
      TrackedPool.heldTotal ⟨p0, []⟩ ops ∧
    (∀ n blocks, mapGet (TrackedPool.run ⟨p0, []⟩ ops).pool.nodeBlocks n = some blocks →
      ∃ ns, mapGet (TrackedPool.run ⟨p0, []⟩ ops).pool.GetStats.NodeStats n = some ns ∧
        ns.NodeID = n ∧ ns.Blocks = (blocks.length : Int) ∧
        ns.UsedIPs = TrackedPool.heldBy ⟨p0, []⟩ n ops ∧
        ns.TotalIPs = ns.UsedIPs + ns.AvailableIPs) ∧
    (∀ n, mapGet (TrackedPool.run ⟨p0, []⟩ ops).pool.nodeBlocks n = none →
      mapGet (TrackedPool.run ⟨p0, []⟩ ops).pool.GetStats.NodeStats n = none ∧
      TrackedPool.heldBy ⟨p0, []⟩ n ops = 0) ∧
    (TrackedPool.run ⟨p0, []⟩ ops).pool.GetStats.TotalIPs =
      (TrackedPool.run ⟨p0, []⟩ ops).pool.GetStats.UsedIPs +
        (TrackedPool.run ⟨p0, []⟩ ops).pool.GetStats.AvailableIPs ∧
    (TrackedPool.run ⟨p0, []⟩ ops).pool.GetStats.TotalBlocks =
      sumBy (fun (ns : NodeStats) => ns.Blocks)
        (TrackedPool.run ⟨p0, []⟩ ops).pool.GetStats.NodeStats ∧
    (TrackedPool.run ⟨p0, []⟩ ops).pool.GetStats.TotalNodes =
      ((TrackedPool.run ⟨p0, []⟩ ops).pool.nodeBlocks.length : Int) ∧
    ((TrackedPool.run ⟨p0, []⟩ ops).pool.GetStats.NodeStats.length : Int) =
      (TrackedPool.run ⟨p0, []⟩ ops).pool.GetStats.TotalNodes := by
  obtain ⟨hok, hc, hby, hall⟩ := Counts_Reachable hnew ops
  obtain ⟨hx, hlen⟩ := HeldExact_run ops ⟨p0, []⟩ (OK_NewPool hnew)
    ⟨List.nodup_nil, fun n b hb => by
      rw [show (TrackedPool.mk p0 []).pool.view.blocks n = [] from by
        show (mapGet p0.nodeBlocks n).getD [] = []
        rw [(Counts_NewPool hnew).2]; rfl] at hb
      simp at hb⟩
  obtain ⟨hwf, hstats⟩ := GetStats_OK hok hc
  generalize TrackedPool.run ⟨p0, []⟩ ops = t at *
  have hsplit : ∀ e ∈ t.pool.nodeBlocks,
      (e.2.map (fun b => b.Total)).sum =
        (e.2.map (fun b => b.Used)).sum + (e.2.map (fun b => b.Available)).sum := by
    intro e he
    have : ∀ l : List IPBlock, (∀ b ∈ l, b.WF) →
        (l.map (fun b => b.Total)).sum =
          (l.map (fun b => b.Used)).sum + (l.map (fun b => b.Available)).sum := by
      intro l
      induction l with
      | nil => intro _; simp
      | cons b l ih =>
        intro hl
        have hb := WF_counts (hl b (List.mem_cons_self _ _))
        have := ih (fun y hy => hl y (List.mem_cons_of_mem _ hy))
        simp only [List.map_cons, List.sum_cons]
        omega
    exact this e.2 (hwf e he)
  have hget : ∀ n, mapGet (t.pool.nodeBlocks.map (fun e => (e.1, NodeStats.mk e.1
      (e.2.length : Int) (e.2.map (fun b => b.Total)).sum (e.2.map (fun b => b.Used)).sum
      (e.2.map (fun b => b.Available)).sum))) n =
      (mapGet t.pool.nodeBlocks n).map (fun l => NodeStats.mk n (l.length : Int)
        (l.map (fun b => b.Total)).sum (l.map (fun b => b.Used)).sum
        (l.map (fun b => b.Available)).sum) := by
    intro n
    induction t.pool.nodeBlocks with
    | nil => rfl
    | cons e es ih =>
      obtain ⟨k, l⟩ := e
      by_cases hk : k = n
      · subst hk; simp [mapGet]
      · simp only [List.map_cons, mapGet, if_neg hk, ih]
  rw [hstats]
  simp only
  refine ⟨by rw [hall, hlen]; simp, hx.1, hall, fun n blocks hg => ?_, fun n hg => ?_, ?_, ?_,
    trivial, by simp⟩
  · refine ⟨_, by rw [hget n, hg]; rfl, rfl, rfl, ?_, ?_⟩
    · rw [← hby n]
      unfold Pool.sumOf
      rw [blocks_of_get hg]
    · exact hsplit (n, blocks) (mapGet_some_mem hg)
  · refine ⟨by rw [hget n, hg]; rfl, ?_⟩
    rw [← hby n]
    unfold Pool.sumOf Pool.view
    simp only [hg]
    rfl
  · unfold Pool.sumAll sumBy
    have : ∀ es : List (String × List IPBlock), (∀ e ∈ es, e ∈ t.pool.nodeBlocks) →
        (es.map (fun e => (e.2.map (fun b => b.Total)).sum)).sum =
          (es.map (fun e => (e.2.map (fun b => b.Used)).sum)).sum +
            (es.map (fun e => (e.2.map (fun b => b.Available)).sum)).sum := by
      intro es
      induction es with
      | nil => intro _; simp
      | cons e es ih =>
        intro hsub
        have h1 := hsplit e (hsub e (List.mem_cons_self _ _))
        have h2 := ih (fun y hy => hsub y (List.mem_cons_of_mem _ hy))
        simp only [List.map_cons, List.sum_cons]
        omega
    exact this _ (fun _ h => h)
  · rw [← hc.total]
    unfold Pool.sumAll sumBy
    simp only [List.map_map]
    apply sum_congr_of
    intro e _
    simp

/-- C36, instance: on the pool `10.244.0.0/16` with `/24` blocks, after five allocations
for `node1` and three for `node2`, `GetStats` reports 8 used addresses, 2 nodes and 2
blocks, and 5 and 3 used addresses for the two nodes. -/
theorem C36_pool_stats_witness :
    NewPool (PoolConfig.mk (CIDRString.v4 183762944 16) 24) =
      Except.ok (Pool.mk ⟨183762944, 16, 32⟩ 24 [] []) ∧
    (TrackedPool.run ⟨Pool.mk ⟨183762944, 16, 32⟩ 24 [] [], []⟩
      statsScenario).pool.GetStats.UsedIPs = 8 ∧
    (TrackedPool.run ⟨Pool.mk ⟨183762944, 16, 32⟩ 24 [] [], []⟩
      statsScenario).pool.GetStats.TotalNodes = 2 ∧
    (TrackedPool.run ⟨Pool.mk ⟨183762944, 16, 32⟩ 24 [] [], []⟩
      statsScenario).pool.GetStats.TotalBlocks = 2 ∧
    TrackedPool.heldBy ⟨Pool.mk ⟨183762944, 16, 32⟩ 24 [] [], []⟩ "node1" statsScenario = 5 ∧
    TrackedPool.heldBy ⟨Pool.mk ⟨183762944, 16, 32⟩ 24 [] [], []⟩ "node2" statsScenario = 3 :=
  ⟨rfl,
    (C36_pool_stats (PoolConfig.mk (CIDRString.v4 183762944 16) 24)
      (Pool.mk ⟨183762944, 16, 32⟩ 24 [] []) statsScenario rfl).2.2.1.trans (by decide),
    (C36_pool_stats (PoolConfig.mk (CIDRString.v4 183762944 16) 24)
      (Pool.mk ⟨183762944, 16, 32⟩ 24 [] []) statsScenario rfl).2.2.2.2.2.2.2.1.trans
      (by decide),
    by decide, by decide, by decide⟩

end StatsClaim

/-! ## The gateway of a block (C40) -/

section GatewayProofs

open Bitmap

theorem calculateGateway_WF {b : IPBlock} (hb : b.WF) :
    IPAMServer.calculateGateway b.CIDR = IPString.v4 (b.CIDR.addr + 1) ∧
    (0 : Int) < b.Total ∧ b.positionToIP 0 = IP.v4 (b.CIDR.addr + 1) := by
  have ht : (2 : Int) ≤ b.Total := by
    rw [hb.total]
    have : (2 : Int) ^ 2 ≤ 2 ^ (32 - b.CIDR.ones) :=
      pow_le_pow_right₀ (by norm_num) (by have := hb.ones; omega)
    omega
  have hr := block_range b.CIDR.addr b.CIDR.ones (by have := hb.ones; omega) hb.addr_lt
    hb.aligned
  have h4 : (4 : Nat) ≤ 2 ^ (32 - b.CIDR.ones) := by
    have : 2 ^ 2 ≤ 2 ^ (32 - b.CIDR.ones) :=
      Nat.pow_le_pow_right (by decide) (by have := hb.ones; omega)
    omega
  refine ⟨?_, by omega, ?_⟩
  · unfold IPAMServer.calculateGateway IPNet.To4
    rw [if_pos hb.bits, Nat.mod_eq_of_lt hb.addr_lt]
    simp only [IP.String]
    rw [Nat.mod_eq_of_lt (by omega)]
  · have := positionToIP_WF hb 0 (by push_cast; omega)
    simpa using this

/-- C40: for every block `NewIPBlock` makes for an IPv4 CIDR, `calculateGateway` of its
CIDR is the text of network + 1, the address of bitmap position 0, which is the address the
first `Allocate` on the fresh block returns.  On every pool reachable from `NewPool`, when
the server's `AllocateIP` succeeds, the gateway of the response is the text of network + 1
of the block the address came from, and that address is allocated in the block after the
call (handed out by this call or by an earlier one); when the call creates the block, the
address of the response is the gateway itself. -/
theorem C40_gateway_is_first_address (config : PoolConfig) (t : TrackedPool)
    (hr : Pool.ReachableFrom config t) :
    (∀ (a p : Nat) (nodeID : String) (b : IPBlock), a < 2 ^ 32 →
      NewIPBlock (CIDRString.v4 a p) nodeID = Except.ok b →
      IPAMServer.calculateGateway b.CIDR = IPString.v4 (b.CIDR.addr + 1) ∧
      b.positionToIP 0 = IP.v4 (b.CIDR.addr + 1) ∧
      b.Allocate.2 = Except.ok (IP.v4 (b.CIDR.addr + 1)) ∧
      (IP.v4 (b.CIDR.addr + 1)).String = IPAMServer.calculateGateway b.CIDR) ∧
    (∀ (req : AllocateIPRequest) (ip : IP) (blk : IPBlock),
      (t.pool.AllocateIPForNode req.NodeID).2 = Except.ok (ip, blk) →
      ∃ resp, ((IPAMServer.mk t.pool).AllocateIP req).2 = Except.ok resp ∧
        resp.IP = ip.String ∧
        resp.Gateway = IPString.v4 (blk.CIDR.addr + 1) ∧
        blk ∈ (t.pool.AllocateIPForNode req.NodeID).1.view.blocks req.NodeID ∧
        blk.Contains (IP.v4 (blk.CIDR.addr + 1)) = true ∧
        ((∀ x ∈ t.pool.view.blocks req.NodeID, x.CIDR ≠ blk.CIDR) →
          resp.IP = resp.Gateway)) := by
  refine ⟨fun a p nodeID b ha hnew => ?_, fun req ip blk hres => ?_⟩
  · obtain ⟨hwf, _, _⟩ := WF_NewIPBlock ha hnew
    obtain ⟨h1, _, h3⟩ := calculateGateway_WF hwf
    refine ⟨h1, h3, by rw [Allocate_fresh ha hnew], by rw [h1]; rfl⟩
  · have hok := OK_Reachable hr
    rcases hok with hinv | ⟨hbits, hm, hnb, _⟩
    swap
    · obtain ⟨e, he⟩ := AllocateIPForNode_v6 (findAvailableBlock_v6 hbits hm) hnb req.NodeID
      rw [he] at hres
      exact Except.noConfusion hres
    obtain ⟨hcfg, hv, _⟩ := hinv
    have hwf : ∀ x ∈ t.pool.view.blocks req.NodeID, x.WF :=
      fun x hx => (hv.wf req.NodeID x hx).1
    have hresp : ∀ p' , t.pool.AllocateIPForNode req.NodeID = (p', Except.ok (ip, blk)) →
        ((IPAMServer.mk t.pool).AllocateIP req).2 = Except.ok
          (AllocateIPResponse.mk ip.String (cidrText ip blk.CIDR.ones)
            (IPAMServer.calculateGateway blk.CIDR) [Route.mk "0.0.0.0/0" ""]) := by
      intro p' h
      simp only [IPAMServer.AllocateIP, h]
    rcases AllocateIPForNode_outcomes hcfg req.NodeID hwf with
      ⟨l1, b, l2, q, hl, _, _, hq, hbit, hbelow, h⟩ | ⟨_, ⟨e, _, h⟩ | ⟨c, e, _, _, h⟩ |
        ⟨c, b, hf, hnew, h⟩⟩
    · rw [h] at hres
      have hpair := Except.ok.inj hres
      have hip := (Prod.mk.inj hpair).1
      have hblk := (Prod.mk.inj hpair).2
      have hbm : b ∈ t.pool.view.blocks req.NodeID := by rw [hl]; simp
      have hbw := hwf b hbm
      obtain ⟨hwf', _⟩ := WF_after_set hbw hq hbit
      rw [hblk] at hwf'
      obtain ⟨hg, _, _⟩ := calculateGateway_WF hwf'
      have hcon : blk.Contains (IP.v4 (blk.CIDR.addr + 1)) = true := by
        rw [← hblk]
        apply (Contains_after_set hbw hq hbit _).2
        by_cases hq0 : q = 0
        · left; rw [hq0]
        · right
          exact (Contains_iff hbw _).2 ⟨0, rfl, by omega, hbelow 0 (by omega)⟩
      refine ⟨_, hresp _ (by rw [h, hip, hblk]), rfl, hg, ?_, hcon, fun hno => ?_⟩
      · rw [h, blocks_put_at, if_pos rfl, ← hblk]
        simp
      · exact absurd (by rw [← hblk]) (hno b hbm)
    · rw [h] at hres; exact Except.noConfusion hres
    · rw [h] at hres; exact Except.noConfusion hres
    · rw [h] at hres
      have hpair := Except.ok.inj hres
      have hip := (Prod.mk.inj hpair).1
      have hblk := (Prod.mk.inj hpair).2
      obtain ⟨_, hbw, _, _, hused⟩ := fresh_block hcfg hf hnew
      have hq0 : ((0 : Nat) : Int) < b.Total := by
        have := (calculateGateway_WF hbw).2.1
        simpa using this
      have hbit0 : bitAt b.bitmap 0 = false := by
        obtain ⟨addr, rfl, hlt, _, _⟩ := findAvailableBlock_spec hcfg hf
        obtain ⟨_, _, hval⟩ := WF_NewIPBlock hlt hnew
        rw [hval]; exact NewBitmap_bitAt _ 0
      obtain ⟨hwf', _⟩ := WF_after_set hbw hq0 hbit0
      have hcs := Contains_after_set hbw hq0 hbit0
      simp only [hused, zero_add, Nat.cast_zero, add_zero] at hcs hwf'
      rw [hblk] at hwf'
      obtain ⟨hg, _, _⟩ := calculateGateway_WF hwf'
      have hcon : blk.Contains (IP.v4 (blk.CIDR.addr + 1)) = true := by
        rw [← hblk]
        exact (hcs _).2 (Or.inl rfl)
      refine ⟨_, hresp _ (by rw [h, hip, hblk]), rfl, hg, ?_, hcon, fun _ => ?_⟩
      · rw [h, blocks_put_at, if_pos rfl, ← hblk]
        simp
      · show ip.String = IPAMServer.calculateGateway blk.CIDR
        rw [hg, ← hip, ← hblk]
        rfl

end GatewayProofs

/-! ## The low-capacity condition of the server (C35) -/

section LowCapacityProofs

open Bitmap

/-- The number of binary digits: `bitLength` is exact when the fuel covers the number. -/
theorem bitLength_spec : ∀ (fuel n : Nat), n < 2 ^ fuel →
    (n = 0 ∧ bitLength fuel n = 0) ∨
    (2 ^ (bitLength fuel n - 1) ≤ n ∧ n < 2 ^ bitLength fuel n ∧ 0 < bitLength fuel n) := by
  intro fuel
  induction fuel with
  | zero =>
    intro n hn
    left
    exact ⟨by simpa using hn, rfl⟩
  | succ f ih =>
    intro n hn
    by_cases h0 : n = 0
    · left; exact ⟨h0, by simp [bitLength, h0]⟩
    · right
      have hlen : bitLength (f + 1) n = bitLength f (n / 2) + 1 := by
        simp [bitLength, h0]
      rw [hlen]
      have hhalf : n / 2 < 2 ^ f := by
        rw [pow_succ] at hn
        omega
      rcases ih (n / 2) hhalf with ⟨hz, hl⟩ | ⟨h1, h2, h3⟩
      · rw [hl]
        refine ⟨?_, ?_, by omega⟩
        · simp only [zero_add, Nat.sub_self, pow_zero]; omega
        · simp only [zero_add, pow_one]; omega
      · refine ⟨?_, ?_, by omega⟩
        · have : bitLength f (n / 2) + 1 - 1 = (bitLength f (n / 2) - 1) + 1 := by omega
          rw [this, pow_succ]
          omega
        · rw [pow_succ]
          omega

/-- On the totals of well-formed blocks, `int(float64(Total)*0.2)` is the integer quotient
`Total / 5`. -/
theorem intOfFloatTimesFifth_total : ∀ k : Nat, 2 ≤ k → k ≤ 32 →
    intOfFloatTimesFifth ((2 : Int) ^ k - 2) = ((2 : Int) ^ k - 2) / 5 := by
  intro k h1 h2
  interval_cases k <;> decide

/-- The condition of `checkAndAllocateBlock` on a well-formed block: it holds exactly when
`Available < Total / 5` with the integer quotient, that is when
`5 * (Available + 1) ≤ Total`.  It is implied by `5 * Available < Total` only when
`Total - 5 * Available` is at least 5. -/
theorem lowCapacity_iff {b : IPBlock} (hb : b.WF) :
    (IPAMServer.lowCapacity b = true ↔ 5 * (b.Available + 1) ≤ b.Total) ∧
    (IPAMServer.lowCapacity b = true → 5 * b.Available < b.Total) := by
  have hq : intOfFloatTimesFifth b.Total = b.Total / 5 := by
    rw [hb.total]
    exact intOfFloatTimesFifth_total (32 - b.CIDR.ones) (by have := hb.ones; omega) (by omega)
  have h1 : IPAMServer.lowCapacity b = true ↔ b.Available < b.Total / 5 := by
    unfold IPAMServer.lowCapacity
    rw [hq, decide_eq_true_iff]
  constructor
  · rw [h1]; omega
  · intro h; have := h1.1 h; omega

/-- A fresh block of 254 addresses after 204 and after 205 allocations. -/
theorem lowCapacity_254 {b : IPBlock} (hb : b.WF)
    (hfresh : ∀ q : Nat, bitAt b.bitmap q = false) (hu : b.Used = 0) (ht : b.Total = 254) :
    (b.allocN 204).Total = 254 ∧ (b.allocN 204).Used = 204 ∧
    (b.allocN 204).Available = 50 ∧
    5 * (b.allocN 204).Available < (b.allocN 204).Total ∧
    intOfFloatTimesFifth (b.allocN 204).Total = 50 ∧
    IPAMServer.lowCapacity (b.allocN 204) = false ∧
    IPAMServer.checkAndAllocateBlock true (b.allocN 204) = false ∧
    (b.allocN 205).Available = 49 ∧
    IPAMServer.lowCapacity (b.allocN 205) = true := by
  obtain ⟨w4, _, t4, u4, _⟩ := allocN_state hb hfresh 204 (by rw [ht]; norm_num)
  obtain ⟨w5, _, t5, u5, _⟩ := allocN_state hb hfresh 205 (by rw [ht]; norm_num)
  rw [ht] at t4 t5
  rw [hu] at u4 u5
  have a4 := (WF_counts w4).2.2.1
  have a5 := (WF_counts w5).2.2.1
  rw [t4, u4] at a4
  rw [t5, u5] at a5
  have a4' : (b.allocN 204).Available = 50 := by rw [a4]; norm_num
  have a5' : (b.allocN 205).Available = 49 := by rw [a5]; norm_num
  have hq : intOfFloatTimesFifth 254 = 50 := by decide
  have l4 : IPAMServer.lowCapacity (b.allocN 204) = false := by
    unfold IPAMServer.lowCapacity
    rw [a4', t4, hq]
    decide
  have l5 : IPAMServer.lowCapacity (b.allocN 205) = true := by
    unfold IPAMServer.lowCapacity
    rw [a5', t5, hq]
    decide
  refine ⟨t4, by rw [u4]; norm_num, a4', by rw [a4', t4]; norm_num, by rw [t4]; exact hq,
    l4, ?_, a5', l5⟩
  unfold IPAMServer.checkAndAllocateBlock
  rw [l4]
  rfl

/-- C35: on the block `NewIPBlock` makes for 10.244.0.0/24 (Total 254), after 204
allocations `Available` is 50 and `5 * Available < Total` holds (50 is below 20% of 254,
which is 50.8), yet the condition of `checkAndAllocateBlock`,
`Available < int(float64(Total)*0.2)`, is false, because the conversion to `int` cuts 50.8
down to 50, and the server asks for no new block; the condition first holds after 205
allocations. -/
theorem C35_low_capacity_at_204 :
    ∃ b : IPBlock, NewIPBlock (CIDRString.v4 183762944 24) "node1" = Except.ok b ∧
      (b.allocN 204).Total = 254 ∧ (b.allocN 204).Used = 204 ∧
      (b.allocN 204).Available = 50 ∧
      5 * (b.allocN 204).Available < (b.allocN 204).Total ∧
      intOfFloatTimesFifth (b.allocN 204).Total = 50 ∧
      IPAMServer.lowCapacity (b.allocN 204) = false ∧
      IPAMServer.checkAndAllocateBlock true (b.allocN 204) = false ∧
      (b.allocN 205).Available = 49 ∧
      IPAMServer.lowCapacity (b.allocN 205) = true := by
  have hnew := NewIPBlock_v4_ok 183762944 24 "node1" (by decide) (by decide)
  obtain ⟨hwf, _, _⟩ := WF_NewIPBlock (by decide) hnew
  exact ⟨_, hnew, lowCapacity_254 hwf (fun q => NewBitmap_bitAt _ q) rfl
    (by show (2 : Int) ^ (32 - 24) - 2 = 254; norm_num)⟩

end LowCapacityProofs

/-! ## The sequential mode of an IPv6 block (C38) -/

section SequentialProofs

/-- `Allocate` on a block without bitmap. -/
theorem seq_Allocate (c : IPNet) (n : String) (u : Nat) (hu : u ≤ 2 ^ 32) :
    (u < 2 ^ 32 → (IPv6Block.mk c n (2 ^ 32) u none).Allocate =
      (IPv6Block.mk c n (2 ^ 32) ((u + 1 : Nat) : Int) none,
        Except.ok ((IPv6Block.mk c n (2 ^ 32) u none).positionToIPv6 u))) ∧
    (u = 2 ^ 32 → (IPv6Block.mk c n (2 ^ 32) u none).Allocate =
      (IPv6Block.mk c n (2 ^ 32) u none, Except.error Err.ErrNoAvailableIP)) := by
  constructor
  · intro h
    have hlt : ¬ ((u : Int) ≥ 2 ^ 32) := by
      have : (u : Int) < 2 ^ 32 := by exact_mod_cast h
      omega
    simp only [IPv6Block.Allocate, hlt, if_false]
    rw [toInt64_of_range (by omega) (by omega)]
    push_cast
    rfl
  · intro h
    have hge : (u : Int) ≥ 2 ^ 32 := by
      have : (u : Int) = 2 ^ 32 := by exact_mod_cast h
      omega
    simp only [IPv6Block.Allocate, hge, if_true]

/-- `Release` on a block without bitmap: an address outside the CIDR is refused; for any
address inside, held or not, `Used` goes down by one unless it is 0. -/
theorem seq_Release (c : IPNet) (n : String) (u : Nat) (hu : u ≤ 2 ^ 32) (ip : IP) :
    (c.Contains ip = false → (IPv6Block.mk c n (2 ^ 32) u none).Release ip =
      (IPv6Block.mk c n (2 ^ 32) u none, some Err.ErrIPNotInBlock)) ∧
    (c.Contains ip = true → (IPv6Block.mk c n (2 ^ 32) u none).Release ip =
      (IPv6Block.mk c n (2 ^ 32) ((u - 1 : Nat) : Int) none, none)) := by
  have hu' : (u : Int) ≤ 2 ^ 32 := by exact_mod_cast hu
  constructor
  · intro h
    simp only [IPv6Block.Release, h, Bool.not_false, if_true]
  · intro h
    simp only [IPv6Block.Release, h, Bool.not_true, Bool.false_eq_true, if_false]
    by_cases h0 : u = 0
    · subst h0
      simp
    · have hpos : (u : Int) > 0 := by
        have : 0 < u := Nat.pos_of_ne_zero h0
        exact_mod_cast this
      rw [if_pos hpos, toInt64_of_range (by omega) (by omega)]
      have : ((u - 1 : Nat) : Int) = (u : Int) - 1 := by omega
      rw [this]

/-- Every state of a block without bitmap: only `Used` changes, within `0..Total`. -/
theorem seq_run (b0 : IPv6Block) :
    ∀ (ops : List V6Op) (u : Nat), u ≤ 2 ^ 32 →
      ∃ u' : Nat, u' ≤ 2 ^ 32 ∧
        (IPv6Block.mk b0.CIDR b0.NodeID (2 ^ 32) u none).run ops =
          IPv6Block.mk b0.CIDR b0.NodeID (2 ^ 32) u' none := by
  intro ops
  induction ops with
  | nil => intro u hu; exact ⟨u, hu, rfl⟩
  | cons op ops ih =>
    intro u hu
    cases op with
    | allocate =>
      rcases Nat.lt_or_ge u (2 ^ 32) with hlt | hge
      · have h := (seq_Allocate b0.CIDR b0.NodeID u hu).1 hlt
        obtain ⟨u', hu', hrun⟩ := ih (u + 1) (by omega)
        refine ⟨u', hu', ?_⟩
        show (IPv6Block.run (IPv6Block.Allocate _).1 ops) = _
        rw [h]
        exact hrun
      · have h := (seq_Allocate b0.CIDR b0.NodeID u hu).2 (by omega)
        obtain ⟨u', hu', hrun⟩ := ih u hu
        refine ⟨u', hu', ?_⟩
        show (IPv6Block.run (IPv6Block.Allocate _).1 ops) = _
        rw [h]
        exact hrun
    | release ip =>
      cases hc : b0.CIDR.Contains ip with
      | false =>
        have h := (seq_Release b0.CIDR b0.NodeID u hu ip).1 hc
        obtain ⟨u', hu', hrun⟩ := ih u hu
        refine ⟨u', hu', ?_⟩
        show (IPv6Block.run (IPv6Block.Release _ ip).1 ops) = _
        rw [h]
        exact hrun
      | true =>
        have h := (seq_Release b0.CIDR b0.NodeID u hu ip).2 hc
        obtain ⟨u', hu', hrun⟩ := ih (u - 1) (by omega)
        refine ⟨u', hu', ?_⟩
        show (IPv6Block.run (IPv6Block.Release _ ip).1 ops) = _
        rw [h]
        exact hrun

/-- Consecutive `Allocate` calls on a block without bitmap: `Used` after `k` calls. -/
theorem seq_allocN (c : IPNet) (n : String) (u : Nat) (hu : u ≤ 2 ^ 32) :
    ∀ k : Nat, (IPv6Block.mk c n (2 ^ 32) u none).allocN k =
      IPv6Block.mk c n (2 ^ 32) ((min (u + k) (2 ^ 32) : Nat) : Int) none := by
  intro k
  induction k with
  | zero =>
    show IPv6Block.mk c n (2 ^ 32) u none = _
    rw [Nat.add_zero, Nat.min_eq_left hu]
  | succ k ih =>
    show ((IPv6Block.mk c n (2 ^ 32) u none).allocN k).Allocate.1 = _
    rw [ih]
    rcases Nat.lt_or_ge (u + k) (2 ^ 32) with hlt | hge
    · rw [Nat.min_eq_left (Nat.le_of_lt hlt),
        (seq_Allocate c n (u + k) (Nat.le_of_lt hlt)).1 hlt]
      have : min (u + (k + 1)) (2 ^ 32) = u + k + 1 := by
        rw [Nat.min_eq_left (by omega)]; omega
      rw [this]
    · rw [Nat.min_eq_right hge, (seq_Allocate c n (2 ^ 32) (le_refl _)).2 rfl,
        Nat.min_eq_right (by omega)]

/-- C38, as stated, fails: on the block of `2001:db8::/64`, which has 64 host bits and no
bitmap, `Allocate` returns `2001:db8::`, then `2001:db8::1`; after `Release` of the first
address the next `Allocate` returns `2001:db8::1` again, which was never released. -/
theorem C38_sequential_no_reissue_counterexample :
    ∃ b : IPv6Block,
      NewIPv6Block (CIDRString.v6 42540766411282592856903984951653826560 64) "node1" =
        Except.ok b ∧
      b.bitmap = none ∧
      b.Allocate.2 = Except.ok (IP.v6 42540766411282592856903984951653826560) ∧
      b.Allocate.1.Allocate.2 = Except.ok (IP.v6 42540766411282592856903984951653826561) ∧
      (b.Allocate.1.Allocate.1.Release (IP.v6 42540766411282592856903984951653826560)).2 =
        none ∧
      (b.Allocate.1.Allocate.1.Release
        (IP.v6 42540766411282592856903984951653826560)).1.Allocate.2 =
        Except.ok (IP.v6 42540766411282592856903984951653826561) :=
  ⟨IPv6Block.mk ⟨42540766411282592856903984951653826560, 64, 128⟩ "node1" (2 ^ 32) 0 none,
    by decide, rfl, by decide, by decide, by decide, by decide⟩

/-- C38, amended: for every block `NewIPv6Block` makes without bitmap (more than 32 host
bits) and every sequence `ops` of `Allocate` and `Release` calls, the block keeps its CIDR
and has no bitmap, with `Used = u` between 0 and `Total`; `Allocate` fails when
`u = Total` and else returns network address + `u` and makes `Used = u + 1`; `Release` of
an address of the CIDR, held or not, returns no error and only lowers `Used` by one
(unless it is 0), and `Release` of another address fails and changes nothing.  So an
address returned by `Allocate` is not returned again by a later `Allocate` unless some
`Release` call has been made in between: of further consecutive `Allocate` calls, no two
return the same address. -/
theorem C38_sequential_no_reissue (c : CIDRString) (nodeID : String) (b0 : IPv6Block)
    (hnew : NewIPv6Block c nodeID = Except.ok b0)
    (hbits : 32 < b0.CIDR.bits - b0.CIDR.ones) (ops : List V6Op) :
    ∃ u : Nat, u ≤ 2 ^ 32 ∧
      b0.run ops = IPv6Block.mk b0.CIDR nodeID (2 ^ 32) u none ∧
      (u = 2 ^ 32 → (b0.run ops).Allocate = (b0.run ops, Except.error Err.ErrNoAvailableIP)) ∧
      (u < 2 ^ 32 → (b0.run ops).Allocate =
        (IPv6Block.mk b0.CIDR nodeID (2 ^ 32) ((u + 1 : Nat) : Int) none,
          Except.ok (IP.v6 (b0.CIDR.addr + u)))) ∧
      (∀ ip, b0.CIDR.Contains ip = true → (b0.run ops).Release ip =
        (IPv6Block.mk b0.CIDR nodeID (2 ^ 32) ((u - 1 : Nat) : Int) none, none)) ∧
      (∀ ip, b0.CIDR.Contains ip = false → (b0.run ops).Release ip =
        (b0.run ops, some Err.ErrIPNotInBlock)) ∧
      (∀ (i j : Nat) (ip ip' : IP), i < j →
        ((b0.run ops).allocN i).Allocate.2 = Except.ok ip →
        ((b0.run ops).allocN j).Allocate.2 = Except.ok ip' → ip ≠ ip') := by
  obtain ⟨a, k, hc, ha, hk, hm, hcidr, hnode, hused, _, hbig⟩ := NewIPv6Block_spec hnew
  have hk32 : 32 < 128 - k := by rw [hcidr] at hbits; exact hbits
  obtain ⟨htot, hbm⟩ := hbig hk32
  have hb0 : b0 = IPv6Block.mk b0.CIDR b0.NodeID (2 ^ 32) ((0 : Nat) : Int) none := by
    cases b0 with
    | mk C N T U B =>
      simp only at htot hbm hused
      rw [htot, hbm, hused]
      rfl
  have hpos : ∀ (v : Nat) (x : Nat), x < 2 ^ 32 →
      (IPv6Block.mk b0.CIDR b0.NodeID (2 ^ 32) v none).positionToIPv6 x =
        IP.v6 (b0.CIDR.addr + x) := by
    intro v x hx
    have := positionToIPv6_fresh hnew x (by rw [htot]; exact_mod_cast hx)
    rw [← this]
    rfl
  obtain ⟨u, hu, hrun⟩ := seq_run b0 ops 0 (by omega)
  rw [← hb0] at hrun
  rw [hnode] at hrun hpos
  refine ⟨u, hu, hrun, ?_, ?_, ?_, ?_, ?_⟩
  · intro h
    rw [hrun]
    exact (seq_Allocate _ _ u hu).2 h
  · intro h
    rw [hrun, (seq_Allocate _ _ u hu).1 h, hpos u u h]
  · intro ip hip
    rw [hrun]
    exact (seq_Release _ _ u hu ip).2 hip
  · intro ip hip
    rw [hrun]
    exact (seq_Release _ _ u hu ip).1 hip
  · intro i j ip ip' hij hi hj
    rw [hrun, seq_allocN _ _ u hu] at hi hj
    have key : ∀ (m : Nat) (x : IP),
        (IPv6Block.mk b0.CIDR nodeID (2 ^ 32) ((min (u + m) (2 ^ 32) : Nat) : Int)
          none).Allocate.2 = Except.ok x →
        u + m < 2 ^ 32 ∧ x = IP.v6 (b0.CIDR.addr + (u + m)) := by
      intro m x hx
      rcases Nat.lt_or_ge (u + m) (2 ^ 32) with hlt | hge
      · refine ⟨hlt, ?_⟩
        rw [Nat.min_eq_left (Nat.le_of_lt hlt),
          (seq_Allocate _ _ (u + m) (Nat.le_of_lt hlt)).1 hlt, hpos _ _ hlt] at hx
        exact (Except.ok.inj hx).symm
      · rw [Nat.min_eq_right hge, (seq_Allocate _ _ (2 ^ 32) (le_refl _)).2 rfl] at hx
        exact Except.noConfusion hx
    obtain ⟨_, h1⟩ := key i ip hi
    obtain ⟨_, h2⟩ := key j ip' hj
    rw [h1, h2]
    intro heq
    have := IP.v6.inj heq
    omega

/-- C38 amended, instance: on the block of `2001:db8::/64` after `Allocate`, `Allocate`,
`Release` of the first address, `Used` is 1 and the next `Allocate` returns
`2001:db8::1`. -/
theorem C38_sequential_no_reissue_witness :
    ∃ u : Nat, u ≤ 2 ^ 32 ∧
      (IPv6Block.mk ⟨42540766411282592856903984951653826560, 64, 128⟩ "node1" (2 ^ 32) 0
        none).run [V6Op.allocate, V6Op.allocate,
          V6Op.release (IP.v6 42540766411282592856903984951653826560)] =
      IPv6Block.mk ⟨42540766411282592856903984951653826560, 64, 128⟩ "node1" (2 ^ 32) u
        none := by
  obtain ⟨u, hu, hrun, _⟩ := C38_sequential_no_reissue
    (CIDRString.v6 42540766411282592856903984951653826560 64) "node1"
    (IPv6Block.mk ⟨42540766411282592856903984951653826560, 64, 128⟩ "node1" (2 ^ 32) 0 none)
    (by decide) (by decide)
    [V6Op.allocate, V6Op.allocate, V6Op.release (IP.v6 42540766411282592856903984951653826560)]
  exact ⟨u, hu, hrun⟩

end SequentialProofs

/-! ## Parent ids and node paths of a topology (C34) -/

section NodePathProofs

theorem isSome_mapPut {κ ν : Type} [DecidableEq κ] (m : List (κ × ν)) (k k' : κ) (v : ν)
    (h : (mapGet m k').isSome = true) : (mapGet (mapPut m k v) k').isSome = true := by
  rw [mapGet_mapPut]
  split_ifs
  · rfl
  · exact h

theorem mapGet_mapPut_cases {κ ν : Type} [DecidableEq κ] {m : List (κ × ν)} {k k' : κ}
    {v w : ν} (h : mapGet (mapPut m k v) k' = some w) :
    (k' = k ∧ w = v) ∨ (k' ≠ k ∧ mapGet m k' = some w) := by
  rw [mapGet_mapPut] at h
  split_ifs at h with hk
  · left; exact ⟨hk, (Option.some.inj h).symm⟩
  · right; exact ⟨hk, h⟩

theorem Linked_step {t : Topology} (h : t.Linked) (op : TopologyOp) : (t.step op).Linked := by
  obtain ⟨hp, ht, hn⟩ := h
  cases op with
  | addZone zone =>
    show (t.AddZone zone).1.Linked
    unfold Topology.AddZone
    split_ifs with hz
    · exact ⟨hp, ht, hn⟩
    · refine ⟨fun k pod hk => ?_, ht, hn⟩
      obtain ⟨h1, h2⟩ := hp k pod hk
      exact ⟨h1, isSome_mapPut _ _ _ _ h2⟩
  | addPod pod =>
    show (t.AddPod pod).1.Linked
    unfold Topology.AddPod
    cases hz : mapGet t.Zones pod.ZoneID with
    | none => exact ⟨hp, ht, hn⟩
    | some zone =>
      simp only []
      split_ifs with hex
      · exact ⟨hp, ht, hn⟩
      · refine ⟨fun k q hk => ?_, fun k tor hk => ?_, hn⟩
        · rcases mapGet_mapPut_cases hk with ⟨h1, h2⟩ | ⟨_, h2⟩
          · rw [h2]
            refine ⟨h1.symm, ?_⟩
            show (mapGet (mapPut t.Zones pod.ZoneID _) pod.ZoneID).isSome = true
            rw [mapGet_mapPut_self]; rfl
          · obtain ⟨h3, h4⟩ := hp k q h2
            exact ⟨h3, isSome_mapPut _ _ _ _ h4⟩
        · obtain ⟨h1, h2⟩ := ht k tor hk
          exact ⟨h1, isSome_mapPut _ _ _ _ h2⟩
  | addTOR tor =>
    show (t.AddTOR tor).1.Linked
    unfold Topology.AddTOR
    cases hz : mapGet t.Pods tor.PodID with
    | none => exact ⟨hp, ht, hn⟩
    | some pod =>
      simp only []
      split_ifs with hex
      · exact ⟨hp, ht, hn⟩
      · refine ⟨fun k q hk => ?_, fun k r hk => ?_, fun k node hk => ?_⟩
        · have hk' : mapGet (mapPut t.Pods tor.PodID
              { pod with TORs := keyInsert pod.TORs tor.ID }) k = some q := hk
          rw [mapGet_mapPut] at hk'
          split_ifs at hk' with hkk
          · have hq := (Option.some.inj hk').symm
            obtain ⟨h1, h2⟩ := hp tor.PodID pod hz
            rw [hq]
            exact ⟨by rw [hkk]; exact h1, h2⟩
          · exact hp k q hk'
        · rcases mapGet_mapPut_cases hk with ⟨h1, h2⟩ | ⟨_, h2⟩
          · rw [h2]
            refine ⟨h1.symm, ?_⟩
            show (mapGet (mapPut t.Pods tor.PodID _) tor.PodID).isSome = true
            rw [mapGet_mapPut_self]; rfl
          · obtain ⟨h3, h4⟩ := ht k r h2
            exact ⟨h3, isSome_mapPut _ _ _ _ h4⟩
        · obtain ⟨h1, h2⟩ := hn k node hk
          exact ⟨h1, isSome_mapPut _ _ _ _ h2⟩
  | registerNode node =>
    show (t.RegisterNode node).1.Linked
    unfold Topology.RegisterNode
    cases hz : mapGet t.TORs node.TORID with
    | none => exact ⟨hp, ht, hn⟩
    | some tor =>
      simp only []
      split_ifs with hex
      · exact ⟨hp, ht, hn⟩
      · refine ⟨hp, fun k r hk => ?_, fun k q hk => ?_⟩
        · have hk' : mapGet (mapPut t.TORs node.TORID
              { tor with Nodes := tor.Nodes ++ [node.ID] }) k = some r := hk
          rw [mapGet_mapPut] at hk'
          split_ifs at hk' with hkk
          · have hq := (Option.some.inj hk').symm
            obtain ⟨h1, h2⟩ := ht node.TORID tor hz
            rw [hq]
            exact ⟨by rw [hkk]; exact h1, h2⟩
          · exact ht k r hk'
        · rcases mapGet_mapPut_cases hk with ⟨h1, h2⟩ | ⟨_, h2⟩
          · rw [h2]
            refine ⟨h1.symm, ?_⟩
            show (mapGet (mapPut t.TORs node.TORID _) node.TORID).isSome = true
            rw [mapGet_mapPut_self]; rfl
          · obtain ⟨h3, h4⟩ := hn k q h2
            exact ⟨h3, isSome_mapPut _ _ _ _ h4⟩

theorem Linked_run : ∀ (ops : List TopologyOp) {t : Topology}, t.Linked → (t.run ops).Linked
  | [], _, h => h
  | op :: ops, _, h => Linked_run ops (Linked_step h op)

theorem Linked_NewTopology : NewTopology.Linked :=
  ⟨fun _ _ h => Option.noConfusion h, fun _ _ h => Option.noConfusion h,
    fun _ _ h => Option.noConfusion h⟩

/-- A registered node stays registered, unchanged. -/
theorem Nodes_step {t : Topology} {k : String} {node : Node}
    (h : mapGet t.Nodes k = some node) (op : TopologyOp) :
    mapGet (t.step op).Nodes k = some node := by
  cases op with
  | addZone zone =>
    show mapGet (t.AddZone zone).1.Nodes k = some node
    unfold Topology.AddZone
    split_ifs <;> exact h
  | addPod pod =>
    show mapGet (t.AddPod pod).1.Nodes k = some node
    unfold Topology.AddPod
    cases mapGet t.Zones pod.ZoneID with
    | none => exact h
    | some zone =>
      simp only []
      split_ifs <;> exact h
  | addTOR tor =>
    show mapGet (t.AddTOR tor).1.Nodes k = some node
    unfold Topology.AddTOR
    cases mapGet t.Pods tor.PodID with
    | none => exact h
    | some pod =>
      simp only []
      split_ifs <;> exact h
  | registerNode n =>
    show mapGet (t.RegisterNode n).1.Nodes k = some node
    unfold Topology.RegisterNode
    cases mapGet t.TORs n.TORID with
    | none => exact h
    | some tor =>
      simp only []
      split_ifs with hex
      · exact h
      · show mapGet (mapPut t.Nodes n.ID n) k = some node
        rw [mapGet_mapPut]
        split_ifs with hk
        · rw [← hk, h] at hex
          exact absurd rfl hex
        · exact h

theorem Nodes_run : ∀ (ops : List TopologyOp) {t : Topology} {k : String} {node : Node},
    mapGet t.Nodes k = some node → mapGet (t.run ops).Nodes k = some node
  | [], _, _, _, h => h
  | op :: ops, _, _, _, h => Nodes_run ops (Nodes_step h op)

/-- A successful `RegisterNode` stores the node under its id. -/
theorem RegisterNode_ok {t : Topology} {node : Node} (h : (t.RegisterNode node).2 = none) :
    mapGet (t.RegisterNode node).1.Nodes node.ID = some node := by
  unfold Topology.RegisterNode at h ⊢
  cases hz : mapGet t.TORs node.TORID with
  | none => rw [hz] at h; exact Option.noConfusion h
  | some tor =>
    rw [hz] at h
    simp only [] at h ⊢
    by_cases hex : (mapGet t.Nodes node.ID).isSome = true
    · rw [if_pos hex] at h
      exact Option.noConfusion h
    · rw [if_neg hex]
      exact mapGet_mapPut_self _ _ _

/-- C34: in every topology built from `NewTopology()` by `AddZone`, `AddPod`, `AddTOR` and
`RegisterNode` calls, successful or failing, in any order, every pod's `ZoneID` is the key
of a stored zone, every TOR's `PodID` the key of a stored pod and every node's `TORID` the
key of a stored TOR, each stored under its own id; for every registered node `GetNodePath`
succeeds and returns `Zone.Name/Pod.Name/TOR.Name/Node.Name` of the TOR, pod and zone its
parent ids lead to; it fails with `node not found` for a node id that is not registered;
and a node a successful `RegisterNode` stored stays registered, unchanged, under all later
calls. -/
theorem C34_node_path (ops : List TopologyOp) :
    (NewTopology.run ops).Linked ∧
    (∀ nodeID node, mapGet (NewTopology.run ops).Nodes nodeID = some node →
      ∃ tor pod zone, node.ID = nodeID ∧
        mapGet (NewTopology.run ops).TORs node.TORID = some tor ∧
        mapGet (NewTopology.run ops).Pods tor.PodID = some pod ∧
        mapGet (NewTopology.run ops).Zones pod.ZoneID = some zone ∧
        (NewTopology.run ops).GetNodePath nodeID =
          Except.ok (zone.Name ++ "/" ++ pod.Name ++ "/" ++ tor.Name ++ "/" ++ node.Name)) ∧
    (∀ nodeID, mapGet (NewTopology.run ops).Nodes nodeID = none →
      (NewTopology.run ops).GetNodePath nodeID = Except.error Err.nodeNotFound) ∧
    (∀ (node : Node) (later : List TopologyOp),
      ((NewTopology.run ops).RegisterNode node).2 = none →
      mapGet (((NewTopology.run ops).step (TopologyOp.registerNode node)).run later).Nodes
        node.ID = some node) := by
  have hl := Linked_run ops Linked_NewTopology
  refine ⟨hl, fun nodeID node hnode => ?_, fun nodeID hnone => ?_, fun node later hok => ?_⟩
  · obtain ⟨hp, ht, hn⟩ := hl
    obtain ⟨hid, htor⟩ := hn nodeID node hnode
    obtain ⟨tor, htor'⟩ := Option.isSome_iff_exists.1 htor
    obtain ⟨_, hpod⟩ := ht node.TORID tor htor'
    obtain ⟨pod, hpod'⟩ := Option.isSome_iff_exists.1 hpod
    obtain ⟨_, hzone⟩ := hp tor.PodID pod hpod'
    obtain ⟨zone, hzone'⟩ := Option.isSome_iff_exists.1 hzone
    refine ⟨tor, pod, zone, hid, htor', hpod', hzone', ?_⟩
    simp only [Topology.GetNodePath, hnode, htor', hpod', hzone']
  · simp only [Topology.GetNodePath, hnone]
  · exact Nodes_run later (RegisterNode_ok hok)

end NodePathProofs

section GatewayInstance

/-- C40, instance: on the fresh pool of 10.244.0.0/16 with /24 blocks the first
`AllocateIP` of the server answers with the address 10.244.0.1 and the gateway
10.244.0.1. -/
theorem C40_gateway_is_first_address_witness :
    Pool.ReachableFrom (PoolConfig.mk (CIDRString.v4 183762944 16) 24)
      ⟨Pool.mk ⟨183762944, 16, 32⟩ 24 [] [], []⟩ ∧
    ∃ resp, ((IPAMServer.mk (Pool.mk ⟨183762944, 16, 32⟩ 24 [] [])).AllocateIP
        (AllocateIPRequest.mk "n1" "pod" "default" "c1")).2 = Except.ok resp ∧
      resp.IP = IPString.v4 183762945 ∧ resp.Gateway = IPString.v4 (183762944 + 1) :=
  ⟨⟨_, [], rfl, rfl⟩,
    Exists.imp (fun _ h => ⟨h.1, h.2.1, h.2.2.1⟩)
      ((C40_gateway_is_first_address (PoolConfig.mk (CIDRString.v4 183762944 16) 24)
        ⟨Pool.mk ⟨183762944, 16, 32⟩ 24 [] [], []⟩ ⟨_, [], rfl, rfl⟩).2
        (AllocateIPRequest.mk "n1" "pod" "default" "c1") (IP.v4 183762945)
        (IPBlock.mk ⟨183762944, 24, 32⟩ "n1" 254 1 ((NewBitmap 254).Set 0).1)
        (by decide))⟩

end GatewayInstance

/-! ## Consistency of the subnets of a subnet pool (C37) -/

section SubnetConsistencyProofs

open Bitmap

/-- The capacity `AddSubnet` computes for at most 32 host bits. -/
theorem usable_of_le_32 (k : Nat) (hk : k ≤ 32) :
    toInt64 (toInt64 (2 ^ k) - 2) = 2 ^ k - 2 := by
  have h1 := two_pow_le_of_le_32 k hk
  have h2 := two_pow_pos_int k
  have e1 : toInt64 (2 ^ k) = 2 ^ k := toInt64_of_range (by omega) (by omega)
  rw [e1, toInt64_of_range (by omega) (by omega)]

/-- The low 32 bits of a network address aligned to `2 ^ h` with `h ≤ 32` are aligned. -/
theorem maskAddr_low (a k : Nat) (h96 : 96 ≤ k) (hk : k ≤ 128) :
    maskAddr (maskAddr a k 128 % 2 ^ 32) (k - 96) 32 = maskAddr a k 128 % 2 ^ 32 := by
  have e : 32 - (k - 96) = 128 - k := by omega
  have h32 : (2 : Nat) ^ 32 = 2 ^ (128 - k) * 2 ^ (k - 96) := by
    rw [← pow_add]; congr 1; omega
  unfold maskAddr
  rw [e, h32]
  generalize a / 2 ^ (128 - k) = q
  have hH : 0 < 2 ^ (128 - k) := Nat.two_pow_pos _
  rw [Nat.mul_comm q, Nat.mul_mod_mul_left, Nat.mul_div_cancel_left _ hH, Nat.mul_comm]

/-- The subnet `AddSubnet` makes from a parsed CIDR has the IPv4 form when `To4` accepts
its network. -/
theorem V4Shape_of_parse {c : CIDRString} {s : Subnet} (hp : ParseCIDR c = some s.CIDR)
    (hcap : s.Capacity = toInt64 (toInt64 (2 ^ (s.CIDR.bits - s.CIDR.ones)) - 2))
    {A : Nat} (h4 : s.CIDR.To4 = some A) : ∃ n, s.V4Shape A n := by
  cases c with
  | invalid t => simp [ParseCIDR] at hp
  | v4 a k =>
    simp only [ParseCIDR] at hp
    split_ifs at hp with hc
    have hcidr := (Option.some.inj hp).symm
    have hle := maskAddr_le a k
    have hA : A = maskAddr a k 32 := by
      rw [hcidr] at h4
      have h4' : (if (32 : Nat) = 32 then some (maskAddr a k 32 % 2 ^ 32)
        else if isV4Mapped (maskAddr a k 32) = true then some (maskAddr a k 32 % 2 ^ 32)
        else none) = some A := h4
      rw [if_pos rfl] at h4'
      have := Option.some.inj h4'
      rw [Nat.mod_eq_of_lt (by omega)] at this
      exact this.symm
    refine ⟨k, h4, hc.2, by omega, by rw [hA]; exact maskAddr_idem a k, ?_, fun x => ?_⟩
    · rw [hcap, hcidr]
      exact usable_of_le_32 (32 - k) (by omega)
    · rw [Contains_v4_of_bits (by rw [hcidr]), hcidr, hA]
  | v6 a k =>
    simp only [ParseCIDR] at hp
    split_ifs at hp with hc
    have hcidr := (Option.some.inj hp).symm
    have h4' : (if (128 : Nat) = 32 then some (maskAddr a k 128 % 2 ^ 32)
        else if isV4Mapped (maskAddr a k 128) = true then some (maskAddr a k 128 % 2 ^ 32)
        else none) = some A := by
      rw [hcidr] at h4; exact h4
    rw [if_neg (by decide)] at h4'
    split_ifs at h4' with hm
    have hA : A = maskAddr a k 128 % 2 ^ 32 := (Option.some.inj h4').symm
    have h96 := mapped_ones hm
    have hlt : A < 2 ^ 32 := by rw [hA]; exact Nat.mod_lt _ (by decide)
    refine ⟨k - 96, h4, by omega, hlt, by rw [hA]; exact maskAddr_low a k h96 hc.2, ?_,
      fun x => ?_⟩
    · rw [hcap, hcidr]
      have e : 32 - (k - 96) = 128 - k := by omega
      rw [e]
      exact usable_of_le_32 (128 - k) (by omega)
    · rw [hcidr]
      show (if (128 : Nat) = 32 then decide (x < 2 ^ 32 ∧ maskAddr x k 32 = maskAddr a k 128)
        else decide ((128 : Nat) = 128 ∧ isV4Mapped (maskAddr a k 128) = true ∧ x < 2 ^ 32 ∧
          maskAddr x (k - 96) 32 = maskAddr a k 128 % 2 ^ 32)) = _
      rw [if_neg (by decide), hA]
      simp [hm]

theorem V4Shape_congr {s s' : Subnet} {A n : Nat} (h : s.V4Shape A n)
    (hc : s'.CIDR = s.CIDR) (hcap : s'.Capacity = s.Capacity) : s'.V4Shape A n :=
  ⟨by rw [hc]; exact h.to4, h.ones, h.addr_lt, h.aligned, by rw [hcap]; exact h.cap,
    fun a => by rw [hc]; exact h.contains a⟩

/-- The address of a position of a subnet in IPv4 form. -/
theorem V4Shape_range {s : Subnet} {A n : Nat} (h : s.V4Shape A n) (p : Nat)
    (hp : (p : Int) < s.Capacity) :
    A + p + 1 < 2 ^ 32 ∧ s.CIDR.Contains (IP.v4 (A + p + 1)) = true ∧
    positionToIP s.CIDR (p : Int) = IP.v4 (A + p + 1) ∧
    ipToPosition s.CIDR (IP.v4 (A + p + 1)) = (p : Int) := by
  have hr := block_range A n h.ones h.addr_lt h.aligned
  have hp2 : p + 2 < 2 ^ (32 - n) := by
    rw [h.cap] at hp
    have : ((p + 2 : Nat) : Int) < ((2 ^ (32 - n) : Nat) : Int) := by
      push_cast; omega
    exact_mod_cast this
  have hlt : A + p + 1 < 2 ^ 32 := by omega
  have hpos : positionToIP s.CIDR (p : Int) = IP.v4 (A + p + 1) := by
    have hu : toUint32 ((p : Int) + 1) = p + 1 := by
      unfold toUint32
      omega
    simp only [positionToIP, h.to4, hu]
    congr 1
    omega
  refine ⟨hlt, ?_, hpos, ?_⟩
  · rw [h.contains]
    exact decide_eq_true ⟨hlt, (maskAddr_eq_iff A n _ h.aligned).2 ⟨by omega, by omega⟩⟩
  · rw [← hpos]
    exact ipToPosition_positionToIP (by rw [h.to4]; exact Option.noConfusion) p (by omega)

/-- The subnet `AddSubnet` makes is consistent. -/
theorem Consistent_new (ipNet : IPNet) (purpose : String) (cap : Int) (A : Nat) :
    (Subnet.mk ipNet purpose cap 0 [] (NewBitmap cap)).Consistent A :=
  ⟨List.nodup_nil, rfl, fun _ h => Bool.noConfusion h, fun p _ => by
    show bitAt (NewBitmap cap) p = true ↔ (none : Option IPAllocation).isSome = true
    rw [NewBitmap_bitAt]
    simp⟩

/-- `AllocateIP` keeps the target subnet consistent. -/
theorem Consistent_allocate {S : Subnet} {A n : Nat} (hwf : S.bitmap.WF)
    (hsize : S.bitmap.size = S.Capacity) (hsh : S.V4Shape A n) (hc : S.Consistent A)
    (nodeID : String) (hset : (S.bitmap.Set S.bitmap.FindFirstZero).2 = none) :
    (Subnet.mk S.CIDR S.Purpose S.Capacity (S.Used + 1)
      (mapPut S.Allocations (positionToIP S.CIDR S.bitmap.FindFirstZero)
        (IPAllocation.mk (positionToIP S.CIDR S.bitmap.FindFirstZero) nodeID "" "" ""))
      (S.bitmap.Set S.bitmap.FindFirstZero).1).Consistent A := by
  rcases Set_cases S.bitmap hwf S.bitmap.FindFirstZero with ⟨_, h⟩ | ⟨p, _, _, _, h⟩ |
    ⟨p, hp, hps, hbit, _, _, _, _, _, hbits⟩
  · rw [h] at hset; exact Option.noConfusion hset
  · rw [h] at hset; exact Option.noConfusion hset
  · have hcap : (p : Int) < S.Capacity := by rw [← hsize]; exact hps
    obtain ⟨_, _, hpos, _⟩ := V4Shape_range hsh p hcap
    rw [hp] at hbits ⊢
    rw [hpos]
    have hfresh : mapGet S.Allocations (IP.v4 (A + p + 1)) = none := by
      cases hg : mapGet S.Allocations (IP.v4 (A + p + 1)) with
      | none => rfl
      | some al =>
        have := (hc.bits p hcap).2 (by rw [hg]; rfl)
        rw [hbit] at this
        exact Bool.noConfusion this
    refine ⟨mapPut_keys_nodup hc.keys _ _, ?_, fun ip h => ?_, fun q hq => ?_⟩
    · show ((mapPut S.Allocations (IP.v4 (A + p + 1)) _).length : Int) = S.Used + 1
      rw [mapPut_length_of_none hfresh, ← hc.count]
      push_cast
      rfl
    · have h' : (mapGet (mapPut S.Allocations (IP.v4 (A + p + 1))
          (IPAllocation.mk (IP.v4 (A + p + 1)) nodeID "" "" "")) ip).isSome = true := h
      rw [mapGet_mapPut] at h'
      split_ifs at h' with hk
      · exact ⟨p, hcap, hk⟩
      · exact hc.positions ip h'
    · show bitAt (S.bitmap.Set (p : Int)).1 q = true ↔
        (mapGet (mapPut S.Allocations (IP.v4 (A + p + 1))
          (IPAllocation.mk (IP.v4 (A + p + 1)) nodeID "" "" ""))
          (IP.v4 (A + q + 1))).isSome = true
      rw [hbits q, mapGet_mapPut]
      by_cases hqp : q = p
      · subst hqp
        simp
      · have hne : IP.v4 (A + q + 1) ≠ IP.v4 (A + p + 1) := by
          intro heq
          have := IP.v4.inj heq
          omega
        rw [if_neg hne]
        have := hc.bits q hq
        simp [hqp, this]

/-- `ReleaseIP` keeps the subnet of the address consistent. -/
theorem Consistent_release {S : Subnet} {A n : Nat} (hwf : S.bitmap.WF)
    (hsh : S.V4Shape A n) (hc : S.Consistent A) (ip : IP)
    (hrec : (mapGet S.Allocations ip).isSome = true)
    (hclr : (S.bitmap.Clear (ipToPosition S.CIDR ip)).2 = none) :
    (Subnet.mk S.CIDR S.Purpose S.Capacity (S.Used - 1) (mapDel S.Allocations ip)
      (S.bitmap.Clear (ipToPosition S.CIDR ip)).1).Consistent A := by
  obtain ⟨p, hcap, hip⟩ := hc.positions ip hrec
  obtain ⟨_, _, _, hpos⟩ := V4Shape_range hsh p hcap
  rw [hip] at hrec hclr ⊢
  rw [hpos] at hclr ⊢
  rcases Clear_cases S.bitmap hwf (p : Int) with ⟨_, h⟩ | ⟨p', _, _, _, h⟩ |
    ⟨p', hp', _, _, _, _, _, _, _, hbits⟩
  · rw [h] at hclr; exact Option.noConfusion hclr
  · rw [h] at hclr; exact Option.noConfusion hclr
  · have hpp : p' = p := by omega
    subst hpp
    obtain ⟨al, hal⟩ := Option.isSome_iff_exists.1 hrec
    refine ⟨mapDel_keys_nodup hc.keys _, ?_, fun ip' h => ?_, fun q hq => ?_⟩
    · show ((mapDel S.Allocations (IP.v4 (A + p' + 1))).length : Int) = S.Used - 1
      have := mapDel_length hc.keys (mapGet_isSome_mem hal)
      rw [← hc.count]
      omega
    · have h' : (mapGet (mapDel S.Allocations (IP.v4 (A + p' + 1))) ip').isSome = true := h
      rw [mapGet_mapDel] at h'
      split_ifs at h' with hk
      · exact Bool.noConfusion h'
      · exact hc.positions ip' h'
    · show bitAt (S.bitmap.Clear (p' : Int)).1 q = true ↔
        (mapGet (mapDel S.Allocations (IP.v4 (A + p' + 1))) (IP.v4 (A + q + 1))).isSome = true
      rw [hbits q, mapGet_mapDel]
      by_cases hqp : q = p'
      · subst hqp
        simp
      · have hne : IP.v4 (A + q + 1) ≠ IP.v4 (A + p' + 1) := by
          intro heq
          have := IP.v4.inj heq
          omega
        rw [if_neg hne]
        have := hc.bits q hq
        simp [hqp, this]

end SubnetConsistencyProofs

section SubnetConsistencyClaim

open Bitmap

theorem Consistent_put {sp : SubnetPool} (h : sp.Consistent) {key : CIDRString} {S' : Subnet}
    (hS' : ∀ A, S'.CIDR.To4 = some A → (∃ n, S'.V4Shape A n) ∧ S'.Consistent A) :
    (SubnetPool.mk sp.TORID (mapPut sp.Subnets key S')).Consistent := by
  intro k s hk A h4
  have hk' : mapGet (mapPut sp.Subnets key S') k = some s := hk
  rw [mapGet_mapPut] at hk'
  split_ifs at hk' with hkk
  · have := Option.some.inj hk'
    subst this
    exact hS' A h4
  · exact h k s hk' A h4

theorem Consistent_step {sp : SubnetPool} (hg : sp.Good) (h : sp.Consistent) (op : SubnetOp) :
    (sp.step op).Consistent := by
  cases op with
  | addSubnet c purpose =>
    show (sp.AddSubnet c purpose).1.Consistent
    rcases AddSubnet_form sp c purpose with ⟨e, hres⟩ | ⟨ipNet, _, hparse, hres⟩
    · rw [hres]; exact h
    · rw [hres]
      exact Consistent_put h (fun A h4 =>
        ⟨V4Shape_of_parse (c := c) hparse rfl h4, Consistent_new _ _ _ A⟩)
  | allocateIP nodeID purpose ord₁ ord₂ =>
    show (sp.AllocateIP nodeID purpose ord₁ ord₂).1.Consistent
    rcases AllocateIP_form sp nodeID purpose ord₁ ord₂ with ⟨e, hres, _⟩ |
      ⟨key, S, ht, _, hset, hres⟩
    · rw [hres]; exact h
    · rw [hres]
      have hS : mapGet sp.Subnets key = some S := pickTarget_mem ht
      obtain ⟨hwf, _, _⟩ := hg key S hS
      refine Consistent_put h (fun A h4 => ?_)
      obtain ⟨⟨n, hsh⟩, hc⟩ := h key S hS A h4
      exact ⟨⟨n, V4Shape_congr hsh rfl rfl⟩,
        Consistent_allocate hwf.bm hwf.size hsh hc nodeID hset⟩
  | releaseIP ip ord =>
    show (sp.ReleaseIP ip ord).1.Consistent
    rcases ReleaseIP_form sp ip ord with ⟨e, hres⟩ | ⟨key, S, hf, hrec, hclr, hres⟩
    · rw [hres]; exact h
    · rw [hres]
      have hS : mapGet sp.Subnets key = some S := rangeMap_mem (List.mem_of_find?_eq_some hf)
      obtain ⟨hwf, _, _⟩ := hg key S hS
      refine Consistent_put h (fun A h4 => ?_)
      obtain ⟨⟨n, hsh⟩, hc⟩ := h key S hS A h4
      exact ⟨⟨n, V4Shape_congr hsh rfl rfl⟩, Consistent_release hwf.bm hsh hc ip hrec hclr⟩

theorem Consistent_Reachable {torID : String} {sp : SubnetPool}
    (h : SubnetPool.ReachableFrom torID sp) : sp.Good ∧ sp.Consistent := by
  obtain ⟨ops, _, rfl⟩ := h
  have key : ∀ (ops : List SubnetOp) (sp : SubnetPool), sp.Good → sp.Consistent →
      (sp.run ops).Good ∧ (sp.run ops).Consistent := by
    intro ops
    induction ops with
    | nil => intro sp hg hc; exact ⟨hg, hc⟩
    | cons op ops ih =>
      intro sp hg hc
      exact ih _ (Good_step hg op) (Consistent_step hg hc op)
  refine key ops _ ?_ ?_
  · intro k s hk; simp [NewSubnetPool, mapGet] at hk
  · intro k s hk; simp [NewSubnetPool, mapGet] at hk

/-- C37, as stated, fails: `AddSubnet` accepts the IPv6 CIDR `2001:db8::/120`, and for a
network that is not IPv4 `positionToIP` returns the nil address, so both of two `AllocateIP`
calls record their allocation under the one key of the nil address; afterwards `Used` and
the count of the bitmap are 2 while one allocation is recorded. -/
theorem C37_subnet_consistency_counterexample :
    ∃ (sp : SubnetPool) (s : Subnet),
      SubnetPool.ReachableFrom "tor-1" sp ∧
      sp = (NewSubnetPool "tor-1").run
        [SubnetOp.addSubnet (CIDRString.v6 42540766411282592856903984951653826560 120) "default",
          SubnetOp.allocateIP "node-1" "default" id id,
          SubnetOp.allocateIP "node-2" "default" id id] ∧
      mapGet sp.Subnets (CIDRString.v6 42540766411282592856903984951653826560 120) = some s ∧
      s.Used = 2 ∧ s.bitmap.Count = 2 ∧ s.Allocations.length = 1 ∧
      s.Allocations.map Prod.fst = [IP.nil] := by
  have hvalid : ∀ op ∈
      [SubnetOp.addSubnet (CIDRString.v6 42540766411282592856903984951653826560 120) "default",
        SubnetOp.allocateIP "node-1" "default" id id,
        SubnetOp.allocateIP "node-2" "default" id id], op.Valid := by
    intro op hop
    simp only [List.mem_cons, List.mem_singleton, List.mem_nil_iff, or_false] at hop
    rcases hop with rfl | rfl | rfl
    · exact trivial
    · exact ⟨IsMapOrder_id, IsMapOrder_id⟩
    · exact ⟨IsMapOrder_id, IsMapOrder_id⟩
  have hrun : SubnetPool.mk "tor-1" [(CIDRString.v6 42540766411282592856903984951653826560 120,
      Subnet.mk ⟨42540766411282592856903984951653826560, 120, 128⟩ "default" 254 2
        [(IP.nil, IPAllocation.mk IP.nil "node-2" "" "" "")] (Bitmap.mk [3, 0, 0, 0] 254 2))] =
      (NewSubnetPool "tor-1").run
        [SubnetOp.addSubnet (CIDRString.v6 42540766411282592856903984951653826560 120) "default",
          SubnetOp.allocateIP "node-1" "default" id id,
          SubnetOp.allocateIP "node-2" "default" id id] := by decide
  exact ⟨_, Subnet.mk ⟨42540766411282592856903984951653826560, 120, 128⟩ "default" 254 2
    [(IP.nil, IPAllocation.mk IP.nil "node-2" "" "" "")] (Bitmap.mk [3, 0, 0, 0] 254 2),
    ⟨_, hvalid, hrun⟩, hrun, by decide, rfl, rfl, rfl, rfl⟩

/-- C37, amended: in every subnet pool reachable by `AddSubnet`, `AllocateIP` and
`ReleaseIP` calls, for every subnet whose network is IPv4 (`To4` gives its network address
`A`): the recorded allocations have one entry per key and their number equals `Used`,
which equals the bitmap's `Count`, the number of set positions, and lies between 0 and
`Capacity`; every allocation key is an address inside the subnet's CIDR; and the bit at
position `p` is set if and only if an allocation is recorded for the address
`A + p + 1`. -/
theorem C37_subnet_consistency (torID : String) (sp : SubnetPool)
    (hr : SubnetPool.ReachableFrom torID sp) (key : CIDRString) (s : Subnet)
    (hs : mapGet sp.Subnets key = some s) (A : Nat) (h4 : s.CIDR.To4 = some A) :
    (s.Allocations.map Prod.fst).Nodup ∧
    (s.Allocations.length : Int) = s.Used ∧
    s.Used = s.bitmap.Count ∧ s.bitmap.Count = (popcount s.bitmap : Int) ∧
    0 ≤ s.Used ∧ s.Used ≤ s.Capacity ∧
    (∀ e ∈ s.Allocations, s.CIDR.Contains e.1 = true) ∧
    (∀ p : Nat, s.bitmap.IsSet (p : Int) = true ↔
      (mapGet s.Allocations (IP.v4 (A + p + 1))).isSome = true) := by
  obtain ⟨hg, hcons⟩ := Consistent_Reachable hr
  obtain ⟨hwf, hused, _⟩ := hg key s hs
  obtain ⟨⟨n, hsh⟩, hc⟩ := hcons key s hs A h4
  have hcount : s.bitmap.Count = (popcount s.bitmap : Int) := hwf.bm.count
  have hle := popcount_le s.bitmap
  have hnn := hwf.bm.nonneg
  have hsz := hwf.size
  refine ⟨hc.keys, hc.count, hused, hcount, ?_, ?_, fun e he => ?_, fun p => ?_⟩
  · rw [hused]; show 0 ≤ s.bitmap.Count; rw [hcount]; omega
  · rw [hused]; show s.bitmap.Count ≤ s.Capacity; rw [hcount]; omega
  · have hget : mapGet s.Allocations e.1 = some e.2 := mapGet_of_mem hc.keys he
    obtain ⟨p, hp, hip⟩ := hc.positions e.1 (by rw [hget]; rfl)
    rw [hip]
    exact (V4Shape_range hsh p hp).2.1
  · rw [IsSet_natCast]
    by_cases hp : (p : Int) < s.Capacity
    · have := hc.bits p hp
      rw [← this]
      simp [hsz, hp]
    · constructor
      · intro h
        rw [hsz] at h
        simp [hp] at h
      · intro h
        obtain ⟨p', hp', hip⟩ := hc.positions _ h
        have := IP.v4.inj hip
        have : p = p' := by omega
        subst this
        exact absurd hp' hp

/-- C37 amended, instance: the pool with the single subnet `10.244.0.0/30`, both usable
addresses allocated: two recorded allocations, `Used = 2`. -/
theorem C37_subnet_consistency_witness :
    SubnetPool.ReachableFrom "tor-1" (SubnetPool.mk "tor-1" [(CIDRString.v4 183762944 30,
        Subnet.mk ⟨183762944, 30, 32⟩ "default" 2 2
          [(IP.v4 183762945, IPAllocation.mk (IP.v4 183762945) "node-1" "" "" ""),
           (IP.v4 183762946, IPAllocation.mk (IP.v4 183762946) "node-1" "" "" "")]
          (Bitmap.mk [3] 2 2))]) ∧
    (((Subnet.mk ⟨183762944, 30, 32⟩ "default" 2 2
          [(IP.v4 183762945, IPAllocation.mk (IP.v4 183762945) "node-1" "" "" ""),
           (IP.v4 183762946, IPAllocation.mk (IP.v4 183762946) "node-1" "" "" "")]
          (Bitmap.mk [3] 2 2)).Allocations.length : Nat) : Int) =
      (Subnet.mk ⟨183762944, 30, 32⟩ "default" 2 2
          [(IP.v4 183762945, IPAllocation.mk (IP.v4 183762945) "node-1" "" "" ""),
           (IP.v4 183762946, IPAllocation.mk (IP.v4 183762946) "node-1" "" "" "")]
          (Bitmap.mk [3] 2 2)).Used := by
  have hvalid : ∀ op ∈ [SubnetOp.addSubnet (CIDRString.v4 183762944 30) "default",
      SubnetOp.allocateIP "node-1" "default" id id,
      SubnetOp.allocateIP "node-1" "default" id id], op.Valid := by
    intro op hop
    simp only [List.mem_cons, List.mem_singleton, List.mem_nil_iff, or_false] at hop
    rcases hop with rfl | rfl | rfl
    · exact trivial
    · exact ⟨IsMapOrder_id, IsMapOrder_id⟩
    · exact ⟨IsMapOrder_id, IsMapOrder_id⟩
  have hr : SubnetPool.ReachableFrom "tor-1" (SubnetPool.mk "tor-1" [(CIDRString.v4 183762944 30,
        Subnet.mk ⟨183762944, 30, 32⟩ "default" 2 2
          [(IP.v4 183762945, IPAllocation.mk (IP.v4 183762945) "node-1" "" "" ""),
           (IP.v4 183762946, IPAllocation.mk (IP.v4 183762946) "node-1" "" "" "")]
          (Bitmap.mk [3] 2 2))]) := ⟨_, hvalid, by decide⟩
  exact ⟨hr, (C37_subnet_consistency "tor-1" _ hr (CIDRString.v4 183762944 30) _ (by decide)
    183762944 (by decide)).2.1⟩

end SubnetConsistencyClaim

/-! ## Release through the topology pool (C39) -/

section ReleaseOwnerProofs

open Bitmap

theorem Sound_sub_step {sp : SubnetPool} (h : sp.Good ∧ sp.AllocGood) (op : SubnetOp) :
    (sp.step op).Good ∧ (sp.step op).AllocGood :=
  ⟨Good_step h.1 op, AllocGood_step h.1 h.2 op⟩

theorem Sound_sub_new (torID : String) :
    (NewSubnetPool torID).Good ∧ (NewSubnetPool torID).AllocGood := by
  constructor
  · intro k s hk; simp [NewSubnetPool, mapGet] at hk
  · intro k s hk; simp [NewSubnetPool, mapGet] at hk

theorem PoolsSound_put {p : TopologyAwarePool} (h : p.PoolsSound) (topo : Topology)
    (id : String) {sp : SubnetPool} (hsp : sp.Good ∧ sp.AllocGood) :
    (TopologyAwarePool.mk p.clusterCIDR topo (mapPut p.subnetPools id sp)).PoolsSound := by
  intro tor sp' hs
  have hs' : mapGet (mapPut p.subnetPools id sp) tor = some sp' := hs
  rw [mapGet_mapPut] at hs'
  split_ifs at hs' with hk
  · rw [← Option.some.inj hs']; exact hsp
  · exact h tor sp' hs'

theorem PoolsSound_topology {p : TopologyAwarePool} (h : p.PoolsSound) (topo : Topology) :
    (TopologyAwarePool.mk p.clusterCIDR topo p.subnetPools).PoolsSound :=
  fun tor sp hs => h tor sp hs

theorem initSubnets_Sound (torID : String) (l : List SubnetConfig) :
    ∀ (topo : Topology) (sp : SubnetPool), sp.Good ∧ sp.AllocGood →
      (TopologyAwarePool.initSubnets topo sp torID l).2.1.Good ∧
      (TopologyAwarePool.initSubnets topo sp torID l).2.1.AllocGood := by
  induction l with
  | nil => intro topo sp h; exact h
  | cons c rest ih =>
    intro topo sp h
    have hstep := Sound_sub_step h (SubnetOp.addSubnet c.CIDR c.Purpose)
    have hstep' : (sp.AddSubnet c.CIDR c.Purpose).1.Good ∧
        (sp.AddSubnet c.CIDR c.Purpose).1.AllocGood := hstep
    cases ha : sp.AddSubnet c.CIDR c.Purpose with
    | mk sp1 e =>
      rw [ha] at hstep'
      cases e with
      | some err =>
        have hres : TopologyAwarePool.initSubnets topo sp torID (c :: rest) =
            (topo, sp1, some err) := by
          simp only [TopologyAwarePool.initSubnets, ha]
        rw [hres]
        exact hstep'
      | none =>
        have hres : TopologyAwarePool.initSubnets topo sp torID (c :: rest) =
            TopologyAwarePool.initSubnets (topo.AddSubnetToTOR torID c.CIDR).1 sp1 torID rest := by
          simp only [TopologyAwarePool.initSubnets, ha]
        rw [hres]
        exact ih _ sp1 hstep'

theorem initTORs_Sound (podID : String) (l : List TORConfig) :
    ∀ p : TopologyAwarePool, p.PoolsSound →
      (TopologyAwarePool.initTORs p podID l).1.PoolsSound := by
  induction l with
  | nil => intro p h; exact h
  | cons tc rest ih =>
    intro p h
    cases ha : p.topology.AddTOR (TOR.mk tc.ID tc.Name podID tc.Location [] []) with
    | mk topo1 e1 =>
      cases e1 with
      | some err =>
        have hres : TopologyAwarePool.initTORs p podID (tc :: rest) =
            (TopologyAwarePool.mk p.clusterCIDR topo1 p.subnetPools, some err) := by
          simp only [TopologyAwarePool.initTORs, ha]
        rw [hres]
        exact PoolsSound_topology h topo1
      | none =>
        have hsub := initSubnets_Sound tc.ID tc.Subnets topo1 (NewSubnetPool tc.ID)
          (Sound_sub_new tc.ID)
        cases hi : TopologyAwarePool.initSubnets topo1 (NewSubnetPool tc.ID) tc.ID tc.Subnets with
        | mk topo2 r =>
          obtain ⟨sp, e2⟩ := r
          rw [hi] at hsub
          cases e2 with
          | some err =>
            have hres : TopologyAwarePool.initTORs p podID (tc :: rest) =
                (TopologyAwarePool.mk p.clusterCIDR topo2 p.subnetPools, some err) := by
              simp only [TopologyAwarePool.initTORs, ha, hi]
            rw [hres]
            exact PoolsSound_topology h topo2
          | none =>
            have hres : TopologyAwarePool.initTORs p podID (tc :: rest) =
                TopologyAwarePool.initTORs
                  (TopologyAwarePool.mk p.clusterCIDR topo2 (mapPut p.subnetPools tc.ID sp))
                  podID rest := by
              simp only [TopologyAwarePool.initTORs, ha, hi]
            rw [hres]
            exact ih _ (PoolsSound_put h topo2 tc.ID hsub)

theorem initPods_Sound (zoneID : String) (l : List PodConfig) :
    ∀ p : TopologyAwarePool, p.PoolsSound →
      (TopologyAwarePool.initPods p zoneID l).1.PoolsSound := by
  induction l with
  | nil => intro p h; exact h
  | cons pc rest ih =>
    intro p h
    cases ha : p.topology.AddPod (Pod.mk pc.ID pc.Name zoneID pc.SubnetRanges []) with
    | mk topo1 e1 =>
      cases e1 with
      | some err =>
        have hres : TopologyAwarePool.initPods p zoneID (pc :: rest) =
            (TopologyAwarePool.mk p.clusterCIDR topo1 p.subnetPools, some err) := by
          simp only [TopologyAwarePool.initPods, ha]
        rw [hres]
        exact PoolsSound_topology h topo1
      | none =>
        have h2 := initTORs_Sound pc.ID pc.TORs
          (TopologyAwarePool.mk p.clusterCIDR topo1 p.subnetPools) (PoolsSound_topology h topo1)
        cases hi : TopologyAwarePool.initTORs
            (TopologyAwarePool.mk p.clusterCIDR topo1 p.subnetPools) pc.ID pc.TORs with
        | mk p2 e2 =>
          rw [hi] at h2
          cases e2 with
          | some err =>
            have hres : TopologyAwarePool.initPods p zoneID (pc :: rest) = (p2, some err) := by
              simp only [TopologyAwarePool.initPods, ha, hi]
            rw [hres]
            exact h2
          | none =>
            have hres : TopologyAwarePool.initPods p zoneID (pc :: rest) =
                TopologyAwarePool.initPods p2 zoneID rest := by
              simp only [TopologyAwarePool.initPods, ha, hi]
            rw [hres]
            exact ih p2 h2

theorem initZones_Sound (l : List ZoneConfig) :
    ∀ p : TopologyAwarePool, p.PoolsSound →
      (TopologyAwarePool.initZones p l).1.PoolsSound := by
  induction l with
  | nil => intro p h; exact h
  | cons zc rest ih =>
    intro p h
    cases ha : p.topology.AddZone (Zone.mk zc.ID zc.Name zc.SubnetRanges []) with
    | mk topo1 e1 =>
      cases e1 with
      | some err =>
        have hres : TopologyAwarePool.initZones p (zc :: rest) =
            (TopologyAwarePool.mk p.clusterCIDR topo1 p.subnetPools, some err) := by
          simp only [TopologyAwarePool.initZones, ha]
        rw [hres]
        exact PoolsSound_topology h topo1
      | none =>
        have h2 := initPods_Sound zc.ID zc.Pods
          (TopologyAwarePool.mk p.clusterCIDR topo1 p.subnetPools) (PoolsSound_topology h topo1)
        cases hi : TopologyAwarePool.initPods
            (TopologyAwarePool.mk p.clusterCIDR topo1 p.subnetPools) zc.ID zc.Pods with
        | mk p2 e2 =>
          rw [hi] at h2
          cases e2 with
          | some err =>
            have hres : TopologyAwarePool.initZones p (zc :: rest) = (p2, some err) := by
              simp only [TopologyAwarePool.initZones, ha, hi]
            rw [hres]
            exact h2
          | none =>
            have hres : TopologyAwarePool.initZones p (zc :: rest) =
                TopologyAwarePool.initZones p2 rest := by
              simp only [TopologyAwarePool.initZones, ha, hi]
            rw [hres]
            exact ih p2 h2

theorem PoolsSound_register {p : TopologyAwarePool} (h : p.PoolsSound)
    (nodeID nodeName torID : String) (labels : List (String × String)) :
    (p.RegisterNode nodeID nodeName torID labels).1.PoolsSound := by
  cases hr : p.topology.RegisterNode (Node.mk nodeID nodeName torID labels) with
  | mk topo err =>
    have hres : p.RegisterNode nodeID nodeName torID labels =
        (TopologyAwarePool.mk p.clusterCIDR topo p.subnetPools, err) := by
      simp only [TopologyAwarePool.RegisterNode, hr]
    rw [hres]
    exact PoolsSound_topology h topo

theorem PoolsSound_addSubnet {p : TopologyAwarePool} (h : p.PoolsSound)
    (torID : String) (c : CIDRString) (purpose : String) :
    (p.AddSubnetToTOR torID c purpose).1.PoolsSound := by
  cases hg : mapGet p.subnetPools torID with
  | none =>
    have hres : p.AddSubnetToTOR torID c purpose = (p, some Err.torNotFound) := by
      simp only [TopologyAwarePool.AddSubnetToTOR, hg]
    rw [hres]; exact h
  | some sp =>
    have hstep : (sp.AddSubnet c purpose).1.Good ∧ (sp.AddSubnet c purpose).1.AllocGood :=
      Sound_sub_step (h torID sp hg) (SubnetOp.addSubnet c purpose)
    cases ha : sp.AddSubnet c purpose with
    | mk sp1 e =>
      rw [ha] at hstep
      cases e with
      | some err =>
        have hres : p.AddSubnetToTOR torID c purpose =
            (TopologyAwarePool.mk p.clusterCIDR p.topology (mapPut p.subnetPools torID sp1),
              some err) := by
          simp only [TopologyAwarePool.AddSubnetToTOR, hg, ha]
        rw [hres]
        exact PoolsSound_put h _ torID hstep
      | none =>
        have hres : p.AddSubnetToTOR torID c purpose =
            (TopologyAwarePool.mk p.clusterCIDR (p.topology.AddSubnetToTOR torID c).1
              (mapPut p.subnetPools torID sp1), (p.topology.AddSubnetToTOR torID c).2) := by
          simp only [TopologyAwarePool.AddSubnetToTOR, hg, ha]
        rw [hres]
        exact PoolsSound_put h _ torID hstep

theorem PoolsSound_allocate {p : TopologyAwarePool} (h : p.PoolsSound)
    (nodeID purpose : String) (ord₁ ord₂ : MapOrder) :
    (p.AllocateIPForNodeWithPurpose nodeID purpose ord₁ ord₂).1.PoolsSound := by
  rcases GetNodeTOR_cases p.topology nodeID with ⟨e0, hn⟩ | ⟨tor, hn⟩
  · simp only [TopologyAwarePool.AllocateIPForNodeWithPurpose, hn]; exact h
  · cases hg : mapGet p.subnetPools tor.ID with
    | none => simp only [TopologyAwarePool.AllocateIPForNodeWithPurpose, hn, hg]; exact h
    | some sp =>
      have hstep : (sp.AllocateIP nodeID purpose ord₁ ord₂).1.Good ∧
          (sp.AllocateIP nodeID purpose ord₁ ord₂).1.AllocGood :=
        Sound_sub_step (h tor.ID sp hg) (SubnetOp.allocateIP nodeID purpose ord₁ ord₂)
      cases ha : sp.AllocateIP nodeID purpose ord₁ ord₂ with
      | mk sp1 r =>
        rw [ha] at hstep
        simp only [TopologyAwarePool.AllocateIPForNodeWithPurpose, hn, hg, ha]
        exact PoolsSound_put h _ tor.ID hstep

theorem PoolsSound_release {p : TopologyAwarePool} (h : p.PoolsSound)
    (nodeID : String) (ip : IP) (ord : MapOrder) :
    (p.ReleaseIPForNode nodeID ip ord).1.PoolsSound := by
  rcases GetNodeTOR_cases p.topology nodeID with ⟨e0, hn⟩ | ⟨tor, hn⟩
  · simp only [TopologyAwarePool.ReleaseIPForNode, hn]; exact h
  · cases hg : mapGet p.subnetPools tor.ID with
    | none => simp only [TopologyAwarePool.ReleaseIPForNode, hn, hg]; exact h
    | some sp =>
      have hstep : (sp.ReleaseIP ip ord).1.Good ∧ (sp.ReleaseIP ip ord).1.AllocGood :=
        Sound_sub_step (h tor.ID sp hg) (SubnetOp.releaseIP ip ord)
      cases ha : sp.ReleaseIP ip ord with
      | mk sp1 r =>
        rw [ha] at hstep
        simp only [TopologyAwarePool.ReleaseIPForNode, hn, hg, ha]
        exact PoolsSound_put h _ tor.ID hstep

theorem PoolsSound_step {t : TrackedTopo} (h : t.pool.PoolsSound) (op : TopoOp) :
    (t.step op).pool.PoolsSound := by
  cases op with
  | initializeTopology cfg => exact initZones_Sound cfg.Zones t.pool h
  | registerNode n nm tor labels => exact PoolsSound_register h n nm tor labels
  | addSubnetToTOR tor c purpose => exact PoolsSound_addSubnet h tor c purpose
  | allocateIP n purpose o1 o2 =>
    have := PoolsSound_allocate h n purpose o1 o2
    cases hr : t.pool.AllocateIPForNodeWithPurpose n purpose o1 o2 with
    | mk p' r =>
      rw [hr] at this
      cases r with
      | ok v =>
        obtain ⟨ip, c⟩ := v
        rw [topo_step_allocate_ok hr]
        exact this
      | error e =>
        rw [topo_step_allocate_error hr]
        exact this
  | releaseIP n ip o =>
    have := PoolsSound_release h n ip o
    cases hr : t.pool.ReleaseIPForNode n ip o with
    | mk p' r =>
      rw [hr] at this
      cases r with
      | none =>
        rw [topo_step_release_ok hr]
        exact this
      | some e =>
        rw [topo_step_release_error hr]
        exact this

theorem PoolsSound_Reachable {c : CIDRString} {t : TrackedTopo}
    (h : TopologyAwarePool.ReachableFrom c t) : t.pool.PoolsSound := by
  obtain ⟨ops, _, rfl⟩ := h
  have key : ∀ (ops : List TopoOp) (t : TrackedTopo), t.pool.PoolsSound →
      (t.run ops).pool.PoolsSound := by
    intro ops
    induction ops with
    | nil => intro t h; exact h
    | cons op ops ih => intro t h; exact ih _ (PoolsSound_step h op)
  refine key ops _ ?_
  intro tor sp hs
  simp [NewTopologyAwarePool, mapGet] at hs

end ReleaseOwnerProofs

section ReleaseOwnerClaim

open Bitmap

/-- The result of `ReleaseIPForNode` for a node whose TOR has a subnet pool is the result
of `ReleaseIP` on that pool. -/
theorem ReleaseIPForNode_eq {p : TopologyAwarePool} {nodeID : String} {tor : TOR}
    {sp : SubnetPool} (hn : p.topology.GetNodeTOR nodeID = Except.ok tor)
    (hg : mapGet p.subnetPools tor.ID = some sp) (ip : IP) (ord : MapOrder) :
    p.ReleaseIPForNode nodeID ip ord =
      (TopologyAwarePool.mk p.clusterCIDR p.topology
        (mapPut p.subnetPools tor.ID (sp.ReleaseIP ip ord).1), (sp.ReleaseIP ip ord).2) := by
  cases ha : sp.ReleaseIP ip ord with
  | mk sp1 r => simp only [TopologyAwarePool.ReleaseIPForNode, hn, hg, ha]

/-- C39, as stated, fails: with the overlapping subnets `10.244.0.0/24` (purpose `default`)
and `10.244.0.0/25` (purpose `storage`) in the pool of one TOR, the address `10.244.0.1` is
allocated to the registered node `n1` from the `/24`; a `ReleaseIPForNode` of that address
for `n1` whose loop visits the `/25` first fails with `IP not allocated`, although the
address is allocated in the pool of the node's TOR. -/
theorem C39_release_ignores_owner_counterexample :
    ∃ t : TrackedTopo,
      TopologyAwarePool.ReachableFrom (CIDRString.v4 183762944 16) t ∧
      t = TrackedTopo.run ⟨NewTopologyAwarePool (CIDRString.v4 183762944 16), []⟩
        [TopoOp.initializeTopology
          ⟨[⟨"z1", "zone-1", [], [⟨"p1", "pod-1", [],
            [⟨"tor-1", "tor-1", "rack-1", [⟨CIDRString.v4 183762944 24, "default"⟩,
              ⟨CIDRString.v4 183762944 25, "storage"⟩]⟩]⟩]⟩]⟩,
          TopoOp.registerNode "n1" "node-1" "tor-1" [],
          TopoOp.allocateIP "n1" "default" id id] ∧
      t.held = [IP.v4 183762945] ∧
      (t.pool.subnetAt "tor-1" (CIDRString.v4 183762944 24)).map
        (fun s => (mapGet s.Allocations (IP.v4 183762945)).map (fun al => al.NodeID)) =
        some (some "n1") ∧
      (t.pool.topology.GetNodeTOR "n1").toOption.map (fun tor => tor.ID) = some "tor-1" ∧
      IsMapOrder List.reverse ∧
      t.pool.ReleaseIPForNode "n1" (IP.v4 183762945) List.reverse =
        (t.pool, some Err.ipNotAllocated) := by
  have hvalid : ∀ op ∈ [TopoOp.initializeTopology
        ⟨[⟨"z1", "zone-1", [], [⟨"p1", "pod-1", [],
          [⟨"tor-1", "tor-1", "rack-1", [⟨CIDRString.v4 183762944 24, "default"⟩,
            ⟨CIDRString.v4 183762944 25, "storage"⟩]⟩]⟩]⟩]⟩,
        TopoOp.registerNode "n1" "node-1" "tor-1" [],
        TopoOp.allocateIP "n1" "default" id id], op.Valid := by
    intro op hop
    simp only [List.mem_cons, List.mem_singleton, List.mem_nil_iff, or_false] at hop
    rcases hop with rfl | rfl | rfl
    · exact trivial
    · exact trivial
    · exact ⟨IsMapOrder_id, IsMapOrder_id⟩
  exact ⟨_, ⟨_, hvalid, rfl⟩, rfl, by decide, by decide, by decide, IsMapOrder_reverse,
    by decide⟩

/-- C39, amended: `ReleaseIPForNode` checks no ownership, and its success is decided by the
first subnet its loop visits.  On every reachable topology pool, for every node `n`,
address and visiting order: a failing call leaves the pool as it was; the call fails with
`node not found` when `n` is not registered; and when `n` is registered and its TOR has
a subnet pool, the call succeeds exactly when the first visited subnet of that pool that
contains the address has an allocation recorded for it, whatever node the allocation
names.  When at most one subnet of the pool contains the address, this is exactly when
the address is allocated in the pool; and when no subnet of the pool that contains the
address records it, as for an address allocated only in the pool of another TOR, the call
fails and changes nothing. -/
theorem C39_release_ignores_owner (c : CIDRString) (t : TrackedTopo)
    (hr : TopologyAwarePool.ReachableFrom c t) (n : String) (ip : IP) (ord : MapOrder)
    (hord : IsMapOrder ord) :
    ((t.pool.ReleaseIPForNode n ip ord).2 ≠ none →
      (t.pool.ReleaseIPForNode n ip ord).1 = t.pool) ∧
    (mapGet t.pool.topology.Nodes n = none →
      t.pool.ReleaseIPForNode n ip ord = (t.pool, some Err.nodeNotFound)) ∧
    (∀ tor sp, t.pool.topology.GetNodeTOR n = Except.ok tor →
      mapGet t.pool.subnetPools tor.ID = some sp →
      ((t.pool.ReleaseIPForNode n ip ord).2 = none ↔
        ∃ key s al, (rangeMap sp.Subnets ord).find? (fun e => e.2.CIDR.Contains ip) =
          some (key, s) ∧ mapGet s.Allocations ip = some al) ∧
      ((∀ k₁ s₁ k₂ s₂, mapGet sp.Subnets k₁ = some s₁ → mapGet sp.Subnets k₂ = some s₂ →
          s₁.CIDR.Contains ip = true → s₂.CIDR.Contains ip = true → k₁ = k₂) →
        ((t.pool.ReleaseIPForNode n ip ord).2 = none ↔
          ∃ key s al, mapGet sp.Subnets key = some s ∧ s.CIDR.Contains ip = true ∧
            mapGet s.Allocations ip = some al)) ∧
      ((∀ key s, mapGet sp.Subnets key = some s → s.CIDR.Contains ip = true →
          mapGet s.Allocations ip = none) →
        ∃ e, t.pool.ReleaseIPForNode n ip ord = (t.pool, some e))) := by
  have herr := ReleaseIPForNode_error t.pool n ip ord
  refine ⟨herr, fun hnone => ?_, fun tor sp hn hg => ?_⟩
  · simp only [TopologyAwarePool.ReleaseIPForNode, Topology.GetNodeTOR, hnone]
  · obtain ⟨hgood, halloc⟩ := PoolsSound_Reachable hr tor.ID sp hg
    have heq := ReleaseIPForNode_eq hn hg ip ord
    have h2 : (t.pool.ReleaseIPForNode n ip ord).2 = (sp.ReleaseIP ip ord).2 := by rw [heq]
    have hfail : ∀ e, (sp.ReleaseIP ip ord).2 = some e →
        ∃ e', t.pool.ReleaseIPForNode n ip ord = (t.pool, some e') := by
      intro e he
      have hne : (t.pool.ReleaseIPForNode n ip ord).2 ≠ none := by
        rw [h2, he]; exact Option.noConfusion
      exact ⟨e, Prod.ext (herr hne) (by rw [h2, he])⟩
    rw [h2]
    rcases ReleaseIP_outcomes hgood halloc ip ord with ⟨hf, hres⟩ | ⟨key, S, hf, hno, hres⟩ |
      ⟨key, S, hf, hrec, _, hres⟩
    · rw [hres]
      refine ⟨⟨fun h => Option.noConfusion h, ?_⟩, fun _ => ⟨fun h => Option.noConfusion h, ?_⟩,
        fun _ => hfail _ (by rw [hres])⟩
      · rintro ⟨k, s, al, h1, _⟩
        rw [hf] at h1
        exact Option.noConfusion h1
      · rintro ⟨k, s, al, hk, hin, _⟩
        have := find_rangeMap_none_get hord hf hk
        have this' : s.CIDR.Contains ip = false := this
        rw [hin] at this'
        exact Bool.noConfusion this'
    · have hS : mapGet sp.Subnets key = some S := rangeMap_mem (List.mem_of_find?_eq_some hf)
      have hin : S.CIDR.Contains ip = true :=
        List.find?_some (p := fun (e : CIDRString × Subnet) => e.2.CIDR.Contains ip) hf
      rw [hres]
      refine ⟨⟨fun h => Option.noConfusion h, ?_⟩,
        fun huniq => ⟨fun h => Option.noConfusion h, ?_⟩, fun _ => hfail _ (by rw [hres])⟩
      · rintro ⟨k, s, al, h1, h2'⟩
        rw [hf] at h1
        obtain ⟨_, hs⟩ := Prod.mk.inj (Option.some.inj h1)
        subst hs
        rw [hno] at h2'
        exact Option.noConfusion h2'
      · rintro ⟨k, s, al, hk, hin2, h2'⟩
        have hkk := huniq k s key S hk hS hin2 hin
        subst hkk
        rw [hS] at hk
        have := Option.some.inj hk
        subst this
        rw [hno] at h2'
        exact Option.noConfusion h2'
    · have hS : mapGet sp.Subnets key = some S := rangeMap_mem (List.mem_of_find?_eq_some hf)
      have hin : S.CIDR.Contains ip = true :=
        List.find?_some (p := fun (e : CIDRString × Subnet) => e.2.CIDR.Contains ip) hf
      obtain ⟨al, hal⟩ := Option.isSome_iff_exists.1 hrec
      rw [hres]
      refine ⟨⟨fun _ => ⟨key, S, al, hf, hal⟩, fun _ => rfl⟩,
        fun _ => ⟨fun _ => ⟨key, S, al, hS, hin, hal⟩, fun _ => rfl⟩, fun hall => ?_⟩
      have := hall key S hS hin
      rw [hal] at this
      exact Option.noConfusion this

set_option maxRecDepth 8000 in
/-- C39 amended, instance: the nodes `n1` and `n2` are registered on the TOR `tor-1`, whose
pool has the one subnet `10.244.0.0/30`; the address `10.244.0.1` is allocated to `n1`, and
`ReleaseIPForNode` of it for `n2` succeeds. -/
theorem C39_release_ignores_owner_witness :
    TopologyAwarePool.ReachableFrom (CIDRString.v4 183762944 16)
      (TrackedTopo.run ⟨NewTopologyAwarePool (CIDRString.v4 183762944 16), []⟩
        [TopoOp.initializeTopology
          ⟨[⟨"z1", "zone-1", [], [⟨"p1", "pod-1", [],
            [⟨"tor-1", "tor-1", "rack-1", [⟨CIDRString.v4 183762944 30, "default"⟩]⟩]⟩]⟩]⟩,
          TopoOp.registerNode "n1" "node-1" "tor-1" [],
          TopoOp.registerNode "n2" "node-2" "tor-1" [],
          TopoOp.allocateIP "n1" "default" id id]) ∧
    IsMapOrder id ∧
    ((TrackedTopo.run ⟨NewTopologyAwarePool (CIDRString.v4 183762944 16), []⟩
        [TopoOp.initializeTopology
          ⟨[⟨"z1", "zone-1", [], [⟨"p1", "pod-1", [],
            [⟨"tor-1", "tor-1", "rack-1", [⟨CIDRString.v4 183762944 30, "default"⟩]⟩]⟩]⟩]⟩,
          TopoOp.registerNode "n1" "node-1" "tor-1" [],
          TopoOp.registerNode "n2" "node-2" "tor-1" [],
          TopoOp.allocateIP "n1" "default" id id]).pool.ReleaseIPForNode "n2"
        (IP.v4 183762945) id).2 = none := by
  have hvalid : ∀ op ∈ [TopoOp.initializeTopology
        ⟨[⟨"z1", "zone-1", [], [⟨"p1", "pod-1", [],
          [⟨"tor-1", "tor-1", "rack-1", [⟨CIDRString.v4 183762944 30, "default"⟩]⟩]⟩]⟩]⟩,
        TopoOp.registerNode "n1" "node-1" "tor-1" [],
        TopoOp.registerNode "n2" "node-2" "tor-1" [],
        TopoOp.allocateIP "n1" "default" id id], op.Valid := by
    intro op hop
    simp only [List.mem_cons, List.mem_singleton, List.mem_nil_iff, or_false] at hop
    rcases hop with rfl | rfl | rfl | rfl
    · exact trivial
    · exact trivial
    · exact trivial
    · exact ⟨IsMapOrder_id, IsMapOrder_id⟩
  have hr : TopologyAwarePool.ReachableFrom (CIDRString.v4 183762944 16)
      (TrackedTopo.run ⟨NewTopologyAwarePool (CIDRString.v4 183762944 16), []⟩
        [TopoOp.initializeTopology
          ⟨[⟨"z1", "zone-1", [], [⟨"p1", "pod-1", [],
            [⟨"tor-1", "tor-1", "rack-1", [⟨CIDRString.v4 183762944 30, "default"⟩]⟩]⟩]⟩]⟩,
          TopoOp.registerNode "n1" "node-1" "tor-1" [],
          TopoOp.registerNode "n2" "node-2" "tor-1" [],
          TopoOp.allocateIP "n1" "default" id id]) := ⟨_, hvalid, rfl⟩
  refine ⟨hr, IsMapOrder_id, ?_⟩
  exact ((C39_release_ignores_owner _ _ hr "n2" (IP.v4 183762945) id IsMapOrder_id).2.2
    (TOR.mk "tor-1" "tor-1" "p1" "rack-1" [CIDRString.v4 183762944 30] ["n1", "n2"])
    (SubnetPool.mk "tor-1" [(CIDRString.v4 183762944 30,
      Subnet.mk ⟨183762944, 30, 32⟩ "default" 2 1
        [(IP.v4 183762945, IPAllocation.mk (IP.v4 183762945) "n1" "" "" "")]
        (Bitmap.mk [1] 2 1))])
    (by decide) (by decide)).1.2
    ⟨CIDRString.v4 183762944 30, Subnet.mk ⟨183762944, 30, 32⟩ "default" 2 1
        [(IP.v4 183762945, IPAllocation.mk (IP.v4 183762945) "n1" "" "" "")]
        (Bitmap.mk [1] 2 1), IPAllocation.mk (IP.v4 183762945) "n1" "" "" "",
      by decide, by decide⟩

end ReleaseOwnerClaim

end Ipam
